import Mathlib

/-!
# EssenceFS: the extent allocator, the data stream engine and the directory engine

A shallow embedding of `src/kernel/esfs.cpp` (with the on-disk structures of
`src/util/esfs.cpp`), followed by theorems about it.

Conventions of the embedding.

* Machine integers are natural numbers.  A value stored into a 16-bit field is
  reduced with `u16`; a 64-bit subtraction that may wrap is `sub64`.  The sums
  of the block search (`findBlock`) and of the counter `superblock.blocksUsed`
  are reduced modulo `2 ^ 64`; other sums and products of 64-bit values are
  taken in `Nat`.
* The drive and the 64-byte union of a data attribute are byte memories
  (`Memory`); extents stored in either are little-endian, as on the target.
* A call that ends in `KernelPanic`, or that leaves the memory it owns, yields
  a `Fault` (a `DirectoryFault` in the directory code) instead of a result.
* The blocks of a directory are byte buffers that the code walks with
  `FindAttribute`; of the `Node` of a directory the embedding keeps what the
  directory code uses (`DirectoryNode`).
* The extent table of a group lives on the drive at `descriptor.extentTable`;
  the embedding keeps the live entries of the table that starts at a given
  block as a list (`EsFSVolume.extentTables`), apart from the data bytes.
-/

namespace EsFS

/-! ## Machine integers and byte memory -/

/-- Truncation to an unsigned 16-bit value. -/
def u16 (x : Nat) : Nat := x % 65536

/-- Subtraction of unsigned 64-bit values, wrapping modulo `2 ^ 64`. -/
def sub64 (a b : Nat) : Nat := (a + 18446744073709551616 - b % 18446744073709551616) % 18446744073709551616

/-- Subtraction whose result is stored in an unsigned 16-bit field. -/
def sub16 (a b : Nat) : Nat := (a + 65536 - b % 65536) % 65536

/-- Byte-addressed memory: the drive, or the bytes of an attribute. -/
abbrev Memory := Nat → Nat

/-- The `n` bytes of `m` starting at `addr`. -/
def readBytes (m : Memory) (addr n : Nat) : List Nat :=
  (List.range n).map (fun k => m (addr + k))

/-- Memory `m` after the bytes `src` have been copied to `addr`. -/
def writeBytes (m : Memory) (addr : Nat) (src : List Nat) : Memory :=
  fun a => if addr ≤ a ∧ a < addr + src.length then src.getD (a - addr) 0 else m a

/-- A little-endian `uint64_t` read from `addr`. -/
def readU64 (m : Memory) (addr : Nat) : Nat :=
  ((List.range 8).map (fun i => (m (addr + i) % 256) * 256 ^ i)).sum

/-- The eight little-endian bytes of a `uint64_t`. -/
def encodeU64 (x : Nat) : List Nat :=
  (List.range 8).map (fun i => x / 256 ^ i % 256)

/-! ## On-disk structures (`src/util/esfs.cpp`) -/

/-- `LocalExtent`: offset and count in blocks, relative to the group (both `uint16_t`). -/
structure EsFSLocalExtent where
  offset : Nat
  count : Nat
deriving DecidableEq, Repr, Inhabited

/-- `GlobalExtent`: offset and count in blocks, relative to the volume (both `uint64_t`). -/
structure EsFSGlobalExtent where
  offset : Nat
  count : Nat
deriving DecidableEq, Repr, Inhabited

/-- The fields of `Superblock` that the allocator and the stream engine use. -/
structure EsFSSuperblock where
  blockSize : Nat
  blockCount : Nat
  blocksUsed : Nat
  blocksPerGroup : Nat
  groupCount : Nat
  blocksPerGroupExtentTable : Nat
deriving DecidableEq, Repr, Inhabited

/-- `GroupDescriptor`. -/
structure EsFSGroupDescriptor where
  extentTable : Nat
  extentCount : Nat
  blocksUsed : Nat
deriving DecidableEq, Repr, Inhabited

/-- `DATA_INDIRECT`. -/
def ESFS_DATA_INDIRECT : Nat := 1
/-- `DATA_INDIRECT_2`. -/
def ESFS_DATA_INDIRECT_2 : Nat := 2
/-- `DATA_DIRECT`. -/
def ESFS_DATA_DIRECT : Nat := 4
/-- `INDIRECT_EXTENTS`. -/
def ESFS_INDIRECT_EXTENTS : Nat := 4
/-- `INDIRECT_2_EXTENTS`: the number of extent-list block pointers. -/
def ESFS_INDIRECT_2_BLOCKS : Nat := 8
/-- `DIRECT_BYTES`. -/
def ESFS_DIRECT_BYTES : Nat := 64
/-- `sizeof(GlobalExtent)`. -/
def sizeofGlobalExtent : Nat := 16
/-- `sizeof(LocalExtent)`. -/
def sizeofLocalExtent : Nat := 4

/-- `AttributeFileData`: `unionBytes` holds the 64 bytes shared by `indirect`,
`indirect2` and `direct`. -/
structure EsFSAttributeFileData where
  indirection : Nat
  extentCount : Nat
  size : Nat
  unionBytes : Memory

/-- A `GlobalExtent` read from memory at `addr`. -/
def readExtent (m : Memory) (addr : Nat) : EsFSGlobalExtent :=
  ⟨readU64 m addr, readU64 m (addr + 8)⟩

/-- The sixteen bytes of a `GlobalExtent`. -/
def encodeExtent (e : EsFSGlobalExtent) : List Nat :=
  encodeU64 e.offset ++ encodeU64 e.count

/-- `data->indirect[i]`. -/
def EsFSAttributeFileData.indirect (data : EsFSAttributeFileData) (i : Nat) : EsFSGlobalExtent :=
  readExtent data.unionBytes (i * sizeofGlobalExtent)

/-- `data->indirect2[i]`. -/
def EsFSAttributeFileData.indirect2 (data : EsFSAttributeFileData) (i : Nat) : Nat :=
  readU64 data.unionBytes (i * 8)

/-- Reasons for which a call does not return. -/
inductive Fault where
  | extentOverlap
  | extentTableTooLarge
  | couldNotFindBlock
  | unsupportedIndirection
  | outsideAttribute
  | outOfFuel
deriving DecidableEq, Repr

/-- `EsFSVolume`: the superblock, the group descriptor table, the extent tables
(keyed by the block they start at), and the drive with its geometry. -/
structure EsFSVolume where
  superblock : EsFSSuperblock
  groupDescriptorTable : Nat → EsFSGroupDescriptor
  extentTables : Nat → List EsFSLocalExtent
  disk : Memory
  sectorsPerBlock : Nat
  sectorSize : Nat
  maxAccessSectorCount : Nat

/-! ## Block access -/

/-- `EsFSVolume::BlocksNeededToStore`. -/
def BlocksNeededToStore (sb : EsFSSuperblock) (size : Nat) : Nat :=
  if size % sb.blockSize ≠ 0 then size / sb.blockSize + 1 else size / sb.blockSize

/-- `EsFSVolume::GetBlocksInGroup` (the result is a `uint16_t`). -/
def GetBlocksInGroup (sb : EsFSSuperblock) (group : Nat) : Nat :=
  if group = sub64 sb.groupCount 1 then u16 (sb.blockCount % sb.blocksPerGroup)
  else u16 sb.blocksPerGroup

/-- The byte address that `AccessBlock` hands to the drive. -/
def blockAddress (v : EsFSVolume) (block offsetIntoBlock : Nat) : Nat :=
  block * v.sectorsPerBlock * v.sectorSize + offsetIntoBlock

/-- Modelled from the spec: the block device port `drive->block.Access` is not
part of the sources; a read of `countBytes` bytes at a byte offset returns the
bytes of the drive there and always succeeds. -/
def driveRead (disk : Memory) (offsetBytes countBytes : Nat) : List Nat :=
  readBytes disk offsetBytes countBytes

/-- Modelled from the spec: the block device port `drive->block.Access` is not
part of the sources; a write stores the first `countBytes` bytes of the buffer
at the byte offset and always succeeds. -/
def driveWrite (disk : Memory) (offsetBytes countBytes : Nat) (buffer : List Nat) : Memory :=
  writeBytes disk offsetBytes (buffer.take countBytes)

/-- `EsFSVolume::AccessBlock` with `DRIVE_ACCESS_READ`. -/
def AccessBlockRead (v : EsFSVolume) (block countBytes offsetIntoBlock : Nat) : List Nat :=
  driveRead v.disk (blockAddress v block offsetIntoBlock) countBytes

/-- `EsFSVolume::AccessBlock` with `DRIVE_ACCESS_WRITE`. -/
def AccessBlockWrite (v : EsFSVolume) (block countBytes : Nat) (buffer : List Nat)
    (offsetIntoBlock : Nat) : EsFSVolume :=
  { v with disk := driveWrite v.disk (blockAddress v block offsetIntoBlock) countBytes buffer }

/-! ## The extent allocator -/

/-- The first `n` entries of a stored extent table, as loaded into `extentTableBuffer`. -/
def loadTable (stored : List EsFSLocalExtent) (n : Nat) : List EsFSLocalExtent :=
  (List.range n).map (fun i => stored.getD i default)

/-- The statement pair `extentCount--; extentTable[i] = extentTable[extentCount];`
on a table of `extentCount` entries. -/
def swapRemove (table : List EsFSLocalExtent) (i : Nat) : List EsFSLocalExtent :=
  (table.set i (table.getD (table.length - 1) default)).take (table.length - 1)

/-- The first loop of `AllocateExtent` over one table of `extentCount` entries:
the extent found (group relative) with the updated table and `extentCount`, if
an entry was large enough, and the final `largestSeenIndex`.  `uninit` is the value `extent.count` holds before it is
assigned. -/
def AllocateExtent.scan (table : List EsFSLocalExtent) (desiredBlocks uninit : Nat) :
    List EsFSLocalExtent → Nat → Nat →
      Option (EsFSGlobalExtent × List EsFSLocalExtent × Nat) × Nat
  | [], _, largestSeenIndex => (none, largestSeenIndex)
  | e :: rest, i, largestSeenIndex =>
    if e.count > desiredBlocks then
      (some (⟨e.offset, desiredBlocks⟩,
        table.set i ⟨u16 (e.offset + desiredBlocks), u16 (e.count - desiredBlocks)⟩,
        table.length), largestSeenIndex)
    else if e.count = desiredBlocks then
      (some (⟨e.offset, desiredBlocks⟩, swapRemove table i, table.length - 1), largestSeenIndex)
    else
      AllocateExtent.scan table desiredBlocks uninit rest (i + 1)
        (if uninit > (table.getD largestSeenIndex default).count then i else largestSeenIndex)

/-- The end of `AllocateExtent` from the label `finish`: make the extent global,
account for it and save the table.  The table is saved into `extentTables`,
the store of the tables; `disk` holds the other bytes of the drive. -/
def AllocateExtent.finish (v : EsFSVolume) (blockGroup : Nat) (descriptor : EsFSGroupDescriptor)
    (extent : EsFSGlobalExtent) (table : List EsFSLocalExtent) : EsFSGlobalExtent × EsFSVolume :=
  let extent : EsFSGlobalExtent :=
    ⟨extent.offset + blockGroup * v.superblock.blocksPerGroup, extent.count⟩
  let descriptor := { descriptor with blocksUsed := u16 (descriptor.blocksUsed + extent.count) }
  (extent,
    { v with
      superblock := { v.superblock with
        blocksUsed := (v.superblock.blocksUsed + extent.count) % 18446744073709551616 }
      groupDescriptorTable := Function.update v.groupDescriptorTable blockGroup descriptor
      extentTables := Function.update v.extentTables descriptor.extentTable table })

/-- The descriptor of a group once `AllocateExtent` has got hold of its extent
table: a group without a table (`extentTable == 0`) is given one at its first
block, with one extent and the table blocks in use. -/
def AllocateExtent.loadDescriptor (v : EsFSVolume) (blockGroup : Nat) : EsFSGroupDescriptor :=
  let sb := v.superblock
  let descriptor := v.groupDescriptorTable blockGroup
  if descriptor.extentTable = 0 then
    ⟨blockGroup * sb.blocksPerGroup, 1, u16 sb.blocksPerGroupExtentTable⟩
  else descriptor

/-- The extent table `AllocateExtent` works on in a group: the single extent
behind the table blocks for a group without a table, the loaded table otherwise. -/
def AllocateExtent.loadedTable (v : EsFSVolume) (blockGroup : Nat) : List EsFSLocalExtent :=
  let sb := v.superblock
  let descriptor := v.groupDescriptorTable blockGroup
  if descriptor.extentTable = 0 then
    [⟨u16 sb.blocksPerGroupExtentTable,
      sub16 (GetBlocksInGroup sb blockGroup) sb.blocksPerGroupExtentTable⟩]
  else loadTable (v.extentTables descriptor.extentTable) descriptor.extentCount

/-- The group loop of `AllocateExtent`; `remaining` is
`superblock.groupCount - groupsSearched`. -/
def AllocateExtent.search (v : EsFSVolume) (desiredBlocks uninit : Nat) :
    Nat → Nat → Except Fault (EsFSGlobalExtent × EsFSVolume)
  | 0, _ => .ok (⟨0, 0⟩, v)
  | remaining + 1, blockGroup =>
    let sb := v.superblock
    let descriptor := v.groupDescriptorTable blockGroup
    let next := (blockGroup + 1) % sb.groupCount
    if descriptor.blocksUsed = GetBlocksInGroup sb blockGroup then
      AllocateExtent.search v desiredBlocks uninit remaining next
    else if descriptor.extentCount * sizeofLocalExtent > sb.blocksPerGroupExtentTable * sb.blockSize then
      .error .extentTableTooLarge
    else
      let descriptor := AllocateExtent.loadDescriptor v blockGroup
      let table := AllocateExtent.loadedTable v blockGroup
      match AllocateExtent.scan table desiredBlocks uninit table 0 0 with
      | (some (extent, table, extentCount), _) =>
        .ok (AllocateExtent.finish v blockGroup { descriptor with extentCount := extentCount }
          extent table)
      | (none, largestSeenIndex) =>
        if descriptor.extentCount = 0 then
          AllocateExtent.search v desiredBlocks uninit remaining next
        else
          let e := table.getD largestSeenIndex default
          .ok (AllocateExtent.finish v blockGroup
            { descriptor with extentCount := descriptor.extentCount - 1 }
            ⟨e.offset, e.count⟩ (swapRemove table largestSeenIndex))

/-- `EsFSVolume::AllocateExtent`. -/
def AllocateExtent (v : EsFSVolume) (localGroup desiredBlocks uninit : Nat) :
    Except Fault (EsFSGlobalExtent × EsFSVolume) :=
  AllocateExtent.search v desiredBlocks uninit v.superblock.groupCount localGroup

/-- The merge loop of `FreeExtent`; each step either advances `i` or removes a
table entry, so `fuel` starts at the number of entries. -/
def FreeExtent.merge : Nat → List EsFSLocalExtent → Nat → EsFSLocalExtent →
    Except Fault (List EsFSLocalExtent × EsFSLocalExtent)
  | 0, table, _, freeExtent => .ok (table, freeExtent)
  | fuel + 1, table, i, freeExtent =>
    if i < table.length then
      let extent := table.getD i default
      if (extent.offset + extent.count > freeExtent.offset
            ∧ extent.offset + extent.count < freeExtent.offset + freeExtent.count)
          ∨ (freeExtent.offset + freeExtent.count > extent.offset
            ∧ freeExtent.offset + freeExtent.count < extent.offset + extent.count) then
        .error .extentOverlap
      else if extent.offset + extent.count = freeExtent.offset then
        FreeExtent.merge fuel (swapRemove table i) i
          ⟨extent.offset, u16 (freeExtent.count + extent.count)⟩
      else if freeExtent.offset + freeExtent.count = extent.offset then
        FreeExtent.merge fuel (swapRemove table i) i
          ⟨freeExtent.offset, u16 (freeExtent.count + extent.count)⟩
      else
        FreeExtent.merge fuel table (i + 1) freeExtent
    else .ok (table, freeExtent)

/-- `EsFSVolume::FreeExtent`.  The table is loaded from and saved into
`extentTables`, the store of the tables; `disk` holds the other bytes of the
drive. -/
def FreeExtent (v : EsFSVolume) (extent : EsFSGlobalExtent) : Except Fault EsFSVolume :=
  let sb := v.superblock
  let blockGroup := extent.offset / sb.blocksPerGroup
  let descriptor := v.groupDescriptorTable blockGroup
  let blocksUsed := sub16 descriptor.blocksUsed extent.count
  let table := loadTable (v.extentTables descriptor.extentTable) descriptor.extentCount
  let freeExtent : EsFSLocalExtent := ⟨u16 (extent.offset % sb.blocksPerGroup), u16 extent.count⟩
  match FreeExtent.merge table.length table 0 freeExtent with
  | .error f => .error f
  | .ok (table, freeExtent) =>
    let table := table ++ [freeExtent]
    let extentCount := u16 table.length
    if extentCount * sizeofLocalExtent > sb.blocksPerGroupExtentTable * sb.blockSize then
      .error .extentTableTooLarge
    else
      .ok { v with
        superblock := { sb with blocksUsed := sub64 sb.blocksUsed extent.count }
        groupDescriptorTable := Function.update v.groupDescriptorTable blockGroup
          ⟨descriptor.extentTable, extentCount, blocksUsed⟩
        extentTables := Function.update v.extentTables descriptor.extentTable table }

/-! ## Data streams -/

/-- The value of `offset & ~(superblock.blockSize - 1)`. -/
def alignToBlock (sb : EsFSSuperblock) (offset : Nat) : Nat :=
  offset &&& (18446744073709551615 - sub64 sb.blockSize 1)

/-- The number of `GlobalExtent`s in a block, `blockSize / sizeof(GlobalExtent)`. -/
def extentsPerBlock (sb : EsFSSuperblock) : Nat := sb.blockSize / sizeofGlobalExtent

/-- The buffer `i2ExtentList` after every block named by a non-zero
`indirect2[i]` has been read to `i2ExtentList + i * extentsPerBlock`. -/
def loadExtentList (v : EsFSVolume) (data : EsFSAttributeFileData) : Memory :=
  (List.range ESFS_INDIRECT_2_BLOCKS).foldl
    (fun buffer i =>
      if data.indirect2 i ≠ 0 then
        writeBytes buffer (i * extentsPerBlock v.superblock * sizeofGlobalExtent)
          (AccessBlockRead v (data.indirect2 i) v.superblock.blockSize 0)
      else buffer)
    (fun _ => 0)

/-- The loop that maps a block of the stream to a global block: `extent i` is
the `i`-th extent of the list, `fuel` the number of extents still to visit,
`p` the number of blocks in the extents already passed.  The variables are
`uint64_t`: `p + count` and `offset + blockInStream - p` wrap modulo `2 ^ 64`. -/
def findBlock (extent : Nat → EsFSGlobalExtent) (blockInStream : Nat) : Nat → Nat → Nat → Nat
  | 0, _, _ => 0
  | fuel + 1, i, p =>
    if blockInStream < (p + (extent i).count) % 18446744073709551616 then
      sub64 (((extent i).offset + blockInStream) % 18446744073709551616) p
    else
      findBlock extent blockInStream fuel (i + 1) ((p + (extent i).count) % 18446744073709551616)

/-- The extent list a stream is read through: `indirect` itself, or the
materialised `i2ExtentList`. -/
def extentList (v : EsFSVolume) (data : EsFSAttributeFileData) : Nat → EsFSGlobalExtent :=
  if data.indirection = ESFS_DATA_INDIRECT_2 then
    fun i => readExtent (loadExtentList v data) (i * sizeofGlobalExtent)
  else data.indirect

/-- The block search of `AccessStream` and `GetBlockFromStream` for a stream
that is not direct: the global block of a block of the stream, 0 if none. -/
def streamBlock (v : EsFSVolume) (data : EsFSAttributeFileData) (blockInStream : Nat) : Nat :=
  findBlock (extentList v data) blockInStream data.extentCount 0 0

/-- `EsFSVolume::GetBlockFromStream`. -/
def GetBlockFromStream (v : EsFSVolume) (data : EsFSAttributeFileData) (offset : Nat) :
    Except Fault Nat :=
  if data.indirection = ESFS_DATA_DIRECT then .ok 0
  else
    let offsetBlockAligned := alignToBlock v.superblock offset
    let blockInStream := offsetBlockAligned / v.superblock.blockSize
    if data.indirection = ESFS_DATA_INDIRECT ∨ data.indirection = ESFS_DATA_INDIRECT_2 then
      .ok (streamBlock v data blockInStream)
    else .error .unsupportedIndirection

/-- One call of `AccessBlock` made by `AccessStream`. -/
structure StreamAccess where
  globalBlock : Nat
  dataToTransfer : Nat
  offsetIntoBlock : Nat
deriving DecidableEq, Repr

/-- The inner loop of `AccessStream`, which gathers a run of contiguous blocks.
The result is `(globalBlock, blocksFound, blockInStream, sizeBlocks)` at its exit. -/
def AccessStream.gather (lookup : Nat → Nat) (maxBlocksToFind : Nat) :
    Nat → Nat → Nat → Nat → Nat × Nat × Nat × Nat
  | 0, blockInStream, globalBlock, blocksFound => (globalBlock, blocksFound, blockInStream, 0)
  | sizeBlocks + 1, blockInStream, globalBlock, blocksFound =>
    if blocksFound < maxBlocksToFind then
      let nextGlobalBlock := lookup blockInStream
      if globalBlock = 0 then
        AccessStream.gather lookup maxBlocksToFind sizeBlocks (blockInStream + 1)
          nextGlobalBlock (blocksFound + 1)
      else if nextGlobalBlock = globalBlock + blocksFound then
        AccessStream.gather lookup maxBlocksToFind sizeBlocks (blockInStream + 1)
          globalBlock (blocksFound + 1)
      else (globalBlock, blocksFound, blockInStream, sizeBlocks + 1)
    else (globalBlock, blocksFound, blockInStream, sizeBlocks + 1)

/-- The outer loop of `AccessStream`: the accesses it makes, in order.  Every
pass takes at least one block, so `fuel` starts at `sizeBlocks`. -/
def AccessStream.accesses (lookup : Nat → Nat) (maxBlocksToFind blockSize offsetInFirstBlock : Nat) :
    Nat → Nat → Nat → Nat → Nat → Except Fault (List StreamAccess)
  | _, 0, _, _, _ => .ok []
  | 0, _ + 1, _, _, _ => .error .outOfFuel
  | fuel + 1, sizeBlocks + 1, blockInStream, size, i =>
    match AccessStream.gather lookup maxBlocksToFind (sizeBlocks + 1) blockInStream 0 0 with
    | (globalBlock, blocksFound, blockInStream, sizeBlocks) =>
      if globalBlock = 0 then .error .couldNotFindBlock
      else
        let offsetIntoBlock := if i = 0 then offsetInFirstBlock else 0
        let dataToTransfer := sub64 (blockSize * blocksFound) offsetIntoBlock
        let dataToTransfer := if sizeBlocks = 0 then size else dataToTransfer
        match AccessStream.accesses lookup maxBlocksToFind blockSize offsetInFirstBlock
            fuel sizeBlocks blockInStream (sub64 size dataToTransfer) (i + 1) with
        | .error f => .error f
        | .ok rest => .ok (⟨globalBlock, dataToTransfer, offsetIntoBlock⟩ :: rest)

/-- The reads of `AccessStream`, appended in order. -/
def AccessStream.readAll (v : EsFSVolume) : List StreamAccess → List Nat
  | [] => []
  | a :: rest =>
    AccessBlockRead v a.globalBlock a.dataToTransfer a.offsetIntoBlock ++ AccessStream.readAll v rest

/-- The writes of `AccessStream`, each taking the next bytes of `buffer`. -/
def AccessStream.writeAll : EsFSVolume → List StreamAccess → List Nat → EsFSVolume
  | v, [], _ => v
  | v, a :: rest, buffer =>
    AccessStream.writeAll (AccessBlockWrite v a.globalBlock a.dataToTransfer buffer a.offsetIntoBlock)
      rest (buffer.drop a.dataToTransfer)

/-- The accesses `AccessStream` makes for a stream that is not direct. -/
def AccessStream.plan (v : EsFSVolume) (data : EsFSAttributeFileData) (offset size : Nat) :
    Except Fault (List StreamAccess) :=
  let sb := v.superblock
  let offsetBlockAligned := alignToBlock sb offset
  let sizeBlocks := BlocksNeededToStore sb (size + (offset - offsetBlockAligned))
  let blockInStream := offsetBlockAligned / sb.blockSize
  let maxBlocksToFind := v.maxAccessSectorCount * v.sectorSize / sb.blockSize
  if data.indirection = ESFS_DATA_INDIRECT ∨ data.indirection = ESFS_DATA_INDIRECT_2 then
    AccessStream.accesses (streamBlock v data) maxBlocksToFind sb.blockSize
      (offset - offsetBlockAligned) sizeBlocks sizeBlocks blockInStream size 0
  else if sizeBlocks = 0 then .ok []
  else if maxBlocksToFind = 0 then .error .couldNotFindBlock
  else .error .unsupportedIndirection

/-- `EsFSVolume::AccessStream`.  The result holds the attribute and the volume
after the call and, for a read, the `size` bytes stored in the buffer. -/
def AccessStream (v : EsFSVolume) (data : EsFSAttributeFileData) (offset size : Nat)
    (buffer : List Nat) (write : Bool) :
    Except Fault (EsFSAttributeFileData × EsFSVolume × List Nat) :=
  if size = 0 then .ok (data, v, [])
  else if data.indirection = ESFS_DATA_DIRECT then
    if offset + size > ESFS_DIRECT_BYTES then .error .outsideAttribute
    else if write then
      .ok ({ data with unionBytes := writeBytes data.unionBytes offset (buffer.take size) }, v, [])
    else .ok (data, v, readBytes data.unionBytes offset size)
  else
    match AccessStream.plan v data offset size with
    | .error f => .error f
    | .ok accesses =>
      if write then .ok (data, AccessStream.writeAll v accesses buffer, [])
      else .ok (data, v, AccessStream.readAll v accesses)

/-! ## Resizing a data stream -/

/-- The assignment `data->indirect[i] = extent`. -/
def EsFSAttributeFileData.setIndirect (data : EsFSAttributeFileData) (i : Nat)
    (extent : EsFSGlobalExtent) : EsFSAttributeFileData :=
  { data with unionBytes := writeBytes data.unionBytes (i * sizeofGlobalExtent) (encodeExtent extent) }

/-- The assignment `data->indirect2[i] = block`. -/
def EsFSAttributeFileData.setIndirect2 (data : EsFSAttributeFileData) (i block : Nat) :
    EsFSAttributeFileData :=
  { data with unionBytes := writeBytes data.unionBytes (i * 8) (encodeU64 block) }

/-- The assignment `list[i] = extent` on an extent list held in memory. -/
def setExtent (list : Memory) (i : Nat) (extent : EsFSGlobalExtent) : Memory :=
  writeBytes list (i * sizeofGlobalExtent) (encodeExtent extent)

/-- The part of `ShrinkDataStream` that loads the extent list. -/
def ShrinkDataStream.loadList (v : EsFSVolume) (data : EsFSAttributeFileData) : Memory :=
  if data.indirection = ESFS_DATA_INDIRECT_2 then loadExtentList v data
  else if data.indirection = ESFS_DATA_INDIRECT then
    writeBytes (fun _ => 0) 0 (readBytes data.unionBytes 0 (sizeofGlobalExtent * data.extentCount))
  else fun _ => 0

/-- The loop of `ShrinkDataStream` that finds the first extent that is not
completely needed; the result is `(block, i)` at its exit. -/
def ShrinkDataStream.findFirst (list : Memory) (newBlocks extentCount : Nat) : Nat → Nat → Nat → Nat × Nat
  | 0, block, i => (block, i)
  | fuel + 1, block, i =>
    if i < extentCount then
      if block + (readExtent list (i * sizeofGlobalExtent)).count > newBlocks then (block, i)
      else ShrinkDataStream.findFirst list newBlocks extentCount fuel
        (block + (readExtent list (i * sizeofGlobalExtent)).count) (i + 1)
    else (block, i)

/-- The loop `for (; i < data->extentCount; i++) FreeExtent(extentList[i]);`,
with `n` extents left to free. -/
def ShrinkDataStream.freeRest (list : Memory) : Nat → Nat → EsFSVolume → Except Fault EsFSVolume
  | 0, _, v => .ok v
  | n + 1, i, v =>
    match FreeExtent v (readExtent list (i * sizeofGlobalExtent)) with
    | .error f => .error f
    | .ok v => ShrinkDataStream.freeRest list n (i + 1) v

/-- The loop of `ShrinkDataStream` that frees the extent-list blocks that are
no longer needed, with `n` slots left to visit. -/
def ShrinkDataStream.freeListBlocks : Nat → Nat → EsFSAttributeFileData → EsFSVolume →
    Except Fault (EsFSAttributeFileData × EsFSVolume)
  | 0, _, data, v => .ok (data, v)
  | n + 1, i, data, v =>
    if data.indirect2 i ≠ 0 then
      match FreeExtent v ⟨data.indirect2 i, 1⟩ with
      | .error f => .error f
      | .ok v => ShrinkDataStream.freeListBlocks n (i + 1) (data.setIndirect2 i 0) v
    else ShrinkDataStream.freeListBlocks n (i + 1) data v

/-- The part of `ShrinkDataStream` that finds the first extent that is not
completely needed and frees the portion of it that is not needed; the result
is the volume, the extent list and the index `i` after it. -/
def ShrinkDataStream.cut (v : EsFSVolume) (list : Memory) (newBlocks extentCount : Nat) :
    Except Fault (EsFSVolume × Memory × Nat) :=
  match ShrinkDataStream.findFirst list newBlocks extentCount extentCount 0 0 with
  | (block, i) =>
    let straddling := readExtent list (i * sizeofGlobalExtent)
    if newBlocks ≠ block then
      (FreeExtent v ⟨straddling.offset + (newBlocks - block),
          sub64 straddling.count (newBlocks - block)⟩).map
        (fun v => (v, setExtent list i ⟨straddling.offset, newBlocks - block⟩, i + 1))
    else .ok (v, list, i)

/-- The part of `ShrinkDataStream` that saves the updated extent list, in the
attribute or in the last list block that is still needed. -/
def ShrinkDataStream.store (sb : EsFSSuperblock) (data : EsFSAttributeFileData) (v : EsFSVolume)
    (list : Memory) : Except Fault (EsFSAttributeFileData × EsFSVolume) :=
  if data.extentCount ≤ ESFS_INDIRECT_EXTENTS then
    .ok ({ data with
        indirection := ESFS_DATA_INDIRECT
        unionBytes := writeBytes data.unionBytes 0
          (readBytes list 0 (data.extentCount * sizeofGlobalExtent)) }, v)
  else
    let neededExtentListBlocks :=
      BlocksNeededToStore sb (data.extentCount * sizeofGlobalExtent)
    match ShrinkDataStream.freeListBlocks
        (ESFS_INDIRECT_2_BLOCKS - neededExtentListBlocks)
        neededExtentListBlocks data v with
    | .error f => .error f
    | .ok (data, v) =>
      .ok (data, AccessBlockWrite v (data.indirect2 (neededExtentListBlocks - 1))
        sb.blockSize
        (readBytes list
          ((neededExtentListBlocks - 1) * extentsPerBlock sb * sizeofGlobalExtent)
          sb.blockSize) 0)

/-- `EsFSVolume::ShrinkDataStream`. -/
def ShrinkDataStream (v : EsFSVolume) (data : EsFSAttributeFileData) (newSize : Nat) :
    Except Fault (Bool × EsFSAttributeFileData × EsFSVolume) :=
  if data.indirection = ESFS_DATA_DIRECT then .ok (true, data, v)
  else
    let sb := v.superblock
    let oldSize := data.size
    match (if newSize ≤ ESFS_DIRECT_BYTES then AccessStream v data 0 newSize [] false
           else .ok (data, v, [])) with
    | .error f => .error f
    | .ok (_, _, directBuffer) =>
      let oldBlocks := BlocksNeededToStore sb oldSize
      let newBlocks := BlocksNeededToStore sb newSize
      if oldBlocks = newBlocks then .ok (true, { data with size := newSize }, v)
      else
        let list := ShrinkDataStream.loadList v data
        match ShrinkDataStream.cut v list newBlocks data.extentCount with
        | .error f => .error f
        | .ok (v, list, i) =>
          let newExtentCount := i
          match ShrinkDataStream.freeRest list (data.extentCount - i) i v with
          | .error f => .error f
          | .ok v =>
            match ShrinkDataStream.store sb { data with extentCount := u16 newExtentCount }
                v list with
            | .error f => .error f
            | .ok (data, v) =>
              let data :=
                if newSize ≤ ESFS_DIRECT_BYTES then
                  { data with
                    indirection := ESFS_DATA_DIRECT
                    extentCount := 0
                    unionBytes := writeBytes data.unionBytes 0 (directBuffer.take newSize) }
                else data
              .ok (true, { data with size := newSize }, v)

/-- The state of the allocation loop of `GrowDataStream`: the volume, the
attribute, `newExtentList` (if allocated) and `firstModifiedExtentListBlock`. -/
structure GrowState where
  v : EsFSVolume
  data : EsFSAttributeFileData
  newExtentList : Option Memory
  firstModifiedExtentListBlock : Nat

/-- The `switch` of the allocation loop of `GrowDataStream`, which records
`newExtent`; the flag is `false` where the code returns `false`. -/
def GrowDataStream.append (st : GrowState) (newExtent : EsFSGlobalExtent) : Bool × GrowState :=
  let sb := st.v.superblock
  let data := st.data
  let extentListMaxSize := ESFS_INDIRECT_2_BLOCKS * extentsPerBlock sb
  if data.indirection = ESFS_DATA_INDIRECT then
    if data.extentCount ≠ ESFS_INDIRECT_EXTENTS then
      (true, { st with
        data := { (data.setIndirect data.extentCount newExtent) with
          extentCount := u16 (data.extentCount + 1) } })
    else
      let list : Memory :=
        writeBytes (fun _ => 0) 0
          (readBytes data.unionBytes 0 (ESFS_INDIRECT_EXTENTS * sizeofGlobalExtent))
      (true, { st with
        newExtentList := some (setExtent list data.extentCount newExtent)
        data := { data with
          indirection := ESFS_DATA_INDIRECT_2
          extentCount := u16 (data.extentCount + 1)
          unionBytes := writeBytes data.unionBytes 0
            (List.replicate (ESFS_INDIRECT_EXTENTS * sizeofGlobalExtent) 0) } })
  else if data.indirection = ESFS_DATA_INDIRECT_2 then
    let (list, firstModified) : Memory × Nat :=
      match st.newExtentList with
      | some list => (list, st.firstModifiedExtentListBlock)
      | none =>
        let firstModified :=
          sub64 (BlocksNeededToStore sb (data.extentCount * sizeofGlobalExtent)) 1
        (writeBytes (fun _ => 0) (firstModified * extentsPerBlock sb * sizeofGlobalExtent)
          (AccessBlockRead st.v (data.indirect2 firstModified) sb.blockSize 0), firstModified)
    let st := { st with
      newExtentList := some (setExtent list data.extentCount newExtent)
      firstModifiedExtentListBlock := firstModified
      data := { data with extentCount := u16 (data.extentCount + 1) } }
    (decide (¬ extentListMaxSize ≤ st.data.extentCount), st)
  else (true, st)

/-- The allocation loop of `GrowDataStream`.  Every pass allocates at least one
block, so `fuel` starts at `increaseBlocks`; `uninit k` is the indeterminate
value met by the `k`-th call of `AllocateExtent`. -/
def GrowDataStream.allocate (clearNewBlocks : Bool) (containerBlock : Nat) :
    Nat → (Nat → Nat) → Nat → GrowState → Except Fault (Bool × GrowState × (Nat → Nat))
  | _, uninit, 0, st => .ok (true, st, uninit)
  | 0, _, _ + 1, _ => .error .outOfFuel
  | fuel + 1, uninit, increaseBlocks + 1, st =>
    let sb := st.v.superblock
    match AllocateExtent st.v (containerBlock / sb.blocksPerGroup) (increaseBlocks + 1) (uninit 0) with
    | .error f => .error f
    | .ok (newExtent, v) =>
      let uninit := fun k => uninit (k + 1)
      if newExtent.count = 0 then .ok (false, { st with v := v }, uninit)
      else
        let v :=
          if clearNewBlocks then
            AccessBlockWrite v newExtent.offset (sb.blockSize * newExtent.count)
              (List.replicate (sb.blockSize * newExtent.count) 0) 0
          else v
        match GrowDataStream.append { st with v := v } newExtent with
        | (false, st) => .ok (false, st, uninit)
        | (true, st) =>
          GrowDataStream.allocate clearNewBlocks containerBlock fuel uninit
            (sub64 (increaseBlocks + 1) newExtent.count) st

/-- The loop of `GrowDataStream` that stores the extent list, with `n` list
blocks left to write. -/
def GrowDataStream.saveList (containerBlock : Nat) (list : Memory) :
    Nat → Nat → (Nat → Nat) → EsFSAttributeFileData → EsFSVolume →
      Except Fault (Bool × EsFSAttributeFileData × EsFSVolume × (Nat → Nat))
  | 0, _, uninit, data, v => .ok (true, data, v, uninit)
  | n + 1, i, uninit, data, v =>
    let sb := v.superblock
    let write (data : EsFSAttributeFileData) (v : EsFSVolume) : EsFSVolume :=
      AccessBlockWrite v (data.indirect2 i) sb.blockSize
        (readBytes list (i * extentsPerBlock sb * sizeofGlobalExtent) sb.blockSize) 0
    if data.indirect2 i = 0 then
      match AllocateExtent v (containerBlock / sb.blocksPerGroup) 1 (uninit 0) with
      | .error f => .error f
      | .ok (extent, v) =>
        let uninit := fun k => uninit (k + 1)
        let data := data.setIndirect2 i extent.offset
        if extent.count = 0 then .ok (false, data, v, uninit)
        else GrowDataStream.saveList containerBlock list n (i + 1) uninit data (write data v)
    else GrowDataStream.saveList containerBlock list n (i + 1) uninit data (write data v)

/-- The body of `GrowDataStream` from the allocation loop on: allocate
`increaseBlocks` blocks, store the extent list if one was made, copy the former
direct bytes into the stream and set the new size. -/
def GrowDataStream.extend (v : EsFSVolume) (data : EsFSAttributeFileData) (wasDirect : Bool)
    (oldSize : Nat) (directTemporary : List Nat) (increaseBlocks newSize : Nat)
    (clearNewBlocks : Bool) (containerBlock : Nat) (uninit : Nat → Nat) :
    Except Fault (Bool × EsFSAttributeFileData × EsFSVolume) :=
  let sb := v.superblock
  match GrowDataStream.allocate clearNewBlocks containerBlock increaseBlocks uninit increaseBlocks
      ⟨v, data, none, 0⟩ with
  | .error f => .error f
  | .ok (false, st, _) => .ok (false, st.data, st.v)
  | .ok (true, st, uninit) =>
    match (match st.newExtentList with
           | none => (.ok (true, st.data, st.v, uninit)
               : Except Fault (Bool × EsFSAttributeFileData × EsFSVolume × (Nat → Nat)))
           | some list =>
             let blocksNeeded := BlocksNeededToStore sb (st.data.extentCount * sizeofGlobalExtent)
             GrowDataStream.saveList containerBlock list
               (blocksNeeded - st.firstModifiedExtentListBlock) st.firstModifiedExtentListBlock
               uninit st.data st.v) with
    | .error f => .error f
    | .ok (false, data, v, _) => .ok (false, data, v)
    | .ok (true, data, v, _) =>
      match (if wasDirect ∧ oldSize ≠ 0 then AccessStream v data 0 oldSize directTemporary true
             else .ok (data, v, [])) with
      | .error f => .error f
      | .ok (data, v, _) => .ok (true, { data with size := newSize }, v)

/-- `EsFSVolume::GrowDataStream`. -/
def GrowDataStream (v : EsFSVolume) (data : EsFSAttributeFileData) (newSize : Nat)
    (clearNewBlocks : Bool) (containerBlock : Nat) (uninit : Nat → Nat) :
    Except Fault (Bool × EsFSAttributeFileData × EsFSVolume) :=
  let sb := v.superblock
  let oldSize := data.size
  let oldBlocks := BlocksNeededToStore sb oldSize
  let newBlocks := BlocksNeededToStore sb newSize
  if data.indirection = ESFS_DATA_DIRECT ∧ newSize ≤ ESFS_DIRECT_BYTES then
    .ok (true,
      (if clearNewBlocks then
        { data with
          unionBytes :=
            writeBytes data.unionBytes oldSize (List.replicate (sub64 newSize oldSize) 0) }
       else data), v)
  else if data.indirection = ESFS_DATA_DIRECT ∧ oldSize > ESFS_DIRECT_BYTES then
    .error .outsideAttribute
  else
    let wasDirect := decide (data.indirection = ESFS_DATA_DIRECT)
    let directTemporary := readBytes data.unionBytes 0 oldSize
    let oldBlocks := if wasDirect then 0 else oldBlocks
    let data := if wasDirect then { data with indirection := ESFS_DATA_INDIRECT } else data
    GrowDataStream.extend v data wasDirect oldSize directTemporary (sub64 newBlocks oldBlocks)
      newSize clearNewBlocks containerBlock uninit

/-- `EsFSVolume::ResizeDataStream`. -/
def ResizeDataStream (v : EsFSVolume) (data : EsFSAttributeFileData) (newSize : Nat)
    (clearNewBlocks : Bool) (containerBlock : Nat) (uninit : Nat → Nat) :
    Except Fault (Bool × EsFSAttributeFileData × EsFSVolume) :=
  if newSize > data.size then GrowDataStream v data newSize clearNewBlocks containerBlock uninit
  else if newSize < data.size then ShrinkDataStream v data newSize
  else .ok (true, data, v)

/-! ## Directories

The structures of a directory block are those of `src/util/esfs.cpp` (the
kernel uses the same layout under the prefix `EsFS`/`ESFS_`); sizes and offsets
are those of the x86-64 ABI.
-/

/-- `ATTRIBUTE_LIST_END`. -/
def ESFS_ATTRIBUTE_LIST_END : Nat := 65535
/-- `ATTRIBUTE_FILE_DATA`. -/
def ESFS_ATTRIBUTE_FILE_DATA : Nat := 2
/-- `ATTRIBUTE_FILE_DIRECTORY`. -/
def ESFS_ATTRIBUTE_FILE_DIRECTORY : Nat := 3
/-- `ATTRIBUTE_DIRECTORY_NAME`. -/
def ESFS_ATTRIBUTE_DIRECTORY_NAME : Nat := 1
/-- `ATTRIBUTE_DIRECTORY_FILE`. -/
def ESFS_ATTRIBUTE_DIRECTORY_FILE : Nat := 2
/-- `FILE_TYPE_FILE`. -/
def ESFS_FILE_TYPE_FILE : Nat := 1
/-- `FILE_TYPE_DIRECTORY`. -/
def ESFS_FILE_TYPE_DIRECTORY : Nat := 2
/-- `STREAM_DEFAULT`. -/
def ESFS_STREAM_DEFAULT : Nat := 0
/-- `DIRECTORY_ENTRY_SIGNATURE`, the bytes of "DirEntry". -/
def ESFS_DIRECTORY_ENTRY_SIGNATURE : List Nat := [68, 105, 114, 69, 110, 116, 114, 121]
/-- `FILE_ENTRY_SIGNATURE`, the bytes of "FileEsFS". -/
def ESFS_FILE_ENTRY_SIGNATURE : List Nat := [70, 105, 108, 101, 69, 115, 70, 83]
/-- `sizeof(AttributeHeader)`: `type` at 0, `size` at 2. -/
def sizeofAttributeHeader : Nat := 4
/-- `sizeof(DirectoryEntry)`: the signature. -/
def sizeofDirectoryEntry : Nat := 8
/-- `sizeof(AttributeDirectoryName)`: header, `nameLength` at 4, one byte of padding. -/
def sizeofAttributeDirectoryName : Nat := 6
/-- `sizeof(AttributeDirectoryFile)`: the header. -/
def sizeofAttributeDirectoryFile : Nat := 4
/-- `sizeof(FileEntry)`: signature at 0, identifier at 8, `fileType` at 24,
`creationTime` at 32, `modificationTime` at 40. -/
def sizeofFileEntry : Nat := 48
/-- `sizeof(AttributeFileData)`: header, `stream` at 4, `indirection` at 5,
`extentCount` at 6, `size` at 8, the union at 16. -/
def sizeofAttributeFileData : Nat := 80
/-- `sizeof(AttributeFileDirectory)`: header, `itemsInDirectory` at 8,
`spaceAvailableInLastBlock` at 16. -/
def sizeofAttributeFileDirectory : Nat := 24

/-- Reasons for which a call of the directory code does not return: a panic of
the stream code, a panic of the directory code, the use of a null pointer
returned by `FindAttribute`, a read outside of the block buffer, or a loop
that does not end. -/
inductive DirectoryFault where
  | stream (f : Fault)
  | noDirectoryAttribute
  | noDataAttribute
  | itemsButNoBytes
  | invalidSignature
  | entryTooLarge
  | nullAttribute
  | outsideBuffer
  | outOfFuel
deriving DecidableEq, Repr

/-- A little-endian `uint16_t` read from `addr`. -/
def readU16 (m : Memory) (addr : Nat) : Nat :=
  m addr % 256 + m (addr + 1) % 256 * 256

/-- Memory `m` after the `uint16_t` `x` has been stored at `addr`. -/
def writeU16 (m : Memory) (addr x : Nat) : Memory :=
  writeBytes m addr [x % 256, x / 256 % 256]

/-- A buffer of bytes as a memory. -/
def bufferMemory (buffer : List Nat) : Memory := fun a => buffer.getD a 0

/-- `EsFSVolume::FindAttribute` on the attribute list that starts at `header`
in a buffer of `limit` bytes; the result is the offset of the header found.
Every pass of the loop uses one unit of `fuel`. -/
def FindAttribute (attributeType : Nat) (attributeList : Memory) (limit : Nat) :
    Nat → Nat → Except DirectoryFault (Option Nat)
  | 0, _ => .error .outOfFuel
  | fuel + 1, header =>
    if header + sizeofAttributeHeader ≤ limit then
      if readU16 attributeList header ≠ ESFS_ATTRIBUTE_LIST_END then
        if readU16 attributeList header = attributeType then .ok (some header)
        else
          FindAttribute attributeType attributeList limit fuel
            (header + readU16 attributeList (header + 2))
      else if attributeType = ESFS_ATTRIBUTE_LIST_END then .ok (some header)
      else .ok none
    else .error .outsideBuffer

/-- The length of the directory entry at `entry`, as the code computes it:
`end->size + (uintptr_t) end - (uintptr_t) entry` for
`end = FindAttribute(ESFS_ATTRIBUTE_LIST_END, entry + 1)`. -/
def entrySizeAt (buffer : Memory) (limit entry : Nat) : Except DirectoryFault Nat :=
  match FindAttribute ESFS_ATTRIBUTE_LIST_END buffer limit limit (entry + sizeofDirectoryEntry) with
  | .error f => .error f
  | .ok none => .error .nullAttribute
  | .ok (some e) => .ok (readU16 buffer (e + 2) + e - entry)

/-- What the directory code uses of the `Node` of an open directory:
`containerBlock` of its `EsFSFile` and, in the file entry kept behind it, the
FILE_DATA attribute and `itemsInDirectory` of the FILE_DIRECTORY attribute
(`none` when `FindAttribute` finds no such attribute). -/
structure DirectoryNode where
  containerBlock : Nat
  data : Option EsFSAttributeFileData
  itemsInDirectory : Option Nat

/-- `OSNodeType`, as far as the file system uses it. -/
inductive OSNodeType where
  | file
  | directory
  | invalid
deriving DecidableEq, Repr

/-- `OSDirectoryChild` as filled by `Enumerate`: the name, the type, and the
file size or the number of children. -/
structure OSDirectoryChild where
  name : List Nat
  type : OSNodeType
  information : Nat
deriving DecidableEq, Repr

/-- The node that `SearchDirectory` makes: the type and the file size or entry
count of the `Node`, its identifier, and the `EsFSFile` behind it with the
copy of the file entry. -/
structure EsFSFile where
  type : OSNodeType
  information : Nat
  identifier : List Nat
  containerBlock : Nat
  offsetIntoBlock : Nat
  offsetIntoBlock2 : Nat
  fileEntryLength : Nat
  fileEntry : List Nat
deriving DecidableEq, Repr

/-- Modelled from the spec: `vfs.FindOpenNode` is not part of the sources; the
open-node table maps an identifier to the open node that carries it. -/
def FindOpenNode (openNodes : List EsFSFile) (identifier : List Nat) : Option EsFSFile :=
  openNodes.find? (fun node => decide (node.identifier = identifier))

/-- `lastAccessedActualBlock` after a call of `AccessStream`: the block of the
last access made, and the old value when no access is made. -/
def AccessStream.lastAccessed (v : EsFSVolume) (data : EsFSAttributeFileData)
    (offset size lastAccessedActualBlock : Nat) : Nat :=
  if size = 0 ∨ data.indirection = ESFS_DATA_DIRECT then lastAccessedActualBlock
  else
    match AccessStream.plan v data offset size with
    | .error _ => lastAccessedActualBlock
    | .ok accesses =>
      match accesses.getLast? with
      | some a => a.globalBlock
      | none => lastAccessedActualBlock

/-- The position of the loops of `Enumerate` and `SearchDirectory`. -/
structure DirectoryCursor where
  directoryBuffer : List Nat
  blockPosition : Nat
  blockIndex : Nat
  lastAccessedActualBlock : Nat

/-- The call `AccessStream(nullptr, data, offset, superblock.blockSize,
directoryBuffer, false, &lastAccessedActualBlock)`. -/
def readDirectoryBlock (v : EsFSVolume) (data : EsFSAttributeFileData)
    (offset blockIndex lastAccessedActualBlock : Nat) : Except DirectoryFault DirectoryCursor :=
  match AccessStream v data offset v.superblock.blockSize [] false with
  | .error f => .error (.stream f)
  | .ok (_, _, bytes) =>
    .ok ⟨bytes, 0, blockIndex,
      AccessStream.lastAccessed v data offset v.superblock.blockSize lastAccessedActualBlock⟩

/-- The start of a pass of the loops of `Enumerate` and `SearchDirectory`: at
the end of the block (its last byte, or a zero byte) the next block of the
stream is read, and the signature of the entry at `blockPosition` is checked. -/
def nextEntry (v : EsFSVolume) (data : EsFSAttributeFileData) (c : DirectoryCursor) :
    Except DirectoryFault DirectoryCursor :=
  let blockSize := v.superblock.blockSize
  if blockSize < c.blockPosition then .error .outsideBuffer
  else
    match
      (if c.blockPosition = blockSize ∨ bufferMemory c.directoryBuffer c.blockPosition = 0 then
        readDirectoryBlock v data ((c.blockIndex + 1) * blockSize) (c.blockIndex + 1)
          c.lastAccessedActualBlock
      else .ok c) with
    | .error f => .error f
    | .ok c =>
      if blockSize < c.blockPosition + sizeofDirectoryEntry then .error .outsideBuffer
      else if readBytes (bufferMemory c.directoryBuffer) c.blockPosition 8
          ≠ ESFS_DIRECTORY_ENTRY_SIGNATURE then .error .invalidSignature
      else .ok c

/-- The type and the size or child count that `Enumerate` reports for the
directory entry at `entry`. -/
def Enumerate.information (buffer : Memory) (limit entry : Nat) :
    Except DirectoryFault (OSNodeType × Nat) :=
  match FindAttribute ESFS_ATTRIBUTE_DIRECTORY_FILE buffer limit limit
      (entry + sizeofDirectoryEntry) with
  | .error f => .error f
  | .ok none => .ok (.invalid, 0)
  | .ok (some file) =>
    let fileEntry := file + sizeofAttributeDirectoryFile
    match FindAttribute ESFS_ATTRIBUTE_FILE_DATA buffer limit limit (fileEntry + sizeofFileEntry),
        FindAttribute ESFS_ATTRIBUTE_FILE_DIRECTORY buffer limit limit
          (fileEntry + sizeofFileEntry) with
    | .error f, _ => .error f
    | .ok _, .error f => .error f
    | .ok data, .ok directory =>
      if buffer (fileEntry + 24) = ESFS_FILE_TYPE_DIRECTORY ∧ directory.isSome then
        match directory with
        | some directory =>
          if directory + 16 ≤ limit then .ok (.directory, readU64 buffer (directory + 8))
          else .error .outsideBuffer
        | none => .ok (.invalid, 0)
      else if buffer (fileEntry + 24) = ESFS_FILE_TYPE_FILE ∧ data.isSome then
        match data with
        | some data =>
          if data + 16 ≤ limit then .ok (.file, readU64 buffer (data + 8))
          else .error .outsideBuffer
        | none => .ok (.invalid, 0)
      else .ok (.invalid, 0)

/-- One pass of the loop of `Enumerate` after the signature check: the child
for the entry at `blockPosition`, and the position behind the entry. -/
def Enumerate.child (blockSize : Nat) (c : DirectoryCursor) :
    Except DirectoryFault (OSDirectoryChild × DirectoryCursor) :=
  let buffer := bufferMemory c.directoryBuffer
  let entry := c.blockPosition
  match FindAttribute ESFS_ATTRIBUTE_DIRECTORY_NAME buffer blockSize blockSize
      (entry + sizeofDirectoryEntry) with
  | .error f => .error f
  | .ok none => .error .nullAttribute
  | .ok (some name) =>
    if blockSize < name + sizeofAttributeDirectoryName + buffer (name + 4) then
      .error .outsideBuffer
    else
      match Enumerate.information buffer blockSize entry with
      | .error f => .error f
      | .ok (type, information) =>
        match entrySizeAt buffer blockSize entry with
        | .error f => .error f
        | .ok size =>
          .ok (⟨readBytes buffer (name + sizeofAttributeDirectoryName) (buffer (name + 4)),
                type, information⟩,
            { c with blockPosition := c.blockPosition + size })

/-- The loop of `Enumerate` over `itemsInDirectory` entries. -/
def Enumerate.loop (v : EsFSVolume) (data : EsFSAttributeFileData) :
    Nat → DirectoryCursor → Except DirectoryFault (List OSDirectoryChild)
  | 0, _ => .ok []
  | items + 1, c =>
    match nextEntry v data c with
    | .error f => .error f
    | .ok c =>
      match Enumerate.child v.superblock.blockSize c with
      | .error f => .error f
      | .ok (child, c) =>
        match Enumerate.loop v data items c with
        | .error f => .error f
        | .ok children => .ok (child :: children)

/-- `EsFSVolume::Enumerate`: the children stored in `childBuffer`. -/
def Enumerate (v : EsFSVolume) (directory : DirectoryNode) :
    Except DirectoryFault (List OSDirectoryChild) :=
  match directory.itemsInDirectory, directory.data with
  | none, _ => .error .noDirectoryAttribute
  | some _, none => .error .noDataAttribute
  | some items, some data =>
    match readDirectoryBlock v data 0 0 0 with
    | .error f => .error f
    | .ok c => Enumerate.loop v data items c

/-- One pass of the loop of `SearchDirectory` after the signature check:
`some` result when the loop ends at this entry (with `returnValue` and
`fileEntryLength` when the entry has a file), `none` when it goes on behind
the entry. -/
def SearchDirectory.entry (searchName : List Nat) (blockSize : Nat) (c : DirectoryCursor) :
    Except DirectoryFault (Option (Option (Nat × Nat)) × DirectoryCursor) :=
  let buffer := bufferMemory c.directoryBuffer
  let entry := c.blockPosition
  match FindAttribute ESFS_ATTRIBUTE_DIRECTORY_NAME buffer blockSize blockSize
      (entry + sizeofDirectoryEntry) with
  | .error f => .error f
  | .ok name =>
    match
      (match name with
        | none => (.ok false : Except DirectoryFault Bool)
        | some name =>
          if blockSize < name + 5 then .error .outsideBuffer
          else if buffer (name + 4) ≠ searchName.length then .ok false
          else if blockSize < name + sizeofAttributeDirectoryName + searchName.length then
            .error .outsideBuffer
          else
            .ok (decide (readBytes buffer (name + sizeofAttributeDirectoryName) searchName.length
              = searchName))) with
    | .error f => .error f
    | .ok true =>
      match FindAttribute ESFS_ATTRIBUTE_DIRECTORY_FILE buffer blockSize blockSize
          (entry + sizeofDirectoryEntry) with
      | .error f => .error f
      | .ok none => .ok (some none, c)
      | .ok (some file) =>
        .ok (some (some (file + sizeofAttributeDirectoryFile,
          sub64 (readU16 buffer (file + 2)) sizeofAttributeDirectoryFile)), c)
    | .ok false =>
      match entrySizeAt buffer blockSize entry with
      | .error f => .error f
      | .ok size => .ok (none, { c with blockPosition := c.blockPosition + size })

/-- The loop of `SearchDirectory` over `itemsInDirectory` entries: the position
at its exit, with `returnValue` and `fileEntryLength` when a file was found. -/
def SearchDirectory.loop (v : EsFSVolume) (data : EsFSAttributeFileData) (searchName : List Nat) :
    Nat → DirectoryCursor → Except DirectoryFault (Option (Nat × Nat) × DirectoryCursor)
  | 0, c => .ok (none, c)
  | items + 1, c =>
    match nextEntry v data c with
    | .error f => .error f
    | .ok c =>
      match SearchDirectory.entry searchName v.superblock.blockSize c with
      | .error f => .error f
      | .ok (some found, c) => .ok (found, c)
      | .ok (none, c) => SearchDirectory.loop v data searchName items c

/-- The end of `SearchDirectory`: the node for the file entry at `returnValue`.
Modelled from the spec: `vfs.RegisterNodeHandle` is not part of the sources; it
registers a handle against a node that is open and adds a new node to the
open-node table. -/
def SearchDirectory.node (blockSize : Nat) (c : DirectoryCursor) (returnValue fileEntryLength : Nat)
    (openNodes : List EsFSFile) : Except DirectoryFault (Option EsFSFile × List EsFSFile) :=
  let buffer := bufferMemory c.directoryBuffer
  match FindAttribute ESFS_ATTRIBUTE_FILE_DATA buffer blockSize blockSize
        (returnValue + sizeofFileEntry),
      FindAttribute ESFS_ATTRIBUTE_FILE_DIRECTORY buffer blockSize blockSize
        (returnValue + sizeofFileEntry) with
  | .error f, _ => .error f
  | .ok _, .error f => .error f
  | .ok none, .ok _ => .ok (none, openNodes)
  | .ok (some data), .ok directory =>
    let fileType := buffer (returnValue + 24)
    if directory.isNone ∧ fileType = ESFS_FILE_TYPE_DIRECTORY then .ok (none, openNodes)
    else if fileType ≠ ESFS_FILE_TYPE_FILE ∧ fileType ≠ ESFS_FILE_TYPE_DIRECTORY then
      .ok (none, openNodes)
    else
      let identifier := readBytes buffer (returnValue + 8) 16
      match FindOpenNode openNodes identifier with
      | some node => .ok (some node, openNodes)
      | none =>
        if blockSize < returnValue + fileEntryLength then .error .outsideBuffer
        else
          match
            (if fileType = ESFS_FILE_TYPE_FILE then
              (if blockSize < data + 16 then .error .outsideBuffer
                else .ok (OSNodeType.file, readU64 buffer (data + 8))
                : Except DirectoryFault (OSNodeType × Nat))
            else
              match directory with
              | none => .error .nullAttribute
              | some directory =>
                if blockSize < directory + 16 then .error .outsideBuffer
                else .ok (OSNodeType.directory, readU64 buffer (directory + 8))) with
          | .error f => .error f
          | .ok (type, information) =>
            let node : EsFSFile :=
              ⟨type, information, identifier, c.lastAccessedActualBlock, returnValue,
                c.blockPosition, fileEntryLength, readBytes buffer returnValue fileEntryLength⟩
            .ok (some node, openNodes ++ [node])

/-- `EsFSVolume::SearchDirectory`: the node found, if any, and the open-node
table afterwards. -/
def SearchDirectory (v : EsFSVolume) (searchName : List Nat) (directory : DirectoryNode)
    (openNodes : List EsFSFile) : Except DirectoryFault (Option EsFSFile × List EsFSFile) :=
  match directory.itemsInDirectory, directory.data with
  | none, _ => .error .noDirectoryAttribute
  | some _, none => .error .noDataAttribute
  | some items, some data =>
    if data.size = 0 ∨ items = 0 then
      if items ≠ 0 then .error .itemsButNoBytes else .ok (none, openNodes)
    else
      match readDirectoryBlock v data 0 0 0 with
      | .error f => .error f
      | .ok c =>
        match SearchDirectory.loop v data searchName items c with
        | .error f => .error f
        | .ok (none, _) => .ok (none, openNodes)
        | .ok (some (returnValue, fileEntryLength), c) =>
          SearchDirectory.node v.superblock.blockSize c returnValue fileEntryLength openNodes

/-- Steps 1 and 2 of `CreateNode`: the directory entry made in `entryBuffer`.
The result is the buffer, `entryBufferPosition` and the offset of the
identifier.  Modelled from the spec: `GetRandomByte` is not part of the
sources; `random i` is the byte that its `i`-th call returns. -/
def CreateNode.entry (name : List Nat) (type : Nat) (random : Nat → Nat) : Memory × Nat × Nat :=
  let nameLength := name.length
  let entryBuffer : Memory := fun _ => 0
  let entry := 0
  let entryBuffer := writeBytes entryBuffer entry ESFS_DIRECTORY_ENTRY_SIGNATURE
  let entryBufferPosition := sizeofDirectoryEntry
  let nameAttribute := entryBufferPosition
  let entryBuffer := writeU16 entryBuffer nameAttribute ESFS_ATTRIBUTE_DIRECTORY_NAME
  let entryBuffer := writeU16 entryBuffer (nameAttribute + 2)
    (nameLength + sizeofAttributeDirectoryName)
  let entryBuffer := writeBytes entryBuffer (nameAttribute + 4) [nameLength % 256]
  let entryBuffer := writeBytes entryBuffer (nameAttribute + sizeofAttributeDirectoryName) name
  let entryBufferPosition := entryBufferPosition + u16 (nameLength + sizeofAttributeDirectoryName)
  let file := entryBufferPosition
  let entryBuffer := writeU16 entryBuffer file ESFS_ATTRIBUTE_DIRECTORY_FILE
  let entryBufferPosition := entryBufferPosition + sizeofAttributeDirectoryFile
  let temp := entryBufferPosition
  let fileEntry := entryBufferPosition
  let entryBuffer := writeBytes entryBuffer (fileEntry + 8)
    ((List.range 16).map (fun i => random i % 256))
  let entryBuffer := writeBytes entryBuffer (fileEntry + 24) [type % 256]
  let entryBuffer := writeBytes entryBuffer fileEntry ESFS_FILE_ENTRY_SIGNATURE
  let entryBufferPosition := entryBufferPosition + sizeofFileEntry
  let identifier := fileEntry + 8
  let data := entryBufferPosition
  let entryBuffer := writeU16 entryBuffer data ESFS_ATTRIBUTE_FILE_DATA
  let entryBuffer := writeU16 entryBuffer (data + 2) sizeofAttributeFileData
  let entryBuffer := writeBytes entryBuffer (data + 4) [ESFS_STREAM_DEFAULT]
  let entryBuffer := writeBytes entryBuffer (data + 5) [ESFS_DATA_DIRECT]
  let entryBufferPosition := entryBufferPosition + sizeofAttributeFileData
  let directory := entryBufferPosition
  let entryBuffer :=
    if type = ESFS_FILE_TYPE_DIRECTORY then
      writeBytes
        (writeU16 (writeU16 entryBuffer directory ESFS_ATTRIBUTE_FILE_DIRECTORY) (directory + 2)
          sizeofAttributeFileDirectory)
        (directory + 8) (encodeU64 0)
    else entryBuffer
  let entryBufferPosition :=
    if type = ESFS_FILE_TYPE_DIRECTORY then entryBufferPosition + sizeofAttributeFileDirectory
    else entryBufferPosition
  let entryBuffer := writeU16 entryBuffer entryBufferPosition ESFS_ATTRIBUTE_LIST_END
  let entryBuffer := writeU16 entryBuffer (entryBufferPosition + 2) sizeofAttributeHeader
  let entryBufferPosition := entryBufferPosition + sizeofAttributeHeader
  let entryBuffer := writeU16 entryBuffer (file + 2)
    (sizeofAttributeDirectoryFile + entryBufferPosition - temp)
  let entryBuffer := writeU16 entryBuffer entryBufferPosition ESFS_ATTRIBUTE_LIST_END
  let entryBuffer := writeU16 entryBuffer (entryBufferPosition + 2) sizeofAttributeHeader
  let entryBufferPosition := entryBufferPosition + sizeofAttributeHeader
  (entryBuffer, entryBufferPosition, identifier)

/-- The loop of step 3 of `CreateNode`, which walks the entries of the last
block from `position` on; the result is `position - blockBuffer` at its exit. -/
def CreateNode.findSpace (blockBuffer : Memory) (blockSize : Nat) :
    Nat → Nat → Except DirectoryFault Nat
  | 0, _ => .error .outOfFuel
  | fuel + 1, position =>
    if position = blockSize then .ok position
    else if blockSize < position then .error .outsideBuffer
    else if blockBuffer position = 0 then .ok position
    else
      match entrySizeAt blockBuffer blockSize position with
      | .error f => .error f
      | .ok entrySize => CreateNode.findSpace blockBuffer blockSize fuel (position + entrySize)

/-- Step 3 of `CreateNode`: `blockBuffer` (zero, or the last block of the
stream) and `position - blockBuffer`. -/
def CreateNode.lastBlock (v : EsFSVolume) (data : EsFSAttributeFileData) :
    Except DirectoryFault (Memory × Nat) :=
  let blockSize := v.superblock.blockSize
  if data.size ≠ 0 then
    match AccessStream v data (sub64 data.size blockSize) blockSize [] false with
    | .error f => .error (.stream f)
    | .ok (_, _, bytes) =>
      match CreateNode.findSpace (bufferMemory bytes) blockSize (blockSize + 1) 0 with
      | .error f => .error f
      | .ok position => .ok (bufferMemory bytes, position)
  else .ok (fun _ => 0, 0)

/-- Step 4 of `CreateNode`: the directory entry is stored in the last block of
the stream, which is first made one block longer when the entry does not fit
(the result of `ResizeDataStream` is not looked at). -/
def CreateNode.store (v : EsFSVolume) (directory : DirectoryNode) (items : Nat)
    (data : EsFSAttributeFileData) (entryBuffer : Memory)
    (entryBufferPosition identifier : Nat) (blockBuffer : Memory) (position : Nat)
    (uninit : Nat → Nat) : Except DirectoryFault (Bool × DirectoryNode × EsFSVolume) :=
  let blockSize := v.superblock.blockSize
  let spaceRemaining := if data.size ≠ 0 then blockSize - position else 0
  match
    (if spaceRemaining < entryBufferPosition then
      match ResizeDataStream v data (data.size + blockSize) true directory.containerBlock uninit with
      | .error f => .error f
      | .ok (_, data, v) => .ok (data, v)
    else (.ok (data, v) : Except Fault (EsFSAttributeFileData × EsFSVolume))) with
  | .error f => .error (.stream f)
  | .ok (data, v) =>
    match GetBlockFromStream v data (sub64 data.size blockSize) with
    | .error f => .error (.stream f)
    | .ok high =>
      let entryBuffer := writeBytes entryBuffer (identifier + 8) (encodeU64 high)
      let buffer :=
        if spaceRemaining ≥ entryBufferPosition then
          readBytes (writeBytes blockBuffer position (readBytes entryBuffer 0 entryBufferPosition))
            0 blockSize
        else readBytes entryBuffer 0 blockSize
      match AccessStream v data (sub64 data.size blockSize) blockSize buffer true with
      | .error f => .error (.stream f)
      | .ok (data, v, _) =>
        .ok (true,
          { directory with
            data := some data
            itemsInDirectory := some ((items + 1) % 18446744073709551616) }, v)

/-- `EsFSVolume::CreateNode`; `nameLength` is the length of `name`.  The result
holds the return value, the node of the directory and the volume. -/
def CreateNode (v : EsFSVolume) (directory : DirectoryNode) (name : List Nat) (type : Nat)
    (random : Nat → Nat) (uninit : Nat → Nat) :
    Except DirectoryFault (Bool × DirectoryNode × EsFSVolume) :=
  if name.length ≥ 256 then .ok (false, directory, v)
  else
    match directory.itemsInDirectory, directory.data with
    | none, _ => .error .noDirectoryAttribute
    | some _, none => .error .noDataAttribute
    | some items, some data =>
      match CreateNode.entry name type random with
      | (entryBuffer, entryBufferPosition, identifier) =>
        if entryBufferPosition > v.superblock.blockSize then .error .entryTooLarge
        else
          match CreateNode.lastBlock v data with
          | .error f => .error f
          | .ok (blockBuffer, position) =>
            CreateNode.store v directory items data entryBuffer entryBufferPosition identifier
              blockBuffer position uninit

/-- Modelled from the spec: `MoveMemory` is not part of the sources; the bytes
from `start` to `limit` are moved down by `amount` and the bytes they leave
behind are filled with zero. -/
def MoveMemory.down (buffer : Memory) (start limit amount : Nat) : Memory :=
  fun a =>
    if start - amount ≤ a ∧ a < limit - amount then buffer (a + amount)
    else if limit - amount ≤ a ∧ a < limit then 0
    else buffer a

/-- The loop of `RemoveNodeFromParent` over the entries that were moved: the
open nodes among them are told their new offsets. -/
def RemoveNodeFromParent.update (containerBlock : Memory) (blockSize directoryEntrySize : Nat) :
    Nat → Nat → List EsFSFile → Except DirectoryFault (List EsFSFile)
  | 0, _, _ => .error .outOfFuel
  | fuel + 1, entry, openNodes =>
    if entry = blockSize then .ok openNodes
    else if blockSize < entry then .error .outsideBuffer
    else if containerBlock entry = 0 then .ok openNodes
    else if blockSize < entry + sizeofDirectoryEntry then .error .outsideBuffer
    else if readBytes containerBlock entry 8 ≠ ESFS_DIRECTORY_ENTRY_SIGNATURE then
      .error .invalidSignature
    else
      match entrySizeAt containerBlock blockSize entry,
          FindAttribute ESFS_ATTRIBUTE_DIRECTORY_FILE containerBlock blockSize blockSize
            (entry + sizeofDirectoryEntry) with
      | .error f, _ => .error f
      | .ok _, .error f => .error f
      | .ok _, .ok none => .error .nullAttribute
      | .ok entrySize, .ok (some fileAttribute) =>
        let fileEntry := fileAttribute + sizeofAttributeDirectoryFile
        if blockSize < fileEntry + 24 then .error .outsideBuffer
        else
          let identifier := readBytes containerBlock (fileEntry + 8) 16
          RemoveNodeFromParent.update containerBlock blockSize directoryEntrySize fuel
            (entry + entrySize)
            (openNodes.map (fun node =>
              if node.identifier = identifier then
                { node with
                  offsetIntoBlock := (node.offsetIntoBlock + 4294967296
                    - directoryEntrySize % 4294967296) % 4294967296
                  offsetIntoBlock2 := (node.offsetIntoBlock2 + 4294967296
                    - directoryEntrySize % 4294967296) % 4294967296 }
              else node))

/-- `EsFSVolume::RemoveNodeFromParent` for the node `node` of the directory
`parent`.  The result holds the return value, the node of the directory, the
volume and the open-node table. -/
def RemoveNodeFromParent (v : EsFSVolume) (parent : DirectoryNode) (node : EsFSFile)
    (openNodes : List EsFSFile) :
    Except DirectoryFault (Bool × DirectoryNode × EsFSVolume × List EsFSFile) :=
  let blockSize := v.superblock.blockSize
  let containerBlock := bufferMemory (AccessBlockRead v node.containerBlock blockSize 0)
  match entrySizeAt containerBlock blockSize node.offsetIntoBlock2 with
  | .error f => .error f
  | .ok directoryEntrySize =>
    let containerBlock := MoveMemory.down containerBlock
      (node.offsetIntoBlock2 + directoryEntrySize) blockSize directoryEntrySize
    let v := AccessBlockWrite v node.containerBlock blockSize (readBytes containerBlock 0 blockSize) 0
    match parent.itemsInDirectory with
    | none => .error .nullAttribute
    | some items =>
      match RemoveNodeFromParent.update containerBlock blockSize directoryEntrySize
          (blockSize + 1) node.offsetIntoBlock2 openNodes with
      | .error f => .error f
      | .ok openNodes =>
        .ok (true, { parent with itemsInDirectory := some (sub64 items 1) }, v, openNodes)

/-! ## Observations and sample volumes -/

/-- The group visited by the `k`-th pass of the group loop of `AllocateExtent`. -/
def searchOrder (v : EsFSVolume) (localGroup : Nat) : Nat → Nat
  | 0 => localGroup
  | k + 1 => (searchOrder v localGroup k + 1) % v.superblock.groupCount

/-- The test `descriptor->blocksUsed == GetBlocksInGroup(blockGroup)`. -/
def groupFull (v : EsFSVolume) (blockGroup : Nat) : Prop :=
  (v.groupDescriptorTable blockGroup).blocksUsed = GetBlocksInGroup v.superblock blockGroup

instance (v : EsFSVolume) (blockGroup : Nat) : Decidable (groupFull v blockGroup) := by
  unfold groupFull; infer_instance

/-- The extent table of a group fits the blocks reserved for it (the condition
under which `AllocateExtent` and `FreeExtent` do not panic). -/
def tableFits (v : EsFSVolume) (blockGroup : Nat) : Prop :=
  (v.groupDescriptorTable blockGroup).extentCount * sizeofLocalExtent
    ≤ v.superblock.blocksPerGroupExtentTable * v.superblock.blockSize

/-- The first `n` bytes read from a stream (`AccessStream` as `EsFSRead` calls it). -/
def firstBytes (v : EsFSVolume) (data : EsFSAttributeFileData) (n : Nat) : Except Fault (List Nat) :=
  (AccessStream v data 0 n [] false).map (fun r => r.2.2)

/-- The extents of a stream, in list order. -/
def streamExtents (v : EsFSVolume) (data : EsFSAttributeFileData) : List EsFSGlobalExtent :=
  (List.range data.extentCount).map (extentList v data)

instance (v : EsFSVolume) (blockGroup : Nat) : Decidable (tableFits v blockGroup) := by
  unfold tableFits; infer_instance

/-- The number of blocks in the `n` extents of a list from index `i` on. -/
def countSum (extent : Nat → EsFSGlobalExtent) : Nat → Nat → Nat
  | _, 0 => 0
  | i, n + 1 => (extent i).count + countSum extent (i + 1) n

/-- The first `n` extents fit the 64-bit arithmetic of the block search: their
counts add up to less than `2 ^ 64`, and none ends behind block `2 ^ 64`. -/
def extentsFit (extent : Nat → EsFSGlobalExtent) (n : Nat) : Prop :=
  countSum extent 0 n < 18446744073709551616
    ∧ ∀ i, i < n → (extent i).offset + (extent i).count ≤ 18446744073709551616

/-- Two extents have no block in common. -/
def extentsDisjoint (a b : EsFSGlobalExtent) : Prop :=
  a.count = 0 ∨ b.count = 0 ∨ a.offset + a.count ≤ b.offset ∨ b.offset + b.count ≤ a.offset

/-- The byte address on the drive of byte `p` of a stream whose blocks are found by `lookup`. -/
def streamAddress (v : EsFSVolume) (lookup : Nat → Nat) (p : Nat) : Nat :=
  blockAddress v (lookup (p / v.superblock.blockSize)) (p % v.superblock.blockSize)

/-- The accesses transfer, in order and byte by byte, the `size` bytes of the
stream from byte `pos` on. -/
def AccessStream.Covers (v : EsFSVolume) (lookup : Nat → Nat) : List StreamAccess → Nat → Nat → Prop
  | [], _, size => size = 0
  | a :: rest, pos, size =>
    a.dataToTransfer ≤ size
    ∧ (∀ k, k < a.dataToTransfer →
        blockAddress v a.globalBlock (a.offsetIntoBlock + k) = streamAddress v lookup (pos + k))
    ∧ AccessStream.Covers v lookup rest (pos + a.dataToTransfer) (size - a.dataToTransfer)

/-- The geometry of volume and drive that `AccessStream` relies on: the block
size is a power of two, a block is a whole number of sectors, and the drive
transfers at least one block at a time. -/
structure AccessGeometry (v : EsFSVolume) : Prop where
  blockSizePow : ∃ k, k < 64 ∧ v.superblock.blockSize = 2 ^ k
  sectors : v.sectorsPerBlock * v.sectorSize = v.superblock.blockSize
  transfer : v.superblock.blockSize ≤ v.maxAccessSectorCount * v.sectorSize

/-- A stream that is not direct is laid out on the volume: its extents share
no block, hold at least the blocks its size needs and do not contain block 0
(the value that stands for "not found"); the blocks that hold the extent list
of an INDIRECT_2 stream are not among them. -/
structure StreamLaidOut (v : EsFSVolume) (data : EsFSAttributeFileData) : Prop where
  mode : data.indirection = ESFS_DATA_INDIRECT ∨ data.indirection = ESFS_DATA_INDIRECT_2
  disjoint : ∀ i j, i < j → j < data.extentCount →
    extentsDisjoint (extentList v data i) (extentList v data j)
  covers : BlocksNeededToStore v.superblock data.size ≤ countSum (extentList v data) 0 data.extentCount
  nonzero : ∀ i, i < data.extentCount → (extentList v data i).count ≠ 0 →
    (extentList v data i).offset ≠ 0
  listBlocks : data.indirection = ESFS_DATA_INDIRECT_2 →
    ∀ s, s < ESFS_INDIRECT_2_BLOCKS → data.indirect2 s ≠ 0 →
      ∀ i, i < data.extentCount →
        data.indirect2 s < (extentList v data i).offset
        ∨ (extentList v data i).offset + (extentList v data i).count ≤ data.indirect2 s

/-- Two local extents do not overlap. -/
def localDisjoint (a b : EsFSLocalExtent) : Prop :=
  a.offset + a.count ≤ b.offset ∨ b.offset + b.count ≤ a.offset

/-- The invariants of a group's extent table (spec 4.3): every extent has at
least one block and lies inside the group, and the extents are pairwise disjoint. -/
structure TableGood (blocksPerGroup : Nat) (table : List EsFSLocalExtent) : Prop where
  inGroup : ∀ e, e ∈ table → 1 ≤ e.count ∧ e.offset + e.count ≤ blocksPerGroup
  disjoint : table.Pairwise localDisjoint

/-- Block `x` of a group (group relative) lies in an extent of the table. -/
def inTable (table : List EsFSLocalExtent) (x : Nat) : Prop :=
  ∃ e, e ∈ table ∧ e.offset ≤ x ∧ x < e.offset + e.count

/-- What one allocation does to a table: an entry `x` gives up a strict prefix
`e` and keeps the rest, or a whole entry `e` leaves the table (whose other
entries may change places). -/
def TakeOut (table : List EsFSLocalExtent) (e : EsFSLocalExtent)
    (table' : List EsFSLocalExtent) : Prop :=
  ∃ pre x post, table = pre ++ x :: post ∧
    ((e.offset = x.offset ∧ e.count < x.count
        ∧ table' = pre ++ ⟨x.offset + e.count, x.count - e.count⟩ :: post)
      ∨ (e = x ∧ table'.Perm (pre ++ post)))

/-- Global block `x` lies in a free extent: an extent of the table that
`AllocateExtent` works on in one of the groups. -/
def freeBlock (v : EsFSVolume) (x : Nat) : Prop :=
  ∃ g, g < v.superblock.groupCount ∧
    ∃ e, e ∈ AllocateExtent.loadedTable v g ∧
      g * v.superblock.blocksPerGroup + e.offset ≤ x
      ∧ x < g * v.superblock.blocksPerGroup + e.offset + e.count

/-- The invariants of the allocator state: the groups have a positive 16-bit
size, group 0 has its extent table (format writes it), every table starts
inside its own group, the table each group works on satisfies `TableGood`, no
free extent reaches block 0 or leaves the volume, and every global block
number fits 64 bits. -/
structure AllocatorWF (v : EsFSVolume) : Prop where
  groupSize : 0 < v.superblock.blocksPerGroup ∧ v.superblock.blocksPerGroup < 65536
  first : (v.groupDescriptorTable 0).extentTable ≠ 0
  keys : ∀ g, g < v.superblock.groupCount → (v.groupDescriptorTable g).extentTable ≠ 0 →
    g * v.superblock.blocksPerGroup ≤ (v.groupDescriptorTable g).extentTable
    ∧ (v.groupDescriptorTable g).extentTable < (g + 1) * v.superblock.blocksPerGroup
  tables : ∀ g, g < v.superblock.groupCount →
    TableGood v.superblock.blocksPerGroup (AllocateExtent.loadedTable v g)
  zeroFree : ∀ e, e ∈ AllocateExtent.loadedTable v 0 → 1 ≤ e.offset
  inVolume : ∀ g, g < v.superblock.groupCount → ∀ e, e ∈ AllocateExtent.loadedTable v g →
    g * v.superblock.blocksPerGroup + e.offset + e.count ≤ v.superblock.blockCount
  blockCount : v.superblock.blockCount < 18446744073709551616

/-- Invariant of the allocation loop of `GrowDataStream` while the stream is
INDIRECT and new blocks are cleared: `v0` is the volume at the start of the
call, `newBlocks` the number of blocks the stream needs and `increaseBlocks`
the number still to allocate.  The extents recorded so far hold the other
blocks, lie behind block 0 and inside the volume, are pairwise disjoint, are
not free any more and read as zero. -/
structure GrowInv (v0 : EsFSVolume) (newBlocks increaseBlocks : Nat) (st : GrowState) : Prop where
  wf : AllocatorWF st.v
  superblock : ∃ n, st.v.superblock = { v0.superblock with blocksUsed := n }
  drive : st.v.sectorsPerBlock = v0.sectorsPerBlock ∧ st.v.sectorSize = v0.sectorSize
    ∧ st.v.maxAccessSectorCount = v0.maxAccessSectorCount
  mode : st.data.indirection = ESFS_DATA_INDIRECT
  count : st.data.extentCount ≤ ESFS_INDIRECT_EXTENTS
  list : st.newExtentList = none
  total : countSum st.data.indirect 0 st.data.extentCount + increaseBlocks = newBlocks
  extents : ∀ i, i < st.data.extentCount →
    1 ≤ (st.data.indirect i).offset ∧ 1 ≤ (st.data.indirect i).count
  inVolume : ∀ i, i < st.data.extentCount →
    (st.data.indirect i).offset + (st.data.indirect i).count ≤ v0.superblock.blockCount
  disjoint : ∀ i j, i < j → j < st.data.extentCount →
    extentsDisjoint (st.data.indirect i) (st.data.indirect j)
  notFree : ∀ i, i < st.data.extentCount → ∀ x, (st.data.indirect i).offset ≤ x →
    x < (st.data.indirect i).offset + (st.data.indirect i).count → ¬ freeBlock st.v x
  zero : ∀ i, i < st.data.extentCount → ∀ a,
    (st.data.indirect i).offset * v0.superblock.blockSize ≤ a →
    a < ((st.data.indirect i).offset + (st.data.indirect i).count) * v0.superblock.blockSize →
    st.v.disk a = 0

/-- Global block `x` is in use: it lies behind block 0 and inside the volume,
its group has an extent table, and no free extent contains it. -/
def usedBlock (v : EsFSVolume) (x : Nat) : Prop :=
  1 ≤ x ∧ x < v.superblock.blockCount
    ∧ x / v.superblock.blocksPerGroup < v.superblock.groupCount
    ∧ (v.groupDescriptorTable (x / v.superblock.blocksPerGroup)).extentTable ≠ 0
    ∧ ¬ freeBlock v x

/-- The invariants of a volume that the resize operations rely on: the drive
geometry of `AccessStream`, the allocator state, a block size that holds whole
extents, and an extent count that fits its 16-bit field. -/
structure VolumeWF (v : EsFSVolume) : Prop where
  geometry : AccessGeometry v
  allocator : AllocatorWF v
  extentSize : sizeofGlobalExtent ≤ v.superblock.blockSize
  listFits : ESFS_INDIRECT_2_BLOCKS * extentsPerBlock v.superblock < 65536

/-- The invariants of a stream that is not direct: it is laid out on the
volume, every extent has at least one block, lies in one group and holds only
blocks in use; an INDIRECT stream has at most four extents, an INDIRECT_2
stream more than four and fewer than its list blocks can hold; the list blocks
that are set are in use and pairwise different, and those needed for the
extent count are set. -/
structure StreamWF (v : EsFSVolume) (data : EsFSAttributeFileData) : Prop where
  laidOut : StreamLaidOut v data
  used : ∀ i, i < data.extentCount → ∀ x, (extentList v data i).offset ≤ x →
    x < (extentList v data i).offset + (extentList v data i).count → usedBlock v x
  positive : ∀ i, i < data.extentCount → 1 ≤ (extentList v data i).count
  oneGroup : ∀ i, i < data.extentCount →
    ((extentList v data i).offset + (extentList v data i).count - 1) / v.superblock.blocksPerGroup
      = (extentList v data i).offset / v.superblock.blocksPerGroup
  small : data.indirection = ESFS_DATA_INDIRECT → data.extentCount ≤ ESFS_INDIRECT_EXTENTS
  big : data.indirection = ESFS_DATA_INDIRECT_2 →
    ESFS_INDIRECT_EXTENTS < data.extentCount
      ∧ data.extentCount < ESFS_INDIRECT_2_BLOCKS * extentsPerBlock v.superblock
  listUsed : data.indirection = ESFS_DATA_INDIRECT_2 →
    ∀ s, s < ESFS_INDIRECT_2_BLOCKS → data.indirect2 s ≠ 0 → usedBlock v (data.indirect2 s)
  listDistinct : data.indirection = ESFS_DATA_INDIRECT_2 →
    ∀ s t, s < ESFS_INDIRECT_2_BLOCKS → t < ESFS_INDIRECT_2_BLOCKS → s ≠ t →
      data.indirect2 s ≠ 0 → data.indirect2 s ≠ data.indirect2 t
  listPresent : data.indirection = ESFS_DATA_INDIRECT_2 →
    ∀ s, s < BlocksNeededToStore v.superblock (data.extentCount * sizeofGlobalExtent) →
      data.indirect2 s ≠ 0

/-- The extent list of the stream in the middle of `GrowDataStream`: the
entries from the first modified list block on are those of `newExtentList`
once it exists, the others are those the stream is read through. -/
def GrowState.extent (st : GrowState) (i : Nat) : EsFSGlobalExtent :=
  match st.newExtentList with
  | some list =>
    if st.firstModifiedExtentListBlock * extentsPerBlock st.v.superblock ≤ i then
      readExtent list (i * sizeofGlobalExtent)
    else extentList st.v st.data i
  | none => extentList st.v st.data i

/-- The number of list blocks that are set on the drive in the middle of
`GrowDataStream`: those before the first modified one once `newExtentList`
exists, those that the extent count needs before. -/
def GrowState.listBlocks (st : GrowState) : Nat :=
  match st.newExtentList with
  | some _ => st.firstModifiedExtentListBlock
  | none => BlocksNeededToStore st.v.superblock (st.data.extentCount * sizeofGlobalExtent)

/-- Invariant of the allocation loop of `GrowDataStream` for a stream that is
not direct: `v0` is the volume at the start of the call, `target` the number
of blocks the extents will hold and `increaseBlocks` the number still to
allocate.  The extents recorded so far satisfy the invariants of `StreamWF`,
read through `GrowState.extent`. -/
structure GrowInv2 (v0 : EsFSVolume) (target increaseBlocks : Nat) (st : GrowState) : Prop where
  wf : AllocatorWF st.v
  superblock : ∃ n, st.v.superblock = { v0.superblock with blocksUsed := n }
  drive : st.v.sectorsPerBlock = v0.sectorsPerBlock ∧ st.v.sectorSize = v0.sectorSize
    ∧ st.v.maxAccessSectorCount = v0.maxAccessSectorCount
  mode : st.data.indirection = ESFS_DATA_INDIRECT ∨ st.data.indirection = ESFS_DATA_INDIRECT_2
  small : st.data.indirection = ESFS_DATA_INDIRECT →
    st.data.extentCount ≤ ESFS_INDIRECT_EXTENTS ∧ st.newExtentList = none
      ∧ st.firstModifiedExtentListBlock = 0
  big : st.data.indirection = ESFS_DATA_INDIRECT_2 →
    ESFS_INDIRECT_EXTENTS < st.data.extentCount
      ∧ st.data.extentCount < ESFS_INDIRECT_2_BLOCKS * extentsPerBlock v0.superblock
  total : countSum st.extent 0 st.data.extentCount + increaseBlocks = target
  used : ∀ i, i < st.data.extentCount → ∀ x, (st.extent i).offset ≤ x →
    x < (st.extent i).offset + (st.extent i).count → usedBlock st.v x
  positive : ∀ i, i < st.data.extentCount → 1 ≤ (st.extent i).count
  oneGroup : ∀ i, i < st.data.extentCount →
    ((st.extent i).offset + (st.extent i).count - 1) / v0.superblock.blocksPerGroup
      = (st.extent i).offset / v0.superblock.blocksPerGroup
  disjoint : ∀ i j, i < j → j < st.data.extentCount →
    extentsDisjoint (st.extent i) (st.extent j)
  listUsed : st.data.indirection = ESFS_DATA_INDIRECT_2 →
    ∀ s, s < ESFS_INDIRECT_2_BLOCKS → st.data.indirect2 s ≠ 0 → usedBlock st.v (st.data.indirect2 s)
  listDistinct : st.data.indirection = ESFS_DATA_INDIRECT_2 →
    ∀ s t, s < ESFS_INDIRECT_2_BLOCKS → t < ESFS_INDIRECT_2_BLOCKS → s ≠ t →
      st.data.indirect2 s ≠ 0 → st.data.indirect2 s ≠ st.data.indirect2 t
  listOutside : st.data.indirection = ESFS_DATA_INDIRECT_2 →
    ∀ s, s < ESFS_INDIRECT_2_BLOCKS → st.data.indirect2 s ≠ 0 →
      ∀ i, i < st.data.extentCount →
        st.data.indirect2 s < (st.extent i).offset
        ∨ (st.extent i).offset + (st.extent i).count ≤ st.data.indirect2 s
  present : st.data.indirection = ESFS_DATA_INDIRECT_2 →
    ∀ s, s < st.listBlocks → st.data.indirect2 s ≠ 0
  first : ∀ list, st.newExtentList = some list →
    st.data.indirection = ESFS_DATA_INDIRECT_2
      ∧ st.firstModifiedExtentListBlock * extentsPerBlock v0.superblock < st.data.extentCount

/-- Invariant of the loop of `GrowDataStream` that stores the extent list:
`extent` is the extent list to store, held by `list` from list block `first`
on, and `i` the next list block to write.  The list blocks before `i` are set
and hold their part of the list on the drive; the list blocks that are set
are in use, pairwise different and outside the extents. -/
structure SaveInv (v0 : EsFSVolume) (extent : Nat → EsFSGlobalExtent) (list : Memory)
    (first i : Nat) (data : EsFSAttributeFileData) (v : EsFSVolume) : Prop where
  wf : AllocatorWF v
  superblock : ∃ n, v.superblock = { v0.superblock with blocksUsed := n }
  drive : v.sectorsPerBlock = v0.sectorsPerBlock ∧ v.sectorSize = v0.sectorSize
    ∧ v.maxAccessSectorCount = v0.maxAccessSectorCount
  mode : data.indirection = ESFS_DATA_INDIRECT_2
  used : ∀ j, j < data.extentCount → ∀ x, (extent j).offset ≤ x →
    x < (extent j).offset + (extent j).count → usedBlock v x
  listUsed : ∀ s, s < ESFS_INDIRECT_2_BLOCKS → data.indirect2 s ≠ 0 →
    usedBlock v (data.indirect2 s)
  listDistinct : ∀ s t, s < ESFS_INDIRECT_2_BLOCKS → t < ESFS_INDIRECT_2_BLOCKS → s ≠ t →
    data.indirect2 s ≠ 0 → data.indirect2 s ≠ data.indirect2 t
  listOutside : ∀ s, s < ESFS_INDIRECT_2_BLOCKS → data.indirect2 s ≠ 0 →
    ∀ j, j < data.extentCount →
      data.indirect2 s < (extent j).offset
      ∨ (extent j).offset + (extent j).count ≤ data.indirect2 s
  present : ∀ s, s < i → data.indirect2 s ≠ 0
  saved : ∀ j, j < data.extentCount → j / extentsPerBlock v0.superblock < i →
    extentList v data j = extent j
  listed : ∀ j, j < data.extentCount → first * extentsPerBlock v0.superblock ≤ j →
    readExtent list (j * sizeofGlobalExtent) = extent j
  order : first ≤ i

/-- The number of blocks in the extents of a table: the sum of their counts. -/
def freeCount (table : List EsFSLocalExtent) : Nat :=
  (table.map (fun e => e.count)).sum

/-- The accounting of group `g` (spec 4.3): the counts of its free extents and
the blocks its descriptor counts as used add up to the blocks of the group.
The free extents and the descriptor are those `AllocateExtent` works on; for a
group without a table they are the ones it synthesises. -/
def groupAccounted (v : EsFSVolume) (g : Nat) : Prop :=
  freeCount (AllocateExtent.loadedTable v g) + (AllocateExtent.loadDescriptor v g).blocksUsed
    = GetBlocksInGroup v.superblock g

/-- The sum over the groups of `descriptor.blocksUsed`. -/
def descriptorSum (v : EsFSVolume) : Nat :=
  ((List.range v.superblock.groupCount).map
    (fun g => (v.groupDescriptorTable g).blocksUsed)).sum

/-- Two local extents share no block. -/
def shareNoBlock (a b : EsFSLocalExtent) : Prop :=
  ∀ x, ¬ ((a.offset ≤ x ∧ x < a.offset + a.count) ∧ (b.offset ≤ x ∧ x < b.offset + b.count))

/-- A 64 MiB volume right after format: block size 512, 32 groups of 4096
blocks, the first 43 blocks of group 0 in use.  Block 43 holds stale bytes. -/
def sampleVolume : EsFSVolume where
  superblock := ⟨512, 131056, 43, 4096, 32, 8⟩
  groupDescriptorTable := fun g => if g = 0 then ⟨42, 1, 43⟩ else ⟨0, 0, 0⟩
  extentTables := fun b => if b = 42 then [⟨43, 4053⟩] else []
  disk := fun a => if 43 * 512 ≤ a ∧ a < 44 * 512 then 7 else 0
  sectorsPerBlock := 1
  sectorSize := 512
  maxAccessSectorCount := 256

/-- The same volume with group 0 fragmented into seven free blocks. -/
def fragmentedVolume : EsFSVolume where
  superblock := ⟨512, 131056, 4089, 4096, 32, 8⟩
  groupDescriptorTable := fun g => if g = 0 then ⟨42, 7, 4089⟩ else ⟨0, 0, 0⟩
  extentTables := fun b =>
    if b = 42 then [⟨50, 1⟩, ⟨52, 1⟩, ⟨54, 1⟩, ⟨56, 1⟩, ⟨58, 1⟩, ⟨60, 1⟩, ⟨62, 1⟩] else []
  disk := fun _ => 0
  sectorsPerBlock := 1
  sectorSize := 512
  maxAccessSectorCount := 256

/-- A 1 MiB volume (one group of 2032 blocks) with a single free block left. -/
def smallVolume : EsFSVolume where
  superblock := ⟨512, 2032, 2031, 2048, 1, 4⟩
  groupDescriptorTable := fun g => if g = 0 then ⟨37, 1, 2031⟩ else ⟨0, 0, 0⟩
  extentTables := fun b => if b = 37 then [⟨100, 1⟩] else []
  disk := fun _ => 0
  sectorsPerBlock := 1
  sectorSize := 512
  maxAccessSectorCount := 256

/-- The same 1 MiB volume with no free block left: the only group is full. -/
def fullVolume : EsFSVolume where
  superblock := ⟨512, 2032, 2032, 2048, 1, 4⟩
  groupDescriptorTable := fun g => if g = 0 then ⟨37, 0, 2032⟩ else ⟨0, 0, 0⟩
  extentTables := fun _ => []
  disk := fun _ => 0
  sectorsPerBlock := 1
  sectorSize := 512
  maxAccessSectorCount := 256

/-- The sample volume with a group 0 descriptor that claims 2000 extents. -/
def oversizedTableVolume : EsFSVolume :=
  { sampleVolume with groupDescriptorTable := fun g => if g = 0 then ⟨42, 2000, 43⟩ else ⟨0, 0, 0⟩ }

/-- The data attribute of a file that has just been created: direct, size 0. -/
def emptyStream : EsFSAttributeFileData := ⟨ESFS_DATA_DIRECT, 0, 0, fun _ => 0⟩

/-- A direct stream that holds the five bytes of "hello". -/
def helloStream : EsFSAttributeFileData :=
  ⟨ESFS_DATA_DIRECT, 0, 5, fun a => [104, 101, 108, 108, 111].getD a 0⟩

/-- An indirect stream of `size` bytes whose only extent is `extent`. -/
def singleExtentStream (extent : EsFSGlobalExtent) (size : Nat) : EsFSAttributeFileData :=
  (⟨ESFS_DATA_INDIRECT, 1, size, fun _ => 0⟩ : EsFSAttributeFileData).setIndirect 0 extent

/-- A 1 MiB volume (one group of 2032 blocks) whose free extents are blocks
103 to 104 and blocks 100 to 102: disjoint, and the second ends where the
first begins. -/
def chainedVolume : EsFSVolume where
  superblock := ⟨512, 2032, 2027, 2048, 1, 4⟩
  groupDescriptorTable := fun g => if g = 0 then ⟨37, 2, 2027⟩ else ⟨0, 0, 0⟩
  extentTables := fun b => if b = 37 then [⟨103, 2⟩, ⟨100, 3⟩] else []
  disk := fun _ => 0
  sectorsPerBlock := 1
  sectorSize := 512
  maxAccessSectorCount := 256

/-- An empty directory whose file entry lies in block 18. -/
def emptyDirectory : DirectoryNode := ⟨18, some emptyStream, some 0⟩

/-- A name of 103 bytes that ends in `c`; its directory entry takes 257 bytes,
so a block of 512 bytes holds one such entry. -/
def longName (c : Nat) : List Nat := List.replicate 102 97 ++ [c]

/-- The last bytes of the names of the children. -/
def lastBytes (children : List OSDirectoryChild) : List (Option Nat) :=
  children.map (fun child => child.name.getLast?)

/-! ## Invariants of directories -/

/-- What the allocation loop of `GrowDataStream` leaves alone, for a stream
`data0` on the volume `v0` at the start of the call: the extents of the stream
are still recorded, no block has become free, the blocks in use at the start
keep their bytes, and the list blocks that are set are those of the stream. -/
structure GrowFrame (v0 : EsFSVolume) (data0 : EsFSAttributeFileData) (st : GrowState) : Prop where
  count : data0.extentCount ≤ st.data.extentCount
  extents : ∀ j, j < data0.extentCount → st.extent j = extentList v0 data0 j
  free : ∀ x, freeBlock st.v x → freeBlock v0 x
  disk : ∀ x, usedBlock v0 x → ∀ a, x * v0.superblock.blockSize ≤ a →
    a < x * v0.superblock.blockSize + v0.superblock.blockSize → st.v.disk a = v0.disk a
  listBlocks : st.data.indirection = ESFS_DATA_INDIRECT_2 →
    ∀ s, s < ESFS_INDIRECT_2_BLOCKS → st.data.indirect2 s ≠ 0 →
      data0.indirection = ESFS_DATA_INDIRECT_2 ∧ st.data.indirect2 s = data0.indirect2 s

/-- What the loop of `GrowDataStream` that stores the extent list leaves alone:
no block has become free, the blocks in use at the start that are not list
blocks of the stream keep their bytes, and a list block that is set is one of
the stream or was not in use at the start. -/
structure SaveFrame (v0 : EsFSVolume) (data0 data : EsFSAttributeFileData) (v : EsFSVolume) :
    Prop where
  free : ∀ x, freeBlock v x → freeBlock v0 x
  disk : ∀ x, usedBlock v0 x →
    (data0.indirection = ESFS_DATA_INDIRECT_2 →
      ∀ s, s < ESFS_INDIRECT_2_BLOCKS → data0.indirect2 s ≠ x) →
    ∀ a, x * v0.superblock.blockSize ≤ a →
      a < x * v0.superblock.blockSize + v0.superblock.blockSize → v.disk a = v0.disk a
  listBlocks : ∀ s, s < ESFS_INDIRECT_2_BLOCKS → data.indirect2 s ≠ 0 →
    (data0.indirection = ESFS_DATA_INDIRECT_2 ∧ data.indirect2 s = data0.indirect2 s)
      ∨ ¬ usedBlock v0 (data.indirect2 s)

/-- The bytes of `m` from `p` on are a directory entry of `len` bytes laid out
as `CreateNode` lays it out: the signature, the name attribute with the name
`name`, the file attribute, and the end of the attribute list. -/
structure EntryAt (m : Memory) (p len : Nat) (name : List Nat) : Prop where
  signature : readBytes m p 8 = ESFS_DIRECTORY_ENTRY_SIGNATURE
  nameType : readU16 m (p + 8) = ESFS_ATTRIBUTE_DIRECTORY_NAME
  nameSize : readU16 m (p + 10) = name.length + sizeofAttributeDirectoryName
  nameLength : m (p + 12) = name.length
  nameBytes : readBytes m (p + 14) name.length = name
  fileType : readU16 m (p + 14 + name.length) = ESFS_ATTRIBUTE_DIRECTORY_FILE
  endType : readU16 m (p + 14 + name.length + readU16 m (p + 16 + name.length))
    = ESFS_ATTRIBUTE_LIST_END
  endSize : readU16 m (p + 14 + name.length + readU16 m (p + 16 + name.length) + 2)
    = sizeofAttributeHeader
  length : len = 14 + name.length + readU16 m (p + 16 + name.length) + 4

/-- The block `m` of `blockSize` bytes holds, from `p` on, the entries
`entries` (length and name of each) one after the other, and zero bytes behind
them. -/
def Packed (m : Memory) (blockSize : Nat) : Nat → List (Nat × List Nat) → Prop
  | p, [] => p ≤ blockSize ∧ ∀ a, p ≤ a → a < blockSize → m a = 0
  | p, e :: rest => EntryAt m p e.1 e.2 ∧ Packed m blockSize (p + e.1) rest

/-- The bytes of block `k` of the stream `data`, as they lie on the drive. -/
def directoryBlock (v : EsFSVolume) (data : EsFSAttributeFileData) (k : Nat) : Memory :=
  fun a => v.disk (streamBlock v data k * v.superblock.blockSize + a)

/-- The number of bytes that the entries take. -/
def entriesSize (entries : List (Nat × List Nat)) : Nat := (entries.map (fun e => e.1)).sum

/-- The number of entries in the blocks. -/
def entryCount (blocks : List (List (Nat × List Nat))) : Nat := (blocks.map List.length).sum

/-- The invariants of a directory whose stream is `data`, block by block:
`blocks` lists, for every block of the stream, the entries it holds (length
and name of each).  The stream is DIRECT and empty, or holds at least one
block and satisfies the stream invariants; its size is a whole number of
blocks; every block holds its entries packed from offset 0 with zero bytes
behind them; every block but the last holds an entry; and `itemsInDirectory`
is the number of entries. -/
structure DirectoryWF (v : EsFSVolume) (directory : DirectoryNode) (data : EsFSAttributeFileData)
    (blocks : List (List (Nat × List Nat))) : Prop where
  node : directory.data = some data
  items : directory.itemsInDirectory = some (entryCount blocks)
  itemsFit : entryCount blocks + 1 < 18446744073709551616
  size : data.size = blocks.length * v.superblock.blockSize
  sizeFits : data.size + v.superblock.blockSize < 18446744073709551616
  stream : (data.indirection = ESFS_DATA_DIRECT ∧ data.extentCount = 0 ∧ blocks = [])
    ∨ (StreamWF v data ∧ blocks ≠ [])
  group : directory.containerBlock / v.superblock.blocksPerGroup < v.superblock.groupCount
  packed : ∀ k, k < blocks.length →
    Packed (directoryBlock v data k) v.superblock.blockSize 0 (blocks.getD k [])
  filled : ∀ k, k + 1 < blocks.length → blocks.getD k [] ≠ []

/-- The position of the loops of `Enumerate` and `SearchDirectory` at offset
`p` of block `k` of the stream, after the block has been read. -/
def cursorAt (v : EsFSVolume) (data : EsFSAttributeFileData) (k p : Nat) : DirectoryCursor :=
  ⟨AccessBlockRead v (streamBlock v data k) v.superblock.blockSize 0, p, k, streamBlock v data k⟩

/-- The entry buffer of `CreateNode` after the high eight bytes of the
identifier have been set to the global block `high`. -/
def CreateNode.patched (name : List Nat) (type : Nat) (random : Nat → Nat) (high : Nat) : Memory :=
  writeBytes (CreateNode.entry name type random).1 ((CreateNode.entry name type random).2.2 + 8)
    (encodeU64 high)

/-- A file entry as `CreateNode` makes it lies at `q` in `m`: the signature, an
identifier made of the bytes `low` and the block `high`, the type, a direct
FILE_DATA attribute of size 0, and the end of the list, which for a directory
follows a FILE_DIRECTORY attribute with no items. -/
structure FileEntryAt (m : Memory) (q type : Nat) (low : List Nat) (high : Nat) : Prop where
  signature : readBytes m q 8 = ESFS_FILE_ENTRY_SIGNATURE
  identifierLow : readBytes m (q + 8) 8 = low
  identifierHigh : readBytes m (q + 16) 8 = encodeU64 high
  fileType : m (q + 24) = type
  dataType : readU16 m (q + 48) = ESFS_ATTRIBUTE_FILE_DATA
  dataSize : readU16 m (q + 50) = sizeofAttributeFileData
  indirection : m (q + 53) = ESFS_DATA_DIRECT
  size : readU64 m (q + 56) = 0
  fileEnd : type = ESFS_FILE_TYPE_FILE → readU16 m (q + 128) = ESFS_ATTRIBUTE_LIST_END
  directoryType : type = ESFS_FILE_TYPE_DIRECTORY →
    readU16 m (q + 128) = ESFS_ATTRIBUTE_FILE_DIRECTORY
      ∧ readU16 m (q + 130) = sizeofAttributeFileDirectory
      ∧ readU64 m (q + 136) = 0
      ∧ readU16 m (q + 152) = ESFS_ATTRIBUTE_LIST_END

/-- The length of the directory entry that `CreateNode` makes for a name of
`n` bytes. -/
def newEntrySize (n type : Nat) : Nat :=
  if type = ESFS_FILE_TYPE_DIRECTORY then 178 + n else 154 + n

/-- What `Enumerate` and `SearchDirectory` rely on in a directory that holds
at least one block: the stream is not direct, each of its blocks is found, the
entries of each block are packed from offset 0 and followed by zero bytes, and
only the last block may hold no entry. -/
structure DirectoryLaidOut (v : EsFSVolume) (data : EsFSAttributeFileData)
    (blocks : List (List (Nat × List Nat))) : Prop where
  geometry : AccessGeometry v
  mode : data.indirection = ESFS_DATA_INDIRECT ∨ data.indirection = ESFS_DATA_INDIRECT_2
  size : data.size = blocks.length * v.superblock.blockSize
  fits : blocks.length * v.superblock.blockSize < 18446744073709551616
  found : ∀ k, k < blocks.length → streamBlock v data k ≠ 0
  packed : ∀ k, k < blocks.length →
    Packed (directoryBlock v data k) v.superblock.blockSize 0 (blocks.getD k [])
  filled : ∀ k, k + 1 < blocks.length → blocks.getD k [] ≠ []

/-- The node that `SearchDirectory` makes for the entry that `CreateNode`
stored at offset `position` of the global block `block`, whose bytes are
`bytes`. -/
def newNode (name : List Nat) (type : Nat) (random : Nat → Nat) (block position : Nat)
    (bytes : Memory) : EsFSFile :=
  ⟨if type = ESFS_FILE_TYPE_FILE then .file else .directory, 0,
    (List.range 8).map (fun i => random i % 256) ++ encodeU64 block, block,
    position + 18 + name.length, position,
    newEntrySize name.length type - 22 - name.length,
    readBytes bytes (position + 18 + name.length)
      (newEntrySize name.length type - 22 - name.length)⟩

/-- The state in which `CreateNode` stores the new entry in the last block of
the stream: the blocks `before` come first and hold entries, the last block is
found, differs from them and from the blocks that hold the extent list. -/
structure Landing (v : EsFSVolume) (data : EsFSAttributeFileData)
    (before : List (List (Nat × List Nat))) : Prop where
  geometry : AccessGeometry v
  mode : data.indirection = ESFS_DATA_INDIRECT ∨ data.indirection = ESFS_DATA_INDIRECT_2
  size : data.size = (before.length + 1) * v.superblock.blockSize
  fits : (before.length + 1) * v.superblock.blockSize < 18446744073709551616
  found : ∀ j, j ≤ before.length → streamBlock v data j ≠ 0
  distinct : ∀ j, j < before.length → streamBlock v data j ≠ streamBlock v data before.length
  listBlocks : data.indirection = ESFS_DATA_INDIRECT_2 →
    ∀ s, s < ESFS_INDIRECT_2_BLOCKS → data.indirect2 s ≠ 0 →
      data.indirect2 s ≠ streamBlock v data before.length
  packed : ∀ j, j < before.length →
    Packed (directoryBlock v data j) v.superblock.blockSize 0 (before.getD j [])
  filled : ∀ j, j < before.length → before.getD j [] ≠ []

/-- The place at which `CreateNode` stores the directory entry: the global
block returned by `GetBlockFromStream` for the last block of the stream (the
block that is then written, and that is patched into the identifier), and the
offset in the block at which the entry starts (`position - blockBuffer` when
the entry fits into the last block, 0 otherwise). -/
def CreateNode.place (v : EsFSVolume) (directory : DirectoryNode) (name : List Nat) (type : Nat)
    (random : Nat → Nat) (uninit : Nat → Nat) : Except DirectoryFault (Nat × Nat) :=
  match directory.data with
  | none => .error .noDataAttribute
  | some data =>
    match CreateNode.lastBlock v data with
    | .error f => .error f
    | .ok (_, position) =>
      let blockSize := v.superblock.blockSize
      let entryBufferPosition := (CreateNode.entry name type random).2.1
      let spaceRemaining := if data.size ≠ 0 then blockSize - position else 0
      match
        (if spaceRemaining < entryBufferPosition then
          match ResizeDataStream v data (data.size + blockSize) true directory.containerBlock
              uninit with
          | .error f => .error f
          | .ok (_, data, v) => .ok (data, v)
        else (.ok (data, v) : Except Fault (EsFSAttributeFileData × EsFSVolume))) with
      | .error f => .error (.stream f)
      | .ok (data, v) =>
        match GetBlockFromStream v data (sub64 data.size blockSize) with
        | .error f => .error (.stream f)
        | .ok high => .ok (high, if spaceRemaining ≥ entryBufferPosition then position else 0)

/-- What `CreateNode` leaves behind when it has stored an entry for `name` in
a directory whose blocks held the entries `blocks`: the directory is laid out,
its last block holds the new entry behind the entries `pre`, the blocks
`before` it and the entries `pre` are blocks and entries that the directory
had, the file entry of the new entry is as `CreateNode` made it, with the
global block of the last block in its identifier, and the entry is at the
place that `CreateNode.place` reports. -/
def CreateNode.Stored (v : EsFSVolume) (directory : DirectoryNode)
    (blocks : List (List (Nat × List Nat))) (name : List Nat) (type : Nat) (random : Nat → Nat)
    (uninit : Nat → Nat) (directory' : DirectoryNode) (v' : EsFSVolume) : Prop :=
  ∃ (data' : EsFSAttributeFileData) (before : List (List (Nat × List Nat)))
      (pre : List (Nat × List Nat)),
    directory' = ⟨directory.containerBlock, some data', some (entryCount blocks + 1)⟩
      ∧ DirectoryLaidOut v' data' (before ++ [pre ++ [(newEntrySize name.length type, name)]])
      ∧ (∀ b, b ∈ before → b ∈ blocks) ∧ (pre = [] ∨ pre ∈ blocks)
      ∧ entryCount before + pre.length ≤ entryCount blocks
      ∧ FileEntryAt (directoryBlock v' data' before.length) (entriesSize pre + 18 + name.length)
          type ((List.range 8).map (fun i => random i % 256))
          (streamBlock v' data' before.length)
      ∧ CreateNode.place v directory name type random uninit
          = .ok (streamBlock v' data' before.length, entriesSize pre)
      ∧ v'.superblock.blockSize = v.superblock.blockSize

/-- A stream that is not direct and none of whose blocks is found. -/
structure StreamLost (v : EsFSVolume) (data : EsFSAttributeFileData) : Prop where
  geometry : AccessGeometry v
  mode : data.indirection = ESFS_DATA_INDIRECT ∨ data.indirection = ESFS_DATA_INDIRECT_2
  lost : ∀ k, streamBlock v data k = 0

/-- What a call of `GrowDataStream` that returns `false` keeps of a stream
that holds its extent list in list blocks: the geometry of the volume, the
size, the extents the stream had, the bytes of every block that was in use and
is not a list block of the stream, and the list blocks that are set (a list
block that is new was not in use). -/
structure StreamKept (v0 : EsFSVolume) (data0 : EsFSAttributeFileData) (v1 : EsFSVolume)
    (data1 : EsFSAttributeFileData) : Prop where
  superblock : ∃ n, v1.superblock = { v0.superblock with blocksUsed := n }
  drive : v1.sectorsPerBlock = v0.sectorsPerBlock ∧ v1.sectorSize = v0.sectorSize
    ∧ v1.maxAccessSectorCount = v0.maxAccessSectorCount
  mode : data1.indirection = ESFS_DATA_INDIRECT_2
  size : data1.size = data0.size
  count : data0.extentCount ≤ data1.extentCount
  extents : ∀ j, j < data0.extentCount → extentList v1 data1 j = extentList v0 data0 j
  disk : ∀ x, usedBlock v0 x →
    (∀ s, s < ESFS_INDIRECT_2_BLOCKS → data0.indirect2 s ≠ x) →
    ∀ a, x * v0.superblock.blockSize ≤ a →
      a < x * v0.superblock.blockSize + v0.superblock.blockSize → v1.disk a = v0.disk a
  listBlocks : ∀ s, s < ESFS_INDIRECT_2_BLOCKS → data1.indirect2 s ≠ 0 →
    data1.indirect2 s = data0.indirect2 s ∨ ¬ usedBlock v0 (data1.indirect2 s)

/-- What a call of `GrowDataStream` that returns `false` leaves of a stream
whose extents were held in the attribute, when the list block for them could
not be allocated: no list block is set. -/
structure StreamDropped (v0 : EsFSVolume) (v1 : EsFSVolume) (data1 : EsFSAttributeFileData) :
    Prop where
  superblock : ∃ n, v1.superblock = { v0.superblock with blocksUsed := n }
  drive : v1.sectorsPerBlock = v0.sectorsPerBlock ∧ v1.sectorSize = v0.sectorSize
    ∧ v1.maxAccessSectorCount = v0.maxAccessSectorCount
  mode : data1.indirection = ESFS_DATA_INDIRECT_2
  none : ∀ s, s < ESFS_INDIRECT_2_BLOCKS → data1.indirect2 s = 0

/-! ## The superblock, mount and format

`EsFSVolume::Initialise` and `EsFSVolume::LoadRootDirectory` of
`src/kernel/esfs.cpp`, and the functions of the format tool
(`src/util/esfs.cpp`) that write and read the superblock.  `Superblock` and
`GroupDescriptorP` are laid out as by the x86-64 ABI.
-/

/-- `BOOT_SUPER_BLOCK_SIZE`: the boot block and the superblock take 8 KiB each. -/
def BOOT_SUPER_BLOCK_SIZE : Nat := 8192
/-- `DRIVER_VERSION`. -/
def ESFS_DRIVER_VERSION : Nat := 2
/-- `SIGNATURE_STRING`, the sixteen bytes of "EssenceFS!     \0". -/
def ESFS_SIGNATURE_STRING : List Nat :=
  [69, 115, 115, 101, 110, 99, 101, 70, 83, 33, 32, 32, 32, 32, 32, 0]
/-- `SIGNATURE_STRING_LENGTH`. -/
def ESFS_SIGNATURE_STRING_LENGTH : Nat := 16
/-- `MAX_BLOCK_SIZE`. -/
def MAX_BLOCK_SIZE : Nat := 16384
/-- `sizeof(GroupDescriptorP)`: `extentTable` at 0, `extentCount` at 8,
`blocksUsed` at 10, padding up to 32. -/
def sizeofGroupDescriptorP : Nat := 32
/-- `ATTRIBUTE_FILE_SECURITY`. -/
def ESFS_ATTRIBUTE_FILE_SECURITY : Nat := 1
/-- `sizeof(AttributeFileSecurity)`: header, `owner` at 4. -/
def sizeofAttributeFileSecurity : Nat := 20

/-- `Superblock`. -/
structure Superblock where
  signature : List Nat
  volumeName : List Nat
  requiredReadVersion : Nat
  requiredWriteVersion : Nat
  mounted : Nat
  blockSize : Nat
  blockCount : Nat
  blocksUsed : Nat
  blocksPerGroup : Nat
  groupCount : Nat
  blocksPerGroupExtentTable : Nat
  gdt : EsFSLocalExtent
  rootDirectoryFileEntry : EsFSLocalExtent
  identifier : List Nat
  osInstallation : List Nat
deriving DecidableEq, Repr

/-- The `Superblock` stored at `p`: `signature` at 0, `volumeName` at 16,
`requiredReadVersion` at 48, `requiredWriteVersion` at 50, `mounted` at 52,
`blockSize` at 56, `blockCount` at 64, `blocksUsed` at 72, `blocksPerGroup` at
80, `groupCount` at 88, `blocksPerGroupExtentTable` at 96, `gdt` at 104,
`rootDirectoryFileEntry` at 108, `identifier` at 112, `osInstallation` at 128. -/
def Superblock.read (m : Memory) (p : Nat) : Superblock :=
  ⟨readBytes m p 16, readBytes m (p + 16) 32, readU16 m (p + 48), readU16 m (p + 50),
    m (p + 52), readU64 m (p + 56), readU64 m (p + 64), readU64 m (p + 72),
    readU16 m (p + 80), readU64 m (p + 88), readU64 m (p + 96),
    ⟨readU16 m (p + 104), readU16 m (p + 106)⟩, ⟨readU16 m (p + 108), readU16 m (p + 110)⟩,
    readBytes m (p + 112) 16, readBytes m (p + 128) 16⟩

/-- The fields of the superblock that the allocator and the stream engine use. -/
def Superblock.fields (superblock : Superblock) : EsFSSuperblock :=
  ⟨superblock.blockSize, superblock.blockCount, superblock.blocksUsed,
    superblock.blocksPerGroup, superblock.groupCount, superblock.blocksPerGroupExtentTable⟩

/-- The group descriptor of group `g` in a table of `GroupDescriptorP`. -/
def readGroupDescriptor (m : Memory) (g : Nat) : EsFSGroupDescriptor :=
  ⟨readU64 m (g * sizeofGroupDescriptorP), readU16 m (g * sizeofGroupDescriptorP + 8),
    readU16 m (g * sizeofGroupDescriptorP + 10)⟩

/-- The `n` local extents stored from `p` on. -/
def readLocalExtents (m : Memory) (p n : Nat) : List EsFSLocalExtent :=
  (List.range n).map
    (fun i => ⟨readU16 m (p + i * sizeofLocalExtent), readU16 m (p + i * sizeofLocalExtent + 2)⟩)

/-- Memory `m` after `n` bytes of `src`, from `start` on, have been copied to
`addr` (`memcpy`, `fread`, `fwrite`). -/
def copyBytes (m : Memory) (addr : Nat) (src : Memory) (start n : Nat) : Memory :=
  fun a => if addr ≤ a ∧ a < addr + n then src (start + (a - addr)) else m a

/-- Modelled from the spec: `CompareBytes` is not part of the sources; like
`memcmp` it returns 0 exactly when the first `n` bytes are the same. -/
def CompareBytes (a b : List Nat) (n : Nat) : Nat :=
  if a.take n = b.take n then 0 else 1

/-- Modelled from the spec: the block device under a volume is not part of the
sources; of `Device` the embedding keeps the bytes of the drive, the sector
size and the number of sectors of one access. -/
structure Device where
  disk : Memory
  sectorSize : Nat
  maxAccessSectorCount : Nat

/-- `EsFSVolume::LoadRootDirectory`: the node of the root directory.  The block
of the file entry is read into a buffer of `blockSize * count` bytes, of which
the walk may use the block that was read.  Modelled from the spec:
`OSHeapAllocate` and `vfs.RegisterNodeHandle` are not part of the sources;
the node is allocated with zero bytes, so the fields of `EsFSFile` that the
function does not assign are 0, and the node handed in is returned. -/
def LoadRootDirectory (v : EsFSVolume) (rootDirectoryFileEntry : EsFSLocalExtent) :
    Except DirectoryFault (Option EsFSFile) :=
  let blockSize := v.superblock.blockSize
  if blockSize * rootDirectoryFileEntry.count < blockSize then .error .outsideBuffer
  else
    let root := bufferMemory (AccessBlockRead v rootDirectoryFileEntry.offset blockSize 0)
    match FindAttribute ESFS_ATTRIBUTE_LIST_END root blockSize blockSize sizeofFileEntry with
    | .error f => .error f
    | .ok none => .error .nullAttribute
    | .ok (some rootEnd) =>
      let fileEntryLength := rootEnd
      let fileEntry := readBytes root 0 fileEntryLength
      match FindAttribute ESFS_ATTRIBUTE_FILE_DIRECTORY (bufferMemory fileEntry) fileEntryLength
          fileEntryLength sizeofFileEntry with
      | .error f => .error f
      | .ok none => .error .nullAttribute
      | .ok (some directory) =>
        if fileEntryLength < directory + 16 then .error .outsideBuffer
        else
          .ok (some ⟨.directory, readU64 (bufferMemory fileEntry) (directory + 8),
            readBytes (bufferMemory fileEntry) 8 16, 0, 0, 0, fileEntryLength, fileEntry⟩)

/-- The volume as `EsFSVolume::Initialise` sets it up from the superblock it
has read: the sectors per block, the group descriptor table read from the
blocks of `gdt`, and the extent tables as they lie on the drive. -/
def Initialise.volume (drive : Device) (superblock : Superblock) : EsFSVolume :=
  let sectorsPerBlock := superblock.blockSize / drive.sectorSize
  let groupDescriptorTable := bufferMemory
    (driveRead drive.disk (superblock.gdt.offset * sectorsPerBlock * drive.sectorSize)
      (superblock.gdt.count * superblock.blockSize))
  { superblock := superblock.fields
    groupDescriptorTable := fun g => readGroupDescriptor groupDescriptorTable g
    extentTables := fun block =>
      readLocalExtents drive.disk (block * sectorsPerBlock * drive.sectorSize)
        (superblock.blocksPerGroupExtentTable * superblock.blockSize / sizeofLocalExtent)
    disk := drive.disk
    sectorsPerBlock := sectorsPerBlock
    sectorSize := drive.sectorSize
    maxAccessSectorCount := drive.maxAccessSectorCount }

/-- `EsFSVolume::Initialise`: the node of the root directory and the volume, or
nothing when the volume is not mounted. -/
def Initialise (drive : Device) : Except DirectoryFault (Option (EsFSFile × EsFSVolume)) :=
  let superblockP := bufferMemory (driveRead drive.disk 8192 8192)
  let superblock := Superblock.read superblockP 0
  if CompareBytes superblock.signature ESFS_SIGNATURE_STRING ESFS_SIGNATURE_STRING_LENGTH ≠ 0 then
    .ok none
  else if superblock.requiredReadVersion > ESFS_DRIVER_VERSION then .ok none
  else if superblock.requiredWriteVersion > ESFS_DRIVER_VERSION then .ok none
  else if superblock.mounted ≠ 0 then .ok none
  else
    let v := Initialise.volume drive superblock
    match LoadRootDirectory v superblock.rootDirectoryFileEntry with
    | .error f => .error f
    | .ok none => .ok none
    | .ok (some node) => .ok (some (node, v))

/-- Reasons for which the format tool ends with `exit(1)` or crashes. -/
inductive ToolFault where
  | divisionByZero
  | coreDataTooLarge
  | invalidSignature
  | laterReadVersion
  | laterWriteVersion
  | entryTooLarge
  | extentTableTooLarge
  | diskFull
deriving DecidableEq, Repr

/-- The global variables of the format tool: the drive file, `partitionOffset`,
`blockSize`, `superblockP`, `groupDescriptorTable`, `extentTableBuffer`, and
the random file with the number of bytes read from it. -/
structure FormatTool where
  drive : Memory
  partitionOffset : Nat
  blockSize : Nat
  superblockP : Memory
  groupDescriptorTable : Memory
  extentTableBuffer : Memory
  randomFile : Nat → Nat
  randomPosition : Nat

/-- The tool when it starts: the global buffers hold zero bytes. -/
def FormatTool.start (drive : Memory) (partitionOffset : Nat) (randomFile : Nat → Nat) :
    FormatTool :=
  ⟨drive, partitionOffset, 0, fun _ => 0, fun _ => 0, fun _ => 0, randomFile, 0⟩

/-- `ReadBlock` of the format tool: the buffer after `count` blocks from
`block` on have been read into it. -/
def FormatTool.ReadBlock (t : FormatTool) (block count : Nat) (buffer : Memory) : Memory :=
  copyBytes buffer 0 t.drive (block * t.blockSize + t.partitionOffset * 512) (t.blockSize * count)

/-- `WriteBlock` of the format tool. -/
def FormatTool.WriteBlock (t : FormatTool) (block count : Nat) (buffer : Memory) : FormatTool :=
  { t with
    drive := copyBytes t.drive (block * t.blockSize + t.partitionOffset * 512) buffer 0
      (t.blockSize * count) }

/-- `BlocksNeededToStore` of the format tool. -/
def FormatTool.BlocksNeededToStore (t : FormatTool) (size : Nat) : Nat :=
  if size % t.blockSize ≠ 0 then size / t.blockSize + 1 else size / t.blockSize

/-- `GenerateUniqueIdentifier` of the format tool: the next sixteen bytes of
the random file. -/
def FormatTool.GenerateUniqueIdentifier (t : FormatTool) : List Nat × FormatTool :=
  ((List.range 16).map (fun i => t.randomFile (t.randomPosition + i) % 256),
    { t with randomPosition := t.randomPosition + 16 })

/-- The block size that `PrepareCoreData` selects for a drive of `driveSize`
bytes. -/
def PrepareCoreData.blockSize (driveSize : Nat) : Nat :=
  if driveSize < 512 * 1024 * 1024 then 512
  else if driveSize < 1024 * 1024 * 1024 then 1024
  else if driveSize < 2048 * 1024 * 1024 then 2048
  else if driveSize < 256 * 1024 * 1024 * 1024 then 4096
  else if driveSize < 256 * 1024 * 1024 * 1024 * 1024 then 8192
  else MAX_BLOCK_SIZE

/-- The loop of `PrepareCoreData` that halves `blocksPerGroup` until the volume
has a group: `blocksPerGroup` and `groupCount` at its end. -/
def PrepareCoreData.groups (blockCount : Nat) : Nat → Nat → Except ToolFault (Nat × Nat)
  | 0, _ => .error .divisionByZero
  | fuel + 1, blocksPerGroup =>
    if blocksPerGroup = 0 then .error .divisionByZero
    else if blockCount / blocksPerGroup ≠ 0 then .ok (blocksPerGroup, blockCount / blocksPerGroup)
    else PrepareCoreData.groups blockCount fuel (blocksPerGroup / 2)

/-- The bytes of the `SuperblockP` that `PrepareCoreData` writes. -/
def PrepareCoreData.superblockP (volumeName : List Nat) (blockSize blockCount blocksUsed
    blocksPerGroup groupCount blocksPerGroupExtentTable : Nat) (gdt root : EsFSLocalExtent)
    (identifier : List Nat) : Memory :=
  let m : Memory := fun _ => 0
  let m := writeBytes m 0 (ESFS_SIGNATURE_STRING.take ESFS_SIGNATURE_STRING_LENGTH)
  let m := writeBytes m 16 volumeName
  let m := writeU16 m 50 ESFS_DRIVER_VERSION
  let m := writeU16 m 48 ESFS_DRIVER_VERSION
  let m := writeBytes m 56 (encodeU64 blockSize)
  let m := writeU16 m 80 blocksPerGroup
  let m := writeBytes m 88 (encodeU64 groupCount)
  let m := writeBytes m 96 (encodeU64 blocksPerGroupExtentTable)
  let m := writeU16 m 106 gdt.count
  let m := writeU16 m 104 gdt.offset
  let m := writeBytes m 64 (encodeU64 blockCount)
  let m := writeBytes m 72 (encodeU64 blocksUsed)
  let m := writeBytes m 112 identifier
  let m := writeU16 m 108 root.offset
  writeU16 m 110 root.count

/-- `PrepareCoreData` of the format tool: the superblock, its backup, the group
descriptor table and the extent table of the first group are written to the
drive. -/
def PrepareCoreData (t : FormatTool) (driveSize : Nat) (volumeName : List Nat) :
    Except ToolFault FormatTool :=
  let blockSize := PrepareCoreData.blockSize driveSize
  let t := { t with blockSize := blockSize }
  let blockCount := driveSize / blockSize
  match PrepareCoreData.groups blockCount 13 4096 with
  | .error f => .error f
  | .ok (blocksPerGroup, groupCount) =>
    let blocksPerGroupExtentTable := t.BlocksNeededToStore blocksPerGroup
    let blocksInGDT := t.BlocksNeededToStore (groupCount * sizeofGroupDescriptorP)
    let bootSuperBlocks := 2 * BOOT_SUPER_BLOCK_SIZE / blockSize
    let initialBlockUsage := bootSuperBlocks + blocksInGDT + 1 + blocksPerGroupExtentTable
    let blockCount := sub64 blockCount (bootSuperBlocks / 2)
    if initialBlockUsage ≥ blocksPerGroup then .error .coreDataTooLarge
    else
      let descriptorTable : Memory := fun _ => 0
      let descriptorTable := writeBytes descriptorTable 0 (encodeU64 (initialBlockUsage - 1))
      let descriptorTable := writeU16 descriptorTable 8 1
      let descriptorTable := writeU16 descriptorTable 10 initialBlockUsage
      let extent : Memory := fun _ => 0
      let extent := writeU16 extent 0 initialBlockUsage
      let extent := writeU16 extent 2 (blocksPerGroup - initialBlockUsage)
      let (identifier, t) := t.GenerateUniqueIdentifier
      let superblockP := PrepareCoreData.superblockP volumeName blockSize blockCount
        initialBlockUsage blocksPerGroup groupCount blocksPerGroupExtentTable
        ⟨bootSuperBlocks, blocksInGDT⟩ ⟨bootSuperBlocks + blocksInGDT, 1⟩ identifier
      let t := t.WriteBlock (bootSuperBlocks / 2) (bootSuperBlocks / 2) superblockP
      let t := t.WriteBlock blockCount (bootSuperBlocks / 2) superblockP
      let t := t.WriteBlock bootSuperBlocks blocksInGDT descriptorTable
      let t := t.WriteBlock (initialBlockUsage - 1) 1 extent
      .ok t

/-- `MountVolume` of the format tool. -/
def MountVolume (t : FormatTool) : Except ToolFault FormatTool :=
  let t := { t with blockSize := BOOT_SUPER_BLOCK_SIZE }
  let t := { t with superblockP := t.ReadBlock 1 1 t.superblockP }
  let t := { t with superblockP := writeBytes t.superblockP 52 [1] }
  let t := t.WriteBlock 1 1 t.superblockP
  let superblock := Superblock.read t.superblockP 0
  let t := { t with blockSize := superblock.blockSize }
  if superblock.signature.take ESFS_SIGNATURE_STRING_LENGTH
      ≠ ESFS_SIGNATURE_STRING.take ESFS_SIGNATURE_STRING_LENGTH then .error .invalidSignature
  else if superblock.requiredReadVersion > ESFS_DRIVER_VERSION then .error .laterReadVersion
  else if superblock.requiredWriteVersion > ESFS_DRIVER_VERSION then .error .laterWriteVersion
  else
    .ok { t with
      groupDescriptorTable :=
        t.ReadBlock superblock.gdt.offset superblock.gdt.count (fun _ => 0) }

/-- `UnmountVolume` of the format tool. -/
def UnmountVolume (t : FormatTool) : FormatTool :=
  let superblock := Superblock.read t.superblockP 0
  let t := t.WriteBlock superblock.gdt.offset superblock.gdt.count t.groupDescriptorTable
  let t := { t with blockSize := BOOT_SUPER_BLOCK_SIZE }
  let t := { t with superblockP := writeBytes t.superblockP 52 [0] }
  t.WriteBlock 1 1 t.superblockP

/-- The file entry of the root directory that `FormatVolume` makes in
`entryBuffer`, and `entryBufferPosition` behind it. -/
def FormatVolume.entry (identifier : List Nat) : Memory × Nat :=
  let entryBuffer : Memory := fun _ => 0
  let entryBufferPosition := 0
  let entryBuffer := writeBytes entryBuffer (entryBufferPosition + 8) identifier
  let entryBuffer := writeBytes entryBuffer (entryBufferPosition + 24) [ESFS_FILE_TYPE_DIRECTORY]
  let entryBuffer := writeBytes entryBuffer entryBufferPosition ESFS_FILE_ENTRY_SIGNATURE
  let entryBufferPosition := entryBufferPosition + sizeofFileEntry
  let entryBuffer := writeU16 entryBuffer entryBufferPosition ESFS_ATTRIBUTE_FILE_SECURITY
  let entryBuffer := writeU16 entryBuffer (entryBufferPosition + 2) sizeofAttributeFileSecurity
  let entryBufferPosition := entryBufferPosition + sizeofAttributeFileSecurity
  let entryBuffer := writeU16 entryBuffer entryBufferPosition ESFS_ATTRIBUTE_FILE_DATA
  let entryBuffer := writeU16 entryBuffer (entryBufferPosition + 2) sizeofAttributeFileData
  let entryBuffer := writeBytes entryBuffer (entryBufferPosition + 4) [ESFS_STREAM_DEFAULT]
  let entryBuffer := writeBytes entryBuffer (entryBufferPosition + 5) [ESFS_DATA_DIRECT]
  let entryBufferPosition := entryBufferPosition + sizeofAttributeFileData
  let entryBuffer := writeU16 entryBuffer entryBufferPosition ESFS_ATTRIBUTE_FILE_DIRECTORY
  let entryBuffer := writeU16 entryBuffer (entryBufferPosition + 2) sizeofAttributeFileDirectory
  let entryBuffer := writeBytes entryBuffer (entryBufferPosition + 8) (encodeU64 0)
  let entryBuffer := writeU16 entryBuffer (entryBufferPosition + 16) 0
  let entryBufferPosition := entryBufferPosition + sizeofAttributeFileDirectory
  let entryBuffer := writeU16 entryBuffer entryBufferPosition ESFS_ATTRIBUTE_LIST_END
  let entryBuffer := writeU16 entryBuffer (entryBufferPosition + 2) sizeofAttributeHeader
  (entryBuffer, entryBufferPosition + sizeofAttributeHeader)

/-- `FormatVolume` of the format tool. -/
def FormatVolume (t : FormatTool) (driveSize : Nat) (volumeName : List Nat) :
    Except ToolFault FormatTool :=
  match PrepareCoreData t driveSize volumeName with
  | .error f => .error f
  | .ok t =>
    match MountVolume t with
    | .error f => .error f
    | .ok t =>
      let (identifier, t) := t.GenerateUniqueIdentifier
      let (entryBuffer, entryBufferPosition) := FormatVolume.entry identifier
      if entryBufferPosition > t.blockSize then .error .entryTooLarge
      else
        let superblock := Superblock.read t.superblockP 0
        let t := t.WriteBlock superblock.rootDirectoryFileEntry.offset 1 entryBuffer
        .ok (UnmountVolume t)

/-- `GetBlocksInGroup` of the format tool. -/
def FormatTool.GetBlocksInGroup (t : FormatTool) (group : Nat) : Nat :=
  let superblock := Superblock.read t.superblockP 0
  if group = sub64 superblock.groupCount 1 then
    u16 (superblock.blockCount % superblock.blocksPerGroup)
  else u16 superblock.blocksPerGroup

/-- The first loop of `AllocateExtent` of the format tool over the table in
`extentTableBuffer`: the extent found (group relative) with the table and
`extentCount` afterwards, if an entry was large enough, and the final
`largestSeenIndex`.  `uninit` is the value `extent.count` holds before it is
assigned; `fuel` starts at `extentCount`. -/
def FormatTool.AllocateExtent.scan (desiredBlocks uninit extentCount : Nat) :
    Nat → Nat → Nat → Memory → Option (EsFSGlobalExtent × Memory × Nat) × Nat
  | 0, _, largestSeenIndex, _ => (none, largestSeenIndex)
  | fuel + 1, i, largestSeenIndex, extentTable =>
    let offset := readU16 extentTable (i * sizeofLocalExtent)
    let count := readU16 extentTable (i * sizeofLocalExtent + 2)
    if count > desiredBlocks then
      (some (⟨offset, desiredBlocks⟩,
        writeU16 (writeU16 extentTable (i * sizeofLocalExtent) (offset + desiredBlocks))
          (i * sizeofLocalExtent + 2) (count - desiredBlocks),
        extentCount), largestSeenIndex)
    else if count = desiredBlocks then
      (some (⟨offset, desiredBlocks⟩,
        copyBytes extentTable (i * sizeofLocalExtent) extentTable
          ((extentCount - 1) * sizeofLocalExtent) sizeofLocalExtent,
        extentCount - 1), largestSeenIndex)
    else
      FormatTool.AllocateExtent.scan desiredBlocks uninit extentCount fuel (i + 1)
        (if uninit > readU16 extentTable (largestSeenIndex * sizeofLocalExtent + 2) then i
          else largestSeenIndex)
        extentTable

/-- The end of `AllocateExtent` of the format tool from the label `finish`. -/
def FormatTool.AllocateExtent.finish (t : FormatTool) (blockGroup : Nat)
    (descriptor : EsFSGroupDescriptor) (extent : EsFSGlobalExtent) (extentTable : Memory) :
    EsFSGlobalExtent × FormatTool :=
  let superblock := Superblock.read t.superblockP 0
  let extent : EsFSGlobalExtent :=
    ⟨extent.offset + blockGroup * superblock.blocksPerGroup, extent.count⟩
  let p := blockGroup * sizeofGroupDescriptorP
  let groupDescriptorTable := writeBytes t.groupDescriptorTable p (encodeU64 descriptor.extentTable)
  let groupDescriptorTable := writeU16 groupDescriptorTable (p + 8) descriptor.extentCount
  let groupDescriptorTable := writeU16 groupDescriptorTable (p + 10)
    (descriptor.blocksUsed + extent.count)
  let t := { t with
    groupDescriptorTable := groupDescriptorTable
    superblockP := writeBytes t.superblockP 72 (encodeU64 (superblock.blocksUsed + extent.count))
    extentTableBuffer := extentTable }
  (extent,
    t.WriteBlock descriptor.extentTable
      (t.BlocksNeededToStore (descriptor.extentCount * sizeofLocalExtent)) extentTable)

/-- The group loop of `AllocateExtent` of the format tool; `remaining` is
`superblock->groupCount - groupsSearched`. -/
def FormatTool.AllocateExtent.search (desiredBlocks uninit : Nat) :
    Nat → Nat → FormatTool → Except ToolFault (EsFSGlobalExtent × FormatTool)
  | 0, _, _ => .error .diskFull
  | remaining + 1, blockGroup, t =>
    let superblock := Superblock.read t.superblockP 0
    let descriptor := readGroupDescriptor t.groupDescriptorTable blockGroup
    let next := (blockGroup + 1) % superblock.groupCount
    if descriptor.blocksUsed = t.GetBlocksInGroup blockGroup then
      FormatTool.AllocateExtent.search desiredBlocks uninit remaining next t
    else if descriptor.extentCount * sizeofLocalExtent > MAX_BLOCK_SIZE then
      .error .extentTableTooLarge
    else
      let loaded : EsFSGroupDescriptor × Memory :=
        if descriptor.extentTable = 0 then
          (⟨blockGroup * superblock.blocksPerGroup, 1, u16 superblock.blocksPerGroupExtentTable⟩,
            writeU16 (writeU16 t.extentTableBuffer 0 superblock.blocksPerGroupExtentTable) 2
              (sub16 (t.GetBlocksInGroup blockGroup) superblock.blocksPerGroupExtentTable))
        else
          (descriptor,
            t.ReadBlock descriptor.extentTable
              (t.BlocksNeededToStore (descriptor.extentCount * sizeofLocalExtent))
              t.extentTableBuffer)
      let descriptor := loaded.1
      let extentTable := loaded.2
      match FormatTool.AllocateExtent.scan desiredBlocks uninit descriptor.extentCount
          descriptor.extentCount 0 0 extentTable with
      | (some (extent, extentTable, extentCount), _) =>
        .ok (FormatTool.AllocateExtent.finish t blockGroup
          { descriptor with extentCount := extentCount } extent extentTable)
      | (none, largestSeenIndex) =>
        let extent : EsFSGlobalExtent :=
          ⟨readU16 extentTable (largestSeenIndex * sizeofLocalExtent),
            readU16 extentTable (largestSeenIndex * sizeofLocalExtent + 2)⟩
        let extentCount := sub16 descriptor.extentCount 1
        .ok (FormatTool.AllocateExtent.finish t blockGroup
          { descriptor with extentCount := extentCount } extent
          (copyBytes extentTable (largestSeenIndex * sizeofLocalExtent) extentTable
            (extentCount * sizeofLocalExtent) sizeofLocalExtent))

/-- `AllocateExtent` of the format tool. -/
def FormatTool.AllocateExtent (t : FormatTool) (localGroup desiredBlocks uninit : Nat) :
    Except ToolFault (EsFSGlobalExtent × FormatTool) :=
  FormatTool.AllocateExtent.search desiredBlocks uninit
    (Superblock.read t.superblockP 0).groupCount localGroup t

/-- `FindAttribute` of the format tool, on the attribute list that starts at
`header` in a buffer of `limit` bytes.  Every pass of the loop uses one unit
of `fuel`. -/
def FormatTool.FindAttribute (attributeType : Nat) (attributeList : Memory) (limit : Nat) :
    Nat → Nat → Except DirectoryFault (Option Nat)
  | 0, _ => .error .outOfFuel
  | fuel + 1, header =>
    if header + sizeofAttributeHeader ≤ limit then
      if readU16 attributeList header ≠ ESFS_ATTRIBUTE_LIST_END then
        if readU16 attributeList header = attributeType then .ok (some header)
        else
          FormatTool.FindAttribute attributeType attributeList limit fuel
            (header + readU16 attributeList (header + 2))
      else if attributeType = ESFS_ATTRIBUTE_LIST_END then .ok (some header)
      else .ok none
    else .error .outsideBuffer

/-- The drive file of 64 MiB after `format 64m` with the name "TEST", and the
tool at that point; the random file yields the bytes 1, 2, 3, ... -/
def formattedTool : Except ToolFault FormatTool :=
  FormatVolume (FormatTool.start (fun _ => 0) 0 (fun i => i + 1)) 67108864 [84, 69, 83, 84]

/-- The `SuperblockP` that `format 64m` writes in that run. -/
def formattedDrive.superblockP : Memory :=
  PrepareCoreData.superblockP [84, 69, 83, 84] 512 131056 43 4096 32 8 ⟨32, 2⟩ ⟨34, 1⟩
    [1, 2, 3, 4, 5, 6, 7, 8, 9, 10, 11, 12, 13, 14, 15, 16]

/-- The drive of 64 MiB when `PrepareCoreData` has returned in that run: the
superblock at byte 8192, its backup at block 131056, the group descriptor
table at block 32 and the extent table of group 0 at block 42. -/
def formattedDrive.prepared : Memory :=
  copyBytes
    (copyBytes
      (copyBytes (copyBytes (fun _ => 0) 8192 formattedDrive.superblockP 0 8192) 67100672
        formattedDrive.superblockP 0 8192)
      16384 (writeU16 (writeU16 (writeBytes (fun _ => 0) 0 (encodeU64 42)) 8 1) 10 43) 0 1024)
    21504 (writeU16 (writeU16 (fun _ => 0) 0 43) 2 4053) 0 512

/-- The global `superblockP` of the tool when `MountVolume` has returned in
that run. -/
def formattedDrive.mounted : Memory :=
  writeBytes (copyBytes (fun _ => 0) 0 formattedDrive.prepared 8192 8192) 52 [1]

/-- The drive after `format 64m` in that run, write by write: the superblock
with `mounted` set, the file entry of the root directory at block 34, the
group descriptor table, and the superblock with `mounted` cleared. -/
def formattedDrive : Memory :=
  copyBytes
    (copyBytes
      (copyBytes (copyBytes formattedDrive.prepared 8192 formattedDrive.mounted 0 8192) 17408
        (FormatVolume.entry
          [17, 18, 19, 20, 21, 22, 23, 24, 25, 26, 27, 28, 29, 30, 31, 32]).1 0 512)
      16384
      (copyBytes (fun _ => 0) 0
        (copyBytes formattedDrive.prepared 8192 formattedDrive.mounted 0 8192) 16384 1024)
      0 1024)
    8192 (writeBytes formattedDrive.mounted 52 [0]) 0 8192

/-- A block device that holds the formatted drive, with sectors of 512 bytes. -/
def formattedDevice : Device := ⟨formattedDrive, 512, 256⟩

/-! ## Further sample volumes and observations -/

/-- The 64 MiB volume with two free extents left in group 0: block 50, and the
three blocks from block 60 on. -/
def unevenVolume : EsFSVolume where
  superblock := ⟨512, 131056, 4092 + 31 * 4096 - 16, 4096, 32, 8⟩
  groupDescriptorTable := fun g =>
    if g = 0 then ⟨42, 2, 4092⟩ else if g = 31 then ⟨126976, 0, 4080⟩ else ⟨g * 4096, 0, 4096⟩
  extentTables := fun b => if b = 42 then [⟨50, 1⟩, ⟨60, 3⟩] else []
  disk := fun _ => 0
  sectorsPerBlock := 1
  sectorSize := 512
  maxAccessSectorCount := 256

/-- A 1 MiB volume (one group of 2032 blocks, an extent table of four blocks)
on which every second block from block 40 to block 1062 is free: 512 free
extents of one block each, no two of which touch. -/
def alternatingVolume : EsFSVolume where
  superblock := ⟨512, 2032, 1520, 2048, 1, 4⟩
  groupDescriptorTable := fun g => if g = 0 then ⟨37, 512, 1520⟩ else ⟨0, 0, 0⟩
  extentTables := fun b => if b = 37 then (List.range 512).map (fun k => ⟨40 + 2 * k, 1⟩) else []
  disk := fun _ => 0
  sectorsPerBlock := 1
  sectorSize := 512
  maxAccessSectorCount := 256

/-- An attribute list lies at `p` in `m`: for each attribute of `attributes`
(type and size), in order, a header with that type, which is not LIST_END, and
that size, which covers the header, followed by the rest of the list `size`
bytes further on; and behind the last attribute a header of type LIST_END. -/
def AttributeListAt (m : Memory) : Nat → List (Nat × Nat) → Prop
  | p, [] => readU16 m p = ESFS_ATTRIBUTE_LIST_END
  | p, a :: rest =>
    readU16 m p = a.1 ∧ a.1 ≠ ESFS_ATTRIBUTE_LIST_END ∧ readU16 m (p + 2) = a.2
      ∧ sizeofAttributeHeader ≤ a.2 ∧ AttributeListAt m (p + a.2) rest

/-- The sum of the sizes of the attributes. -/
def attributesSize (attributes : List (Nat × Nat)) : Nat := (attributes.map (fun a => a.2)).sum

/-- The accesses are runs of the stream from byte `pos` on: each transfers at
least one byte, starts at the offset of `pos` in its block, names a block
other than 0, spans at most `maxBlocksToFind` blocks, and the blocks of the
stream it spans are the consecutive global blocks from `globalBlock` on; the
next access begins where this one ends, and after the last one no byte of
`size` is left. -/
def AccessStream.Runs (lookup : Nat → Nat) (maxBlocksToFind blockSize : Nat) :
    List StreamAccess → Nat → Nat → Prop
  | [], _, size => size = 0
  | a :: rest, pos, size =>
    1 ≤ a.dataToTransfer ∧ a.dataToTransfer ≤ size ∧ a.globalBlock ≠ 0
    ∧ a.offsetIntoBlock = pos % blockSize
    ∧ a.offsetIntoBlock + a.dataToTransfer ≤ maxBlocksToFind * blockSize
    ∧ (∀ j, j * blockSize < a.offsetIntoBlock + a.dataToTransfer →
        lookup (pos / blockSize + j) = a.globalBlock + j)
    ∧ AccessStream.Runs lookup maxBlocksToFind blockSize rest
        (pos + a.dataToTransfer) (size - a.dataToTransfer)

/-- A directory block of 512 bytes that holds the entries of two files, "a"
and "b", as `CreateNode` lays them out, and zero bytes behind them. -/
def removalBlock : Memory :=
  writeBytes
    (writeBytes (fun _ => 0) 0
      (readBytes (CreateNode.patched [97] ESFS_FILE_TYPE_FILE (fun i => i) 43) 0 155))
    155 (readBytes (CreateNode.patched [98] ESFS_FILE_TYPE_FILE (fun i => i + 16) 43) 0 155)

/-- The sample volume with `removalBlock` in block 43. -/
def removalVolume : EsFSVolume :=
  { sampleVolume with
    disk := fun a => if 43 * 512 ≤ a ∧ a < 44 * 512 then removalBlock (a - 43 * 512) else 0 }

/-- The open node of the file "a" of `removalVolume`: its directory entry is
at offset 0 of block 43. -/
def removalNode : EsFSFile :=
  ⟨.file, 0, [0, 1, 2, 3, 4, 5, 6, 7] ++ encodeU64 43, 43, 22, 0, 132, []⟩

/-! ## The stream access of the format tool, and further samples -/

/-- `EsFSSync`: the copy of the file entry kept behind the `EsFSFile` of the
node is written to the drive, `fileEntryLength` bytes at `offsetIntoBlock` of
`containerBlock`. -/
def EsFSSync (v : EsFSVolume) (node : EsFSFile) : EsFSVolume :=
  AccessBlockWrite v node.containerBlock node.fileEntryLength node.fileEntry node.offsetIntoBlock

/-- A stream of two blocks in one extent, the blocks 43 and 44 of the sample
volume. -/
def twoBlockStream : EsFSAttributeFileData := singleExtentStream ⟨43, 2⟩ 1024

/-- Reasons for which `AccessStream` of the format tool does not return: one of
its two `exit(1)`, or a `memcpy` that leaves `blockBuffer` or the 64 bytes of
the attribute. -/
inductive ToolStreamFault where
  | unsupportedIndirection
  | couldNotFindBlock
  | outsideBlockBuffer
  | outsideAttribute
deriving DecidableEq, Repr

/-- The buffer `i2ExtentList` of the format tool after every block named by a
non-zero `indirect2[i]` has been read to `i2ExtentList + i * (blockSize /
sizeof(GlobalExtent))`. -/
def FormatTool.loadExtentList (t : FormatTool) (data : EsFSAttributeFileData) : Memory :=
  (List.range ESFS_INDIRECT_2_BLOCKS).foldl
    (fun buffer i =>
      if data.indirect2 i ≠ 0 then
        copyBytes buffer (i * (t.blockSize / sizeofGlobalExtent) * sizeofGlobalExtent) t.drive
          (data.indirect2 i * t.blockSize + t.partitionOffset * 512) (t.blockSize * 1)
      else buffer)
    (fun _ => 0)

/-- The block search in the loop of `AccessStream` of the format tool: the
global block of a block of the stream, 0 if none. -/
def FormatTool.streamBlock (t : FormatTool) (data : EsFSAttributeFileData)
    (blockInStream : Nat) : Nat :=
  findBlock
    (if data.indirection = ESFS_DATA_INDIRECT_2 then
      fun i => readExtent (FormatTool.loadExtentList t data) (i * sizeofGlobalExtent)
    else data.indirect)
    blockInStream data.extentCount 0 0

/-- The loop `for (i = 0; i < sizeBlocks; i++)` of `AccessStream` of the format
tool, with `n` passes left: `source` holds the bytes of the buffer still to
write, `stored` the bytes stored in the buffer so far.  The result holds the
tool, the bytes stored and `lastAccessedActualBlock`.  The array `blockBuffer`
has `blockSize` bytes; a `memcpy` that leaves it is a fault. -/
def FormatTool.AccessStream.blocks (data : EsFSAttributeFileData)
    (offset offsetBlockAligned sizeBlocks : Nat) (write : Bool) :
    Nat → Nat → Nat → List Nat → List Nat → Nat → FormatTool →
      Except ToolStreamFault (FormatTool × List Nat × Nat)
  | 0, _, _, _, stored, lastAccessedActualBlock, t => .ok (t, stored, lastAccessedActualBlock)
  | n + 1, i, size, source, stored, _, t =>
    let blockInStream := offsetBlockAligned / t.blockSize + i
    if ¬ (data.indirection = ESFS_DATA_INDIRECT ∨ data.indirection = ESFS_DATA_INDIRECT_2) then
      .error .unsupportedIndirection
    else
      let globalBlock := FormatTool.streamBlock t data blockInStream
      if globalBlock = 0 then .error .couldNotFindBlock
      else
        let offsetIntoBlock := if i = 0 then sub64 offset offsetBlockAligned else 0
        let dataToTransfer := if i = sub64 sizeBlocks 1 then size else t.blockSize
        if offsetIntoBlock + dataToTransfer > t.blockSize then .error .outsideBlockBuffer
        else if write then
          let blockBuffer : Memory :=
            if offsetIntoBlock ≠ 0 ∨ dataToTransfer ≠ t.blockSize then
              t.ReadBlock globalBlock 1 (fun _ => 0)
            else fun _ => 0
          let blockBuffer := writeBytes blockBuffer offsetIntoBlock (source.take dataToTransfer)
          FormatTool.AccessStream.blocks data offset offsetBlockAligned sizeBlocks write n (i + 1)
            (sub64 size dataToTransfer) (source.drop dataToTransfer) stored globalBlock
            (t.WriteBlock globalBlock 1 blockBuffer)
        else
          let blockBuffer := t.ReadBlock globalBlock 1 (fun _ => 0)
          FormatTool.AccessStream.blocks data offset offsetBlockAligned sizeBlocks write n (i + 1)
            (sub64 size dataToTransfer) source
            (stored ++ readBytes blockBuffer offsetIntoBlock dataToTransfer) globalBlock t

/-- `AccessStream` of the format tool.  The result holds the attribute and the
tool after the call, for a read the `size` bytes stored in the buffer, and
`lastAccessedActualBlock`. -/
def FormatTool.AccessStream (t : FormatTool) (data : EsFSAttributeFileData) (offset size : Nat)
    (buffer : List Nat) (write : Bool) (lastAccessedActualBlock : Nat) :
    Except ToolStreamFault (EsFSAttributeFileData × FormatTool × List Nat × Nat) :=
  if size = 0 then .ok (data, t, [], lastAccessedActualBlock)
  else if data.indirection = ESFS_DATA_DIRECT then
    if offset + size > ESFS_DIRECT_BYTES then .error .outsideAttribute
    else if write then
      .ok ({ data with unionBytes := writeBytes data.unionBytes offset (buffer.take size) }, t, [],
        lastAccessedActualBlock)
    else .ok (data, t, readBytes data.unionBytes offset size, lastAccessedActualBlock)
  else
    let offsetBlockAligned := offset &&& (18446744073709551615 - sub64 t.blockSize 1)
    let sizeBlocks := t.BlocksNeededToStore (size + (offset - offsetBlockAligned))
    match FormatTool.AccessStream.blocks data offset offsetBlockAligned sizeBlocks write
        sizeBlocks 0 size buffer [] lastAccessedActualBlock t with
    | .error f => .error f
    | .ok (t, stored, lastAccessedActualBlock) => .ok (data, t, stored, lastAccessedActualBlock)

/-- The format tool on the drive of a volume, with the block size of the
volume and no partition offset. -/
def FormatTool.onVolume (v : EsFSVolume) : FormatTool :=
  { FormatTool.start v.disk 0 (fun _ => 0) with blockSize := v.superblock.blockSize }

/-- The headers of an attribute list can be walked from `p` to a header of
type LIST_END at `t`: `n` headers come first, none of type LIST_END, each with
a size of at least 1, and each followed `size` bytes further on by the next. -/
def FindAttribute.Walk (m : Memory) : Nat → Nat → Nat → Prop
  | p, 0, t => p = t ∧ readU16 m p = ESFS_ATTRIBUTE_LIST_END
  | p, n + 1, t =>
    readU16 m p ≠ ESFS_ATTRIBUTE_LIST_END ∧ 1 ≤ readU16 m (p + 2)
      ∧ FindAttribute.Walk m (p + readU16 m (p + 2)) n t

/-- The 64 MiB volume with a file of one-block extents on it: the blocks 43 to
50 hold the extent list of the file, the extents {51, 1}, {52, 1}, ... up to
{305, 1} (255 extents, 32 to a block), and the blocks from 306 on are free. -/
def listedVolume : EsFSVolume :=
  { sampleVolume with
    superblock := ⟨512, 131056, 306, 4096, 32, 8⟩
    groupDescriptorTable := fun g => if g = 0 then ⟨42, 1, 306⟩ else ⟨0, 0, 0⟩
    extentTables := fun b => if b = 42 then [⟨306, 3790⟩] else []
    disk := fun a =>
      if 43 * 512 ≤ a ∧ a < 51 * 512 ∧ (a - 43 * 512) / 16 < 255 then
        (encodeExtent ⟨51 + (a - 43 * 512) / 16, 1⟩).getD ((a - 43 * 512) % 16) 0
      else 0 }

/-- The data attribute of that file when it has `n` blocks: an INDIRECT_2
stream of `n` extents whose list blocks are the blocks 43 to 50. -/
def listedStream (n : Nat) : EsFSAttributeFileData :=
  ⟨ESFS_DATA_INDIRECT_2, n, n * 512,
    fun a => if a < 64 then (encodeU64 (43 + a / 8)).getD (a % 8) 0 else 0⟩

/-- The extents of a stream can be read and addressed as the source does it:
an INDIRECT stream has at most four extents; the extents of an INDIRECT_2
stream fit the eight list blocks, the list blocks that hold them are set and
the other list blocks are not; the counts add up to less than `2 ^ 64`; and
every extent ends inside the first `2 ^ 64` bytes of the drive. -/
structure StreamAddressable (v : EsFSVolume) (data : EsFSAttributeFileData) : Prop where
  small : data.indirection = ESFS_DATA_INDIRECT → data.extentCount ≤ ESFS_INDIRECT_EXTENTS
  big : data.indirection = ESFS_DATA_INDIRECT_2 →
    data.extentCount ≤ ESFS_INDIRECT_2_BLOCKS * extentsPerBlock v.superblock
  listBlocks : data.indirection = ESFS_DATA_INDIRECT_2 →
    ∀ s, s < ESFS_INDIRECT_2_BLOCKS →
      (data.indirect2 s ≠ 0
        ↔ s < BlocksNeededToStore v.superblock (data.extentCount * sizeofGlobalExtent))
  sum : countSum (extentList v data) 0 data.extentCount < 18446744073709551616
  bytes : ∀ i, i < data.extentCount →
    ((extentList v data i).offset + (extentList v data i).count) * v.superblock.blockSize
      ≤ 18446744073709551616

/-- An indirect stream of 1024 bytes with the extents {43, 1} and
{100, 2^64 - 1}, whose counts add up to `2 ^ 64`. -/
def wrappingStream : EsFSAttributeFileData :=
  { (singleExtentStream ⟨43, 1⟩ 1024).setIndirect 1 ⟨100, 18446744073709551615⟩ with
    extentCount := 2 }

/-- The tool after `MountVolume` on the drive left by `format 64m`. -/
def mountedTool : FormatTool :=
  (MountVolume (FormatTool.start formattedDrive 0 (fun i => i + 1))).toOption.getD
    (FormatTool.start formattedDrive 0 (fun i => i + 1))

/-- The tool after one session on the drive left by `format 64m`, before the
unmount: the volume has been mounted and one block has been allocated. -/
def sessionTool : FormatTool :=
  ((FormatTool.AllocateExtent mountedTool 0 1 0).toOption.map
    (fun (r : EsFSGlobalExtent × FormatTool) => r.2)).getD mountedTool

/-! ## Theorems -/

/-! ### Defects found by running the code -/

/-- C1, counterexample: an indirect stream of one block whose single extent is
block 0 meets the premises of the claim (one extent, covering the one block of
the stream), yet a write of one byte at offset 0 ends in the panic "Could not
find block", because 0 is the value the block search uses for "not found". -/
theorem AccessStream_block_zero_not_found :
    streamExtents sampleVolume (singleExtentStream ⟨0, 1⟩ 512) = [⟨0, 1⟩]
    ∧ BlocksNeededToStore sampleVolume.superblock 512 = 1
    ∧ (AccessStream sampleVolume (singleExtentStream ⟨0, 1⟩ 512) 0 1 [9] true).map (fun r => r.2.2)
        = .error .couldNotFindBlock :=
  ⟨rfl, rfl, rfl⟩

/-- C2, the code at the failing input: growing a fresh direct stream (size 0)
to 5 bytes returns `true` and leaves `size` at 0. -/
theorem ResizeDataStream_direct_grow_keeps_size :
    (ResizeDataStream sampleVolume emptyStream 5 false 34 (fun _ => 0)).map
        (fun r => (r.1, r.2.1.indirection, r.2.1.size))
      = .ok (true, ESFS_DATA_DIRECT, 0) :=
  rfl

/-- C3, the code at the failing input: on a fresh direct stream the calls
`Resize 5`, `Resize 100`, `Resize 5` all return `true`; the first five bytes
read `0,0,0,0,0` after the first call and `7,7,7,7,7` (the stale bytes of the
newly allocated block) after the third. -/
theorem ResizeDataStream_grow_shrink_changes_bytes :
    (do
      let r1 ← ResizeDataStream sampleVolume emptyStream 5 false 34 (fun _ => 0)
      let b1 ← firstBytes r1.2.2 r1.2.1 5
      let r2 ← ResizeDataStream r1.2.2 r1.2.1 100 false 34 (fun _ => 0)
      let r3 ← ResizeDataStream r2.2.2 r2.2.1 5 false 34 (fun _ => 0)
      let b3 ← firstBytes r3.2.2 r3.2.1 5
      pure (r1.1, r2.1, r3.1, b1, b3) : Except Fault (Bool × Bool × Bool × List Nat × List Nat))
      = .ok (true, true, true, [0, 0, 0, 0, 0], [7, 7, 7, 7, 7]) :=
  rfl

/-- C6, the code at the failing input: shrinking an indirect stream of 100
bytes (one block, block 43) to 50 bytes returns `true` and leaves the stream
INDIRECT with its extent, not DIRECT. -/
theorem ShrinkDataStream_same_blocks_stays_indirect :
    (ShrinkDataStream sampleVolume (singleExtentStream ⟨43, 1⟩ 100) 50).map
        (fun r => (r.1, r.2.1.indirection, r.2.1.extentCount, r.2.1.size))
      = .ok (true, ESFS_DATA_INDIRECT, 1, 50) :=
  rfl

set_option maxRecDepth 100000 in
/-- C7, the code at the failing input: a stream grown to five one-block
extents is INDIRECT_2 with its extent list in block 54 (`indirect2[0]`);
shrinking it to four blocks makes it INDIRECT and frees only the data block
56: block 54 is in no free extent of the group and is still counted in
`blocksUsed` (4094 rather than 4093). -/
theorem ShrinkDataStream_keeps_list_block_allocated :
    (do
      let r1 ← GrowDataStream fragmentedVolume emptyStream 2560 true 34 (fun _ => 0)
      let r2 ← ShrinkDataStream r1.2.2 r1.2.1 2048
      pure (r1.2.1.indirection, r1.2.1.indirect2 0, r1.2.2.superblock.blocksUsed,
        r2.1, r2.2.1.indirection, streamExtents r2.2.2 r2.2.1,
        r2.2.2.superblock.blocksUsed, r2.2.2.extentTables 42)
        : Except Fault (Nat × Nat × Nat × Bool × Nat × List EsFSGlobalExtent × Nat
            × List EsFSLocalExtent))
      = .ok (ESFS_DATA_INDIRECT_2, 54, 4095,
          true, ESFS_DATA_INDIRECT, [⟨50, 1⟩, ⟨62, 1⟩, ⟨60, 1⟩, ⟨58, 1⟩],
          4094, [⟨52, 1⟩, ⟨56, 1⟩]) :=
  rfl

/-- C8, the code at the failing input: a stream grown to two blocks (blocks 43
and 44) and then shrunk to 50 bytes becomes DIRECT, but only block 44 goes back
to the free table: `blocksUsed` is 44, one more than before the grow, and the
free extent of the group starts at block 44. -/
theorem ShrinkDataStream_to_direct_leaks_first_block :
    (do
      let r1 ← GrowDataStream sampleVolume emptyStream 1024 true 34 (fun _ => 0)
      let r2 ← ShrinkDataStream r1.2.2 r1.2.1 50
      pure (streamExtents r1.2.2 r1.2.1, r1.2.2.superblock.blocksUsed,
        r2.1, r2.2.1.indirection, r2.2.2.superblock.blocksUsed,
        (r2.2.2.groupDescriptorTable 0).blocksUsed, r2.2.2.extentTables 42)
        : Except Fault (List EsFSGlobalExtent × Nat × Bool × Nat × Nat × Nat
            × List EsFSLocalExtent))
      = .ok ([⟨43, 2⟩], 45, true, ESFS_DATA_DIRECT, 44, 44, [⟨44, 4052⟩]) :=
  rfl

/-- C9, the code at the failing input: with one free block left, a grow that
needs two blocks allocates block 100, finds the disk full and returns `false`
without freeing it: `blocksUsed` stays at 2032 (2031 before the call) and the
free table of the group is empty. -/
theorem GrowDataStream_disk_full_keeps_allocation :
    (GrowDataStream smallVolume emptyStream 1024 false 34 (fun _ => 0)).map
        (fun r => (r.1, r.2.2.superblock.blocksUsed, (r.2.2.groupDescriptorTable 0).blocksUsed,
          r.2.2.extentTables 37))
      = .ok (false, 2032, 2032, [])
    ∧ smallVolume.superblock.blocksUsed = 2031
    ∧ smallVolume.extentTables 37 = [⟨100, 1⟩] :=
  ⟨rfl, rfl, rfl⟩

/-- C5, the code at the failing input: on a full volume the grow of the direct
stream "hello" to 100 bytes returns `false` after it has switched the
attribute to INDIRECT (no extent, size 5); the same call made again needs no
further block (one block before, one after), returns `true` and leaves an
INDIRECT stream of size 100 without any extent, for which
`GetBlockFromStream` returns 0 at offset 0. -/
theorem ResizeDataStream_retry_after_failed_grow :
    ((do
      let r1 ← ResizeDataStream fullVolume helloStream 100 false 34 (fun _ => 0)
      let r2 ← ResizeDataStream r1.2.2 r1.2.1 100 false 34 (fun _ => 0)
      let b ← GetBlockFromStream r2.2.2 r2.2.1 0
      pure (r1.1, r1.2.1.indirection, r1.2.1.extentCount, r1.2.1.size,
        r2.1, r2.2.1.indirection, r2.2.1.extentCount, r2.2.1.size, b))
        : Except Fault (Bool × Nat × Nat × Nat × Bool × Nat × Nat × Nat × Nat))
      = .ok (false, ESFS_DATA_INDIRECT, 0, 5, true, ESFS_DATA_INDIRECT, 0, 100, 0) :=
  rfl

/-- C10, counterexample: on a volume whose first group descriptor claims more
extents than its table blocks can hold, `AllocateExtent` returns no extent at
all: it ends in the panic "Extent table larger than expected". -/
theorem AllocateExtent_oversized_table_panics :
    (AllocateExtent oversizedTableVolume 0 1 0).map (fun r => r.1) = .error .extentTableTooLarge :=
  rfl

/-! ### The extent allocator -/

theorem AllocateExtent.scan_found (table : List EsFSLocalExtent) (d u : Nat)
    (pre : List EsFSLocalExtent) (e : EsFSLocalExtent) (post : List EsFSLocalExtent)
    (hpre : ∀ x ∈ pre, x.count < d) (he : d ≤ e.count) (i l : Nat) :
    (AllocateExtent.scan table d u (pre ++ e :: post) i l).1 =
      some (⟨e.offset, d⟩,
        if d < e.count then table.set (i + pre.length) ⟨u16 (e.offset + d), u16 (e.count - d)⟩
        else swapRemove table (i + pre.length),
        if d < e.count then table.length else table.length - 1) := by
  induction pre generalizing i l with
  | nil =>
    simp only [List.nil_append, AllocateExtent.scan, List.length_nil, Nat.add_zero]
    by_cases h : d < e.count
    · simp [h]
    · have h2 : e.count = d := by omega
      simp [h2]
  | cons x pre ih =>
    have hx : x.count < d := hpre x (List.mem_cons_self _ _)
    have h1 : ¬ x.count > d := by omega
    have h2 : ¬ x.count = d := by omega
    simp only [List.cons_append, AllocateExtent.scan, h1, h2, if_false, List.append_eq]
    rw [ih (fun y hy => hpre y (List.mem_cons_of_mem _ hy))]
    simp only [List.length_cons]
    have : i + 1 + pre.length = i + (pre.length + 1) := by omega
    rw [this]

theorem AllocateExtent.scan_some_count (table : List EsFSLocalExtent) (d u : Nat)
    (rest : List EsFSLocalExtent) (i l : Nat) (r : EsFSGlobalExtent × List EsFSLocalExtent × Nat)
    (h : (AllocateExtent.scan table d u rest i l).1 = some r) : r.1.count = d := by
  induction rest generalizing i l with
  | nil => simp [AllocateExtent.scan] at h
  | cons x rest ih =>
    simp only [AllocateExtent.scan] at h
    split at h
    · simp at h; rw [← h]
    · split at h
      · simp at h; rw [← h]
      · exact ih _ _ h

theorem AllocateExtent.scan_none (table : List EsFSLocalExtent) (d u : Nat)
    (rest : List EsFSLocalExtent) (i l : Nat)
    (h : (AllocateExtent.scan table d u rest i l).1 = none) :
    (∀ x ∈ rest, x.count < d) ∧
      ((AllocateExtent.scan table d u rest i l).2 = l ∨
        (i ≤ (AllocateExtent.scan table d u rest i l).2 ∧
          (AllocateExtent.scan table d u rest i l).2 < i + rest.length)) := by
  induction rest generalizing i l with
  | nil => simp [AllocateExtent.scan]
  | cons x rest ih =>
    simp only [AllocateExtent.scan] at h ⊢
    split at h
    · simp at h
    · split at h
      · simp at h
      · rename_i h1 h2
        simp only [h1, h2, if_false]
        obtain ⟨ha, hb⟩ := ih _ _ h
        refine ⟨?_, ?_⟩
        · intro y hy
          rcases List.mem_cons.1 hy with rfl | hy
          · omega
          · exact ha y hy
        · simp only [List.length_cons]
          rcases hb with hb | hb
          · rw [hb]
            split
            · right; omega
            · left; rfl
          · right; omega


theorem searchOrder_succ (v : EsFSVolume) (g k : Nat) :
    searchOrder v ((g + 1) % v.superblock.groupCount) k = searchOrder v g (k + 1) := by
  induction k with
  | zero => rfl
  | succ k ih => simp only [searchOrder] at ih ⊢; rw [ih]

theorem AllocateExtent.search_skip (v : EsFSVolume) (d u : Nat) (k : Nat) :
    ∀ (remaining g : Nat), (∀ j < k, groupFull v (searchOrder v g j)) →
      AllocateExtent.search v d u (remaining + k) g
        = AllocateExtent.search v d u remaining (searchOrder v g k) := by
  induction k with
  | zero => intro remaining g _; rfl
  | succ k ih =>
    intro remaining g hfull
    have h0 : (v.groupDescriptorTable g).blocksUsed = GetBlocksInGroup v.superblock g :=
      hfull 0 (Nat.succ_pos k)
    have : remaining + (k + 1) = (remaining + k) + 1 := by omega
    rw [this]
    simp only [AllocateExtent.search, h0, if_true]
    rw [ih remaining _ (fun j hj => by
      rw [searchOrder_succ]; exact hfull (j + 1) (by omega))]
    rw [searchOrder_succ]

theorem getD_count_le_of_forall_lt (table : List EsFSLocalExtent) (d l : Nat)
    (h : ∀ x ∈ table, x.count < d) : (table.getD l default).count ≤ d := by
  by_cases hl : l < table.length
  · rw [List.getD_eq_getElem _ _ hl]
    exact Nat.le_of_lt (h _ (List.getElem_mem _))
  · rw [List.getD_eq_default _ _ (by omega)]
    exact Nat.zero_le _

theorem AllocateExtent.search_returns (v : EsFSVolume) (d u : Nat) (hfit : ∀ g, tableFits v g) :
    ∀ (remaining g : Nat), ∃ extent v',
      AllocateExtent.search v d u remaining g = .ok (extent, v') ∧ extent.count ≤ d := by
  intro remaining
  induction remaining with
  | zero => intro g; exact ⟨_, _, rfl, Nat.zero_le _⟩
  | succ remaining ih =>
    intro g
    simp only [AllocateExtent.search]
    by_cases hfull : (v.groupDescriptorTable g).blocksUsed = GetBlocksInGroup v.superblock g
    · simp only [hfull, if_true]; exact ih _
    · have hf : ¬ (v.groupDescriptorTable g).extentCount * sizeofLocalExtent
          > v.superblock.blocksPerGroupExtentTable * v.superblock.blockSize :=
        Nat.not_lt.2 (hfit g)
      simp only [hfull, hf, if_false]
      rcases hs : AllocateExtent.scan (AllocateExtent.loadedTable v g) d u
          (AllocateExtent.loadedTable v g) 0 0 with ⟨_ | r, l⟩
      · simp only
        have hn := AllocateExtent.scan_none _ d u _ 0 0 (by rw [hs])
        by_cases h0 : (AllocateExtent.loadDescriptor v g).extentCount = 0
        · simp only [h0, if_true]; exact ih _
        · simp only [h0, if_false]
          exact ⟨_, _, rfl, getD_count_le_of_forall_lt _ _ _ hn.1⟩
      · obtain ⟨extent, table, count⟩ := r
        simp only
        have hc := AllocateExtent.scan_some_count _ d u _ 0 0 (extent, table, count) (by rw [hs])
        exact ⟨_, _, rfl, Nat.le_of_eq hc⟩

theorem set_append_length {α : Type} (pre : List α) (e x : α) (post : List α) :
    (pre ++ e :: post).set pre.length x = pre ++ x :: post := by
  induction pre with
  | nil => rfl
  | cons a pre ih => simp [List.set, ih]

/-- C10 (amended): on every allocator state in which no group descriptor
claims more extents than its table blocks hold (otherwise the call panics),
`AllocateExtent` returns, for every `desiredBlocks`, an extent with
`count ≤ desiredBlocks`; and if the first group in search order that is not
full has, in the table the call works on, a first entry `e` with
`count ≥ desiredBlocks`, the result is `desiredBlocks` blocks starting at the
start of `e`, a strictly larger `e` is replaced by its suffix (fields reduced
to 16 bits) and an equal one by the last table entry. -/
theorem AllocateExtent_count_le_first_fit (v : EsFSVolume) (localGroup desiredBlocks uninit : Nat)
    (hfit : ∀ g, tableFits v g) :
    ∃ extent v', AllocateExtent v localGroup desiredBlocks uninit = .ok (extent, v') ∧
      extent.count ≤ desiredBlocks ∧
      ∀ k pre e post, k < v.superblock.groupCount →
        (∀ j < k, groupFull v (searchOrder v localGroup j)) →
        ¬ groupFull v (searchOrder v localGroup k) →
        AllocateExtent.loadedTable v (searchOrder v localGroup k) = pre ++ e :: post →
        (∀ x ∈ pre, x.count < desiredBlocks) → desiredBlocks ≤ e.count →
        extent = ⟨e.offset + searchOrder v localGroup k * v.superblock.blocksPerGroup,
            desiredBlocks⟩ ∧
        v'.extentTables (AllocateExtent.loadDescriptor v (searchOrder v localGroup k)).extentTable =
          (if desiredBlocks < e.count then
            pre ++ ⟨u16 (e.offset + desiredBlocks), u16 (e.count - desiredBlocks)⟩ :: post
           else swapRemove (pre ++ e :: post) pre.length) := by
  obtain ⟨extent, v', hok, hle⟩ :=
    AllocateExtent.search_returns v desiredBlocks uninit hfit v.superblock.groupCount localGroup
  refine ⟨extent, v', hok, hle, ?_⟩
  intro k pre e post hk hfull hnot htable hpre he
  have hsplit : v.superblock.groupCount = (v.superblock.groupCount - k - 1) + 1 + k := by omega
  have hok2 := hok
  unfold AllocateExtent at hok2
  rw [hsplit, AllocateExtent.search_skip v desiredBlocks uninit k _ localGroup hfull] at hok2
  have hf : ¬ (v.groupDescriptorTable (searchOrder v localGroup k)).extentCount * sizeofLocalExtent
      > v.superblock.blocksPerGroupExtentTable * v.superblock.blockSize :=
    Nat.not_lt.2 (hfit _)
  have hfull2 : ¬ (v.groupDescriptorTable (searchOrder v localGroup k)).blocksUsed
      = GetBlocksInGroup v.superblock (searchOrder v localGroup k) := hnot
  have hscan := AllocateExtent.scan_found (pre ++ e :: post) desiredBlocks uninit pre e post hpre he 0 0
  rcases hs : AllocateExtent.scan (pre ++ e :: post) desiredBlocks uninit (pre ++ e :: post) 0 0
    with ⟨r, l⟩
  rw [hs] at hscan
  simp only at hscan
  subst hscan
  simp only [AllocateExtent.search, hfull2, hf, if_false, htable, hs] at hok2
  simp only [AllocateExtent.finish, Except.ok.injEq, Prod.mk.injEq] at hok2
  obtain ⟨h1, h2⟩ := hok2
  subst h2
  refine ⟨h1.symm, ?_⟩
  simp only [Function.update_same, Nat.zero_add]
  split
  · rw [set_append_length]
  · rfl


theorem tableFits_sampleVolume (g : Nat) : tableFits sampleVolume g := by
  unfold tableFits sampleVolume sizeofLocalExtent
  by_cases h : g = 0 <;> simp [h]

/-- Witness for C10: on the sample volume a request for five blocks is served
from the start of the free extent of group 0, which keeps its suffix. -/
theorem AllocateExtent_count_le_first_fit_witness :
    (∀ g, tableFits sampleVolume g) ∧
      ∃ extent v', AllocateExtent sampleVolume 0 5 0 = .ok (extent, v') ∧
        extent = ⟨43, 5⟩ ∧ v'.extentTables 42 = [⟨48, 4048⟩] := by
  obtain ⟨extent, v', hok, _, h⟩ :=
    AllocateExtent_count_le_first_fit sampleVolume 0 5 0 tableFits_sampleVolume
  obtain ⟨h1, h2⟩ := h 0 [] ⟨43, 4053⟩ [] (by decide) (by intro j hj; omega) (by decide) rfl
    (by intro x hx; cases hx) (by decide)
  exact ⟨tableFits_sampleVolume, extent, v', hok, h1, h2⟩

/-! ### Reading and writing a stream -/

theorem sub64_eq_sub {a b : Nat} (hb : b ≤ a) (ha : a < 18446744073709551616) :
    sub64 a b = a - b := by
  unfold sub64
  rw [Nat.mod_eq_of_lt (Nat.lt_of_le_of_lt hb ha)]
  omega

theorem land_mask_eq (k : Nat) (hk : k < 64) (x : Nat) (hx : x < 18446744073709551616) :
    x &&& (18446744073709551615 - (2 ^ k - 1)) = x - x % 2 ^ k := by
  have h64 : (18446744073709551616 : Nat) = 2 ^ 64 := by norm_num
  have hpos : 0 < 2 ^ k := Nat.two_pow_pos k
  have hlt : 2 ^ k - 1 < 2 ^ 64 := by
    have : 2 ^ k < 2 ^ 64 := Nat.pow_lt_pow_right (by norm_num) hk
    omega
  have hmask : 18446744073709551615 - (2 ^ k - 1) = 2 ^ 64 - (2 ^ k - 1 + 1) := by
    rw [← h64]; omega
  have hdiv : x - x % 2 ^ k = 2 ^ k * (x >>> k) := by
    rw [Nat.shiftRight_eq_div_pow]
    have := Nat.div_add_mod x (2 ^ k)
    omega
  rw [hmask, hdiv]
  apply Nat.eq_of_testBit_eq
  intro j
  rw [Nat.testBit_and, Nat.testBit_two_pow_sub_succ hlt, Nat.testBit_two_pow_sub_one,
    Nat.testBit_mul_pow_two, Nat.testBit_shiftRight]
  by_cases hj : j < k
  · have : ¬ j ≥ k := by omega
    simp [hj, this]
  · have hge : j ≥ k := by omega
    have hkj : k + (j - k) = j := by omega
    rw [hkj]
    by_cases hj64 : j < 64
    · simp [hj, hge, hj64]
    · have : x.testBit j = false := by
        apply Nat.testBit_lt_two_pow
        calc x < 2 ^ 64 := by rw [← h64]; exact hx
          _ ≤ 2 ^ j := Nat.pow_le_pow_right (by norm_num) (by omega)
      simp [this]

theorem alignToBlock_eq (sb : EsFSSuperblock) (k : Nat) (hk : k < 64) (hB : sb.blockSize = 2 ^ k)
    (offset : Nat) (ho : offset < 18446744073709551616) :
    alignToBlock sb offset = offset - offset % sb.blockSize := by
  unfold alignToBlock
  have hpos : 0 < 2 ^ k := Nat.two_pow_pos k
  have hlt : 2 ^ k < 18446744073709551616 := by
    have : 2 ^ k < 2 ^ 64 := Nat.pow_lt_pow_right (by norm_num) hk
    norm_num at this ⊢; exact this
  rw [hB, sub64_eq_sub (by omega) hlt, land_mask_eq k hk offset ho]

/-- The block search on extents whose counts add up to less than `2 ^ 64` and
that end inside the 64-bit block numbers: the block lies in the extent whose
range of stream blocks holds it, at the same distance from its start. -/
theorem findBlock_spec (extent : Nat → EsFSGlobalExtent) (b : Nat) :
    ∀ (fuel i p : Nat), p ≤ b → b < p + countSum extent i fuel →
      p + countSum extent i fuel < 18446744073709551616 →
      (∀ j, j < fuel →
        (extent (i + j)).offset + (extent (i + j)).count ≤ 18446744073709551616) →
      ∃ j, j < fuel ∧ p + countSum extent i j ≤ b
        ∧ b < p + countSum extent i j + (extent (i + j)).count
        ∧ findBlock extent b fuel i p = (extent (i + j)).offset + (b - (p + countSum extent i j)) := by
  intro fuel
  induction fuel with
  | zero => intro i p hp hb; simp [countSum] at hb; omega
  | succ fuel ih =>
    intro i p hp hb hsum hin
    simp only [countSum] at hb hsum
    have hmod : (p + (extent i).count) % 18446744073709551616 = p + (extent i).count :=
      Nat.mod_eq_of_lt (by omega)
    by_cases h : b < p + (extent i).count
    · refine ⟨0, Nat.succ_pos _, ?_, ?_, ?_⟩
      · simp [countSum]; exact hp
      · simpa [countSum] using h
      · have h0 := hin 0 (Nat.succ_pos _)
        simp only [Nat.add_zero] at h0
        simp only [findBlock, hmod, h, if_true, countSum, Nat.add_zero]
        unfold sub64
        omega
    · obtain ⟨j, hj, h1, h2, h3⟩ := ih (i + 1) (p + (extent i).count) (by omega) (by omega)
        (by omega)
        (fun j hj => by
          have := hin (j + 1) (by omega)
          have e : i + (j + 1) = i + 1 + j := by omega
          rw [e] at this
          exact this)
      refine ⟨j + 1, by omega, ?_, ?_, ?_⟩
      · simp only [countSum]; omega
      · simp only [countSum]
        have : i + (j + 1) = i + 1 + j := by omega
        rw [this]; omega
      · simp only [findBlock, hmod, h, if_false, countSum]
        have : i + (j + 1) = i + 1 + j := by omega
        rw [this, h3]
        have : p + (extent i).count + countSum extent (i + 1) j
            = p + ((extent i).count + countSum extent (i + 1) j) := by omega
        rw [this]

theorem countSum_add (extent : Nat → EsFSGlobalExtent) (i j : Nat) :
    ∀ n, countSum extent i (j + n) = countSum extent i j + countSum extent (i + j) n := by
  induction j generalizing i with
  | zero => intro n; simp [countSum]
  | succ j ih =>
    intro n
    have : j + 1 + n = (j + n) + 1 := by omega
    rw [this]
    simp only [countSum]
    rw [ih (i + 1) n]
    have : i + 1 + j = i + (j + 1) := by omega
    rw [this]; omega

theorem countSum_mono (extent : Nat → EsFSGlobalExtent) (i j n : Nat) (h : j ≤ n) :
    countSum extent i j ≤ countSum extent i n := by
  obtain ⟨m, rfl⟩ := Nat.exists_eq_add_of_le h
  rw [countSum_add]; omega

theorem extentsFit.spec {extent : Nat → EsFSGlobalExtent} {n : Nat} (hfit : extentsFit extent n)
    (b : Nat) (hb : b < countSum extent 0 n) :
    ∃ j, j < n ∧ 0 + countSum extent 0 j ≤ b
      ∧ b < 0 + countSum extent 0 j + (extent (0 + j)).count
      ∧ findBlock extent b n 0 0 = (extent (0 + j)).offset + (b - (0 + countSum extent 0 j)) :=
  findBlock_spec extent b n 0 0 (Nat.zero_le _) (by omega) (by have := hfit.1; omega)
    (fun j hj => by rw [Nat.zero_add]; exact hfit.2 j hj)

/-- Two blocks of the stream inside the extents lie in different global blocks. -/
theorem findBlock_injective (extent : Nat → EsFSGlobalExtent) (n : Nat)
    (hfit : extentsFit extent n)
    (hdis : ∀ i j, i < j → j < n → extentsDisjoint (extent i) (extent j))
    (b b' : Nat) (hb : b < countSum extent 0 n) (hb' : b' < countSum extent 0 n) (hne : b ≠ b') :
    findBlock extent b n 0 0 ≠ findBlock extent b' n 0 0 := by
  obtain ⟨j, hj, h1, h2, h3⟩ := hfit.spec b hb
  obtain ⟨j', hj', h1', h2', h3'⟩ := hfit.spec b' hb'
  rw [h3, h3']
  simp only [Nat.zero_add] at *
  rcases Nat.lt_trichotomy j j' with hlt | heq | hgt
  · have hd := hdis j j' hlt hj'
    unfold extentsDisjoint at hd
    omega
  · subst heq; omega
  · have hd := hdis j' j hgt hj
    unfold extentsDisjoint at hd
    omega

theorem findBlock_ne_zero (extent : Nat → EsFSGlobalExtent) (n : Nat)
    (hfit : extentsFit extent n)
    (hnz : ∀ i, i < n → (extent i).count ≠ 0 → (extent i).offset ≠ 0)
    (b : Nat) (hb : b < countSum extent 0 n) : findBlock extent b n 0 0 ≠ 0 := by
  obtain ⟨j, hj, h1, h2, h3⟩ := hfit.spec b hb
  rw [h3]
  simp only [Nat.zero_add] at *
  have := hnz j hj (by omega)
  omega

/-- The block found lies inside one of the extents. -/
theorem findBlock_mem (extent : Nat → EsFSGlobalExtent) (n : Nat)
    (hfit : extentsFit extent n)
    (b : Nat) (hb : b < countSum extent 0 n) :
    ∃ j, j < n ∧ (extent j).offset ≤ findBlock extent b n 0 0
      ∧ findBlock extent b n 0 0 < (extent j).offset + (extent j).count := by
  obtain ⟨j, hj, h1, h2, h3⟩ := hfit.spec b hb
  refine ⟨j, hj, ?_, ?_⟩ <;> rw [h3] <;> simp only [Nat.zero_add] at * <;> omega

theorem StreamAddressable.toExtentsFit {v : EsFSVolume} {data : EsFSAttributeFileData}
    (h : StreamAddressable v data) (hB : 0 < v.superblock.blockSize) :
    extentsFit (extentList v data) data.extentCount := by
  refine ⟨h.sum, fun i hi => ?_⟩
  have h1 := h.bytes i hi
  have h2 : ((extentList v data i).offset + (extentList v data i).count) * 1
      ≤ ((extentList v data i).offset + (extentList v data i).count) * v.superblock.blockSize :=
    Nat.mul_le_mul_left _ hB
  omega

theorem AccessStream.gather_spec (lookup : Nat → Nat) (maxB start : Nat) :
    ∀ (s bf gb : Nat),
      ((bf = 0 ∧ gb = 0) ∨ (gb ≠ 0 ∧ 1 ≤ bf ∧ ∀ j, j < bf → lookup (start + j) = gb + j)) →
      (∀ b, start + bf ≤ b → b < start + bf + s → lookup b ≠ 0) →
      ∃ gb' bf' s',
        AccessStream.gather lookup maxB s (start + bf) gb bf = (gb', bf', start + bf', s')
        ∧ bf ≤ bf' ∧ s' + bf' = s + bf
        ∧ ((bf' = 0 ∧ gb' = 0) ∨ (gb' ≠ 0 ∧ 1 ≤ bf' ∧ ∀ j, j < bf' → lookup (start + j) = gb' + j))
        ∧ (gb = 0 → 1 ≤ s → bf < maxB → 1 ≤ bf') := by
  intro s
  induction s with
  | zero =>
    intro bf gb hinv _
    exact ⟨gb, bf, 0, rfl, Nat.le_refl _, by omega, hinv, by omega⟩
  | succ s ih =>
    intro bf gb hinv hnz
    simp only [AccessStream.gather]
    by_cases hmax : bf < maxB
    · simp only [hmax, if_true]
      have hnext : lookup (start + bf) ≠ 0 := hnz _ (Nat.le_refl _) (by omega)
      by_cases hgb : gb = 0
      · have hbf : bf = 0 := by
          rcases hinv with h | h
          · exact h.1
          · exact absurd hgb h.1
        subst hbf; subst hgb
        simp only [if_true]
        obtain ⟨gb', bf', s', h1, h2, h3, h4, _⟩ := ih 1 (lookup (start + 0))
          (Or.inr ⟨hnext, Nat.le_refl _, by
            intro j hj
            have : j = 0 := by omega
            subst this; rfl⟩)
          (by intro b hb1 hb2; exact hnz b (by omega) (by omega))
        refine ⟨gb', bf', s', ?_, by omega, by omega, h4, by omega⟩
        rw [← h1]
      · simp only [hgb, if_false]
        have hinv' : gb ≠ 0 ∧ 1 ≤ bf ∧ ∀ j, j < bf → lookup (start + j) = gb + j := by
          rcases hinv with h | h
          · exact absurd h.2 hgb
          · exact h
        by_cases hcont : lookup (start + bf) = gb + bf
        · simp only [hcont, if_true]
          obtain ⟨gb', bf', s', h1, h2, h3, h4, _⟩ := ih (bf + 1) gb
            (Or.inr ⟨hgb, by omega, by
              intro j hj
              by_cases hjb : j < bf
              · exact hinv'.2.2 j hjb
              · have : j = bf := by omega
                subst this; exact hcont⟩)
            (by intro b hb1 hb2; exact hnz b (by omega) (by omega))
          refine ⟨gb', bf', s', ?_, by omega, by omega, h4, by intro h; first | exact absurd h hgb | exact h.elim⟩
          rw [← h1]; rfl
        · simp only [hcont, if_false]
          exact ⟨gb, bf, s + 1, rfl, Nat.le_refl _, rfl, hinv, by intro h; first | exact absurd h hgb | exact h.elim⟩
    · simp only [hmax, if_false]
      exact ⟨gb, bf, s + 1, rfl, Nat.le_refl _, rfl, hinv, by intro _ _ h; first | exact absurd h hmax | exact h.elim⟩

theorem AccessStream.accesses_zero (lookup : Nat → Nat) (maxB B o0 fuel bis size i : Nat) :
    AccessStream.accesses lookup maxB B o0 fuel 0 bis size i = .ok [] := by
  cases fuel <;> rfl

theorem blockAddress_eq (v : EsFSVolume) (hsec : v.sectorsPerBlock * v.sectorSize = v.superblock.blockSize)
    (block offsetIntoBlock : Nat) :
    blockAddress v block offsetIntoBlock = block * v.superblock.blockSize + offsetIntoBlock := by
  unfold blockAddress
  rw [Nat.mul_assoc, hsec]

theorem AccessStream.accesses_covers (v : EsFSVolume) (lookup : Nat → Nat) (maxB o0 : Nat)
    (hB : 0 < v.superblock.blockSize)
    (hsec : v.sectorsPerBlock * v.sectorSize = v.superblock.blockSize)
    (hmax : 1 ≤ maxB) (ho0 : o0 < v.superblock.blockSize) :
    ∀ (fuel S bis size i : Nat), S ≤ fuel →
      (S = 0 → size = 0) →
      (1 ≤ S → (S - 1) * v.superblock.blockSize < (if i = 0 then o0 else 0) + size
        ∧ (if i = 0 then o0 else 0) + size ≤ S * v.superblock.blockSize) →
      (if i = 0 then o0 else 0) + size < 18446744073709551616 →
      (∀ b, bis ≤ b → b < bis + S → lookup b ≠ 0) →
      ∃ accesses,
        AccessStream.accesses lookup maxB v.superblock.blockSize o0 fuel S bis size i = .ok accesses
        ∧ AccessStream.Covers v lookup accesses
            (bis * v.superblock.blockSize + (if i = 0 then o0 else 0)) size := by
  intro fuel
  induction fuel with
  | zero =>
    intro S bis size i hS h0 _ _ _
    have : S = 0 := by omega
    subst this
    refine ⟨[], AccessStream.accesses_zero _ _ _ _ _ _ _ _, ?_⟩
    simp [AccessStream.Covers, h0]
  | succ fuel ih =>
    intro S bis size i hS h0 hrange hlt hnz
    cases S with
    | zero =>
      refine ⟨[], AccessStream.accesses_zero _ _ _ _ _ _ _ _, ?_⟩
      simp [AccessStream.Covers, h0]
    | succ S =>
      obtain ⟨hr1, hr2⟩ := hrange (Nat.succ_pos _)
      simp only [Nat.add_sub_cancel] at hr1
      obtain ⟨gb, bf, s', hg, _, hsum, hinv, hprog⟩ :=
        AccessStream.gather_spec lookup maxB bis (S + 1) 0 0 (Or.inl ⟨rfl, rfl⟩)
          (by intro b hb1 hb2; exact hnz b (by omega) (by omega))
      have hbf : 1 ≤ bf := hprog rfl (Nat.succ_pos _) hmax
      have hinv' : gb ≠ 0 ∧ 1 ≤ bf ∧ ∀ j, j < bf → lookup (bis + j) = gb + j := by
        rcases hinv with h | h
        · omega
        · exact h
      simp only [Nat.add_zero] at hg
      simp only [AccessStream.accesses, hg, hinv'.1, if_false]
      generalize ho : (if i = 0 then o0 else 0) = o at *
      have hoB : o < v.superblock.blockSize := by
        rw [← ho]; split
        · exact ho0
        · exact hB
      have hbfB : v.superblock.blockSize * 1 ≤ v.superblock.blockSize * bf :=
        Nat.mul_le_mul_left _ hbf
      have hSbf : S + 1 = s' + bf := by omega
      -- the amount transferred by this access
      have hdtt : ∃ dtt, (if s' = 0 then size else sub64 (v.superblock.blockSize * bf) o) = dtt
          ∧ dtt ≤ size ∧ o + dtt ≤ bf * v.superblock.blockSize
          ∧ (s' ≠ 0 → o + dtt = bf * v.superblock.blockSize) ∧ (s' = 0 → dtt = size) := by
        by_cases hs : s' = 0
        · refine ⟨size, by simp [hs], Nat.le_refl _, ?_, fun h => absurd hs h, fun _ => rfl⟩
          have : bf = S + 1 := by omega
          rw [this]; exact hr2
        · have hle : bf * v.superblock.blockSize ≤ S * v.superblock.blockSize :=
            Nat.mul_le_mul_right _ (by omega)
          have hcomm : v.superblock.blockSize * bf = bf * v.superblock.blockSize := Nat.mul_comm _ _
          refine ⟨v.superblock.blockSize * bf - o, ?_, ?_, ?_, ?_, fun h => absurd h hs⟩
          · simp only [hs, if_false]
            exact sub64_eq_sub (by rw [Nat.mul_one] at hbfB; omega) (by omega)
          · omega
          · rw [Nat.mul_one] at hbfB; omega
          · intro _; rw [Nat.mul_one] at hbfB; omega
      obtain ⟨dtt, hdeq, hd1, hd2, hd3, hd4⟩ := hdtt
      rw [hdeq]
      have hsub : sub64 size dtt = size - dtt := sub64_eq_sub hd1 (by omega)
      rw [hsub]
      obtain ⟨rest, hrest, hcov⟩ := ih s' (bis + bf) (size - dtt) (i + 1) (by omega)
        (by intro h; rw [hd4 h]; omega)
        (by
          intro hs1
          have hs0 : s' ≠ 0 := by omega
          have h3 := hd3 hs0
          simp only [Nat.succ_ne_zero, if_false, Nat.zero_add]
          have e1 : S * v.superblock.blockSize
              = (s' - 1) * v.superblock.blockSize + bf * v.superblock.blockSize := by
            rw [← Nat.add_mul]; congr 1; omega
          have e2 : (S + 1) * v.superblock.blockSize
              = s' * v.superblock.blockSize + bf * v.superblock.blockSize := by
            rw [← Nat.add_mul]; congr 1
          constructor <;> omega)
        (by simp only [Nat.succ_ne_zero, if_false, Nat.zero_add]; omega)
        (by intro b hb1 hb2; exact hnz b (by omega) (by omega))
      rw [hrest]
      refine ⟨_, rfl, ?_⟩
      simp only [AccessStream.Covers]
      refine ⟨hd1, ?_, ?_⟩
      · intro k hk
        unfold streamAddress
        rw [blockAddress_eq v hsec, blockAddress_eq v hsec]
        have hpos : bis * v.superblock.blockSize + o + k
            = (o + k) + v.superblock.blockSize * bis := by rw [Nat.mul_comm]; omega
        rw [hpos, Nat.add_mul_div_left _ _ hB, Nat.add_mul_mod_self_left]
        have hj : (o + k) / v.superblock.blockSize < bf := by
          rw [Nat.div_lt_iff_lt_mul hB]; omega
        have hl := hinv'.2.2 _ hj
        rw [Nat.add_comm ((o + k) / v.superblock.blockSize) bis, hl, Nat.add_mul]
        have := Nat.div_add_mod (o + k) v.superblock.blockSize
        rw [Nat.mul_comm] at this
        omega
      · by_cases hs : s' = 0
        · have : rest = [] := by
            subst hs
            rw [AccessStream.accesses_zero] at hrest
            injection hrest with hrest
            exact hrest.symm
          subst this
          simp only [AccessStream.Covers]
          rw [hd4 hs]; omega
        · have hpos : (bis + bf) * v.superblock.blockSize + (if i + 1 = 0 then o0 else 0)
              = bis * v.superblock.blockSize + o + dtt := by
            simp only [Nat.succ_ne_zero, if_false, Nat.add_zero, Nat.add_mul]
            have := hd3 hs
            omega
          rw [hpos] at hcov
          exact hcov

theorem blockAddress_add (v : EsFSVolume) (block o k : Nat) :
    blockAddress v block (o + k) = blockAddress v block o + k := by
  unfold blockAddress; omega

theorem map_range_split {α : Type} (f : Nat → α) (n m : Nat) (h : n ≤ m) :
    (List.range m).map f = (List.range n).map f ++ (List.range (m - n)).map (fun k => f (n + k)) := by
  obtain ⟨d, rfl⟩ := Nat.exists_eq_add_of_le h
  rw [List.range_add, List.map_append, List.map_map, Nat.add_sub_cancel_left]
  rfl

theorem AccessStream.readAll_of_covers (v : EsFSVolume) (lookup : Nat → Nat) :
    ∀ (accesses : List StreamAccess) (pos size : Nat),
      AccessStream.Covers v lookup accesses pos size →
      AccessStream.readAll v accesses
        = (List.range size).map (fun k => v.disk (streamAddress v lookup (pos + k))) := by
  intro accesses
  induction accesses with
  | nil =>
    intro pos size h
    simp only [AccessStream.Covers] at h
    subst h; rfl
  | cons a rest ih =>
    intro pos size h
    simp only [AccessStream.Covers] at h
    obtain ⟨h1, h2, h3⟩ := h
    simp only [AccessStream.readAll]
    rw [ih _ _ h3, map_range_split _ a.dataToTransfer size h1]
    congr 1
    · unfold AccessBlockRead driveRead readBytes
      apply List.map_congr_left
      intro k hk
      rw [List.mem_range] at hk
      rw [← blockAddress_add, h2 k hk]
    · apply List.map_congr_left
      intro k _
      rw [Nat.add_assoc]

theorem AccessStream.writeAll_frame (v0 : EsFSVolume) (lookup : Nat → Nat) :
    ∀ (accesses : List StreamAccess) (v : EsFSVolume) (buffer : List Nat) (pos size : Nat),
      v.sectorsPerBlock = v0.sectorsPerBlock → v.sectorSize = v0.sectorSize →
      AccessStream.Covers v0 lookup accesses pos size →
      ∀ a, (∀ k, k < size → a ≠ streamAddress v0 lookup (pos + k)) →
        (AccessStream.writeAll v accesses buffer).disk a = v.disk a := by
  intro accesses
  induction accesses with
  | nil => intro v buffer pos size _ _ _ a _; rfl
  | cons x rest ih =>
    intro v buffer pos size hg1 hg2 h a ha
    simp only [AccessStream.Covers] at h
    obtain ⟨h1, h2, h3⟩ := h
    simp only [AccessStream.writeAll]
    rw [ih (AccessBlockWrite v x.globalBlock x.dataToTransfer buffer x.offsetIntoBlock)
      _ _ _ hg1 hg2 h3 a (by
      intro k hk
      have := ha (x.dataToTransfer + k) (by omega)
      rwa [Nat.add_assoc])]
    show writeBytes v.disk _ _ a = v.disk a
    unfold writeBytes
    split
    · rename_i hin
      exfalso
      have hlen : (List.take x.dataToTransfer buffer).length ≤ x.dataToTransfer := by
        rw [List.length_take]; exact Nat.min_le_left _ _
      have hk : a - blockAddress v x.globalBlock x.offsetIntoBlock < x.dataToTransfer := by omega
      have := h2 _ hk
      apply ha _ (Nat.lt_of_lt_of_le hk h1)
      rw [← this, blockAddress_add]
      have e : blockAddress v0 x.globalBlock x.offsetIntoBlock
          = blockAddress v x.globalBlock x.offsetIntoBlock := by
        unfold blockAddress; rw [hg1, hg2]
      rw [e]; omega
    · rfl

theorem getD_take_of_lt (buffer : List Nat) (n j : Nat) (h : j < n) :
    (buffer.take n).getD j 0 = buffer.getD j 0 := by
  simp [List.getD_eq_getElem?_getD, List.getElem?_take, h]

theorem getD_drop (buffer : List Nat) (n j : Nat) :
    (buffer.drop n).getD j 0 = buffer.getD (n + j) 0 := by
  simp [List.getD_eq_getElem?_getD, List.getElem?_drop]

theorem AccessStream.writeAll_value (v0 : EsFSVolume) (lookup : Nat → Nat) :
    ∀ (accesses : List StreamAccess) (v : EsFSVolume) (buffer : List Nat) (pos size : Nat),
      v.sectorsPerBlock = v0.sectorsPerBlock → v.sectorSize = v0.sectorSize →
      AccessStream.Covers v0 lookup accesses pos size → size ≤ buffer.length →
      ∀ k, k < size →
        (∀ k', k' < size → k' ≠ k →
          streamAddress v0 lookup (pos + k') ≠ streamAddress v0 lookup (pos + k)) →
        (AccessStream.writeAll v accesses buffer).disk (streamAddress v0 lookup (pos + k))
          = buffer.getD k 0 := by
  intro accesses
  induction accesses with
  | nil =>
    intro v buffer pos size _ _ h _ k hk _
    simp only [AccessStream.Covers] at h
    omega
  | cons x rest ih =>
    intro v buffer pos size hg1 hg2 h hlen k hk hinj
    simp only [AccessStream.Covers] at h
    obtain ⟨h1, h2, h3⟩ := h
    simp only [AccessStream.writeAll]
    have e : ∀ o, blockAddress v0 x.globalBlock o = blockAddress v x.globalBlock o := by
      intro o; unfold blockAddress; rw [hg1, hg2]
    by_cases hkx : k < x.dataToTransfer
    · -- written by this access, untouched by the later ones
      rw [AccessStream.writeAll_frame v0 lookup rest
        (AccessBlockWrite v x.globalBlock x.dataToTransfer buffer x.offsetIntoBlock)
        _ _ _ hg1 hg2 h3 _ (by
        intro k' hk'
        have := hinj (x.dataToTransfer + k') (by omega) (by omega)
        rw [Nat.add_assoc]
        exact fun h => this h.symm)]
      show writeBytes v.disk _ _ _ = _
      unfold writeBytes
      have hl : (List.take x.dataToTransfer buffer).length = x.dataToTransfer := by
        rw [List.length_take]; omega
      have ha := h2 k hkx
      rw [e, blockAddress_add] at ha
      rw [← ha, hl]
      have : blockAddress v x.globalBlock x.offsetIntoBlock ≤
          blockAddress v x.globalBlock x.offsetIntoBlock + k
          ∧ blockAddress v x.globalBlock x.offsetIntoBlock + k
            < blockAddress v x.globalBlock x.offsetIntoBlock + x.dataToTransfer := by omega
      rw [if_pos this, Nat.add_sub_cancel_left, getD_take_of_lt _ _ _ hkx]
    · have hk2 : k = x.dataToTransfer + (k - x.dataToTransfer) := by omega
      have := ih (AccessBlockWrite v x.globalBlock x.dataToTransfer buffer x.offsetIntoBlock)
        (buffer.drop x.dataToTransfer) (pos + x.dataToTransfer) (size - x.dataToTransfer)
        hg1 hg2 h3 (by rw [List.length_drop]; omega) (k - x.dataToTransfer) (by omega)
        (by
          intro k' hk' hne
          have := hinj (x.dataToTransfer + k') (by omega) (by omega)
          rw [Nat.add_assoc, Nat.add_assoc, ← hk2]
          exact this)
      rw [Nat.add_assoc, ← hk2, getD_drop, ← hk2] at this
      exact this

theorem AccessStream.writeAll_fields (accesses : List StreamAccess) :
    ∀ (v : EsFSVolume) (buffer : List Nat),
      AccessStream.writeAll v accesses buffer
        = { v with disk := (AccessStream.writeAll v accesses buffer).disk } := by
  induction accesses with
  | nil => intro v buffer; rfl
  | cons x rest ih =>
    intro v buffer
    simp only [AccessStream.writeAll]
    rw [ih]
    rfl

theorem BlocksNeededToStore_bounds (sb : EsFSSuperblock) (hB : 0 < sb.blockSize) (n : Nat) :
    n ≤ BlocksNeededToStore sb n * sb.blockSize
      ∧ BlocksNeededToStore sb n * sb.blockSize < n + sb.blockSize := by
  unfold BlocksNeededToStore
  have h1 := Nat.div_add_mod n sb.blockSize
  have h2 := Nat.mod_lt n hB
  rw [Nat.mul_comm] at h1
  split
  · rw [Nat.add_mul, Nat.one_mul]; omega
  · omega

theorem BlocksNeededToStore_pos (sb : EsFSSuperblock) (hB : 0 < sb.blockSize) (n : Nat)
    (hn : 0 < n) : 1 ≤ BlocksNeededToStore sb n := by
  have := (BlocksNeededToStore_bounds sb hB n).1
  by_contra h
  have : BlocksNeededToStore sb n = 0 := by omega
  simp [this] at *
  omega

theorem lt_of_mul_lt_mul_right' {a b c : Nat} (h : a * c < b * c) : a < b :=
  Nat.lt_of_mul_lt_mul_right h

/-- The blocks touched by an access inside the stream are blocks of the stream. -/
theorem access_blocks_le (sb : EsFSSuperblock) (hB : 0 < sb.blockSize) (offset size total : Nat)
    (h : offset + size ≤ total) :
    offset / sb.blockSize + BlocksNeededToStore sb (size + offset % sb.blockSize)
      ≤ BlocksNeededToStore sb total := by
  have h1 := Nat.div_add_mod offset sb.blockSize
  rw [Nat.mul_comm] at h1
  have h2 := (BlocksNeededToStore_bounds sb hB (size + offset % sb.blockSize)).2
  have h3 := (BlocksNeededToStore_bounds sb hB total).1
  have : (offset / sb.blockSize + BlocksNeededToStore sb (size + offset % sb.blockSize))
      * sb.blockSize < (BlocksNeededToStore sb total + 1) * sb.blockSize := by
    rw [Nat.add_mul, Nat.add_mul, Nat.one_mul]; omega
  have := Nat.lt_of_mul_lt_mul_right this
  omega

theorem div_lt_blocksNeeded (sb : EsFSSuperblock) (hB : 0 < sb.blockSize) (p total : Nat)
    (h : p < total) : p / sb.blockSize < BlocksNeededToStore sb total := by
  have h3 := (BlocksNeededToStore_bounds sb hB total).1
  rw [Nat.div_lt_iff_lt_mul hB]
  omega

theorem streamAddress_injective (v : EsFSVolume) (lookup : Nat → Nat) (hB : 0 < v.superblock.blockSize)
    (hsec : v.sectorsPerBlock * v.sectorSize = v.superblock.blockSize) (n : Nat)
    (hinj : ∀ b b', b < n → b' < n → b ≠ b' → lookup b ≠ lookup b')
    (p p' : Nat) (hp : p / v.superblock.blockSize < n) (hp' : p' / v.superblock.blockSize < n)
    (hne : p ≠ p') : streamAddress v lookup p ≠ streamAddress v lookup p' := by
  unfold streamAddress
  rw [blockAddress_eq v hsec, blockAddress_eq v hsec]
  have h1 := Nat.div_add_mod p v.superblock.blockSize
  have h2 := Nat.div_add_mod p' v.superblock.blockSize
  have h3 := Nat.mod_lt p hB
  have h4 := Nat.mod_lt p' hB
  by_cases hb : p / v.superblock.blockSize = p' / v.superblock.blockSize
  · rw [hb] at h1 ⊢
    omega
  · have hl := hinj _ _ hp hp' hb
    intro heq
    apply hl
    have e1 : (lookup (p / v.superblock.blockSize) * v.superblock.blockSize
        + p % v.superblock.blockSize) / v.superblock.blockSize = lookup (p / v.superblock.blockSize) := by
      rw [Nat.mul_comm, Nat.mul_add_div hB, Nat.div_eq_of_lt h3, Nat.add_zero]
    have e2 : (lookup (p' / v.superblock.blockSize) * v.superblock.blockSize
        + p' % v.superblock.blockSize) / v.superblock.blockSize = lookup (p' / v.superblock.blockSize) := by
      rw [Nat.mul_comm, Nat.mul_add_div hB, Nat.div_eq_of_lt h4, Nat.add_zero]
    rw [← e1, ← e2, heq]

/-- The accesses of `AccessStream` for a range inside a stream whose blocks are
all found cover the range byte by byte. -/
theorem AccessStream.plan_covers (v : EsFSVolume) (data : EsFSAttributeFileData)
    (hgeo : AccessGeometry v)
    (hmode : data.indirection = ESFS_DATA_INDIRECT ∨ data.indirection = ESFS_DATA_INDIRECT_2)
    (total : Nat) (htotal : total < 18446744073709551616)
    (hnz : ∀ b, b < BlocksNeededToStore v.superblock total → streamBlock v data b ≠ 0)
    (offset size : Nat) (hsize : 0 < size) (hin : offset + size ≤ total) :
    ∃ accesses, AccessStream.plan v data offset size = .ok accesses
      ∧ AccessStream.Covers v (streamBlock v data) accesses offset size := by
  obtain ⟨k, hk, hBk⟩ := hgeo.blockSizePow
  have hB : 0 < v.superblock.blockSize := by rw [hBk]; exact Nat.two_pow_pos k
  have hoff : offset < 18446744073709551616 := by omega
  have halign := alignToBlock_eq v.superblock k hk hBk offset hoff
  have hmod := Nat.mod_lt offset hB
  have hmodle : offset % v.superblock.blockSize ≤ offset := Nat.mod_le _ _
  have hdiv := Nat.div_add_mod offset v.superblock.blockSize
  have hsub : offset - (offset - offset % v.superblock.blockSize) = offset % v.superblock.blockSize := by
    omega
  have hbis : (offset - offset % v.superblock.blockSize) / v.superblock.blockSize
      = offset / v.superblock.blockSize := by
    have : offset - offset % v.superblock.blockSize
        = v.superblock.blockSize * (offset / v.superblock.blockSize) := by omega
    rw [this, Nat.mul_div_cancel_left _ hB]
  have hmaxB : 1 ≤ v.maxAccessSectorCount * v.sectorSize / v.superblock.blockSize :=
    Nat.div_pos hgeo.transfer hB
  have hb := BlocksNeededToStore_bounds v.superblock hB (size + offset % v.superblock.blockSize)
  have hpos := BlocksNeededToStore_pos v.superblock hB (size + offset % v.superblock.blockSize)
    (by omega)
  have hle := access_blocks_le v.superblock hB offset size total hin
  obtain ⟨accesses, h1, h2⟩ := AccessStream.accesses_covers v (streamBlock v data)
    (v.maxAccessSectorCount * v.sectorSize / v.superblock.blockSize)
    (offset % v.superblock.blockSize) hB hgeo.sectors hmaxB hmod
    (BlocksNeededToStore v.superblock (size + offset % v.superblock.blockSize))
    (BlocksNeededToStore v.superblock (size + offset % v.superblock.blockSize))
    (offset / v.superblock.blockSize) size 0 (Nat.le_refl _)
    (by intro h; omega)
    (by
      intro _
      simp only [if_true]
      constructor
      · have : (BlocksNeededToStore v.superblock (size + offset % v.superblock.blockSize) - 1)
            * v.superblock.blockSize + v.superblock.blockSize
            = BlocksNeededToStore v.superblock (size + offset % v.superblock.blockSize)
              * v.superblock.blockSize := by
          rw [← Nat.succ_mul]; congr 1; omega
        omega
      · omega)
    (by simp only [if_true]; omega)
    (by intro b hb1 hb2; exact hnz b (by omega))
  refine ⟨accesses, ?_, ?_⟩
  · unfold AccessStream.plan
    simp only [hmode, if_true, halign, hsub, hbis]
    exact h1
  · simp only [if_true] at h2
    have : offset / v.superblock.blockSize * v.superblock.blockSize + offset % v.superblock.blockSize
        = offset := by rw [Nat.mul_comm]; exact hdiv
    rw [this] at h2
    exact h2

theorem StreamLaidOut.block_ne_zero {v : EsFSVolume} {data : EsFSAttributeFileData}
    (h : StreamLaidOut v data) (hfit : extentsFit (extentList v data) data.extentCount)
    (b : Nat) (hb : b < BlocksNeededToStore v.superblock data.size) :
    streamBlock v data b ≠ 0 :=
  findBlock_ne_zero _ _ hfit h.nonzero b (Nat.lt_of_lt_of_le hb h.covers)

theorem StreamLaidOut.block_injective {v : EsFSVolume} {data : EsFSAttributeFileData}
    (h : StreamLaidOut v data) (hfit : extentsFit (extentList v data) data.extentCount)
    (b b' : Nat)
    (hb : b < BlocksNeededToStore v.superblock data.size)
    (hb' : b' < BlocksNeededToStore v.superblock data.size) (hne : b ≠ b') :
    streamBlock v data b ≠ streamBlock v data b' :=
  findBlock_injective _ _ hfit h.disjoint b b' (Nat.lt_of_lt_of_le hb h.covers)
    (Nat.lt_of_lt_of_le hb' h.covers) hne

/-- The extent list of a stream is the same on two volumes that agree on the
geometry and on the bytes of the extent-list blocks. -/
theorem extentList_congr (v v' : EsFSVolume) (data : EsFSAttributeFileData)
    (hsb : v'.superblock = v.superblock)
    (hread : data.indirection = ESFS_DATA_INDIRECT_2 →
      ∀ s, s < ESFS_INDIRECT_2_BLOCKS → data.indirect2 s ≠ 0 →
        AccessBlockRead v' (data.indirect2 s) v.superblock.blockSize 0
          = AccessBlockRead v (data.indirect2 s) v.superblock.blockSize 0) :
    extentList v' data = extentList v data := by
  unfold extentList
  split
  · rename_i hmode
    have : loadExtentList v' data = loadExtentList v data := by
      unfold loadExtentList
      rw [hsb]
      apply List.foldl_ext
      intro buffer s hs
      rw [List.mem_range] at hs
      by_cases h0 : data.indirect2 s = 0
      · simp [h0]
      · simp only [h0, ne_eq, not_false_eq_true, if_true]
        rw [hread hmode s hs h0]
    rw [this]
  · rfl

theorem readBytes_congr (m m' : Memory) (addr n : Nat)
    (h : ∀ a, addr ≤ a → a < addr + n → m' a = m a) : readBytes m' addr n = readBytes m addr n := by
  unfold readBytes
  apply List.map_congr_left
  intro k hk
  rw [List.mem_range] at hk
  exact h _ (by omega) (by omega)

theorem map_getD_range (buffer : List Nat) :
    (List.range buffer.length).map (fun k => buffer.getD k 0) = buffer := by
  apply List.ext_getElem
  · simp
  · intro i h1 h2
    simp [List.getD_eq_getElem?_getD, List.getElem?_eq_getElem h2]

/-- A read inside a laid-out stream returns the bytes of the drive at the
addresses of the stream bytes. -/
theorem AccessStream_read_indirect (v w : EsFSVolume) (data : EsFSAttributeFileData)
    (hgeo : AccessGeometry v) (hsize : data.size < 18446744073709551616)
    (hL : StreamLaidOut v data) (hfit : extentsFit (extentList v data) data.extentCount)
    (h1 : w.superblock = v.superblock) (h2 : w.sectorsPerBlock = v.sectorsPerBlock)
    (h3 : w.sectorSize = v.sectorSize) (h4 : w.maxAccessSectorCount = v.maxAccessSectorCount)
    (h5 : streamBlock w data = streamBlock v data)
    (p n : Nat) (hn : 0 < n) (hp : p + n ≤ data.size) :
    (AccessStream w data p n [] false).map (fun r => r.2.2)
      = .ok ((List.range n).map (fun k => w.disk (streamAddress v (streamBlock v data) (p + k)))) := by
  have hnd : data.indirection ≠ ESFS_DATA_DIRECT := by
    rcases hL.mode with h | h <;> rw [h] <;> decide
  have hgeo' : AccessGeometry w := ⟨by rw [h1]; exact hgeo.blockSizePow,
    by rw [h1, h2, h3]; exact hgeo.sectors, by rw [h1, h3, h4]; exact hgeo.transfer⟩
  obtain ⟨accesses, ha1, ha2⟩ := AccessStream.plan_covers w data hgeo' hL.mode data.size hsize
    (by intro b hb; rw [h5]; rw [h1] at hb; exact hL.block_ne_zero hfit b hb) p n hn hp
  have hr := AccessStream.readAll_of_covers w _ accesses p n ha2
  have hn0 : n ≠ 0 := by omega
  unfold AccessStream
  simp only [hn0, if_false, hnd, ha1, Bool.false_eq_true, Except.map]
  rw [hr, h5]
  unfold streamAddress blockAddress
  rw [h1, h2, h3]

/-- A block that holds the extent list of a stream is not a block of the stream. -/
theorem StreamLaidOut.listBlock_ne {v : EsFSVolume} {data : EsFSAttributeFileData}
    (h : StreamLaidOut v data) (hfit : extentsFit (extentList v data) data.extentCount)
    (hmode : data.indirection = ESFS_DATA_INDIRECT_2)
    (s : Nat) (hs : s < ESFS_INDIRECT_2_BLOCKS) (h0 : data.indirect2 s ≠ 0)
    (b : Nat) (hb : b < BlocksNeededToStore v.superblock data.size) :
    streamBlock v data b ≠ data.indirect2 s := by
  obtain ⟨j, hj, h1, h2⟩ := findBlock_mem (extentList v data) data.extentCount hfit b
    (Nat.lt_of_lt_of_le hb h.covers)
  have := h.listBlocks hmode s hs h0 j hj
  unfold streamBlock
  omega

theorem AccessStream_indirect_write_read (v : EsFSVolume) (data : EsFSAttributeFileData)
    (offset : Nat) (buffer : List Nat) (hgeo : AccessGeometry v)
    (hsize : data.size < 18446744073709551616) (hL : StreamLaidOut v data)
    (hfit : extentsFit (extentList v data) data.extentCount)
    (hlen : offset + buffer.length ≤ data.size) :
    ∃ v', AccessStream v data offset buffer.length buffer true = .ok (data, v', [])
      ∧ (AccessStream v' data offset buffer.length [] false).map (fun r => r.2.2) = .ok buffer
      ∧ ∀ p, p < data.size → (p < offset ∨ offset + buffer.length ≤ p) →
          ∃ b, (AccessStream v data p 1 [] false).map (fun r => r.2.2) = .ok [b]
            ∧ (AccessStream v' data p 1 [] false).map (fun r => r.2.2) = .ok [b] := by
  obtain ⟨k, hk, hBk⟩ := hgeo.blockSizePow
  have hB : 0 < v.superblock.blockSize := by rw [hBk]; exact Nat.two_pow_pos k
  have hnd : data.indirection ≠ ESFS_DATA_DIRECT := by
    rcases hL.mode with h | h <;> rw [h] <;> decide
  have hread1 : ∀ p, p < data.size →
      (AccessStream v data p 1 [] false).map (fun r => r.2.2)
        = .ok [v.disk (streamAddress v (streamBlock v data) p)] := by
    intro p hp
    exact AccessStream_read_indirect v v data hgeo hsize hL hfit rfl rfl rfl rfl rfl p 1 (by omega)
      (by omega)
  by_cases hzero : buffer.length = 0
  · have hb : buffer = [] := List.length_eq_zero.1 hzero
    subst hb
    refine ⟨v, by simp [AccessStream], by simp [AccessStream, Except.map], ?_⟩
    intro p hp _
    exact ⟨_, hread1 p hp, hread1 p hp⟩
  · obtain ⟨accesses, ha1, ha2⟩ := AccessStream.plan_covers v data hgeo hL.mode data.size hsize
      (fun b hb => hL.block_ne_zero hfit b hb) offset buffer.length (by omega) hlen
    have hinj : ∀ p p', p < data.size → p' < data.size → p ≠ p' →
        streamAddress v (streamBlock v data) p ≠ streamAddress v (streamBlock v data) p' := by
      intro p p' hp hp' hne
      exact streamAddress_injective v _ hB hgeo.sectors _
        (fun b b' hb hb' hbb => hL.block_injective hfit b b' hb hb' hbb) p p'
        (div_lt_blocksNeeded _ hB _ _ hp) (div_lt_blocksNeeded _ hB _ _ hp') hne
    have hfields := AccessStream.writeAll_fields accesses v buffer
    have hframe := AccessStream.writeAll_frame v (streamBlock v data) accesses v buffer offset
      buffer.length rfl rfl ha2
    have hval := AccessStream.writeAll_value v (streamBlock v data) accesses v buffer offset
      buffer.length rfl rfl ha2 (Nat.le_refl _)
    generalize hw : AccessStream.writeAll v accesses buffer = v' at hfields hframe hval
    have g1 : v'.superblock = v.superblock := by rw [hfields]
    have g2 : v'.sectorsPerBlock = v.sectorsPerBlock := by rw [hfields]
    have g3 : v'.sectorSize = v.sectorSize := by rw [hfields]
    have g4 : v'.maxAccessSectorCount = v.maxAccessSectorCount := by rw [hfields]
    have hext : extentList v' data = extentList v data := by
      apply extentList_congr v v' data g1
      intro hmode s hs h0
      unfold AccessBlockRead driveRead
      have e : blockAddress v' (data.indirect2 s) 0 = blockAddress v (data.indirect2 s) 0 := by
        unfold blockAddress; rw [g2, g3]
      rw [e]
      apply readBytes_congr
      intro a ha1 ha2
      apply hframe
      intro k hk heq
      rw [blockAddress_eq v hgeo.sectors] at ha1 ha2
      have hblk := hL.listBlock_ne hfit hmode s hs h0 ((offset + k) / v.superblock.blockSize)
        (div_lt_blocksNeeded _ hB _ _ (by omega))
      apply hblk
      unfold streamAddress at heq
      rw [blockAddress_eq v hgeo.sectors] at heq
      have hm := Nat.mod_lt (offset + k) hB
      have e1 : a / v.superblock.blockSize = data.indirect2 s := by
        apply Nat.div_eq_of_lt_le
        · omega
        · rw [Nat.add_mul, Nat.one_mul]; omega
      have e2 : a / v.superblock.blockSize
          = streamBlock v data ((offset + k) / v.superblock.blockSize) := by
        rw [heq, Nat.mul_comm, Nat.mul_add_div hB, Nat.div_eq_of_lt hm, Nat.add_zero]
      rw [← e2, e1]
    have hsb : streamBlock v' data = streamBlock v data := by
      unfold streamBlock; rw [hext]
    refine ⟨v', ?_, ?_, ?_⟩
    · unfold AccessStream
      simp only [hzero, if_false, hnd, ha1, if_true, hw]
    · rw [AccessStream_read_indirect v v' data hgeo hsize hL hfit g1 g2 g3 g4 hsb offset buffer.length
        (by omega) hlen]
      congr 1
      refine Eq.trans ?_ (map_getD_range buffer)
      apply List.map_congr_left
      intro k hk
      rw [List.mem_range] at hk
      exact hval k hk (fun k' hk' hne => hinj _ _ (by omega) (by omega) (by omega))
    · intro p hp hout
      refine ⟨_, hread1 p hp, ?_⟩
      rw [AccessStream_read_indirect v v' data hgeo hsize hL hfit g1 g2 g3 g4 hsb p 1 (by omega)
        (by omega)]
      have : List.range 1 = [0] := rfl
      rw [this]
      simp only [List.map_cons, List.map_nil, Nat.add_zero]
      rw [hframe _ (fun k hk => hinj _ _ hp (by omega) (by omega))]

theorem readBytes_writeBytes_same (m : Memory) (addr : Nat) (src : List Nat) :
    readBytes (writeBytes m addr src) addr src.length = src := by
  unfold readBytes writeBytes
  refine Eq.trans ?_ (map_getD_range src)
  apply List.map_congr_left
  intro k hk
  rw [List.mem_range] at hk
  have : addr ≤ addr + k ∧ addr + k < addr + src.length := by omega
  rw [if_pos this, Nat.add_sub_cancel_left]

theorem writeBytes_outside (m : Memory) (addr : Nat) (src : List Nat) (a : Nat)
    (h : a < addr ∨ addr + src.length ≤ a) : writeBytes m addr src a = m a := by
  unfold writeBytes
  rw [if_neg (by omega)]

/-- C1 (amended): on a volume whose block size is a power of two made of whole
sectors and whose drive transfers at least one block at a time, take a stream
of size below `2 ^ 64` that is either DIRECT with `offset + len ≤ 64`, or
INDIRECT / INDIRECT_2 with extents that share no block, cover the blocks
`[0, ceil(size / B))`, do not contain block 0 and do not contain a block that
holds the extent list, and that can be read and addressed as the source does
it (`StreamAddressable`: the extent count fits the attribute or the list
blocks, which are set as far as they are needed and not further; the counts
add up to less than `2 ^ 64`; every extent ends inside the first `2 ^ 64`
bytes of the drive).  Then for every offset and buffer with
`offset + len ≤ size`, writing the buffer at `offset` succeeds, reading `len`
bytes at `offset` afterwards returns exactly the buffer, and every byte of the
stream outside `[offset, offset + len)` reads the same as before the write
(and is read successfully, unless the stream is DIRECT and the byte lies past
the 64 direct bytes). -/
theorem AccessStream_write_then_read (v : EsFSVolume) (data : EsFSAttributeFileData)
    (offset : Nat) (buffer : List Nat)
    (hgeo : AccessGeometry v) (hsize : data.size < 18446744073709551616)
    (hstream : (data.indirection = ESFS_DATA_DIRECT ∧ offset + buffer.length ≤ ESFS_DIRECT_BYTES)
      ∨ (StreamLaidOut v data ∧ StreamAddressable v data))
    (hlen : offset + buffer.length ≤ data.size) :
    ∃ data' v', AccessStream v data offset buffer.length buffer true = .ok (data', v', [])
      ∧ (AccessStream v' data' offset buffer.length [] false).map (fun r => r.2.2) = .ok buffer
      ∧ ∀ p, p < data.size → (p < offset ∨ offset + buffer.length ≤ p) →
          (AccessStream v' data' p 1 [] false).map (fun r => r.2.2)
            = (AccessStream v data p 1 [] false).map (fun r => r.2.2)
          ∧ ((data.indirection = ESFS_DATA_DIRECT → p < ESFS_DIRECT_BYTES) →
              ∃ b, (AccessStream v data p 1 [] false).map (fun r => r.2.2) = .ok [b]) := by
  rcases hstream with ⟨hd, h64⟩ | ⟨hL, haddr⟩
  · by_cases hzero : buffer.length = 0
    · have hb : buffer = [] := List.length_eq_zero.1 hzero
      subst hb
      refine ⟨data, v, by simp [AccessStream], by simp [AccessStream, Except.map], ?_⟩
      intro p _ _
      refine ⟨rfl, ?_⟩
      intro hp
      have := hp hd
      unfold ESFS_DIRECT_BYTES at this
      refine ⟨data.unionBytes p, ?_⟩
      unfold AccessStream
      have h2 : ¬ p + 1 > ESFS_DIRECT_BYTES := by unfold ESFS_DIRECT_BYTES; omega
      simp [hd, h2, Except.map, readBytes, List.range_succ]
    · have h64' : ¬ offset + buffer.length > ESFS_DIRECT_BYTES := by omega
      refine ⟨{ data with unionBytes := writeBytes data.unionBytes offset buffer }, v, ?_, ?_, ?_⟩
      · unfold AccessStream
        simp only [hzero, if_false, hd, if_true, h64', List.take_length]
      · unfold AccessStream
        simp only [hzero, if_false, hd, if_true, h64', Bool.false_eq_true, Except.map]
        rw [readBytes_writeBytes_same]
      · intro p _ hout
        have hread : ∀ d : EsFSAttributeFileData, d.indirection = ESFS_DATA_DIRECT →
            (AccessStream v d p 1 [] false).map (fun r => r.2.2)
              = if p + 1 > ESFS_DIRECT_BYTES then .error .outsideAttribute
                else .ok [d.unionBytes p] := by
          intro d hdd
          unfold AccessStream
          simp only [Nat.succ_ne_zero, if_false, hdd, if_true, Bool.false_eq_true]
          split
          · rfl
          · simp [Except.map, readBytes, List.range_succ]
        rw [hread data hd,
          hread { data with unionBytes := writeBytes data.unionBytes offset buffer } hd]
        refine ⟨?_, ?_⟩
        · split
          · rfl
          · show Except.ok [writeBytes data.unionBytes offset buffer p] = _
            rw [writeBytes_outside _ _ _ _ hout]
        · intro hp
          have := hp hd
          unfold ESFS_DIRECT_BYTES at this
          have h2 : ¬ p + 1 > ESFS_DIRECT_BYTES := by unfold ESFS_DIRECT_BYTES; omega
          exact ⟨_, by rw [if_neg h2]⟩
  · have hB : 0 < v.superblock.blockSize := by
      obtain ⟨e, _, hBe⟩ := hgeo.blockSizePow
      rw [hBe]
      exact Nat.two_pow_pos e
    obtain ⟨v', h1, h2, h3⟩ :=
      AccessStream_indirect_write_read v data offset buffer hgeo hsize hL
        (haddr.toExtentsFit hB) hlen
    refine ⟨data, v', h1, h2, ?_⟩
    intro p hp hout
    obtain ⟨b, hb1, hb2⟩ := h3 p hp hout
    exact ⟨by rw [hb1, hb2], fun _ => ⟨b, hb1⟩⟩


theorem accessGeometry_sampleVolume : AccessGeometry sampleVolume :=
  ⟨⟨9, by decide, rfl⟩, rfl, by decide⟩

theorem streamLaidOut_singleExtent :
    StreamLaidOut sampleVolume (singleExtentStream ⟨43, 1⟩ 100) where
  mode := Or.inl rfl
  disjoint := by
    intro i j hij hj
    have : j < 1 := hj
    omega
  covers := by decide
  nonzero := by
    intro i hi _
    have : i < 1 := hi
    have : i = 0 := by omega
    subst this
    decide
  listBlocks := by
    intro h
    exact absurd h (by decide)

theorem streamAddressable_singleExtent :
    StreamAddressable sampleVolume (singleExtentStream ⟨43, 1⟩ 100) where
  small := fun _ => by decide
  big := fun h => absurd h (by decide)
  listBlocks := fun h => absurd h (by decide)
  sum := by decide
  bytes := by
    intro i hi
    have : i < 1 := hi
    have : i = 0 := by omega
    subst this
    decide

/-- Witness for C1: three bytes written at offset 10 of an indirect stream of
100 bytes held in block 43 of the sample volume are read back unchanged. -/
theorem AccessStream_write_then_read_witness :
    AccessGeometry sampleVolume ∧ StreamLaidOut sampleVolume (singleExtentStream ⟨43, 1⟩ 100)
      ∧ StreamAddressable sampleVolume (singleExtentStream ⟨43, 1⟩ 100)
      ∧ ∃ data' v',
        AccessStream sampleVolume (singleExtentStream ⟨43, 1⟩ 100) 10 3 [1, 2, 3] true
          = .ok (data', v', [])
        ∧ (AccessStream v' data' 10 3 [] false).map (fun r => r.2.2) = .ok [1, 2, 3] := by
  obtain ⟨data', v', h1, h2, _⟩ :=
    AccessStream_write_then_read sampleVolume (singleExtentStream ⟨43, 1⟩ 100) 10 [1, 2, 3]
      accessGeometry_sampleVolume (by decide)
      (Or.inr ⟨streamLaidOut_singleExtent, streamAddressable_singleExtent⟩) (by decide)
  exact ⟨accessGeometry_sampleVolume, streamLaidOut_singleExtent, streamAddressable_singleExtent,
    data', v', h1, h2⟩

/-! ### Invariants of the extent tables -/

theorem swapRemove_perm (pre : List EsFSLocalExtent) (x : EsFSLocalExtent)
    (post : List EsFSLocalExtent) :
    (swapRemove (pre ++ x :: post) pre.length).Perm (pre ++ post) := by
  unfold swapRemove
  rcases List.eq_nil_or_concat post with rfl | ⟨post', last, rfl⟩
  · simp [List.set_eq_take_append_cons_drop]
  · simp only [List.concat_eq_append]
    have hlen : (pre ++ x :: (post' ++ [last])).length - 1 = pre.length + (post'.length + 1) := by
      simp only [List.length_append, List.length_cons, List.length_nil]; omega
    have hget : (pre ++ x :: (post' ++ [last])).getD (pre.length + (post'.length + 1)) default
        = last := by
      rw [List.getD_eq_getElem?_getD, List.getElem?_append_right (by omega)]
      simp
    rw [hlen, hget, set_append_length]
    have e1 : pre ++ last :: (post' ++ [last]) = (pre ++ last :: post') ++ [last] := by simp
    have e2 : pre.length + (post'.length + 1) = (pre ++ last :: post').length := by simp
    rw [e1, e2, List.take_left]
    have e3 : pre ++ (post' ++ [last]) = pre ++ post' ++ [last] := by simp
    rw [e3]
    exact (@List.perm_middle _ last pre post').trans
      (List.perm_append_singleton last (pre ++ post')).symm

theorem scan_cases (d : Nat) (rest : List EsFSLocalExtent) :
    (∀ x, x ∈ rest → x.count < d) ∨
      ∃ pre e post, rest = pre ++ e :: post ∧ (∀ x, x ∈ pre → x.count < d) ∧ d ≤ e.count := by
  induction rest with
  | nil => left; intro x hx; cases hx
  | cons a rest ih =>
    by_cases ha : a.count < d
    · rcases ih with h | ⟨pre, e, post, h1, h2, h3⟩
      · left
        intro x hx
        rcases List.mem_cons.1 hx with rfl | hx
        · exact ha
        · exact h x hx
      · right
        refine ⟨a :: pre, e, post, by rw [h1]; rfl, ?_, h3⟩
        intro x hx
        rcases List.mem_cons.1 hx with rfl | hx
        · exact ha
        · exact h2 x hx
    · right
      exact ⟨[], a, rest, rfl, fun x hx => absurd hx (List.not_mem_nil x), by omega⟩

theorem AllocateExtent.scan_all_lt (table : List EsFSLocalExtent) (d u : Nat)
    (rest : List EsFSLocalExtent) (h : ∀ x, x ∈ rest → x.count < d) (i l : Nat) :
    (AllocateExtent.scan table d u rest i l).1 = none := by
  induction rest generalizing i l with
  | nil => rfl
  | cons x rest ih =>
    have hx := h x (List.mem_cons_self _ _)
    have h1 : ¬ x.count > d := by omega
    have h2 : ¬ x.count = d := by omega
    simp only [AllocateExtent.scan, h1, h2, if_false]
    exact ih (fun y hy => h y (List.mem_cons_of_mem _ hy)) _ _

theorem TableGood.takeOut {bpg : Nat} {table table' : List EsFSLocalExtent} {e : EsFSLocalExtent}
    (hg : TableGood bpg table) (ht : TakeOut table e table') (he : 1 ≤ e.count) :
    TableGood bpg table' ∧ e.offset + e.count ≤ bpg
      ∧ (∀ x, e.offset ≤ x → x < e.offset + e.count → inTable table x ∧ ¬ inTable table' x)
      ∧ (∀ x, inTable table' x → inTable table x)
      ∧ (∃ y, y ∈ table ∧ y.offset = e.offset ∧ e.count ≤ y.count)
      ∧ (∀ y, y ∈ table' → ∃ y0, y0 ∈ table ∧ y0.offset ≤ y.offset
          ∧ y.offset + y.count ≤ y0.offset + y0.count) := by
  obtain ⟨pre, x, post, rfl, h⟩ := ht
  have hx := hg.inGroup x (by simp)
  have hdis := hg.disjoint
  rw [List.pairwise_append] at hdis
  obtain ⟨hd1, hd2, hd3⟩ := hdis
  rw [List.pairwise_cons] at hd2
  obtain ⟨hd4, hd5⟩ := hd2
  have hpre : ∀ y, y ∈ pre → localDisjoint y x := fun y hy => hd3 y hy x (by simp)
  have hpost : ∀ y, y ∈ post → localDisjoint x y := hd4
  rcases h with ⟨h1, h2, rfl⟩ | ⟨rfl, hperm⟩
  · refine ⟨⟨?_, ?_⟩, by omega, ?_, ?_, ⟨x, by simp, h1.symm, by omega⟩, ?_⟩
    · intro y hy
      rcases List.mem_append.1 hy with hy | hy
      · exact hg.inGroup y (by simp [hy])
      · rcases List.mem_cons.1 hy with rfl | hy
        · simp only; omega
        · exact hg.inGroup y (by simp [hy])
    · rw [List.pairwise_append]
      refine ⟨hd1, ?_, ?_⟩
      · rw [List.pairwise_cons]
        refine ⟨?_, hd5⟩
        intro y hy
        have := hpost y hy
        unfold localDisjoint at this ⊢
        simp only; omega
      · intro a ha b hb
        rcases List.mem_cons.1 hb with rfl | hb
        · have := hpre a ha
          unfold localDisjoint at this ⊢
          simp only; omega
        · exact hd3 a ha b (by simp [hb])
    · intro z hz1 hz2
      refine ⟨⟨x, by simp, by omega, by omega⟩, ?_⟩
      rintro ⟨y, hy, hy1, hy2⟩
      rcases List.mem_append.1 hy with hy | hy
      · have := hpre y hy
        unfold localDisjoint at this; omega
      · rcases List.mem_cons.1 hy with rfl | hy
        · simp only at hy1 hy2; omega
        · have := hpost y hy
          unfold localDisjoint at this; omega
    · rintro z ⟨y, hy, hy1, hy2⟩
      rcases List.mem_append.1 hy with hy | hy
      · exact ⟨y, by simp [hy], hy1, hy2⟩
      · rcases List.mem_cons.1 hy with rfl | hy
        · exact ⟨x, by simp, by simp only at hy1; omega, by simp only at hy2; omega⟩
        · exact ⟨y, by simp [hy], hy1, hy2⟩
    · intro y hy
      rcases List.mem_append.1 hy with hy | hy
      · exact ⟨y, by simp [hy], Nat.le_refl _, Nat.le_refl _⟩
      · rcases List.mem_cons.1 hy with rfl | hy
        · exact ⟨x, by simp, by simp only; omega, by simp only; omega⟩
        · exact ⟨y, by simp [hy], Nat.le_refl _, Nat.le_refl _⟩
  · have hmem : ∀ y, y ∈ table' ↔ y ∈ pre ∨ y ∈ post := by
      intro y; rw [hperm.mem_iff, List.mem_append]
    have hsymm : ∀ a b : EsFSLocalExtent, localDisjoint a b → localDisjoint b a := by
      intro a b h; unfold localDisjoint at h ⊢; omega
    refine ⟨⟨?_, ?_⟩, hx.2, ?_, ?_, ⟨e, by simp, rfl, Nat.le_refl _⟩, ?_⟩
    · intro y hy
      rcases (hmem y).1 hy with hy | hy
      · exact hg.inGroup y (by simp [hy])
      · exact hg.inGroup y (by simp [hy])
    · rw [hperm.pairwise_iff (fun {a b} h => hsymm a b h), List.pairwise_append]
      exact ⟨hd1, hd5, fun a ha b hb => hd3 a ha b (by simp [hb])⟩
    · intro z hz1 hz2
      refine ⟨⟨e, by simp, hz1, hz2⟩, ?_⟩
      rintro ⟨y, hy, hy1, hy2⟩
      rcases (hmem y).1 hy with hy | hy
      · have := hpre y hy
        unfold localDisjoint at this; omega
      · have := hpost y hy
        unfold localDisjoint at this; omega
    · rintro z ⟨y, hy, hy1, hy2⟩
      rcases (hmem y).1 hy with hy | hy
      · exact ⟨y, by simp [hy], hy1, hy2⟩
      · exact ⟨y, by simp [hy], hy1, hy2⟩
    · intro y hy
      rcases (hmem y).1 hy with hy | hy
      · exact ⟨y, by simp [hy], Nat.le_refl _, Nat.le_refl _⟩
      · exact ⟨y, by simp [hy], Nat.le_refl _, Nat.le_refl _⟩

theorem loadTable_self (table : List EsFSLocalExtent) : loadTable table table.length = table := by
  unfold loadTable
  apply List.ext_getElem
  · simp
  · intro i h1 h2
    simp [List.getD_eq_getElem?_getD, List.getElem?_eq_getElem h2]

theorem loadTable_length (stored : List EsFSLocalExtent) (n : Nat) :
    (loadTable stored n).length = n := by
  unfold loadTable; simp

theorem AllocateExtent.loadedTable_length (v : EsFSVolume) (g : Nat) :
    (AllocateExtent.loadedTable v g).length = (AllocateExtent.loadDescriptor v g).extentCount := by
  unfold AllocateExtent.loadedTable AllocateExtent.loadDescriptor
  dsimp only
  split
  · rfl
  · simp [loadTable_length]

theorem swapRemove_length (table : List EsFSLocalExtent) (i : Nat) :
    (swapRemove table i).length = table.length - 1 := by
  unfold swapRemove
  simp [List.length_take]

theorem u16_of_lt {x : Nat} (h : x < 65536) : u16 x = x := Nat.mod_eq_of_lt h

theorem list_split_at (table : List EsFSLocalExtent) (l : Nat) (h : l < table.length) :
    ∃ pre x post, table = pre ++ x :: post ∧ pre.length = l ∧ x = table.getD l default := by
  refine ⟨table.take l, table[l], table.drop (l + 1), ?_, ?_, ?_⟩
  · rw [← List.drop_eq_getElem_cons h, List.take_append_drop]
  · rw [List.length_take]; omega
  · rw [List.getD_eq_getElem _ _ h]

theorem AllocateExtent.finish_fst (v : EsFSVolume) (g : Nat) (D : EsFSGroupDescriptor)
    (e : EsFSGlobalExtent) (T : List EsFSLocalExtent) :
    (AllocateExtent.finish v g D e T).1 = ⟨e.offset + g * v.superblock.blocksPerGroup, e.count⟩ :=
  rfl

/-- The outcome of a call of `AllocateExtent` that returns blocks. -/
theorem AllocateExtent.search_outcome (v : EsFSVolume) (d u : Nat) (hwf : AllocatorWF v) :
    ∀ (remaining g : Nat), g < v.superblock.groupCount →
      ∀ E v', AllocateExtent.search v d u remaining g = .ok (E, v') → E.count ≠ 0 →
        ∃ g' e table', g' < v.superblock.groupCount
          ∧ TakeOut (AllocateExtent.loadedTable v g') e table'
          ∧ E = ⟨e.offset + g' * v.superblock.blocksPerGroup, e.count⟩ ∧ e.count ≤ d
          ∧ v' = (AllocateExtent.finish v g'
              { AllocateExtent.loadDescriptor v g' with extentCount := table'.length }
              ⟨e.offset, e.count⟩ table').2 := by
  intro remaining
  induction remaining with
  | zero =>
    intro g _ E v' h hE
    simp only [AllocateExtent.search, Except.ok.injEq, Prod.mk.injEq] at h
    rw [← h.1] at hE
    exact absurd rfl hE
  | succ remaining ih =>
    intro g hg E v' h hE
    have hnext : (g + 1) % v.superblock.groupCount < v.superblock.groupCount :=
      Nat.mod_lt _ (by omega)
    simp only [AllocateExtent.search] at h
    split at h
    · exact ih _ hnext E v' h hE
    · split at h
      · cases h
      · have hgood := hwf.tables g hg
        have hlen := AllocateExtent.loadedTable_length v g
        generalize hTdef : AllocateExtent.loadedTable v g = T at h hgood hlen
        rcases scan_cases d T with hall | ⟨pre, x, post, hT, hpre, hx⟩
        · have hnone := AllocateExtent.scan_all_lt T d u T hall 0 0
          rcases hs : AllocateExtent.scan T d u T 0 0 with ⟨r, l⟩
          rw [hs] at hnone h
          simp only at hnone
          subst hnone
          simp only at h
          split at h
          · exact ih _ hnext E v' h hE
          · rename_i hcount
            have hl := (AllocateExtent.scan_none T d u T 0 0 (by rw [hs])).2
            rw [hs] at hl
            simp only [Nat.zero_add] at hl
            have hTlen : 0 < T.length := by omega
            have hl' : l < T.length := by
              rcases hl with h0 | h0
              · omega
              · exact h0.2
            obtain ⟨pre, x, post, hT, hpl, hxl⟩ := list_split_at T l hl'
            simp only [Except.ok.injEq] at h
            have hE1 : _ = E := congrArg Prod.fst h
            have hv1 : _ = v' := congrArg Prod.snd h
            simp only [AllocateExtent.finish_fst] at hE1
            refine ⟨g, x, swapRemove T l, hg, ?_, ?_, ?_, ?_⟩
            · rw [hTdef]
              exact ⟨pre, x, post, hT, Or.inr ⟨rfl, by rw [hT, ← hpl]; exact swapRemove_perm _ _ _⟩⟩
            · rw [← hE1, hxl]
            · rw [hxl]; exact getD_count_le_of_forall_lt T d l hall
            · rw [← hv1, swapRemove_length, hlen, hxl]
        · have hscan := AllocateExtent.scan_found T d u pre x post hpre hx 0 0
          rw [← hT] at hscan
          rcases hs : AllocateExtent.scan T d u T 0 0 with ⟨r, l⟩
          rw [hs] at hscan h
          simp only at hscan
          subst hscan
          simp only [Except.ok.injEq, Nat.zero_add] at h
          have hE1 : _ = E := congrArg Prod.fst h
          have hv1 : _ = v' := congrArg Prod.snd h
          simp only [AllocateExtent.finish_fst] at hE1
          have hxg := hgood.inGroup x (by rw [hT]; simp)
          by_cases hlt : d < x.count
          · simp only [hlt, if_true] at hv1
            have hb := hwf.groupSize
            refine ⟨g, ⟨x.offset, d⟩, pre ++ ⟨x.offset + d, x.count - d⟩ :: post, hg, ?_, ?_,
              Nat.le_refl _, ?_⟩
            · rw [hTdef]
              exact ⟨pre, x, post, hT, Or.inl ⟨rfl, hlt, rfl⟩⟩
            · rw [← hE1]
            · rw [← hv1, hT, set_append_length, u16_of_lt (by omega), u16_of_lt (by omega)]
              simp
          · have hxd : x.count = d := by omega
            simp only [hlt, if_false] at hv1
            refine ⟨g, x, swapRemove T pre.length, hg, ?_, ?_, by omega, ?_⟩
            · rw [hTdef]
              exact ⟨pre, x, post, hT, Or.inr ⟨rfl, by rw [hT]; exact swapRemove_perm _ _ _⟩⟩
            · rw [← hE1, hxd]
            · rw [← hv1, swapRemove_length, hxd]

theorem block_group_unique (bpg g g' x : Nat)
    (h1 : g * bpg ≤ x) (h2 : x < g * bpg + bpg) (h3 : g' * bpg ≤ x) (h4 : x < g' * bpg + bpg) :
    g = g' := by
  rcases Nat.lt_trichotomy g g' with h | h | h
  · have := Nat.mul_le_mul_right bpg (show g + 1 ≤ g' from h)
    rw [Nat.add_mul, Nat.one_mul] at this
    omega
  · exact h
  · have := Nat.mul_le_mul_right bpg (show g' + 1 ≤ g from h)
    rw [Nat.add_mul, Nat.one_mul] at this
    omega

theorem AllocateExtent.loadDescriptor_key (v : EsFSVolume) (hwf : AllocatorWF v) (g : Nat)
    (hg : g < v.superblock.groupCount) :
    (AllocateExtent.loadDescriptor v g).extentTable ≠ 0
      ∧ g * v.superblock.blocksPerGroup ≤ (AllocateExtent.loadDescriptor v g).extentTable
      ∧ (AllocateExtent.loadDescriptor v g).extentTable
          < g * v.superblock.blocksPerGroup + v.superblock.blocksPerGroup := by
  unfold AllocateExtent.loadDescriptor
  dsimp only
  have hb := hwf.groupSize
  split
  · rename_i h0
    have hg0 : g ≠ 0 := by
      intro h; subst h; exact hwf.first h0
    have : 1 * v.superblock.blocksPerGroup ≤ g * v.superblock.blocksPerGroup :=
      Nat.mul_le_mul_right _ (by omega)
    simp only
    omega
  · rename_i h0
    have := hwf.keys g hg h0
    rw [Nat.add_mul, Nat.one_mul] at this
    exact ⟨h0, this.1, this.2⟩

theorem GetBlocksInGroup_congr (sb sb' : EsFSSuperblock) (h1 : sb'.groupCount = sb.groupCount)
    (h2 : sb'.blockCount = sb.blockCount) (h3 : sb'.blocksPerGroup = sb.blocksPerGroup) (g : Nat) :
    GetBlocksInGroup sb' g = GetBlocksInGroup sb g := by
  unfold GetBlocksInGroup; rw [h1, h2, h3]

/-- The tables the groups work on after an allocation from group `g`. -/
theorem AllocateExtent.loadedTable_finish (v : EsFSVolume) (hwf : AllocatorWF v) (g : Nat)
    (hg : g < v.superblock.groupCount) (e : EsFSGlobalExtent) (table' : List EsFSLocalExtent)
    (g' : Nat) (hg' : g' < v.superblock.groupCount) :
    AllocateExtent.loadedTable
        (AllocateExtent.finish v g
          { AllocateExtent.loadDescriptor v g with extentCount := table'.length } e table').2 g'
      = if g' = g then table' else AllocateExtent.loadedTable v g' := by
  obtain ⟨hk0, hk1, hk2⟩ := AllocateExtent.loadDescriptor_key v hwf g hg
  unfold AllocateExtent.finish
  by_cases hgg : g' = g
  · subst hgg
    simp only [if_true]
    unfold AllocateExtent.loadedTable
    simp only [Function.update_same, hk0, if_false]
    rw [Function.update_same, Function.update_same]
    exact loadTable_self table'
  · simp only [hgg, if_false]
    unfold AllocateExtent.loadedTable
    simp only [Function.update_noteq hgg]
    split
    · rfl
    · rename_i h0
      have hk' := hwf.keys g' hg' h0
      rw [Nat.add_mul, Nat.one_mul] at hk'
      have hne : (v.groupDescriptorTable g').extentTable
          ≠ (AllocateExtent.loadDescriptor v g).extentTable := by
        intro heq
        apply hgg
        exact block_group_unique _ _ _ _ hk'.1 hk'.2 (by rw [heq]; exact hk1) (by rw [heq]; exact hk2)
      rw [Function.update_noteq hgg, Function.update_noteq hne]


/-- One successful allocation: the allocator invariants are kept, the drive is
untouched, and the extent handed out lies inside the volume, was free and is
free no more, while no other block becomes free. -/
theorem AllocateExtent_step (v : EsFSVolume) (hwf : AllocatorWF v) (localGroup d u : Nat)
    (hlg : localGroup < v.superblock.groupCount) (E : EsFSGlobalExtent) (v' : EsFSVolume)
    (h : AllocateExtent v localGroup d u = .ok (E, v')) (hE : E.count ≠ 0) :
    AllocatorWF v' ∧ v'.disk = v.disk ∧ v'.sectorsPerBlock = v.sectorsPerBlock
      ∧ v'.sectorSize = v.sectorSize ∧ v'.maxAccessSectorCount = v.maxAccessSectorCount
      ∧ v'.superblock = { v.superblock with
          blocksUsed := (v.superblock.blocksUsed + E.count) % 18446744073709551616 }
      ∧ E.count ≤ d ∧ 1 ≤ E.offset ∧ E.offset + E.count ≤ v.superblock.blockCount
      ∧ (∀ x, E.offset ≤ x → x < E.offset + E.count → freeBlock v x ∧ ¬ freeBlock v' x)
      ∧ (∀ x, freeBlock v' x → freeBlock v x) := by
  obtain ⟨g, e, T', hg, htake, hEeq, hed, hv'⟩ :=
    AllocateExtent.search_outcome v d u hwf _ localGroup hlg E v' h hE
  have hcount : E.count = e.count := by rw [hEeq]
  have he1 : 1 ≤ e.count := by omega
  obtain ⟨hgood', hin, hfree, hsub, ⟨y, hy, hyo, hyc⟩, hent⟩ := (hwf.tables g hg).takeOut htake he1
  have htab : ∀ g', g' < v.superblock.groupCount →
      AllocateExtent.loadedTable v' g' = if g' = g then T' else AllocateExtent.loadedTable v g' := by
    intro g' hg'
    rw [hv']
    exact AllocateExtent.loadedTable_finish v hwf g hg _ T' g' hg'
  obtain ⟨hk0, hk1, hk2⟩ := AllocateExtent.loadDescriptor_key v hwf g hg
  have hsb : v'.superblock = { v.superblock with
      blocksUsed := (v.superblock.blocksUsed + E.count) % 18446744073709551616 } := by
    rw [hv', hcount]; rfl
  have hgc : v'.superblock.groupCount = v.superblock.groupCount := by rw [hsb]
  have hbpg : v'.superblock.blocksPerGroup = v.superblock.blocksPerGroup := by rw [hsb]
  have hbc : v'.superblock.blockCount = v.superblock.blockCount := by rw [hsb]
  have hgdt : ∀ g', g' ≠ g → v'.groupDescriptorTable g' = v.groupDescriptorTable g' := by
    intro g' hne
    rw [hv']
    exact Function.update_noteq hne _ _
  have hgdtg : (v'.groupDescriptorTable g).extentTable
      = (AllocateExtent.loadDescriptor v g).extentTable := by
    rw [hv']
    show (Function.update v.groupDescriptorTable g _ g).extentTable = _
    rw [Function.update_same]
  have hb := hwf.groupSize
  have hyv := hwf.inVolume g hg y hy
  have hyg := (hwf.tables g hg).inGroup y hy
  refine ⟨?_, by rw [hv']; rfl, by rw [hv']; rfl, by rw [hv']; rfl, by rw [hv']; rfl, hsb,
    by omega, ?_, ?_, ?_, ?_⟩
  · refine ⟨by rw [hbpg]; exact hb, ?_, ?_, ?_, ?_, ?_, by rw [hbc]; exact hwf.blockCount⟩
    · by_cases h0 : g = 0
      · subst h0; rw [hgdtg]; exact hk0
      · rw [hgdt 0 (fun h => h0 h.symm)]; exact hwf.first
    · intro g' hg' hne
      rw [hgc] at hg'
      rw [hbpg]
      by_cases hgg : g' = g
      · subst hgg
        rw [hgdtg, Nat.add_mul, Nat.one_mul]
        exact ⟨hk1, hk2⟩
      · rw [hgdt g' hgg] at hne ⊢
        exact hwf.keys g' hg' hne
    · intro g' hg'
      rw [hgc] at hg'
      rw [hbpg, htab g' hg']
      split
      · exact hgood'
      · exact hwf.tables g' hg'
    · intro z hz
      by_cases h0 : g = 0
      · subst h0
        rw [htab 0 hg, if_pos rfl] at hz
        obtain ⟨y0, hy0, h1, _⟩ := hent z hz
        have := hwf.zeroFree y0 hy0
        omega
      · have hg0 : 0 < v.superblock.groupCount := by omega
        rw [htab 0 hg0, if_neg (fun h => h0 h.symm)] at hz
        exact hwf.zeroFree z hz
    · intro g' hg' z hz
      rw [hgc] at hg'
      rw [hbpg, hbc]
      rw [htab g' hg'] at hz
      split at hz
      · rename_i hgg
        subst hgg
        obtain ⟨y0, hy0, h1, h2⟩ := hent z hz
        have := hwf.inVolume g' hg' y0 hy0
        omega
      · exact hwf.inVolume g' hg' z hz
  · rw [hEeq]
    simp only
    by_cases h0 : g = 0
    · subst h0
      have := hwf.zeroFree y hy
      omega
    · have : 1 * v.superblock.blocksPerGroup ≤ g * v.superblock.blocksPerGroup :=
        Nat.mul_le_mul_right _ (by omega)
      omega
  · rw [hEeq]
    simp only
    omega
  · intro x hx1 hx2
    rw [hEeq] at hx1 hx2
    simp only at hx1 hx2
    have hloc := hfree (x - g * v.superblock.blocksPerGroup) (by omega) (by omega)
    refine ⟨?_, ?_⟩
    · obtain ⟨y1, hy1, h1, h2⟩ := hloc.1
      exact ⟨g, hg, y1, hy1, by omega, by omega⟩
    · rintro ⟨g', hg', z, hz, hz1, hz2⟩
      rw [hgc] at hg'
      rw [hbpg] at hz1 hz2
      rw [htab g' hg'] at hz
      split at hz
      · rename_i hgg
        subst hgg
        exact hloc.2 ⟨z, hz, by omega, by omega⟩
      · rename_i hgg
        have hzg := (hwf.tables g' hg').inGroup z hz
        exact hgg (block_group_unique v.superblock.blocksPerGroup g' g x (by omega) (by omega)
          (by omega) (by omega))
  · rintro x ⟨g', hg', z, hz, hz1, hz2⟩
    rw [hgc] at hg'
    rw [hbpg] at hz1 hz2
    rw [htab g' hg'] at hz
    split at hz
    · rename_i hgg
      subst hgg
      obtain ⟨y1, hy1, h1, h2⟩ := hsub (x - g' * v.superblock.blocksPerGroup)
        ⟨z, hz, by omega, by omega⟩
      exact ⟨g', hg', y1, hy1, by omega, by omega⟩
    · exact ⟨g', hg', z, hz, hz1, hz2⟩

/-! ### Extents stored in the attribute -/

theorem readU64_writeBytes_encode (m : Memory) (a x : Nat) (hx : x < 18446744073709551616) :
    readU64 (writeBytes m a (encodeU64 x)) a = x := by
  have h : ∀ i, i < 8 → writeBytes m a (encodeU64 x) (a + i) = x / 256 ^ i % 256 := by
    intro i hi
    unfold writeBytes encodeU64
    have hl : (List.map (fun i => x / 256 ^ i % 256) (List.range 8)).length = 8 := by simp
    rw [hl, if_pos (by omega), Nat.add_sub_cancel_left]
    simp [List.getD_eq_getElem?_getD, List.getElem?_map, List.getElem?_range hi]
  unfold readU64
  simp only [List.range_succ, List.range_zero, List.nil_append, List.map_append, List.map_cons,
    List.map_nil, List.sum_append, List.sum_cons, List.sum_nil, List.cons_append]
  rw [h 0 (by omega), h 1 (by omega), h 2 (by omega), h 3 (by omega), h 4 (by omega),
    h 5 (by omega), h 6 (by omega), h 7 (by omega)]
  norm_num
  omega

theorem readU64_congr (m m' : Memory) (a : Nat) (h : ∀ i, i < 8 → m' (a + i) = m (a + i)) :
    readU64 m' a = readU64 m a := by
  unfold readU64
  congr 1
  apply List.map_congr_left
  intro i hi
  rw [List.mem_range] at hi
  rw [h i hi]

theorem readExtent_congr (m m' : Memory) (a : Nat) (h : ∀ i, i < 16 → m' (a + i) = m (a + i)) :
    readExtent m' a = readExtent m a := by
  unfold readExtent
  rw [readU64_congr m m' a (fun i hi => h i (by omega)),
    readU64_congr m m' (a + 8) (fun i hi => by rw [Nat.add_assoc]; exact h (8 + i) (by omega))]

theorem encodeU64_length (x : Nat) : (encodeU64 x).length = 8 := by
  unfold encodeU64; simp

theorem encodeExtent_length (e : EsFSGlobalExtent) : (encodeExtent e).length = 16 := by
  unfold encodeExtent; simp [encodeU64_length]

theorem readExtent_writeBytes_encode (m : Memory) (a : Nat) (e : EsFSGlobalExtent)
    (h1 : e.offset < 18446744073709551616) (h2 : e.count < 18446744073709551616) :
    readExtent (writeBytes m a (encodeExtent e)) a = e := by
  have hw : ∀ i, i < 16 → writeBytes m a (encodeExtent e) (a + i)
      = if i < 8 then writeBytes m a (encodeU64 e.offset) (a + i)
        else writeBytes m (a + 8) (encodeU64 e.count) (a + i) := by
    intro i hi
    unfold writeBytes
    rw [encodeExtent_length, encodeU64_length, encodeU64_length, if_pos (by omega),
      Nat.add_sub_cancel_left]
    unfold encodeExtent
    split
    · rename_i hlt
      rw [List.getD_append _ _ _ _ (by rw [encodeU64_length]; exact hlt), if_pos (by omega)]
    · rename_i hge
      rw [List.getD_append_right _ _ _ _ (by rw [encodeU64_length]; omega),
        encodeU64_length, if_pos (by omega)]
      congr 1
      omega
  unfold readExtent
  have e1 : readU64 (writeBytes m a (encodeExtent e)) a = e.offset := by
    rw [readU64_congr (writeBytes m a (encodeU64 e.offset)) _ a (fun i hi => by
      rw [hw i (by omega), if_pos hi])]
    exact readU64_writeBytes_encode m a e.offset h1
  have e2 : readU64 (writeBytes m a (encodeExtent e)) (a + 8) = e.count := by
    rw [readU64_congr (writeBytes m (a + 8) (encodeU64 e.count)) _ (a + 8) (fun i hi => by
      rw [Nat.add_assoc, hw (8 + i) (by omega), if_neg (by omega)])]
    exact readU64_writeBytes_encode m (a + 8) e.count h2
  rw [e1, e2]

theorem readExtent_writeBytes_other (m : Memory) (a b : Nat) (src : List Nat)
    (h : b + 16 ≤ a ∨ a + src.length ≤ b) :
    readExtent (writeBytes m a src) b = readExtent m b := by
  apply readExtent_congr
  intro i hi
  exact writeBytes_outside m a src (b + i) (by omega)

theorem indirect_setIndirect_same (data : EsFSAttributeFileData) (i : Nat) (e : EsFSGlobalExtent)
    (h1 : e.offset < 18446744073709551616) (h2 : e.count < 18446744073709551616) :
    (data.setIndirect i e).indirect i = e := by
  unfold EsFSAttributeFileData.setIndirect EsFSAttributeFileData.indirect
  exact readExtent_writeBytes_encode _ _ e h1 h2

theorem indirect_setIndirect_other (data : EsFSAttributeFileData) (i j : Nat) (e : EsFSGlobalExtent)
    (h : j ≠ i) : (data.setIndirect i e).indirect j = data.indirect j := by
  unfold EsFSAttributeFileData.setIndirect EsFSAttributeFileData.indirect sizeofGlobalExtent
  apply readExtent_writeBytes_other
  rw [encodeExtent_length]
  omega

/-! ### The allocation loop of GrowDataStream -/

theorem countSum_congr (ext ext' : Nat → EsFSGlobalExtent) :
    ∀ (n i : Nat), (∀ j, i ≤ j → j < i + n → ext' j = ext j) →
      countSum ext' i n = countSum ext i n := by
  intro n
  induction n with
  | zero => intro i _; rfl
  | succ n ih =>
    intro i h
    simp only [countSum]
    rw [h i (Nat.le_refl _) (by omega), ih (i + 1) (fun j h1 h2 => h j (by omega) (by omega))]

theorem countSum_succ_right (ext : Nat → EsFSGlobalExtent) (n : Nat) :
    countSum ext 0 (n + 1) = countSum ext 0 n + (ext n).count := by
  rw [countSum_add ext 0 n 1]
  simp [countSum]

theorem extentsDisjoint_of_no_common (a b : EsFSGlobalExtent)
    (h : ∀ x, a.offset ≤ x → x < a.offset + a.count → b.offset ≤ x → x < b.offset + b.count → False) :
    extentsDisjoint a b := by
  unfold extentsDisjoint
  by_contra hc
  push_neg at hc
  obtain ⟨h1, h2, h3, h4⟩ := hc
  by_cases hab : a.offset ≤ b.offset
  · exact h b.offset hab (by omega) (Nat.le_refl _) (by omega)
  · exact h a.offset (Nat.le_refl _) (by omega) (by omega) (by omega)

theorem AllocatorWF.of_tables {v w : EsFSVolume} (h : AllocatorWF v)
    (h1 : w.superblock = v.superblock) (h2 : w.groupDescriptorTable = v.groupDescriptorTable)
    (h3 : w.extentTables = v.extentTables) : AllocatorWF w := by
  have ht : ∀ g, AllocateExtent.loadedTable w g = AllocateExtent.loadedTable v g := by
    intro g; unfold AllocateExtent.loadedTable; rw [h1, h2, h3]
  exact ⟨by rw [h1]; exact h.groupSize, by rw [h2]; exact h.first,
    by rw [h1, h2]; exact h.keys,
    by intro g hg; rw [h1] at hg ⊢; rw [ht]; exact h.tables g hg,
    by intro e he; rw [ht] at he; exact h.zeroFree e he,
    by intro g hg e he; rw [h1] at hg ⊢; rw [ht] at he; exact h.inVolume g hg e he,
    by rw [h1]; exact h.blockCount⟩

theorem freeBlock_of_tables {v w : EsFSVolume}
    (h1 : w.superblock = v.superblock) (h2 : w.groupDescriptorTable = v.groupDescriptorTable)
    (h3 : w.extentTables = v.extentTables) (x : Nat) : freeBlock w x ↔ freeBlock v x := by
  have ht : ∀ g, AllocateExtent.loadedTable w g = AllocateExtent.loadedTable v g := by
    intro g; unfold AllocateExtent.loadedTable; rw [h1, h2, h3]
  unfold freeBlock
  simp only [h1, ht]

theorem getD_replicate_zero (n k : Nat) : (List.replicate n 0).getD k 0 = 0 := by
  by_cases h : k < n
  · rw [List.getD_eq_getElem _ _ (by simpa using h)]; simp
  · rw [List.getD_eq_default _ _ (by simpa using h)]

theorem writeBytes_zeros (m : Memory) (addr n : Nat) (a : Nat) :
    writeBytes m addr (List.replicate n 0) a = if addr ≤ a ∧ a < addr + n then 0 else m a := by
  unfold writeBytes
  rw [List.length_replicate, getD_replicate_zero]

/-- A write inside a laid-out stream stores the buffer at the addresses of the
stream bytes and changes nothing else of the volume. -/
theorem AccessStream_write_laidOut (v : EsFSVolume) (data : EsFSAttributeFileData)
    (offset : Nat) (buffer : List Nat) (hgeo : AccessGeometry v)
    (hsize : data.size < 18446744073709551616) (hL : StreamLaidOut v data)
    (hfit : extentsFit (extentList v data) data.extentCount)
    (hpos : 0 < buffer.length) (hlen : offset + buffer.length ≤ data.size) :
    ∃ disk, AccessStream v data offset buffer.length buffer true
        = .ok (data, { v with disk := disk }, [])
      ∧ (∀ k, k < buffer.length →
          disk (streamAddress v (streamBlock v data) (offset + k)) = buffer.getD k 0)
      ∧ ∀ a, (∀ k, k < buffer.length → a ≠ streamAddress v (streamBlock v data) (offset + k)) →
          disk a = v.disk a := by
  obtain ⟨k, hk, hBk⟩ := hgeo.blockSizePow
  have hB : 0 < v.superblock.blockSize := by rw [hBk]; exact Nat.two_pow_pos k
  have hnd : data.indirection ≠ ESFS_DATA_DIRECT := by
    rcases hL.mode with h | h <;> rw [h] <;> decide
  have hzero : buffer.length ≠ 0 := by omega
  obtain ⟨accesses, ha1, ha2⟩ := AccessStream.plan_covers v data hgeo hL.mode data.size hsize
    (fun b hb => hL.block_ne_zero hfit b hb) offset buffer.length hpos hlen
  have hinj : ∀ p p', p < data.size → p' < data.size → p ≠ p' →
      streamAddress v (streamBlock v data) p ≠ streamAddress v (streamBlock v data) p' := by
    intro p p' hp hp' hne
    exact streamAddress_injective v _ hB hgeo.sectors _
      (fun b b' hb hb' hbb => hL.block_injective hfit b b' hb hb' hbb) p p'
      (div_lt_blocksNeeded _ hB _ _ hp) (div_lt_blocksNeeded _ hB _ _ hp') hne
  have hfields := AccessStream.writeAll_fields accesses v buffer
  have hframe := AccessStream.writeAll_frame v (streamBlock v data) accesses v buffer offset
    buffer.length rfl rfl ha2
  have hval := AccessStream.writeAll_value v (streamBlock v data) accesses v buffer offset
    buffer.length rfl rfl ha2 (Nat.le_refl _)
  refine ⟨(AccessStream.writeAll v accesses buffer).disk, ?_, ?_, hframe⟩
  · unfold AccessStream
    simp only [hzero, if_false, hnd, ha1, if_true]
    rw [← hfields]
  · intro k hk
    exact hval k hk (fun k' hk' hne => hinj _ _ (by omega) (by omega) (by omega))

theorem BlocksNeededToStore_le (sb : EsFSSuperblock) (hB : 0 < sb.blockSize) (n : Nat) :
    BlocksNeededToStore sb n ≤ n := by
  have h0 := (BlocksNeededToStore_bounds sb hB n).2
  have h1 : n * 1 ≤ n * sb.blockSize := Nat.mul_le_mul_left _ hB
  by_contra hc
  have h2 : (n + 1) * sb.blockSize ≤ BlocksNeededToStore sb n * sb.blockSize :=
    Nat.mul_le_mul_right _ (by omega)
  rw [Nat.add_mul] at h2
  omega

/-- A grow of a DIRECT stream past 64 bytes runs the allocation loop from the
attribute switched to INDIRECT, for all the blocks of the new size. -/
theorem GrowDataStream_direct_eq (v : EsFSVolume) (data : EsFSAttributeFileData)
    (newSize cb : Nat) (clear : Bool) (uninit : Nat → Nat)
    (hd : data.indirection = ESFS_DATA_DIRECT)
    (hs : data.size ≤ ESFS_DIRECT_BYTES) (hnew : ESFS_DIRECT_BYTES < newSize)
    (hnew64 : newSize < 18446744073709551616) (hB : 0 < v.superblock.blockSize) :
    GrowDataStream v data newSize clear cb uninit
      = GrowDataStream.extend v { data with indirection := ESFS_DATA_INDIRECT } true data.size
          (readBytes data.unionBytes 0 data.size) (BlocksNeededToStore v.superblock newSize)
          newSize clear cb uninit := by
  have hnb : BlocksNeededToStore v.superblock newSize < 18446744073709551616 :=
    Nat.lt_of_le_of_lt (BlocksNeededToStore_le _ hB _) hnew64
  have hc1 : ¬ (data.indirection = ESFS_DATA_DIRECT ∧ newSize ≤ ESFS_DIRECT_BYTES) := by
    intro hc; omega
  have hc2 : ¬ (data.indirection = ESFS_DATA_DIRECT ∧ data.size > ESFS_DIRECT_BYTES) := by
    intro hc; omega
  unfold GrowDataStream
  rw [if_neg hc1, if_neg hc2]
  have hdec : decide (data.indirection = ESFS_DATA_DIRECT) = true := decide_eq_true hd
  simp only [hdec, if_true]
  rw [sub64_eq_sub (Nat.zero_le _) hnb, Nat.sub_zero]

theorem readBytes_length (m : Memory) (addr n : Nat) : (readBytes m addr n).length = n := by
  unfold readBytes
  simp

/-- The size recorded in the attribute plays no part in an access to a stream
that is not direct. -/
theorem AccessStream_size (v : EsFSVolume) (data : EsFSAttributeFileData) (n offset size : Nat)
    (buffer : List Nat) (hnd : data.indirection ≠ ESFS_DATA_DIRECT) (V : EsFSVolume)
    (h : AccessStream v { data with size := n } offset size buffer true
      = .ok ({ data with size := n }, V, [])) (hs : size ≠ 0) :
    AccessStream v data offset size buffer true = .ok (data, V, []) := by
  have hp : AccessStream.plan v { data with size := n } offset size
      = AccessStream.plan v data offset size := rfl
  unfold AccessStream at h ⊢
  rw [if_neg hs] at h ⊢
  rw [if_neg hnd] at h ⊢
  rw [hp] at h
  split at h
  · cases h
  · rename_i acc hacc
    rw [if_pos rfl] at h ⊢
    simp only [Except.ok.injEq, Prod.mk.injEq, true_and, and_true] at h
    simp only [Except.ok.injEq, Prod.mk.injEq, true_and, and_true]
    exact h

/-- After the allocation loop the stream with its new size is laid out, and
all its bytes are zero on the drive. -/
theorem GrowInv.laidOut (v0 : EsFSVolume) (hgeo : AccessGeometry v0) (newSize : Nat)
    (hnew64 : newSize < 18446744073709551616) (st : GrowState) (hinv : GrowInv v0 (BlocksNeededToStore v0.superblock newSize) 0 st) :
    AccessGeometry st.v ∧ StreamLaidOut st.v { st.data with size := newSize }
      ∧ extentsFit (extentList st.v { st.data with size := newSize }) st.data.extentCount
      ∧ (∀ w, streamBlock w { st.data with size := newSize }
          = streamBlock st.v { st.data with size := newSize })
      ∧ ∀ p, p < newSize →
          st.v.disk (streamAddress st.v (streamBlock st.v { st.data with size := newSize }) p) = 0 := by
  obtain ⟨n0, hsb0⟩ := hinv.superblock
  obtain ⟨k, hk, hBk⟩ := hgeo.blockSizePow
  have hB0 : 0 < v0.superblock.blockSize := by rw [hBk]; exact Nat.two_pow_pos k
  have hBs : st.v.superblock.blockSize = v0.superblock.blockSize := by rw [hsb0]
  have hgeo' : AccessGeometry st.v :=
    ⟨⟨k, hk, by rw [hBs]; exact hBk⟩,
      by rw [hBs, hinv.drive.1, hinv.drive.2.1]; exact hgeo.sectors,
      by rw [hBs, hinv.drive.2.1, hinv.drive.2.2]; exact hgeo.transfer⟩
  have hne2 : st.data.indirection ≠ ESFS_DATA_INDIRECT_2 := by rw [hinv.mode]; decide
  have hext : ∀ w, extentList w { st.data with size := newSize } = st.data.indirect := by
    intro w
    unfold extentList
    rw [if_neg hne2]
    rfl
  have hblk : ∀ w, streamBlock w { st.data with size := newSize }
      = fun b => findBlock st.data.indirect b st.data.extentCount 0 0 := by
    intro w
    funext b
    unfold streamBlock
    rw [hext]
  have htot : countSum st.data.indirect 0 st.data.extentCount
      = BlocksNeededToStore v0.superblock newSize := by
    have := hinv.total
    omega
  have hsbeq : BlocksNeededToStore st.v.superblock newSize
      = BlocksNeededToStore v0.superblock newSize := by
    unfold BlocksNeededToStore; rw [hBs]
  have hbc0 : st.v.superblock.blockCount = v0.superblock.blockCount := by rw [hsb0]
  have hbc := hinv.wf.blockCount
  have hnb := BlocksNeededToStore_le v0.superblock hB0 newSize
  have hfit : extentsFit st.data.indirect st.data.extentCount :=
    ⟨by omega, fun i hi => by have := hinv.inVolume i hi; omega⟩
  refine ⟨hgeo', ⟨Or.inl hinv.mode, ?_, ?_, ?_, ?_⟩, by rw [hext]; exact hfit, ?_, ?_⟩
  · intro i j hij hj
    rw [hext]
    exact hinv.disjoint i j hij hj
  · rw [hext]
    show BlocksNeededToStore st.v.superblock newSize ≤ countSum st.data.indirect 0 st.data.extentCount
    rw [hsbeq, htot]
  · intro i hi _
    rw [hext]
    have := (hinv.extents i hi).1
    omega
  · intro h2
    exact absurd h2 hne2
  · intro w
    rw [hblk w, hblk st.v]
  · intro p hp
    rw [hblk]
    have hb : p / v0.superblock.blockSize < countSum st.data.indirect 0 st.data.extentCount := by
      rw [htot]
      exact div_lt_blocksNeeded _ hB0 _ _ hp
    obtain ⟨j, hj, h1, h2⟩ := findBlock_mem st.data.indirect st.data.extentCount hfit _ hb
    unfold streamAddress
    rw [blockAddress_eq st.v hgeo'.sectors, hBs]
    dsimp only
    apply hinv.zero j hj
    · exact Nat.le_trans (Nat.mul_le_mul_right _ h1) (Nat.le_add_right _ _)
    · have hm := Nat.mod_lt p hB0
      have h3 : (findBlock st.data.indirect (p / v0.superblock.blockSize) st.data.extentCount 0 0
          + 1) * v0.superblock.blockSize
          ≤ ((st.data.indirect j).offset + (st.data.indirect j).count) * v0.superblock.blockSize :=
        Nat.mul_le_mul_right _ h2
      rw [Nat.add_mul, Nat.one_mul] at h3
      omega

theorem loadedTable_sampleVolume (g : Nat) :
    AllocateExtent.loadedTable sampleVolume g
      = if g = 0 then [⟨43, 4053⟩] else if g = 31 then [⟨8, 4072⟩] else [⟨8, 4088⟩] := by
  unfold AllocateExtent.loadedTable
  by_cases h0 : g = 0
  · subst h0; rfl
  · have hd : sampleVolume.groupDescriptorTable g = ⟨0, 0, 0⟩ := by
      show (if g = 0 then _ else _) = _
      rw [if_neg h0]
    simp only [hd, if_true, if_neg h0]
    by_cases h31 : g = 31
    · subst h31; rfl
    · rw [if_neg h31]
      have : GetBlocksInGroup sampleVolume.superblock g = 4096 := by
        unfold GetBlocksInGroup
        rw [if_neg (by show ¬ g = 31; exact h31)]
        rfl
      rw [this]
      rfl

theorem allocatorWF_sampleVolume : AllocatorWF sampleVolume := by
  have hmem : ∀ g e, e ∈ AllocateExtent.loadedTable sampleVolume g →
      (g = 0 ∧ e = ⟨43, 4053⟩) ∨ (g = 31 ∧ e = ⟨8, 4072⟩)
        ∨ (g ≠ 0 ∧ g ≠ 31 ∧ e = ⟨8, 4088⟩) := by
    intro g e he
    rw [loadedTable_sampleVolume] at he
    split at he
    · exact Or.inl ⟨by assumption, List.mem_singleton.1 he⟩
    · split at he
      · exact Or.inr (Or.inl ⟨by assumption, List.mem_singleton.1 he⟩)
      · exact Or.inr (Or.inr ⟨by assumption, by assumption, List.mem_singleton.1 he⟩)
  refine ⟨by decide, by decide, ?_, ?_, ?_, ?_, by decide⟩
  · intro g _ hne
    by_cases h0 : g = 0
    · subst h0; decide
    · exfalso
      apply hne
      show (if g = 0 then (⟨42, 1, 43⟩ : EsFSGroupDescriptor) else ⟨0, 0, 0⟩).extentTable = 0
      rw [if_neg h0]
  · intro g _
    refine ⟨?_, ?_⟩
    · intro e he
      show 1 ≤ e.count ∧ e.offset + e.count ≤ 4096
      rcases hmem g e he with ⟨_, rfl⟩ | ⟨_, rfl⟩ | ⟨_, _, rfl⟩ <;> decide
    · rw [loadedTable_sampleVolume]
      split
      · exact List.pairwise_singleton _ _
      · split <;> exact List.pairwise_singleton _ _
  · intro e he
    rcases hmem 0 e he with ⟨_, rfl⟩ | ⟨h, _⟩ | ⟨h, _⟩
    · decide
    · omega
    · omega
  · intro g hg e he
    replace hg : g < 32 := hg
    show g * 4096 + e.offset + e.count ≤ 131056
    rcases hmem g e he with ⟨rfl, rfl⟩ | ⟨rfl, rfl⟩ | ⟨_, _, rfl⟩
    · decide
    · decide
    · show g * 4096 + 8 + 4088 ≤ 131056
      omega

/-! ### Promotion of a direct stream -/

theorem localDisjoint_symm {a b : EsFSLocalExtent} (h : localDisjoint a b) : localDisjoint b a :=
  Or.symm h

theorem TableGood.perm {bpg : Nat} {l l' : List EsFSLocalExtent} (h : TableGood bpg l)
    (hp : l'.Perm l) : TableGood bpg l' :=
  ⟨fun e he => h.inGroup e (hp.mem_iff.1 he),
    (hp.pairwise_iff (fun {_ _} hab => localDisjoint_symm hab)).2 h.disjoint⟩

theorem inTable_perm {l l' : List EsFSLocalExtent} (hp : l'.Perm l) (x : Nat) :
    inTable l' x ↔ inTable l x := by
  unfold inTable
  constructor
  · rintro ⟨e, he, h⟩; exact ⟨e, hp.mem_iff.1 he, h⟩
  · rintro ⟨e, he, h⟩; exact ⟨e, hp.mem_iff.2 he, h⟩

/-- Two adjacent free extents of a good table may be joined into one. -/
theorem TableGood.join {bpg : Nat} {a b : EsFSLocalExtent} {R : List EsFSLocalExtent}
    (h : TableGood bpg (a :: b :: R)) (hadj : a.offset + a.count = b.offset)
    (hbpg : bpg < 65536) :
    TableGood bpg (⟨a.offset, u16 (a.count + b.count)⟩ :: R)
      ∧ ∀ x, inTable (⟨a.offset, u16 (a.count + b.count)⟩ :: R) x ↔ inTable (a :: b :: R) x := by
  have ha := h.inGroup a (by simp)
  have hb := h.inGroup b (by simp)
  have hu : u16 (a.count + b.count) = a.count + b.count := u16_of_lt (by omega)
  rw [hu]
  have hd := h.disjoint
  rw [List.pairwise_cons, List.pairwise_cons] at hd
  obtain ⟨hd1, hd2, hd3⟩ := hd
  refine ⟨⟨?_, ?_⟩, ?_⟩
  · intro e he
    rcases List.mem_cons.1 he with rfl | he
    · exact ⟨by show 1 ≤ a.count + b.count; omega, by show a.offset + (a.count + b.count) ≤ bpg; omega⟩
    · exact h.inGroup e (by simp [he])
  · rw [List.pairwise_cons]
    refine ⟨?_, hd3⟩
    intro e he
    have h1 := hd1 e (by simp [he])
    have h2 := hd2 e he
    have he' := h.inGroup e (by simp [he])
    unfold localDisjoint at h1 h2 ⊢
    show a.offset + (a.count + b.count) ≤ e.offset ∨ e.offset + e.count ≤ a.offset
    omega
  · intro x
    unfold inTable
    constructor
    · rintro ⟨e, he, h1, h2⟩
      rcases List.mem_cons.1 he with rfl | he
      · replace h2 : x < a.offset + (a.count + b.count) := h2
        replace h1 : a.offset ≤ x := h1
        by_cases hx : x < b.offset
        · exact ⟨a, by simp, h1, by omega⟩
        · exact ⟨b, by simp, by omega, by omega⟩
      · exact ⟨e, by simp [he], h1, h2⟩
    · rintro ⟨e, he, h1, h2⟩
      rcases List.mem_cons.1 he with rfl | he
      · exact ⟨_, List.mem_cons_self _ _, h1, by show x < e.offset + (e.count + b.count); omega⟩
      · rcases List.mem_cons.1 he with rfl | he
        · exact ⟨_, List.mem_cons_self _ _, by show a.offset ≤ x; omega,
            by show x < a.offset + (a.count + e.count); omega⟩
        · exact ⟨e, List.mem_cons_of_mem _ he, h1, h2⟩

/-- The merge loop of `FreeExtent` keeps the table good and the set of free
blocks the same, the extent to free counted in. -/
theorem FreeExtent.merge_spec (bpg : Nat) (hbpg : bpg < 65536) :
    ∀ (fuel : Nat) (table : List EsFSLocalExtent) (i : Nat) (f : EsFSLocalExtent),
      TableGood bpg (table ++ [f]) →
      ∀ table' f', FreeExtent.merge fuel table i f = .ok (table', f') →
        TableGood bpg (table' ++ [f'])
          ∧ ∀ x, inTable (table' ++ [f']) x ↔ inTable (table ++ [f]) x := by
  intro fuel
  induction fuel with
  | zero =>
    intro table i f hg table' f' h
    simp only [FreeExtent.merge, Except.ok.injEq, Prod.mk.injEq] at h
    rw [← h.1, ← h.2]
    exact ⟨hg, fun x => Iff.rfl⟩
  | succ fuel ih =>
    intro table i f hg table' f' h
    simp only [FreeExtent.merge] at h
    split at h
    · rename_i hi
      obtain ⟨pre, e, post, htab, hlen, he⟩ := list_split_at table i hi
      rw [← he] at h
      have hperm : (swapRemove table i).Perm (pre ++ post) := by
        rw [htab, ← hlen]; exact swapRemove_perm pre e post
      have hp0 : (e :: f :: (pre ++ post)).Perm (table ++ [f]) := by
        rw [htab]
        simp only [List.append_assoc, List.cons_append]
        refine (List.Perm.cons _ ?_).trans List.perm_middle.symm
        rw [← List.append_assoc]
        exact (List.perm_append_singleton f (pre ++ post)).symm
      have hstep : ∀ m : EsFSLocalExtent,
          (TableGood bpg (m :: (pre ++ post))
            ∧ ∀ x, inTable (m :: (pre ++ post)) x ↔ inTable (e :: f :: (pre ++ post)) x) →
          FreeExtent.merge fuel (swapRemove table i) i m = .ok (table', f') →
          TableGood bpg (table' ++ [f'])
            ∧ ∀ x, inTable (table' ++ [f']) x ↔ inTable (table ++ [f]) x := by
        intro m hm hrec
        have hp1 : (swapRemove table i ++ [m]).Perm (m :: (pre ++ post)) :=
          (List.perm_append_singleton m _).trans (List.Perm.cons _ hperm)
        obtain ⟨r1, r2⟩ := ih _ i m (hm.1.perm hp1) table' f' hrec
        refine ⟨r1, fun x => ?_⟩
        rw [r2 x, inTable_perm hp1 x, hm.2 x, inTable_perm hp0 x]
      split at h
      · cases h
      · split at h
        · rename_i hadj
          have hj := (hg.perm hp0).join hadj hbpg
          rw [Nat.add_comm e.count f.count] at hj
          exact hstep _ hj h
        · split at h
          · rename_i hadj
            have hp2 : (f :: e :: (pre ++ post)).Perm (e :: f :: (pre ++ post)) :=
              List.Perm.swap _ _ _
            have hj := ((hg.perm hp0).perm hp2).join hadj hbpg
            refine hstep _ ⟨hj.1, fun x => ?_⟩ h
            rw [hj.2 x, inTable_perm hp2 x]
          · exact ih _ _ _ hg table' f' h
    · simp only [Except.ok.injEq, Prod.mk.injEq] at h
      rw [← h.1, ← h.2]
      exact ⟨hg, fun x => Iff.rfl⟩

/-- A good table has at most as many extents as the group has blocks. -/
theorem TableGood.length_le {bpg : Nat} {l : List EsFSLocalExtent} (h : TableGood bpg l) :
    l.length ≤ bpg := by
  have hnd : (l.map (fun e => e.offset)).Nodup := by
    unfold List.Nodup
    rw [List.pairwise_map]
    apply List.Pairwise.imp_of_mem _ h.disjoint
    intro a b ha hb hab
    have h1 := h.inGroup a ha
    have h2 := h.inGroup b hb
    unfold localDisjoint at hab
    omega
  have hsub : l.map (fun e => e.offset) ⊆ List.range bpg := by
    intro x hx
    rw [List.mem_map] at hx
    obtain ⟨e, he, rfl⟩ := hx
    have := h.inGroup e he
    rw [List.mem_range]
    omega
  have := (List.subperm_of_subset hnd hsub).length_le
  simpa using this

theorem div_eq_of_group (bpg g x : Nat) (h1 : g * bpg ≤ x) (h2 : x < g * bpg + bpg) :
    x / bpg = g := by
  have hb : 0 < bpg := by omega
  apply Nat.div_eq_of_lt_le
  · rw [Nat.mul_comm] at h1; rw [Nat.mul_comm]; exact h1
  · rw [Nat.add_mul, Nat.one_mul]; exact h2

/-- The table of every group after `FreeExtent` has stored the table `T` for
group `g`, whose extent table exists. -/
theorem FreeExtent.loadedTable_store (v : EsFSVolume) (hwf : AllocatorWF v) (g : Nat)
    (hg : g < v.superblock.groupCount) (hready : (v.groupDescriptorTable g).extentTable ≠ 0)
    (T : List EsFSLocalExtent) (n used groupUsed : Nat) (hn : n = T.length)
    (g' : Nat) (hg' : g' < v.superblock.groupCount) :
    AllocateExtent.loadedTable
        { v with
          superblock := { v.superblock with blocksUsed := used }
          groupDescriptorTable := Function.update v.groupDescriptorTable g
            ⟨(v.groupDescriptorTable g).extentTable, n, groupUsed⟩
          extentTables := Function.update v.extentTables (v.groupDescriptorTable g).extentTable T }
        g'
      = if g' = g then T else AllocateExtent.loadedTable v g' := by
  by_cases hgg : g' = g
  · subst hgg
    simp only [if_true]
    unfold AllocateExtent.loadedTable
    simp only [Function.update_same, hready, if_false]
    rw [Function.update_same, Function.update_same, hn]
    exact loadTable_self T
  · simp only [hgg, if_false]
    unfold AllocateExtent.loadedTable
    simp only [Function.update_noteq hgg]
    split
    · rfl
    · rename_i h0
      have hk' := hwf.keys g' hg' h0
      have hk := hwf.keys g hg hready
      rw [Nat.add_mul, Nat.one_mul] at hk' hk
      have hne : (v.groupDescriptorTable g').extentTable
          ≠ (v.groupDescriptorTable g).extentTable := by
        intro heq
        apply hgg
        exact block_group_unique _ _ _ _ hk'.1 hk'.2 (by rw [heq]; exact hk.1)
          (by rw [heq]; exact hk.2)
      rw [Function.update_noteq hgg, Function.update_noteq hne]

/-- One successful `FreeExtent` of an extent that lies in one group with an
extent table and holds no free block: the allocator invariants are kept, the
drive and the extent-table locations are untouched, and exactly the blocks of
the extent become free. -/
theorem FreeExtent_step (v : EsFSVolume) (hwf : AllocatorWF v) (E : EsFSGlobalExtent)
    (g : Nat) (hg : g < v.superblock.groupCount)
    (hlo : g * v.superblock.blocksPerGroup ≤ E.offset)
    (hhi : E.offset + E.count ≤ g * v.superblock.blocksPerGroup + v.superblock.blocksPerGroup)
    (hready : (v.groupDescriptorTable g).extentTable ≠ 0)
    (hc : 1 ≤ E.count) (h1 : 1 ≤ E.offset) (hvol : E.offset + E.count ≤ v.superblock.blockCount)
    (hused : ∀ x, E.offset ≤ x → x < E.offset + E.count → ¬ freeBlock v x)
    (v' : EsFSVolume) (h : FreeExtent v E = .ok v') :
    AllocatorWF v' ∧ v'.disk = v.disk ∧ v'.sectorsPerBlock = v.sectorsPerBlock
      ∧ v'.sectorSize = v.sectorSize ∧ v'.maxAccessSectorCount = v.maxAccessSectorCount
      ∧ (∃ n, v'.superblock = { v.superblock with blocksUsed := n })
      ∧ (∀ g', (v'.groupDescriptorTable g').extentTable = (v.groupDescriptorTable g').extentTable)
      ∧ ∀ x, freeBlock v' x ↔ (freeBlock v x ∨ (E.offset ≤ x ∧ x < E.offset + E.count)) := by
  have hb := hwf.groupSize
  have hgrp : E.offset / v.superblock.blocksPerGroup = g :=
    div_eq_of_group _ _ _ hlo (by omega)
  have hmod : E.offset % v.superblock.blocksPerGroup = E.offset - g * v.superblock.blocksPerGroup := by
    have := Nat.div_add_mod E.offset v.superblock.blocksPerGroup
    rw [hgrp, Nat.mul_comm] at this
    omega
  have hf1 : u16 (E.offset % v.superblock.blocksPerGroup)
      = E.offset - g * v.superblock.blocksPerGroup := by
    rw [hmod]; exact u16_of_lt (by omega)
  have hf2 : u16 E.count = E.count := u16_of_lt (by omega)
  have htable : loadTable (v.extentTables (v.groupDescriptorTable g).extentTable)
      (v.groupDescriptorTable g).extentCount = AllocateExtent.loadedTable v g := by
    unfold AllocateExtent.loadedTable
    simp only [hready, if_false]
  have hgood := hwf.tables g hg
  have hinit : TableGood v.superblock.blocksPerGroup
      (AllocateExtent.loadedTable v g ++ [⟨E.offset - g * v.superblock.blocksPerGroup, E.count⟩]) := by
    refine ⟨?_, ?_⟩
    · intro e he
      rcases List.mem_append.1 he with he | he
      · exact hgood.inGroup e he
      · rw [List.mem_singleton] at he
        subst he
        exact ⟨hc, by show E.offset - g * v.superblock.blocksPerGroup + E.count ≤ _; omega⟩
    · rw [List.pairwise_append]
      refine ⟨hgood.disjoint, List.pairwise_singleton _ _, ?_⟩
      intro e he f hf
      rw [List.mem_singleton] at hf
      subst hf
      have hin := hgood.inGroup e he
      unfold localDisjoint
      show e.offset + e.count ≤ E.offset - g * v.superblock.blocksPerGroup
        ∨ E.offset - g * v.superblock.blocksPerGroup + E.count ≤ e.offset
      by_contra hcon
      push_neg at hcon
      by_cases hle : e.offset ≤ E.offset - g * v.superblock.blocksPerGroup
      · exact hused E.offset (Nat.le_refl _) (by omega) ⟨g, hg, e, he, by omega, by omega⟩
      · exact hused (g * v.superblock.blocksPerGroup + e.offset) (by omega) (by omega)
          ⟨g, hg, e, he, by omega, by omega⟩
  unfold FreeExtent at h
  dsimp only at h
  rw [hgrp, htable, hf1, hf2] at h
  split at h
  · cases h
  · rename_i T f hm
    obtain ⟨hT, hTin⟩ := FreeExtent.merge_spec _ hb.2 _ _ _ _ hinit T f hm
    have hlen : u16 (T ++ [f]).length = (T ++ [f]).length :=
      u16_of_lt (Nat.lt_of_le_of_lt hT.length_le hb.2)
    split at h
    · cases h
    · simp only [Except.ok.injEq] at h
      rw [hlen] at h
      have htab : ∀ g', g' < v.superblock.groupCount →
          AllocateExtent.loadedTable v' g'
            = if g' = g then T ++ [f] else AllocateExtent.loadedTable v g' := by
        intro g' hg'
        rw [← h]
        exact FreeExtent.loadedTable_store v hwf g hg hready (T ++ [f]) _ _ _ rfl g' hg'
      have hsb : v'.superblock
          = { v.superblock with blocksUsed := sub64 v.superblock.blocksUsed E.count } := by
        rw [← h]
      have hgc : v'.superblock.groupCount = v.superblock.groupCount := by rw [hsb]
      have hbpg : v'.superblock.blocksPerGroup = v.superblock.blocksPerGroup := by rw [hsb]
      have hbc : v'.superblock.blockCount = v.superblock.blockCount := by rw [hsb]
      have hgdt : ∀ g', (v'.groupDescriptorTable g').extentTable
          = (v.groupDescriptorTable g').extentTable := by
        intro g'
        rw [← h]
        show (Function.update v.groupDescriptorTable g _ g').extentTable = _
        by_cases hgg : g' = g
        · subst hgg; rw [Function.update_same]
        · rw [Function.update_noteq hgg]
      have hold : ∀ y, inTable (T ++ [f]) y →
          inTable (AllocateExtent.loadedTable v g) y
            ∨ (E.offset - g * v.superblock.blocksPerGroup ≤ y
              ∧ y < E.offset - g * v.superblock.blocksPerGroup + E.count) := by
        intro y hy
        obtain ⟨e, he, h2, h3⟩ := (hTin y).1 hy
        rcases List.mem_append.1 he with he | he
        · exact Or.inl ⟨e, he, h2, h3⟩
        · rw [List.mem_singleton] at he
          subst he
          exact Or.inr ⟨h2, h3⟩
      have hnew : ∀ y, (inTable (AllocateExtent.loadedTable v g) y
            ∨ (E.offset - g * v.superblock.blocksPerGroup ≤ y
              ∧ y < E.offset - g * v.superblock.blocksPerGroup + E.count)) →
          inTable (T ++ [f]) y := by
        intro y hy
        apply (hTin y).2
        rcases hy with ⟨e, he, h2, h3⟩ | ⟨h2, h3⟩
        · exact ⟨e, List.mem_append_left _ he, h2, h3⟩
        · exact ⟨_, List.mem_append_right _ (List.mem_singleton_self _), h2, h3⟩
      refine ⟨⟨by rw [hbpg]; exact hb, by rw [hgdt]; exact hwf.first, ?_, ?_, ?_, ?_,
          by rw [hbc]; exact hwf.blockCount⟩,
        by rw [← h], by rw [← h], by rw [← h], by rw [← h], ⟨_, hsb⟩, hgdt, ?_⟩
      · intro g' hg' hne
        rw [hgc] at hg'
        rw [hgdt] at hne ⊢
        rw [hbpg]
        exact hwf.keys g' hg' hne
      · intro g' hg'
        rw [hgc] at hg'
        rw [hbpg, htab g' hg']
        split
        · exact hT
        · exact hwf.tables g' hg'
      · intro e he
        rw [htab 0 (by omega)] at he
        split at he
        · rename_i h0
          have hin := hT.inGroup e he
          rcases hold e.offset ⟨e, he, Nat.le_refl _, by omega⟩ with ⟨e0, he0, h2, _⟩ | ⟨h2, _⟩
          · have := hwf.zeroFree e0 (by rw [h0]; exact he0)
            omega
          · rw [← h0] at h2
            omega
        · exact hwf.zeroFree e he
      · intro g' hg' e he
        rw [hgc] at hg'
        rw [hbpg, hbc]
        rw [htab g' hg'] at he
        split at he
        · rename_i hgg
          subst hgg
          have hin := hT.inGroup e he
          rcases hold (e.offset + e.count - 1) ⟨e, he, by omega, by omega⟩
            with ⟨e0, he0, h2, h3⟩ | ⟨h2, h3⟩
          · have := hwf.inVolume g' hg' e0 he0
            omega
          · omega
        · exact hwf.inVolume g' hg' e he
      · intro x
        constructor
        · rintro ⟨g', hg', z, hz, hz1, hz2⟩
          rw [hgc] at hg'
          rw [hbpg] at hz1 hz2
          rw [htab g' hg'] at hz
          split at hz
          · rename_i hgg
            subst hgg
            rcases hold (x - g' * v.superblock.blocksPerGroup) ⟨z, hz, by omega, by omega⟩
              with ⟨e0, he0, h2, h3⟩ | ⟨h2, h3⟩
            · exact Or.inl ⟨g', hg', e0, he0, by omega, by omega⟩
            · exact Or.inr ⟨by omega, by omega⟩
          · exact Or.inl ⟨g', hg', z, hz, hz1, hz2⟩
        · rintro (⟨g', hg', z, hz, hz1, hz2⟩ | ⟨hx1, hx2⟩)
          · by_cases hgg : g' = g
            · subst hgg
              obtain ⟨e, he, h2, h3⟩ := hnew (x - g' * v.superblock.blocksPerGroup)
                (Or.inl ⟨z, hz, by omega, by omega⟩)
              refine ⟨g', by rw [hgc]; exact hg', e, ?_, by rw [hbpg]; omega, by rw [hbpg]; omega⟩
              rw [htab g' hg', if_pos rfl]
              exact he
            · refine ⟨g', by rw [hgc]; exact hg', z, ?_, by rw [hbpg]; exact hz1,
                by rw [hbpg]; exact hz2⟩
              rw [htab g' hg', if_neg hgg]
              exact hz
          · obtain ⟨e, he, h2, h3⟩ := hnew (x - g * v.superblock.blocksPerGroup)
              (Or.inr ⟨by omega, by omega⟩)
            refine ⟨g, by rw [hgc]; exact hg, e, ?_, by rw [hbpg]; omega, by rw [hbpg]; omega⟩
            rw [htab g hg, if_pos rfl]
            exact he

/-- The extent handed out by a successful allocation lies in one group, whose
extent table exists afterwards; extent tables that existed stay where they are. -/
theorem AllocateExtent_group (v : EsFSVolume) (hwf : AllocatorWF v) (localGroup d u : Nat)
    (hlg : localGroup < v.superblock.groupCount) (E : EsFSGlobalExtent) (v' : EsFSVolume)
    (h : AllocateExtent v localGroup d u = .ok (E, v')) (hE : E.count ≠ 0) :
    (∃ g, g < v.superblock.groupCount ∧ g * v.superblock.blocksPerGroup ≤ E.offset
        ∧ E.offset + E.count ≤ g * v.superblock.blocksPerGroup + v.superblock.blocksPerGroup
        ∧ (v'.groupDescriptorTable g).extentTable ≠ 0)
      ∧ ∀ g', (v.groupDescriptorTable g').extentTable ≠ 0 →
          (v'.groupDescriptorTable g').extentTable ≠ 0 := by
  obtain ⟨g, e, T', hg, htake, hEeq, hed, hv'⟩ :=
    AllocateExtent.search_outcome v d u hwf _ localGroup hlg E v' h hE
  have hcount : E.count = e.count := by rw [hEeq]
  have he1 : 1 ≤ e.count := by omega
  obtain ⟨_, hin, _, _, _, _⟩ := (hwf.tables g hg).takeOut htake he1
  obtain ⟨hk0, _, _⟩ := AllocateExtent.loadDescriptor_key v hwf g hg
  have hgdtg : (v'.groupDescriptorTable g).extentTable
      = (AllocateExtent.loadDescriptor v g).extentTable := by
    rw [hv']
    show (Function.update v.groupDescriptorTable g _ g).extentTable = _
    rw [Function.update_same]
  refine ⟨⟨g, hg, ?_, ?_, by rw [hgdtg]; exact hk0⟩, ?_⟩
  · rw [hEeq]; simp only; omega
  · rw [hEeq]; simp only; omega
  · intro g' hne
    by_cases hgg : g' = g
    · subst hgg
      rw [hgdtg]
      exact hk0
    · have : v'.groupDescriptorTable g' = v.groupDescriptorTable g' := by
        rw [hv']
        exact Function.update_noteq hgg _ _
      rw [this]
      exact hne

/-- A successful allocation turns the blocks of the new extent into blocks in
use and keeps every block in use in use. -/
theorem AllocateExtent_used (v : EsFSVolume) (hwf : AllocatorWF v) (localGroup d u : Nat)
    (hlg : localGroup < v.superblock.groupCount) (E : EsFSGlobalExtent) (v' : EsFSVolume)
    (h : AllocateExtent v localGroup d u = .ok (E, v')) (hE : E.count ≠ 0) :
    (∀ x, E.offset ≤ x → x < E.offset + E.count → usedBlock v' x)
      ∧ (∀ x, usedBlock v x → usedBlock v' x)
      ∧ (E.offset + E.count - 1) / v.superblock.blocksPerGroup
          = E.offset / v.superblock.blocksPerGroup := by
  obtain ⟨hwf', _, _, _, _, hsb, _, h1, hvol, hfree, hsub⟩ :=
    AllocateExtent_step v hwf localGroup d u hlg E v' h hE
  obtain ⟨⟨g, hg, hlo, hhi, hready⟩, hkeep⟩ :=
    AllocateExtent_group v hwf localGroup d u hlg E v' h hE
  have hgc : v'.superblock.groupCount = v.superblock.groupCount := by rw [hsb]
  have hbpg : v'.superblock.blocksPerGroup = v.superblock.blocksPerGroup := by rw [hsb]
  have hbc : v'.superblock.blockCount = v.superblock.blockCount := by rw [hsb]
  refine ⟨?_, ?_, ?_⟩
  · intro x hx1 hx2
    have hxg : x / v.superblock.blocksPerGroup = g := div_eq_of_group _ _ _ (by omega) (by omega)
    refine ⟨by omega, by rw [hbc]; omega, by rw [hbpg, hgc, hxg]; exact hg,
      by rw [hbpg, hxg]; exact hready, (hfree x hx1 hx2).2⟩
  · rintro x ⟨u1, u2, u3, u4, u5⟩
    exact ⟨u1, by rw [hbc]; exact u2, by rw [hbpg, hgc]; exact u3, by rw [hbpg]; exact hkeep _ u4,
      fun hf => u5 (hsub x hf)⟩
  · rw [div_eq_of_group _ g _ (by omega) (by omega), div_eq_of_group _ g _ hlo (by omega)]

/-- A successful `FreeExtent` of an extent of blocks in use keeps every other
block in use in use. -/
theorem FreeExtent_used (v : EsFSVolume) (hwf : AllocatorWF v) (E : EsFSGlobalExtent)
    (hc : 1 ≤ E.count)
    (hone : (E.offset + E.count - 1) / v.superblock.blocksPerGroup
      = E.offset / v.superblock.blocksPerGroup)
    (hused : ∀ x, E.offset ≤ x → x < E.offset + E.count → usedBlock v x)
    (v' : EsFSVolume) (h : FreeExtent v E = .ok v') :
    AllocatorWF v' ∧ v'.disk = v.disk ∧ v'.sectorsPerBlock = v.sectorsPerBlock
      ∧ v'.sectorSize = v.sectorSize ∧ v'.maxAccessSectorCount = v.maxAccessSectorCount
      ∧ (∃ n, v'.superblock = { v.superblock with blocksUsed := n })
      ∧ ∀ x, usedBlock v x → ¬ (E.offset ≤ x ∧ x < E.offset + E.count) → usedBlock v' x := by
  have hb := hwf.groupSize
  obtain ⟨u1, u2, u3, u4, u5⟩ := hused E.offset (Nat.le_refl _) (by omega)
  obtain ⟨w1, w2, _, _, _⟩ := hused (E.offset + E.count - 1) (by omega) (by omega)
  have hlo : E.offset / v.superblock.blocksPerGroup * v.superblock.blocksPerGroup ≤ E.offset :=
    Nat.div_mul_le_self _ _
  have hhi : E.offset + E.count - 1
      < E.offset / v.superblock.blocksPerGroup * v.superblock.blocksPerGroup
        + v.superblock.blocksPerGroup := by
    rw [← hone]
    have := Nat.div_add_mod (E.offset + E.count - 1) v.superblock.blocksPerGroup
    have := Nat.mod_lt (E.offset + E.count - 1) hb.1
    rw [Nat.mul_comm]
    omega
  obtain ⟨hwf', hd, hs1, hs2, hs3, ⟨n, hsb⟩, hgdt, hfree⟩ :=
    FreeExtent_step v hwf E _ u3 hlo (by omega) u4 hc u1 (by omega)
      (fun x hx1 hx2 => (hused x hx1 hx2).2.2.2.2) v' h
  refine ⟨hwf', hd, hs1, hs2, hs3, ⟨n, hsb⟩, ?_⟩
  rintro x ⟨x1, x2, x3, x4, x5⟩ hout
  refine ⟨x1, by rw [hsb]; exact x2, by rw [hsb]; exact x3, ?_, ?_⟩
  · rw [hgdt]
    rw [hsb]
    exact x4
  · intro hf
    rcases (hfree x).1 hf with hf | hf
    · exact x5 hf
    · exact hout hf

/-! ### Extent lists held in list blocks -/

theorem extentsPerBlock_mul (sb : EsFSSuperblock) (k : Nat) (hB : sb.blockSize = 2 ^ k)
    (h16 : sizeofGlobalExtent ≤ sb.blockSize) :
    extentsPerBlock sb * sizeofGlobalExtent = sb.blockSize := by
  unfold extentsPerBlock sizeofGlobalExtent at *
  have hk : 4 ≤ k := by
    by_contra hc
    have : k ≤ 3 := by omega
    have := Nat.pow_le_pow_right (show 0 < 2 by decide) this
    omega
  obtain ⟨j, rfl⟩ : ∃ j, k = 4 + j := ⟨k - 4, by omega⟩
  rw [hB, Nat.pow_add]
  have : (2 : Nat) ^ 4 = 16 := by decide
  rw [this, Nat.mul_comm 16, Nat.mul_div_cancel _ (by decide : 0 < 16)]

theorem div_eq_iff_block (B a s : Nat) (hB : 0 < B) : a / B = s ↔ s * B ≤ a ∧ a < s * B + B := by
  constructor
  · intro h
    subst h
    have := Nat.div_add_mod a B
    have := Nat.mod_lt a hB
    rw [Nat.mul_comm]
    omega
  · rintro ⟨h1, h2⟩
    exact div_eq_of_group B s a h1 h2

theorem getD_readBytes (m : Memory) (addr n k : Nat) (hk : k < n) :
    (readBytes m addr n).getD k 0 = m (addr + k) := by
  unfold readBytes
  rw [List.getD_eq_getElem _ _ (by simpa using hk)]
  simp

theorem writeBytes_blockRead (v : EsFSVolume)
    (hsec : v.sectorsPerBlock * v.sectorSize = v.superblock.blockSize)
    (buffer : Memory) (addr block a : Nat) :
    writeBytes buffer addr (AccessBlockRead v block v.superblock.blockSize 0) a
      = if addr ≤ a ∧ a < addr + v.superblock.blockSize then
          v.disk (block * v.superblock.blockSize + (a - addr))
        else buffer a := by
  unfold writeBytes AccessBlockRead driveRead
  rw [readBytes_length]
  split
  · rename_i h
    rw [getD_readBytes _ _ _ _ (by omega), blockAddress_eq v hsec, Nat.add_zero]
  · rfl

/-- The extent list read from the list blocks, byte by byte: byte `a` comes
from the list block `a / B` if that block is set, and is 0 otherwise. -/
theorem loadExtentList_apply (v : EsFSVolume) (data : EsFSAttributeFileData)
    (hsec : v.sectorsPerBlock * v.sectorSize = v.superblock.blockSize)
    (hepb : extentsPerBlock v.superblock * sizeofGlobalExtent = v.superblock.blockSize)
    (hB : 0 < v.superblock.blockSize) (a : Nat) :
    loadExtentList v data a
      = if a / v.superblock.blockSize < ESFS_INDIRECT_2_BLOCKS
            ∧ data.indirect2 (a / v.superblock.blockSize) ≠ 0 then
          v.disk (data.indirect2 (a / v.superblock.blockSize) * v.superblock.blockSize
            + a % v.superblock.blockSize)
        else 0 := by
  have key : ∀ n, (List.range n).foldl
      (fun buffer i =>
        if data.indirect2 i ≠ 0 then
          writeBytes buffer (i * extentsPerBlock v.superblock * sizeofGlobalExtent)
            (AccessBlockRead v (data.indirect2 i) v.superblock.blockSize 0)
        else buffer)
      (fun _ => 0) a
      = if a / v.superblock.blockSize < n ∧ data.indirect2 (a / v.superblock.blockSize) ≠ 0 then
          v.disk (data.indirect2 (a / v.superblock.blockSize) * v.superblock.blockSize
            + a % v.superblock.blockSize)
        else 0 := by
    intro n
    induction n with
    | zero => simp
    | succ n ih =>
      rw [List.range_succ, List.foldl_append]
      simp only [List.foldl_cons, List.foldl_nil]
      have hmod := Nat.div_add_mod a v.superblock.blockSize
      have hlt := Nat.mod_lt a hB
      by_cases hn : data.indirect2 n ≠ 0
      · rw [if_pos hn]
        rw [writeBytes_blockRead v hsec, Nat.mul_assoc, hepb]
        by_cases hin : n * v.superblock.blockSize ≤ a
            ∧ a < n * v.superblock.blockSize + v.superblock.blockSize
        · have hdiv := (div_eq_iff_block _ a n hB).2 hin
          rw [if_pos hin, hdiv, if_pos ⟨by omega, hn⟩]
          rw [hdiv, Nat.mul_comm] at hmod
          congr 1
          omega
        · have hdiv : a / v.superblock.blockSize ≠ n := fun h =>
            hin ((div_eq_iff_block _ a n hB).1 h)
          rw [if_neg hin, ih]
          by_cases hc : a / v.superblock.blockSize < n
              ∧ data.indirect2 (a / v.superblock.blockSize) ≠ 0
          · rw [if_pos hc, if_pos ⟨by omega, hc.2⟩]
          · rw [if_neg hc, if_neg]
            rintro ⟨h1, h2⟩
            exact hc ⟨by omega, h2⟩
      · rw [if_neg hn, ih]
        by_cases hc : a / v.superblock.blockSize < n
            ∧ data.indirect2 (a / v.superblock.blockSize) ≠ 0
        · rw [if_pos hc, if_pos ⟨by omega, hc.2⟩]
        · rw [if_neg hc, if_neg]
          rintro ⟨h1, h2⟩
          by_cases he : a / v.superblock.blockSize = n
          · rw [he] at h2; exact hn h2
          · exact hc ⟨by omega, h2⟩
  exact key ESFS_INDIRECT_2_BLOCKS

theorem usedBlock_of_tables {v w : EsFSVolume}
    (h1 : w.superblock = v.superblock) (h2 : w.groupDescriptorTable = v.groupDescriptorTable)
    (h3 : w.extentTables = v.extentTables) (x : Nat) : usedBlock w x ↔ usedBlock v x := by
  unfold usedBlock
  rw [h1, h2, freeBlock_of_tables h1 h2 h3]

theorem div_mod_block (B q t : Nat) (ht : t < B) : (B * q + t) / B = q ∧ (B * q + t) % B = t := by
  have hB : 0 < B := by omega
  constructor
  · rw [Nat.mul_add_div hB, Nat.div_eq_of_lt ht, Nat.add_zero]
  · rw [Nat.mul_add_mod, Nat.mod_eq_of_lt ht]

/-- Where byte `j` of extent `i` of an extent list sits in the list blocks. -/
theorem extent_byte_block (B epb i j : Nat) (hepb : epb * 16 = B) (hB : 0 < B) (hj : j < 16) :
    (i * 16 + j) / B = i / epb ∧ (i * 16 + j) % B = i % epb * 16 + j := by
  have he : 0 < epb := by omega
  have h1 := Nat.div_add_mod i epb
  have h2 := Nat.mod_lt i he
  have e : i * 16 + j = B * (i / epb) + (i % epb * 16 + j) := by
    rw [← hepb]
    have : epb * 16 * (i / epb) = 16 * (epb * (i / epb)) := by ring
    rw [this]
    omega
  rw [e]
  exact div_mod_block B _ _ (by rw [← hepb]; omega)

theorem readU64_eq_of_bytes (m m' : Memory) (a a' : Nat)
    (h : ∀ i, i < 8 → m' (a' + i) = m (a + i)) : readU64 m' a' = readU64 m a := by
  unfold readU64
  congr 1
  apply List.map_congr_left
  intro i hi
  rw [List.mem_range] at hi
  rw [h i hi]

theorem readExtent_eq_of_bytes (m m' : Memory) (a a' : Nat)
    (h : ∀ i, i < 16 → m' (a' + i) = m (a + i)) : readExtent m' a' = readExtent m a := by
  unfold readExtent
  rw [readU64_eq_of_bytes m m' a a' (fun i hi => h i (by omega)),
    readU64_eq_of_bytes m m' (a + 8) (a' + 8)
      (fun i hi => by rw [Nat.add_assoc, Nat.add_assoc]; exact h (8 + i) (by omega))]

/-- Extent `i` of an INDIRECT_2 stream is read from list block `i / epb`. -/
theorem extentList_indirect2 (v : EsFSVolume) (data : EsFSAttributeFileData)
    (hmode : data.indirection = ESFS_DATA_INDIRECT_2)
    (hsec : v.sectorsPerBlock * v.sectorSize = v.superblock.blockSize)
    (hepb : extentsPerBlock v.superblock * sizeofGlobalExtent = v.superblock.blockSize)
    (hB : 0 < v.superblock.blockSize) (i : Nat)
    (hs : i / extentsPerBlock v.superblock < ESFS_INDIRECT_2_BLOCKS)
    (hne : data.indirect2 (i / extentsPerBlock v.superblock) ≠ 0) :
    extentList v data i
      = readExtent v.disk (data.indirect2 (i / extentsPerBlock v.superblock) * v.superblock.blockSize
          + i % extentsPerBlock v.superblock * sizeofGlobalExtent) := by
  unfold extentList
  rw [if_pos hmode]
  apply readExtent_eq_of_bytes
  intro j hj
  unfold sizeofGlobalExtent at *
  obtain ⟨e1, e2⟩ := extent_byte_block _ _ i j hepb hB hj
  rw [loadExtentList_apply v data hsec hepb hB, e1, e2, if_pos ⟨hs, hne⟩, Nat.add_assoc]

/-- The extent list of a stream does not change when the drive changes
outside the list blocks that are set. -/
theorem extentList_frame (v w : EsFSVolume) (data : EsFSAttributeFileData)
    (hsec : v.sectorsPerBlock * v.sectorSize = v.superblock.blockSize)
    (h1 : w.superblock.blockSize = v.superblock.blockSize)
    (h2 : w.sectorsPerBlock = v.sectorsPerBlock) (h3 : w.sectorSize = v.sectorSize)
    (hdisk : ∀ s, s < ESFS_INDIRECT_2_BLOCKS → data.indirect2 s ≠ 0 →
      ∀ a, data.indirect2 s * v.superblock.blockSize ≤ a →
        a < data.indirect2 s * v.superblock.blockSize + v.superblock.blockSize →
        w.disk a = v.disk a) :
    extentList w data = extentList v data := by
  unfold extentList
  split
  · have : loadExtentList w data = loadExtentList v data := by
      unfold loadExtentList extentsPerBlock
      rw [h1]
      apply List.foldl_ext
      intro buffer s hs
      rw [List.mem_range] at hs
      by_cases h0 : data.indirect2 s = 0
      · simp [h0]
      · simp only [h0, ne_eq, not_false_eq_true, if_true]
        unfold AccessBlockRead driveRead
        have e : blockAddress w (data.indirect2 s) 0 = blockAddress v (data.indirect2 s) 0 := by
          unfold blockAddress; rw [h2, h3]
        rw [e]
        have hr : readBytes w.disk (blockAddress v (data.indirect2 s) 0) v.superblock.blockSize
            = readBytes v.disk (blockAddress v (data.indirect2 s) 0) v.superblock.blockSize := by
          apply readBytes_congr
          intro a ha1 ha2
          rw [blockAddress_eq v hsec] at ha1 ha2
          exact hdisk s hs h0 a (by omega) (by omega)
        rw [hr]
    rw [this]
  · rfl

theorem block_bytes_disjoint (B b lo n a : Nat) (h : b < lo ∨ lo + n ≤ b)
    (h1 : b * B ≤ a) (h2 : a < b * B + B) : ¬ (lo * B ≤ a ∧ a < lo * B + B * n) := by
  rintro ⟨h3, h4⟩
  rcases h with h | h
  · have := Nat.mul_le_mul_right B (show b + 1 ≤ lo from h)
    rw [Nat.add_mul, Nat.one_mul] at this
    omega
  · have := Nat.mul_le_mul_right B h
    rw [Nat.add_mul, Nat.mul_comm n B] at this
    omega

/-- The extent list of a stream does not change when the drive changes
outside the list blocks of an INDIRECT_2 stream. -/
theorem extentList_frame2 (v w : EsFSVolume) (data : EsFSAttributeFileData)
    (hsec : v.sectorsPerBlock * v.sectorSize = v.superblock.blockSize)
    (h1 : w.superblock.blockSize = v.superblock.blockSize)
    (h2 : w.sectorsPerBlock = v.sectorsPerBlock) (h3 : w.sectorSize = v.sectorSize)
    (hdisk : data.indirection = ESFS_DATA_INDIRECT_2 →
      ∀ s, s < ESFS_INDIRECT_2_BLOCKS → data.indirect2 s ≠ 0 →
      ∀ a, data.indirect2 s * v.superblock.blockSize ≤ a →
        a < data.indirect2 s * v.superblock.blockSize + v.superblock.blockSize →
        w.disk a = v.disk a) :
    extentList w data = extentList v data := by
  by_cases hm : data.indirection = ESFS_DATA_INDIRECT_2
  · exact extentList_frame v w data hsec h1 h2 h3 (hdisk hm)
  · unfold extentList
    rw [if_neg hm, if_neg hm]

/-- The state of the allocation loop with another volume, on which the stream
has the same extent list. -/
theorem GrowState.extent_volume (st : GrowState) (w : EsFSVolume)
    (hsb : w.superblock.blockSize = st.v.superblock.blockSize)
    (hext : extentList w st.data = extentList st.v st.data) :
    GrowState.extent { st with v := w } = GrowState.extent st := by
  funext i
  unfold GrowState.extent extentsPerBlock
  cases hl : st.newExtentList with
  | none => simp only [hext]
  | some list => simp only [hsb, hext]

theorem GrowState.listBlocks_volume (st : GrowState) (w : EsFSVolume)
    (hsb : w.superblock.blockSize = st.v.superblock.blockSize) :
    GrowState.listBlocks { st with v := w } = GrowState.listBlocks st := by
  unfold GrowState.listBlocks BlocksNeededToStore
  cases hl : st.newExtentList with
  | none => simp only [hsb]
  | some list => rfl

/-! ### The allocation loop of GrowDataStream for every stream -/

/-- One allocation of the loop of `GrowDataStream`, with the new blocks zeroed
or not: the invariant holds on the new volume, and the new extent is made of
blocks in use that belong neither to an extent recorded so far nor to the
list blocks. -/
theorem GrowInv2.allocated (v0 : EsFSVolume) (hvol : VolumeWF v0) (target inc : Nat)
    (st : GrowState) (hinv : GrowInv2 v0 target inc st)
    (lg d u : Nat) (hlg : lg < v0.superblock.groupCount)
    (E : EsFSGlobalExtent) (v1 : EsFSVolume)
    (h : AllocateExtent st.v lg d u = .ok (E, v1)) (hE : E.count ≠ 0) (clear : Bool)
    (v2 : EsFSVolume)
    (hv2 : v2 = if clear then
        AccessBlockWrite v1 E.offset (st.v.superblock.blockSize * E.count)
          (List.replicate (st.v.superblock.blockSize * E.count) 0) 0
      else v1) :
    GrowInv2 v0 target inc { st with v := v2 }
      ∧ E.count ≤ d ∧ E.offset + E.count ≤ v0.superblock.blockCount
      ∧ (∀ x, E.offset ≤ x → x < E.offset + E.count → usedBlock v2 x)
      ∧ (E.offset + E.count - 1) / v0.superblock.blocksPerGroup
          = E.offset / v0.superblock.blocksPerGroup
      ∧ (∀ i, i < st.data.extentCount →
          extentsDisjoint (GrowState.extent { st with v := v2 } i) E)
      ∧ (st.data.indirection = ESFS_DATA_INDIRECT_2 →
          ∀ s, s < ESFS_INDIRECT_2_BLOCKS → st.data.indirect2 s ≠ 0 →
            st.data.indirect2 s < E.offset ∨ E.offset + E.count ≤ st.data.indirect2 s) := by
  obtain ⟨n0, hsb0⟩ := hinv.superblock
  have hgc : st.v.superblock.groupCount = v0.superblock.groupCount := by rw [hsb0]
  have hbpg : st.v.superblock.blocksPerGroup = v0.superblock.blocksPerGroup := by rw [hsb0]
  have hbc : st.v.superblock.blockCount = v0.superblock.blockCount := by rw [hsb0]
  have hB : st.v.superblock.blockSize = v0.superblock.blockSize := by rw [hsb0]
  obtain ⟨hwf1, hdisk, hs1, hs2, hs3, hsb1, hle, hoff, hvolE, hfree, hsub⟩ :=
    AllocateExtent_step st.v hinv.wf lg d u (by rw [hgc]; exact hlg) E v1 h hE
  obtain ⟨hnew, hkeep, hone⟩ :=
    AllocateExtent_used st.v hinv.wf lg d u (by rw [hgc]; exact hlg) E v1 h hE
  have hsec : st.v.sectorsPerBlock * st.v.sectorSize = st.v.superblock.blockSize := by
    rw [hinv.drive.1, hinv.drive.2.1, hB]; exact hvol.geometry.sectors
  -- the new volume differs from `v1` on the drive only
  have hv2sb : v2.superblock = v1.superblock := by rw [hv2]; cases clear <;> rfl
  have hv2g : v2.groupDescriptorTable = v1.groupDescriptorTable := by rw [hv2]; cases clear <;> rfl
  have hv2t : v2.extentTables = v1.extentTables := by rw [hv2]; cases clear <;> rfl
  have hv2a : v2.sectorsPerBlock = v1.sectorsPerBlock := by rw [hv2]; cases clear <;> rfl
  have hv2b : v2.sectorSize = v1.sectorSize := by rw [hv2]; cases clear <;> rfl
  have hv2c : v2.maxAccessSectorCount = v1.maxAccessSectorCount := by rw [hv2]; cases clear <;> rfl
  have hv2d : ∀ a, ¬ (E.offset * st.v.superblock.blockSize ≤ a
      ∧ a < E.offset * st.v.superblock.blockSize + st.v.superblock.blockSize * E.count) →
      v2.disk a = st.v.disk a := by
    intro a ha
    rw [hv2]
    cases clear
    · exact congrFun hdisk a
    · show writeBytes v1.disk (blockAddress v1 E.offset 0) (List.take _ (List.replicate _ 0)) a = _
      rw [List.take_replicate, Nat.min_self, writeBytes_zeros]
      have hba : blockAddress v1 E.offset 0 = E.offset * st.v.superblock.blockSize := by
        unfold blockAddress
        rw [hs1, hs2, Nat.mul_assoc, hsec, Nat.add_zero]
      rw [hba, if_neg ha, hdisk]
  have hused2 : ∀ x, usedBlock v1 x → usedBlock v2 x := fun x hx =>
    (usedBlock_of_tables hv2sb hv2g hv2t x).2 hx
  have hfreshOld : ∀ x, usedBlock st.v x → x < E.offset ∨ E.offset + E.count ≤ x := by
    intro x hx
    by_contra hc
    exact hx.2.2.2.2 (hfree x (by omega) (by omega)).1
  have hext : extentList v2 st.data = extentList st.v st.data := by
    apply extentList_frame2 st.v v2 st.data hsec (by rw [hv2sb, hsb1]) (by rw [hv2a, hs1])
      (by rw [hv2b, hs2])
    intro hm s hs h0 a ha1 ha2
    apply hv2d
    exact block_bytes_disjoint _ _ _ _ a (hfreshOld _ (hinv.listUsed hm s hs h0)) ha1 ha2
  have hBv2 : v2.superblock.blockSize = st.v.superblock.blockSize := by rw [hv2sb, hsb1]
  have hextent : GrowState.extent { st with v := v2 } = GrowState.extent st :=
    GrowState.extent_volume st v2 hBv2 hext
  have hlb : GrowState.listBlocks { st with v := v2 } = GrowState.listBlocks st :=
    GrowState.listBlocks_volume st v2 hBv2
  have hwf2 : AllocatorWF v2 := hwf1.of_tables hv2sb hv2g hv2t
  refine ⟨⟨hwf2, ⟨(n0 + E.count) % 18446744073709551616,
        by show v2.superblock = _; rw [hv2sb, hsb1, hsb0]⟩,
      ⟨by show v2.sectorsPerBlock = _; rw [hv2a, hs1]; exact hinv.drive.1,
       by show v2.sectorSize = _; rw [hv2b, hs2]; exact hinv.drive.2.1,
       by show v2.maxAccessSectorCount = _; rw [hv2c, hs3]; exact hinv.drive.2.2⟩,
      hinv.mode, hinv.small, hinv.big, ?_, ?_, ?_, ?_, ?_, ?_, hinv.listDistinct, ?_, ?_,
      hinv.first⟩,
    hle, by rw [← hbc]; exact hvolE, fun x a b => hused2 x (hnew x a b), by rw [← hbpg]; exact hone,
    ?_, ?_⟩
  · rw [hextent]; exact hinv.total
  · rw [hextent]; exact fun i hi x a b => hused2 x (hkeep x (hinv.used i hi x a b))
  · rw [hextent]; exact hinv.positive
  · rw [hextent]; exact hinv.oneGroup
  · rw [hextent]; exact hinv.disjoint
  · exact fun hm s hs h0 => hused2 _ (hkeep _ (hinv.listUsed hm s hs h0))
  · rw [hextent]; exact hinv.listOutside
  · rw [hlb]; exact hinv.present
  · intro i hi
    rw [hextent]
    apply extentsDisjoint_of_no_common
    intro x a b c e
    have := hfreshOld x (hinv.used i hi x a b)
    omega
  · intro hm s hs h0
    exact hfreshOld _ (hinv.listUsed hm s hs h0)

/-- The invariant of the allocation loop after one more extent has been
recorded, whatever the way it was recorded. -/
theorem GrowInv2.extend (v0 : EsFSVolume) (target inc : Nat)
    (st : GrowState) (hinv : GrowInv2 v0 target inc st) (E : EsFSGlobalExtent)
    (hEc : 1 ≤ E.count) (hEinc : E.count ≤ inc)
    (hEused : ∀ x, E.offset ≤ x → x < E.offset + E.count → usedBlock st.v x)
    (hEone : (E.offset + E.count - 1) / v0.superblock.blocksPerGroup
      = E.offset / v0.superblock.blocksPerGroup)
    (hEdis : ∀ i, i < st.data.extentCount → extentsDisjoint (st.extent i) E)
    (hElist : st.data.indirection = ESFS_DATA_INDIRECT_2 →
      ∀ s, s < ESFS_INDIRECT_2_BLOCKS → st.data.indirect2 s ≠ 0 →
        st.data.indirect2 s < E.offset ∨ E.offset + E.count ≤ st.data.indirect2 s)
    (st' : GrowState) (hv : st'.v = st.v)
    (hec : st'.data.extentCount = st.data.extentCount + 1)
    (hold : ∀ i, i < st.data.extentCount → st'.extent i = st.extent i)
    (hnew : st'.extent st.data.extentCount = E)
    (hmode : st'.data.indirection = ESFS_DATA_INDIRECT
      ∨ st'.data.indirection = ESFS_DATA_INDIRECT_2)
    (hsmall : st'.data.indirection = ESFS_DATA_INDIRECT →
      st.data.extentCount + 1 ≤ ESFS_INDIRECT_EXTENTS ∧ st'.newExtentList = none
        ∧ st'.firstModifiedExtentListBlock = 0)
    (hbig : st'.data.indirection = ESFS_DATA_INDIRECT_2 →
      ESFS_INDIRECT_EXTENTS < st.data.extentCount + 1
        ∧ st.data.extentCount + 1 < ESFS_INDIRECT_2_BLOCKS * extentsPerBlock v0.superblock)
    (hlist : st'.data.indirection = ESFS_DATA_INDIRECT_2 →
      (∀ s, s < ESFS_INDIRECT_2_BLOCKS → st'.data.indirect2 s = 0)
        ∨ (st.data.indirection = ESFS_DATA_INDIRECT_2
          ∧ ∀ s, s < ESFS_INDIRECT_2_BLOCKS → st'.data.indirect2 s = st.data.indirect2 s))
    (hpresent : st'.data.indirection = ESFS_DATA_INDIRECT_2 →
      ∀ s, s < st'.listBlocks → st'.data.indirect2 s ≠ 0)
    (hfirst : ∀ list, st'.newExtentList = some list →
      st'.data.indirection = ESFS_DATA_INDIRECT_2
        ∧ st'.firstModifiedExtentListBlock * extentsPerBlock v0.superblock
            < st.data.extentCount + 1) :
    GrowInv2 v0 target (inc - E.count) st' := by
  have hall : ∀ i, i < st.data.extentCount + 1 →
      st'.extent i = if i = st.data.extentCount then E else st.extent i := by
    intro i hi
    split
    · rename_i h; rw [h]; exact hnew
    · exact hold i (by omega)
  refine ⟨by rw [hv]; exact hinv.wf, by rw [hv]; exact hinv.superblock,
    by rw [hv]; exact hinv.drive, hmode, ?_, ?_, ?_, ?_, ?_, ?_, ?_, ?_, ?_, ?_, hpresent, ?_⟩
  · intro hm; rw [hec]; exact hsmall hm
  · intro hm; rw [hec]; exact hbig hm
  · rw [hec, countSum_succ_right, hnew,
      countSum_congr st.extent st'.extent _ 0 (fun j _ hj => hold j (by omega))]
    have := hinv.total
    omega
  · intro i hi x hx1 hx2
    rw [hec] at hi
    rw [hall i hi] at hx1 hx2
    rw [hv]
    by_cases hie : i = st.data.extentCount
    · rw [if_pos hie] at hx1 hx2
      exact hEused x hx1 hx2
    · rw [if_neg hie] at hx1 hx2
      exact hinv.used i (by omega) x hx1 hx2
  · intro i hi
    rw [hec] at hi
    rw [hall i hi]
    split
    · exact hEc
    · exact hinv.positive i (by omega)
  · intro i hi
    rw [hec] at hi
    rw [hall i hi]
    split
    · exact hEone
    · exact hinv.oneGroup i (by omega)
  · intro i j hij hj
    rw [hec] at hj
    rw [hall i (by omega), hall j hj, if_neg (by omega)]
    split
    · exact hEdis i (by omega)
    · exact hinv.disjoint i j hij (by omega)
  · intro hm s hs h0
    rw [hv]
    rcases hlist hm with hz | ⟨hm0, hsame⟩
    · exact absurd (hz s hs) h0
    · rw [hsame s hs] at h0 ⊢
      exact hinv.listUsed hm0 s hs h0
  · intro hm s t hs ht hst h0
    rcases hlist hm with hz | ⟨hm0, hsame⟩
    · exact absurd (hz s hs) h0
    · rw [hsame s hs] at h0 ⊢
      rw [hsame t ht]
      exact hinv.listDistinct hm0 s t hs ht hst h0
  · intro hm s hs h0 i hi
    rw [hec] at hi
    rcases hlist hm with hz | ⟨hm0, hsame⟩
    · exact absurd (hz s hs) h0
    · rw [hsame s hs] at h0 ⊢
      rw [hall i hi]
      by_cases hie : i = st.data.extentCount
      · rw [if_pos hie]
        exact hElist hm0 s hs h0
      · rw [if_neg hie]
        exact hinv.listOutside hm0 s hs h0 i (by omega)
  · intro list hl
    rw [hec]
    exact hfirst list hl

theorem readExtent_setExtent_same (list : Memory) (i : Nat) (e : EsFSGlobalExtent)
    (h1 : e.offset < 18446744073709551616) (h2 : e.count < 18446744073709551616) :
    readExtent (setExtent list i e) (i * sizeofGlobalExtent) = e :=
  readExtent_writeBytes_encode _ _ e h1 h2

theorem readExtent_setExtent_other (list : Memory) (i j : Nat) (e : EsFSGlobalExtent)
    (h : j ≠ i) :
    readExtent (setExtent list i e) (j * sizeofGlobalExtent)
      = readExtent list (j * sizeofGlobalExtent) := by
  unfold setExtent sizeofGlobalExtent
  apply readExtent_writeBytes_other
  rw [encodeExtent_length]
  omega

/-- The list blocks that `n` extents need: the last one is not empty and all
of them together hold the `n` extents. -/
theorem listBlocks_bounds (sb : EsFSSuperblock)
    (hepb : extentsPerBlock sb * sizeofGlobalExtent = sb.blockSize) (hB : 0 < sb.blockSize)
    (n : Nat) :
    n ≤ BlocksNeededToStore sb (n * sizeofGlobalExtent) * extentsPerBlock sb
      ∧ BlocksNeededToStore sb (n * sizeofGlobalExtent) * extentsPerBlock sb
          < n + extentsPerBlock sb := by
  obtain ⟨h1, h2⟩ := BlocksNeededToStore_bounds sb hB (n * sizeofGlobalExtent)
  rw [← hepb, ← Nat.mul_assoc] at h1 h2
  unfold sizeofGlobalExtent at *
  omega

theorem readU64_zero (m : Memory) (a : Nat) (h : ∀ i, i < 8 → m (a + i) = 0) :
    readU64 m a = 0 := by
  unfold readU64
  have : (List.range 8).map (fun i => (m (a + i) % 256) * 256 ^ i)
      = (List.range 8).map (fun _ => 0) := by
    apply List.map_congr_left
    intro i hi
    rw [List.mem_range] at hi
    rw [h i hi]
    simp
  rw [this]
  rfl

theorem extentList_of_indirect (v : EsFSVolume) (data : EsFSAttributeFileData)
    (h : data.indirection = ESFS_DATA_INDIRECT) : extentList v data = data.indirect := by
  unfold extentList
  rw [if_neg (by rw [h]; decide)]

theorem GrowState.extent_none (st : GrowState) (h : st.newExtentList = none) :
    st.extent = extentList st.v st.data := by
  funext i
  unfold GrowState.extent
  rw [h]

theorem GrowState.extent_some (st : GrowState) (list : Memory) (h : st.newExtentList = some list)
    (i : Nat) :
    st.extent i
      = if st.firstModifiedExtentListBlock * extentsPerBlock st.v.superblock ≤ i then
          readExtent list (i * sizeofGlobalExtent)
        else extentList st.v st.data i := by
  unfold GrowState.extent
  rw [h]

/-- Recording a new extent in an INDIRECT attribute with room for it keeps the
invariant of the allocation loop. -/
theorem GrowInv2.append_indirect (v0 : EsFSVolume) (target inc : Nat)
    (st : GrowState) (hinv : GrowInv2 v0 target inc st) (E : EsFSGlobalExtent)
    (hEc : 1 ≤ E.count) (hEinc : E.count ≤ inc)
    (hEvol : E.offset + E.count ≤ v0.superblock.blockCount)
    (hEused : ∀ x, E.offset ≤ x → x < E.offset + E.count → usedBlock st.v x)
    (hEone : (E.offset + E.count - 1) / v0.superblock.blocksPerGroup
      = E.offset / v0.superblock.blocksPerGroup)
    (hEdis : ∀ i, i < st.data.extentCount → extentsDisjoint (st.extent i) E)
    (hm : st.data.indirection = ESFS_DATA_INDIRECT)
    (hec : st.data.extentCount ≠ ESFS_INDIRECT_EXTENTS) :
    GrowInv2 v0 target (inc - E.count)
      { st with
        data := { (st.data.setIndirect st.data.extentCount E) with
          extentCount := u16 (st.data.extentCount + 1) } } := by
  obtain ⟨n0, hsb0⟩ := hinv.superblock
  have hbc := hinv.wf.blockCount
  rw [hsb0] at hbc
  replace hbc : v0.superblock.blockCount < 18446744073709551616 := hbc
  obtain ⟨hs1, hs2, hs3⟩ := hinv.small hm
  unfold ESFS_INDIRECT_EXTENTS at hs1 hec
  have hu : u16 (st.data.extentCount + 1) = st.data.extentCount + 1 := u16_of_lt (by omega)
  generalize hst' : ({ st with
        data := { (st.data.setIndirect st.data.extentCount E) with
          extentCount := u16 (st.data.extentCount + 1) } } : GrowState) = st'
  have hv' : st'.v = st.v := by rw [← hst']
  have hd' : st'.data = { (st.data.setIndirect st.data.extentCount E) with
      extentCount := u16 (st.data.extentCount + 1) } := by rw [← hst']
  have hn' : st'.newExtentList = none := by rw [← hst']; exact hs2
  have hf' : st'.firstModifiedExtentListBlock = 0 := by rw [← hst']; exact hs3
  have hm' : st'.data.indirection = ESFS_DATA_INDIRECT := by rw [hd']; exact hm
  have hext : ∀ i, st'.extent i = (st.data.setIndirect st.data.extentCount E).indirect i := by
    intro i
    rw [GrowState.extent_none _ hn', extentList_of_indirect _ _ hm', hd']
    rfl
  have hext0 : st.extent = st.data.indirect := by
    rw [GrowState.extent_none _ hs2, extentList_of_indirect _ _ hm]
  apply GrowInv2.extend v0 target inc st hinv E hEc hEinc hEused hEone hEdis
    (fun h => absurd h (by rw [hm]; decide)) st' hv' (by rw [hd']; exact hu)
  · intro i hi
    rw [hext, hext0]
    exact indirect_setIndirect_other _ _ _ _ (by omega)
  · rw [hext]
    exact indirect_setIndirect_same _ _ _ (by omega) (by omega)
  · exact Or.inl hm'
  · intro _
    exact ⟨by unfold ESFS_INDIRECT_EXTENTS; omega, hn', hf'⟩
  · intro h
    exact absurd (hm'.symm.trans h) (by decide)
  · intro h
    exact absurd (hm'.symm.trans h) (by decide)
  · intro h
    exact absurd (hm'.symm.trans h) (by decide)
  · intro list hl
    rw [hn'] at hl
    cases hl

/-- Recording the fifth extent, which turns an INDIRECT attribute into an
INDIRECT_2 one with an empty table of list blocks, keeps the invariant of the
allocation loop. -/
theorem GrowInv2.append_promote (v0 : EsFSVolume) (hvol : VolumeWF v0) (target inc : Nat)
    (st : GrowState) (hinv : GrowInv2 v0 target inc st) (E : EsFSGlobalExtent)
    (hEc : 1 ≤ E.count) (hEinc : E.count ≤ inc)
    (hEvol : E.offset + E.count ≤ v0.superblock.blockCount)
    (hEused : ∀ x, E.offset ≤ x → x < E.offset + E.count → usedBlock st.v x)
    (hEone : (E.offset + E.count - 1) / v0.superblock.blocksPerGroup
      = E.offset / v0.superblock.blocksPerGroup)
    (hEdis : ∀ i, i < st.data.extentCount → extentsDisjoint (st.extent i) E)
    (hm : st.data.indirection = ESFS_DATA_INDIRECT)
    (hec : st.data.extentCount = ESFS_INDIRECT_EXTENTS)
    (st' : GrowState) (hv' : st'.v = st.v)
    (hd' : st'.data = { st.data with
      indirection := ESFS_DATA_INDIRECT_2
      extentCount := u16 (st.data.extentCount + 1)
      unionBytes := writeBytes st.data.unionBytes 0
        (List.replicate (ESFS_INDIRECT_EXTENTS * sizeofGlobalExtent) 0) })
    (hn' : st'.newExtentList = some (setExtent
      (writeBytes (fun _ => 0) 0
        (readBytes st.data.unionBytes 0 (ESFS_INDIRECT_EXTENTS * sizeofGlobalExtent)))
      st.data.extentCount E))
    (hf' : st'.firstModifiedExtentListBlock = st.firstModifiedExtentListBlock) :
    GrowInv2 v0 target (inc - E.count) st' := by
  obtain ⟨n0, hsb0⟩ := hinv.superblock
  have hbc := hinv.wf.blockCount
  rw [hsb0] at hbc
  replace hbc : v0.superblock.blockCount < 18446744073709551616 := hbc
  obtain ⟨k, hk, hBk⟩ := hvol.geometry.blockSizePow
  have hB : 0 < v0.superblock.blockSize := by rw [hBk]; exact Nat.two_pow_pos k
  have hepb := extentsPerBlock_mul v0.superblock k hBk hvol.extentSize
  have hepb1 : 1 ≤ extentsPerBlock v0.superblock := by
    unfold sizeofGlobalExtent at hepb; omega
  obtain ⟨hs1, hs2, hs3⟩ := hinv.small hm
  have hm' : st'.data.indirection = ESFS_DATA_INDIRECT_2 := by rw [hd']
  have hec' : st'.data.extentCount = st.data.extentCount + 1 := by
    rw [hd', hec]; rfl
  have hext : ∀ i, st'.extent i
      = readExtent (setExtent
          (writeBytes (fun _ => 0) 0
            (readBytes st.data.unionBytes 0 (ESFS_INDIRECT_EXTENTS * sizeofGlobalExtent)))
          st.data.extentCount E) (i * sizeofGlobalExtent) := by
    intro i
    rw [GrowState.extent_some _ _ hn', hf', hs3, Nat.zero_mul, if_pos (Nat.zero_le _)]
  have hext0 : st.extent = st.data.indirect := by
    rw [GrowState.extent_none _ hs2, extentList_of_indirect _ _ hm]
  apply GrowInv2.extend v0 target inc st hinv E hEc hEinc hEused hEone hEdis
    (fun h => absurd h (by rw [hm]; decide)) st' hv' hec'
  · intro i hi
    rw [hext, hext0, readExtent_setExtent_other _ _ _ _ (by omega)]
    unfold EsFSAttributeFileData.indirect
    apply readExtent_congr
    intro j hj
    rw [hec] at hi
    unfold ESFS_INDIRECT_EXTENTS sizeofGlobalExtent at *
    unfold writeBytes
    rw [readBytes_length, if_pos (by omega), getD_readBytes _ _ _ _ (by omega)]
    congr 1
    omega
  · rw [hext]
    exact readExtent_setExtent_same _ _ _ (by omega) (by omega)
  · exact Or.inr hm'
  · intro h
    exact absurd (hm'.symm.trans h) (by decide)
  · intro _
    rw [hec]
    unfold ESFS_INDIRECT_EXTENTS ESFS_INDIRECT_2_BLOCKS
    omega
  · intro _
    left
    intro s hs
    rw [hd']
    unfold EsFSAttributeFileData.indirect2
    apply readU64_zero
    intro i hi
    show writeBytes st.data.unionBytes 0 (List.replicate _ 0) (s * 8 + i) = 0
    rw [writeBytes_zeros]
    unfold ESFS_INDIRECT_EXTENTS sizeofGlobalExtent ESFS_INDIRECT_2_BLOCKS at *
    rw [if_pos (by omega)]
  · intro _ s hs
    unfold GrowState.listBlocks at hs
    rw [hn'] at hs
    replace hs : s < st'.firstModifiedExtentListBlock := hs
    rw [hf', hs3] at hs
    omega
  · intro list _
    refine ⟨hm', ?_⟩
    rw [hf', hs3]
    omega

/-- Recording a new extent in the in-memory list of an INDIRECT_2 stream keeps
the invariant of the allocation loop; `list` and `first` are the list and the
first modified list block that the extent is recorded with. -/
theorem GrowInv2.append_list (v0 : EsFSVolume) (hvol : VolumeWF v0) (target inc : Nat)
    (st : GrowState) (hinv : GrowInv2 v0 target inc st) (E : EsFSGlobalExtent)
    (hEc : 1 ≤ E.count) (hEinc : E.count ≤ inc)
    (hEvol : E.offset + E.count ≤ v0.superblock.blockCount)
    (hEused : ∀ x, E.offset ≤ x → x < E.offset + E.count → usedBlock st.v x)
    (hEone : (E.offset + E.count - 1) / v0.superblock.blocksPerGroup
      = E.offset / v0.superblock.blocksPerGroup)
    (hEdis : ∀ i, i < st.data.extentCount → extentsDisjoint (st.extent i) E)
    (hElist : st.data.indirection = ESFS_DATA_INDIRECT_2 →
      ∀ s, s < ESFS_INDIRECT_2_BLOCKS → st.data.indirect2 s ≠ 0 →
        st.data.indirect2 s < E.offset ∨ E.offset + E.count ≤ st.data.indirect2 s)
    (hm : st.data.indirection = ESFS_DATA_INDIRECT_2)
    (list : Memory) (first : Nat)
    (hA : first * extentsPerBlock v0.superblock < st.data.extentCount)
    (hB : ∀ i, first * extentsPerBlock v0.superblock ≤ i → i < st.data.extentCount →
      readExtent list (i * sizeofGlobalExtent) = st.extent i)
    (hC : ∀ i, i < first * extentsPerBlock v0.superblock →
      extentList st.v st.data i = st.extent i)
    (hD : ∀ s, s < first → st.data.indirect2 s ≠ 0)
    (hflag : ¬ ESFS_INDIRECT_2_BLOCKS * extentsPerBlock v0.superblock
      ≤ u16 (st.data.extentCount + 1))
    (st' : GrowState) (hv' : st'.v = st.v)
    (hd' : st'.data = { st.data with extentCount := u16 (st.data.extentCount + 1) })
    (hn' : st'.newExtentList = some (setExtent list st.data.extentCount E))
    (hf' : st'.firstModifiedExtentListBlock = first) :
    GrowInv2 v0 target (inc - E.count) st' := by
  obtain ⟨n0, hsb0⟩ := hinv.superblock
  have hbc := hinv.wf.blockCount
  rw [hsb0] at hbc
  replace hbc : v0.superblock.blockCount < 18446744073709551616 := hbc
  have hBs : st.v.superblock.blockSize = v0.superblock.blockSize := by rw [hsb0]
  have hepbs : extentsPerBlock st'.v.superblock = extentsPerBlock v0.superblock := by
    unfold extentsPerBlock; rw [hv', hBs]
  obtain ⟨hb1, hb2⟩ := hinv.big hm
  have hfit := hvol.listFits
  have hu : u16 (st.data.extentCount + 1) = st.data.extentCount + 1 := u16_of_lt (by omega)
  rw [hu] at hflag
  have hm' : st'.data.indirection = ESFS_DATA_INDIRECT_2 := by rw [hd']; exact hm
  have hec' : st'.data.extentCount = st.data.extentCount + 1 := by rw [hd']; exact hu
  have hel : extentList st'.v st'.data = extentList st.v st.data := by rw [hv', hd']; rfl
  have hi2 : ∀ s, st'.data.indirect2 s = st.data.indirect2 s := by intro s; rw [hd']; rfl
  have hext : ∀ i, st'.extent i
      = if first * extentsPerBlock v0.superblock ≤ i then
          readExtent (setExtent list st.data.extentCount E) (i * sizeofGlobalExtent)
        else extentList st.v st.data i := by
    intro i
    rw [GrowState.extent_some _ _ hn', hf', hepbs, hel]
  apply GrowInv2.extend v0 target inc st hinv E hEc hEinc hEused hEone hEdis hElist st' hv' hec'
  · intro i hi
    rw [hext]
    split
    · rename_i h
      rw [readExtent_setExtent_other _ _ _ _ (by omega)]
      exact hB i h hi
    · rename_i h
      exact hC i (by omega)
  · rw [hext, if_pos (by omega)]
    exact readExtent_setExtent_same _ _ _ (by omega) (by omega)
  · exact Or.inr hm'
  · intro h
    exact absurd (hm'.symm.trans h) (by decide)
  · intro _
    exact ⟨by omega, by omega⟩
  · intro _
    exact Or.inr ⟨hm, fun s _ => hi2 s⟩
  · intro _ s hs
    unfold GrowState.listBlocks at hs
    rw [hn'] at hs
    replace hs : s < st'.firstModifiedExtentListBlock := hs
    rw [hf'] at hs
    rw [hi2]
    exact hD s hs
  · intro _ _
    refine ⟨hm', ?_⟩
    rw [hf']
    omega

/-- The extents of list block `fm`, once the block has been read into the
in-memory list, are those the stream is read through. -/
theorem readExtent_loadedBlock (v : EsFSVolume) (data : EsFSAttributeFileData)
    (hmode : data.indirection = ESFS_DATA_INDIRECT_2)
    (hsec : v.sectorsPerBlock * v.sectorSize = v.superblock.blockSize)
    (hepb : extentsPerBlock v.superblock * sizeofGlobalExtent = v.superblock.blockSize)
    (hB : 0 < v.superblock.blockSize) (fm : Nat) (hfm : fm < ESFS_INDIRECT_2_BLOCKS)
    (hne : data.indirect2 fm ≠ 0) (i : Nat)
    (h1 : fm * extentsPerBlock v.superblock ≤ i)
    (h2 : i < fm * extentsPerBlock v.superblock + extentsPerBlock v.superblock) :
    readExtent
        (writeBytes (fun _ => 0) (fm * extentsPerBlock v.superblock * sizeofGlobalExtent)
          (AccessBlockRead v (data.indirect2 fm) v.superblock.blockSize 0))
        (i * sizeofGlobalExtent)
      = extentList v data i := by
  have hdiv : i / extentsPerBlock v.superblock = fm := div_eq_of_group _ _ _ h1 h2
  have hmod := Nat.div_add_mod i (extentsPerBlock v.superblock)
  rw [hdiv] at hmod
  rw [extentList_indirect2 v data hmode hsec hepb hB i (by rw [hdiv]; exact hfm)
    (by rw [hdiv]; exact hne), hdiv]
  apply readExtent_eq_of_bytes
  intro j hj
  rw [writeBytes_blockRead v hsec, Nat.mul_assoc, hepb]
  unfold sizeofGlobalExtent at *
  have e1 : fm * v.superblock.blockSize = fm * extentsPerBlock v.superblock * 16 := by
    rw [Nat.mul_assoc, hepb]
  rw [if_pos (by rw [e1]; omega), e1]
  congr 1
  have : extentsPerBlock v.superblock * fm = fm * extentsPerBlock v.superblock := Nat.mul_comm _ _
  omega

/-- The `switch` of the allocation loop keeps the invariant when it records an
extent of blocks in use that share no block with the stream or its list
blocks. -/
theorem GrowInv2.appended (v0 : EsFSVolume) (hvol : VolumeWF v0) (target inc : Nat)
    (st : GrowState) (hinv : GrowInv2 v0 target inc st) (E : EsFSGlobalExtent)
    (hEc : 1 ≤ E.count) (hEinc : E.count ≤ inc)
    (hEvol : E.offset + E.count ≤ v0.superblock.blockCount)
    (hEused : ∀ x, E.offset ≤ x → x < E.offset + E.count → usedBlock st.v x)
    (hEone : (E.offset + E.count - 1) / v0.superblock.blocksPerGroup
      = E.offset / v0.superblock.blocksPerGroup)
    (hEdis : ∀ i, i < st.data.extentCount → extentsDisjoint (st.extent i) E)
    (hElist : st.data.indirection = ESFS_DATA_INDIRECT_2 →
      ∀ s, s < ESFS_INDIRECT_2_BLOCKS → st.data.indirect2 s ≠ 0 →
        st.data.indirect2 s < E.offset ∨ E.offset + E.count ≤ st.data.indirect2 s)
    (st' : GrowState) (h : GrowDataStream.append st E = (true, st')) :
    GrowInv2 v0 target (inc - E.count) st' := by
  obtain ⟨n0, hsb0⟩ := hinv.superblock
  have hBs : st.v.superblock.blockSize = v0.superblock.blockSize := by rw [hsb0]
  have hepbs : extentsPerBlock st.v.superblock = extentsPerBlock v0.superblock := by
    unfold extentsPerBlock; rw [hBs]
  obtain ⟨k, hk, hBk⟩ := hvol.geometry.blockSizePow
  have hB : 0 < v0.superblock.blockSize := by rw [hBk]; exact Nat.two_pow_pos k
  have hepb := extentsPerBlock_mul v0.superblock k hBk hvol.extentSize
  have hsec : st.v.sectorsPerBlock * st.v.sectorSize = st.v.superblock.blockSize := by
    rw [hinv.drive.1, hinv.drive.2.1, hBs]; exact hvol.geometry.sectors
  unfold GrowDataStream.append at h
  dsimp only at h
  by_cases hm : st.data.indirection = ESFS_DATA_INDIRECT
  · rw [if_pos hm] at h
    by_cases hec : st.data.extentCount ≠ ESFS_INDIRECT_EXTENTS
    · rw [if_pos hec] at h
      simp only [Prod.mk.injEq, true_and] at h
      rw [← h]
      exact GrowInv2.append_indirect v0 target inc st hinv E hEc hEinc hEvol hEused hEone hEdis
        hm hec
    · rw [if_neg hec] at h
      simp only [Prod.mk.injEq, true_and] at h
      rw [← h]
      exact GrowInv2.append_promote v0 hvol target inc st hinv E hEc hEinc hEvol hEused hEone
        hEdis hm (by_contra hec) _ rfl rfl rfl rfl
  · have hm2 : st.data.indirection = ESFS_DATA_INDIRECT_2 := by
      rcases hinv.mode with h1 | h1
      · exact absurd h1 hm
      · exact h1
    rw [if_neg hm, if_pos hm2] at h
    obtain ⟨hb1, hb2⟩ := hinv.big hm2
    cases hl : st.newExtentList with
    | some list =>
      rw [hl] at h
      simp only [Prod.mk.injEq, decide_eq_true_eq] at h
      obtain ⟨hflag, hst⟩ := h
      rw [← hst]
      rw [hepbs] at hflag
      obtain ⟨_, hfirst⟩ := hinv.first list hl
      refine GrowInv2.append_list v0 hvol target inc st hinv E hEc hEinc hEvol hEused hEone
        hEdis hElist hm2 list st.firstModifiedExtentListBlock hfirst ?_ ?_ ?_ hflag _ rfl rfl rfl
        rfl
      · intro i hi1 _
        rw [GrowState.extent_some _ _ hl, hepbs, if_pos hi1]
      · intro i hi
        rw [GrowState.extent_some _ _ hl, hepbs, if_neg (by omega)]
      · intro s hs
        apply hinv.present hm2
        unfold GrowState.listBlocks
        rw [hl]
        exact hs
    | none =>
      rw [hl] at h
      obtain ⟨hn1, hn2⟩ := listBlocks_bounds st.v.superblock (by rw [hepbs, hBs]; exact hepb)
        (by rw [hBs]; exact hB) st.data.extentCount
      rw [hepbs] at hn1 hn2
      have hpres : ∀ s, s < BlocksNeededToStore st.v.superblock
          (st.data.extentCount * sizeofGlobalExtent) → st.data.indirect2 s ≠ 0 := by
        intro s hs
        apply hinv.present hm2
        unfold GrowState.listBlocks
        rw [hl]
        exact hs
      generalize BlocksNeededToStore st.v.superblock
        (st.data.extentCount * sizeofGlobalExtent) = nd at h hn1 hn2 hpres
      unfold ESFS_INDIRECT_EXTENTS at hb1
      have hneed : 1 ≤ nd := by
        by_contra hc
        have : nd = 0 := by omega
        rw [this] at hn1
        omega
      have hneed8 : nd ≤ ESFS_INDIRECT_2_BLOCKS := by
        by_contra hc
        have := Nat.mul_le_mul_right (extentsPerBlock v0.superblock)
          (show ESFS_INDIRECT_2_BLOCKS + 1 ≤ nd by omega)
        rw [Nat.add_mul, Nat.one_mul] at this
        omega
      have hfm : sub64 nd 1 = nd - 1 :=
        sub64_eq_sub hneed (by unfold ESFS_INDIRECT_2_BLOCKS at hneed8; omega)
      rw [hfm] at h
      simp only [Prod.mk.injEq, decide_eq_true_eq] at h
      obtain ⟨hflag, hst⟩ := h
      rw [← hst]
      rw [hepbs] at hflag
      have hmul : (nd - 1) * extentsPerBlock v0.superblock + extentsPerBlock v0.superblock
          = nd * extentsPerBlock v0.superblock := by
        have := Nat.sub_add_cancel hneed
        rw [← Nat.succ_mul, Nat.succ_eq_add_one, this]
      have hA : (nd - 1) * extentsPerBlock v0.superblock < st.data.extentCount := by omega
      refine GrowInv2.append_list v0 hvol target inc st hinv E hEc hEinc hEvol hEused hEone
        hEdis hElist hm2 _ (nd - 1) hA ?_ ?_ ?_ hflag _ rfl rfl rfl rfl
      · intro i hi1 hi2
        rw [GrowState.extent_none _ hl]
        rw [← hepbs] at hi1 hmul
        exact readExtent_loadedBlock st.v st.data hm2 hsec (by rw [hepbs, hBs]; exact hepb)
          (by rw [hBs]; exact hB) _ (by omega) (hpres _ (by omega)) i hi1
          (by rw [hmul, hepbs]; omega)
      · intro i _
        rw [GrowState.extent_none _ hl]
      · intro s hs
        exact hpres s (by omega)

theorem GrowDataStream.append_size (st : GrowState) (E : EsFSGlobalExtent) :
    (GrowDataStream.append st E).2.data.size = st.data.size := by
  unfold GrowDataStream.append
  dsimp only
  split
  · split <;> rfl
  · split
    · split <;> rfl
    · rfl

/-- The allocation loop of `GrowDataStream` keeps its invariant, and when it
ends with success every requested block has been allocated. -/
theorem GrowInv2.loop (v0 : EsFSVolume) (hvol : VolumeWF v0) (target cb : Nat)
    (hlg : cb / v0.superblock.blocksPerGroup < v0.superblock.groupCount) (clear : Bool) :
    ∀ (fuel : Nat) (uninit : Nat → Nat) (inc : Nat) (st : GrowState),
      GrowInv2 v0 target inc st → inc < 18446744073709551616 →
      ∀ st' u', GrowDataStream.allocate clear cb fuel uninit inc st = .ok (true, st', u') →
        GrowInv2 v0 target 0 st' ∧ st'.data.size = st.data.size := by
  intro fuel
  induction fuel with
  | zero =>
    intro uninit inc st hinv _ st' u' h
    cases inc with
    | zero =>
      simp only [GrowDataStream.allocate, Except.ok.injEq, Prod.mk.injEq, true_and] at h
      rw [← h.1]
      exact ⟨hinv, rfl⟩
    | succ inc => simp [GrowDataStream.allocate] at h
  | succ fuel ih =>
    intro uninit inc st hinv hinc st' u' h
    cases inc with
    | zero =>
      simp only [GrowDataStream.allocate, Except.ok.injEq, Prod.mk.injEq, true_and] at h
      rw [← h.1]
      exact ⟨hinv, rfl⟩
    | succ inc =>
      obtain ⟨n0, hsb0⟩ := hinv.superblock
      have hbpg : st.v.superblock.blocksPerGroup = v0.superblock.blocksPerGroup := by rw [hsb0]
      simp only [GrowDataStream.allocate] at h
      cases hA : AllocateExtent st.v (cb / st.v.superblock.blocksPerGroup) (inc + 1) (uninit 0) with
      | error f => rw [hA] at h; simp at h
      | ok r =>
        obtain ⟨E, v1⟩ := r
        rw [hA] at h
        dsimp only at h
        by_cases hE : E.count = 0
        · rw [if_pos hE] at h; simp at h
        · rw [if_neg hE] at h
          rw [hbpg] at hA
          obtain ⟨W, hW⟩ : ∃ W, W = if clear = true then
              AccessBlockWrite v1 E.offset (st.v.superblock.blockSize * E.count)
                (List.replicate (st.v.superblock.blockSize * E.count) 0) 0
            else v1 := ⟨_, rfl⟩
          rw [← hW] at h
          obtain ⟨hinvW, hle, hEvol, hEused, hEone, hEdis, hElist⟩ :=
            GrowInv2.allocated v0 hvol target (inc + 1) st hinv _ _ _ hlg E v1 hA hE clear W hW
          cases happ : GrowDataStream.append
              ⟨W, st.data, st.newExtentList, st.firstModifiedExtentListBlock⟩ E with
          | mk b st2 =>
            rw [happ] at h
            cases b with
            | false => simp at h
            | true =>
              dsimp only at h
              have hinv2 := GrowInv2.appended v0 hvol target (inc + 1) _ hinvW E (by omega) hle
                hEvol hEused hEone hEdis hElist st2 happ
              rw [sub64_eq_sub hle hinc] at h
              obtain ⟨r1, r2⟩ := ih _ _ _ hinv2 (by omega) st' u' h
              refine ⟨r1, ?_⟩
              rw [r2]
              have := GrowDataStream.append_size
                ⟨W, st.data, st.newExtentList, st.firstModifiedExtentListBlock⟩ E
              rw [happ] at this
              exact this

/-! ### The loop of GrowDataStream that stores the extent list -/

theorem indirect2_setIndirect2_same (data : EsFSAttributeFileData) (i b : Nat)
    (hb : b < 18446744073709551616) : (data.setIndirect2 i b).indirect2 i = b := by
  unfold EsFSAttributeFileData.setIndirect2 EsFSAttributeFileData.indirect2
  exact readU64_writeBytes_encode _ _ b hb

theorem indirect2_setIndirect2_other (data : EsFSAttributeFileData) (i s b : Nat) (h : s ≠ i) :
    (data.setIndirect2 i b).indirect2 s = data.indirect2 s := by
  unfold EsFSAttributeFileData.setIndirect2 EsFSAttributeFileData.indirect2
  apply readU64_congr
  intro j hj
  apply writeBytes_outside
  rw [encodeU64_length]
  omega

/-- The drive after one block has been written from a buffer of one block. -/
theorem AccessBlockWrite_disk (v : EsFSVolume)
    (hsec : v.sectorsPerBlock * v.sectorSize = v.superblock.blockSize)
    (block : Nat) (m : Memory) (addr : Nat) (a : Nat) :
    (AccessBlockWrite v block v.superblock.blockSize
        (readBytes m addr v.superblock.blockSize) 0).disk a
      = if block * v.superblock.blockSize ≤ a
            ∧ a < block * v.superblock.blockSize + v.superblock.blockSize then
          m (addr + (a - block * v.superblock.blockSize))
        else v.disk a := by
  show writeBytes v.disk (blockAddress v block 0) (List.take _ (readBytes m addr _)) a = _
  rw [List.take_of_length_le (by rw [readBytes_length]), blockAddress_eq v hsec, Nat.add_zero]
  unfold writeBytes
  rw [readBytes_length]
  split
  · rw [getD_readBytes _ _ _ _ (by omega)]
  · rfl

/-- Allocating list block `i`, which was not set, keeps the invariant of the
loop that stores the extent list, and sets the block. -/
theorem SaveInv.listBlockAllocated (v0 : EsFSVolume) (hvol : VolumeWF v0)
    (L : Nat → EsFSGlobalExtent) (list : Memory) (first i : Nat)
    (data : EsFSAttributeFileData) (v : EsFSVolume) (hinv : SaveInv v0 L list first i data v)
    (hi : i < ESFS_INDIRECT_2_BLOCKS) (h0 : data.indirect2 i = 0)
    (lg u : Nat) (hlg : lg < v0.superblock.groupCount) (X : EsFSGlobalExtent) (v1 : EsFSVolume)
    (h : AllocateExtent v lg 1 u = .ok (X, v1)) (hX : X.count ≠ 0) :
    SaveInv v0 L list first i (data.setIndirect2 i X.offset) v1
      ∧ (data.setIndirect2 i X.offset).indirect2 i ≠ 0 := by
  obtain ⟨n0, hsb0⟩ := hinv.superblock
  have hgc : v.superblock.groupCount = v0.superblock.groupCount := by rw [hsb0]
  have hB : v.superblock.blockSize = v0.superblock.blockSize := by rw [hsb0]
  obtain ⟨hwf1, hdisk, hs1, hs2, hs3, hsb1, hle, hoff, hvolE, hfree, hsub⟩ :=
    AllocateExtent_step v hinv.wf lg 1 u (by rw [hgc]; exact hlg) X v1 h hX
  obtain ⟨hnew, hkeep, hone⟩ :=
    AllocateExtent_used v hinv.wf lg 1 u (by rw [hgc]; exact hlg) X v1 h hX
  have hbc := hinv.wf.blockCount
  have hX64 : X.offset < 18446744073709551616 := by omega
  have hsame : (data.setIndirect2 i X.offset).indirect2 i = X.offset :=
    indirect2_setIndirect2_same _ _ _ hX64
  have hother : ∀ s, s ≠ i → (data.setIndirect2 i X.offset).indirect2 s = data.indirect2 s :=
    fun s hs => indirect2_setIndirect2_other _ _ _ _ hs
  have hfresh : ∀ x, usedBlock v x → x ≠ X.offset := by
    intro x hx heq
    exact hx.2.2.2.2 (hfree x (by omega) (by omega)).1
  obtain ⟨k, hk, hBk⟩ := hvol.geometry.blockSizePow
  have hB0 : 0 < v0.superblock.blockSize := by rw [hBk]; exact Nat.two_pow_pos k
  have hepb := extentsPerBlock_mul v0.superblock k hBk hvol.extentSize
  have hsec : v.sectorsPerBlock * v.sectorSize = v.superblock.blockSize := by
    rw [hinv.drive.1, hinv.drive.2.1, hB]; exact hvol.geometry.sectors
  have hB1 : v1.superblock.blockSize = v0.superblock.blockSize := by rw [hsb1]; exact hB
  have hsec1 : v1.sectorsPerBlock * v1.sectorSize = v1.superblock.blockSize := by
    rw [hs1, hs2, hB1, ← hB]; exact hsec
  have hepbv : extentsPerBlock v.superblock = extentsPerBlock v0.superblock := by
    unfold extentsPerBlock; rw [hB]
  have hepbv1 : extentsPerBlock v1.superblock = extentsPerBlock v0.superblock := by
    unfold extentsPerBlock; rw [hB1]
  refine ⟨⟨hwf1, ⟨(n0 + X.count) % 18446744073709551616, by rw [hsb1, hsb0]⟩,
    ⟨hs1.trans hinv.drive.1, hs2.trans hinv.drive.2.1, hs3.trans hinv.drive.2.2⟩, hinv.mode,
    fun j hj x a b => hkeep x (hinv.used j hj x a b), ?_, ?_, ?_, ?_, ?_, hinv.listed,
    hinv.order⟩, by rw [hsame]; omega⟩
  · intro s hs hne
    by_cases hsi : s = i
    · subst hsi
      rw [hsame]
      exact hnew _ (Nat.le_refl _) (by omega)
    · rw [hother s hsi] at hne ⊢
      exact hkeep _ (hinv.listUsed s hs hne)
  · intro s t hs ht hst hne
    by_cases hsi : s = i
    · subst hsi
      rw [hsame, hother t (fun h => hst h.symm)]
      by_cases ht0 : data.indirect2 t = 0
      · rw [ht0]; omega
      · exact fun heq => hfresh _ (hinv.listUsed t ht ht0) heq.symm
    · rw [hother s hsi] at hne ⊢
      by_cases hti : t = i
      · subst hti
        rw [hsame]
        exact hfresh _ (hinv.listUsed s hs hne)
      · rw [hother t hti]
        exact hinv.listDistinct s t hs ht hst hne
  · intro s hs hne j hj
    by_cases hsi : s = i
    · subst hsi
      rw [hsame]
      by_contra hc
      exact hfresh X.offset (hinv.used j hj X.offset (by omega) (by omega)) rfl
    · rw [hother s hsi] at hne ⊢
      exact hinv.listOutside s hs hne j hj
  · intro s hs
    rw [hother s (by omega)]
    exact hinv.present s hs
  · intro j hj hji
    have hp := hinv.present _ hji
    have hne : j / extentsPerBlock v0.superblock ≠ i := by omega
    rw [← hinv.saved j hj hji]
    rw [extentList_indirect2 v data hinv.mode hsec (by rw [hepbv, hB]; exact hepb)
      (by rw [hB]; exact hB0) j (by rw [hepbv]; omega) (by rw [hepbv]; exact hp)]
    rw [extentList_indirect2 v1 (data.setIndirect2 i X.offset) hinv.mode hsec1
      (by rw [hepbv1, hB1]; exact hepb) (by rw [hB1]; exact hB0) j (by rw [hepbv1]; omega)
      (by rw [hepbv1, hother _ hne]; exact hp)]
    rw [hepbv1, hepbv, hother _ hne, hdisk, hB1, hB]

theorem block_ne_bytes (B b b' r a : Nat) (hne : b ≠ b') (hr : r < B)
    (h1 : b' * B ≤ a) (h2 : a < b' * B + B) : a ≠ b * B + r := by
  intro h
  apply hne
  exact block_group_unique B b b' a (by omega) (by omega) h1 h2

/-- Extent `i` of an INDIRECT_2 stream on a volume with the geometry of `v0`. -/
theorem extentList_on (v0 v : EsFSVolume) (hvol : VolumeWF v0)
    (hB : v.superblock.blockSize = v0.superblock.blockSize)
    (hd1 : v.sectorsPerBlock = v0.sectorsPerBlock) (hd2 : v.sectorSize = v0.sectorSize)
    (data : EsFSAttributeFileData) (hmode : data.indirection = ESFS_DATA_INDIRECT_2) (j : Nat)
    (hs : j / extentsPerBlock v0.superblock < ESFS_INDIRECT_2_BLOCKS)
    (hne : data.indirect2 (j / extentsPerBlock v0.superblock) ≠ 0) :
    extentList v data j
      = readExtent v.disk
          (data.indirect2 (j / extentsPerBlock v0.superblock) * v0.superblock.blockSize
            + j % extentsPerBlock v0.superblock * sizeofGlobalExtent) := by
  obtain ⟨k, hk, hBk⟩ := hvol.geometry.blockSizePow
  have hB0 : 0 < v0.superblock.blockSize := by rw [hBk]; exact Nat.two_pow_pos k
  have hepb := extentsPerBlock_mul v0.superblock k hBk hvol.extentSize
  have hepbv : extentsPerBlock v.superblock = extentsPerBlock v0.superblock := by
    unfold extentsPerBlock; rw [hB]
  have hsec : v.sectorsPerBlock * v.sectorSize = v.superblock.blockSize := by
    rw [hd1, hd2, hB]; exact hvol.geometry.sectors
  rw [extentList_indirect2 v data hmode hsec (by rw [hepbv, hB]; exact hepb)
    (by rw [hB]; exact hB0) j (by rw [hepbv]; exact hs) (by rw [hepbv]; exact hne), hepbv, hB]

/-- Writing list block `i`, which is set, from the in-memory list keeps the
invariant of the loop that stores the extent list and moves it to the next
block. -/
theorem SaveInv.written (v0 : EsFSVolume) (hvol : VolumeWF v0)
    (L : Nat → EsFSGlobalExtent) (list : Memory) (first i : Nat)
    (data : EsFSAttributeFileData) (v : EsFSVolume) (hinv : SaveInv v0 L list first i data v)
    (hi : i < ESFS_INDIRECT_2_BLOCKS) (hset : data.indirect2 i ≠ 0) :
    SaveInv v0 L list first (i + 1) data
      (AccessBlockWrite v (data.indirect2 i) v.superblock.blockSize
        (readBytes list (i * extentsPerBlock v.superblock * sizeofGlobalExtent)
          v.superblock.blockSize) 0) := by
  obtain ⟨n0, hsb0⟩ := hinv.superblock
  have hB : v.superblock.blockSize = v0.superblock.blockSize := by rw [hsb0]
  obtain ⟨k, hk, hBk⟩ := hvol.geometry.blockSizePow
  have hB0 : 0 < v0.superblock.blockSize := by rw [hBk]; exact Nat.two_pow_pos k
  have hepb := extentsPerBlock_mul v0.superblock k hBk hvol.extentSize
  have hsec : v.sectorsPerBlock * v.sectorSize = v.superblock.blockSize := by
    rw [hinv.drive.1, hinv.drive.2.1, hB]; exact hvol.geometry.sectors
  have hepbv : extentsPerBlock v.superblock = extentsPerBlock v0.superblock := by
    unfold extentsPerBlock; rw [hB]
  have hepb0 : 0 < extentsPerBlock v0.superblock := by
    unfold sizeofGlobalExtent at hepb; omega
  generalize hw : AccessBlockWrite v (data.indirect2 i) v.superblock.blockSize
    (readBytes list (i * extentsPerBlock v.superblock * sizeofGlobalExtent)
      v.superblock.blockSize) 0 = w
  have hwsb : w.superblock = v.superblock := by rw [← hw]; rfl
  have hwg : w.groupDescriptorTable = v.groupDescriptorTable := by rw [← hw]; rfl
  have hwt : w.extentTables = v.extentTables := by rw [← hw]; rfl
  have hwa : w.sectorsPerBlock = v.sectorsPerBlock := by rw [← hw]; rfl
  have hwb : w.sectorSize = v.sectorSize := by rw [← hw]; rfl
  have hwc : w.maxAccessSectorCount = v.maxAccessSectorCount := by rw [← hw]; rfl
  have hwd : ∀ a, w.disk a
      = if data.indirect2 i * v.superblock.blockSize ≤ a
            ∧ a < data.indirect2 i * v.superblock.blockSize + v.superblock.blockSize then
          list (i * extentsPerBlock v.superblock * sizeofGlobalExtent
            + (a - data.indirect2 i * v.superblock.blockSize))
        else v.disk a := by
    intro a
    rw [← hw]
    exact AccessBlockWrite_disk v hsec _ _ _ a
  have hused : ∀ x, usedBlock v x → usedBlock w x := fun x hx =>
    (usedBlock_of_tables hwsb hwg hwt x).2 hx
  have hsecw : w.sectorsPerBlock * w.sectorSize = w.superblock.blockSize := by
    rw [hwa, hwb, hwsb]; exact hsec
  refine ⟨hinv.wf.of_tables hwsb hwg hwt, ⟨n0, by rw [hwsb, hsb0]⟩,
    ⟨hwa.trans hinv.drive.1, hwb.trans hinv.drive.2.1, hwc.trans hinv.drive.2.2⟩, hinv.mode,
    fun j hj x a b => hused x (hinv.used j hj x a b),
    fun s hs hne => hused _ (hinv.listUsed s hs hne), hinv.listDistinct, hinv.listOutside,
    ?_, ?_, hinv.listed, by have := hinv.order; omega⟩
  · intro s hs
    by_cases hsi : s = i
    · subst hsi; exact hset
    · exact hinv.present s (by omega)
  · intro j hj hji
    have hmod := Nat.div_add_mod j (extentsPerBlock v0.superblock)
    have hmlt := Nat.mod_lt j hepb0
    have hj8 : j / extentsPerBlock v0.superblock < ESFS_INDIRECT_2_BLOCKS := by omega
    have hwd' : ∀ a, w.disk a
        = if data.indirect2 i * v0.superblock.blockSize ≤ a
              ∧ a < data.indirect2 i * v0.superblock.blockSize + v0.superblock.blockSize then
            list (i * extentsPerBlock v0.superblock * sizeofGlobalExtent
              + (a - data.indirect2 i * v0.superblock.blockSize))
          else v.disk a := by
      intro a
      rw [hwd, hB, hepbv]
    by_cases hlt : j / extentsPerBlock v0.superblock < i
    · have hp := hinv.present _ hlt
      rw [← hinv.saved j hj hlt]
      rw [extentList_on v0 v hvol hB hinv.drive.1 hinv.drive.2.1 data hinv.mode j hj8 hp,
        extentList_on v0 w hvol (by rw [hwsb]; exact hB) (hwa.trans hinv.drive.1)
          (hwb.trans hinv.drive.2.1) data hinv.mode j hj8 hp]
      apply readExtent_congr
      intro t ht
      rw [hwd', if_neg]
      rintro ⟨c1, c2⟩
      have hd := hinv.listDistinct _ i hj8 hi (by omega) hp
      unfold sizeofGlobalExtent at *
      exact block_ne_bytes _ _ _ (j % extentsPerBlock v0.superblock * 16 + t) _ hd
        (by omega) c1 c2 (by omega)
    · have hji' : j / extentsPerBlock v0.superblock = i := by omega
      have hfirst : first * extentsPerBlock v0.superblock ≤ j := by
        have h1 := Nat.mul_le_mul_right (extentsPerBlock v0.superblock) hinv.order
        rw [← hji'] at h1
        have h2 := Nat.div_mul_le_self j (extentsPerBlock v0.superblock)
        omega
      rw [← hinv.listed j hj hfirst]
      rw [extentList_on v0 w hvol (by rw [hwsb]; exact hB) (hwa.trans hinv.drive.1)
          (hwb.trans hinv.drive.2.1) data hinv.mode j hj8 (by rw [hji']; exact hset), hji']
      apply readExtent_eq_of_bytes
      intro t ht
      unfold sizeofGlobalExtent at *
      rw [hwd', if_pos (by omega)]
      congr 1
      have hie : i * extentsPerBlock v0.superblock + j % extentsPerBlock v0.superblock = j := by
        rw [← hji', Nat.mul_comm]; exact hmod
      omega

/-- The loop of `GrowDataStream` that stores the extent list keeps its
invariant: when it ends with success, every list block it visited is set and
holds its part of the list. -/
theorem SaveInv.saveList (v0 : EsFSVolume) (hvol : VolumeWF v0)
    (L : Nat → EsFSGlobalExtent) (list : Memory) (first cb : Nat)
    (hlg : cb / v0.superblock.blocksPerGroup < v0.superblock.groupCount) :
    ∀ (n i : Nat) (uninit : Nat → Nat) (data : EsFSAttributeFileData) (v : EsFSVolume),
      SaveInv v0 L list first i data v → i + n ≤ ESFS_INDIRECT_2_BLOCKS →
      ∀ data' v' u', GrowDataStream.saveList cb list n i uninit data v = .ok (true, data', v', u') →
        SaveInv v0 L list first (i + n) data' v' ∧ data'.extentCount = data.extentCount
          ∧ data'.size = data.size := by
  intro n
  induction n with
  | zero =>
    intro i uninit data v hinv _ data' v' u' h
    simp only [GrowDataStream.saveList, Except.ok.injEq, Prod.mk.injEq, true_and] at h
    rw [← h.1, ← h.2.1]
    exact ⟨hinv, rfl, rfl⟩
  | succ n ih =>
    intro i uninit data v hinv hi data' v' u' h
    obtain ⟨n0, hsb0⟩ := hinv.superblock
    have hbpg : v.superblock.blocksPerGroup = v0.superblock.blocksPerGroup := by rw [hsb0]
    have hB : v.superblock.blockSize = v0.superblock.blockSize := by rw [hsb0]
    simp only [GrowDataStream.saveList] at h
    by_cases h0 : data.indirect2 i = 0
    · rw [if_pos h0] at h
      cases hA : AllocateExtent v (cb / v.superblock.blocksPerGroup) 1 (uninit 0) with
      | error f => rw [hA] at h; simp at h
      | ok r =>
        obtain ⟨X, v1⟩ := r
        rw [hA] at h
        dsimp only at h
        by_cases hX : X.count = 0
        · rw [if_pos hX] at h; simp at h
        · rw [if_neg hX] at h
          rw [hbpg] at hA
          obtain ⟨hinv1, hset⟩ := SaveInv.listBlockAllocated v0 hvol L list first i data v hinv (by omega)
            h0 _ _ hlg X v1 hA hX
          obtain ⟨n1, hsb1⟩ := hinv1.superblock
          have hB1 : v.superblock.blockSize = v1.superblock.blockSize := by rw [hB, hsb1]
          have hepb1 : extentsPerBlock v.superblock = extentsPerBlock v1.superblock := by
            unfold extentsPerBlock; rw [hB1]
          rw [hB1, hepb1] at h
          have hinv2 := SaveInv.written v0 hvol L list first i _ v1 hinv1 (by omega) hset
          obtain ⟨r1, r2, r3⟩ := ih _ _ _ _ hinv2 (by omega) data' v' u' h
          exact ⟨by rw [show i + (n + 1) = i + 1 + n by omega]; exact r1, r2, r3⟩
    · rw [if_neg h0] at h
      have hinv2 := SaveInv.written v0 hvol L list first i data v hinv (by omega) h0
      obtain ⟨r1, r2, r3⟩ := ih _ _ _ _ hinv2 (by omega) data' v' u' h
      exact ⟨by rw [show i + (n + 1) = i + 1 + n by omega]; exact r1, r2, r3⟩

/-! ### GrowDataStream keeps the stream invariants -/

/-- A stream whose extent list agrees with `L` on its extents satisfies the
stream invariants if `L` and the list blocks do. -/
theorem StreamWF.of_extent (v : EsFSVolume) (data : EsFSAttributeFileData) (size : Nat)
    (L : Nat → EsFSGlobalExtent)
    (hL : ∀ i, i < data.extentCount → extentList v data i = L i)
    (hmode : data.indirection = ESFS_DATA_INDIRECT ∨ data.indirection = ESFS_DATA_INDIRECT_2)
    (hused : ∀ i, i < data.extentCount → ∀ x, (L i).offset ≤ x →
      x < (L i).offset + (L i).count → usedBlock v x)
    (hpos : ∀ i, i < data.extentCount → 1 ≤ (L i).count)
    (hone : ∀ i, i < data.extentCount →
      ((L i).offset + (L i).count - 1) / v.superblock.blocksPerGroup
        = (L i).offset / v.superblock.blocksPerGroup)
    (hdis : ∀ i j, i < j → j < data.extentCount → extentsDisjoint (L i) (L j))
    (hcov : BlocksNeededToStore v.superblock size ≤ countSum L 0 data.extentCount)
    (hsmall : data.indirection = ESFS_DATA_INDIRECT → data.extentCount ≤ ESFS_INDIRECT_EXTENTS)
    (hbig : data.indirection = ESFS_DATA_INDIRECT_2 →
      ESFS_INDIRECT_EXTENTS < data.extentCount
        ∧ data.extentCount < ESFS_INDIRECT_2_BLOCKS * extentsPerBlock v.superblock)
    (hlu : data.indirection = ESFS_DATA_INDIRECT_2 →
      ∀ s, s < ESFS_INDIRECT_2_BLOCKS → data.indirect2 s ≠ 0 → usedBlock v (data.indirect2 s))
    (hld : data.indirection = ESFS_DATA_INDIRECT_2 →
      ∀ s t, s < ESFS_INDIRECT_2_BLOCKS → t < ESFS_INDIRECT_2_BLOCKS → s ≠ t →
        data.indirect2 s ≠ 0 → data.indirect2 s ≠ data.indirect2 t)
    (hlo : data.indirection = ESFS_DATA_INDIRECT_2 →
      ∀ s, s < ESFS_INDIRECT_2_BLOCKS → data.indirect2 s ≠ 0 →
        ∀ i, i < data.extentCount →
          data.indirect2 s < (L i).offset ∨ (L i).offset + (L i).count ≤ data.indirect2 s)
    (hlp : data.indirection = ESFS_DATA_INDIRECT_2 →
      ∀ s, s < BlocksNeededToStore v.superblock (data.extentCount * sizeofGlobalExtent) →
        data.indirect2 s ≠ 0) :
    StreamWF v { data with size := size } := by
  have hL' : ∀ i, i < data.extentCount →
      extentList v { data with size := size } i = L i := hL
  refine ⟨⟨hmode, ?_, ?_, ?_, ?_⟩, ?_, ?_, ?_, hsmall, hbig, hlu, hld, hlp⟩
  · intro i j hij hj
    replace hj : j < data.extentCount := hj
    rw [hL' i (by omega), hL' j hj]
    exact hdis i j hij hj
  · show BlocksNeededToStore v.superblock size
      ≤ countSum (extentList v { data with size := size }) 0 data.extentCount
    rw [countSum_congr L _ _ 0 (fun j _ hj => hL' j (by omega))]
    exact hcov
  · intro i hi _
    replace hi : i < data.extentCount := hi
    rw [hL' i hi]
    have := (hused i hi (L i).offset (Nat.le_refl _) (by have := hpos i hi; omega)).1
    omega
  · intro hm s hs h0 i hi
    replace hi : i < data.extentCount := hi
    rw [hL' i hi]
    exact hlo hm s hs h0 i hi
  · intro i hi
    replace hi : i < data.extentCount := hi
    rw [hL' i hi]
    exact hused i hi
  · intro i hi
    replace hi : i < data.extentCount := hi
    rw [hL' i hi]
    exact hpos i hi
  · intro i hi
    replace hi : i < data.extentCount := hi
    rw [hL' i hi]
    exact hone i hi

/-- The stream invariants on another volume with the same allocator state, on
which the stream has the same extent list. -/
theorem StreamWF.of_volume {v w : EsFSVolume} {data : EsFSAttributeFileData}
    (h : StreamWF v data) (h1 : w.superblock = v.superblock)
    (h2 : w.groupDescriptorTable = v.groupDescriptorTable)
    (h3 : w.extentTables = v.extentTables)
    (hext : extentList w data = extentList v data) : StreamWF w data := by
  have hu : ∀ x, usedBlock v x → usedBlock w x := fun x hx =>
    (usedBlock_of_tables h1 h2 h3 x).2 hx
  refine ⟨⟨h.laidOut.mode, ?_, ?_, ?_, ?_⟩, ?_, ?_, ?_, h.small, ?_, ?_, h.listDistinct, ?_⟩
  · rw [hext]; exact h.laidOut.disjoint
  · rw [hext, h1]; exact h.laidOut.covers
  · rw [hext]; exact h.laidOut.nonzero
  · rw [hext]; exact h.laidOut.listBlocks
  · rw [hext]; exact fun i hi x a b => hu x (h.used i hi x a b)
  · rw [hext]; exact h.positive
  · rw [hext, h1]; exact h.oneGroup
  · rw [h1]; exact h.big
  · exact fun hm s hs h0 => hu _ (h.listUsed hm s hs h0)
  · rw [h1]; exact h.listPresent

theorem countSum_eq_range_sum (extent : Nat → EsFSGlobalExtent) (n : Nat) :
    countSum extent 0 n = Finset.sum (Finset.range n) (fun i => (extent i).count) := by
  induction n with
  | zero => rfl
  | succ n ih => rw [countSum_succ_right, ih, Finset.sum_range_succ]

/-- Extents that share no block and lie below block `N` hold at most `N` blocks. -/
theorem countSum_le_of_disjoint (extent : Nat → EsFSGlobalExtent) (n N : Nat)
    (hdis : ∀ i j, i < j → j < n → extentsDisjoint (extent i) (extent j))
    (hin : ∀ i, i < n → (extent i).count ≠ 0 → (extent i).offset + (extent i).count ≤ N) :
    countSum extent 0 n ≤ N := by
  rw [countSum_eq_range_sum]
  have hpd : ∀ i ∈ Finset.range n, ∀ j ∈ Finset.range n, i ≠ j →
      Disjoint (Finset.Ico (extent i).offset ((extent i).offset + (extent i).count))
        (Finset.Ico (extent j).offset ((extent j).offset + (extent j).count)) := by
    intro i hi j hj hij
    rw [Finset.mem_range] at hi hj
    rw [Finset.disjoint_left]
    intro x hx hx'
    rw [Finset.mem_Ico] at hx hx'
    rcases Nat.lt_or_gt_of_ne hij with h | h
    · have := hdis i j h hj
      unfold extentsDisjoint at this
      omega
    · have := hdis j i h hi
      unfold extentsDisjoint at this
      omega
  have hsub : (Finset.range n).biUnion
      (fun i => Finset.Ico (extent i).offset ((extent i).offset + (extent i).count))
      ⊆ Finset.range N := by
    intro x hx
    rw [Finset.mem_biUnion] at hx
    obtain ⟨i, hi, hx⟩ := hx
    rw [Finset.mem_range] at hi ⊢
    rw [Finset.mem_Ico] at hx
    have := hin i hi (by omega)
    omega
  have hcard := Finset.card_le_card hsub
  rw [Finset.card_biUnion hpd, Finset.card_range] at hcard
  simpa using hcard

theorem StreamWF.fit {v : EsFSVolume} {data : EsFSAttributeFileData} (h : StreamWF v data)
    (hbc : v.superblock.blockCount < 18446744073709551616) :
    extentsFit (extentList v data) data.extentCount := by
  have hin : ∀ i, i < data.extentCount →
      (extentList v data i).offset + (extentList v data i).count ≤ v.superblock.blockCount := by
    intro i hi
    have hp := h.positive i hi
    have hu := h.used i hi ((extentList v data i).offset + (extentList v data i).count - 1)
      (by omega) (by omega)
    have := hu.2.1
    omega
  exact ⟨Nat.lt_of_le_of_lt
      (countSum_le_of_disjoint _ _ _ h.laidOut.disjoint (fun i hi _ => hin i hi)) hbc,
    fun i hi => by have := hin i hi; omega⟩

/-- A write inside a stream that satisfies the stream invariants succeeds,
changes only the drive, and keeps the invariants. -/
theorem StreamWF.write (v : EsFSVolume) (data : EsFSAttributeFileData)
    (hgeo : AccessGeometry v) (hbc : v.superblock.blockCount < 18446744073709551616)
    (hsize : data.size < 18446744073709551616)
    (h : StreamWF v data) (offset : Nat) (buffer : List Nat)
    (hpos : 0 < buffer.length) (hlen : offset + buffer.length ≤ data.size) :
    ∃ disk, AccessStream v data offset buffer.length buffer true
        = .ok (data, { v with disk := disk }, [])
      ∧ StreamWF { v with disk := disk } data := by
  obtain ⟨k, hk, hBk⟩ := hgeo.blockSizePow
  have hB : 0 < v.superblock.blockSize := by rw [hBk]; exact Nat.two_pow_pos k
  have hfit := h.fit hbc
  obtain ⟨disk, hw, _, hframe⟩ :=
    AccessStream_write_laidOut v data offset buffer hgeo hsize h.laidOut hfit hpos hlen
  have hext : extentList ({ v with disk := disk } : EsFSVolume) data = extentList v data := by
    refine extentList_frame2 v ({ v with disk := disk } : EsFSVolume) data hgeo.sectors
      rfl rfl rfl ?_
    intro hmode s hs h0 a ha1 ha2
    show disk a = v.disk a
    apply hframe
    intro k hk heq
    have hblk := h.laidOut.listBlock_ne hfit hmode s hs h0 ((offset + k) / v.superblock.blockSize)
      (div_lt_blocksNeeded _ hB _ _ (by omega))
    apply hblk
    unfold streamAddress at heq
    rw [blockAddress_eq v hgeo.sectors] at heq
    have hm := Nat.mod_lt (offset + k) hB
    have e1 : a / v.superblock.blockSize = data.indirect2 s := by
      apply Nat.div_eq_of_lt_le
      · omega
      · rw [Nat.add_mul, Nat.one_mul]; omega
    have e2 : a / v.superblock.blockSize
        = streamBlock v data ((offset + k) / v.superblock.blockSize) := by
      rw [heq, Nat.mul_comm, Nat.mul_add_div hB, Nat.div_eq_of_lt hm, Nat.add_zero]
    rw [← e2, e1]
  exact ⟨disk, hw, @StreamWF.of_volume v { v with disk := disk } data h rfl rfl rfl hext⟩

/-- The stream invariants after the allocation loop when no extent list has
to be stored. -/
theorem GrowInv2.stored_none (v0 : EsFSVolume) (target newSize : Nat)
    (st : GrowState) (hinv : GrowInv2 v0 target 0 st) (hl : st.newExtentList = none)
    (hcov : BlocksNeededToStore v0.superblock newSize ≤ target) :
    StreamWF st.v { st.data with size := newSize } := by
  obtain ⟨n0, hsb0⟩ := hinv.superblock
  have hB : st.v.superblock.blockSize = v0.superblock.blockSize := by rw [hsb0]
  have hbpg : st.v.superblock.blocksPerGroup = v0.superblock.blocksPerGroup := by rw [hsb0]
  have hepb : extentsPerBlock st.v.superblock = extentsPerBlock v0.superblock := by
    unfold extentsPerBlock; rw [hB]
  have hbn : ∀ n, BlocksNeededToStore st.v.superblock n = BlocksNeededToStore v0.superblock n := by
    intro n; unfold BlocksNeededToStore; rw [hB]
  have hext := GrowState.extent_none st hl
  apply StreamWF.of_extent st.v st.data newSize st.extent (fun i _ => by rw [hext]) hinv.mode
    hinv.used hinv.positive (by rw [hbpg]; exact hinv.oneGroup) hinv.disjoint
  · rw [hbn]
    have := hinv.total
    omega
  · exact fun hm => (hinv.small hm).1
  · rw [hepb]; exact hinv.big
  · exact hinv.listUsed
  · exact hinv.listDistinct
  · exact hinv.listOutside
  · intro hm s hs
    apply hinv.present hm
    unfold GrowState.listBlocks
    rw [hl]
    exact hs

/-- The invariant of the loop that stores the extent list holds when the
allocation loop has ended with an extent list in memory. -/
theorem GrowInv2.toSave (v0 : EsFSVolume) (hvol : VolumeWF v0) (target : Nat)
    (st : GrowState) (hinv : GrowInv2 v0 target 0 st) (list : Memory)
    (hl : st.newExtentList = some list) :
    SaveInv v0 st.extent list st.firstModifiedExtentListBlock st.firstModifiedExtentListBlock
      st.data st.v := by
  obtain ⟨n0, hsb0⟩ := hinv.superblock
  have hB : st.v.superblock.blockSize = v0.superblock.blockSize := by rw [hsb0]
  have hepb : extentsPerBlock st.v.superblock = extentsPerBlock v0.superblock := by
    unfold extentsPerBlock; rw [hB]
  obtain ⟨hm, hfirst⟩ := hinv.first list hl
  refine ⟨hinv.wf, hinv.superblock, hinv.drive, hm, hinv.used, hinv.listUsed hm,
    hinv.listDistinct hm, hinv.listOutside hm, ?_, ?_, ?_, Nat.le_refl _⟩
  · intro s hs
    apply hinv.present hm
    unfold GrowState.listBlocks
    rw [hl]
    exact hs
  · intro j hj hlt
    rw [GrowState.extent_some st list hl, hepb, if_neg]
    intro hc
    obtain ⟨k, hk, hBk⟩ := hvol.geometry.blockSizePow
    have hB0 : 0 < v0.superblock.blockSize := by rw [hBk]; exact Nat.two_pow_pos k
    have hmul := extentsPerBlock_mul v0.superblock k hBk hvol.extentSize
    have he : 0 < extentsPerBlock v0.superblock := by
      unfold sizeofGlobalExtent at hmul; omega
    rw [Nat.div_lt_iff_lt_mul he] at hlt
    omega
  · intro j hj hle
    rw [GrowState.extent_some st list hl, hepb, if_pos hle]

/-- The stream invariants after the allocation loop and the loop that stores
the extent list. -/
theorem GrowInv2.stored_some (v0 : EsFSVolume) (hvol : VolumeWF v0) (target newSize : Nat)
    (st : GrowState) (hinv : GrowInv2 v0 target 0 st) (list : Memory)
    (hl : st.newExtentList = some list)
    (hcov : BlocksNeededToStore v0.superblock newSize ≤ target)
    (cb : Nat) (hlg : cb / v0.superblock.blocksPerGroup < v0.superblock.groupCount)
    (u : Nat → Nat) (D1 : EsFSAttributeFileData) (V1 : EsFSVolume) (u2 : Nat → Nat)
    (hsl : GrowDataStream.saveList cb list
      (BlocksNeededToStore v0.superblock (st.data.extentCount * sizeofGlobalExtent)
        - st.firstModifiedExtentListBlock)
      st.firstModifiedExtentListBlock u st.data st.v = .ok (true, D1, V1, u2)) :
    AllocatorWF V1 ∧ (∃ n, V1.superblock = { v0.superblock with blocksUsed := n })
      ∧ (V1.sectorsPerBlock = v0.sectorsPerBlock ∧ V1.sectorSize = v0.sectorSize
        ∧ V1.maxAccessSectorCount = v0.maxAccessSectorCount)
      ∧ StreamWF V1 { D1 with size := newSize } ∧ D1.size = st.data.size := by
  obtain ⟨k, hk, hBk⟩ := hvol.geometry.blockSizePow
  have hB0 : 0 < v0.superblock.blockSize := by rw [hBk]; exact Nat.two_pow_pos k
  have hmul := extentsPerBlock_mul v0.superblock k hBk hvol.extentSize
  have he : 0 < extentsPerBlock v0.superblock := by
    unfold sizeofGlobalExtent at hmul; omega
  obtain ⟨hm, hfirst⟩ := hinv.first list hl
  obtain ⟨hb1, hb2⟩ := hinv.big hm
  obtain ⟨hn1, hn2⟩ := listBlocks_bounds v0.superblock hmul hB0 st.data.extentCount
  generalize hnd : BlocksNeededToStore v0.superblock
    (st.data.extentCount * sizeofGlobalExtent) = nd at hsl hn1 hn2
  have hlt : st.firstModifiedExtentListBlock < nd := by
    by_contra hc
    have := Nat.mul_le_mul_right (extentsPerBlock v0.superblock)
      (show nd ≤ st.firstModifiedExtentListBlock by omega)
    omega
  have h8 : nd ≤ ESFS_INDIRECT_2_BLOCKS := by
    by_contra hc
    have := Nat.mul_le_mul_right (extentsPerBlock v0.superblock)
      (show ESFS_INDIRECT_2_BLOCKS + 1 ≤ nd by omega)
    rw [Nat.add_mul, Nat.one_mul] at this
    omega
  obtain ⟨hsave, hec, hsz⟩ := SaveInv.saveList v0 hvol st.extent list
    st.firstModifiedExtentListBlock cb hlg _ _ u st.data st.v (GrowInv2.toSave v0 hvol target st hinv list hl)
    (by omega) D1 V1 u2 hsl
  rw [show st.firstModifiedExtentListBlock + (nd - st.firstModifiedExtentListBlock) = nd
    by omega] at hsave
  obtain ⟨n1, hsb1⟩ := hsave.superblock
  have hB : V1.superblock.blockSize = v0.superblock.blockSize := by rw [hsb1]
  have hbpg : V1.superblock.blocksPerGroup = v0.superblock.blocksPerGroup := by rw [hsb1]
  have hepb : extentsPerBlock V1.superblock = extentsPerBlock v0.superblock := by
    unfold extentsPerBlock; rw [hB]
  have hbn : ∀ n, BlocksNeededToStore V1.superblock n = BlocksNeededToStore v0.superblock n := by
    intro n; unfold BlocksNeededToStore; rw [hB]
  refine ⟨hsave.wf, hsave.superblock, hsave.drive, ?_, hsz⟩
  apply StreamWF.of_extent V1 D1 newSize st.extent
  · intro i hi
    apply hsave.saved i hi
    rw [Nat.div_lt_iff_lt_mul he]
    omega
  · exact Or.inr hsave.mode
  · exact hsave.used
  · rw [hec]; exact hinv.positive
  · rw [hec, hbpg]; exact hinv.oneGroup
  · rw [hec]; exact hinv.disjoint
  · rw [hbn, hec]
    have := hinv.total
    omega
  · intro h
    exact absurd (hsave.mode.symm.trans h) (by decide)
  · intro _
    rw [hec, hepb]
    exact ⟨hb1, hb2⟩
  · exact fun _ => hsave.listUsed
  · exact fun _ => hsave.listDistinct
  · exact fun _ => hsave.listOutside
  · intro _ s hs
    rw [hbn, hec, hnd] at hs
    exact hsave.present s hs

theorem AccessGeometry.of_same {v0 v : EsFSVolume} (h : AccessGeometry v0)
    (hsb : ∃ n, v.superblock = { v0.superblock with blocksUsed := n })
    (hd : v.sectorsPerBlock = v0.sectorsPerBlock ∧ v.sectorSize = v0.sectorSize
      ∧ v.maxAccessSectorCount = v0.maxAccessSectorCount) : AccessGeometry v := by
  obtain ⟨n, hsb⟩ := hsb
  have hB : v.superblock.blockSize = v0.superblock.blockSize := by rw [hsb]
  exact ⟨by rw [hB]; exact h.blockSizePow, by rw [hB, hd.1, hd.2.1]; exact h.sectors,
    by rw [hB, hd.2.1, hd.2.2]; exact h.transfer⟩

/-- The end of `GrowDataStream`: from a state that satisfies the invariant of
the allocation loop, a successful run leaves a stream that satisfies the
stream invariants, of the new size, on a volume with the same geometry. -/
theorem GrowDataStream.extend_wf (v0 : EsFSVolume) (hvol : VolumeWF v0)
    (data0 : EsFSAttributeFileData) (target inc newSize : Nat)
    (hinv0 : GrowInv2 v0 target inc ⟨v0, data0, none, 0⟩)
    (hinc : inc < 18446744073709551616)
    (hcov : BlocksNeededToStore v0.superblock newSize ≤ target)
    (hnew64 : newSize < 18446744073709551616)
    (wasDirect : Bool) (oldSize : Nat) (temp : List Nat)
    (hw : wasDirect = true → oldSize ≠ 0 → temp.length = oldSize ∧ oldSize ≤ newSize)
    (clear : Bool) (cb : Nat)
    (hlg : cb / v0.superblock.blocksPerGroup < v0.superblock.groupCount)
    (uninit : Nat → Nat) (data' : EsFSAttributeFileData) (v' : EsFSVolume)
    (h : GrowDataStream.extend v0 data0 wasDirect oldSize temp inc newSize clear cb uninit
      = .ok (true, data', v')) :
    AllocatorWF v' ∧ (∃ n, v'.superblock = { v0.superblock with blocksUsed := n })
      ∧ (v'.sectorsPerBlock = v0.sectorsPerBlock ∧ v'.sectorSize = v0.sectorSize
        ∧ v'.maxAccessSectorCount = v0.maxAccessSectorCount)
      ∧ StreamWF v' data' ∧ data'.size = newSize := by
  unfold GrowDataStream.extend at h
  dsimp only at h
  split at h
  · cases h
  · simp at h
  · rename_i st u hall
    obtain ⟨hinv, _⟩ := GrowInv2.loop v0 hvol target cb hlg clear _ _ _ _ hinv0 hinc st u hall
    split at h
    · cases h
    · simp at h
    · rename_i D1 V1 u2 hst
      have hP : AllocatorWF V1 ∧ (∃ n, V1.superblock = { v0.superblock with blocksUsed := n })
          ∧ (V1.sectorsPerBlock = v0.sectorsPerBlock ∧ V1.sectorSize = v0.sectorSize
            ∧ V1.maxAccessSectorCount = v0.maxAccessSectorCount)
          ∧ StreamWF V1 { D1 with size := newSize } := by
        cases hl : st.newExtentList with
        | none =>
          rw [hl] at hst
          simp only [Except.ok.injEq, Prod.mk.injEq, true_and] at hst
          rw [← hst.1, ← hst.2.1]
          exact ⟨hinv.wf, hinv.superblock, hinv.drive,
            GrowInv2.stored_none v0 target newSize st hinv hl hcov⟩
        | some list =>
          rw [hl] at hst
          obtain ⟨p1, p2, p3, p4, _⟩ := GrowInv2.stored_some v0 hvol target newSize st hinv list
            hl hcov cb hlg u D1 V1 u2 hst
          exact ⟨p1, p2, p3, p4⟩
      obtain ⟨p1, p2, p3, p4⟩ := hP
      split at h
      · cases h
      · rename_i D2 V2 out hacc
        simp only [Except.ok.injEq, Prod.mk.injEq, true_and] at h
        rw [← h.1, ← h.2]
        by_cases hc : wasDirect = true ∧ oldSize ≠ 0
        · rw [if_pos hc] at hacc
          obtain ⟨hlen, hle⟩ := hw hc.1 hc.2
          have hnd : D1.indirection ≠ ESFS_DATA_DIRECT := by
            rcases p4.laidOut.mode with hm | hm
            · exact fun hd => absurd (hm.symm.trans hd) (by decide)
            · exact fun hd => absurd (hm.symm.trans hd) (by decide)
          obtain ⟨disk, hwr, hwf⟩ := StreamWF.write V1 { D1 with size := newSize }
            (hvol.geometry.of_same p2 p3) p1.blockCount hnew64 p4 0 temp (by omega)
            (by show 0 + temp.length ≤ newSize; omega)
          have hwr2 := AccessStream_size V1 D1 newSize 0 temp.length temp hnd _ hwr (by omega)
          rw [hlen, hacc] at hwr2
          simp only [Except.ok.injEq, Prod.mk.injEq] at hwr2
          rw [hwr2.1, hwr2.2.1]
          exact ⟨p1.of_tables rfl rfl rfl, p2, p3, hwf, rfl⟩
        · rw [if_neg hc] at hacc
          simp only [Except.ok.injEq, Prod.mk.injEq] at hacc
          rw [← hacc.1, ← hacc.2.1]
          exact ⟨p1, p2, p3, p4, rfl⟩

theorem BlocksNeededToStore_mono (sb : EsFSSuperblock) (hB : 0 < sb.blockSize) (a b : Nat)
    (h : a ≤ b) : BlocksNeededToStore sb a ≤ BlocksNeededToStore sb b := by
  obtain ⟨_, h2⟩ := BlocksNeededToStore_bounds sb hB a
  obtain ⟨h3, _⟩ := BlocksNeededToStore_bounds sb hB b
  by_contra hc
  have := Nat.mul_le_mul_right sb.blockSize
    (show BlocksNeededToStore sb b + 1 ≤ BlocksNeededToStore sb a by omega)
  rw [Nat.add_mul, Nat.one_mul] at this
  omega

/-- A grow of a stream that is not direct runs the allocation loop for the
blocks that the new size adds. -/
theorem GrowDataStream_indirect_eq (v : EsFSVolume) (data : EsFSAttributeFileData)
    (newSize cb : Nat) (clear : Bool) (uninit : Nat → Nat)
    (hd : data.indirection ≠ ESFS_DATA_DIRECT) :
    GrowDataStream v data newSize clear cb uninit
      = GrowDataStream.extend v data false data.size
          (readBytes data.unionBytes 0 data.size)
          (sub64 (BlocksNeededToStore v.superblock newSize)
            (BlocksNeededToStore v.superblock data.size))
          newSize clear cb uninit := by
  have hc1 : ¬ (data.indirection = ESFS_DATA_DIRECT ∧ newSize ≤ ESFS_DIRECT_BYTES) :=
    fun hc => hd hc.1
  have hc2 : ¬ (data.indirection = ESFS_DATA_DIRECT ∧ data.size > ESFS_DIRECT_BYTES) :=
    fun hc => hd hc.1
  unfold GrowDataStream
  rw [if_neg hc1, if_neg hc2]
  have hdec : decide (data.indirection = ESFS_DATA_DIRECT) = false := decide_eq_false hd
  simp only [hdec, Bool.false_eq_true, if_false]

/-- A successful grow of a DIRECT stream that fits the attribute leaves a
DIRECT stream. -/
theorem GrowDataStream_direct_small (v : EsFSVolume) (data : EsFSAttributeFileData)
    (newSize cb : Nat) (clear : Bool) (uninit : Nat → Nat)
    (hd : data.indirection = ESFS_DATA_DIRECT) (hs : newSize ≤ ESFS_DIRECT_BYTES)
    (data' : EsFSAttributeFileData) (v' : EsFSVolume)
    (h : GrowDataStream v data newSize clear cb uninit = .ok (true, data', v')) :
    data'.indirection = ESFS_DATA_DIRECT := by
  unfold GrowDataStream at h
  rw [if_pos ⟨hd, hs⟩] at h
  simp only [Except.ok.injEq, Prod.mk.injEq, true_and] at h
  rw [← h.1]
  cases clear
  · exact hd
  · exact hd

/-- A grow of a DIRECT stream that holds more than the attribute can hold
does not return. -/
theorem GrowDataStream_direct_big (v : EsFSVolume) (data : EsFSAttributeFileData)
    (newSize cb : Nat) (clear : Bool) (uninit : Nat → Nat)
    (hd : data.indirection = ESFS_DATA_DIRECT) (hs : ESFS_DIRECT_BYTES < newSize)
    (hold : ESFS_DIRECT_BYTES < data.size) :
    GrowDataStream v data newSize clear cb uninit = .error .outsideAttribute := by
  unfold GrowDataStream
  rw [if_neg (fun hc => by omega), if_pos ⟨hd, hold⟩]

/-- A stream that satisfies the stream invariants gives the invariant of the
allocation loop at the start of `GrowDataStream`. -/
theorem GrowInv2.of_streamWF (v : EsFSVolume) (hwf : AllocatorWF v)
    (data : EsFSAttributeFileData) (h : StreamWF v data) (inc : Nat) :
    GrowInv2 v (countSum (extentList v data) 0 data.extentCount + inc) inc ⟨v, data, none, 0⟩ := by
  have hext : GrowState.extent ⟨v, data, none, 0⟩ = extentList v data :=
    GrowState.extent_none _ rfl
  refine ⟨hwf, ⟨_, rfl⟩, ⟨rfl, rfl, rfl⟩, h.laidOut.mode, fun hm => ⟨h.small hm, rfl, rfl⟩,
    h.big, by rw [hext], by rw [hext]; exact h.used, by rw [hext]; exact h.positive,
    by rw [hext]; exact h.oneGroup, by rw [hext]; exact h.laidOut.disjoint, h.listUsed,
    h.listDistinct, by rw [hext]; exact h.laidOut.listBlocks, h.listPresent, ?_⟩
  intro list hl
  cases hl

/-- The invariant of the allocation loop at the start of a grow of a DIRECT
stream without extents. -/
theorem GrowInv2.of_direct (v : EsFSVolume) (hwf : AllocatorWF v)
    (data : EsFSAttributeFileData) (hec : data.extentCount = 0) (inc : Nat) :
    GrowInv2 v inc inc ⟨v, { data with indirection := ESFS_DATA_INDIRECT }, none, 0⟩ := by
  have hnone : ∀ i, i < data.extentCount → False := fun i hi => by omega
  have hne : ESFS_DATA_INDIRECT ≠ ESFS_DATA_INDIRECT_2 := by decide
  refine ⟨hwf, ⟨_, rfl⟩, ⟨rfl, rfl, rfl⟩, Or.inl rfl,
    fun _ => ⟨by show data.extentCount ≤ _; rw [hec]; exact Nat.zero_le _, rfl, rfl⟩,
    fun hm => absurd hm hne, ?_, fun i hi => (hnone i hi).elim,
    fun i hi => (hnone i hi).elim, fun i hi => (hnone i hi).elim,
    fun i j _ hj => (hnone j hj).elim, fun hm => absurd hm hne,
    fun hm => absurd hm hne, fun hm => absurd hm hne,
    fun hm => absurd hm hne, ?_⟩
  · show countSum _ 0 data.extentCount + inc = inc
    rw [hec]
    simp [countSum]
  · intro list hl
    cases hl

/-- A successful `GrowDataStream` keeps the invariants: from a DIRECT stream
without extents or a stream that satisfies the stream invariants it leaves a
DIRECT stream, or a stream of the new size that satisfies them, on a volume
with the same geometry whose allocator state is well formed. -/
theorem GrowDataStream_wf (v : EsFSVolume) (hvol : VolumeWF v) (data : EsFSAttributeFileData)
    (newSize cb : Nat) (clear : Bool) (uninit : Nat → Nat)
    (hdata : (data.indirection = ESFS_DATA_DIRECT ∧ data.extentCount = 0) ∨ StreamWF v data)
    (hgrow : data.size < newSize) (hnew64 : newSize < 18446744073709551616)
    (hlg : cb / v.superblock.blocksPerGroup < v.superblock.groupCount)
    (data' : EsFSAttributeFileData) (v' : EsFSVolume)
    (h : GrowDataStream v data newSize clear cb uninit = .ok (true, data', v')) :
    data'.indirection = ESFS_DATA_DIRECT
      ∨ (AllocatorWF v' ∧ (∃ n, v'.superblock = { v.superblock with blocksUsed := n })
        ∧ (v'.sectorsPerBlock = v.sectorsPerBlock ∧ v'.sectorSize = v.sectorSize
          ∧ v'.maxAccessSectorCount = v.maxAccessSectorCount)
        ∧ StreamWF v' data' ∧ data'.size = newSize) := by
  obtain ⟨k, hk, hBk⟩ := hvol.geometry.blockSizePow
  have hB : 0 < v.superblock.blockSize := by rw [hBk]; exact Nat.two_pow_pos k
  have hnb : BlocksNeededToStore v.superblock newSize < 18446744073709551616 :=
    Nat.lt_of_le_of_lt (BlocksNeededToStore_le _ hB _) hnew64
  rcases hdata with ⟨hd, hec⟩ | hs
  · by_cases hsmall : newSize ≤ ESFS_DIRECT_BYTES
    · exact Or.inl (GrowDataStream_direct_small v data newSize cb clear uninit hd hsmall data' v' h)
    · by_cases hold : ESFS_DIRECT_BYTES < data.size
      · rw [GrowDataStream_direct_big v data newSize cb clear uninit hd (by omega) hold] at h
        cases h
      · right
        rw [GrowDataStream_direct_eq v data newSize cb clear uninit hd (by omega) (by omega)
          hnew64 hB] at h
        exact GrowDataStream.extend_wf v hvol _ _ _ newSize
          (GrowInv2.of_direct v hvol.allocator data hec _) hnb (Nat.le_refl _) hnew64 true
          data.size _ (fun _ _ => ⟨readBytes_length _ _ _, by omega⟩) clear cb hlg uninit data' v' h
  · right
    have hnd : data.indirection ≠ ESFS_DATA_DIRECT := by
      rcases hs.laidOut.mode with hm | hm
      · exact fun hd => absurd (hm.symm.trans hd) (by decide)
      · exact fun hd => absurd (hm.symm.trans hd) (by decide)
    rw [GrowDataStream_indirect_eq v data newSize cb clear uninit hnd] at h
    have hmono := BlocksNeededToStore_mono v.superblock hB data.size newSize (by omega)
    rw [sub64_eq_sub hmono hnb] at h
    have hcov := hs.laidOut.covers
    exact GrowDataStream.extend_wf v hvol _ _ _ newSize
      (GrowInv2.of_streamWF v hvol.allocator data hs _) (by omega) (by omega) hnew64 false
      data.size _ (fun hf => absurd hf (by decide)) clear cb hlg uninit data' v' h

/-! ### ShrinkDataStream keeps the stream invariants -/

/-- The extent list that `ShrinkDataStream` loads holds the extents the stream
is read through. -/
theorem ShrinkDataStream.loadList_extent (v : EsFSVolume) (data : EsFSAttributeFileData)
    (hmode : data.indirection = ESFS_DATA_INDIRECT ∨ data.indirection = ESFS_DATA_INDIRECT_2)
    (j : Nat) (hj : j < data.extentCount) :
    readExtent (ShrinkDataStream.loadList v data) (j * sizeofGlobalExtent)
      = extentList v data j := by
  unfold ShrinkDataStream.loadList extentList
  by_cases h2 : data.indirection = ESFS_DATA_INDIRECT_2
  · rw [if_pos h2, if_pos h2]
  · have h1 : data.indirection = ESFS_DATA_INDIRECT := by
      rcases hmode with h | h
      · exact h
      · exact absurd h h2
    rw [if_neg h2, if_pos h1, if_neg h2]
    unfold EsFSAttributeFileData.indirect
    apply readExtent_congr
    intro t ht
    unfold sizeofGlobalExtent at *
    unfold writeBytes
    rw [readBytes_length, if_pos (by omega), getD_readBytes _ _ _ _ (by omega)]
    congr 1
    omega

/-- The loop of `ShrinkDataStream` that finds the first extent that is not
completely needed stops at an extent index `i` with `block` blocks before it,
`block ≤ newBlocks`, and the extent at `i`, if there is one, reaches past
`newBlocks`. -/
theorem ShrinkDataStream.findFirst_spec (list : Memory) (newBlocks extentCount : Nat) :
    ∀ (fuel block i : Nat),
      block = countSum (fun j => readExtent list (j * sizeofGlobalExtent)) 0 i →
      block ≤ newBlocks → i + fuel = extentCount →
      (ShrinkDataStream.findFirst list newBlocks extentCount fuel block i).2 ≤ extentCount
      ∧ (ShrinkDataStream.findFirst list newBlocks extentCount fuel block i).1
          = countSum (fun j => readExtent list (j * sizeofGlobalExtent)) 0
              (ShrinkDataStream.findFirst list newBlocks extentCount fuel block i).2
      ∧ (ShrinkDataStream.findFirst list newBlocks extentCount fuel block i).1 ≤ newBlocks
      ∧ ((ShrinkDataStream.findFirst list newBlocks extentCount fuel block i).2 < extentCount →
          newBlocks < (ShrinkDataStream.findFirst list newBlocks extentCount fuel block i).1
            + (readExtent list
                ((ShrinkDataStream.findFirst list newBlocks extentCount fuel block i).2
                  * sizeofGlobalExtent)).count) := by
  intro fuel
  induction fuel with
  | zero =>
    intro block i hb hle hi
    simp only [ShrinkDataStream.findFirst]
    exact ⟨by omega, hb, hle, fun h => by omega⟩
  | succ fuel ih =>
    intro block i hb hle hi
    simp only [ShrinkDataStream.findFirst]
    rw [if_pos (by omega)]
    split
    · rename_i hgt
      refine ⟨by show i ≤ extentCount; omega, hb, hle, fun _ => ?_⟩
      show newBlocks < block + (readExtent list (i * sizeofGlobalExtent)).count
      omega
    · rename_i hgt
      apply ih
      · rw [countSum_succ_right, ← hb]
      · omega
      · omega

theorem div_sandwich (g a b c : Nat) (h1 : a ≤ b) (h2 : b ≤ c) (h : c / g = a / g) :
    b / g = a / g := by
  have h3 := Nat.div_le_div_right (c := g) h1
  have h4 := Nat.div_le_div_right (c := g) h2
  omega

/-- The part of `ShrinkDataStream` that cuts the extent list at `newBlocks`
blocks: the extents before index `nec` of the new list are prefixes of the old
ones (only the last may be shorter) and hold `newBlocks` blocks, the later
ones are unchanged, and a block in use stays in use unless it lies in the part
that was cut off an extent before `nec`. -/
theorem ShrinkDataStream.cut_spec (v : EsFSVolume) (hwf : AllocatorWF v) (list : Memory)
    (newBlocks ec : Nat)
    (hpos : ∀ j, j < ec → 1 ≤ (readExtent list (j * sizeofGlobalExtent)).count)
    (hone : ∀ j, j < ec →
      ((readExtent list (j * sizeofGlobalExtent)).offset
          + (readExtent list (j * sizeofGlobalExtent)).count - 1) / v.superblock.blocksPerGroup
        = (readExtent list (j * sizeofGlobalExtent)).offset / v.superblock.blocksPerGroup)
    (hused : ∀ j, j < ec → ∀ x, (readExtent list (j * sizeofGlobalExtent)).offset ≤ x →
      x < (readExtent list (j * sizeofGlobalExtent)).offset
        + (readExtent list (j * sizeofGlobalExtent)).count → usedBlock v x)
    (hnb : newBlocks < countSum (fun j => readExtent list (j * sizeofGlobalExtent)) 0 ec)
    (v1 : EsFSVolume) (list1 : Memory) (nec : Nat)
    (h : ShrinkDataStream.cut v list newBlocks ec = .ok (v1, list1, nec)) :
    nec ≤ ec
      ∧ (∀ j, j < nec →
          (readExtent list1 (j * sizeofGlobalExtent)).offset
            = (readExtent list (j * sizeofGlobalExtent)).offset
          ∧ 1 ≤ (readExtent list1 (j * sizeofGlobalExtent)).count
          ∧ (readExtent list1 (j * sizeofGlobalExtent)).count
            ≤ (readExtent list (j * sizeofGlobalExtent)).count)
      ∧ (∀ j, j + 1 ≠ nec →
          readExtent list1 (j * sizeofGlobalExtent) = readExtent list (j * sizeofGlobalExtent))
      ∧ countSum (fun j => readExtent list1 (j * sizeofGlobalExtent)) 0 nec = newBlocks
      ∧ AllocatorWF v1 ∧ v1.disk = v.disk
      ∧ (∃ n, v1.superblock = { v.superblock with blocksUsed := n })
      ∧ (v1.sectorsPerBlock = v.sectorsPerBlock ∧ v1.sectorSize = v.sectorSize
        ∧ v1.maxAccessSectorCount = v.maxAccessSectorCount)
      ∧ ∀ x, usedBlock v x →
          (∀ j, j < nec → (readExtent list (j * sizeofGlobalExtent)).offset ≤ x →
            x < (readExtent list (j * sizeofGlobalExtent)).offset
              + (readExtent list (j * sizeofGlobalExtent)).count →
            x < (readExtent list1 (j * sizeofGlobalExtent)).offset
              + (readExtent list1 (j * sizeofGlobalExtent)).count) →
          usedBlock v1 x := by
  unfold ShrinkDataStream.cut at h
  obtain ⟨s1, s2, s3, s4⟩ := ShrinkDataStream.findFirst_spec list newBlocks ec ec 0 0 rfl
    (Nat.zero_le _) (Nat.zero_add _)
  generalize ShrinkDataStream.findFirst list newBlocks ec ec 0 0 = r at h s1 s2 s3 s4
  obtain ⟨block, i⟩ := r
  dsimp only at h s1 s2 s3 s4
  have hi : i < ec := by
    by_contra hc
    have : i = ec := by omega
    rw [this] at s2
    omega
  have hcnt := s4 hi
  have hbc := hwf.blockCount
  have hu0 := hused i hi _ (Nat.le_refl _) (by have := hpos i hi; omega)
  have hu1 := hused i hi ((readExtent list (i * sizeofGlobalExtent)).offset
    + (readExtent list (i * sizeofGlobalExtent)).count - 1) (by omega)
    (by have := hpos i hi; omega)
  by_cases hne : newBlocks ≠ block
  · rw [if_pos hne] at h
    cases hF : FreeExtent v ⟨(readExtent list (i * sizeofGlobalExtent)).offset + (newBlocks - block),
        sub64 (readExtent list (i * sizeofGlobalExtent)).count (newBlocks - block)⟩ with
    | error f => rw [hF] at h; cases h
    | ok w =>
      rw [hF] at h
      simp only [Except.map, Except.ok.injEq, Prod.mk.injEq] at h
      obtain ⟨hv1, hl1, hn1⟩ := h
      subst hv1 hn1
      have hsub : sub64 (readExtent list (i * sizeofGlobalExtent)).count (newBlocks - block)
          = (readExtent list (i * sizeofGlobalExtent)).count - (newBlocks - block) :=
        sub64_eq_sub (by omega) (by have := hu1.2.1; omega)
      rw [hsub] at hF
      have ho64 : (readExtent list (i * sizeofGlobalExtent)).offset < 18446744073709551616 := by
        have := hu0.2.1; omega
      have hk64 : newBlocks - block < 18446744073709551616 := by
        have := hu1.2.1; omega
      have hL' : ∀ j, readExtent list1 (j * sizeofGlobalExtent)
          = if j = i then ⟨(readExtent list (i * sizeofGlobalExtent)).offset, newBlocks - block⟩
            else readExtent list (j * sizeofGlobalExtent) := by
        intro j
        rw [← hl1]
        split
        · rename_i hji
          rw [hji]
          exact readExtent_setExtent_same _ _ _ ho64 hk64
        · rename_i hji
          exact readExtent_setExtent_other _ _ _ _ hji
      obtain ⟨f1, f2, f3, f4, f5, f6, f7⟩ := FreeExtent_used v hwf _ (by show 1 ≤ _ - _; omega)
        (by
          show ((readExtent list (i * sizeofGlobalExtent)).offset + (newBlocks - block)
            + ((readExtent list (i * sizeofGlobalExtent)).count - (newBlocks - block)) - 1)
              / v.superblock.blocksPerGroup
            = ((readExtent list (i * sizeofGlobalExtent)).offset + (newBlocks - block))
              / v.superblock.blocksPerGroup
          have e : (readExtent list (i * sizeofGlobalExtent)).offset + (newBlocks - block)
              + ((readExtent list (i * sizeofGlobalExtent)).count - (newBlocks - block)) - 1
              = (readExtent list (i * sizeofGlobalExtent)).offset
                + (readExtent list (i * sizeofGlobalExtent)).count - 1 := by omega
          rw [e, hone i hi]
          exact (div_sandwich _ _ _ _ (by omega) (by omega) (hone i hi)).symm)
        (fun x hx1 hx2 => hused i hi x (by
          replace hx1 : (readExtent list (i * sizeofGlobalExtent)).offset + (newBlocks - block)
            ≤ x := hx1
          omega) (by
          replace hx2 : x < (readExtent list (i * sizeofGlobalExtent)).offset
            + (newBlocks - block)
            + ((readExtent list (i * sizeofGlobalExtent)).count - (newBlocks - block)) := hx2
          omega)) w hF
      refine ⟨by omega, ?_, ?_, ?_, f1, f2, f6, ⟨f3, f4, f5⟩, ?_⟩
      · intro j hj
        rw [hL']
        split
        · rename_i hji
          subst hji
          exact ⟨rfl, by show 1 ≤ newBlocks - block; omega, by show newBlocks - block ≤ _; omega⟩
        · exact ⟨rfl, hpos j (by omega), Nat.le_refl _⟩
      · intro j hj
        rw [hL', if_neg (by omega)]
      · rw [countSum_succ_right, hL' i, if_pos rfl,
          countSum_congr (fun j => readExtent list (j * sizeofGlobalExtent)) _ i 0
            (fun j _ hj => by
              show readExtent list1 (j * sizeofGlobalExtent) = _
              rw [hL', if_neg (by omega)]), ← s2]
        show block + (newBlocks - block) = newBlocks
        omega
      · intro x hx hkeep
        apply f7 x hx
        rintro ⟨c1, c2⟩
        replace c1 : (readExtent list (i * sizeofGlobalExtent)).offset + (newBlocks - block)
            ≤ x := c1
        replace c2 : x < (readExtent list (i * sizeofGlobalExtent)).offset
            + (newBlocks - block)
            + ((readExtent list (i * sizeofGlobalExtent)).count - (newBlocks - block)) := c2
        have := hkeep i (by omega) (by omega) (by omega)
        rw [hL' i, if_pos rfl] at this
        replace this : x < (readExtent list (i * sizeofGlobalExtent)).offset
          + (newBlocks - block) := this
        omega
  · rw [if_neg hne] at h
    simp only [Except.ok.injEq, Prod.mk.injEq] at h
    obtain ⟨hv1, hl1, hn1⟩ := h
    subst hv1 hl1 hn1
    have hb : newBlocks = block := by_contra hne
    refine ⟨by omega, fun j hj => ⟨rfl, hpos j (by omega), Nat.le_refl _⟩, fun j _ => rfl,
      by rw [← s2, hb], hwf, rfl, ⟨_, rfl⟩, ⟨rfl, rfl, rfl⟩, fun x hx _ => hx⟩

/-- The loop of `ShrinkDataStream` that frees the extents that are no longer
needed keeps the allocator state well formed, and keeps in use every block in
use outside those extents. -/
theorem ShrinkDataStream.freeRest_spec (v0 : EsFSVolume) (list : Memory) :
    ∀ (n i : Nat) (v : EsFSVolume), AllocatorWF v →
      (∃ m, v.superblock = { v0.superblock with blocksUsed := m }) →
      (∀ j, i ≤ j → j < i + n → 1 ≤ (readExtent list (j * sizeofGlobalExtent)).count) →
      (∀ j, i ≤ j → j < i + n →
        ((readExtent list (j * sizeofGlobalExtent)).offset
            + (readExtent list (j * sizeofGlobalExtent)).count - 1) / v0.superblock.blocksPerGroup
          = (readExtent list (j * sizeofGlobalExtent)).offset / v0.superblock.blocksPerGroup) →
      (∀ j, i ≤ j → j < i + n → ∀ x, (readExtent list (j * sizeofGlobalExtent)).offset ≤ x →
        x < (readExtent list (j * sizeofGlobalExtent)).offset
          + (readExtent list (j * sizeofGlobalExtent)).count → usedBlock v x) →
      (∀ j j', i ≤ j → j < j' → j' < i + n →
        extentsDisjoint (readExtent list (j * sizeofGlobalExtent))
          (readExtent list (j' * sizeofGlobalExtent))) →
      ∀ v', ShrinkDataStream.freeRest list n i v = .ok v' →
        AllocatorWF v' ∧ v'.disk = v.disk
          ∧ (∃ m, v'.superblock = { v0.superblock with blocksUsed := m })
          ∧ (v'.sectorsPerBlock = v.sectorsPerBlock ∧ v'.sectorSize = v.sectorSize
            ∧ v'.maxAccessSectorCount = v.maxAccessSectorCount)
          ∧ ∀ x, usedBlock v x →
              (∀ j, i ≤ j → j < i + n →
                ¬ ((readExtent list (j * sizeofGlobalExtent)).offset ≤ x
                  ∧ x < (readExtent list (j * sizeofGlobalExtent)).offset
                    + (readExtent list (j * sizeofGlobalExtent)).count)) →
              usedBlock v' x := by
  intro n
  induction n with
  | zero =>
    intro i v hwf hsb _ _ _ _ v' h
    simp only [ShrinkDataStream.freeRest, Except.ok.injEq] at h
    subst h
    exact ⟨hwf, rfl, hsb, ⟨rfl, rfl, rfl⟩, fun x hx _ => hx⟩
  | succ n ih =>
    intro i v hwf hsb hpos hone hused hdis v' h
    obtain ⟨m, hsbm⟩ := hsb
    have hbpg : v.superblock.blocksPerGroup = v0.superblock.blocksPerGroup := by rw [hsbm]
    simp only [ShrinkDataStream.freeRest] at h
    cases hF : FreeExtent v (readExtent list (i * sizeofGlobalExtent)) with
    | error f => rw [hF] at h; cases h
    | ok w =>
      rw [hF] at h
      dsimp only at h
      obtain ⟨f1, f2, f3, f4, f5, ⟨m1, f6⟩, f7⟩ := FreeExtent_used v hwf _
        (hpos i (Nat.le_refl _) (by omega))
        (by rw [hbpg]; exact hone i (Nat.le_refl _) (by omega))
        (hused i (Nat.le_refl _) (by omega)) w hF
      obtain ⟨r1, r2, r3, r4, r5⟩ := ih (i + 1) w f1 ⟨m1, by rw [f6, hsbm]⟩
        (fun j h1 h2 => hpos j (by omega) (by omega))
        (fun j h1 h2 => hone j (by omega) (by omega))
        (fun j h1 h2 x hx1 hx2 => f7 x (hused j (by omega) (by omega) x hx1 hx2) (by
          rintro ⟨c1, c2⟩
          have := hdis i j (Nat.le_refl _) (by omega) (by omega)
          have := hpos j (by omega) (by omega)
          have := hpos i (Nat.le_refl _) (by omega)
          unfold extentsDisjoint at *
          omega))
        (fun j j' h1 h2 h3 => hdis j j' (by omega) h2 (by omega)) v' h
      refine ⟨r1, r2.trans f2, r3, ⟨r4.1.trans f3, r4.2.1.trans f4, r4.2.2.trans f5⟩, ?_⟩
      intro x hx hout
      apply r5 x (f7 x hx (hout i (Nat.le_refl _) (by omega)))
      intro j h1 h2
      exact hout j (by omega) (by omega)

/-- The loop of `ShrinkDataStream` that frees the list blocks that are no
longer needed clears their slots, leaves the other slots alone, keeps the
allocator state well formed and keeps in use every other block in use. -/
theorem ShrinkDataStream.freeListBlocks_spec (v0 : EsFSVolume) :
    ∀ (n i : Nat) (data : EsFSAttributeFileData) (v : EsFSVolume), AllocatorWF v →
      (∃ m, v.superblock = { v0.superblock with blocksUsed := m }) →
      (∀ s, i ≤ s → s < i + n → data.indirect2 s ≠ 0 → usedBlock v (data.indirect2 s)) →
      (∀ s t, i ≤ s → s < t → t < i + n → data.indirect2 s ≠ 0 →
        data.indirect2 s ≠ data.indirect2 t) →
      ∀ data' v', ShrinkDataStream.freeListBlocks n i data v = .ok (data', v') →
        AllocatorWF v' ∧ v'.disk = v.disk
          ∧ (∃ m, v'.superblock = { v0.superblock with blocksUsed := m })
          ∧ (v'.sectorsPerBlock = v.sectorsPerBlock ∧ v'.sectorSize = v.sectorSize
            ∧ v'.maxAccessSectorCount = v.maxAccessSectorCount)
          ∧ data'.indirection = data.indirection ∧ data'.extentCount = data.extentCount
          ∧ (∀ s, s < i ∨ i + n ≤ s → data'.indirect2 s = data.indirect2 s)
          ∧ (∀ s, i ≤ s → s < i + n → data'.indirect2 s = 0)
          ∧ ∀ x, usedBlock v x →
              (∀ s, i ≤ s → s < i + n → x ≠ data.indirect2 s) → usedBlock v' x := by
  intro n
  induction n with
  | zero =>
    intro i data v hwf hsb _ _ data' v' h
    simp only [ShrinkDataStream.freeListBlocks, Except.ok.injEq, Prod.mk.injEq] at h
    obtain ⟨h1, h2⟩ := h
    subst h1 h2
    exact ⟨hwf, rfl, hsb, ⟨rfl, rfl, rfl⟩, rfl, rfl, fun s _ => rfl, fun s h1 h2 => by omega,
      fun x hx _ => hx⟩
  | succ n ih =>
    intro i data v hwf hsb hused hdis data' v' h
    simp only [ShrinkDataStream.freeListBlocks] at h
    by_cases h0 : data.indirect2 i ≠ 0
    · rw [if_pos h0] at h
      cases hF : FreeExtent v ⟨data.indirect2 i, 1⟩ with
      | error f => rw [hF] at h; cases h
      | ok w =>
        rw [hF] at h
        dsimp only at h
        obtain ⟨m, hsbm⟩ := hsb
        have hui := hused i (Nat.le_refl _) (by omega) h0
        obtain ⟨f1, f2, f3, f4, f5, ⟨m1, f6⟩, f7⟩ := FreeExtent_used v hwf ⟨data.indirect2 i, 1⟩
          (Nat.le_refl _) rfl
          (fun x hx1 hx2 => by
            replace hx1 : data.indirect2 i ≤ x := hx1
            replace hx2 : x < data.indirect2 i + 1 := hx2
            have : x = data.indirect2 i := by omega
            rw [this]; exact hui) w hF
        have hother : ∀ s, s ≠ i → (data.setIndirect2 i 0).indirect2 s = data.indirect2 s :=
          fun s hs => indirect2_setIndirect2_other _ _ _ _ hs
        obtain ⟨r1, r2, r3, r4, r5, r6, r7, r8, r9⟩ := ih (i + 1) (data.setIndirect2 i 0) w f1
          ⟨m1, by rw [f6, hsbm]⟩
          (fun s h1 h2 hne => by
            rw [hother s (by omega)] at hne ⊢
            apply f7 _ (hused s (by omega) (by omega) hne)
            rintro ⟨c1, c2⟩
            replace c1 : data.indirect2 i ≤ data.indirect2 s := c1
            replace c2 : data.indirect2 s < data.indirect2 i + 1 := c2
            exact hdis i s (Nat.le_refl _) (by omega) (by omega) h0 (by omega))
          (fun s t h1 h2 h3 hne => by
            rw [hother s (by omega)] at hne ⊢
            rw [hother t (by omega)]
            exact hdis s t (by omega) h2 (by omega) hne) data' v' h
        refine ⟨r1, r2.trans f2, r3, ⟨r4.1.trans f3, r4.2.1.trans f4, r4.2.2.trans f5⟩,
          r5, r6, ?_, ?_, ?_⟩
        · intro s hs
          rw [r7 s (by omega), hother s (by omega)]
        · intro s h1 h2
          by_cases hsi : s = i
          · subst hsi
            rw [r7 s (by omega)]
            exact indirect2_setIndirect2_same _ _ _ (by decide)
          · exact r8 s (by omega) (by omega)
        · intro x hx hout
          apply r9 x (f7 x hx (by
            rintro ⟨c1, c2⟩
            replace c1 : data.indirect2 i ≤ x := c1
            replace c2 : x < data.indirect2 i + 1 := c2
            exact hout i (Nat.le_refl _) (by omega) (by omega)))
          intro s h1 h2
          rw [hother s (by omega)]
          exact hout s (by omega) (by omega)
    · rw [if_neg h0] at h
      obtain ⟨r1, r2, r3, r4, r5, r6, r7, r8, r9⟩ := ih (i + 1) data v hwf hsb
        (fun s h1 h2 hne => hused s (by omega) (by omega) hne)
        (fun s t h1 h2 h3 hne => hdis s t (by omega) h2 (by omega) hne) data' v' h
      refine ⟨r1, r2, r3, r4, r5, r6, fun s hs => r7 s (by omega), ?_,
        fun x hx hout => r9 x hx (fun s h1 h2 => hout s (by omega) (by omega))⟩
      intro s h1 h2
      by_cases hsi : s = i
      · subst hsi
        rw [r7 s (by omega)]
        exact by_contra h0
      · exact r8 s (by omega) (by omega)

/-- The part of `ShrinkDataStream` that saves the extent list, when the list
fits the attribute: the stream becomes INDIRECT and satisfies the stream
invariants. -/
theorem ShrinkDataStream.store_small (v0 : EsFSVolume)
    (data : EsFSAttributeFileData) (v2 : EsFSVolume) (list1 : Memory) (newSize : Nat)
    (hsb2 : ∃ m, v2.superblock = { v0.superblock with blocksUsed := m })
    (hused : ∀ j, j < data.extentCount → ∀ x,
      (readExtent list1 (j * sizeofGlobalExtent)).offset ≤ x →
      x < (readExtent list1 (j * sizeofGlobalExtent)).offset
        + (readExtent list1 (j * sizeofGlobalExtent)).count → usedBlock v2 x)
    (hpos : ∀ j, j < data.extentCount → 1 ≤ (readExtent list1 (j * sizeofGlobalExtent)).count)
    (hone : ∀ j, j < data.extentCount →
      ((readExtent list1 (j * sizeofGlobalExtent)).offset
          + (readExtent list1 (j * sizeofGlobalExtent)).count - 1) / v0.superblock.blocksPerGroup
        = (readExtent list1 (j * sizeofGlobalExtent)).offset / v0.superblock.blocksPerGroup)
    (hdis : ∀ i j, i < j → j < data.extentCount →
      extentsDisjoint (readExtent list1 (i * sizeofGlobalExtent))
        (readExtent list1 (j * sizeofGlobalExtent)))
    (hcov : BlocksNeededToStore v0.superblock newSize
      ≤ countSum (fun j => readExtent list1 (j * sizeofGlobalExtent)) 0 data.extentCount)
    (hec : data.extentCount ≤ ESFS_INDIRECT_EXTENTS) :
    StreamWF v2
      { ({ data with
          indirection := ESFS_DATA_INDIRECT
          unionBytes := writeBytes data.unionBytes 0
            (readBytes list1 0 (data.extentCount * sizeofGlobalExtent)) }
          : EsFSAttributeFileData) with size := newSize } := by
  obtain ⟨m, hsbm⟩ := hsb2
  have hB : v2.superblock.blockSize = v0.superblock.blockSize := by rw [hsbm]
  have hbpg : v2.superblock.blocksPerGroup = v0.superblock.blocksPerGroup := by rw [hsbm]
  have hne : ESFS_DATA_INDIRECT ≠ ESFS_DATA_INDIRECT_2 := by decide
  apply StreamWF.of_extent v2 _ newSize (fun j => readExtent list1 (j * sizeofGlobalExtent))
  · intro j hj
    replace hj : j < data.extentCount := hj
    rw [extentList_of_indirect _ _ rfl]
    unfold EsFSAttributeFileData.indirect
    apply readExtent_congr
    intro t ht
    show writeBytes data.unionBytes 0 _ (j * sizeofGlobalExtent + t)
      = list1 (j * sizeofGlobalExtent + t)
    unfold sizeofGlobalExtent at *
    unfold writeBytes
    rw [readBytes_length, if_pos (by omega), getD_readBytes _ _ _ _ (by omega)]
    congr 1
    omega
  · exact Or.inl rfl
  · exact hused
  · exact hpos
  · rw [hbpg]; exact hone
  · exact hdis
  · unfold BlocksNeededToStore at hcov ⊢
    rw [hB]
    exact hcov
  · exact fun _ => hec
  · exact fun h => absurd h hne
  · exact fun h => absurd h hne
  · exact fun h => absurd h hne
  · exact fun h => absurd h hne
  · exact fun h => absurd h hne

/-- The part of `ShrinkDataStream` that saves the extent list, when the list
does not fit the attribute: the list blocks that are no longer needed are
freed, the last needed one is rewritten, and the stream satisfies the stream
invariants. -/
theorem ShrinkDataStream.store_big (v0 : EsFSVolume) (hvol : VolumeWF v0)
    (data : EsFSAttributeFileData) (v2 : EsFSVolume) (list1 : Memory) (newSize : Nat)
    (hwf2 : AllocatorWF v2)
    (hsb2 : ∃ m, v2.superblock = { v0.superblock with blocksUsed := m })
    (hdrive2 : v2.sectorsPerBlock = v0.sectorsPerBlock ∧ v2.sectorSize = v0.sectorSize
      ∧ v2.maxAccessSectorCount = v0.maxAccessSectorCount)
    (hmode : data.indirection = ESFS_DATA_INDIRECT_2)
    (hused : ∀ j, j < data.extentCount → ∀ x,
      (readExtent list1 (j * sizeofGlobalExtent)).offset ≤ x →
      x < (readExtent list1 (j * sizeofGlobalExtent)).offset
        + (readExtent list1 (j * sizeofGlobalExtent)).count → usedBlock v2 x)
    (hpos : ∀ j, j < data.extentCount → 1 ≤ (readExtent list1 (j * sizeofGlobalExtent)).count)
    (hone : ∀ j, j < data.extentCount →
      ((readExtent list1 (j * sizeofGlobalExtent)).offset
          + (readExtent list1 (j * sizeofGlobalExtent)).count - 1) / v0.superblock.blocksPerGroup
        = (readExtent list1 (j * sizeofGlobalExtent)).offset / v0.superblock.blocksPerGroup)
    (hdis : ∀ i j, i < j → j < data.extentCount →
      extentsDisjoint (readExtent list1 (i * sizeofGlobalExtent))
        (readExtent list1 (j * sizeofGlobalExtent)))
    (hcov : BlocksNeededToStore v0.superblock newSize
      ≤ countSum (fun j => readExtent list1 (j * sizeofGlobalExtent)) 0 data.extentCount)
    (hec : ESFS_INDIRECT_EXTENTS < data.extentCount)
    (hbig : data.extentCount < ESFS_INDIRECT_2_BLOCKS * extentsPerBlock v0.superblock)
    (hdiskL : ∀ j, j < data.extentCount → j + 1 ≠ data.extentCount →
      extentList v2 data j = readExtent list1 (j * sizeofGlobalExtent))
    (hlu : ∀ s, s < ESFS_INDIRECT_2_BLOCKS → data.indirect2 s ≠ 0 →
      usedBlock v2 (data.indirect2 s))
    (hld : ∀ s t, s < ESFS_INDIRECT_2_BLOCKS → t < ESFS_INDIRECT_2_BLOCKS → s ≠ t →
      data.indirect2 s ≠ 0 → data.indirect2 s ≠ data.indirect2 t)
    (hlo : ∀ s, s < ESFS_INDIRECT_2_BLOCKS → data.indirect2 s ≠ 0 →
      ∀ j, j < data.extentCount →
        data.indirect2 s < (readExtent list1 (j * sizeofGlobalExtent)).offset
        ∨ (readExtent list1 (j * sizeofGlobalExtent)).offset
            + (readExtent list1 (j * sizeofGlobalExtent)).count ≤ data.indirect2 s)
    (hlp : ∀ s, s < BlocksNeededToStore v0.superblock (data.extentCount * sizeofGlobalExtent) →
      data.indirect2 s ≠ 0)
    (d3 : EsFSAttributeFileData) (v3 : EsFSVolume)
    (h : ShrinkDataStream.store v0.superblock data v2 list1 = .ok (d3, v3)) :
    AllocatorWF v3 ∧ (∃ m, v3.superblock = { v0.superblock with blocksUsed := m })
      ∧ (v3.sectorsPerBlock = v0.sectorsPerBlock ∧ v3.sectorSize = v0.sectorSize
        ∧ v3.maxAccessSectorCount = v0.maxAccessSectorCount)
      ∧ StreamWF v3 { d3 with size := newSize } := by
  obtain ⟨k, hk, hBk⟩ := hvol.geometry.blockSizePow
  have hB0 : 0 < v0.superblock.blockSize := by rw [hBk]; exact Nat.two_pow_pos k
  have hmul := extentsPerBlock_mul v0.superblock k hBk hvol.extentSize
  have he : 0 < extentsPerBlock v0.superblock := by
    unfold sizeofGlobalExtent at hmul; omega
  obtain ⟨hn1, hn2⟩ := listBlocks_bounds v0.superblock hmul hB0 data.extentCount
  unfold ShrinkDataStream.store at h
  rw [if_neg (by omega)] at h
  dsimp only at h
  generalize hnd : BlocksNeededToStore v0.superblock
    (data.extentCount * sizeofGlobalExtent) = nd at h hn1 hn2 hlp
  unfold ESFS_INDIRECT_EXTENTS at hec
  have h8 : nd ≤ ESFS_INDIRECT_2_BLOCKS := by
    by_contra hc
    have := Nat.mul_le_mul_right (extentsPerBlock v0.superblock)
      (show ESFS_INDIRECT_2_BLOCKS + 1 ≤ nd by omega)
    rw [Nat.add_mul, Nat.one_mul] at this
    omega
  have h1 : 1 ≤ nd := by
    by_contra hc
    have : nd = 0 := by omega
    rw [this] at hn1
    omega
  have hlast : (nd - 1) * extentsPerBlock v0.superblock < data.extentCount := by
    rw [Nat.sub_mul, Nat.one_mul]
    omega
  cases hF : ShrinkDataStream.freeListBlocks (ESFS_INDIRECT_2_BLOCKS - nd) nd data v2 with
  | error f => rw [hF] at h; cases h
  | ok p =>
    obtain ⟨dA, vA⟩ := p
    rw [hF] at h
    dsimp only at h
    have hup : nd + (ESFS_INDIRECT_2_BLOCKS - nd) = ESFS_INDIRECT_2_BLOCKS := by omega
    obtain ⟨f1, f2, f3, f4, f5, f6, f7, f8, f9⟩ :=
      ShrinkDataStream.freeListBlocks_spec v0 (ESFS_INDIRECT_2_BLOCKS - nd) nd data v2 hwf2 hsb2
        (fun s _ hs hne => hlu s (by omega) hne)
        (fun s t _ hst ht hne => hld s t (by omega) (by omega) (by omega) hne) dA vA hF
    rw [hup] at f7 f8 f9
    obtain ⟨mA, hsbA⟩ := f3
    have hBA : vA.superblock.blockSize = v0.superblock.blockSize := by rw [hsbA]
    have hepbA : extentsPerBlock vA.superblock = extentsPerBlock v0.superblock := by
      unfold extentsPerBlock; rw [hBA]
    obtain ⟨m2, hsbm2⟩ := hsb2
    have hB2 : v2.superblock.blockSize = v0.superblock.blockSize := by rw [hsbm2]
    have hkeep : ∀ s, s < ESFS_INDIRECT_2_BLOCKS → dA.indirect2 s ≠ 0 →
        s < nd ∧ dA.indirect2 s = data.indirect2 s := by
      intro s hs hne
      have hsn : s < nd := by
        by_contra hc
        exact hne (f8 s (by omega) hs)
      exact ⟨hsn, f7 s (Or.inl hsn)⟩
    have hsave : SaveInv v0 (fun j => readExtent list1 (j * sizeofGlobalExtent)) list1 0 (nd - 1)
        dA vA := by
      refine ⟨f1, ⟨mA, hsbA⟩, ⟨f4.1.trans hdrive2.1, f4.2.1.trans hdrive2.2.1,
        f4.2.2.trans hdrive2.2.2⟩, f5.trans hmode, ?_, ?_, ?_, ?_, ?_, ?_, ?_, Nat.zero_le _⟩
      · intro j hj x hx1 hx2
        rw [f6] at hj
        apply f9 x (hused j hj x hx1 hx2)
        intro s hs1 hs2 heq
        by_cases h0 : data.indirect2 s = 0
        · have := (hused j hj x hx1 hx2).1
          omega
        · have := hlo s hs2 h0 j hj
          replace hx1 : (readExtent list1 (j * sizeofGlobalExtent)).offset ≤ x := hx1
          replace hx2 : x < (readExtent list1 (j * sizeofGlobalExtent)).offset
            + (readExtent list1 (j * sizeofGlobalExtent)).count := hx2
          omega
      · intro s hs hne
        obtain ⟨hsn, e⟩ := hkeep s hs hne
        rw [e] at hne ⊢
        apply f9 _ (hlu s hs hne)
        intro t ht1 ht2
        exact hld s t hs ht2 (by omega) hne
      · intro s t hs ht hst hne
        obtain ⟨hsn, e⟩ := hkeep s hs hne
        by_cases htn : t < nd
        · rw [e, f7 t (Or.inl htn)]
          rw [e] at hne
          exact hld s t hs ht hst hne
        · rw [f8 t (by omega) ht]
          exact hne
      · intro s hs hne j hj
        obtain ⟨hsn, e⟩ := hkeep s hs hne
        rw [f6] at hj
        rw [e] at hne ⊢
        exact hlo s hs hne j hj
      · intro s hs
        rw [f7 s (Or.inl (by omega))]
        exact hlp s (by omega)
      · intro j hj hdiv
        rw [f6] at hj
        rw [Nat.div_lt_iff_lt_mul he] at hdiv
        have hj1 : j + 1 ≠ data.extentCount := by omega
        have hq : j / extentsPerBlock v0.superblock < nd - 1 := by
          rw [Nat.div_lt_iff_lt_mul he]; exact hdiv
        have hs8 : j / extentsPerBlock v0.superblock < ESFS_INDIRECT_2_BLOCKS := by omega
        have hne := hlp (j / extentsPerBlock v0.superblock) (by omega)
        have hi2 := f7 (j / extentsPerBlock v0.superblock) (Or.inl (by omega))
        rw [← hdiskL j hj hj1,
          extentList_on v0 vA hvol hBA (f4.1.trans hdrive2.1) (f4.2.1.trans hdrive2.2.1) dA
            (f5.trans hmode) j hs8 (by rw [hi2]; exact hne),
          extentList_on v0 v2 hvol hB2 hdrive2.1 hdrive2.2.1 data hmode j hs8 hne, hi2, f2]
      · intro j _ _
        rfl
    have hset : dA.indirect2 (nd - 1) ≠ 0 := by
      rw [f7 (nd - 1) (Or.inl (by omega))]
      exact hlp (nd - 1) (by omega)
    have hw := SaveInv.written v0 hvol _ list1 0 (nd - 1) dA vA hsave (by omega) hset
    rw [hBA, hepbA, show nd - 1 + 1 = nd by omega] at hw
    simp only [Except.ok.injEq, Prod.mk.injEq] at h
    obtain ⟨hd3, hv3⟩ := h
    subst hd3
    rw [hv3] at hw
    obtain ⟨n3, hsb3⟩ := hw.superblock
    have hB3 : v3.superblock.blockSize = v0.superblock.blockSize := by rw [hsb3]
    have hbpg : v3.superblock.blocksPerGroup = v0.superblock.blocksPerGroup := by rw [hsb3]
    have hepb3 : extentsPerBlock v3.superblock = extentsPerBlock v0.superblock := by
      unfold extentsPerBlock; rw [hB3]
    have hbn : ∀ n, BlocksNeededToStore v3.superblock n = BlocksNeededToStore v0.superblock n := by
      intro n; unfold BlocksNeededToStore; rw [hB3]
    have hec3 := f6
    refine ⟨hw.wf, hw.superblock, hw.drive, ?_⟩
    apply StreamWF.of_extent v3 _ newSize (fun j => readExtent list1 (j * sizeofGlobalExtent))
    · intro i hi
      apply hw.saved i hi
      rw [Nat.div_lt_iff_lt_mul he]
      omega
    · exact Or.inr hw.mode
    · exact hw.used
    · rw [hec3]; exact hpos
    · rw [hec3, hbpg]; exact hone
    · rw [hec3]; exact hdis
    · rw [hbn, hec3]; exact hcov
    · intro h
      exact absurd (hw.mode.symm.trans h) (by decide)
    · intro _
      rw [hec3, hepb3]
      exact ⟨hec, hbig⟩
    · exact fun _ => hw.listUsed
    · exact fun _ => hw.listDistinct
    · exact fun _ => hw.listOutside
    · intro _ s hs
      rw [hbn, hec3, hnd] at hs
      exact hw.present s hs

/-- The part of `ShrinkDataStream` that saves the extent list leaves a stream
that satisfies the stream invariants, whichever way the list is stored. -/
theorem ShrinkDataStream.store_wf (v0 : EsFSVolume) (hvol : VolumeWF v0)
    (data : EsFSAttributeFileData) (v2 : EsFSVolume) (list1 : Memory) (newSize : Nat)
    (hwf2 : AllocatorWF v2)
    (hsb2 : ∃ m, v2.superblock = { v0.superblock with blocksUsed := m })
    (hdrive2 : v2.sectorsPerBlock = v0.sectorsPerBlock ∧ v2.sectorSize = v0.sectorSize
      ∧ v2.maxAccessSectorCount = v0.maxAccessSectorCount)
    (hused : ∀ j, j < data.extentCount → ∀ x,
      (readExtent list1 (j * sizeofGlobalExtent)).offset ≤ x →
      x < (readExtent list1 (j * sizeofGlobalExtent)).offset
        + (readExtent list1 (j * sizeofGlobalExtent)).count → usedBlock v2 x)
    (hpos : ∀ j, j < data.extentCount → 1 ≤ (readExtent list1 (j * sizeofGlobalExtent)).count)
    (hone : ∀ j, j < data.extentCount →
      ((readExtent list1 (j * sizeofGlobalExtent)).offset
          + (readExtent list1 (j * sizeofGlobalExtent)).count - 1) / v0.superblock.blocksPerGroup
        = (readExtent list1 (j * sizeofGlobalExtent)).offset / v0.superblock.blocksPerGroup)
    (hdis : ∀ i j, i < j → j < data.extentCount →
      extentsDisjoint (readExtent list1 (i * sizeofGlobalExtent))
        (readExtent list1 (j * sizeofGlobalExtent)))
    (hcov : BlocksNeededToStore v0.superblock newSize
      ≤ countSum (fun j => readExtent list1 (j * sizeofGlobalExtent)) 0 data.extentCount)
    (hbig : ESFS_INDIRECT_EXTENTS < data.extentCount →
      data.indirection = ESFS_DATA_INDIRECT_2
      ∧ data.extentCount < ESFS_INDIRECT_2_BLOCKS * extentsPerBlock v0.superblock
      ∧ (∀ j, j < data.extentCount → j + 1 ≠ data.extentCount →
          extentList v2 data j = readExtent list1 (j * sizeofGlobalExtent))
      ∧ (∀ s, s < ESFS_INDIRECT_2_BLOCKS → data.indirect2 s ≠ 0 →
          usedBlock v2 (data.indirect2 s))
      ∧ (∀ s t, s < ESFS_INDIRECT_2_BLOCKS → t < ESFS_INDIRECT_2_BLOCKS → s ≠ t →
          data.indirect2 s ≠ 0 → data.indirect2 s ≠ data.indirect2 t)
      ∧ (∀ s, s < ESFS_INDIRECT_2_BLOCKS → data.indirect2 s ≠ 0 →
          ∀ j, j < data.extentCount →
            data.indirect2 s < (readExtent list1 (j * sizeofGlobalExtent)).offset
            ∨ (readExtent list1 (j * sizeofGlobalExtent)).offset
                + (readExtent list1 (j * sizeofGlobalExtent)).count ≤ data.indirect2 s)
      ∧ (∀ s, s < BlocksNeededToStore v0.superblock (data.extentCount * sizeofGlobalExtent) →
          data.indirect2 s ≠ 0))
    (d3 : EsFSAttributeFileData) (v3 : EsFSVolume)
    (h : ShrinkDataStream.store v0.superblock data v2 list1 = .ok (d3, v3)) :
    AllocatorWF v3 ∧ (∃ m, v3.superblock = { v0.superblock with blocksUsed := m })
      ∧ (v3.sectorsPerBlock = v0.sectorsPerBlock ∧ v3.sectorSize = v0.sectorSize
        ∧ v3.maxAccessSectorCount = v0.maxAccessSectorCount)
      ∧ StreamWF v3 { d3 with size := newSize } := by
  by_cases hec : data.extentCount ≤ ESFS_INDIRECT_EXTENTS
  · have hs := ShrinkDataStream.store_small v0 data v2 list1 newSize hsb2 hused hpos hone hdis
      hcov hec
    unfold ShrinkDataStream.store at h
    rw [if_pos hec] at h
    simp only [Except.ok.injEq, Prod.mk.injEq] at h
    obtain ⟨hd, hv⟩ := h
    subst hd hv
    exact ⟨hwf2, hsb2, hdrive2, hs⟩
  · obtain ⟨b1, b2, b3, b4, b5, b6, b7⟩ := hbig (by omega)
    exact ShrinkDataStream.store_big v0 hvol data v2 list1 newSize hwf2 hsb2 hdrive2 b1 hused
      hpos hone hdis hcov (by omega) b2 b3 b4 b5 b6 b7 d3 v3 h

/-- Changing the size of a stream to one that needs no more blocks than its
extents hold keeps the stream invariants. -/
theorem StreamWF.resize (v : EsFSVolume) (data : EsFSAttributeFileData) (h : StreamWF v data)
    (newSize : Nat)
    (hcov : BlocksNeededToStore v.superblock newSize
      ≤ countSum (extentList v data) 0 data.extentCount) :
    StreamWF v { data with size := newSize } :=
  StreamWF.of_extent v data newSize (extentList v data) (fun _ _ => rfl) h.laidOut.mode h.used
    h.positive h.oneGroup h.laidOut.disjoint hcov h.small h.big h.listUsed h.listDistinct
    h.laidOut.listBlocks h.listPresent

/-- A successful `ShrinkDataStream` keeps the invariants: from a stream that
satisfies the stream invariants it leaves a DIRECT stream, or a stream of the
new size that satisfies them, on a volume with the same geometry whose
allocator state is well formed. -/
theorem ShrinkDataStream_wf (v : EsFSVolume) (hvol : VolumeWF v) (data : EsFSAttributeFileData)
    (newSize : Nat) (hs : StreamWF v data) (hshrink : newSize < data.size)
    (data' : EsFSAttributeFileData) (v' : EsFSVolume)
    (h : ShrinkDataStream v data newSize = .ok (true, data', v')) :
    data'.indirection = ESFS_DATA_DIRECT
      ∨ (AllocatorWF v' ∧ (∃ n, v'.superblock = { v.superblock with blocksUsed := n })
        ∧ (v'.sectorsPerBlock = v.sectorsPerBlock ∧ v'.sectorSize = v.sectorSize
          ∧ v'.maxAccessSectorCount = v.maxAccessSectorCount)
        ∧ StreamWF v' data' ∧ data'.size = newSize) := by
  obtain ⟨k, hk, hBk⟩ := hvol.geometry.blockSizePow
  have hB0 : 0 < v.superblock.blockSize := by rw [hBk]; exact Nat.two_pow_pos k
  have hmul := extentsPerBlock_mul v.superblock k hBk hvol.extentSize
  have he : 0 < extentsPerBlock v.superblock := by
    unfold sizeofGlobalExtent at hmul; omega
  have hd1 : ESFS_DATA_INDIRECT ≠ ESFS_DATA_DIRECT := by decide
  have hd2 : ESFS_DATA_INDIRECT_2 ≠ ESFS_DATA_DIRECT := by decide
  have hnd : data.indirection ≠ ESFS_DATA_DIRECT := by
    rcases hs.laidOut.mode with hm | hm
    · rw [hm]; exact hd1
    · rw [hm]; exact hd2
  unfold ShrinkDataStream at h
  rw [if_neg hnd] at h
  dsimp only at h
  generalize (if newSize ≤ ESFS_DIRECT_BYTES then AccessStream v data 0 newSize [] false
    else Except.ok (data, v, [])) = pre at h
  cases pre with
  | error f => cases h
  | ok q =>
    obtain ⟨q1, q2, directBuffer⟩ := q
    dsimp only at h
    by_cases hob : BlocksNeededToStore v.superblock data.size
        = BlocksNeededToStore v.superblock newSize
    · rw [if_pos hob] at h
      simp only [Except.ok.injEq, Prod.mk.injEq, true_and] at h
      obtain ⟨hd, hv⟩ := h
      subst hd hv
      exact Or.inr ⟨hvol.allocator, ⟨_, rfl⟩, ⟨rfl, rfl, rfl⟩,
        StreamWF.resize v data hs newSize (by rw [← hob]; exact hs.laidOut.covers), rfl⟩
    · rw [if_neg hob] at h
      have hlist := ShrinkDataStream.loadList_extent v data hs.laidOut.mode
      generalize ShrinkDataStream.loadList v data = list at h hlist
      have hmono := BlocksNeededToStore_mono v.superblock hB0 newSize data.size (by omega)
      have hcovers := hs.laidOut.covers
      have hnb : BlocksNeededToStore v.superblock newSize
          < countSum (fun j => readExtent list (j * sizeofGlobalExtent)) 0 data.extentCount := by
        rw [countSum_congr (extentList v data) (fun j => readExtent list (j * sizeofGlobalExtent))
          data.extentCount 0 (fun j _ hj => hlist j (by omega))]
        omega
      have Eused : ∀ j, j < data.extentCount → ∀ x,
          (readExtent list (j * sizeofGlobalExtent)).offset ≤ x →
          x < (readExtent list (j * sizeofGlobalExtent)).offset
            + (readExtent list (j * sizeofGlobalExtent)).count → usedBlock v x := by
        intro j hj
        rw [hlist j hj]
        exact hs.used j hj
      have Epos : ∀ j, j < data.extentCount →
          1 ≤ (readExtent list (j * sizeofGlobalExtent)).count := by
        intro j hj
        rw [hlist j hj]
        exact hs.positive j hj
      have Eone : ∀ j, j < data.extentCount →
          ((readExtent list (j * sizeofGlobalExtent)).offset
              + (readExtent list (j * sizeofGlobalExtent)).count - 1) / v.superblock.blocksPerGroup
            = (readExtent list (j * sizeofGlobalExtent)).offset / v.superblock.blocksPerGroup := by
        intro j hj
        rw [hlist j hj]
        exact hs.oneGroup j hj
      have Edis : ∀ i j, i < j → j < data.extentCount →
          extentsDisjoint (readExtent list (i * sizeofGlobalExtent))
            (readExtent list (j * sizeofGlobalExtent)) := by
        intro i j hij hj
        rw [hlist j hj, hlist i (by omega)]
        exact hs.laidOut.disjoint i j hij hj
      have Edis' : ∀ i j, i < data.extentCount → j < data.extentCount → i ≠ j →
          (readExtent list (i * sizeofGlobalExtent)).offset
              + (readExtent list (i * sizeofGlobalExtent)).count
            ≤ (readExtent list (j * sizeofGlobalExtent)).offset
          ∨ (readExtent list (j * sizeofGlobalExtent)).offset
              + (readExtent list (j * sizeofGlobalExtent)).count
            ≤ (readExtent list (i * sizeofGlobalExtent)).offset := by
        intro i j hi hj hij
        have p1 := Epos i hi
        have p2 := Epos j hj
        rcases Nat.lt_or_gt_of_ne hij with hlt | hgt
        · have := Edis i j hlt hj
          unfold extentsDisjoint at this
          omega
        · have := Edis j i hgt hi
          unfold extentsDisjoint at this
          omega
      have Elist : data.indirection = ESFS_DATA_INDIRECT_2 →
          ∀ s, s < ESFS_INDIRECT_2_BLOCKS → data.indirect2 s ≠ 0 →
          ∀ j, j < data.extentCount →
            data.indirect2 s < (readExtent list (j * sizeofGlobalExtent)).offset
            ∨ (readExtent list (j * sizeofGlobalExtent)).offset
                + (readExtent list (j * sizeofGlobalExtent)).count ≤ data.indirect2 s := by
        intro hm s hs8 hne j hj
        rw [hlist j hj]
        exact hs.laidOut.listBlocks hm s hs8 hne j hj
      cases hcut : ShrinkDataStream.cut v list (BlocksNeededToStore v.superblock newSize)
          data.extentCount with
      | error f => rw [hcut] at h; cases h
      | ok p =>
        obtain ⟨v1, list1, nec⟩ := p
        rw [hcut] at h
        dsimp only at h
        obtain ⟨c1, c2, c3, c4, c5, c6, c7, c8, c9⟩ :=
          ShrinkDataStream.cut_spec v hvol.allocator list _ data.extentCount Epos Eone Eused hnb
            v1 list1 nec hcut
        cases hfree : ShrinkDataStream.freeRest list1 (data.extentCount - nec) nec v1 with
        | error f => rw [hfree] at h; cases h
        | ok v2 =>
          rw [hfree] at h
          dsimp only at h
          obtain ⟨r1, r2, r3, r4, r5⟩ :=
            ShrinkDataStream.freeRest_spec v list1 (data.extentCount - nec) nec v1 c5 c7
              (fun j h1 h2 => by rw [c3 j (by omega)]; exact Epos j (by omega))
              (fun j h1 h2 => by rw [c3 j (by omega)]; exact Eone j (by omega))
              (fun j h1 h2 x hx1 hx2 => by
                rw [c3 j (by omega)] at hx1 hx2
                apply c9 x (Eused j (by omega) x hx1 hx2)
                intro j' hj' a b
                have := Edis' j' j (by omega) (by omega) (by omega)
                omega)
              (fun j j' h1 h2 h3 => by
                rw [c3 j (by omega), c3 j' (by omega)]
                exact Edis j j' h2 (by omega))
              v2 hfree
          have hec : data.extentCount < 65536 := by
            have := hvol.listFits
            rcases hs.laidOut.mode with hm | hm
            · have := hs.small hm
              unfold ESFS_INDIRECT_EXTENTS at this
              omega
            · have := (hs.big hm).2
              omega
          have hu : u16 nec = nec := by
            unfold u16
            exact Nat.mod_eq_of_lt (by omega)
          rw [hu] at h
          cases hstore : ShrinkDataStream.store v.superblock
              { data with extentCount := nec } v2 list1 with
          | error f => rw [hstore] at h; cases h
          | ok p =>
            obtain ⟨d3, v3⟩ := p
            rw [hstore] at h
            dsimp only at h
            by_cases h64 : newSize ≤ ESFS_DIRECT_BYTES
            · rw [if_pos h64] at h
              simp only [Except.ok.injEq, Prod.mk.injEq, true_and] at h
              obtain ⟨hd, hv⟩ := h
              left
              rw [← hd]
            · rw [if_neg h64] at h
              simp only [Except.ok.injEq, Prod.mk.injEq, true_and] at h
              obtain ⟨hd, hv⟩ := h
              right
              have hused2 : ∀ x j, j < nec →
                  (readExtent list1 (j * sizeofGlobalExtent)).offset ≤ x →
                  x < (readExtent list1 (j * sizeofGlobalExtent)).offset
                    + (readExtent list1 (j * sizeofGlobalExtent)).count → usedBlock v2 x := by
                intro x j hj hx1 hx2
                obtain ⟨e1, e2, e3⟩ := c2 j hj
                have u := Eused j (by omega) x (by omega) (by omega)
                have u1 := c9 x u (fun j' hj' a b => by
                  by_cases hjj : j' = j
                  · rw [hjj]; exact hx2
                  · have := Edis' j' j (by omega) (by omega) hjj
                    omega)
                exact r5 x u1 (fun j'' h1 h2 hin => by
                  rw [c3 j'' (by omega)] at hin
                  have := Edis' j j'' (by omega) (by omega) (by omega)
                  omega)
              have hlused2 : data.indirection = ESFS_DATA_INDIRECT_2 →
                  ∀ s, s < ESFS_INDIRECT_2_BLOCKS → data.indirect2 s ≠ 0 →
                    usedBlock v2 (data.indirect2 s) := by
                intro hm s hs8 hne
                have u := hs.listUsed hm s hs8 hne
                have u1 := c9 _ u (fun j' hj' a b => by
                  have := Elist hm s hs8 hne j' (by omega)
                  omega)
                exact r5 _ u1 (fun j'' h1 h2 hin => by
                  rw [c3 j'' (by omega)] at hin
                  have := Elist hm s hs8 hne j'' (by omega)
                  omega)
              have hext : extentList v2 ({ data with extentCount := nec } : EsFSAttributeFileData)
                  = extentList v data := by
                show extentList v2 data = extentList v data
                obtain ⟨m2, hm2⟩ := r3
                exact extentList_frame2 v v2 data hvol.geometry.sectors (by rw [hm2])
                  (r4.1.trans c8.1) (r4.2.1.trans c8.2.1)
                  (fun _ _ _ _ a _ _ => by rw [r2, c6])
              obtain ⟨w1, w2, w3, w4⟩ := ShrinkDataStream.store_wf v hvol
                { data with extentCount := nec } v2 list1 newSize r1 r3
                ⟨r4.1.trans c8.1, r4.2.1.trans c8.2.1, r4.2.2.trans c8.2.2⟩
                (fun j hj x hx1 hx2 => hused2 x j hj hx1 hx2)
                (fun j hj => (c2 j hj).2.1)
                (fun j hj => by
                  replace hj : j < nec := hj
                  obtain ⟨e1, e2, e3⟩ := c2 j hj
                  have := Eone j (by omega)
                  rw [e1]
                  exact div_sandwich _ _ _ _ (by omega) (by omega) this)
                (fun i j hij hj => by
                  replace hj : j < nec := hj
                  obtain ⟨a1, a2, a3⟩ := c2 i (by omega)
                  obtain ⟨b1, b2, b3⟩ := c2 j hj
                  have := Edis' i j (by omega) (by omega) (by omega)
                  unfold extentsDisjoint
                  omega)
                (by rw [c4])
                (fun hbig => by
                  replace hbig : ESFS_INDIRECT_EXTENTS < nec := hbig
                  have hm : data.indirection = ESFS_DATA_INDIRECT_2 := by
                    rcases hs.laidOut.mode with hm | hm
                    · have := hs.small hm
                      omega
                    · exact hm
                  refine ⟨hm, ?_, ?_, hlused2 hm, hs.listDistinct hm, ?_, ?_⟩
                  · have := (hs.big hm).2
                    show nec < _
                    omega
                  · intro j hj hj1
                    replace hj : j < nec := hj
                    replace hj1 : j + 1 ≠ nec := hj1
                    rw [hext, c3 j hj1]
                    exact (hlist j (by omega)).symm
                  · intro s hs8 hne j hj
                    replace hj : j < nec := hj
                    obtain ⟨e1, e2, e3⟩ := c2 j hj
                    have := Elist hm s hs8 hne j (by omega)
                    replace hne : data.indirect2 s ≠ 0 := hne
                    show data.indirect2 s < _ ∨ _ ≤ data.indirect2 s
                    omega
                  · intro s hsn
                    replace hsn : s < BlocksNeededToStore v.superblock
                      (nec * sizeofGlobalExtent) := hsn
                    apply hs.listPresent hm s
                    refine Nat.lt_of_lt_of_le hsn ?_
                    exact BlocksNeededToStore_mono v.superblock hB0 _ _
                      (Nat.mul_le_mul_right _ c1))
                d3 v3 hstore
              rw [hd, hv] at w4
              rw [hv] at w1 w2 w3
              exact ⟨w1, w2, w3, w4, by rw [← hd]⟩

/-! ### ResizeDataStream keeps the stream invariants -/

/-- The volume invariants carry over to a volume with the same geometry whose
allocator state is well formed. -/
theorem VolumeWF.of_geometry {v0 v : EsFSVolume} (h : VolumeWF v0) (hwf : AllocatorWF v)
    (hsb : ∃ n, v.superblock = { v0.superblock with blocksUsed := n })
    (hd : v.sectorsPerBlock = v0.sectorsPerBlock ∧ v.sectorSize = v0.sectorSize
      ∧ v.maxAccessSectorCount = v0.maxAccessSectorCount) : VolumeWF v := by
  have hgeo := AccessGeometry.of_same h.geometry hsb hd
  obtain ⟨n, hsb⟩ := hsb
  have hB : v.superblock.blockSize = v0.superblock.blockSize := by rw [hsb]
  refine ⟨hgeo, hwf, by rw [hB]; exact h.extentSize, ?_⟩
  have : extentsPerBlock v.superblock = extentsPerBlock v0.superblock := by
    unfold extentsPerBlock; rw [hB]
  rw [this]
  exact h.listFits

/-- A successful `ResizeDataStream` keeps the invariants: from a DIRECT stream
without extents or a stream that satisfies the stream invariants, on a volume
that satisfies the volume invariants, it leaves a DIRECT stream, or a stream
of the new size that satisfies the stream invariants on a volume that
satisfies the volume invariants. -/
theorem ResizeDataStream_wf (v : EsFSVolume) (hvol : VolumeWF v) (data : EsFSAttributeFileData)
    (newSize cb : Nat) (clear : Bool) (uninit : Nat → Nat)
    (hdata : (data.indirection = ESFS_DATA_DIRECT ∧ data.extentCount = 0) ∨ StreamWF v data)
    (hnew64 : newSize < 18446744073709551616)
    (hlg : cb / v.superblock.blocksPerGroup < v.superblock.groupCount)
    (data' : EsFSAttributeFileData) (v' : EsFSVolume)
    (h : ResizeDataStream v data newSize clear cb uninit = .ok (true, data', v')) :
    data'.indirection = ESFS_DATA_DIRECT
      ∨ (VolumeWF v' ∧ StreamWF v' data' ∧ data'.size = newSize) := by
  unfold ResizeDataStream at h
  by_cases hg : newSize > data.size
  · rw [if_pos hg] at h
    rcases GrowDataStream_wf v hvol data newSize cb clear uninit hdata hg hnew64 hlg data' v' h
      with hd | ⟨a, b, c, d, e⟩
    · exact Or.inl hd
    · exact Or.inr ⟨hvol.of_geometry a b c, d, e⟩
  · rw [if_neg hg] at h
    by_cases hl : newSize < data.size
    · rw [if_pos hl] at h
      rcases hdata with ⟨hd, _⟩ | hs
      · unfold ShrinkDataStream at h
        rw [if_pos hd] at h
        simp only [Except.ok.injEq, Prod.mk.injEq, true_and] at h
        obtain ⟨h1, _⟩ := h
        rw [← h1]
        exact Or.inl hd
      · rcases ShrinkDataStream_wf v hvol data newSize hs hl data' v' h with hd | ⟨a, b, c, d, e⟩
        · exact Or.inl hd
        · exact Or.inr ⟨hvol.of_geometry a b c, d, e⟩
    · rw [if_neg hl] at h
      simp only [Except.ok.injEq, Prod.mk.injEq, true_and] at h
      obtain ⟨h1, h2⟩ := h
      subst h1 h2
      rcases hdata with ⟨hd, _⟩ | hs
      · exact Or.inl hd
      · exact Or.inr ⟨hvol, hs, by omega⟩

/-- In a stream that satisfies the stream invariants, `GetBlockFromStream`
returns for every offset below the size a block that is not 0, lies in an
extent of the stream and inside the volume, and is in no free extent. -/
theorem StreamWF.block (v : EsFSVolume) (hvol : VolumeWF v) (data : EsFSAttributeFileData)
    (hs : StreamWF v data) (hsize : data.size < 18446744073709551616)
    (offset : Nat) (ho : offset < data.size) :
    ∃ b, GetBlockFromStream v data offset = .ok b ∧ b ≠ 0
      ∧ (∃ e, e ∈ streamExtents v data ∧ e.offset ≤ b ∧ b < e.offset + e.count)
      ∧ b < v.superblock.blockCount ∧ ¬ freeBlock v b := by
  obtain ⟨k, hk, hBk⟩ := hvol.geometry.blockSizePow
  have hB0 : 0 < v.superblock.blockSize := by rw [hBk]; exact Nat.two_pow_pos k
  have hd1 : ESFS_DATA_INDIRECT ≠ ESFS_DATA_DIRECT := by decide
  have hd2 : ESFS_DATA_INDIRECT_2 ≠ ESFS_DATA_DIRECT := by decide
  have hnd : data.indirection ≠ ESFS_DATA_DIRECT := by
    rcases hs.laidOut.mode with hm | hm
    · rw [hm]; exact hd1
    · rw [hm]; exact hd2
  have hal : alignToBlock v.superblock offset / v.superblock.blockSize
      = offset / v.superblock.blockSize := by
    rw [alignToBlock_eq v.superblock k hk hBk offset (by omega)]
    have h1 := Nat.div_add_mod offset v.superblock.blockSize
    have h2 := Nat.mod_lt offset hB0
    have e : offset - offset % v.superblock.blockSize
        = v.superblock.blockSize * (offset / v.superblock.blockSize) := by omega
    rw [e, Nat.mul_div_cancel_left _ hB0]
  have hb := div_lt_blocksNeeded v.superblock hB0 offset data.size ho
  obtain ⟨j, hj, h1, h2⟩ := findBlock_mem (extentList v data) data.extentCount
    (hs.fit hvol.allocator.blockCount)
    (offset / v.superblock.blockSize) (Nat.lt_of_lt_of_le hb hs.laidOut.covers)
  have hu := hs.used j hj _ h1 h2
  refine ⟨streamBlock v data (offset / v.superblock.blockSize), ?_, ?_, ?_, ?_, ?_⟩
  · unfold GetBlockFromStream
    rw [if_neg hnd]
    dsimp only
    rw [if_pos hs.laidOut.mode, hal]
  · have := hu.1
    unfold streamBlock
    omega
  · refine ⟨extentList v data j, ?_, h1, h2⟩
    unfold streamExtents
    exact List.mem_map.2 ⟨j, List.mem_range.2 hj, rfl⟩
  · exact hu.2.1
  · exact hu.2.2.2.2

/-- After a successful `ResizeDataStream` of a DIRECT stream without extents
or of a stream that satisfies the stream invariants, on a volume that
satisfies the volume invariants, a stream that is left INDIRECT or INDIRECT_2
maps every offset below its size to a block that is not 0, lies in one of its
extents and inside the volume, and is in no free extent. -/
theorem ResizeDataStream_blocks_in_use (v : EsFSVolume) (hvol : VolumeWF v)
    (data : EsFSAttributeFileData) (newSize cb : Nat) (clear : Bool) (uninit : Nat → Nat)
    (hdata : (data.indirection = ESFS_DATA_DIRECT ∧ data.extentCount = 0) ∨ StreamWF v data)
    (hnew64 : newSize < 18446744073709551616)
    (hlg : cb / v.superblock.blocksPerGroup < v.superblock.groupCount)
    (data' : EsFSAttributeFileData) (v' : EsFSVolume)
    (h : ResizeDataStream v data newSize clear cb uninit = .ok (true, data', v'))
    (hmode : data'.indirection = ESFS_DATA_INDIRECT ∨ data'.indirection = ESFS_DATA_INDIRECT_2)
    (offset : Nat) (ho : offset < data'.size) :
    ∃ b, GetBlockFromStream v' data' offset = .ok b ∧ b ≠ 0
      ∧ (∃ e, e ∈ streamExtents v' data' ∧ e.offset ≤ b ∧ b < e.offset + e.count)
      ∧ b < v'.superblock.blockCount ∧ ¬ freeBlock v' b := by
  have hd1 : ESFS_DATA_INDIRECT ≠ ESFS_DATA_DIRECT := by decide
  have hd2 : ESFS_DATA_INDIRECT_2 ≠ ESFS_DATA_DIRECT := by decide
  rcases ResizeDataStream_wf v hvol data newSize cb clear uninit hdata hnew64 hlg data' v' h
    with hd | ⟨a, b, c⟩
  · rcases hmode with hm | hm
    · exact absurd (hm.symm.trans hd) hd1
    · exact absurd (hm.symm.trans hd) hd2
  · exact StreamWF.block v' a data' b (by omega) offset ho

theorem volumeWF_sampleVolume : VolumeWF sampleVolume :=
  ⟨accessGeometry_sampleVolume, allocatorWF_sampleVolume, by decide, by decide⟩

/-- The stream "hello" resized to 100 bytes on the sample volume: the call
succeeds, the stream is INDIRECT, and every offset below its size maps to a
block in use. -/
theorem ResizeDataStream_blocks_in_use_hello :
    ∃ data' v', ResizeDataStream sampleVolume helloStream 100 false 34 (fun _ => 0)
        = .ok (true, data', v')
      ∧ data'.indirection = ESFS_DATA_INDIRECT
      ∧ ∀ offset, offset < data'.size →
          ∃ b, GetBlockFromStream v' data' offset = .ok b ∧ b ≠ 0
            ∧ (∃ e, e ∈ streamExtents v' data' ∧ e.offset ≤ b ∧ b < e.offset + e.count)
            ∧ b < v'.superblock.blockCount ∧ ¬ freeBlock v' b := by
  have h0 : (ResizeDataStream sampleVolume helloStream 100 false 34 (fun _ => 0)).map
      (fun r => (r.1, r.2.1.indirection)) = .ok (true, ESFS_DATA_INDIRECT) := rfl
  cases hr : ResizeDataStream sampleVolume helloStream 100 false 34 (fun _ => 0) with
  | error f => rw [hr] at h0; cases h0
  | ok x =>
    obtain ⟨b, d, w⟩ := x
    rw [hr] at h0
    simp only [Except.map, Except.ok.injEq, Prod.mk.injEq] at h0
    obtain ⟨hb, hm⟩ := h0
    subst hb
    exact ⟨d, w, rfl, hm, fun offset ho =>
      ResizeDataStream_blocks_in_use sampleVolume volumeWF_sampleVolume helloStream 100 34 false
        (fun _ => 0) (Or.inl ⟨rfl, rfl⟩) (by decide) (by decide) d w hr (Or.inl hm) offset ho⟩

/-! ### Promotion of a direct stream: the mode of the result -/

theorem searchOrder_lt (v : EsFSVolume) (g : Nat) (hg : g < v.superblock.groupCount) (k : Nat) :
    searchOrder v g k < v.superblock.groupCount := by
  cases k with
  | zero => exact hg
  | succ k => exact Nat.mod_lt _ (by omega)

theorem searchOrder_eq (v : EsFSVolume) (g : Nat) (hg : g < v.superblock.groupCount) (k : Nat) :
    searchOrder v g k = (g + k) % v.superblock.groupCount := by
  induction k with
  | zero => exact (Nat.mod_eq_of_lt hg).symm
  | succ k ih =>
    show (searchOrder v g k + 1) % _ = _
    rw [ih, Nat.add_mod, Nat.mod_mod, ← Nat.add_mod, Nat.add_assoc]

/-- The group loop of `AllocateExtent` reaches every group. -/
theorem searchOrder_covers (v : EsFSVolume) (g : Nat) (hg : g < v.superblock.groupCount)
    (g' : Nat) (hg' : g' < v.superblock.groupCount) :
    ∃ k, k < v.superblock.groupCount ∧ searchOrder v g k = g' := by
  by_cases h : g ≤ g'
  · refine ⟨g' - g, by omega, ?_⟩
    rw [searchOrder_eq v g hg, show g + (g' - g) = g' by omega, Nat.mod_eq_of_lt hg']
  · refine ⟨g' + v.superblock.groupCount - g, by omega, ?_⟩
    rw [searchOrder_eq v g hg,
      show g + (g' + v.superblock.groupCount - g) = g' + v.superblock.groupCount by omega,
      Nat.add_mod_right, Nat.mod_eq_of_lt hg']

theorem freeCount_pos_iff (table : List EsFSLocalExtent) (h : freeCount table ≠ 0) :
    table ≠ [] := by
  intro h0
  rw [h0] at h
  exact h rfl

/-- A group that is not full has a free extent, if its accounting is right. -/
theorem loadedTable_ne_nil (v : EsFSVolume) (g : Nat) (hacc : groupAccounted v g)
    (hfull : ¬ groupFull v g) : AllocateExtent.loadedTable v g ≠ [] := by
  by_cases h0 : (v.groupDescriptorTable g).extentTable = 0
  · unfold AllocateExtent.loadedTable
    simp only [h0, if_true]
    exact List.cons_ne_nil _ _
  · apply freeCount_pos_iff
    intro hz
    apply hfull
    unfold groupAccounted at hacc
    unfold groupFull
    rw [hz] at hacc
    unfold AllocateExtent.loadDescriptor at hacc
    simp only [h0, if_false] at hacc
    omega

/-- The group loop of `AllocateExtent`, for a request of at least one block on
tables whose extents have at least one block: the result is a zero-count
extent exactly when every group that the loop visits is full, and then the
volume is unchanged. -/
theorem AllocateExtent.search_zero (v : EsFSVolume) (d u : Nat) (hd : 1 ≤ d)
    (hpos : ∀ g, g < v.superblock.groupCount →
      ∀ e, e ∈ AllocateExtent.loadedTable v g → 1 ≤ e.count)
    (hne : ∀ g, g < v.superblock.groupCount → ¬ groupFull v g →
      AllocateExtent.loadedTable v g ≠ []) :
    ∀ (remaining g : Nat), g < v.superblock.groupCount →
      ∀ E v', AllocateExtent.search v d u remaining g = .ok (E, v') →
        (E.count = 0 ↔ ∀ k, k < remaining → groupFull v (searchOrder v g k))
          ∧ (E.count = 0 → v' = v) := by
  intro remaining
  induction remaining with
  | zero =>
    intro g _ E v' h
    simp only [AllocateExtent.search, Except.ok.injEq, Prod.mk.injEq] at h
    obtain ⟨h1, h2⟩ := h
    subst h1 h2
    exact ⟨⟨fun _ k hk => absurd hk (Nat.not_lt_zero k), fun _ => rfl⟩, fun _ => rfl⟩
  | succ remaining ih =>
    intro g hg E v' h
    have hnext : (g + 1) % v.superblock.groupCount < v.superblock.groupCount :=
      Nat.mod_lt _ (by omega)
    have hfirst : ∀ P : Prop, ¬ groupFull v g → ¬ P →
        (P ↔ ∀ k, k < remaining + 1 → groupFull v (searchOrder v g k)) := by
      intro P hnf hnP
      exact ⟨fun hP => absurd hP hnP, fun hall => absurd (hall 0 (Nat.succ_pos _)) hnf⟩
    simp only [AllocateExtent.search] at h
    split at h
    · rename_i hfull
      obtain ⟨i1, i2⟩ := ih _ hnext E v' h
      refine ⟨?_, i2⟩
      rw [i1]
      constructor
      · intro hall k hk
        cases k with
        | zero => exact hfull
        | succ k =>
          rw [← searchOrder_succ]
          exact hall k (by omega)
      · intro hall k hk
        rw [searchOrder_succ]
        exact hall (k + 1) (by omega)
    · rename_i hfull
      have hnf : ¬ groupFull v g := hfull
      have hEne : E.count ≠ 0 := by
        split at h
        · cases h
        · have hlen := AllocateExtent.loadedTable_length v g
          have hT := hne g hg hnf
          have hp := hpos g hg
          generalize AllocateExtent.loadedTable v g = T at h hlen hT hp
          rcases hs : AllocateExtent.scan T d u T 0 0 with ⟨r, l⟩
          rw [hs] at h
          cases r with
          | some r =>
            obtain ⟨e, T', n⟩ := r
            have hc := AllocateExtent.scan_some_count T d u T 0 0 (e, T', n) (by rw [hs])
            simp only [Except.ok.injEq] at h
            have hE1 : _ = E := congrArg Prod.fst h
            simp only [AllocateExtent.finish_fst] at hE1
            rw [← hE1]
            show e.count ≠ 0
            simp only at hc
            omega
          | none =>
            simp only at h
            have hTlen : 0 < T.length := List.length_pos.2 hT
            rw [if_neg (by omega)] at h
            have hl := (AllocateExtent.scan_none T d u T 0 0 (by rw [hs])).2
            rw [hs] at hl
            simp only [Nat.zero_add] at hl
            have hl' : l < T.length := by
              rcases hl with h0 | h0
              · omega
              · exact h0.2
            obtain ⟨pre, x, post, hTx, hpl, hxl⟩ := list_split_at T l hl'
            have hx := hp x (by rw [hTx]; simp)
            simp only [Except.ok.injEq] at h
            have hE1 : _ = E := congrArg Prod.fst h
            simp only [AllocateExtent.finish_fst] at hE1
            rw [← hE1, ← hxl]
            show x.count ≠ 0
            omega
      exact ⟨hfirst _ hnf hEne, fun h0 => absurd h0 hEne⟩

/-- C11: for a request of at least one block, starting at a group of the
volume, on an allocator state in which the free extents of every group have at
least one block each and add up, with `descriptor.blocksUsed`, to the blocks of
the group: `AllocateExtent` returns a zero-count extent if and only if every
group is full, and a call that returns a zero-count extent leaves the whole
volume (superblock, group descriptor table, extent tables) unchanged. -/
theorem AllocateExtent_zero_iff_full (v : EsFSVolume) (localGroup desiredBlocks uninit : Nat)
    (hd : 1 ≤ desiredBlocks) (hlg : localGroup < v.superblock.groupCount)
    (hpos : ∀ g, g < v.superblock.groupCount →
      ∀ e, e ∈ AllocateExtent.loadedTable v g → 1 ≤ e.count)
    (hacc : ∀ g, g < v.superblock.groupCount → groupAccounted v g) :
    ((∃ E v', AllocateExtent v localGroup desiredBlocks uninit = .ok (E, v') ∧ E.count = 0)
        ↔ ∀ g, g < v.superblock.groupCount → groupFull v g)
      ∧ ∀ E v', AllocateExtent v localGroup desiredBlocks uninit = .ok (E, v') →
          E.count = 0 → v' = v := by
  have hz := AllocateExtent.search_zero v desiredBlocks uninit hd hpos
    (fun g hg hnf => loadedTable_ne_nil v g (hacc g hg) hnf) v.superblock.groupCount
    localGroup hlg
  unfold AllocateExtent
  refine ⟨⟨?_, ?_⟩, fun E v' h h0 => (hz E v' h).2 h0⟩
  · rintro ⟨E, v', h, h0⟩ g hg
    obtain ⟨k, hk, hkg⟩ := searchOrder_covers v localGroup hlg g hg
    rw [← hkg]
    exact ((hz E v' h).1.1 h0) k hk
  · intro hall
    have hskip := AllocateExtent.search_skip v desiredBlocks uninit v.superblock.groupCount 0
      localGroup (fun j hj => hall _ (searchOrder_lt v localGroup hlg j))
    rw [Nat.zero_add] at hskip
    exact ⟨⟨0, 0⟩, v, by rw [hskip]; rfl, rfl⟩

theorem groupAccounted_sampleVolume (g : Nat) (hg : g < 32) : groupAccounted sampleVolume g := by
  unfold groupAccounted
  interval_cases g <;> rfl

theorem loadedTable_sampleVolume_pos (g : Nat) (e : EsFSLocalExtent)
    (he : e ∈ AllocateExtent.loadedTable sampleVolume g) : 1 ≤ e.count := by
  rw [loadedTable_sampleVolume] at he
  split at he
  · rw [List.mem_singleton.1 he]; decide
  · split at he
    · rw [List.mem_singleton.1 he]; decide
    · rw [List.mem_singleton.1 he]; decide

theorem AllocateExtent_zero_iff_full_witness :
    ((∃ E v', AllocateExtent sampleVolume 0 1 0 = .ok (E, v') ∧ E.count = 0)
        ↔ ∀ g, g < sampleVolume.superblock.groupCount → groupFull sampleVolume g)
      ∧ ∀ E v', AllocateExtent sampleVolume 0 1 0 = .ok (E, v') → E.count = 0 →
          v' = sampleVolume :=
  AllocateExtent_zero_iff_full sampleVolume 0 1 0 (by decide) (by decide)
    (fun g _ e he => loadedTable_sampleVolume_pos g e he)
    (fun g hg => groupAccounted_sampleVolume g hg)

/-! ### Disjoint free extents -/

/-- The outcomes of the group loop of `AllocateExtent`: no group gave an extent
and the volume is unchanged, or one group gave up an extent of its table. -/
theorem AllocateExtent.search_cases (v : EsFSVolume) (d u : Nat) (hwf : AllocatorWF v) :
    ∀ (remaining g : Nat), g < v.superblock.groupCount →
      ∀ E v', AllocateExtent.search v d u remaining g = .ok (E, v') →
        (E = ⟨0, 0⟩ ∧ v' = v) ∨ ∃ g' e table', g' < v.superblock.groupCount
          ∧ TakeOut (AllocateExtent.loadedTable v g') e table'
          ∧ E = ⟨e.offset + g' * v.superblock.blocksPerGroup, e.count⟩ ∧ e.count ≤ d
          ∧ v' = (AllocateExtent.finish v g'
              { AllocateExtent.loadDescriptor v g' with extentCount := table'.length }
              ⟨e.offset, e.count⟩ table').2 := by
  intro remaining
  induction remaining with
  | zero =>
    intro g _ E v' h
    simp only [AllocateExtent.search, Except.ok.injEq, Prod.mk.injEq] at h
    exact Or.inl ⟨h.1.symm, h.2.symm⟩
  | succ remaining ih =>
    intro g hg E v' h
    have hnext : (g + 1) % v.superblock.groupCount < v.superblock.groupCount :=
      Nat.mod_lt _ (by omega)
    simp only [AllocateExtent.search] at h
    split at h
    · exact ih _ hnext E v' h
    · split at h
      · cases h
      · have hgood := hwf.tables g hg
        have hlen := AllocateExtent.loadedTable_length v g
        generalize hTdef : AllocateExtent.loadedTable v g = T at h hgood hlen
        rcases scan_cases d T with hall | ⟨pre, x, post, hT, hpre, hx⟩
        · have hnone := AllocateExtent.scan_all_lt T d u T hall 0 0
          rcases hs : AllocateExtent.scan T d u T 0 0 with ⟨r, l⟩
          rw [hs] at hnone h
          simp only at hnone
          subst hnone
          simp only at h
          split at h
          · exact ih _ hnext E v' h
          · rename_i hcount
            have hl := (AllocateExtent.scan_none T d u T 0 0 (by rw [hs])).2
            rw [hs] at hl
            simp only [Nat.zero_add] at hl
            have hTlen : 0 < T.length := by omega
            have hl' : l < T.length := by
              rcases hl with h0 | h0
              · omega
              · exact h0.2
            obtain ⟨pre, x, post, hT, hpl, hxl⟩ := list_split_at T l hl'
            simp only [Except.ok.injEq] at h
            have hE1 : _ = E := congrArg Prod.fst h
            have hv1 : _ = v' := congrArg Prod.snd h
            simp only [AllocateExtent.finish_fst] at hE1
            refine Or.inr ⟨g, x, swapRemove T l, hg, ?_, ?_, ?_, ?_⟩
            · rw [hTdef]
              exact ⟨pre, x, post, hT, Or.inr ⟨rfl, by rw [hT, ← hpl]; exact swapRemove_perm _ _ _⟩⟩
            · rw [← hE1, hxl]
            · rw [hxl]; exact getD_count_le_of_forall_lt T d l hall
            · rw [← hv1, swapRemove_length, hlen, hxl]
        · have hscan := AllocateExtent.scan_found T d u pre x post hpre hx 0 0
          rw [← hT] at hscan
          rcases hs : AllocateExtent.scan T d u T 0 0 with ⟨r, l⟩
          rw [hs] at hscan h
          simp only at hscan
          subst hscan
          simp only [Except.ok.injEq, Nat.zero_add] at h
          have hE1 : _ = E := congrArg Prod.fst h
          have hv1 : _ = v' := congrArg Prod.snd h
          simp only [AllocateExtent.finish_fst] at hE1
          have hxg := hgood.inGroup x (by rw [hT]; simp)
          by_cases hlt : d < x.count
          · simp only [hlt, if_true] at hv1
            have hb := hwf.groupSize
            refine Or.inr ⟨g, ⟨x.offset, d⟩, pre ++ ⟨x.offset + d, x.count - d⟩ :: post, hg, ?_, ?_,
              Nat.le_refl _, ?_⟩
            · rw [hTdef]
              exact ⟨pre, x, post, hT, Or.inl ⟨rfl, hlt, rfl⟩⟩
            · rw [← hE1]
            · rw [← hv1, hT, set_append_length, u16_of_lt (by omega), u16_of_lt (by omega)]
              simp
          · have hxd : x.count = d := by omega
            simp only [hlt, if_false] at hv1
            refine Or.inr ⟨g, x, swapRemove T pre.length, hg, ?_, ?_, by omega, ?_⟩
            · rw [hTdef]
              exact ⟨pre, x, post, hT, Or.inr ⟨rfl, by rw [hT]; exact swapRemove_perm _ _ _⟩⟩
            · rw [← hE1, hxd]
            · rw [← hv1, swapRemove_length, hxd]

theorem localDisjoint.shareNoBlock {a b : EsFSLocalExtent} (h : localDisjoint a b) :
    shareNoBlock a b := by
  intro x hx
  unfold localDisjoint at h
  omega

theorem TableGood.pairwise_shareNoBlock {bpg : Nat} {table : List EsFSLocalExtent}
    (h : TableGood bpg table) : table.Pairwise shareNoBlock :=
  h.disjoint.imp (fun hab => hab.shareNoBlock)

/-- Taking no block out of a table leaves the table as it is. -/
theorem TakeOut.of_zero {bpg : Nat} {table table' : List EsFSLocalExtent} {e : EsFSLocalExtent}
    (hg : TableGood bpg table) (ht : TakeOut table e table') (he : e.count = 0) :
    table' = table := by
  obtain ⟨pre, x, post, hT, hcase⟩ := ht
  have hx := (hg.inGroup x (by rw [hT]; simp)).1
  rcases hcase with ⟨_, _, h3⟩ | ⟨h1, _⟩
  · rw [h3, hT, he]
    rfl
  · rw [h1] at he
    omega

/-- What a `FreeExtent` that returns has done: the merge loop ran on the table
of the group of the first block, and the merged extent went to the end. -/
theorem FreeExtent_ok (v : EsFSVolume) (E : EsFSGlobalExtent) (v' : EsFSVolume)
    (h : FreeExtent v E = .ok v') :
    ∃ T f,
      FreeExtent.merge
          (loadTable (v.extentTables
              (v.groupDescriptorTable (E.offset / v.superblock.blocksPerGroup)).extentTable)
            (v.groupDescriptorTable (E.offset / v.superblock.blocksPerGroup)).extentCount).length
          (loadTable (v.extentTables
              (v.groupDescriptorTable (E.offset / v.superblock.blocksPerGroup)).extentTable)
            (v.groupDescriptorTable (E.offset / v.superblock.blocksPerGroup)).extentCount)
          0 ⟨u16 (E.offset % v.superblock.blocksPerGroup), u16 E.count⟩ = .ok (T, f)
      ∧ v' = { v with
          superblock := { v.superblock with blocksUsed := sub64 v.superblock.blocksUsed E.count }
          groupDescriptorTable := Function.update v.groupDescriptorTable
            (E.offset / v.superblock.blocksPerGroup)
            ⟨(v.groupDescriptorTable (E.offset / v.superblock.blocksPerGroup)).extentTable,
              u16 (T ++ [f]).length,
              sub16 (v.groupDescriptorTable (E.offset / v.superblock.blocksPerGroup)).blocksUsed
                E.count⟩
          extentTables := Function.update v.extentTables
            (v.groupDescriptorTable (E.offset / v.superblock.blocksPerGroup)).extentTable
            (T ++ [f]) } := by
  unfold FreeExtent at h
  dsimp only at h
  split at h
  · cases h
  · rename_i T f hm
    split at h
    · cases h
    · simp only [Except.ok.injEq] at h
      exact ⟨T, f, hm, h.symm⟩

/-- Freeing an extent in a group without an extent table changes neither the
table nor the descriptor that `AllocateExtent` works on, in any group. -/
theorem FreeExtent_unready (v : EsFSVolume) (E : EsFSGlobalExtent) (v' : EsFSVolume)
    (h : FreeExtent v E = .ok v')
    (h0 : (v.groupDescriptorTable (E.offset / v.superblock.blocksPerGroup)).extentTable = 0)
    (g' : Nat) :
    AllocateExtent.loadedTable v' g' = AllocateExtent.loadedTable v g'
      ∧ AllocateExtent.loadDescriptor v' g' = AllocateExtent.loadDescriptor v g' := by
  obtain ⟨T, f, _, hv'⟩ := FreeExtent_ok v E v' h
  generalize E.offset / v.superblock.blocksPerGroup = g at h0 hv'
  rw [h0] at hv'
  have hgdt : ∀ g', (v'.groupDescriptorTable g').extentTable
      = (v.groupDescriptorTable g').extentTable := by
    intro g'
    rw [hv']
    show (Function.update v.groupDescriptorTable g _ g').extentTable = _
    by_cases hgg : g' = g
    · subst hgg; rw [Function.update_same, h0]
    · rw [Function.update_noteq hgg]
  have hsb1 : v'.superblock.blocksPerGroupExtentTable = v.superblock.blocksPerGroupExtentTable := by
    rw [hv']
  have hsb2 : v'.superblock.blocksPerGroup = v.superblock.blocksPerGroup := by rw [hv']
  have hbig : GetBlocksInGroup v'.superblock g' = GetBlocksInGroup v.superblock g' :=
    GetBlocksInGroup_congr _ _ (by rw [hv']) (by rw [hv']) (by rw [hv']) g'
  by_cases hz : (v.groupDescriptorTable g').extentTable = 0
  · unfold AllocateExtent.loadedTable AllocateExtent.loadDescriptor
    simp only [hgdt, hz, if_true, hsb1, hsb2, hbig]
    exact ⟨trivial, trivial⟩
  · have hne : g' ≠ g := fun hgg => hz (by rw [hgg]; exact h0)
    have hd : v'.groupDescriptorTable g' = v.groupDescriptorTable g' := by
      rw [hv']
      exact Function.update_noteq hne _ _
    have ht : v'.extentTables (v.groupDescriptorTable g').extentTable
        = v.extentTables (v.groupDescriptorTable g').extentTable := by
      rw [hv']
      exact Function.update_noteq hz _ _
    unfold AllocateExtent.loadedTable AllocateExtent.loadDescriptor
    simp only [hd, hz, if_false, ht]
    exact ⟨trivial, trivial⟩

/-- Freeing an extent of at least one block that lies inside a group with an
extent table and shares no block with the free extents: the merge loop runs on
the table of the group with the extent made group relative, the tables stay
well formed, and the new table of the group is the merged table. -/
theorem FreeExtent_ready (v : EsFSVolume) (hwf : AllocatorWF v) (E : EsFSGlobalExtent)
    (g : Nat) (hg : g < v.superblock.groupCount)
    (hlo : g * v.superblock.blocksPerGroup ≤ E.offset)
    (hhi : E.offset + E.count ≤ g * v.superblock.blocksPerGroup + v.superblock.blocksPerGroup)
    (hready : (v.groupDescriptorTable g).extentTable ≠ 0)
    (hc : 1 ≤ E.count)
    (hused : ∀ x, E.offset ≤ x → x < E.offset + E.count → ¬ freeBlock v x)
    (v' : EsFSVolume) (h : FreeExtent v E = .ok v') :
    ∃ T f,
      FreeExtent.merge (AllocateExtent.loadedTable v g).length (AllocateExtent.loadedTable v g) 0
          ⟨E.offset - g * v.superblock.blocksPerGroup, E.count⟩ = .ok (T, f)
      ∧ TableGood v.superblock.blocksPerGroup
          (AllocateExtent.loadedTable v g ++ [⟨E.offset - g * v.superblock.blocksPerGroup, E.count⟩])
      ∧ TableGood v.superblock.blocksPerGroup (T ++ [f])
      ∧ (∀ x, inTable (T ++ [f]) x
          ↔ inTable (AllocateExtent.loadedTable v g
              ++ [⟨E.offset - g * v.superblock.blocksPerGroup, E.count⟩]) x)
      ∧ ∀ g', g' < v.superblock.groupCount →
          AllocateExtent.loadedTable v' g'
            = if g' = g then T ++ [f] else AllocateExtent.loadedTable v g' := by
  have hb := hwf.groupSize
  have hgrp : E.offset / v.superblock.blocksPerGroup = g :=
    div_eq_of_group _ _ _ hlo (by omega)
  have hmod : E.offset % v.superblock.blocksPerGroup = E.offset - g * v.superblock.blocksPerGroup := by
    have := Nat.div_add_mod E.offset v.superblock.blocksPerGroup
    rw [hgrp, Nat.mul_comm] at this
    omega
  have hf1 : u16 (E.offset % v.superblock.blocksPerGroup)
      = E.offset - g * v.superblock.blocksPerGroup := by
    rw [hmod]; exact u16_of_lt (by omega)
  have hf2 : u16 E.count = E.count := u16_of_lt (by omega)
  have htable : loadTable (v.extentTables (v.groupDescriptorTable g).extentTable)
      (v.groupDescriptorTable g).extentCount = AllocateExtent.loadedTable v g := by
    unfold AllocateExtent.loadedTable
    simp only [hready, if_false]
  have hgood := hwf.tables g hg
  have hinit : TableGood v.superblock.blocksPerGroup
      (AllocateExtent.loadedTable v g ++ [⟨E.offset - g * v.superblock.blocksPerGroup, E.count⟩]) := by
    refine ⟨?_, ?_⟩
    · intro e he
      rcases List.mem_append.1 he with he | he
      · exact hgood.inGroup e he
      · rw [List.mem_singleton] at he
        subst he
        exact ⟨hc, by show E.offset - g * v.superblock.blocksPerGroup + E.count ≤ _; omega⟩
    · rw [List.pairwise_append]
      refine ⟨hgood.disjoint, List.pairwise_singleton _ _, ?_⟩
      intro e he f hf
      rw [List.mem_singleton] at hf
      subst hf
      have hin := hgood.inGroup e he
      unfold localDisjoint
      show e.offset + e.count ≤ E.offset - g * v.superblock.blocksPerGroup
        ∨ E.offset - g * v.superblock.blocksPerGroup + E.count ≤ e.offset
      by_contra hcon
      push_neg at hcon
      by_cases hle : e.offset ≤ E.offset - g * v.superblock.blocksPerGroup
      · exact hused E.offset (Nat.le_refl _) (by omega) ⟨g, hg, e, he, by omega, by omega⟩
      · exact hused (g * v.superblock.blocksPerGroup + e.offset) (by omega) (by omega)
          ⟨g, hg, e, he, by omega, by omega⟩
  obtain ⟨T, f, hm, hv'⟩ := FreeExtent_ok v E v' h
  rw [hgrp, htable, hf1, hf2] at hm
  rw [hgrp] at hv'
  obtain ⟨hT, hTin⟩ := FreeExtent.merge_spec _ hb.2 _ _ _ _ hinit T f hm
  have hlen : u16 (T ++ [f]).length = (T ++ [f]).length :=
    u16_of_lt (Nat.lt_of_le_of_lt hT.length_le hb.2)
  rw [hlen] at hv'
  refine ⟨T, f, hm, hinit, hT, hTin, ?_⟩
  intro g' hg'
  rw [hv']
  exact FreeExtent.loadedTable_store v hwf g hg hready (T ++ [f]) _ _ _ rfl g' hg'

/-- After a `FreeExtent` of an extent of at least one block that lies inside a
group and shares no block with the free extents, the table of every group is
well formed. -/
theorem FreeExtent_tableGood (v : EsFSVolume) (hwf : AllocatorWF v) (E : EsFSGlobalExtent)
    (g : Nat) (hg : g < v.superblock.groupCount)
    (hlo : g * v.superblock.blocksPerGroup ≤ E.offset)
    (hhi : E.offset + E.count ≤ g * v.superblock.blocksPerGroup + v.superblock.blocksPerGroup)
    (hc : 1 ≤ E.count)
    (hused : ∀ x, E.offset ≤ x → x < E.offset + E.count → ¬ freeBlock v x)
    (v' : EsFSVolume) (h : FreeExtent v E = .ok v') (g' : Nat)
    (hg' : g' < v.superblock.groupCount) :
    TableGood v.superblock.blocksPerGroup (AllocateExtent.loadedTable v' g') := by
  by_cases hready : (v.groupDescriptorTable g).extentTable = 0
  · have hgrp : E.offset / v.superblock.blocksPerGroup = g :=
      div_eq_of_group _ _ _ hlo (by have := hwf.groupSize; omega)
    rw [(FreeExtent_unready v E v' h (by rw [hgrp]; exact hready) g').1]
    exact hwf.tables g' hg'
  · obtain ⟨T, f, _, _, hT, _, htab⟩ :=
      FreeExtent_ready v hwf E g hg hlo hhi hready hc hused v' h
    rw [htab g' hg']
    split
    · exact hT
    · exact hwf.tables g' hg'

/-- After an `AllocateExtent` that returns, the table of every group is well
formed. -/
theorem AllocateExtent_tableGood (v : EsFSVolume) (hwf : AllocatorWF v) (localGroup d u : Nat)
    (hlg : localGroup < v.superblock.groupCount) (E : EsFSGlobalExtent) (v' : EsFSVolume)
    (h : AllocateExtent v localGroup d u = .ok (E, v')) (g' : Nat)
    (hg' : g' < v.superblock.groupCount) :
    TableGood v.superblock.blocksPerGroup (AllocateExtent.loadedTable v' g') := by
  rcases AllocateExtent.search_cases v d u hwf _ localGroup hlg E v' h with
    ⟨_, hv⟩ | ⟨g, e, T', hg, htake, _, _, hv'⟩
  · rw [hv]
    exact hwf.tables g' hg'
  · rw [hv', AllocateExtent.loadedTable_finish v hwf g hg _ T' g' hg']
    split
    · by_cases he : e.count = 0
      · rw [TakeOut.of_zero (hwf.tables g hg) htake he]
        exact hwf.tables g hg
      · exact ((hwf.tables g hg).takeOut htake (by omega)).1
    · exact hwf.tables g' hg'

/-- C12: on a volume whose allocator state is well formed (in particular the
free extents of every group are pairwise disjoint), after every
`AllocateExtent` that starts at a group of the volume and returns, the free
extents of every group are pairwise disjoint and no block of the returned
extent lies in a free extent that remains; and after `FreeExtent(e)` of an
extent with at least one block that lies within a group and shares no block
with the free extents of that group, the free extents of every group are
pairwise disjoint. -/
theorem allocator_keeps_extents_disjoint (v : EsFSVolume) (hwf : AllocatorWF v) :
    (∀ localGroup d u E v', localGroup < v.superblock.groupCount →
        AllocateExtent v localGroup d u = .ok (E, v') →
        (∀ g, g < v.superblock.groupCount →
          (AllocateExtent.loadedTable v' g).Pairwise shareNoBlock)
        ∧ ∀ x, E.offset ≤ x → x < E.offset + E.count → ¬ freeBlock v' x)
    ∧ (∀ E g v', g < v.superblock.groupCount →
        g * v.superblock.blocksPerGroup ≤ E.offset →
        E.offset + E.count ≤ g * v.superblock.blocksPerGroup + v.superblock.blocksPerGroup →
        1 ≤ E.count →
        (∀ e, e ∈ AllocateExtent.loadedTable v g → ∀ x, E.offset ≤ x → x < E.offset + E.count →
          ¬ (g * v.superblock.blocksPerGroup + e.offset ≤ x
            ∧ x < g * v.superblock.blocksPerGroup + e.offset + e.count)) →
        FreeExtent v E = .ok v' →
        ∀ g', g' < v.superblock.groupCount →
          (AllocateExtent.loadedTable v' g').Pairwise shareNoBlock) := by
  refine ⟨?_, ?_⟩
  · intro localGroup d u E v' hlg h
    refine ⟨fun g hg =>
      (AllocateExtent_tableGood v hwf localGroup d u hlg E v' h g hg).pairwise_shareNoBlock, ?_⟩
    intro x hx1 hx2
    have hE : E.count ≠ 0 := by omega
    exact ((AllocateExtent_step v hwf localGroup d u hlg E v' h hE).2.2.2.2.2.2.2.2.2.1
      x hx1 hx2).2
  · intro E g v' hg hlo hhi hc hdis h g' hg'
    have hused : ∀ x, E.offset ≤ x → x < E.offset + E.count → ¬ freeBlock v x := by
      rintro x hx1 hx2 ⟨g1, hg1, e, he, h1, h2⟩
      have hin := (hwf.tables g1 hg1).inGroup e he
      have hgg : g1 = g := block_group_unique v.superblock.blocksPerGroup g1 g x (by omega)
        (by omega) (by omega) (by omega)
      subst hgg
      exact hdis e he x hx1 hx2 ⟨h1, h2⟩
    exact (FreeExtent_tableGood v hwf E g hg hlo hhi hc hused v' h g' hg').pairwise_shareNoBlock

theorem allocator_keeps_extents_disjoint_witness :
    (∀ localGroup d u E v', localGroup < sampleVolume.superblock.groupCount →
        AllocateExtent sampleVolume localGroup d u = .ok (E, v') →
        (∀ g, g < sampleVolume.superblock.groupCount →
          (AllocateExtent.loadedTable v' g).Pairwise shareNoBlock)
        ∧ ∀ x, E.offset ≤ x → x < E.offset + E.count → ¬ freeBlock v' x)
    ∧ (∀ E g v', g < sampleVolume.superblock.groupCount →
        g * sampleVolume.superblock.blocksPerGroup ≤ E.offset →
        E.offset + E.count
          ≤ g * sampleVolume.superblock.blocksPerGroup + sampleVolume.superblock.blocksPerGroup →
        1 ≤ E.count →
        (∀ e, e ∈ AllocateExtent.loadedTable sampleVolume g → ∀ x, E.offset ≤ x →
          x < E.offset + E.count →
          ¬ (g * sampleVolume.superblock.blocksPerGroup + e.offset ≤ x
            ∧ x < g * sampleVolume.superblock.blocksPerGroup + e.offset + e.count)) →
        FreeExtent sampleVolume E = .ok v' →
        ∀ g', g' < sampleVolume.superblock.groupCount →
          (AllocateExtent.loadedTable v' g').Pairwise shareNoBlock) :=
  allocator_keeps_extents_disjoint sampleVolume allocatorWF_sampleVolume

/-! ### Group accounting -/

theorem freeCount_append (a b : List EsFSLocalExtent) :
    freeCount (a ++ b) = freeCount a + freeCount b := by
  unfold freeCount
  rw [List.map_append, List.sum_append]

theorem freeCount_cons (x : EsFSLocalExtent) (a : List EsFSLocalExtent) :
    freeCount (x :: a) = x.count + freeCount a := by
  unfold freeCount
  rw [List.map_cons, List.sum_cons]

theorem freeCount_perm {a b : List EsFSLocalExtent} (h : a.Perm b) :
    freeCount a = freeCount b := by
  unfold freeCount
  exact (h.map _).sum_eq

theorem freeCount_swapRemove (table : List EsFSLocalExtent) (i : Nat) (hi : i < table.length) :
    freeCount (swapRemove table i) + (table.getD i default).count = freeCount table := by
  obtain ⟨pre, x, post, hT, hpl, hx⟩ := list_split_at table i hi
  rw [← hx, hT, ← hpl, freeCount_perm (swapRemove_perm pre x post), freeCount_append,
    freeCount_append, freeCount_cons]
  omega

/-- The extents of a table have at least as many blocks as the table has
entries, if each has at least one. -/
theorem length_le_freeCount (table : List EsFSLocalExtent)
    (h : ∀ e, e ∈ table → 1 ≤ e.count) : table.length ≤ freeCount table := by
  induction table with
  | nil => exact Nat.le_refl _
  | cons x rest ih =>
    rw [freeCount_cons, List.length_cons]
    have := h x (List.mem_cons_self _ _)
    have := ih (fun e he => h e (List.mem_cons_of_mem _ he))
    omega

/-- One allocation takes the blocks of the returned extent out of the table. -/
theorem TakeOut.blocks_eq {table table' : List EsFSLocalExtent} {e : EsFSLocalExtent}
    (h : TakeOut table e table') : freeCount table' + e.count = freeCount table := by
  obtain ⟨pre, x, post, hT, hcase⟩ := h
  rcases hcase with ⟨_, h2, h3⟩ | ⟨h1, h2⟩
  · rw [h3, hT, freeCount_append, freeCount_append, freeCount_cons, freeCount_cons]
    show freeCount pre + (x.count - e.count + freeCount post) + e.count = _
    omega
  · rw [freeCount_perm h2, hT, freeCount_append, freeCount_append, freeCount_cons, h1]
    omega

/-- The merge loop of `FreeExtent` keeps the number of blocks in the table and
the extent together, and does not lengthen the table, as long as the blocks
fit a 16-bit count. -/
theorem FreeExtent.merge_count :
    ∀ (fuel : Nat) (table : List EsFSLocalExtent) (i : Nat) (f : EsFSLocalExtent),
      freeCount table + f.count < 65536 →
      ∀ table' f', FreeExtent.merge fuel table i f = .ok (table', f') →
        freeCount table' + f'.count = freeCount table + f.count
          ∧ table'.length ≤ table.length := by
  intro fuel
  induction fuel with
  | zero =>
    intro table i f _ table' f' h
    simp only [FreeExtent.merge, Except.ok.injEq, Prod.mk.injEq] at h
    obtain ⟨h1, h2⟩ := h
    subst h1 h2
    exact ⟨rfl, Nat.le_refl _⟩
  | succ fuel ih =>
    intro table i f hlt table' f' h
    simp only [FreeExtent.merge] at h
    by_cases hi : i < table.length
    · rw [if_pos hi] at h
      have hsw := freeCount_swapRemove table i hi
      have hlen := swapRemove_length table i
      split at h
      · cases h
      · split at h
        · obtain ⟨h1, h2⟩ := ih (swapRemove table i) i _
            (by show freeCount (swapRemove table i) + u16 _ < 65536
                rw [u16_of_lt (by omega)]; omega) table' f' h
          replace h1 : freeCount table' + f'.count
              = freeCount (swapRemove table i) + u16 (f.count + (table.getD i default).count) := h1
          rw [u16_of_lt (by omega)] at h1
          exact ⟨by omega, by omega⟩
        · split at h
          · obtain ⟨h1, h2⟩ := ih (swapRemove table i) i _
              (by show freeCount (swapRemove table i) + u16 _ < 65536
                  rw [u16_of_lt (by omega)]; omega) table' f' h
            replace h1 : freeCount table' + f'.count
                = freeCount (swapRemove table i) + u16 (f.count + (table.getD i default).count) := h1
            rw [u16_of_lt (by omega)] at h1
            exact ⟨by omega, by omega⟩
          · exact ih table (i + 1) f hlt table' f' h
    · rw [if_neg hi] at h
      simp only [Except.ok.injEq, Prod.mk.injEq] at h
      obtain ⟨h1, h2⟩ := h
      subst h1 h2
      exact ⟨rfl, Nat.le_refl _⟩

theorem GetBlocksInGroup_lt (sb : EsFSSuperblock) (g : Nat) : GetBlocksInGroup sb g < 65536 := by
  unfold GetBlocksInGroup u16
  split <;> exact Nat.mod_lt _ (by decide)

/-- The descriptor `AllocateExtent` works on depends on the descriptor of the
group and two fields of the superblock only. -/
theorem AllocateExtent.loadDescriptor_congr (v v' : EsFSVolume) (g : Nat)
    (h1 : v'.groupDescriptorTable g = v.groupDescriptorTable g)
    (h2 : v'.superblock.blocksPerGroup = v.superblock.blocksPerGroup)
    (h3 : v'.superblock.blocksPerGroupExtentTable = v.superblock.blocksPerGroupExtentTable) :
    AllocateExtent.loadDescriptor v' g = AllocateExtent.loadDescriptor v g := by
  unfold AllocateExtent.loadDescriptor
  simp only [h1, h2, h3]

theorem AllocateExtent.loadDescriptor_of_ready (v : EsFSVolume) (g : Nat)
    (h : (v.groupDescriptorTable g).extentTable ≠ 0) :
    AllocateExtent.loadDescriptor v g = v.groupDescriptorTable g := by
  unfold AllocateExtent.loadDescriptor
  simp only [h, if_false]

/-- `AllocateExtent` keeps the accounting of every group. -/
theorem AllocateExtent_accounted (v : EsFSVolume) (hwf : AllocatorWF v) (g : Nat)
    (hg : g < v.superblock.groupCount) (hacc : groupAccounted v g) (localGroup d u : Nat)
    (hlg : localGroup < v.superblock.groupCount) (E : EsFSGlobalExtent) (v' : EsFSVolume)
    (h : AllocateExtent v localGroup d u = .ok (E, v')) : groupAccounted v' g := by
  rcases AllocateExtent.search_cases v d u hwf _ localGroup hlg E v' h with
    ⟨_, hv⟩ | ⟨g0, e, T', hg0, htake, _, _, hv'⟩
  · rw [hv]; exact hacc
  · have hbig : GetBlocksInGroup v'.superblock g = GetBlocksInGroup v.superblock g :=
      GetBlocksInGroup_congr _ _ (by rw [hv']; rfl) (by rw [hv']; rfl) (by rw [hv']; rfl) g
    have htab := AllocateExtent.loadedTable_finish v hwf g0 hg0 ⟨e.offset, e.count⟩ T' g hg
    rw [← hv'] at htab
    unfold groupAccounted at hacc ⊢
    rw [hbig, htab]
    by_cases hgg : g = g0
    · subst hgg
      rw [if_pos rfl]
      have hk := (AllocateExtent.loadDescriptor_key v hwf g hg).1
      have hd : v'.groupDescriptorTable g
          = ⟨(AllocateExtent.loadDescriptor v g).extentTable, T'.length,
              u16 ((AllocateExtent.loadDescriptor v g).blocksUsed + e.count)⟩ := by
        rw [hv']
        show Function.update v.groupDescriptorTable g _ g = _
        rw [Function.update_same]
      have hld : AllocateExtent.loadDescriptor v' g = v'.groupDescriptorTable g :=
        AllocateExtent.loadDescriptor_of_ready v' g (by rw [hd]; exact hk)
      rw [hld, hd]
      have hcnt := htake.blocks_eq
      have hlt := GetBlocksInGroup_lt v.superblock g
      show freeCount T' + u16 ((AllocateExtent.loadDescriptor v g).blocksUsed + e.count) = _
      rw [u16_of_lt (by omega)]
      omega
    · rw [if_neg hgg]
      have hd : v'.groupDescriptorTable g = v.groupDescriptorTable g := by
        rw [hv']
        exact Function.update_noteq hgg _ _
      rw [AllocateExtent.loadDescriptor_congr v v' g hd (by rw [hv']; rfl) (by rw [hv']; rfl)]
      exact hacc

/-- The table of another group is not touched when a group stores its table. -/
theorem FreeExtent.loadedTable_other (v : EsFSVolume) (hwf : AllocatorWF v) (g : Nat)
    (hg : g < v.superblock.groupCount) (hready : (v.groupDescriptorTable g).extentTable ≠ 0)
    (T : List EsFSLocalExtent) (n used groupUsed : Nat)
    (g' : Nat) (hg' : g' < v.superblock.groupCount) (hgg : g' ≠ g) :
    AllocateExtent.loadedTable
        { v with
          superblock := { v.superblock with blocksUsed := used }
          groupDescriptorTable := Function.update v.groupDescriptorTable g
            ⟨(v.groupDescriptorTable g).extentTable, n, groupUsed⟩
          extentTables := Function.update v.extentTables (v.groupDescriptorTable g).extentTable T }
        g'
      = AllocateExtent.loadedTable v g' := by
  unfold AllocateExtent.loadedTable
  simp only [Function.update_noteq hgg]
  split
  · rfl
  · rename_i h0
    have hk' := hwf.keys g' hg' h0
    have hk := hwf.keys g hg hready
    rw [Nat.add_mul, Nat.one_mul] at hk' hk
    have hne : (v.groupDescriptorTable g').extentTable
        ≠ (v.groupDescriptorTable g).extentTable := by
      intro heq
      apply hgg
      exact block_group_unique _ _ _ _ hk'.1 hk'.2 (by rw [heq]; exact hk.1)
        (by rw [heq]; exact hk.2)
    rw [Function.update_noteq hgg, Function.update_noteq hne]

/-- `FreeExtent` of an extent of at least one block whose count does not exceed
the blocks its group counts as used keeps the accounting of every group. -/
theorem FreeExtent_accounted (v : EsFSVolume) (hwf : AllocatorWF v) (g : Nat)
    (hg : g < v.superblock.groupCount) (hacc : groupAccounted v g) (E : EsFSGlobalExtent)
    (hE : E.offset / v.superblock.blocksPerGroup < v.superblock.groupCount)
    (hc : E.offset / v.superblock.blocksPerGroup = g →
      1 ≤ E.count ∧ E.count ≤ (v.groupDescriptorTable g).blocksUsed)
    (v' : EsFSVolume) (h : FreeExtent v E = .ok v') : groupAccounted v' g := by
  by_cases hready : (v.groupDescriptorTable (E.offset / v.superblock.blocksPerGroup)).extentTable = 0
  · obtain ⟨h1, h2⟩ := FreeExtent_unready v E v' h hready g
    have hbig : GetBlocksInGroup v'.superblock g = GetBlocksInGroup v.superblock g := by
      obtain ⟨T, f, _, hv'⟩ := FreeExtent_ok v E v' h
      exact GetBlocksInGroup_congr _ _ (by rw [hv']) (by rw [hv']) (by rw [hv']) g
    unfold groupAccounted at hacc ⊢
    rw [h1, h2, hbig]
    exact hacc
  · obtain ⟨T, f, hm, hv'⟩ := FreeExtent_ok v E v' h
    have hbig : GetBlocksInGroup v'.superblock g = GetBlocksInGroup v.superblock g :=
      GetBlocksInGroup_congr _ _ (by rw [hv']) (by rw [hv']) (by rw [hv']) g
    have hlt := GetBlocksInGroup_lt v.superblock g
    generalize hg0 : E.offset / v.superblock.blocksPerGroup = g0 at hE hc hready hm hv'
    have htable : loadTable (v.extentTables (v.groupDescriptorTable g0).extentTable)
        (v.groupDescriptorTable g0).extentCount = AllocateExtent.loadedTable v g0 := by
      unfold AllocateExtent.loadedTable
      simp only [hready, if_false]
    rw [htable] at hm
    by_cases hgg : g0 = g
    · subst hgg
      obtain ⟨hc1, hc2⟩ := hc rfl
      unfold groupAccounted at hacc
      rw [AllocateExtent.loadDescriptor_of_ready v g0 hready] at hacc
      have hpos := length_le_freeCount _ (fun e he => ((hwf.tables g0 hg).inGroup e he).1)
      have hu : u16 E.count = E.count := u16_of_lt (by omega)
      obtain ⟨m1, m2⟩ := FreeExtent.merge_count _ _ 0 _
        (by show freeCount _ + u16 E.count < 65536; rw [hu]; omega) T f hm
      replace m1 : freeCount T + f.count
          = freeCount (AllocateExtent.loadedTable v g0) + u16 E.count := m1
      rw [hu] at m1
      have hlen : u16 (T ++ [f]).length = (T ++ [f]).length := by
        apply u16_of_lt
        rw [List.length_append, List.length_singleton]
        omega
      rw [hlen] at hv'
      have htab : AllocateExtent.loadedTable v' g0 = T ++ [f] := by
        rw [hv', FreeExtent.loadedTable_store v hwf g0 hg hready (T ++ [f]) _ _ _ rfl g0 hg,
          if_pos rfl]
      have hd : v'.groupDescriptorTable g0
          = ⟨(v.groupDescriptorTable g0).extentTable, (T ++ [f]).length,
              sub16 (v.groupDescriptorTable g0).blocksUsed E.count⟩ := by
        rw [hv']
        show Function.update v.groupDescriptorTable g0 _ g0 = _
        rw [Function.update_same]
      have hld : AllocateExtent.loadDescriptor v' g0 = v'.groupDescriptorTable g0 :=
        AllocateExtent.loadDescriptor_of_ready v' g0 (by rw [hd]; exact hready)
      unfold groupAccounted
      rw [hbig, htab, hld, hd, freeCount_append]
      show freeCount T + freeCount [f] + sub16 (v.groupDescriptorTable g0).blocksUsed E.count = _
      have hs : sub16 (v.groupDescriptorTable g0).blocksUsed E.count
          = (v.groupDescriptorTable g0).blocksUsed - E.count := by
        unfold sub16
        rw [Nat.mod_eq_of_lt (show E.count < 65536 by omega)]
        rw [show (v.groupDescriptorTable g0).blocksUsed + 65536 - E.count
          = 65536 + ((v.groupDescriptorTable g0).blocksUsed - E.count) by omega,
          Nat.add_mod_left, Nat.mod_eq_of_lt (by omega)]
      rw [hs, freeCount_cons]
      show freeCount T + (f.count + freeCount []) + _ = _
      have : freeCount ([] : List EsFSLocalExtent) = 0 := rfl
      omega
    · have hgg' : g ≠ g0 := fun hx => hgg hx.symm
      have htab : AllocateExtent.loadedTable v' g = AllocateExtent.loadedTable v g := by
        rw [hv']
        exact FreeExtent.loadedTable_other v hwf g0 hE hready (T ++ [f]) _ _ _ g hg hgg'
      have hd : v'.groupDescriptorTable g = v.groupDescriptorTable g := by
        rw [hv']
        exact Function.update_noteq hgg' _ _
      unfold groupAccounted at hacc ⊢
      rw [hbig, htab,
        AllocateExtent.loadDescriptor_congr v v' g hd (by rw [hv']) (by rw [hv'])]
      exact hacc

/-- C13: on the sample volume group 0 is accounted for (4053
free blocks, 43 in use, 4096 blocks), and the extent of blocks 4000 to 4095
lies in group 0.  These blocks are free; `FreeExtent` does not notice (the
extent ends where the free extent ends) and returns, and afterwards the free
extents of group 0 hold 4149 blocks and its descriptor counts 65483 blocks as
used (43 - 96 in 16 bits): the accounting of the group no longer holds. -/
theorem FreeExtent_double_free_breaks_accounting :
    groupAccounted sampleVolume 0
      ∧ 0 * sampleVolume.superblock.blocksPerGroup ≤ 4000
      ∧ 4000 + 96 ≤ 0 * sampleVolume.superblock.blocksPerGroup
          + GetBlocksInGroup sampleVolume.superblock 0
      ∧ ∃ v', FreeExtent sampleVolume ⟨4000, 96⟩ = .ok v'
          ∧ freeCount (AllocateExtent.loadedTable v' 0) = 4149
          ∧ (AllocateExtent.loadDescriptor v' 0).blocksUsed = 65483
          ∧ ¬ groupAccounted v' 0 := by
  refine ⟨groupAccounted_sampleVolume 0 (by decide), by decide, by decide, ?_⟩
  have h0 : (FreeExtent sampleVolume ⟨4000, 96⟩).map
      (fun v' => (freeCount (AllocateExtent.loadedTable v' 0),
        (AllocateExtent.loadDescriptor v' 0).blocksUsed, GetBlocksInGroup v'.superblock 0))
      = .ok (4149, 65483, 4096) := rfl
  cases hr : FreeExtent sampleVolume ⟨4000, 96⟩ with
  | error f => rw [hr] at h0; cases h0
  | ok v' =>
    rw [hr] at h0
    simp only [Except.map, Except.ok.injEq, Prod.mk.injEq] at h0
    obtain ⟨h1, h2, h3⟩ := h0
    refine ⟨v', rfl, h1, h2, ?_⟩
    unfold groupAccounted
    rw [h1, h2, h3]
    decide

/-- Group accounting apart from extents that are freed twice: on a volume whose
allocator state is well formed, if the accounting of group `g` holds (the counts of its free extents and
`descriptor.blocksUsed` add up to the blocks of the group), it holds after
every `AllocateExtent` that starts at a group of the volume and returns, the
call that initialises the table of the group included, and after every
`FreeExtent` of an extent that starts in `g`, has at least one block and no
more blocks than the descriptor of `g` counts as used. -/
theorem allocator_keeps_group_accounting (v : EsFSVolume) (hwf : AllocatorWF v) (g : Nat)
    (hg : g < v.superblock.groupCount) (hacc : groupAccounted v g) :
    (∀ localGroup d u E v', localGroup < v.superblock.groupCount →
        AllocateExtent v localGroup d u = .ok (E, v') → groupAccounted v' g)
    ∧ (∀ E v', E.offset / v.superblock.blocksPerGroup = g → 1 ≤ E.count →
        E.count ≤ (v.groupDescriptorTable g).blocksUsed →
        FreeExtent v E = .ok v' → groupAccounted v' g) :=
  ⟨fun localGroup d u E v' hlg h =>
      AllocateExtent_accounted v hwf g hg hacc localGroup d u hlg E v' h,
    fun E v' hE h1 h2 h =>
      FreeExtent_accounted v hwf g hg hacc E (by rw [hE]; exact hg) (fun _ => ⟨h1, h2⟩) v' h⟩

theorem allocator_keeps_group_accounting_witness :
    (∀ localGroup d u E v', localGroup < sampleVolume.superblock.groupCount →
        AllocateExtent sampleVolume localGroup d u = .ok (E, v') → groupAccounted v' 0)
    ∧ (∀ E v', E.offset / sampleVolume.superblock.blocksPerGroup = 0 → 1 ≤ E.count →
        E.count ≤ (sampleVolume.groupDescriptorTable 0).blocksUsed →
        FreeExtent sampleVolume E = .ok v' → groupAccounted v' 0) :=
  allocator_keeps_group_accounting sampleVolume allocatorWF_sampleVolume 0 (by decide)
    (groupAccounted_sampleVolume 0 (by decide))

/-! ### Global accounting -/

/-- Changing one term of a sum over the first `n` numbers. -/
theorem sum_map_range_update (f : Nat → EsFSGroupDescriptor) (g : Nat) (D : EsFSGroupDescriptor) :
    ∀ n, g < n →
      ((List.range n).map (fun k => (Function.update f g D k).blocksUsed)).sum + (f g).blocksUsed
        = ((List.range n).map (fun k => (f k).blocksUsed)).sum + D.blocksUsed := by
  have hsame : ∀ n, n ≤ g →
      (List.range n).map (fun k => (Function.update f g D k).blocksUsed)
        = (List.range n).map (fun k => (f k).blocksUsed) := by
    intro n hn
    apply List.map_congr_left
    intro k hk
    rw [List.mem_range] at hk
    rw [Function.update_noteq (by omega)]
  intro n
  induction n with
  | zero => intro h; omega
  | succ n ih =>
    intro hg
    rw [List.range_succ, List.map_append, List.map_append, List.sum_append, List.sum_append]
    simp only [List.map_cons, List.map_nil, List.sum_cons, List.sum_nil, Nat.add_zero]
    by_cases hgn : g = n
    · subst hgn
      rw [hsame g (Nat.le_refl _), Function.update_same]
      omega
    · have := ih (by omega)
      rw [Function.update_noteq (fun h => hgn h.symm)]
      omega

theorem descriptorSum_update (v v' : EsFSVolume) (g : Nat) (D : EsFSGroupDescriptor)
    (hg : g < v.superblock.groupCount)
    (h1 : v'.superblock.groupCount = v.superblock.groupCount)
    (h2 : v'.groupDescriptorTable = Function.update v.groupDescriptorTable g D) :
    descriptorSum v' + (v.groupDescriptorTable g).blocksUsed
      = descriptorSum v + D.blocksUsed := by
  unfold descriptorSum
  rw [h1, h2]
  exact sum_map_range_update v.groupDescriptorTable g D _ hg

theorem sub16_eq_sub (a b : Nat) (ha : a < 65536) (hb : b ≤ a) : sub16 a b = a - b := by
  unfold sub16
  rw [Nat.mod_eq_of_lt (show b < 65536 by omega),
    show a + 65536 - b = 65536 + (a - b) by omega, Nat.add_mod_left,
    Nat.mod_eq_of_lt (by omega)]

/-- `FreeExtent` takes the blocks of the extent off the counter of the volume
and off the counter of the group of its first block. -/
theorem FreeExtent_descriptorSum (v : EsFSVolume) (E : EsFSGlobalExtent)
    (hg : E.offset / v.superblock.blocksPerGroup < v.superblock.groupCount)
    (h16 : (v.groupDescriptorTable (E.offset / v.superblock.blocksPerGroup)).blocksUsed < 65536)
    (hc : E.count ≤ (v.groupDescriptorTable (E.offset / v.superblock.blocksPerGroup)).blocksUsed)
    (v' : EsFSVolume) (h : FreeExtent v E = .ok v') :
    descriptorSum v' + E.count = descriptorSum v
      ∧ v'.superblock.blocksUsed = sub64 v.superblock.blocksUsed E.count := by
  obtain ⟨T, f, _, hv'⟩ := FreeExtent_ok v E v' h
  generalize E.offset / v.superblock.blocksPerGroup = g at hg h16 hc hv'
  have := descriptorSum_update v v' g _ hg (by rw [hv']) (by rw [hv'])
  replace this : descriptorSum v' + (v.groupDescriptorTable g).blocksUsed
      = descriptorSum v + sub16 (v.groupDescriptorTable g).blocksUsed E.count := this
  rw [sub16_eq_sub _ _ h16 hc] at this
  exact ⟨by omega, by rw [hv']⟩

/-- The counter of a group is one of the terms of the sum. -/
theorem le_descriptorSum (v : EsFSVolume) (g : Nat) (hg : g < v.superblock.groupCount) :
    (v.groupDescriptorTable g).blocksUsed ≤ descriptorSum v := by
  unfold descriptorSum
  exact List.single_le_sum (fun _ _ => Nat.zero_le _) _
    (List.mem_map.2 ⟨g, List.mem_range.2 hg, rfl⟩)

/-- What `AllocateExtent` does to the counters: nothing if it returns no
block; otherwise the counter of the volume grows by the blocks returned
(modulo `2 ^ 64`), fewer than `2 ^ 16`, and so does the counter of the group
they come from, which starts from the table blocks if the call gives the group
its table. -/
theorem AllocateExtent_descriptorSum (v : EsFSVolume) (hwf : AllocatorWF v)
    (hacc : ∀ g, g < v.superblock.groupCount → groupAccounted v g)
    (localGroup d u : Nat) (hlg : localGroup < v.superblock.groupCount)
    (E : EsFSGlobalExtent) (v' : EsFSVolume)
    (h : AllocateExtent v localGroup d u = .ok (E, v')) :
    v' = v ∨ ∃ g, g < v.superblock.groupCount
      ∧ (v'.superblock.blocksUsed
          = (v.superblock.blocksUsed + E.count) % 18446744073709551616 ∧ E.count < 65536)
      ∧ (v'.groupDescriptorTable g).extentTable ≠ 0
      ∧ descriptorSum v' + (v.groupDescriptorTable g).blocksUsed
          = descriptorSum v + (AllocateExtent.loadDescriptor v g).blocksUsed + E.count := by
  rcases AllocateExtent.search_cases v d u hwf _ localGroup hlg E v' h with
    ⟨_, hv⟩ | ⟨g, e, T', hg, htake, hE, _, hv'⟩
  · exact Or.inl hv
  · refine Or.inr ⟨g, hg, ⟨?_, ?_⟩, ?_, ?_⟩
    · rw [hv', hE]; rfl
    · have hcnt := htake.blocks_eq
      have hlt := GetBlocksInGroup_lt v.superblock g
      have ha := hacc g hg
      unfold groupAccounted at ha
      rw [hE]
      show e.count < 65536
      omega
    · rw [hv']
      show (Function.update v.groupDescriptorTable g _ g).extentTable ≠ 0
      rw [Function.update_same]
      exact (AllocateExtent.loadDescriptor_key v hwf g hg).1
    · have := descriptorSum_update v v' g
        ⟨(AllocateExtent.loadDescriptor v g).extentTable, T'.length,
          u16 ((AllocateExtent.loadDescriptor v g).blocksUsed + e.count)⟩ hg
        (by rw [hv']; rfl) (by rw [hv']; rfl)
      replace this : descriptorSum v' + (v.groupDescriptorTable g).blocksUsed
          = descriptorSum v + u16 ((AllocateExtent.loadDescriptor v g).blocksUsed + e.count) := this
      have hcnt := htake.blocks_eq
      have hlt := GetBlocksInGroup_lt v.superblock g
      have ha := hacc g hg
      unfold groupAccounted at ha
      rw [u16_of_lt (by omega)] at this
      rw [hE]
      show _ = descriptorSum v + (AllocateExtent.loadDescriptor v g).blocksUsed + e.count
      omega

/-- C14: on the sample volume `superblock.blocksUsed` is the
sum of the `blocksUsed` of the groups (43).  An allocation of one block that
starts at group 1, which has no extent table yet, gives the group its table:
afterwards `superblock.blocksUsed` is 44, but the descriptors add up to 52,
because the eight table blocks of group 1 were added to its descriptor only. -/
theorem AllocateExtent_lazy_init_breaks_global_accounting :
    sampleVolume.superblock.blocksUsed = descriptorSum sampleVolume
      ∧ (sampleVolume.groupDescriptorTable 1).extentTable = 0
      ∧ ∃ E v', AllocateExtent sampleVolume 1 1 0 = .ok (E, v')
          ∧ E = ⟨4104, 1⟩
          ∧ v'.superblock.blocksUsed = 44 ∧ descriptorSum v' = 52 := by
  refine ⟨rfl, rfl, ?_⟩
  have h0 : (AllocateExtent sampleVolume 1 1 0).map
      (fun r => (r.1, r.2.superblock.blocksUsed, descriptorSum r.2))
      = .ok (⟨4104, 1⟩, 44, 52) := rfl
  cases hr : AllocateExtent sampleVolume 1 1 0 with
  | error f => rw [hr] at h0; cases h0
  | ok r =>
    obtain ⟨E, v'⟩ := r
    rw [hr] at h0
    simp only [Except.map, Except.ok.injEq, Prod.mk.injEq] at h0
    exact ⟨E, v', rfl, h0.1, h0.2.1, h0.2.2⟩

/-- The calls that keep the global accounting.  On a volume whose allocator
state is well formed, whose groups are accounted for, whose groups without an
extent table count no block as used, whose counter `superblock.blocksUsed` is
more than `2 ^ 16` below `2 ^ 64`, and on which that counter is the sum of the
`blocksUsed` of the groups: after an `AllocateExtent` that starts at a group of the volume
and returns, the equation still holds, unless the call gave a group its extent
table, in which case the sum exceeds `superblock.blocksUsed` by the table
blocks of that group (`blocksPerGroupExtentTable` as a 16-bit value); and the
equation holds after every `FreeExtent` of an extent that starts in a group of
the volume and has no more blocks than that group counts as used. -/
theorem allocator_global_accounting (v : EsFSVolume) (hwf : AllocatorWF v)
    (hacc : ∀ g, g < v.superblock.groupCount → groupAccounted v g)
    (hzero : ∀ g, g < v.superblock.groupCount → (v.groupDescriptorTable g).extentTable = 0 →
      (v.groupDescriptorTable g).blocksUsed = 0)
    (h64 : v.superblock.blocksUsed + 65536 ≤ 18446744073709551616)
    (hsum : v.superblock.blocksUsed = descriptorSum v) :
    (∀ localGroup d u E v', localGroup < v.superblock.groupCount →
        AllocateExtent v localGroup d u = .ok (E, v') →
        v'.superblock.blocksUsed = descriptorSum v'
        ∨ ∃ g, g < v.superblock.groupCount ∧ (v.groupDescriptorTable g).extentTable = 0
            ∧ (v'.groupDescriptorTable g).extentTable ≠ 0
            ∧ descriptorSum v'
                = v'.superblock.blocksUsed + u16 v.superblock.blocksPerGroupExtentTable)
    ∧ (∀ E v', E.offset / v.superblock.blocksPerGroup < v.superblock.groupCount →
        E.count ≤ (v.groupDescriptorTable (E.offset / v.superblock.blocksPerGroup)).blocksUsed →
        FreeExtent v E = .ok v' → v'.superblock.blocksUsed = descriptorSum v') := by
  refine ⟨?_, ?_⟩
  · intro localGroup d u E v' hlg h
    rcases AllocateExtent_descriptorSum v hwf hacc localGroup d u hlg E v' h with
      hv | ⟨g, hg, ⟨h1, hE16⟩, h2, h3⟩
    · left; rw [hv]; exact hsum
    · rw [Nat.mod_eq_of_lt (by omega)] at h1
      by_cases hr : (v.groupDescriptorTable g).extentTable = 0
      · right
        refine ⟨g, hg, hr, h2, ?_⟩
        have hz := hzero g hg hr
        have hl : (AllocateExtent.loadDescriptor v g).blocksUsed
            = u16 v.superblock.blocksPerGroupExtentTable := by
          unfold AllocateExtent.loadDescriptor
          simp only [hr, if_true]
        rw [hl, hz] at h3
        omega
      · left
        rw [AllocateExtent.loadDescriptor_of_ready v g hr] at h3
        omega
  · intro E v' hg hc h
    have h16 : (v.groupDescriptorTable (E.offset / v.superblock.blocksPerGroup)).blocksUsed
        < 65536 := by
      by_cases hr : (v.groupDescriptorTable (E.offset / v.superblock.blocksPerGroup)).extentTable = 0
      · rw [hzero _ hg hr]; decide
      · have ha := hacc _ hg
        unfold groupAccounted at ha
        rw [AllocateExtent.loadDescriptor_of_ready v _ hr] at ha
        have := GetBlocksInGroup_lt v.superblock (E.offset / v.superblock.blocksPerGroup)
        omega
    obtain ⟨s1, s2⟩ := FreeExtent_descriptorSum v E hg h16 hc v' h
    have hle := le_descriptorSum v _ hg
    rw [s2, sub64_eq_sub (by omega) (by omega)]
    omega

theorem allocator_global_accounting_witness :
    (∀ localGroup d u E v', localGroup < sampleVolume.superblock.groupCount →
        AllocateExtent sampleVolume localGroup d u = .ok (E, v') →
        v'.superblock.blocksUsed = descriptorSum v'
        ∨ ∃ g, g < sampleVolume.superblock.groupCount
            ∧ (sampleVolume.groupDescriptorTable g).extentTable = 0
            ∧ (v'.groupDescriptorTable g).extentTable ≠ 0
            ∧ descriptorSum v'
                = v'.superblock.blocksUsed + u16 sampleVolume.superblock.blocksPerGroupExtentTable)
    ∧ (∀ E v', E.offset / sampleVolume.superblock.blocksPerGroup
          < sampleVolume.superblock.groupCount →
        E.count ≤ (sampleVolume.groupDescriptorTable
          (E.offset / sampleVolume.superblock.blocksPerGroup)).blocksUsed →
        FreeExtent sampleVolume E = .ok v' → v'.superblock.blocksUsed = descriptorSum v') :=
  allocator_global_accounting sampleVolume allocatorWF_sampleVolume
    (fun g hg => groupAccounted_sampleVolume g hg)
    (fun g _ h0 => by
      by_cases hg0 : g = 0
      · subst hg0; exact absurd h0 (by decide)
      · show (if g = 0 then (⟨42, 1, 43⟩ : EsFSGroupDescriptor) else ⟨0, 0, 0⟩).blocksUsed = 0
        rw [if_neg hg0])
    (by decide) rfl

/-! ### Merging in FreeExtent -/

theorem take_swapRemove (table : List EsFSLocalExtent) (i : Nat) (hi : i < table.length) :
    (swapRemove table i).take i = table.take i := by
  unfold swapRemove
  rw [List.take_take, Nat.min_eq_left (by omega)]
  apply List.ext_getElem
  · simp only [List.length_take, List.length_set]
  · intro n h1 h2
    simp only [List.length_take, List.length_set] at h1
    rw [List.getElem_take, List.getElem_take, List.getElem_set_ne (by omega)]

theorem mem_take_succ (table : List EsFSLocalExtent) (i : Nat) (hi : i < table.length)
    (x : EsFSLocalExtent) (hx : x ∈ table.take (i + 1)) :
    x ∈ table.take i ∨ x = table.getD i default := by
  obtain ⟨pre, y, post, hT, hpl, hy⟩ := list_split_at table i hi
  have ht : table.take i = pre := by rw [hT, ← hpl, List.take_left]
  have ht1 : table.take (i + 1) = pre ++ [y] := by
    rw [hT, ← hpl, List.take_succ, List.take_left]
    simp [List.getElem_append_right]
  rw [ht1] at hx
  rcases List.mem_append.1 hx with h | h
  · exact Or.inl (by rw [ht]; exact h)
  · exact Or.inr ((List.mem_singleton.1 h).trans hy)

/-- What the merge loop of `FreeExtent` does to the table, in detail.  `e0` is
the extent that is being freed, `f` what it has grown to, and the entries
before index `i` have been looked at.  The old entries are, up to order, those
that remain and those that were absorbed; the absorbed ones lie inside the
final extent, no remaining entry touches `e0`, and if no two entries of the
original table (`P`) touch each other, every absorbed entry touches `e0`. -/
theorem FreeExtent.merge_detail (bpg : Nat) (hbpg : bpg < 65536) (e0 : EsFSLocalExtent)
    (he0 : 1 ≤ e0.count) (P : EsFSLocalExtent → Prop) :
    ∀ (fuel : Nat) (table : List EsFSLocalExtent) (i : Nat) (f : EsFSLocalExtent),
      TableGood bpg (table ++ [f]) →
      table.length ≤ i + fuel → i ≤ table.length →
      f.offset ≤ e0.offset → e0.offset + e0.count ≤ f.offset + f.count →
      (∀ x, x ∈ table.take i →
        x.offset + x.count ≠ e0.offset ∧ e0.offset + e0.count ≠ x.offset) →
      (∀ x, x ∈ table → P x) →
      (f.offset = e0.offset ∨ ∃ a, P a ∧ a.offset = f.offset) →
      (f.offset + f.count = e0.offset + e0.count
        ∨ ∃ b, P b ∧ b.offset + b.count = f.offset + f.count) →
      ∀ T f', FreeExtent.merge fuel table i f = .ok (T, f') →
        ∃ A, table.Perm (T ++ A)
          ∧ f'.offset ≤ f.offset ∧ f.offset + f.count ≤ f'.offset + f'.count
          ∧ (∀ a, a ∈ A → f'.offset ≤ a.offset ∧ a.offset + a.count ≤ f'.offset + f'.count)
          ∧ (∀ x, x ∈ T → x.offset + x.count ≠ e0.offset ∧ e0.offset + e0.count ≠ x.offset)
          ∧ ((∀ x y, P x → P y → x.offset + x.count ≠ y.offset) →
              ∀ a, a ∈ A → a.offset + a.count = e0.offset ∨ e0.offset + e0.count = a.offset) := by
  have hdone : ∀ (table : List EsFSLocalExtent) (i : Nat) (f : EsFSLocalExtent),
      table.length ≤ i →
      (∀ x, x ∈ table.take i →
        x.offset + x.count ≠ e0.offset ∧ e0.offset + e0.count ≠ x.offset) →
      ∃ A : List EsFSLocalExtent, table.Perm (table ++ A)
        ∧ f.offset ≤ f.offset ∧ f.offset + f.count ≤ f.offset + f.count
        ∧ (∀ a, a ∈ A → f.offset ≤ a.offset ∧ a.offset + a.count ≤ f.offset + f.count)
        ∧ (∀ x, x ∈ table → x.offset + x.count ≠ e0.offset ∧ e0.offset + e0.count ≠ x.offset)
        ∧ ((∀ x y, P x → P y → x.offset + x.count ≠ y.offset) →
            ∀ a, a ∈ A → a.offset + a.count = e0.offset ∨ e0.offset + e0.count = a.offset) := by
    intro table i f hlen htake
    refine ⟨[], by rw [List.append_nil], Nat.le_refl _, Nat.le_refl _,
      fun a ha => absurd ha (List.not_mem_nil a), ?_, fun _ a ha => absurd ha (List.not_mem_nil a)⟩
    intro x hx
    apply htake
    rw [List.take_of_length_le hlen]
    exact hx
  intro fuel
  induction fuel with
  | zero =>
    intro table i f _ hfuel _ _ _ htake _ _ _ T f' h
    simp only [FreeExtent.merge, Except.ok.injEq, Prod.mk.injEq] at h
    obtain ⟨h1, h2⟩ := h
    subst h1 h2
    exact hdone table i f hfuel htake
  | succ fuel ih =>
    intro table i f hg hfuel hile hlo hhi htake hP hedge1 hedge2 T f' h
    simp only [FreeExtent.merge] at h
    by_cases hi : i < table.length
    · rw [if_pos hi] at h
      obtain ⟨pre, e, post, htab, hlen, he⟩ := list_split_at table i hi
      rw [← he] at h
      have hemem : e ∈ table := by rw [htab]; simp
      have hein := hg.inGroup e (List.mem_append_left _ hemem)
      have hfin := hg.inGroup f (List.mem_append_right _ (List.mem_singleton_self _))
      have hef : localDisjoint e f :=
        (List.pairwise_append.1 hg.disjoint).2.2 e hemem f (List.mem_singleton_self _)
      unfold localDisjoint at hef
      have hperm : (swapRemove table i).Perm (pre ++ post) := by
        rw [htab, ← hlen]; exact swapRemove_perm pre e post
      have hp0 : (e :: f :: (pre ++ post)).Perm (table ++ [f]) := by
        rw [htab]
        simp only [List.append_assoc, List.cons_append]
        refine (List.Perm.cons _ ?_).trans List.perm_middle.symm
        rw [← List.append_assoc]
        exact (List.perm_append_singleton f (pre ++ post)).symm
      have hsub : ∀ x, x ∈ swapRemove table i → x ∈ table := by
        intro x hx
        have := hperm.mem_iff.1 hx
        rw [htab]
        rcases List.mem_append.1 this with h1 | h1
        · exact List.mem_append_left _ h1
        · exact List.mem_append_right _ (List.mem_cons_of_mem _ h1)
      have hswlen := swapRemove_length table i
      have hpmid : table.Perm (e :: (pre ++ post)) := by
        rw [htab]
        exact List.perm_middle
      have hptab : table.Perm (e :: swapRemove table i) :=
        hpmid.trans (List.Perm.cons _ hperm.symm)
      have hstep : ∀ m : EsFSLocalExtent, TableGood bpg (m :: (pre ++ post)) →
          m.offset ≤ f.offset → m.offset + m.count = f.offset + f.count + e.count
            ∨ m.offset + m.count = f.offset + f.count →
          f.offset + f.count ≤ m.offset + m.count →
          m.offset ≤ e.offset → e.offset + e.count ≤ m.offset + m.count →
          (m.offset = e0.offset ∨ ∃ a, P a ∧ a.offset = m.offset) →
          (m.offset + m.count = e0.offset + e0.count
            ∨ ∃ b, P b ∧ b.offset + b.count = m.offset + m.count) →
          ((∀ x y, P x → P y → x.offset + x.count ≠ y.offset) →
            e.offset + e.count = e0.offset ∨ e0.offset + e0.count = e.offset) →
          FreeExtent.merge fuel (swapRemove table i) i m = .ok (T, f') →
          ∃ A, table.Perm (T ++ A)
            ∧ f'.offset ≤ f.offset ∧ f.offset + f.count ≤ f'.offset + f'.count
            ∧ (∀ a, a ∈ A → f'.offset ≤ a.offset ∧ a.offset + a.count ≤ f'.offset + f'.count)
            ∧ (∀ x, x ∈ T → x.offset + x.count ≠ e0.offset ∧ e0.offset + e0.count ≠ x.offset)
            ∧ ((∀ x y, P x → P y → x.offset + x.count ≠ y.offset) →
                ∀ a, a ∈ A → a.offset + a.count = e0.offset
                  ∨ e0.offset + e0.count = a.offset) := by
        intro m hm hm1 _ hm3 hm4 hm5 hm6 hm7 hen hrec
        have hp1 : (swapRemove table i ++ [m]).Perm (m :: (pre ++ post)) :=
          (List.perm_append_singleton m _).trans (List.Perm.cons _ hperm)
        have q1 : (swapRemove table i).length ≤ i + fuel := by
          clear hm6 hm7 hen hedge1 hedge2; omega
        have q2 : i ≤ (swapRemove table i).length := by
          clear hm6 hm7 hen hedge1 hedge2; omega
        have q3 : m.offset ≤ e0.offset := by
          clear hm6 hm7 hen hedge1 hedge2; omega
        have q4 : e0.offset + e0.count ≤ m.offset + m.count := by
          clear hm6 hm7 hen hedge1 hedge2; omega
        obtain ⟨A1, a1, a2, a3, a4, a5, a6⟩ := ih (swapRemove table i) i m (hm.perm hp1)
          q1 q2 q3 q4
          (by rw [take_swapRemove table i hi]; exact htake)
          (fun x hx => hP x (hsub x hx)) hm6 hm7 T f' hrec
        refine ⟨e :: A1, ?_, Nat.le_trans a2 hm1, Nat.le_trans hm3 a3, ?_, a5, ?_⟩
        · exact hptab.trans ((List.Perm.cons _ a1).trans List.perm_middle.symm)
        · intro a ha
          rcases List.mem_cons.1 ha with rfl | ha
          · exact ⟨Nat.le_trans a2 hm4, Nat.le_trans hm5 a3⟩
          · exact a4 a ha
        · intro hna a ha
          rcases List.mem_cons.1 ha with rfl | ha
          · exact hen hna
          · exact a6 hna a ha
      split at h
      · cases h
      · split at h
        · rename_i hadj
          have hj := ((hg.perm hp0).join hadj hbpg).1
          rw [Nat.add_comm e.count f.count] at hj
          have hsum : f.count + e.count < 65536 := by clear hedge1 hedge2; omega
          have hu : u16 (f.count + e.count) = f.count + e.count := u16_of_lt hsum
          rw [hu] at hj h
          have k1 : e.offset ≤ f.offset := by clear hedge1 hedge2; omega
          have k2 : e.offset + (f.count + e.count) = f.offset + f.count := by
            clear hedge1 hedge2; omega
          refine hstep ⟨e.offset, f.count + e.count⟩ hj k1 (Or.inr k2)
            (Nat.le_of_eq k2.symm) (Nat.le_refl _)
            (by show _ ≤ e.offset + (f.count + e.count); clear hedge1 hedge2; omega)
            (Or.inr ⟨e, hP e hemem, rfl⟩) ?_ ?_ h
          · rcases hedge2 with h2 | ⟨b, hb1, hb2⟩
            · exact Or.inl (k2.trans h2)
            · exact Or.inr ⟨b, hb1, hb2.trans k2.symm⟩
          · intro hna
            rcases hedge1 with h1 | ⟨a, ha1, ha2⟩
            · exact Or.inl (hadj.trans h1)
            · exact absurd (hadj.trans ha2.symm) (hna e a (hP e hemem) ha1)
        · split at h
          · rename_i hnadj hadj
            have hp2 : (f :: e :: (pre ++ post)).Perm (e :: f :: (pre ++ post)) :=
              List.Perm.swap _ _ _
            have hj := (((hg.perm hp0).perm hp2).join hadj hbpg).1
            have hsum : f.count + e.count < 65536 := by clear hedge1 hedge2; omega
            have hu : u16 (f.count + e.count) = f.count + e.count := u16_of_lt hsum
            rw [hu] at hj h
            have k2 : f.offset + (f.count + e.count) = e.offset + e.count := by
              clear hedge1 hedge2; omega
            refine hstep ⟨f.offset, f.count + e.count⟩ hj (Nat.le_refl _)
              (Or.inl (by show f.offset + (f.count + e.count) = _; clear hedge1 hedge2; omega))
              (by show _ ≤ f.offset + (f.count + e.count); clear hedge1 hedge2; omega)
              (by show f.offset ≤ e.offset; clear hedge1 hedge2; omega)
              (Nat.le_of_eq k2.symm) hedge1
              (Or.inr ⟨e, hP e hemem, k2.symm⟩) ?_ h
            intro hna
            rcases hedge2 with h2 | ⟨b, hb1, hb2⟩
            · exact Or.inr (h2.symm.trans hadj)
            · exact absurd (hb2.trans hadj) (hna b e hb1 (hP e hemem))
          · rename_i hn1 hn2
            have q1 : table.length ≤ i + 1 + fuel := by clear hedge1 hedge2; omega
            refine ih table (i + 1) f hg q1 hi hlo hhi ?_ hP hedge1 hedge2 T f' h
            intro x hx
            rcases mem_take_succ table i hi x hx with hx | hx
            · exact htake x hx
            · rw [hx, ← he]
              clear hedge1 hedge2
              constructor <;> omega
    · rw [if_neg hi] at h
      simp only [Except.ok.injEq, Prod.mk.injEq] at h
      obtain ⟨h1, h2⟩ := h
      subst h1 h2
      exact hdone table i f (Nat.le_of_not_lt hi) htake

/-- C15, counterexample: the free extents of the only group are blocks 103 to
104 and blocks 100 to 102, which share no block, and block 105 is in the group
and in neither.  `FreeExtent` of block 105 absorbs the extent that ends at
block 105 and then the extent that ends where the grown extent begins: the new
table is the single extent of blocks 100 to 105.  The old entry of blocks 100
to 102 neither ends at block 105 nor begins at block 106, yet it is not an
entry of the new table. -/
theorem FreeExtent_absorbs_chain :
    AllocateExtent.loadedTable chainedVolume 0 = [⟨103, 2⟩, ⟨100, 3⟩]
      ∧ (AllocateExtent.loadedTable chainedVolume 0).Pairwise localDisjoint
      ∧ (∀ e, e ∈ AllocateExtent.loadedTable chainedVolume 0 →
          localDisjoint e ⟨105, 1⟩)
      ∧ (100 + 3 ≠ 105 ∧ 105 + 1 ≠ 100)
      ∧ ∃ v', FreeExtent chainedVolume ⟨105, 1⟩ = .ok v'
          ∧ AllocateExtent.loadedTable v' 0 = [⟨100, 6⟩]
          ∧ (⟨100, 3⟩ : EsFSLocalExtent) ∉ AllocateExtent.loadedTable v' 0 := by
  have ht : AllocateExtent.loadedTable chainedVolume 0 = [⟨103, 2⟩, ⟨100, 3⟩] := rfl
  refine ⟨ht, ?_, ?_, by decide, ?_⟩
  · rw [ht]
    simp [localDisjoint]
  · rw [ht]
    intro e he
    simp only [List.mem_cons, List.mem_singleton, List.not_mem_nil, or_false] at he
    rcases he with rfl | rfl <;> simp [localDisjoint]
  · have h0 : (FreeExtent chainedVolume ⟨105, 1⟩).map
        (fun v' => AllocateExtent.loadedTable v' 0) = .ok [⟨100, 6⟩] := rfl
    cases hr : FreeExtent chainedVolume ⟨105, 1⟩ with
    | error f => rw [hr] at h0; cases h0
    | ok v' =>
      rw [hr] at h0
      simp only [Except.map, Except.ok.injEq] at h0
      refine ⟨v', rfl, h0, ?_⟩
      rw [h0]
      simp

/-- C15 (amended): on a volume whose allocator state is well formed, let the
extent `E` have at least one block, lie inside group `g`, whose extent table
exists, and share no block with a free extent, and let `FreeExtent` return.
The new table of the group is `R ++ [f]` and the other groups keep theirs; its
free blocks are the old ones and the blocks of `E`; the last entry `f` contains
`E`; the old entries are, up to order, the entries of `R` together with the
absorbed entries `A`; every absorbed entry lies inside `f` and is not an entry
of `R`; no entry of `R` ends where `E` starts or begins where `E` ends, so every
such old entry is absorbed; and when no old entry ends where another begins,
the absorbed entries are exactly those. -/
theorem FreeExtent_merges_neighbours (v : EsFSVolume) (hwf : AllocatorWF v)
    (E : EsFSGlobalExtent) (g : Nat) (hg : g < v.superblock.groupCount)
    (hlo : g * v.superblock.blocksPerGroup ≤ E.offset)
    (hhi : E.offset + E.count ≤ g * v.superblock.blocksPerGroup + v.superblock.blocksPerGroup)
    (hready : (v.groupDescriptorTable g).extentTable ≠ 0)
    (hc : 1 ≤ E.count)
    (hused : ∀ x, E.offset ≤ x → x < E.offset + E.count → ¬ freeBlock v x)
    (v' : EsFSVolume) (h : FreeExtent v E = .ok v') :
    ∃ R f A,
      AllocateExtent.loadedTable v' g = R ++ [f]
      ∧ (∀ g', g' < v.superblock.groupCount → g' ≠ g →
          AllocateExtent.loadedTable v' g' = AllocateExtent.loadedTable v g')
      ∧ (∀ x, inTable (R ++ [f]) x ↔
          (inTable (AllocateExtent.loadedTable v g) x
            ∨ (E.offset - g * v.superblock.blocksPerGroup ≤ x
              ∧ x < E.offset - g * v.superblock.blocksPerGroup + E.count)))
      ∧ (f.offset ≤ E.offset - g * v.superblock.blocksPerGroup
          ∧ E.offset - g * v.superblock.blocksPerGroup + E.count ≤ f.offset + f.count)
      ∧ (AllocateExtent.loadedTable v g).Perm (R ++ A)
      ∧ (∀ a, a ∈ A →
          f.offset ≤ a.offset ∧ a.offset + a.count ≤ f.offset + f.count ∧ a ∉ R)
      ∧ (∀ x, x ∈ R →
          x.offset + x.count ≠ E.offset - g * v.superblock.blocksPerGroup
            ∧ E.offset - g * v.superblock.blocksPerGroup + E.count ≠ x.offset)
      ∧ (∀ x, x ∈ AllocateExtent.loadedTable v g →
          (x.offset + x.count = E.offset - g * v.superblock.blocksPerGroup
            ∨ E.offset - g * v.superblock.blocksPerGroup + E.count = x.offset) → x ∈ A)
      ∧ ((∀ x y, x ∈ AllocateExtent.loadedTable v g → y ∈ AllocateExtent.loadedTable v g →
            x.offset + x.count ≠ y.offset) →
          ∀ a, a ∈ A →
            (a.offset + a.count = E.offset - g * v.superblock.blocksPerGroup
              ∨ E.offset - g * v.superblock.blocksPerGroup + E.count = a.offset)) := by
  obtain ⟨T, f, hm, hinit, hgoodT, hin, htabs⟩ :=
    FreeExtent_ready v hwf E g hg hlo hhi hready hc hused v' h
  obtain ⟨A, hperm, l1, l2, hA, hT, hexact⟩ :=
    FreeExtent.merge_detail v.superblock.blocksPerGroup hwf.groupSize.2
      ⟨E.offset - g * v.superblock.blocksPerGroup, E.count⟩ hc
      (fun x => x ∈ AllocateExtent.loadedTable v g)
      (AllocateExtent.loadedTable v g).length (AllocateExtent.loadedTable v g) 0
      ⟨E.offset - g * v.superblock.blocksPerGroup, E.count⟩ hinit
      (by omega) (Nat.zero_le _) (Nat.le_refl _) (Nat.le_refl _)
      (by intro x hx; simp at hx) (fun x hx => hx) (Or.inl rfl) (Or.inl rfl) T f hm
  refine ⟨T, f, A, ?_, ?_, ?_, ⟨l1, l2⟩, hperm, ?_, hT, ?_, hexact⟩
  · rw [htabs g hg, if_pos rfl]
  · intro g' hg' hne
    rw [htabs g' hg', if_neg hne]
  · intro x
    rw [hin x]
    unfold inTable
    constructor
    · rintro ⟨e, he, hx⟩
      rcases List.mem_append.1 he with he | he
      · exact Or.inl ⟨e, he, hx⟩
      · rw [List.mem_singleton] at he
        subst he
        exact Or.inr hx
    · rintro (⟨e, he, hx⟩ | hx)
      · exact ⟨e, List.mem_append_left _ he, hx⟩
      · exact ⟨_, List.mem_append_right _ (List.mem_singleton.2 rfl), hx⟩
  · intro a ha
    obtain ⟨a1, a2⟩ := hA a ha
    refine ⟨a1, a2, ?_⟩
    intro haT
    have hd : localDisjoint a f :=
      (List.pairwise_append.1 hgoodT.disjoint).2.2 a haT f (List.mem_singleton.2 rfl)
    have hcount := (hgoodT.inGroup a (List.mem_append_left _ haT)).1
    unfold localDisjoint at hd
    omega
  · intro x hx htouch
    rcases List.mem_append.1 (hperm.mem_iff.1 hx) with hxT | hxA
    · have h2 : x.offset + x.count ≠ E.offset - g * v.superblock.blocksPerGroup
          ∧ E.offset - g * v.superblock.blocksPerGroup + E.count ≠ x.offset := hT x hxT
      rcases htouch with h3 | h3
      · exact absurd h3 h2.1
      · exact absurd h3 h2.2
    · exact hxA

theorem FreeExtent_merges_neighbours_witness :
    ∃ v', FreeExtent sampleVolume ⟨42, 1⟩ = .ok v' ∧ ∃ R f A,
      AllocateExtent.loadedTable v' 0 = R ++ [f]
      ∧ (∀ g', g' < sampleVolume.superblock.groupCount → g' ≠ 0 →
          AllocateExtent.loadedTable v' g' = AllocateExtent.loadedTable sampleVolume g')
      ∧ (∀ x, inTable (R ++ [f]) x ↔
          (inTable (AllocateExtent.loadedTable sampleVolume 0) x
            ∨ (42 - 0 * sampleVolume.superblock.blocksPerGroup ≤ x
              ∧ x < 42 - 0 * sampleVolume.superblock.blocksPerGroup + 1)))
      ∧ (f.offset ≤ 42 - 0 * sampleVolume.superblock.blocksPerGroup
          ∧ 42 - 0 * sampleVolume.superblock.blocksPerGroup + 1 ≤ f.offset + f.count)
      ∧ (AllocateExtent.loadedTable sampleVolume 0).Perm (R ++ A)
      ∧ (∀ a, a ∈ A →
          f.offset ≤ a.offset ∧ a.offset + a.count ≤ f.offset + f.count ∧ a ∉ R)
      ∧ (∀ x, x ∈ R →
          x.offset + x.count ≠ 42 - 0 * sampleVolume.superblock.blocksPerGroup
            ∧ 42 - 0 * sampleVolume.superblock.blocksPerGroup + 1 ≠ x.offset)
      ∧ (∀ x, x ∈ AllocateExtent.loadedTable sampleVolume 0 →
          (x.offset + x.count = 42 - 0 * sampleVolume.superblock.blocksPerGroup
            ∨ 42 - 0 * sampleVolume.superblock.blocksPerGroup + 1 = x.offset) → x ∈ A)
      ∧ ((∀ x y, x ∈ AllocateExtent.loadedTable sampleVolume 0 →
            y ∈ AllocateExtent.loadedTable sampleVolume 0 →
            x.offset + x.count ≠ y.offset) →
          ∀ a, a ∈ A →
            (a.offset + a.count = 42 - 0 * sampleVolume.superblock.blocksPerGroup
              ∨ 42 - 0 * sampleVolume.superblock.blocksPerGroup + 1 = a.offset)) := by
  have h0 : (FreeExtent sampleVolume ⟨42, 1⟩).map (fun _ => ()) = .ok () := rfl
  cases hr : FreeExtent sampleVolume ⟨42, 1⟩ with
  | error f => rw [hr] at h0; cases h0
  | ok v' =>
    refine ⟨v', rfl, ?_⟩
    refine FreeExtent_merges_neighbours sampleVolume allocatorWF_sampleVolume ⟨42, 1⟩ 0
      (by decide) (by decide) (by decide) (by decide) (by decide) ?_ v' hr
    rintro x hx1 hx2 ⟨g, hg, e, he, h1, h2⟩
    replace hx1 : 42 ≤ x := hx1
    replace hx2 : x < 43 := hx2
    replace hg : g < 32 := hg
    replace h1 : g * 4096 + e.offset ≤ x := h1
    have hg0 : g = 0 := by omega
    subst hg0
    have ht : AllocateExtent.loadedTable sampleVolume 0 = [⟨43, 4053⟩] := rfl
    rw [ht, List.mem_singleton] at he
    subst he
    replace h1 : 0 * 4096 + 43 ≤ x := h1
    omega

/-- The overlap test of `FreeExtent` on two extents of at least one block: it
fires exactly when the extents share a block and end at different blocks. -/
theorem overlap_test_iff (x e : EsFSLocalExtent) (hx : 1 ≤ x.count) (he : 1 ≤ e.count) :
    ((x.offset + x.count > e.offset ∧ x.offset + x.count < e.offset + e.count)
        ∨ (e.offset + e.count > x.offset ∧ e.offset + e.count < x.offset + x.count))
      ↔ (¬ localDisjoint x e ∧ x.offset + x.count ≠ e.offset + e.count) := by
  unfold localDisjoint
  omega

/-- C16: on the sample volume the free extent of group 0 is blocks 43 to 4095.
`FreeExtent` of that very extent (a double free) returns and leaves the extent
twice in the table; `FreeExtent` of blocks 4000 to 4095, which are free and
shares their end with the free extent, returns and leaves both in the table.
Only an overlap whose ends differ, like blocks 4000 to 4049, ends in the panic
"Extent overlap". -/
theorem FreeExtent_misses_overlap_with_equal_ends :
    AllocateExtent.loadedTable sampleVolume 0 = [⟨43, 4053⟩]
      ∧ (FreeExtent sampleVolume ⟨43, 4053⟩).map (fun v' => AllocateExtent.loadedTable v' 0)
          = .ok [⟨43, 4053⟩, ⟨43, 4053⟩]
      ∧ (FreeExtent sampleVolume ⟨4000, 96⟩).map (fun v' => AllocateExtent.loadedTable v' 0)
          = .ok [⟨43, 4053⟩, ⟨4000, 96⟩]
      ∧ (FreeExtent sampleVolume ⟨4000, 50⟩).map (fun v' => AllocateExtent.loadedTable v' 0)
          = .error .extentOverlap :=
  ⟨rfl, rfl, rfl, rfl⟩

/-! ### Directories -/

/-- C17: `CreateNode` returns `false` for every name of 256 bytes or more and
then leaves the node of the directory (its data stream and
`itemsInDirectory`) and the volume (allocator state and drive) as they were;
for a name of at most 255 bytes `CreateNode` never returns `false`. -/
theorem CreateNode_rejects_long_names (v : EsFSVolume) (directory : DirectoryNode)
    (name : List Nat) (type : Nat) (random uninit : Nat → Nat) :
    (256 ≤ name.length →
        CreateNode v directory name type random uninit = .ok (false, directory, v))
      ∧ (name.length ≤ 255 →
          ∀ r, CreateNode v directory name type random uninit = .ok r → r.1 = true) := by
  constructor
  · intro h
    unfold CreateNode
    rw [if_pos h]
  · intro h r hr
    unfold CreateNode at hr
    rw [if_neg (by omega)] at hr
    cases hi : directory.itemsInDirectory with
    | none => rw [hi] at hr; cases hr
    | some items =>
      cases hd : directory.data with
      | none => rw [hi, hd] at hr; cases hr
      | some data =>
        rw [hi, hd] at hr
        generalize CreateNode.entry name type random = e at hr
        obtain ⟨entryBuffer, entryBufferPosition, identifier⟩ := e
        simp only at hr
        split at hr
        · cases hr
        · cases hl : CreateNode.lastBlock v data with
          | error f => rw [hl] at hr; cases hr
          | ok r0 =>
            obtain ⟨blockBuffer, position⟩ := r0
            rw [hl] at hr
            simp only at hr
            unfold CreateNode.store at hr
            simp only at hr
            split at hr
            · cases hr
            · split at hr
              · cases hr
              · split at hr
                · cases hr
                · cases hr
                  rfl

set_option maxRecDepth 100000 in
theorem CreateNode_rejects_long_names_witness :
    CreateNode sampleVolume emptyDirectory (List.replicate 256 97) ESFS_FILE_TYPE_FILE
        (fun i => i) (fun _ => 0) = .ok (false, emptyDirectory, sampleVolume)
      ∧ (∀ r, CreateNode sampleVolume emptyDirectory (List.replicate 255 97) ESFS_FILE_TYPE_FILE
          (fun i => i) (fun _ => 0) = .ok r → r.1 = true)
      ∧ (CreateNode sampleVolume emptyDirectory (List.replicate 255 97) ESFS_FILE_TYPE_FILE
          (fun i => i) (fun _ => 0)).map (fun r => (r.1, r.2.1.itemsInDirectory))
          = .ok (true, some 1) :=
  ⟨(CreateNode_rejects_long_names sampleVolume emptyDirectory (List.replicate 256 97)
      ESFS_FILE_TYPE_FILE (fun i => i) (fun _ => 0)).1 (by simp),
    (CreateNode_rejects_long_names sampleVolume emptyDirectory (List.replicate 255 97)
      ESFS_FILE_TYPE_FILE (fun i => i) (fun _ => 0)).2 (by simp),
    rfl⟩

set_option maxRecDepth 100000 in
/-- C18: the small volume has one free block, block 100.  In an empty directory
an entry with a name of 103 bytes is created: the stream of the directory
gets block 100, and `Enumerate` emits the name.  A second entry with the same
name does not fit into the block, and the stream cannot grow; `CreateNode`
still returns `true` and counts two entries, but the stream keeps its one
block, whose bytes are now those of the second entry (identifier 2, 3, ...)
followed by zero bytes: the first entry is gone, and `Enumerate` ends in the
panic "Could not find block". -/
theorem CreateNode_overwrites_entry_on_full_volume :
    ((do
      let r1 ← CreateNode smallVolume emptyDirectory (longName 65) ESFS_FILE_TYPE_FILE
        (fun i => i + 1) (fun _ => 0)
      let children ← Enumerate r1.2.2 r1.2.1
      let r2 ← CreateNode r1.2.2 r1.2.1 (longName 65) ESFS_FILE_TYPE_FILE
        (fun i => i + 2) (fun _ => 0)
      pure (r1.1, r1.2.1.itemsInDirectory, r1.2.1.data.map (fun data => data.size),
        (AccessBlockRead r1.2.2 100 512 0).drop 129 |>.take 9, lastBytes children,
        r2.1, r2.2.1.itemsInDirectory, r2.2.1.data.map (fun data => data.size),
        (AccessBlockRead r2.2.2 100 512 0).drop 129 |>.take 9,
        (AccessBlockRead r2.2.2 100 512 0).drop 257 |>.all (fun b => b = 0),
        (Enumerate r2.2.2 r2.2.1).map lastBytes))
        : Except DirectoryFault _)
      = .ok (true, some 1, some 512, [1, 2, 3, 4, 5, 6, 7, 8, 100], [some 65],
          true, some 2, some 512, [2, 3, 4, 5, 6, 7, 8, 9, 100], true,
          .error (.stream .couldNotFindBlock)) :=
  rfl

set_option maxRecDepth 100000 in
/-- C20: in an empty directory of the sample volume three entries with names of
103 bytes are created, one per block of the stream; `Enumerate` emits the
three names.  The second entry is looked up and removed
(`RemoveNodeFromParent` returns `true`, `itemsInDirectory` is 2), which leaves
the second block of the stream empty: `Enumerate` and the lookup of the third
name then end in the panic "Directory entry had invalid signature". -/
theorem Enumerate_panics_after_remove :
    ((do
      let r1 ← CreateNode sampleVolume emptyDirectory (longName 65) ESFS_FILE_TYPE_FILE
        (fun i => i + 1) (fun _ => 0)
      let r2 ← CreateNode r1.2.2 r1.2.1 (longName 66) ESFS_FILE_TYPE_FILE
        (fun i => i + 2) (fun _ => 0)
      let r3 ← CreateNode r2.2.2 r2.2.1 (longName 67) ESFS_FILE_TYPE_FILE
        (fun i => i + 3) (fun _ => 0)
      let children ← Enumerate r3.2.2 r3.2.1
      let found ← SearchDirectory r3.2.2 (longName 66) r3.2.1 []
      match found.1 with
      | none => pure none
      | some node =>
        let r4 ← RemoveNodeFromParent r3.2.2 r3.2.1 node found.2
        pure (some (r1.1, r2.1, r3.1, r3.2.1.itemsInDirectory, lastBytes children,
          r4.1, r4.2.1.itemsInDirectory,
          (Enumerate r4.2.2.1 r4.2.1).map lastBytes,
          (SearchDirectory r4.2.2.1 (longName 67) r4.2.1 r4.2.2.2).map (fun r => r.1.isSome))))
        : Except DirectoryFault _)
      = .ok (some (true, true, true, some 3, [some 65, some 66, some 67],
          true, some 2, .error .invalidSignature, .error .invalidSignature)) :=
  rfl

/-! ### What a growing stream leaves alone -/

/-- The `switch` of the allocation loop keeps the volume, the extents recorded
before, and the list blocks that are set. -/
theorem GrowDataStream.append_hold (v0 : EsFSVolume) (hvol : VolumeWF v0) (target inc : Nat)
    (st : GrowState) (hinv : GrowInv2 v0 target inc st) (E : EsFSGlobalExtent)
    (st' : GrowState) (h : GrowDataStream.append st E = (true, st')) :
    st'.v = st.v ∧ st'.data.extentCount = st.data.extentCount + 1
      ∧ (∀ i, i < st.data.extentCount → st'.extent i = st.extent i)
      ∧ (st'.data.indirection = ESFS_DATA_INDIRECT_2 →
          ∀ s, s < ESFS_INDIRECT_2_BLOCKS → st'.data.indirect2 s ≠ 0 →
            st.data.indirection = ESFS_DATA_INDIRECT_2
              ∧ st'.data.indirect2 s = st.data.indirect2 s) := by
  obtain ⟨n0, hsb0⟩ := hinv.superblock
  have hBs : st.v.superblock.blockSize = v0.superblock.blockSize := by rw [hsb0]
  have hepbs : extentsPerBlock st.v.superblock = extentsPerBlock v0.superblock := by
    unfold extentsPerBlock; rw [hBs]
  obtain ⟨k, hk, hBk⟩ := hvol.geometry.blockSizePow
  have hB : 0 < v0.superblock.blockSize := by rw [hBk]; exact Nat.two_pow_pos k
  have hepb := extentsPerBlock_mul v0.superblock k hBk hvol.extentSize
  have hsec : st.v.sectorsPerBlock * st.v.sectorSize = st.v.superblock.blockSize := by
    rw [hinv.drive.1, hinv.drive.2.1, hBs]; exact hvol.geometry.sectors
  have hfit := hvol.listFits
  unfold GrowDataStream.append at h
  dsimp only at h
  by_cases hm : st.data.indirection = ESFS_DATA_INDIRECT
  · rw [if_pos hm] at h
    obtain ⟨hs1, hs2, hs3⟩ := hinv.small hm
    have hext0 : st.extent = st.data.indirect := by
      rw [GrowState.extent_none _ hs2, extentList_of_indirect _ _ hm]
    by_cases hec : st.data.extentCount ≠ ESFS_INDIRECT_EXTENTS
    · rw [if_pos hec] at h
      simp only [Prod.mk.injEq, true_and] at h
      unfold ESFS_INDIRECT_EXTENTS at hs1 hec
      have hu : u16 (st.data.extentCount + 1) = st.data.extentCount + 1 := u16_of_lt (by omega)
      have hv' : st'.v = st.v := by rw [← h]
      have hd' : st'.data = { (st.data.setIndirect st.data.extentCount E) with
          extentCount := u16 (st.data.extentCount + 1) } := by rw [← h]
      have hn' : st'.newExtentList = none := by rw [← h]; exact hs2
      have hm' : st'.data.indirection = ESFS_DATA_INDIRECT := by rw [hd']; exact hm
      refine ⟨hv', by rw [hd']; exact hu, ?_, ?_⟩
      · intro i hi
        rw [GrowState.extent_none _ hn', extentList_of_indirect _ _ hm', hd', hext0]
        exact indirect_setIndirect_other _ _ _ _ (by omega)
      · intro h2
        exact absurd (hm'.symm.trans h2) (by decide)
    · rw [if_neg hec] at h
      simp only [Prod.mk.injEq, true_and] at h
      replace hec : st.data.extentCount = ESFS_INDIRECT_EXTENTS := by_contra hec
      have hv' : st'.v = st.v := by rw [← h]
      have hd' : st'.data = { st.data with
          indirection := ESFS_DATA_INDIRECT_2
          extentCount := u16 (st.data.extentCount + 1)
          unionBytes := writeBytes st.data.unionBytes 0
            (List.replicate (ESFS_INDIRECT_EXTENTS * sizeofGlobalExtent) 0) } := by rw [← h]
      have hn' : st'.newExtentList = some (setExtent
          (writeBytes (fun _ => 0) 0
            (readBytes st.data.unionBytes 0 (ESFS_INDIRECT_EXTENTS * sizeofGlobalExtent)))
          st.data.extentCount E) := by rw [← h]
      have hf' : st'.firstModifiedExtentListBlock = st.firstModifiedExtentListBlock := by rw [← h]
      refine ⟨hv', by rw [hd', hec]; rfl, ?_, ?_⟩
      · intro i hi
        rw [GrowState.extent_some _ _ hn', hf', hs3, Nat.zero_mul, if_pos (Nat.zero_le _), hext0,
          readExtent_setExtent_other _ _ _ _ (by omega)]
        unfold EsFSAttributeFileData.indirect
        apply readExtent_congr
        intro j hj
        rw [hec] at hi
        unfold ESFS_INDIRECT_EXTENTS sizeofGlobalExtent at *
        unfold writeBytes
        rw [readBytes_length, if_pos (by omega), getD_readBytes _ _ _ _ (by omega)]
        congr 1
        omega
      · intro _ s hs hne
        exfalso
        apply hne
        rw [hd']
        unfold EsFSAttributeFileData.indirect2
        apply readU64_zero
        intro i hi
        show writeBytes st.data.unionBytes 0 (List.replicate _ 0) (s * 8 + i) = 0
        rw [writeBytes_zeros]
        unfold ESFS_INDIRECT_EXTENTS sizeofGlobalExtent ESFS_INDIRECT_2_BLOCKS at *
        rw [if_pos (by omega)]
  · have hm2 : st.data.indirection = ESFS_DATA_INDIRECT_2 := by
      rcases hinv.mode with h1 | h1
      · exact absurd h1 hm
      · exact h1
    rw [if_neg hm, if_pos hm2] at h
    obtain ⟨hb1, hb2⟩ := hinv.big hm2
    have hu : u16 (st.data.extentCount + 1) = st.data.extentCount + 1 := u16_of_lt (by omega)
    -- the common end of both cases
    have hfin : ∀ (list : Memory) (first : Nat),
        (∀ i, first * extentsPerBlock v0.superblock ≤ i → i < st.data.extentCount →
          readExtent list (i * sizeofGlobalExtent) = st.extent i) →
        (∀ i, i < first * extentsPerBlock v0.superblock →
          extentList st.v st.data i = st.extent i) →
        st'.v = st.v →
        st'.data = { st.data with extentCount := u16 (st.data.extentCount + 1) } →
        st'.newExtentList = some (setExtent list st.data.extentCount E) →
        st'.firstModifiedExtentListBlock = first →
        st'.v = st.v ∧ st'.data.extentCount = st.data.extentCount + 1
          ∧ (∀ i, i < st.data.extentCount → st'.extent i = st.extent i)
          ∧ (st'.data.indirection = ESFS_DATA_INDIRECT_2 →
              ∀ s, s < ESFS_INDIRECT_2_BLOCKS → st'.data.indirect2 s ≠ 0 →
                st.data.indirection = ESFS_DATA_INDIRECT_2
                  ∧ st'.data.indirect2 s = st.data.indirect2 s) := by
      intro list first hB' hC hv' hd' hn' hf'
      have hepbs' : extentsPerBlock st'.v.superblock = extentsPerBlock v0.superblock := by
        rw [hv']; exact hepbs
      have hel : extentList st'.v st'.data = extentList st.v st.data := by rw [hv', hd']; rfl
      refine ⟨hv', by rw [hd']; exact hu, ?_, ?_⟩
      · intro i hi
        rw [GrowState.extent_some _ _ hn', hf', hepbs', hel]
        split
        · rename_i h1
          rw [readExtent_setExtent_other _ _ _ _ (by omega)]
          exact hB' i h1 hi
        · rename_i h1
          exact hC i (by omega)
      · intro _ s _ _
        refine ⟨hm2, ?_⟩
        rw [hd']
        rfl
    cases hl : st.newExtentList with
    | some list =>
      rw [hl] at h
      simp only [Prod.mk.injEq, decide_eq_true_eq] at h
      obtain ⟨_, hst⟩ := h
      refine hfin list st.firstModifiedExtentListBlock ?_ ?_ (by rw [← hst]) (by rw [← hst])
        (by rw [← hst]) (by rw [← hst])
      · intro i hi1 _
        rw [GrowState.extent_some _ _ hl, hepbs, if_pos hi1]
      · intro i hi
        rw [GrowState.extent_some _ _ hl, hepbs, if_neg (by omega)]
    | none =>
      rw [hl] at h
      obtain ⟨hn1, hn2⟩ := listBlocks_bounds st.v.superblock (by rw [hepbs, hBs]; exact hepb)
        (by rw [hBs]; exact hB) st.data.extentCount
      rw [hepbs] at hn1 hn2
      have hpres : ∀ s, s < BlocksNeededToStore st.v.superblock
          (st.data.extentCount * sizeofGlobalExtent) → st.data.indirect2 s ≠ 0 := by
        intro s hs
        apply hinv.present hm2
        unfold GrowState.listBlocks
        rw [hl]
        exact hs
      generalize BlocksNeededToStore st.v.superblock
        (st.data.extentCount * sizeofGlobalExtent) = nd at h hn1 hn2 hpres
      unfold ESFS_INDIRECT_EXTENTS at hb1
      have hneed : 1 ≤ nd := by
        by_contra hc
        have : nd = 0 := by omega
        rw [this] at hn1
        omega
      have hneed8 : nd ≤ ESFS_INDIRECT_2_BLOCKS := by
        by_contra hc
        have := Nat.mul_le_mul_right (extentsPerBlock v0.superblock)
          (show ESFS_INDIRECT_2_BLOCKS + 1 ≤ nd by omega)
        rw [Nat.add_mul, Nat.one_mul] at this
        omega
      have hfm : sub64 nd 1 = nd - 1 :=
        sub64_eq_sub hneed (by unfold ESFS_INDIRECT_2_BLOCKS at hneed8; omega)
      rw [hfm] at h
      simp only [Prod.mk.injEq, decide_eq_true_eq] at h
      obtain ⟨_, hst⟩ := h
      have hmul : (nd - 1) * extentsPerBlock v0.superblock + extentsPerBlock v0.superblock
          = nd * extentsPerBlock v0.superblock := by
        have := Nat.sub_add_cancel hneed
        rw [← Nat.succ_mul, Nat.succ_eq_add_one, this]
      refine hfin _ (nd - 1) ?_ ?_ (by rw [← hst]) (by rw [← hst]) (by rw [← hst])
        (by rw [← hst])
      · intro i hi1 hi2
        rw [GrowState.extent_none _ hl]
        rw [← hepbs] at hi1 hmul
        exact readExtent_loadedBlock st.v st.data hm2 hsec (by rw [hepbs, hBs]; exact hepb)
          (by rw [hBs]; exact hB) _ (by omega) (hpres _ (by omega)) i hi1
          (by rw [hmul, hepbs]; omega)
      · intro i _
        rw [GrowState.extent_none _ hl]

/-- The frame of the allocation loop holds at its start. -/
theorem GrowFrame.start (v0 : EsFSVolume) (data0 : EsFSAttributeFileData) :
    GrowFrame v0 data0 ⟨v0, data0, none, 0⟩ :=
  ⟨Nat.le_refl _, fun j _ => by rw [GrowState.extent_none _ rfl], fun _ h => h,
    fun _ _ _ _ _ => rfl, fun hm _ _ _ => ⟨hm, rfl⟩⟩

/-- One allocation of the loop of `GrowDataStream`, with the new blocks zeroed
or not, keeps the frame. -/
theorem GrowFrame.after_allocate (v0 : EsFSVolume) (hvol : VolumeWF v0) (data0 : EsFSAttributeFileData)
    (target inc : Nat) (st : GrowState) (hinv : GrowInv2 v0 target inc st)
    (hfr : GrowFrame v0 data0 st)
    (lg d u : Nat) (hlg : lg < v0.superblock.groupCount)
    (E : EsFSGlobalExtent) (v1 : EsFSVolume)
    (h : AllocateExtent st.v lg d u = .ok (E, v1)) (hE : E.count ≠ 0) (clear : Bool)
    (v2 : EsFSVolume)
    (hv2 : v2 = if clear then
        AccessBlockWrite v1 E.offset (st.v.superblock.blockSize * E.count)
          (List.replicate (st.v.superblock.blockSize * E.count) 0) 0
      else v1) :
    GrowFrame v0 data0 { st with v := v2 } := by
  obtain ⟨n0, hsb0⟩ := hinv.superblock
  have hgc : st.v.superblock.groupCount = v0.superblock.groupCount := by rw [hsb0]
  have hB : st.v.superblock.blockSize = v0.superblock.blockSize := by rw [hsb0]
  obtain ⟨hwf1, hdisk, hs1, hs2, hs3, hsb1, hle, hoff, hvolE, hfree, hsub⟩ :=
    AllocateExtent_step st.v hinv.wf lg d u (by rw [hgc]; exact hlg) E v1 h hE
  have hsec : st.v.sectorsPerBlock * st.v.sectorSize = st.v.superblock.blockSize := by
    rw [hinv.drive.1, hinv.drive.2.1, hB]; exact hvol.geometry.sectors
  have hv2sb : v2.superblock = v1.superblock := by rw [hv2]; cases clear <;> rfl
  have hv2g : v2.groupDescriptorTable = v1.groupDescriptorTable := by rw [hv2]; cases clear <;> rfl
  have hv2t : v2.extentTables = v1.extentTables := by rw [hv2]; cases clear <;> rfl
  have hv2a : v2.sectorsPerBlock = v1.sectorsPerBlock := by rw [hv2]; cases clear <;> rfl
  have hv2b : v2.sectorSize = v1.sectorSize := by rw [hv2]; cases clear <;> rfl
  have hv2d : ∀ a, ¬ (E.offset * st.v.superblock.blockSize ≤ a
      ∧ a < E.offset * st.v.superblock.blockSize + st.v.superblock.blockSize * E.count) →
      v2.disk a = st.v.disk a := by
    intro a ha
    rw [hv2]
    cases clear
    · exact congrFun hdisk a
    · show writeBytes v1.disk (blockAddress v1 E.offset 0) (List.take _ (List.replicate _ 0)) a = _
      rw [List.take_replicate, Nat.min_self, writeBytes_zeros]
      have hba : blockAddress v1 E.offset 0 = E.offset * st.v.superblock.blockSize := by
        unfold blockAddress
        rw [hs1, hs2, Nat.mul_assoc, hsec, Nat.add_zero]
      rw [hba, if_neg ha, hdisk]
  have hfreshOld : ∀ x, usedBlock st.v x → x < E.offset ∨ E.offset + E.count ≤ x := by
    intro x hx
    by_contra hc
    exact hx.2.2.2.2 (hfree x (by omega) (by omega)).1
  have hext : extentList v2 st.data = extentList st.v st.data := by
    apply extentList_frame2 st.v v2 st.data hsec (by rw [hv2sb, hsb1]) (by rw [hv2a, hs1])
      (by rw [hv2b, hs2])
    intro hm s hs h0 a ha1 ha2
    apply hv2d
    exact block_bytes_disjoint _ _ _ _ a (hfreshOld _ (hinv.listUsed hm s hs h0)) ha1 ha2
  have hBv2 : v2.superblock.blockSize = st.v.superblock.blockSize := by rw [hv2sb, hsb1]
  have hextent : GrowState.extent { st with v := v2 } = GrowState.extent st :=
    GrowState.extent_volume st v2 hBv2 hext
  refine ⟨hfr.count, ?_, ?_, ?_, hfr.listBlocks⟩
  · intro j hj
    rw [hextent]
    exact hfr.extents j hj
  · intro x hx
    exact hfr.free x (hsub x ((freeBlock_of_tables hv2sb hv2g hv2t x).1 hx))
  · intro x hx a ha1 ha2
    show v2.disk a = v0.disk a
    rw [← hfr.disk x hx a ha1 ha2]
    apply hv2d
    have hnf : ¬ freeBlock st.v x := fun hf => hx.2.2.2.2 (hfr.free x hf)
    have hout : x < E.offset ∨ E.offset + E.count ≤ x := by
      by_contra hc
      exact hnf (hfree x (by omega) (by omega)).1
    rw [hB]
    exact block_bytes_disjoint _ _ _ _ a hout ha1 ha2

/-- The `switch` of the allocation loop keeps the frame. -/
theorem GrowFrame.after_append (v0 : EsFSVolume) (hvol : VolumeWF v0) (data0 : EsFSAttributeFileData)
    (target inc : Nat) (st : GrowState) (hinv : GrowInv2 v0 target inc st)
    (hfr : GrowFrame v0 data0 st) (E : EsFSGlobalExtent)
    (st' : GrowState) (h : GrowDataStream.append st E = (true, st')) :
    GrowFrame v0 data0 st' := by
  obtain ⟨hv, hc, hold, hlist⟩ := GrowDataStream.append_hold v0 hvol target inc st hinv E st' h
  refine ⟨by have := hfr.count; omega, ?_, by rw [hv]; exact hfr.free, by rw [hv]; exact hfr.disk,
    ?_⟩
  · intro j hj
    rw [hold j (by have := hfr.count; omega)]
    exact hfr.extents j hj
  · intro hm s hs hne
    obtain ⟨h1, h2⟩ := hlist hm s hs hne
    rw [h2] at hne ⊢
    exact hfr.listBlocks h1 s hs hne

/-- The allocation loop of `GrowDataStream` keeps the frame. -/
theorem GrowFrame.after_loop (v0 : EsFSVolume) (hvol : VolumeWF v0) (data0 : EsFSAttributeFileData)
    (target cb : Nat)
    (hlg : cb / v0.superblock.blocksPerGroup < v0.superblock.groupCount) (clear : Bool) :
    ∀ (fuel : Nat) (uninit : Nat → Nat) (inc : Nat) (st : GrowState),
      GrowInv2 v0 target inc st → GrowFrame v0 data0 st → inc < 18446744073709551616 →
      ∀ st' u', GrowDataStream.allocate clear cb fuel uninit inc st = .ok (true, st', u') →
        GrowFrame v0 data0 st' := by
  intro fuel
  induction fuel with
  | zero =>
    intro uninit inc st hinv hfr _ st' u' h
    cases inc with
    | zero =>
      simp only [GrowDataStream.allocate, Except.ok.injEq, Prod.mk.injEq, true_and] at h
      rw [← h.1]
      exact hfr
    | succ inc => simp [GrowDataStream.allocate] at h
  | succ fuel ih =>
    intro uninit inc st hinv hfr hinc st' u' h
    cases inc with
    | zero =>
      simp only [GrowDataStream.allocate, Except.ok.injEq, Prod.mk.injEq, true_and] at h
      rw [← h.1]
      exact hfr
    | succ inc =>
      obtain ⟨n0, hsb0⟩ := hinv.superblock
      have hbpg : st.v.superblock.blocksPerGroup = v0.superblock.blocksPerGroup := by rw [hsb0]
      simp only [GrowDataStream.allocate] at h
      cases hA : AllocateExtent st.v (cb / st.v.superblock.blocksPerGroup) (inc + 1) (uninit 0) with
      | error f => rw [hA] at h; simp at h
      | ok r =>
        obtain ⟨E, v1⟩ := r
        rw [hA] at h
        dsimp only at h
        by_cases hE : E.count = 0
        · rw [if_pos hE] at h; simp at h
        · rw [if_neg hE] at h
          rw [hbpg] at hA
          obtain ⟨W, hW⟩ : ∃ W, W = if clear = true then
              AccessBlockWrite v1 E.offset (st.v.superblock.blockSize * E.count)
                (List.replicate (st.v.superblock.blockSize * E.count) 0) 0
            else v1 := ⟨_, rfl⟩
          rw [← hW] at h
          obtain ⟨hinvW, hle, hEvol, hEused, hEone, hEdis, hElist⟩ :=
            GrowInv2.allocated v0 hvol target (inc + 1) st hinv _ _ _ hlg E v1 hA hE clear W hW
          have hfrW := GrowFrame.after_allocate v0 hvol data0 target (inc + 1) st hinv hfr _ _ _ hlg
            E v1 hA hE clear W hW
          cases happ : GrowDataStream.append
              ⟨W, st.data, st.newExtentList, st.firstModifiedExtentListBlock⟩ E with
          | mk b st2 =>
            rw [happ] at h
            cases b with
            | false => simp at h
            | true =>
              dsimp only at h
              have hinv2 := GrowInv2.appended v0 hvol target (inc + 1) _ hinvW E (by omega) hle
                hEvol hEused hEone hEdis hElist st2 happ
              have hfr2 := GrowFrame.after_append v0 hvol data0 target (inc + 1) _ hinvW hfrW E st2
                happ
              rw [sub64_eq_sub hle hinc] at h
              exact ih _ _ _ hinv2 hfr2 (by omega) st' u' h

/-- Writing list block `i`, which is set, keeps the frame of the loop that
stores the extent list. -/
theorem SaveFrame.after_write (v0 : EsFSVolume) (hvol : VolumeWF v0) (data0 : EsFSAttributeFileData)
    (L : Nat → EsFSGlobalExtent) (list : Memory) (first i : Nat)
    (data : EsFSAttributeFileData) (v : EsFSVolume) (hinv : SaveInv v0 L list first i data v)
    (hfr : SaveFrame v0 data0 data v)
    (hi : i < ESFS_INDIRECT_2_BLOCKS) (hset : data.indirect2 i ≠ 0) (m : Memory) (addr : Nat) :
    SaveFrame v0 data0 data
      (AccessBlockWrite v (data.indirect2 i) v.superblock.blockSize
        (readBytes m addr v.superblock.blockSize) 0) := by
  obtain ⟨n0, hsb0⟩ := hinv.superblock
  have hB : v.superblock.blockSize = v0.superblock.blockSize := by rw [hsb0]
  have hsec : v.sectorsPerBlock * v.sectorSize = v.superblock.blockSize := by
    rw [hinv.drive.1, hinv.drive.2.1, hB]; exact hvol.geometry.sectors
  refine ⟨?_, ?_, hfr.listBlocks⟩
  · intro x hx
    exact hfr.free x ((freeBlock_of_tables rfl rfl rfl x).1 hx)
  · intro x hx hnl a ha1 ha2
    rw [AccessBlockWrite_disk v hsec, if_neg, hfr.disk x hx hnl a ha1 ha2]
    have hne : data.indirect2 i ≠ x := by
      rcases hfr.listBlocks i hi hset with ⟨hm, h2⟩ | hnu
      · rw [h2]; exact hnl hm i hi
      · intro he; rw [he] at hnu; exact hnu hx
    rw [hB]
    intro hc
    have hb : 0 < v0.superblock.blockSize := by omega
    have h1 : data.indirect2 i = a / v0.superblock.blockSize :=
      (div_eq_of_group _ _ _ hc.1 hc.2).symm
    have h2 : x = a / v0.superblock.blockSize :=
      (div_eq_of_group _ _ _ ha1 ha2).symm
    exact hne (h1.trans h2.symm)

/-- The loop of `GrowDataStream` that stores the extent list keeps its frame. -/
theorem SaveFrame.after_saveList (v0 : EsFSVolume) (hvol : VolumeWF v0) (data0 : EsFSAttributeFileData)
    (L : Nat → EsFSGlobalExtent) (list : Memory) (first cb : Nat)
    (hlg : cb / v0.superblock.blocksPerGroup < v0.superblock.groupCount) :
    ∀ (n i : Nat) (uninit : Nat → Nat) (data : EsFSAttributeFileData) (v : EsFSVolume),
      SaveInv v0 L list first i data v → SaveFrame v0 data0 data v →
      i + n ≤ ESFS_INDIRECT_2_BLOCKS →
      ∀ data' v' u', GrowDataStream.saveList cb list n i uninit data v = .ok (true, data', v', u') →
        SaveFrame v0 data0 data' v' := by
  intro n
  induction n with
  | zero =>
    intro i uninit data v hinv hfr _ data' v' u' h
    simp only [GrowDataStream.saveList, Except.ok.injEq, Prod.mk.injEq, true_and] at h
    rw [← h.1, ← h.2.1]
    exact hfr
  | succ n ih =>
    intro i uninit data v hinv hfr hi data' v' u' h
    obtain ⟨n0, hsb0⟩ := hinv.superblock
    have hbpg : v.superblock.blocksPerGroup = v0.superblock.blocksPerGroup := by rw [hsb0]
    have hgc : v.superblock.groupCount = v0.superblock.groupCount := by rw [hsb0]
    have hB : v.superblock.blockSize = v0.superblock.blockSize := by rw [hsb0]
    simp only [GrowDataStream.saveList] at h
    by_cases h0 : data.indirect2 i = 0
    · rw [if_pos h0] at h
      cases hA : AllocateExtent v (cb / v.superblock.blocksPerGroup) 1 (uninit 0) with
      | error f => rw [hA] at h; simp at h
      | ok r =>
        obtain ⟨X, v1⟩ := r
        rw [hA] at h
        dsimp only at h
        by_cases hX : X.count = 0
        · rw [if_pos hX] at h; simp at h
        · rw [if_neg hX] at h
          rw [hbpg] at hA
          obtain ⟨hinv1, hset⟩ := SaveInv.listBlockAllocated v0 hvol L list first i data v hinv
            (by omega) h0 _ _ hlg X v1 hA hX
          obtain ⟨hwf1, hdisk, hs1, hs2, hs3, hsb1', hle, hoff, hvolE, hfree, hsub⟩ :=
            AllocateExtent_step v hinv.wf _ 1 _ (by rw [hgc]; exact hlg) X v1 hA hX
          have hbc := hinv.wf.blockCount
          have hfr1 : SaveFrame v0 data0 (data.setIndirect2 i X.offset) v1 := by
            refine ⟨fun x hx => hfr.free x (hsub x hx), ?_, ?_⟩
            · intro x hx hnl a ha1 ha2
              rw [hdisk]
              exact hfr.disk x hx hnl a ha1 ha2
            · intro s hs hne
              by_cases hsi : s = i
              · right
                subst hsi
                rw [indirect2_setIndirect2_same _ _ _ (by omega)]
                intro hu
                exact hu.2.2.2.2 (hfr.free _ (hfree X.offset (Nat.le_refl _) (by omega)).1)
              · rw [indirect2_setIndirect2_other _ _ _ _ hsi] at hne ⊢
                exact hfr.listBlocks s hs hne
          obtain ⟨n1, hsb1⟩ := hinv1.superblock
          have hB1 : v.superblock.blockSize = v1.superblock.blockSize := by rw [hB, hsb1]
          have hepb1 : extentsPerBlock v.superblock = extentsPerBlock v1.superblock := by
            unfold extentsPerBlock; rw [hB1]
          rw [hB1, hepb1] at h
          have hinv2 := SaveInv.written v0 hvol L list first i _ v1 hinv1 (by omega) hset
          have hfr2 := SaveFrame.after_write v0 hvol data0 L list first i _ v1 hinv1 hfr1 (by omega)
            hset list (i * extentsPerBlock v1.superblock * sizeofGlobalExtent)
          exact ih _ _ _ _ hinv2 hfr2 (by omega) data' v' u' h
    · rw [if_neg h0] at h
      have hinv2 := SaveInv.written v0 hvol L list first i data v hinv (by omega) h0
      have hfr2 := SaveFrame.after_write v0 hvol data0 L list first i data v hinv hfr (by omega) h0
        list (i * extentsPerBlock v.superblock * sizeofGlobalExtent)
      exact ih _ _ _ _ hinv2 hfr2 (by omega) data' v' u' h

/-- A successful run of the body of `GrowDataStream` on a stream that is not
direct keeps the extents of the stream and the bytes of every block that was
in use and is not a list block of the stream. -/
theorem GrowDataStream.extend_frame (v0 : EsFSVolume) (hvol : VolumeWF v0)
    (data0 : EsFSAttributeFileData) (target inc newSize : Nat)
    (hinv0 : GrowInv2 v0 target inc ⟨v0, data0, none, 0⟩)
    (hinc : inc < 18446744073709551616)
    (oldSize : Nat) (temp : List Nat) (clear : Bool) (cb : Nat)
    (hlg : cb / v0.superblock.blocksPerGroup < v0.superblock.groupCount)
    (uninit : Nat → Nat) (data' : EsFSAttributeFileData) (v' : EsFSVolume)
    (h : GrowDataStream.extend v0 data0 false oldSize temp inc newSize clear cb uninit
      = .ok (true, data', v')) :
    data0.extentCount ≤ data'.extentCount
      ∧ (∀ j, j < data0.extentCount → extentList v' data' j = extentList v0 data0 j)
      ∧ (∀ x, usedBlock v0 x →
          (data0.indirection = ESFS_DATA_INDIRECT_2 →
            ∀ s, s < ESFS_INDIRECT_2_BLOCKS → data0.indirect2 s ≠ x) →
          ∀ a, x * v0.superblock.blockSize ≤ a →
            a < x * v0.superblock.blockSize + v0.superblock.blockSize →
            v'.disk a = v0.disk a) := by
  obtain ⟨k, hk, hBk⟩ := hvol.geometry.blockSizePow
  have hB0 : 0 < v0.superblock.blockSize := by rw [hBk]; exact Nat.two_pow_pos k
  have hmul := extentsPerBlock_mul v0.superblock k hBk hvol.extentSize
  have he : 0 < extentsPerBlock v0.superblock := by
    unfold sizeofGlobalExtent at hmul; omega
  unfold GrowDataStream.extend at h
  dsimp only at h
  split at h
  · cases h
  · simp at h
  · rename_i st u hall
    obtain ⟨hinv, _⟩ := GrowInv2.loop v0 hvol target cb hlg clear _ _ _ _ hinv0 hinc st u hall
    have hfr := GrowFrame.after_loop v0 hvol data0 target cb hlg clear _ _ _ _ hinv0
      (GrowFrame.start v0 data0) hinc st u hall
    split at h
    · cases h
    · simp at h
    · rename_i D1 V1 u2 hst
      have hP : data0.extentCount ≤ D1.extentCount
          ∧ (∀ j, j < data0.extentCount → extentList V1 D1 j = extentList v0 data0 j)
          ∧ (∀ x, usedBlock v0 x →
              (data0.indirection = ESFS_DATA_INDIRECT_2 →
                ∀ s, s < ESFS_INDIRECT_2_BLOCKS → data0.indirect2 s ≠ x) →
              ∀ a, x * v0.superblock.blockSize ≤ a →
                a < x * v0.superblock.blockSize + v0.superblock.blockSize →
                V1.disk a = v0.disk a) := by
        cases hl : st.newExtentList with
        | none =>
          rw [hl] at hst
          simp only [Except.ok.injEq, Prod.mk.injEq, true_and] at hst
          rw [← hst.1, ← hst.2.1]
          refine ⟨hfr.count, ?_, fun x hx _ => hfr.disk x hx⟩
          intro j hj
          rw [← hfr.extents j hj, GrowState.extent_none _ hl]
        | some list =>
          rw [hl] at hst
          obtain ⟨hm, hfirst⟩ := hinv.first list hl
          obtain ⟨hb1, hb2⟩ := hinv.big hm
          obtain ⟨hn1, hn2⟩ := listBlocks_bounds v0.superblock hmul hB0 st.data.extentCount
          dsimp only at hst
          generalize hnd : BlocksNeededToStore v0.superblock
            (st.data.extentCount * sizeofGlobalExtent) = nd at hst hn1 hn2
          have hlt : st.firstModifiedExtentListBlock < nd := by
            by_contra hc
            have := Nat.mul_le_mul_right (extentsPerBlock v0.superblock)
              (show nd ≤ st.firstModifiedExtentListBlock by omega)
            omega
          have h8 : nd ≤ ESFS_INDIRECT_2_BLOCKS := by
            by_contra hc
            have := Nat.mul_le_mul_right (extentsPerBlock v0.superblock)
              (show ESFS_INDIRECT_2_BLOCKS + 1 ≤ nd by omega)
            rw [Nat.add_mul, Nat.one_mul] at this
            omega
          have hsv0 := GrowInv2.toSave v0 hvol target st hinv list hl
          have hsf0 : SaveFrame v0 data0 st.data st.v :=
            ⟨hfr.free, fun x hx _ => hfr.disk x hx,
              fun s hs hne => Or.inl (hfr.listBlocks hm s hs hne)⟩
          obtain ⟨hsave, hec, hsz⟩ := SaveInv.saveList v0 hvol st.extent list
            st.firstModifiedExtentListBlock cb hlg _ _ u st.data st.v hsv0 (by omega) D1 V1 u2 hst
          have hsf := SaveFrame.after_saveList v0 hvol data0 st.extent list
            st.firstModifiedExtentListBlock cb hlg _ _ u st.data st.v hsv0 hsf0 (by omega)
            D1 V1 u2 hst
          rw [show st.firstModifiedExtentListBlock + (nd - st.firstModifiedExtentListBlock) = nd
            by omega] at hsave
          refine ⟨by rw [hec]; exact hfr.count, ?_, hsf.disk⟩
          intro j hj
          have hjc : j < st.data.extentCount := Nat.lt_of_lt_of_le hj hfr.count
          rw [← hfr.extents j hj]
          apply hsave.saved j (by rw [hec]; exact hjc)
          rw [Nat.div_lt_iff_lt_mul he]
          omega
      simp only [Bool.false_eq_true, false_and, if_false, Except.ok.injEq, Prod.mk.injEq,
        true_and] at h
      rw [← h.1, ← h.2]
      exact hP

/-- A successful `GrowDataStream` of a stream that satisfies the stream
invariants keeps the extents of the stream and the bytes of every block that
was in use and is not a list block of the stream. -/
theorem GrowDataStream_frame (v : EsFSVolume) (hvol : VolumeWF v) (data : EsFSAttributeFileData)
    (newSize cb : Nat) (clear : Bool) (uninit : Nat → Nat) (hs : StreamWF v data)
    (hgrow : data.size < newSize) (hnew64 : newSize < 18446744073709551616)
    (hlg : cb / v.superblock.blocksPerGroup < v.superblock.groupCount)
    (data' : EsFSAttributeFileData) (v' : EsFSVolume)
    (h : GrowDataStream v data newSize clear cb uninit = .ok (true, data', v')) :
    data.extentCount ≤ data'.extentCount
      ∧ (∀ j, j < data.extentCount → extentList v' data' j = extentList v data j)
      ∧ (∀ x, usedBlock v x →
          (data.indirection = ESFS_DATA_INDIRECT_2 →
            ∀ s, s < ESFS_INDIRECT_2_BLOCKS → data.indirect2 s ≠ x) →
          ∀ a, x * v.superblock.blockSize ≤ a →
            a < x * v.superblock.blockSize + v.superblock.blockSize →
            v'.disk a = v.disk a) := by
  obtain ⟨k, hk, hBk⟩ := hvol.geometry.blockSizePow
  have hB : 0 < v.superblock.blockSize := by rw [hBk]; exact Nat.two_pow_pos k
  have hnb : BlocksNeededToStore v.superblock newSize < 18446744073709551616 :=
    Nat.lt_of_le_of_lt (BlocksNeededToStore_le _ hB _) hnew64
  have hnd : data.indirection ≠ ESFS_DATA_DIRECT := by
    rcases hs.laidOut.mode with hm | hm
    · exact fun hd => absurd (hm.symm.trans hd) (by decide)
    · exact fun hd => absurd (hm.symm.trans hd) (by decide)
  rw [GrowDataStream_indirect_eq v data newSize cb clear uninit hnd] at h
  have hmono := BlocksNeededToStore_mono v.superblock hB data.size newSize (by omega)
  rw [sub64_eq_sub hmono hnb] at h
  exact GrowDataStream.extend_frame v hvol data _ _ newSize
    (GrowInv2.of_streamWF v hvol.allocator data hs _) (by omega) data.size _ clear cb hlg uninit
    data' v' h

/-! ### The blocks of a stream through the access functions -/

/-- The block search looks at the extents before the one that holds the block
only: two extent lists that share a prefix which holds the block, with counts
that add up to less than `2 ^ 64`, give the same block. -/
theorem findBlock_prefix (e e' : Nat → EsFSGlobalExtent) (b : Nat) :
    ∀ (fuel fuel' i p : Nat), fuel ≤ fuel' →
      (∀ j, i ≤ j → j < i + fuel → e' j = e j) → p ≤ b → b < p + countSum e i fuel →
      p + countSum e i fuel < 18446744073709551616 →
      findBlock e' b fuel' i p = findBlock e b fuel i p := by
  intro fuel
  induction fuel with
  | zero => intro fuel' i p _ _ hp hb; simp [countSum] at hb; omega
  | succ fuel ih =>
    intro fuel' i p hf heq hp hb hsum
    cases fuel' with
    | zero => omega
    | succ fuel' =>
      simp only [countSum] at hb hsum
      simp only [findBlock]
      rw [heq i (Nat.le_refl _) (by omega)]
      have hmod : (p + (e i).count) % 18446744073709551616 = p + (e i).count :=
        Nat.mod_eq_of_lt (by omega)
      rw [hmod]
      by_cases h : b < p + (e i).count
      · rw [if_pos h, if_pos h]
      · rw [if_neg h, if_neg h]
        exact ih fuel' (i + 1) (p + (e i).count) (by omega)
          (fun j h1 h2 => heq j (by omega) (by omega)) (by omega) (by omega) (by omega)

/-- The accesses of `AccessStream` for one whole block of a stream that is not
direct: one access to the block of the stream. -/
theorem AccessStream.plan_block (v : EsFSVolume) (hgeo : AccessGeometry v)
    (data : EsFSAttributeFileData)
    (hmode : data.indirection = ESFS_DATA_INDIRECT ∨ data.indirection = ESFS_DATA_INDIRECT_2)
    (k : Nat) (hk : k * v.superblock.blockSize < 18446744073709551616)
    (hnz : streamBlock v data k ≠ 0) :
    AccessStream.plan v data (k * v.superblock.blockSize) v.superblock.blockSize
      = .ok [⟨streamBlock v data k, v.superblock.blockSize, 0⟩] := by
  obtain ⟨e, he, hBe⟩ := hgeo.blockSizePow
  have hB : 0 < v.superblock.blockSize := by rw [hBe]; exact Nat.two_pow_pos e
  have hB64 : v.superblock.blockSize < 18446744073709551616 := by
    rw [hBe]
    exact Nat.lt_of_lt_of_le (Nat.pow_lt_pow_right (by decide) he) (by norm_num)
  have hal : alignToBlock v.superblock (k * v.superblock.blockSize)
      = k * v.superblock.blockSize := by
    rw [alignToBlock_eq v.superblock e he hBe _ hk, Nat.mul_mod_left, Nat.sub_zero]
  have hmax : 1 ≤ v.maxAccessSectorCount * v.sectorSize / v.superblock.blockSize :=
    (Nat.one_le_div_iff hB).2 hgeo.transfer
  unfold AccessStream.plan
  dsimp only
  rw [hal, Nat.sub_self, Nat.add_zero, Nat.mul_div_cancel _ hB, if_pos hmode]
  have hbn : BlocksNeededToStore v.superblock v.superblock.blockSize = 1 := by
    unfold BlocksNeededToStore
    rw [Nat.mod_self, if_neg (by simp), Nat.div_self hB]
  rw [hbn]
  generalize hM : v.maxAccessSectorCount * v.sectorSize / v.superblock.blockSize = M at hmax
  have hg : AccessStream.gather (streamBlock v data) M 1 k 0 0 = (streamBlock v data k, 1, k + 1, 0) := by
    simp only [AccessStream.gather]
    rw [if_pos (by omega)]
    simp
  simp only [AccessStream.accesses, hg]
  rw [if_neg hnz]
  simp [sub64_eq_sub (Nat.zero_le _) hB64]

/-- A read of one whole block of a stream that is not direct returns the bytes
of the block of the stream, which becomes `lastAccessedActualBlock`. -/
theorem AccessStream_block_read (v : EsFSVolume) (hgeo : AccessGeometry v)
    (data : EsFSAttributeFileData)
    (hmode : data.indirection = ESFS_DATA_INDIRECT ∨ data.indirection = ESFS_DATA_INDIRECT_2)
    (k : Nat) (hk : k * v.superblock.blockSize < 18446744073709551616)
    (hnz : streamBlock v data k ≠ 0) (buffer : List Nat) (last : Nat) :
    AccessStream v data (k * v.superblock.blockSize) v.superblock.blockSize buffer false
        = .ok (data, v, AccessBlockRead v (streamBlock v data k) v.superblock.blockSize 0)
      ∧ AccessStream.lastAccessed v data (k * v.superblock.blockSize) v.superblock.blockSize last
        = streamBlock v data k := by
  obtain ⟨e, he, hBe⟩ := hgeo.blockSizePow
  have hB : v.superblock.blockSize ≠ 0 := by rw [hBe]; exact (Nat.two_pow_pos e).ne'
  have hnd : data.indirection ≠ ESFS_DATA_DIRECT := by
    rcases hmode with hm | hm
    · exact fun hd => absurd (hm.symm.trans hd) (by decide)
    · exact fun hd => absurd (hm.symm.trans hd) (by decide)
  constructor
  · unfold AccessStream
    rw [if_neg hB, if_neg hnd, AccessStream.plan_block v hgeo data hmode k hk hnz]
    simp [AccessStream.readAll]
  · unfold AccessStream.lastAccessed
    rw [if_neg (by simp [hB, hnd]), AccessStream.plan_block v hgeo data hmode k hk hnz]
    rfl

/-- A write of one whole block of a stream that is not direct writes the block
of the stream. -/
theorem AccessStream_block_write (v : EsFSVolume) (hgeo : AccessGeometry v)
    (data : EsFSAttributeFileData)
    (hmode : data.indirection = ESFS_DATA_INDIRECT ∨ data.indirection = ESFS_DATA_INDIRECT_2)
    (k : Nat) (hk : k * v.superblock.blockSize < 18446744073709551616)
    (hnz : streamBlock v data k ≠ 0) (buffer : List Nat) :
    AccessStream v data (k * v.superblock.blockSize) v.superblock.blockSize buffer true
      = .ok (data, AccessBlockWrite v (streamBlock v data k) v.superblock.blockSize buffer 0,
          []) := by
  obtain ⟨e, he, hBe⟩ := hgeo.blockSizePow
  have hB : v.superblock.blockSize ≠ 0 := by rw [hBe]; exact (Nat.two_pow_pos e).ne'
  have hnd : data.indirection ≠ ESFS_DATA_DIRECT := by
    rcases hmode with hm | hm
    · exact fun hd => absurd (hm.symm.trans hd) (by decide)
    · exact fun hd => absurd (hm.symm.trans hd) (by decide)
  unfold AccessStream
  rw [if_neg hB, if_neg hnd, AccessStream.plan_block v hgeo data hmode k hk hnz]
  simp [AccessStream.writeAll]

/-- `GetBlockFromStream` at the start of a block of a stream that is not
direct. -/
theorem GetBlockFromStream_block (v : EsFSVolume) (hgeo : AccessGeometry v)
    (data : EsFSAttributeFileData)
    (hmode : data.indirection = ESFS_DATA_INDIRECT ∨ data.indirection = ESFS_DATA_INDIRECT_2)
    (k : Nat) (hk : k * v.superblock.blockSize < 18446744073709551616) :
    GetBlockFromStream v data (k * v.superblock.blockSize) = .ok (streamBlock v data k) := by
  obtain ⟨e, he, hBe⟩ := hgeo.blockSizePow
  have hB : 0 < v.superblock.blockSize := by rw [hBe]; exact Nat.two_pow_pos e
  have hnd : data.indirection ≠ ESFS_DATA_DIRECT := by
    rcases hmode with hm | hm
    · exact fun hd => absurd (hm.symm.trans hd) (by decide)
    · exact fun hd => absurd (hm.symm.trans hd) (by decide)
  unfold GetBlockFromStream
  rw [if_neg hnd]
  dsimp only
  rw [alignToBlock_eq v.superblock e he hBe _ hk, Nat.mul_mod_left, Nat.sub_zero,
    Nat.mul_div_cancel _ hB, if_pos hmode]

/-! ### Directory entries and the search loop -/

theorem readU16_congr (m m' : Memory) (a : Nat) (h0 : m' a = m a) (h1 : m' (a + 1) = m (a + 1)) :
    readU16 m' a = readU16 m a := by
  unfold readU16
  rw [h0, h1]

theorem readU16_lt (m : Memory) (a : Nat) : readU16 m a < 65536 := by
  unfold readU16
  have h1 := Nat.mod_lt (m a) (show 0 < 256 by decide)
  have h2 := Nat.mod_lt (m (a + 1)) (show 0 < 256 by decide)
  omega

/-- A directory entry has at least 18 bytes and its file attribute is not
empty. -/
theorem EntryAt.length_ge {m : Memory} {p len : Nat} {name : List Nat} (h : EntryAt m p len name) :
    1 ≤ readU16 m (p + 16 + name.length) ∧ 19 + name.length ≤ len := by
  have h1 : 1 ≤ readU16 m (p + 16 + name.length) := by
    by_contra hc
    have h0 : readU16 m (p + 16 + name.length) = 0 := by omega
    have h2 := h.endType
    rw [h0, Nat.add_zero, h.fileType] at h2
    exact absurd h2 (by decide)
  exact ⟨h1, by rw [h.length]; omega⟩

/-- The first byte of a directory entry is not zero. -/
theorem EntryAt.first_ne_zero {m : Memory} {p len : Nat} {name : List Nat}
    (h : EntryAt m p len name) : m p ≠ 0 := by
  have h1 := h.signature
  unfold readBytes ESFS_DIRECTORY_ENTRY_SIGNATURE at h1
  simp [List.range_succ] at h1
  omega

/-- An entry depends on its own bytes only. -/
theorem EntryAt.congr {m m' : Memory} {p len : Nat} {name : List Nat} (h : EntryAt m p len name)
    (heq : ∀ a, p ≤ a → a < p + len → m' a = m a) : EntryAt m' p len name := by
  obtain ⟨hf1, hlen⟩ := h.length_ge
  have hl := h.length
  have e16 : readU16 m' (p + 16 + name.length) = readU16 m (p + 16 + name.length) :=
    readU16_congr m m' _ (heq _ (by omega) (by omega)) (heq _ (by omega) (by omega))
  refine ⟨?_, ?_, ?_, ?_, ?_, ?_, ?_, ?_, ?_⟩
  · rw [← h.signature]
    unfold readBytes
    apply List.map_congr_left
    intro k hk
    rw [List.mem_range] at hk
    exact heq _ (by omega) (by omega)
  · rw [← h.nameType]
    exact readU16_congr m m' _ (heq _ (by omega) (by omega)) (heq _ (by omega) (by omega))
  · rw [← h.nameSize]
    exact readU16_congr m m' _ (heq _ (by omega) (by omega)) (heq _ (by omega) (by omega))
  · rw [← h.nameLength]
    exact heq _ (by omega) (by omega)
  · refine Eq.trans ?_ h.nameBytes
    unfold readBytes
    apply List.map_congr_left
    intro k hk
    rw [List.mem_range] at hk
    exact heq _ (by omega) (by omega)
  · rw [← h.fileType]
    exact readU16_congr m m' _ (heq _ (by omega) (by omega)) (heq _ (by omega) (by omega))
  · rw [e16, ← h.endType]
    exact readU16_congr m m' _ (heq _ (by omega) (by omega)) (heq _ (by omega) (by omega))
  · rw [e16, ← h.endSize]
    exact readU16_congr m m' _ (heq _ (by omega) (by omega)) (heq _ (by omega) (by omega))
  · rw [e16]
    exact hl

/-- `FindAttribute` passes a header of another type. -/
theorem FindAttribute.skip (attributeType : Nat) (m : Memory) (limit fuel header t : Nat)
    (hlim : header + 4 ≤ limit) (ht : readU16 m header = t) (h1 : t ≠ ESFS_ATTRIBUTE_LIST_END)
    (h2 : t ≠ attributeType) :
    FindAttribute attributeType m limit (fuel + 1) header
      = FindAttribute attributeType m limit fuel (header + readU16 m (header + 2)) := by
  simp only [FindAttribute]
  rw [if_pos (by unfold sizeofAttributeHeader; exact hlim), ht, if_pos h1, if_neg h2]

/-- `FindAttribute` returns a header of the type it looks for. -/
theorem FindAttribute.hit (attributeType : Nat) (m : Memory) (limit fuel header : Nat)
    (hlim : header + 4 ≤ limit) (ht : readU16 m header = attributeType)
    (h1 : attributeType ≠ ESFS_ATTRIBUTE_LIST_END) :
    FindAttribute attributeType m limit (fuel + 1) header = .ok (some header) := by
  simp only [FindAttribute]
  rw [if_pos (by unfold sizeofAttributeHeader; exact hlim), ht, if_pos h1, if_pos rfl]

/-- `FindAttribute` stops at the end of the list. -/
theorem FindAttribute.stop (attributeType : Nat) (m : Memory) (limit fuel header : Nat)
    (hlim : header + 4 ≤ limit) (ht : readU16 m header = ESFS_ATTRIBUTE_LIST_END) :
    FindAttribute attributeType m limit (fuel + 1) header
      = if attributeType = ESFS_ATTRIBUTE_LIST_END then .ok (some header) else .ok none := by
  simp only [FindAttribute]
  rw [if_pos (by unfold sizeofAttributeHeader; exact hlim), ht, if_neg (by simp)]

/-- `FindAttribute` on a directory entry that lies inside the buffer finds the
name attribute, the file attribute and the end of the list. -/
theorem EntryAt.find {m : Memory} {p len : Nat} {name : List Nat} (h : EntryAt m p len name)
    (limit : Nat) (hlim : p + len ≤ limit) (fuel : Nat) (hfuel : 3 ≤ fuel) :
    FindAttribute ESFS_ATTRIBUTE_DIRECTORY_NAME m limit fuel (p + sizeofDirectoryEntry)
        = .ok (some (p + 8))
      ∧ FindAttribute ESFS_ATTRIBUTE_DIRECTORY_FILE m limit fuel (p + sizeofDirectoryEntry)
        = .ok (some (p + 14 + name.length))
      ∧ FindAttribute ESFS_ATTRIBUTE_LIST_END m limit fuel (p + sizeofDirectoryEntry)
        = .ok (some (p + 14 + name.length + readU16 m (p + 16 + name.length))) := by
  obtain ⟨hf1, hlen⟩ := h.length_ge
  have hl := h.length
  obtain ⟨f, rfl⟩ : ∃ f, fuel = f + 3 := ⟨fuel - 3, by omega⟩
  have a1 : p + 8 + 2 = p + 10 := by omega
  have a2 : p + 8 + (name.length + sizeofAttributeDirectoryName) = p + 14 + name.length := by
    unfold sizeofAttributeDirectoryName; omega
  have a3 : p + 14 + name.length + 2 = p + 16 + name.length := by omega
  unfold sizeofDirectoryEntry
  refine ⟨?_, ?_, ?_⟩
  · exact FindAttribute.hit _ m limit _ _ (by omega) h.nameType (by decide)
  · rw [FindAttribute.skip _ m limit _ _ _ (by omega) h.nameType (by decide) (by decide), a1,
      h.nameSize, a2]
    exact FindAttribute.hit _ m limit _ _ (by omega) h.fileType (by decide)
  · rw [FindAttribute.skip _ m limit _ _ _ (by omega) h.nameType (by decide) (by decide), a1,
      h.nameSize, a2,
      FindAttribute.skip _ m limit _ _ _ (by omega) h.fileType (by decide) (by decide), a3,
      FindAttribute.stop _ m limit _ _ (by omega) h.endType, if_pos rfl]

/-- The length that the code computes for a directory entry is its length. -/
theorem EntryAt.size {m : Memory} {p len : Nat} {name : List Nat} (h : EntryAt m p len name)
    (limit : Nat) (hlim : p + len ≤ limit) : entrySizeAt m limit p = .ok len := by
  obtain ⟨hf1, hlen⟩ := h.length_ge
  have hl := h.length
  unfold entrySizeAt
  rw [(h.find limit hlim limit (by omega)).2.2]
  simp only
  rw [h.endSize, hl]
  unfold sizeofAttributeHeader
  congr 1
  omega

theorem entriesSize_cons (e : Nat × List Nat) (es : List (Nat × List Nat)) :
    entriesSize (e :: es) = e.1 + entriesSize es := by
  unfold entriesSize
  simp

theorem entriesSize_append (es fs : List (Nat × List Nat)) :
    entriesSize (es ++ fs) = entriesSize es + entriesSize fs := by
  unfold entriesSize
  simp

/-- Packed entries end inside the block, and zero bytes follow them. -/
theorem Packed.tail {m : Memory} {B : Nat} :
    ∀ (es : List (Nat × List Nat)) (p : Nat), Packed m B p es →
      p + entriesSize es ≤ B ∧ p + 19 * es.length ≤ p + entriesSize es
        ∧ ∀ a, p + entriesSize es ≤ a → a < B → m a = 0 := by
  intro es
  induction es with
  | nil =>
    intro p h
    simp only [Packed] at h
    simp only [entriesSize, List.map_nil, List.sum_nil, Nat.add_zero, List.length_nil, Nat.mul_zero]
    exact ⟨h.1, Nat.le_refl _, h.2⟩
  | cons e es ih =>
    intro p h
    simp only [Packed] at h
    obtain ⟨h1, h2, h3⟩ := ih _ h.2
    have := h.1.length_ge.2
    rw [entriesSize_cons, List.length_cons]
    exact ⟨by omega, by omega, fun a ha => h3 a (by omega)⟩

/-- Packed entries depend on the bytes of the block from their start on only. -/
theorem Packed.of_bytes {m m' : Memory} {B : Nat} :
    ∀ (es : List (Nat × List Nat)) (p : Nat), Packed m B p es →
      (∀ a, p ≤ a → a < B → m' a = m a) → Packed m' B p es := by
  intro es
  induction es with
  | nil =>
    intro p h heq
    simp only [Packed] at h ⊢
    exact ⟨h.1, fun a h1 h2 => by rw [heq a h1 h2]; exact h.2 a h1 h2⟩
  | cons e es ih =>
    intro p h heq
    simp only [Packed] at h ⊢
    have ht := (Packed.tail es _ h.2).1
    have hl := h.1.length_ge.2
    exact ⟨h.1.congr (fun a h1 h2 => heq a h1 (by omega)),
      ih _ h.2 (fun a h1 h2 => heq a (by omega) h2)⟩

/-- One more entry behind packed entries. -/
theorem Packed.append {m m' : Memory} {B : Nat} (len : Nat) (name : List Nat) :
    ∀ (es : List (Nat × List Nat)) (p : Nat), Packed m B p es →
      (∀ a, p ≤ a → a < p + entriesSize es → m' a = m a) →
      EntryAt m' (p + entriesSize es) len name →
      p + entriesSize es + len ≤ B →
      (∀ a, p + entriesSize es + len ≤ a → a < B → m' a = 0) →
      Packed m' B p (es ++ [(len, name)]) := by
  intro es
  induction es with
  | nil =>
    intro p _ _ hent hle hz
    simp only [entriesSize, List.map_nil, List.sum_nil, Nat.add_zero] at hent hle hz
    simp only [List.nil_append, Packed]
    exact ⟨hent, hle, hz⟩
  | cons e es ih =>
    intro p h heq hent hle hz
    simp only [Packed] at h
    rw [entriesSize_cons] at heq hent hle hz
    simp only [List.cons_append, Packed]
    have ht := (Packed.tail es _ h.2).1
    refine ⟨h.1.congr (fun a h1 h2 => heq a h1 (by omega)), ?_⟩
    apply ih _ h.2 (fun a h1 h2 => heq a (by omega) (by omega))
    · rw [Nat.add_assoc]; exact hent
    · omega
    · intro a h1 h2
      exact hz a (by omega) h2

/-- The loop of `CreateNode` that walks the last block stops behind its
entries. -/
theorem CreateNode.findSpace_packed (m : Memory) (B : Nat) :
    ∀ (es : List (Nat × List Nat)) (p fuel : Nat), Packed m B p es → es.length < fuel →
      CreateNode.findSpace m B fuel p = .ok (p + entriesSize es) := by
  intro es
  induction es with
  | nil =>
    intro p fuel h hf
    simp only [Packed] at h
    obtain ⟨f, rfl⟩ : ∃ f, fuel = f + 1 := ⟨fuel - 1, by simp at hf; omega⟩
    simp only [CreateNode.findSpace, entriesSize, List.map_nil, List.sum_nil, Nat.add_zero]
    by_cases hp : p = B
    · rw [if_pos hp]
    · rw [if_neg hp, if_neg (by omega), if_pos (h.2 p (Nat.le_refl _) (by omega))]
  | cons e es ih =>
    intro p fuel h hf
    simp only [Packed] at h
    obtain ⟨f, rfl⟩ : ∃ f, fuel = f + 1 := ⟨fuel - 1, by simp at hf; omega⟩
    have ht := (Packed.tail es _ h.2).1
    have hl := h.1.length_ge.2
    simp only [CreateNode.findSpace]
    rw [if_neg (by omega), if_neg (by omega), if_neg h.1.first_ne_zero,
      h.1.size B (by omega)]
    simp only
    rw [ih _ f h.2 (by simp at hf; omega), entriesSize_cons, Nat.add_assoc]

/-- At a directory entry the loops of `Enumerate` and `SearchDirectory` stay in
the block, and the signature is valid. -/
theorem nextEntry_stay (v : EsFSVolume) (data : EsFSAttributeFileData) (c : DirectoryCursor)
    (len : Nat) (name : List Nat)
    (h : EntryAt (bufferMemory c.directoryBuffer) c.blockPosition len name)
    (hle : c.blockPosition + len ≤ v.superblock.blockSize) :
    nextEntry v data c = .ok c := by
  have hl := h.length_ge.2
  unfold nextEntry
  dsimp only
  rw [if_neg (by omega), if_neg (by
    intro hc
    rcases hc with hc | hc
    · omega
    · exact h.first_ne_zero hc)]
  dsimp only
  rw [if_neg (by unfold sizeofDirectoryEntry; omega), if_neg (by rw [h.signature]; simp)]

/-- At the end of the entries of a block the loops of `Enumerate` and
`SearchDirectory` read the next block, which has to start with an entry. -/
theorem nextEntry_advance (v : EsFSVolume) (data : EsFSAttributeFileData) (c c' : DirectoryCursor)
    (hle : c.blockPosition ≤ v.superblock.blockSize)
    (hend : ∀ a, c.blockPosition ≤ a → a < v.superblock.blockSize →
      bufferMemory c.directoryBuffer a = 0)
    (hread : readDirectoryBlock v data ((c.blockIndex + 1) * v.superblock.blockSize)
      (c.blockIndex + 1) c.lastAccessedActualBlock = .ok c')
    (len : Nat) (name : List Nat)
    (h : EntryAt (bufferMemory c'.directoryBuffer) c'.blockPosition len name)
    (hle' : c'.blockPosition + len ≤ v.superblock.blockSize) :
    nextEntry v data c = .ok c' := by
  have hl := h.length_ge.2
  unfold nextEntry
  dsimp only
  rw [if_neg (by omega), if_pos (by
    by_cases hc : c.blockPosition = v.superblock.blockSize
    · exact Or.inl hc
    · exact Or.inr (hend _ (Nat.le_refl _) (by omega))), hread]
  dsimp only
  rw [if_neg (by unfold sizeofDirectoryEntry; omega), if_neg (by rw [h.signature]; simp)]

/-- `SearchDirectory` goes on behind an entry with another name. -/
theorem SearchDirectory.entry_other (searchName : List Nat) (B : Nat) (c : DirectoryCursor)
    (len : Nat) (name : List Nat)
    (h : EntryAt (bufferMemory c.directoryBuffer) c.blockPosition len name)
    (hle : c.blockPosition + len ≤ B) (hne : name ≠ searchName) :
    SearchDirectory.entry searchName B c
      = .ok (none, { c with blockPosition := c.blockPosition + len }) := by
  have hl := h.length_ge.2
  unfold SearchDirectory.entry
  dsimp only
  rw [(h.find B hle B (by omega)).1]
  dsimp only
  rw [if_neg (by omega)]
  have ha : c.blockPosition + 8 + 4 = c.blockPosition + 12 := by omega
  have hb : c.blockPosition + 8 + sizeofAttributeDirectoryName = c.blockPosition + 14 := by
    unfold sizeofAttributeDirectoryName; omega
  rw [ha, hb, h.nameLength]
  by_cases hlen : name.length = searchName.length
  · rw [if_neg (by simp [hlen]), if_neg (by omega), ← hlen, h.nameBytes]
    simp only [hne, decide_False]
    rw [h.size B hle]
  · rw [if_pos hlen]
    simp only
    rw [h.size B hle]

/-- `SearchDirectory` ends its loop at an entry with the name it looks for. -/
theorem SearchDirectory.entry_found (searchName : List Nat) (B : Nat) (c : DirectoryCursor)
    (len : Nat)
    (h : EntryAt (bufferMemory c.directoryBuffer) c.blockPosition len searchName)
    (hle : c.blockPosition + len ≤ B) :
    SearchDirectory.entry searchName B c
      = .ok (some (some (c.blockPosition + 18 + searchName.length,
          sub64 (readU16 (bufferMemory c.directoryBuffer)
            (c.blockPosition + 16 + searchName.length)) sizeofAttributeDirectoryFile)), c) := by
  have hl := h.length_ge.2
  unfold SearchDirectory.entry
  dsimp only
  rw [(h.find B hle B (by omega)).1]
  dsimp only
  rw [if_neg (by omega)]
  have ha : c.blockPosition + 8 + 4 = c.blockPosition + 12 := by omega
  have hb : c.blockPosition + 8 + sizeofAttributeDirectoryName = c.blockPosition + 14 := by
    unfold sizeofAttributeDirectoryName; omega
  rw [ha, hb, h.nameLength, if_neg (by simp), if_neg (by omega), h.nameBytes]
  simp only [decide_True]
  rw [(h.find B hle B (by omega)).2.1]
  simp only
  have hc : c.blockPosition + 14 + searchName.length + sizeofAttributeDirectoryFile
      = c.blockPosition + 18 + searchName.length := by
    unfold sizeofAttributeDirectoryFile; omega
  have hd : c.blockPosition + 14 + searchName.length + 2
      = c.blockPosition + 16 + searchName.length := by omega
  rw [hc, hd]

/-- The bytes of a block that has been read are those of the block on the
drive. -/
theorem bufferMemory_block (v : EsFSVolume)
    (hsec : v.sectorsPerBlock * v.sectorSize = v.superblock.blockSize)
    (data : EsFSAttributeFileData) (k a : Nat) (ha : a < v.superblock.blockSize) :
    bufferMemory (AccessBlockRead v (streamBlock v data k) v.superblock.blockSize 0) a
      = directoryBlock v data k a := by
  unfold bufferMemory AccessBlockRead driveRead directoryBlock blockAddress
  rw [getD_readBytes _ _ _ _ ha, Nat.mul_assoc, hsec, Nat.add_zero]

/-- The entries of a block are found in the buffer it has been read into. -/
theorem Packed.buffer (v : EsFSVolume)
    (hsec : v.sectorsPerBlock * v.sectorSize = v.superblock.blockSize)
    (data : EsFSAttributeFileData) (k : Nat) (es : List (Nat × List Nat)) (p : Nat)
    (h : Packed (directoryBlock v data k) v.superblock.blockSize p es) :
    Packed (bufferMemory (AccessBlockRead v (streamBlock v data k) v.superblock.blockSize 0))
      v.superblock.blockSize p es :=
  Packed.of_bytes es p h (fun a _ ha => bufferMemory_block v hsec data k a ha)

/-- The loop of `SearchDirectory` passes the entries of a block that have
other names. -/
theorem SearchDirectory.loop_pass (v : EsFSVolume) (data : EsFSAttributeFileData)
    (searchName : List Nat) (buffer : List Nat) (k l : Nat) :
    ∀ (rest : List (Nat × List Nat)) (p items : Nat),
      Packed (bufferMemory buffer) v.superblock.blockSize p rest →
      (∀ e, e ∈ rest → e.2 ≠ searchName) → rest.length ≤ items →
      SearchDirectory.loop v data searchName items ⟨buffer, p, k, l⟩
        = SearchDirectory.loop v data searchName (items - rest.length)
            ⟨buffer, p + entriesSize rest, k, l⟩ := by
  intro rest
  induction rest with
  | nil =>
    intro p items _ _ _
    simp [entriesSize]
  | cons e rest ih =>
    intro p items h hn hi
    simp only [Packed] at h
    obtain ⟨i, rfl⟩ : ∃ i, items = i + 1 := ⟨items - 1, by simp at hi; omega⟩
    have ht := (Packed.tail rest _ h.2).1
    have hle : p + e.1 ≤ v.superblock.blockSize := by omega
    simp only [SearchDirectory.loop]
    rw [nextEntry_stay v data ⟨buffer, p, k, l⟩ e.1 e.2 h.1 hle]
    simp only
    rw [SearchDirectory.entry_other searchName _ ⟨buffer, p, k, l⟩ e.1 e.2 h.1 hle
      (hn e (List.mem_cons_self _ _))]
    simp only
    rw [ih (p + e.1) i h.2 (fun x hx => hn x (List.mem_cons_of_mem _ hx))
      (by simp at hi; omega), entriesSize_cons, List.length_cons, Nat.add_assoc,
      Nat.add_sub_add_right]

/-- The loop of `SearchDirectory` ends at the first entry of a block that has
the name. -/
theorem SearchDirectory.loop_hit (v : EsFSVolume) (data : EsFSAttributeFileData)
    (searchName : List Nat) (buffer : List Nat) (k l : Nat)
    (pre : List (Nat × List Nat)) (len : Nat) (post : List (Nat × List Nat)) (p items : Nat)
    (h : Packed (bufferMemory buffer) v.superblock.blockSize p (pre ++ (len, searchName) :: post))
    (hn : ∀ e, e ∈ pre → e.2 ≠ searchName) (hi : pre.length < items) :
    SearchDirectory.loop v data searchName items ⟨buffer, p, k, l⟩
      = .ok (some (p + entriesSize pre + 18 + searchName.length,
          sub64 (readU16 (bufferMemory buffer) (p + entriesSize pre + 16 + searchName.length))
            sizeofAttributeDirectoryFile),
          ⟨buffer, p + entriesSize pre, k, l⟩) := by
  induction pre generalizing p items with
  | nil =>
    simp only [List.nil_append, Packed] at h
    obtain ⟨i, rfl⟩ : ∃ i, items = i + 1 := ⟨items - 1, by simp at hi; omega⟩
    have ht := (Packed.tail post _ h.2).1
    have hle : p + len ≤ v.superblock.blockSize := by omega
    simp only [SearchDirectory.loop, entriesSize, List.map_nil, List.sum_nil, Nat.add_zero]
    rw [nextEntry_stay v data ⟨buffer, p, k, l⟩ len searchName h.1 hle]
    simp only
    rw [SearchDirectory.entry_found searchName _ ⟨buffer, p, k, l⟩ len h.1 hle]
  | cons e pre ih =>
    simp only [List.cons_append, Packed] at h
    obtain ⟨i, rfl⟩ : ∃ i, items = i + 1 := ⟨items - 1, by simp at hi; omega⟩
    have ht := (Packed.tail _ _ h.2).1
    have hle : p + e.1 ≤ v.superblock.blockSize := by omega
    simp only [SearchDirectory.loop]
    rw [nextEntry_stay v data ⟨buffer, p, k, l⟩ e.1 e.2 h.1 hle]
    simp only
    rw [SearchDirectory.entry_other searchName _ ⟨buffer, p, k, l⟩ e.1 e.2 h.1 hle
      (hn e (List.mem_cons_self _ _))]
    simp only
    rw [ih (p + e.1) i h.2 (fun x hx => hn x (List.mem_cons_of_mem _ hx))
      (by simp at hi; omega), entriesSize_cons]
    simp only [Nat.add_assoc]

/-- At the end of the entries of a block the loop of `SearchDirectory` goes on
at the start of the next block, if that block starts with an entry. -/
theorem SearchDirectory.loop_advance (v : EsFSVolume) (data : EsFSAttributeFileData)
    (searchName : List Nat) (c c' : DirectoryCursor) (items : Nat)
    (hle : c.blockPosition ≤ v.superblock.blockSize)
    (hend : ∀ a, c.blockPosition ≤ a → a < v.superblock.blockSize →
      bufferMemory c.directoryBuffer a = 0)
    (hread : readDirectoryBlock v data ((c.blockIndex + 1) * v.superblock.blockSize)
      (c.blockIndex + 1) c.lastAccessedActualBlock = .ok c')
    (len : Nat) (name : List Nat)
    (h : EntryAt (bufferMemory c'.directoryBuffer) c'.blockPosition len name)
    (hle' : c'.blockPosition + len ≤ v.superblock.blockSize) :
    SearchDirectory.loop v data searchName (items + 1) c
      = SearchDirectory.loop v data searchName (items + 1) c' := by
  simp only [SearchDirectory.loop]
  rw [nextEntry_advance v data c c' hle hend hread len name h hle',
    nextEntry_stay v data c' len name h hle']

/-- Reading block `k` of a stream that is not direct puts the loops of
`Enumerate` and `SearchDirectory` at the start of the block. -/
theorem readDirectoryBlock_block (v : EsFSVolume) (hgeo : AccessGeometry v)
    (data : EsFSAttributeFileData)
    (hmode : data.indirection = ESFS_DATA_INDIRECT ∨ data.indirection = ESFS_DATA_INDIRECT_2)
    (k : Nat) (hk : k * v.superblock.blockSize < 18446744073709551616)
    (hnz : streamBlock v data k ≠ 0) (last : Nat) :
    readDirectoryBlock v data (k * v.superblock.blockSize) k last = .ok (cursorAt v data k 0) := by
  obtain ⟨h1, h2⟩ := AccessStream_block_read v hgeo data hmode k hk hnz [] last
  unfold readDirectoryBlock cursorAt
  rw [h1]
  simp only
  rw [h2]

/-- The first of the packed entries of a block. -/
theorem Packed.head {m : Memory} {B : Nat} (es : List (Nat × List Nat)) (p : Nat)
    (h : Packed m B p es) (hne : es ≠ []) :
    ∃ len name, EntryAt m p len name ∧ p + len ≤ B := by
  cases es with
  | nil => exact absurd rfl hne
  | cons e es =>
    simp only [Packed] at h
    have := (Packed.tail es _ h.2).1
    exact ⟨e.1, e.2, h.1, by omega⟩

theorem entryCount_cons (b : List (Nat × List Nat)) (bs : List (List (Nat × List Nat))) :
    entryCount (b :: bs) = b.length + entryCount bs := by
  unfold entryCount
  simp

theorem entryCount_append (bs cs : List (List (Nat × List Nat))) :
    entryCount (bs ++ cs) = entryCount bs + entryCount cs := by
  unfold entryCount
  simp

/-- The loop of `SearchDirectory`, started at a block of the stream, passes the
blocks whose entries have other names and ends at the first entry that has the
name. -/
theorem SearchDirectory.loop_blocks (v : EsFSVolume) (hgeo : AccessGeometry v)
    (data : EsFSAttributeFileData)
    (hmode : data.indirection = ESFS_DATA_INDIRECT ∨ data.indirection = ESFS_DATA_INDIRECT_2)
    (searchName : List Nat) (pre : List (Nat × List Nat)) (len : Nat)
    (post : List (Nat × List Nat)) :
    ∀ (before : List (List (Nat × List Nat))) (k items : Nat),
      (k + before.length + 1) * v.superblock.blockSize < 18446744073709551616 →
      (∀ i, i ≤ before.length → streamBlock v data (k + i) ≠ 0) →
      (∀ i, i < before.length →
        Packed (directoryBlock v data (k + i)) v.superblock.blockSize 0 (before.getD i [])) →
      Packed (directoryBlock v data (k + before.length)) v.superblock.blockSize 0
        (pre ++ (len, searchName) :: post) →
      (∀ i, 0 < i → i < before.length → before.getD i [] ≠ []) →
      (∀ b, b ∈ before → ∀ e, e ∈ b → e.2 ≠ searchName) →
      (∀ e, e ∈ pre → e.2 ≠ searchName) →
      entryCount before + pre.length < items →
      SearchDirectory.loop v data searchName items (cursorAt v data k 0)
        = .ok (some (entriesSize pre + 18 + searchName.length,
            sub64 (readU16 (bufferMemory (cursorAt v data (k + before.length) 0).directoryBuffer)
              (entriesSize pre + 16 + searchName.length)) sizeofAttributeDirectoryFile),
            cursorAt v data (k + before.length) (entriesSize pre)) := by
  intro before
  induction before with
  | nil =>
    intro k items _ _ _ htarget _ _ hpre hitems
    simp only [List.length_nil, Nat.add_zero] at htarget ⊢
    have h := SearchDirectory.loop_hit v data searchName
      (AccessBlockRead v (streamBlock v data k) v.superblock.blockSize 0) k (streamBlock v data k)
      pre len post 0 items (Packed.buffer v hgeo.sectors data k _ 0 htarget) hpre
      (by simp [entryCount] at hitems; omega)
    simp only [Nat.zero_add] at h
    exact h
  | cons b rest ih =>
    intro k items h64 hnz hpacked htarget hfilled hother hpre hitems
    rw [entryCount_cons] at hitems
    simp only [List.length_cons] at h64 hnz hpacked htarget hfilled ⊢
    have hb := Packed.buffer v hgeo.sectors data k _ 0
      (by have := hpacked 0 (by omega); simpa using this)
    have hpass := SearchDirectory.loop_pass v data searchName
      (AccessBlockRead v (streamBlock v data k) v.superblock.blockSize 0) k (streamBlock v data k)
      b 0 items hb (hother b (List.mem_cons_self _ _)) (by omega)
    obtain ⟨i, hi⟩ : ∃ i, items - b.length = i + 1 := ⟨items - b.length - 1, by omega⟩
    have hk1 : k + (rest.length + 1) = k + 1 + rest.length := by omega
    have htarget1 : Packed (directoryBlock v data (k + 1 + rest.length)) v.superblock.blockSize 0
        (pre ++ (len, searchName) :: post) := by rw [← hk1]; exact htarget
    have hnz1 : ∀ j, j ≤ rest.length → streamBlock v data (k + 1 + j) ≠ 0 := by
      intro j hj
      have := hnz (j + 1) (by omega)
      rwa [show k + (j + 1) = k + 1 + j by omega] at this
    have hpacked1 : ∀ j, j < rest.length →
        Packed (directoryBlock v data (k + 1 + j)) v.superblock.blockSize 0 (rest.getD j []) := by
      intro j hj
      have := hpacked (j + 1) (by omega)
      rw [show k + (j + 1) = k + 1 + j by omega] at this
      simpa using this
    have hB : 0 < v.superblock.blockSize := by
      obtain ⟨e, _, he⟩ := hgeo.blockSizePow
      rw [he]; exact Nat.pos_pow_of_pos _ (by decide)
    have hread := readDirectoryBlock_block v hgeo data hmode (k + 1)
      (by
        have : (k + 1) * v.superblock.blockSize
            ≤ (k + (rest.length + 1) + 1) * v.superblock.blockSize :=
          Nat.mul_le_mul_right _ (by omega)
        omega)
      (by have := hnz1 0 (by omega); simpa using this) (streamBlock v data k)
    -- the next block starts with an entry
    have hfirst : ∃ len1 name1,
        EntryAt (bufferMemory (cursorAt v data (k + 1) 0).directoryBuffer) 0 len1 name1
          ∧ 0 + len1 ≤ v.superblock.blockSize := by
      cases rest with
      | nil =>
        simp only [List.length_nil, Nat.add_zero] at htarget1
        exact Packed.head _ 0 (Packed.buffer v hgeo.sectors data (k + 1) _ 0 htarget1) (by simp)
      | cons b2 rest2 =>
        have h2 := hpacked1 0 (by simp)
        simp only [Nat.add_zero, List.getD_cons_zero] at h2
        have hne := hfilled 1 (by omega) (by simp)
        simp only [List.getD_cons_succ, List.getD_cons_zero] at hne
        exact Packed.head _ 0 (Packed.buffer v hgeo.sectors data (k + 1) _ 0 h2) hne
    obtain ⟨len1, name1, hent1, hle1⟩ := hfirst
    have htail := Packed.tail b 0 hb
    have hadv := SearchDirectory.loop_advance v data searchName
      ⟨AccessBlockRead v (streamBlock v data k) v.superblock.blockSize 0, 0 + entriesSize b, k,
        streamBlock v data k⟩ (cursorAt v data (k + 1) 0) i htail.1 htail.2.2 hread len1 name1
      hent1 hle1
    have hrec := ih (k + 1) (i + 1)
      (by rw [← hk1]; exact h64) hnz1 hpacked1 htarget1
      (fun j hj0 hj => by
        have := hfilled (j + 1) (by omega) (by omega)
        simpa using this)
      (fun b' hb' => hother b' (List.mem_cons_of_mem _ hb')) hpre (by omega)
    have hstart : cursorAt v data k 0
        = ⟨AccessBlockRead v (streamBlock v data k) v.superblock.blockSize 0, 0, k,
            streamBlock v data k⟩ := rfl
    rw [hstart, hpass, hi, hadv, hrec, hk1]

/-! ### The entry buffer of CreateNode -/

theorem writeBytes_lt (m : Memory) (addr : Nat) (src : List Nat) (a : Nat) (h : a < addr) :
    writeBytes m addr src a = m a := by
  unfold writeBytes
  rw [if_neg (by omega)]

theorem writeBytes_ge (m : Memory) (addr : Nat) (src : List Nat) (a : Nat)
    (h : addr + src.length ≤ a) : writeBytes m addr src a = m a := by
  unfold writeBytes
  rw [if_neg (by omega)]

theorem writeBytes_in (m : Memory) (addr : Nat) (src : List Nat) (a : Nat)
    (h1 : addr ≤ a) (h2 : a < addr + src.length) :
    writeBytes m addr src a = src.getD (a - addr) 0 := by
  unfold writeBytes
  rw [if_pos ⟨h1, h2⟩]

/-- The entry buffer of a file, as a sequence of writes at the offsets of the
fields. -/
theorem CreateNode.patched_file (name : List Nat) (random : Nat → Nat) (high : Nat)
    (hn : name.length < 256) :
    CreateNode.patched name ESFS_FILE_TYPE_FILE random high
      = writeBytes (writeBytes (writeBytes (writeBytes (writeBytes (writeBytes (writeBytes
          (writeBytes (writeBytes (writeBytes (writeBytes (writeBytes (writeBytes (writeBytes
          (writeBytes (writeBytes (writeBytes (writeBytes (writeBytes (fun _ => 0)
            0 ESFS_DIRECTORY_ENTRY_SIGNATURE)
            8 [1, 0])
            10 [(name.length + 6) % 256, (name.length + 6) / 256 % 256])
            12 [name.length])
            14 name)
            (14 + name.length) [2, 0])
            (26 + name.length) ((List.range 16).map (fun i => random i % 256)))
            (42 + name.length) [1])
            (18 + name.length) ESFS_FILE_ENTRY_SIGNATURE)
            (66 + name.length) [2, 0])
            (68 + name.length) [80, 0])
            (70 + name.length) [0])
            (71 + name.length) [4])
            (146 + name.length) [255, 255])
            (148 + name.length) [4, 0])
            (16 + name.length) [136, 0])
            (150 + name.length) [255, 255])
            (152 + name.length) [4, 0])
            (34 + name.length) (encodeU64 high) := by
  have e1 : 8 + (name.length + 6) = 14 + name.length := by omega
  have hn' : name.length % 256 = name.length := Nat.mod_eq_of_lt hn
  have e2 : 18 + name.length + 8 = 26 + name.length := by omega
  have e3 : 18 + name.length + 24 = 42 + name.length := by omega
  have e4 : 14 + name.length + 4 = 18 + name.length := by omega
  have e5 : 18 + name.length + 48 = 66 + name.length := by omega
  have e6 : 66 + name.length + 2 = 68 + name.length := by omega
  have e7 : 66 + name.length + 4 = 70 + name.length := by omega
  have e8 : 66 + name.length + 5 = 71 + name.length := by omega
  have e9 : 66 + name.length + 80 = 146 + name.length := by omega
  have e10 : 146 + name.length + 2 = 148 + name.length := by omega
  have e11 : 14 + name.length + 2 = 16 + name.length := by omega
  have e12 : 146 + name.length + 4 = 150 + name.length := by omega
  have e13 : 150 + name.length + 2 = 152 + name.length := by omega
  have e14 : 26 + name.length + 8 = 34 + name.length := by omega
  have e15 : 4 + (150 + name.length) - (18 + name.length) = 136 := by omega
  simp only [CreateNode.patched, CreateNode.entry, writeU16, sizeofDirectoryEntry,
    sizeofAttributeDirectoryName, sizeofAttributeDirectoryFile, sizeofFileEntry,
    sizeofAttributeFileData, sizeofAttributeFileDirectory, sizeofAttributeHeader,
    u16_of_lt (show name.length + 6 < 65536 by omega), ESFS_FILE_TYPE_DIRECTORY,
    ESFS_FILE_TYPE_FILE, ESFS_ATTRIBUTE_DIRECTORY_NAME, ESFS_ATTRIBUTE_DIRECTORY_FILE,
    ESFS_ATTRIBUTE_FILE_DATA, ESFS_ATTRIBUTE_LIST_END, ESFS_STREAM_DEFAULT, ESFS_DATA_DIRECT,
    if_neg (show ¬ (1 = 2) by decide), e1, hn', e2, e3, e4, e5, e6, e7, e8, e9, e10, e11, e12,
    e13, e14, e15]

/-- The entry buffer of a directory, as a sequence of writes at the offsets of
the fields. -/
theorem CreateNode.patched_directory (name : List Nat) (random : Nat → Nat) (high : Nat)
    (hn : name.length < 256) :
    CreateNode.patched name ESFS_FILE_TYPE_DIRECTORY random high
      = writeBytes (writeBytes (writeBytes (writeBytes (writeBytes (writeBytes (writeBytes
          (writeBytes (writeBytes (writeBytes (writeBytes (writeBytes (writeBytes (writeBytes
          (writeBytes (writeBytes (writeBytes (writeBytes (writeBytes (writeBytes (writeBytes
          (writeBytes (fun _ => 0)
            0 ESFS_DIRECTORY_ENTRY_SIGNATURE)
            8 [1, 0])
            10 [(name.length + 6) % 256, (name.length + 6) / 256 % 256])
            12 [name.length])
            14 name)
            (14 + name.length) [2, 0])
            (26 + name.length) ((List.range 16).map (fun i => random i % 256)))
            (42 + name.length) [2])
            (18 + name.length) ESFS_FILE_ENTRY_SIGNATURE)
            (66 + name.length) [2, 0])
            (68 + name.length) [80, 0])
            (70 + name.length) [0])
            (71 + name.length) [4])
            (146 + name.length) [3, 0])
            (148 + name.length) [24, 0])
            (154 + name.length) (encodeU64 0))
            (170 + name.length) [255, 255])
            (172 + name.length) [4, 0])
            (16 + name.length) [160, 0])
            (174 + name.length) [255, 255])
            (176 + name.length) [4, 0])
            (34 + name.length) (encodeU64 high) := by
  have e1 : 8 + (name.length + 6) = 14 + name.length := by omega
  have hn' : name.length % 256 = name.length := Nat.mod_eq_of_lt hn
  have e2 : 18 + name.length + 8 = 26 + name.length := by omega
  have e3 : 18 + name.length + 24 = 42 + name.length := by omega
  have e4 : 14 + name.length + 4 = 18 + name.length := by omega
  have e5 : 18 + name.length + 48 = 66 + name.length := by omega
  have e6 : 66 + name.length + 2 = 68 + name.length := by omega
  have e7 : 66 + name.length + 4 = 70 + name.length := by omega
  have e8 : 66 + name.length + 5 = 71 + name.length := by omega
  have e9 : 66 + name.length + 80 = 146 + name.length := by omega
  have e10 : 146 + name.length + 2 = 148 + name.length := by omega
  have e11 : 14 + name.length + 2 = 16 + name.length := by omega
  have e12 : 146 + name.length + 8 = 154 + name.length := by omega
  have e13 : 146 + name.length + 24 = 170 + name.length := by omega
  have e14 : 26 + name.length + 8 = 34 + name.length := by omega
  have e16 : 170 + name.length + 2 = 172 + name.length := by omega
  have e17 : 170 + name.length + 4 = 174 + name.length := by omega
  have e18 : 174 + name.length + 2 = 176 + name.length := by omega
  have e15 : 4 + (174 + name.length) - (18 + name.length) = 160 := by omega
  simp only [CreateNode.patched, CreateNode.entry, writeU16, sizeofDirectoryEntry,
    sizeofAttributeDirectoryName, sizeofAttributeDirectoryFile, sizeofFileEntry,
    sizeofAttributeFileData, sizeofAttributeFileDirectory, sizeofAttributeHeader,
    u16_of_lt (show name.length + 6 < 65536 by omega), ESFS_FILE_TYPE_DIRECTORY,
    ESFS_ATTRIBUTE_DIRECTORY_NAME, ESFS_ATTRIBUTE_DIRECTORY_FILE,
    ESFS_ATTRIBUTE_FILE_DATA, ESFS_ATTRIBUTE_FILE_DIRECTORY, ESFS_ATTRIBUTE_LIST_END,
    ESFS_STREAM_DEFAULT, ESFS_DATA_DIRECT, if_true, e1, hn', e2, e3, e4, e5, e6, e7, e8, e9,
    e10, e11, e12, e13, e14, e15, e16, e17, e18]

/-- The length of the entry that `CreateNode` makes, and the offset of the
identifier in it. -/
theorem CreateNode.entry_size (name : List Nat) (type : Nat) (random : Nat → Nat)
    (hn : name.length < 256) :
    (CreateNode.entry name type random).2.1 = newEntrySize name.length type
      ∧ (CreateNode.entry name type random).2.2 = 26 + name.length := by
  unfold newEntrySize
  simp only [CreateNode.entry, sizeofDirectoryEntry,
    sizeofAttributeDirectoryName, sizeofAttributeDirectoryFile, sizeofFileEntry,
    sizeofAttributeFileData, sizeofAttributeFileDirectory, sizeofAttributeHeader,
    u16_of_lt (show name.length + 6 < 65536 by omega)]
  refine ⟨?_, by omega⟩
  split <;> omega

theorem readU16_shift (m E : Memory) (p p0 L : Nat) (hm : ∀ a, a < L → m (p + a) = E (p0 + a))
    (x : Nat) (hx : x + 2 ≤ L) : readU16 m (p + x) = readU16 E (p0 + x) := by
  unfold readU16
  rw [hm x (by omega), Nat.add_assoc, Nat.add_assoc, hm (x + 1) (by omega)]

theorem readBytes_shift (m E : Memory) (p p0 L : Nat) (hm : ∀ a, a < L → m (p + a) = E (p0 + a))
    (x k : Nat) (hx : x + k ≤ L) : readBytes m (p + x) k = readBytes E (p0 + x) k := by
  unfold readBytes
  apply List.map_congr_left
  intro i hi
  have hi' := List.mem_range.1 hi
  rw [Nat.add_assoc, Nat.add_assoc, hm (x + i) (by omega)]

theorem readU64_shift (m E : Memory) (p p0 L : Nat) (hm : ∀ a, a < L → m (p + a) = E (p0 + a))
    (x : Nat) (hx : x + 8 ≤ L) : readU64 m (p + x) = readU64 E (p0 + x) := by
  apply readU64_eq_of_bytes
  intro i hi
  rw [Nat.add_assoc, Nat.add_assoc, hm (x + i) (by omega)]

/-- A directory entry that is copied to another place is a directory entry
there. -/
theorem EntryAt.shift {E : Memory} {p0 len : Nat} {name : List Nat} (h : EntryAt E p0 len name)
    (m : Memory) (p : Nat) (hm : ∀ a, a < len → m (p + a) = E (p0 + a)) :
    EntryAt m p len name := by
  have hl := h.length_ge
  have hlen := h.length
  have h16 : readU16 m (p + 16 + name.length) = readU16 E (p0 + 16 + name.length) := by
    simp only [Nat.add_assoc]
    exact readU16_shift m E p p0 len hm _ (by omega)
  refine ⟨?_, ?_, ?_, ?_, ?_, ?_, ?_, ?_, ?_⟩
  · have := readBytes_shift m E p p0 len hm 0 8 (by omega)
    simp only [Nat.add_zero] at this
    rw [this]; exact h.signature
  · rw [readU16_shift m E p p0 len hm 8 (by omega)]; exact h.nameType
  · rw [readU16_shift m E p p0 len hm 10 (by omega)]; exact h.nameSize
  · rw [hm 12 (by omega)]; exact h.nameLength
  · rw [readBytes_shift m E p p0 len hm 14 name.length (by omega)]; exact h.nameBytes
  · have := readU16_shift m E p p0 len hm (14 + name.length) (by omega)
    simp only [← Nat.add_assoc] at this
    rw [this]; exact h.fileType
  · rw [h16]
    have := readU16_shift m E p p0 len hm
      (14 + name.length + readU16 E (p0 + 16 + name.length)) (by omega)
    simp only [← Nat.add_assoc] at this
    rw [this]; exact h.endType
  · rw [h16]
    have := readU16_shift m E p p0 len hm
      (14 + name.length + readU16 E (p0 + 16 + name.length) + 2) (by omega)
    simp only [← Nat.add_assoc] at this
    rw [this]; exact h.endSize
  · rw [h16]; exact hlen

/-- A file entry that is copied to another place is a file entry there. -/
theorem FileEntryAt.shift_file {E : Memory} {q0 type : Nat} {low : List Nat} {high : Nat}
    (h : FileEntryAt E q0 type low high) (m : Memory) (q L : Nat)
    (hL : type = ESFS_FILE_TYPE_DIRECTORY → 154 ≤ L) (hL' : 130 ≤ L)
    (hm : ∀ a, a < L → m (q + a) = E (q0 + a)) :
    FileEntryAt m q type low high := by
  refine ⟨?_, ?_, ?_, ?_, ?_, ?_, ?_, ?_, ?_, ?_⟩
  · have := readBytes_shift m E q q0 L hm 0 8 (by omega)
    simp only [Nat.add_zero] at this
    rw [this]; exact h.signature
  · rw [readBytes_shift m E q q0 L hm 8 8 (by omega)]; exact h.identifierLow
  · rw [readBytes_shift m E q q0 L hm 16 8 (by omega)]; exact h.identifierHigh
  · rw [hm 24 (by omega)]; exact h.fileType
  · rw [readU16_shift m E q q0 L hm 48 (by omega)]; exact h.dataType
  · rw [readU16_shift m E q q0 L hm 50 (by omega)]; exact h.dataSize
  · rw [hm 53 (by omega)]; exact h.indirection
  · rw [readU64_shift m E q q0 L hm 56 (by omega)]; exact h.size
  · intro ht
    rw [readU16_shift m E q q0 L hm 128 (by omega)]; exact h.fileEnd ht
  · intro ht
    have := hL ht
    obtain ⟨h1, h2, h3, h4⟩ := h.directoryType ht
    rw [readU16_shift m E q q0 L hm 128 (by omega), readU16_shift m E q q0 L hm 130 (by omega),
      readU64_shift m E q q0 L hm 136 (by omega), readU16_shift m E q q0 L hm 152 (by omega)]
    exact ⟨h1, h2, h3, h4⟩

/-- The directory entry in the entry buffer of a file. -/
theorem CreateNode.patched_file_entry (name : List Nat) (random : Nat → Nat) (high : Nat)
    (hn : name.length < 256) :
    EntryAt (CreateNode.patched name ESFS_FILE_TYPE_FILE random high) 0 (154 + name.length) name := by
  rw [CreateNode.patched_file name random high hn]
  refine ⟨?_, ?_, ?_, ?_, ?_, ?_, ?_, ?_, ?_⟩
  · simp only [readBytes, List.range_succ, List.range_zero, List.map_append, List.map_cons, List.map_nil, List.nil_append, List.cons_append]
    simp (disch := (first | omega | (simp only [List.length_cons, List.length_nil, List.length_map, List.length_range, encodeU64_length, ESFS_DIRECTORY_ENTRY_SIGNATURE, ESFS_FILE_ENTRY_SIGNATURE]; omega))) only [writeBytes_lt, writeBytes_ge, writeBytes_in]
    simp [ESFS_DIRECTORY_ENTRY_SIGNATURE]
  · simp only [Nat.zero_add, readU16]
    simp (disch := (first | omega | (simp only [List.length_cons, List.length_nil, List.length_map, List.length_range, encodeU64_length, ESFS_DIRECTORY_ENTRY_SIGNATURE, ESFS_FILE_ENTRY_SIGNATURE]; omega))) only [writeBytes_lt, writeBytes_ge, writeBytes_in]
    simp [ESFS_ATTRIBUTE_DIRECTORY_NAME]
  · simp only [Nat.zero_add, readU16]
    simp (disch := (first | omega | (simp only [List.length_cons, List.length_nil, List.length_map, List.length_range, encodeU64_length, ESFS_DIRECTORY_ENTRY_SIGNATURE, ESFS_FILE_ENTRY_SIGNATURE]; omega))) only [writeBytes_lt, writeBytes_ge, writeBytes_in]
    simp [sizeofAttributeDirectoryName]
    omega
  · simp only [Nat.zero_add]
    simp (disch := (first | omega | (simp only [List.length_cons, List.length_nil, List.length_map, List.length_range, encodeU64_length, ESFS_DIRECTORY_ENTRY_SIGNATURE, ESFS_FILE_ENTRY_SIGNATURE]; omega))) only [writeBytes_lt, writeBytes_ge, writeBytes_in]
    simp
  · simp only [Nat.zero_add]
    apply List.ext_getElem
    · simp [readBytes]
    · intro k h1 h2
      simp only [readBytes, List.getElem_map, List.getElem_range]
      simp (disch := (first | omega | (simp only [List.length_cons, List.length_nil, List.length_map, List.length_range, encodeU64_length, ESFS_DIRECTORY_ENTRY_SIGNATURE, ESFS_FILE_ENTRY_SIGNATURE]; omega))) only [writeBytes_lt, writeBytes_ge, writeBytes_in]
      simp [List.getD_eq_getElem?_getD, List.getElem?_eq_getElem h2]
  · simp only [Nat.zero_add, readU16]
    simp (disch := (first | omega | (simp only [List.length_cons, List.length_nil, List.length_map, List.length_range, encodeU64_length, ESFS_DIRECTORY_ENTRY_SIGNATURE, ESFS_FILE_ENTRY_SIGNATURE]; omega))) only [writeBytes_lt, writeBytes_ge, writeBytes_in]
    simp [ESFS_ATTRIBUTE_DIRECTORY_FILE]
  · have hf : readU16 (CreateNode.patched name ESFS_FILE_TYPE_FILE random high) (0 + 16 + name.length) = 136 := by
      rw [CreateNode.patched_file name random high hn]
      simp only [Nat.zero_add, readU16]
      simp (disch := (first | omega | (simp only [List.length_cons, List.length_nil, List.length_map, List.length_range, encodeU64_length, ESFS_DIRECTORY_ENTRY_SIGNATURE, ESFS_FILE_ENTRY_SIGNATURE]; omega))) only [writeBytes_lt, writeBytes_ge, writeBytes_in]
      simp
    rw [CreateNode.patched_file name random high hn] at hf
    rw [hf]
    simp only [Nat.zero_add]
    rw [show 14 + name.length + 136 = 150 + name.length by omega]
    simp only [readU16]
    simp (disch := (first | omega | (simp only [List.length_cons, List.length_nil, List.length_map, List.length_range, encodeU64_length, ESFS_DIRECTORY_ENTRY_SIGNATURE, ESFS_FILE_ENTRY_SIGNATURE]; omega))) only [writeBytes_lt, writeBytes_ge, writeBytes_in]
    simp [ESFS_ATTRIBUTE_LIST_END]
  · have hf : readU16 (CreateNode.patched name ESFS_FILE_TYPE_FILE random high) (0 + 16 + name.length) = 136 := by
      rw [CreateNode.patched_file name random high hn]
      simp only [Nat.zero_add, readU16]
      simp (disch := (first | omega | (simp only [List.length_cons, List.length_nil, List.length_map, List.length_range, encodeU64_length, ESFS_DIRECTORY_ENTRY_SIGNATURE, ESFS_FILE_ENTRY_SIGNATURE]; omega))) only [writeBytes_lt, writeBytes_ge, writeBytes_in]
      simp
    rw [CreateNode.patched_file name random high hn] at hf
    rw [hf]
    simp only [Nat.zero_add]
    rw [show 14 + name.length + 136 + 2 = 152 + name.length by omega]
    simp only [readU16]
    simp (disch := (first | omega | (simp only [List.length_cons, List.length_nil, List.length_map, List.length_range, encodeU64_length, ESFS_DIRECTORY_ENTRY_SIGNATURE, ESFS_FILE_ENTRY_SIGNATURE]; omega))) only [writeBytes_lt, writeBytes_ge, writeBytes_in]
    simp [sizeofAttributeHeader]
  · have hf : readU16 (CreateNode.patched name ESFS_FILE_TYPE_FILE random high) (0 + 16 + name.length) = 136 := by
      rw [CreateNode.patched_file name random high hn]
      simp only [Nat.zero_add, readU16]
      simp (disch := (first | omega | (simp only [List.length_cons, List.length_nil, List.length_map, List.length_range, encodeU64_length, ESFS_DIRECTORY_ENTRY_SIGNATURE, ESFS_FILE_ENTRY_SIGNATURE]; omega))) only [writeBytes_lt, writeBytes_ge, writeBytes_in]
      simp
    rw [CreateNode.patched_file name random high hn] at hf
    rw [hf]
    omega

/-- The entry buffer of a file is zero behind the entry. -/
theorem CreateNode.patched_file_zero (name : List Nat) (random : Nat → Nat) (high : Nat)
    (hn : name.length < 256) (a : Nat) (ha : 154 + name.length ≤ a) :
    CreateNode.patched name ESFS_FILE_TYPE_FILE random high a = 0 := by
  rw [CreateNode.patched_file name random high hn]
  simp (disch := (first | omega | (simp only [List.length_cons, List.length_nil, List.length_map, List.length_range, encodeU64_length, ESFS_DIRECTORY_ENTRY_SIGNATURE, ESFS_FILE_ENTRY_SIGNATURE]; omega))) only [writeBytes_lt, writeBytes_ge, writeBytes_in]

/-- The length of the file attribute in the entry buffer of a file. -/
theorem CreateNode.patched_file_length (name : List Nat) (random : Nat → Nat) (high : Nat)
    (hn : name.length < 256) :
    readU16 (CreateNode.patched name ESFS_FILE_TYPE_FILE random high) (16 + name.length) = 136 := by
  rw [CreateNode.patched_file name random high hn]
  simp only [readU16]
  simp (disch := (first | omega | (simp only [List.length_cons, List.length_nil, List.length_map, List.length_range, encodeU64_length, ESFS_DIRECTORY_ENTRY_SIGNATURE, ESFS_FILE_ENTRY_SIGNATURE]; omega))) only [writeBytes_lt, writeBytes_ge, writeBytes_in]
  simp

/-- The file entry in the entry buffer of a file. -/
theorem CreateNode.patched_file_fileEntry (name : List Nat) (random : Nat → Nat) (high : Nat)
    (hn : name.length < 256) :
    FileEntryAt (CreateNode.patched name ESFS_FILE_TYPE_FILE random high) (18 + name.length) ESFS_FILE_TYPE_FILE
      ((List.range 8).map (fun i => random i % 256)) high := by
  rw [CreateNode.patched_file name random high hn]
  refine ⟨?_, ?_, ?_, ?_, ?_, ?_, ?_, ?_, ?_, ?_⟩
  all_goals try simp only [show 18 + name.length + 8 = 26 + name.length by omega, show 18 + name.length + 24 = 42 + name.length by omega, show 18 + name.length + 48 = 66 + name.length by omega, show 18 + name.length + 50 = 68 + name.length by omega, show 18 + name.length + 53 = 71 + name.length by omega, show 18 + name.length + 128 = 146 + name.length by omega, show 18 + name.length + 130 = 148 + name.length by omega, show 18 + name.length + 152 = 170 + name.length by omega]
  · simp only [readBytes, List.range_succ, List.range_zero, List.map_append, List.map_cons, List.map_nil, List.nil_append, List.cons_append]
    simp (disch := (first | omega | (simp only [List.length_cons, List.length_nil, List.length_map, List.length_range, encodeU64_length, ESFS_DIRECTORY_ENTRY_SIGNATURE, ESFS_FILE_ENTRY_SIGNATURE]; omega))) only [writeBytes_lt, writeBytes_ge, writeBytes_in]
    simp [ESFS_FILE_ENTRY_SIGNATURE]
  · simp only [readBytes, List.range_succ, List.range_zero, List.map_append, List.map_cons, List.map_nil, List.nil_append, List.cons_append]
    simp (disch := (first | omega | (simp only [List.length_cons, List.length_nil, List.length_map, List.length_range, encodeU64_length, ESFS_DIRECTORY_ENTRY_SIGNATURE, ESFS_FILE_ENTRY_SIGNATURE]; omega))) only [writeBytes_lt, writeBytes_ge, writeBytes_in]
    simp
  · apply List.ext_getElem
    · simp [readBytes, encodeU64_length]
    · intro k h1 h2
      simp only [readBytes, List.getElem_map, List.getElem_range]
      rw [encodeU64_length] at h2
      simp (disch := (first | omega | (simp only [List.length_cons, List.length_nil, List.length_map, List.length_range, encodeU64_length, ESFS_DIRECTORY_ENTRY_SIGNATURE, ESFS_FILE_ENTRY_SIGNATURE]; omega))) only [writeBytes_lt, writeBytes_ge, writeBytes_in]
      have e : 18 + name.length + 16 + k - (34 + name.length) = k := by omega
      rw [e, List.getD_eq_getElem?_getD, List.getElem?_eq_getElem (by rw [encodeU64_length]; exact h2)]
      rfl
  · simp (disch := (first | omega | (simp only [List.length_cons, List.length_nil, List.length_map, List.length_range, encodeU64_length, ESFS_DIRECTORY_ENTRY_SIGNATURE, ESFS_FILE_ENTRY_SIGNATURE]; omega))) only [writeBytes_lt, writeBytes_ge, writeBytes_in]
    simp [ESFS_FILE_TYPE_FILE]
  · simp only [readU16]
    simp (disch := (first | omega | (simp only [List.length_cons, List.length_nil, List.length_map, List.length_range, encodeU64_length, ESFS_DIRECTORY_ENTRY_SIGNATURE, ESFS_FILE_ENTRY_SIGNATURE]; omega))) only [writeBytes_lt, writeBytes_ge, writeBytes_in]
    simp [ESFS_ATTRIBUTE_FILE_DATA]
  · simp only [readU16]
    simp (disch := (first | omega | (simp only [List.length_cons, List.length_nil, List.length_map, List.length_range, encodeU64_length, ESFS_DIRECTORY_ENTRY_SIGNATURE, ESFS_FILE_ENTRY_SIGNATURE]; omega))) only [writeBytes_lt, writeBytes_ge, writeBytes_in]
    simp [sizeofAttributeFileData]
  · simp (disch := (first | omega | (simp only [List.length_cons, List.length_nil, List.length_map, List.length_range, encodeU64_length, ESFS_DIRECTORY_ENTRY_SIGNATURE, ESFS_FILE_ENTRY_SIGNATURE]; omega))) only [writeBytes_lt, writeBytes_ge, writeBytes_in]
    simp [ESFS_DATA_DIRECT]
  · apply readU64_zero
    intro i hi
    simp (disch := (first | omega | (simp only [List.length_cons, List.length_nil, List.length_map, List.length_range, encodeU64_length, ESFS_DIRECTORY_ENTRY_SIGNATURE, ESFS_FILE_ENTRY_SIGNATURE]; omega))) only [writeBytes_lt, writeBytes_ge, writeBytes_in]
  · intro _
    simp only [readU16]
    simp (disch := (first | omega | (simp only [List.length_cons, List.length_nil, List.length_map, List.length_range, encodeU64_length, ESFS_DIRECTORY_ENTRY_SIGNATURE, ESFS_FILE_ENTRY_SIGNATURE]; omega))) only [writeBytes_lt, writeBytes_ge, writeBytes_in]
    simp [ESFS_ATTRIBUTE_LIST_END]
  · intro h
    exact absurd h (by decide)

/-- The directory entry in the entry buffer of a directory. -/
theorem CreateNode.patched_directory_entry (name : List Nat) (random : Nat → Nat) (high : Nat)
    (hn : name.length < 256) :
    EntryAt (CreateNode.patched name ESFS_FILE_TYPE_DIRECTORY random high) 0 (178 + name.length) name := by
  rw [CreateNode.patched_directory name random high hn]
  refine ⟨?_, ?_, ?_, ?_, ?_, ?_, ?_, ?_, ?_⟩
  · simp only [readBytes, List.range_succ, List.range_zero, List.map_append, List.map_cons, List.map_nil, List.nil_append, List.cons_append]
    simp (disch := (first | omega | (simp only [List.length_cons, List.length_nil, List.length_map, List.length_range, encodeU64_length, ESFS_DIRECTORY_ENTRY_SIGNATURE, ESFS_FILE_ENTRY_SIGNATURE]; omega))) only [writeBytes_lt, writeBytes_ge, writeBytes_in]
    simp [ESFS_DIRECTORY_ENTRY_SIGNATURE]
  · simp only [Nat.zero_add, readU16]
    simp (disch := (first | omega | (simp only [List.length_cons, List.length_nil, List.length_map, List.length_range, encodeU64_length, ESFS_DIRECTORY_ENTRY_SIGNATURE, ESFS_FILE_ENTRY_SIGNATURE]; omega))) only [writeBytes_lt, writeBytes_ge, writeBytes_in]
    simp [ESFS_ATTRIBUTE_DIRECTORY_NAME]
  · simp only [Nat.zero_add, readU16]
    simp (disch := (first | omega | (simp only [List.length_cons, List.length_nil, List.length_map, List.length_range, encodeU64_length, ESFS_DIRECTORY_ENTRY_SIGNATURE, ESFS_FILE_ENTRY_SIGNATURE]; omega))) only [writeBytes_lt, writeBytes_ge, writeBytes_in]
    simp [sizeofAttributeDirectoryName]
    omega
  · simp only [Nat.zero_add]
    simp (disch := (first | omega | (simp only [List.length_cons, List.length_nil, List.length_map, List.length_range, encodeU64_length, ESFS_DIRECTORY_ENTRY_SIGNATURE, ESFS_FILE_ENTRY_SIGNATURE]; omega))) only [writeBytes_lt, writeBytes_ge, writeBytes_in]
    simp
  · simp only [Nat.zero_add]
    apply List.ext_getElem
    · simp [readBytes]
    · intro k h1 h2
      simp only [readBytes, List.getElem_map, List.getElem_range]
      simp (disch := (first | omega | (simp only [List.length_cons, List.length_nil, List.length_map, List.length_range, encodeU64_length, ESFS_DIRECTORY_ENTRY_SIGNATURE, ESFS_FILE_ENTRY_SIGNATURE]; omega))) only [writeBytes_lt, writeBytes_ge, writeBytes_in]
      simp [List.getD_eq_getElem?_getD, List.getElem?_eq_getElem h2]
  · simp only [Nat.zero_add, readU16]
    simp (disch := (first | omega | (simp only [List.length_cons, List.length_nil, List.length_map, List.length_range, encodeU64_length, ESFS_DIRECTORY_ENTRY_SIGNATURE, ESFS_FILE_ENTRY_SIGNATURE]; omega))) only [writeBytes_lt, writeBytes_ge, writeBytes_in]
    simp [ESFS_ATTRIBUTE_DIRECTORY_FILE]
  · have hf : readU16 (CreateNode.patched name ESFS_FILE_TYPE_DIRECTORY random high) (0 + 16 + name.length) = 160 := by
      rw [CreateNode.patched_directory name random high hn]
      simp only [Nat.zero_add, readU16]
      simp (disch := (first | omega | (simp only [List.length_cons, List.length_nil, List.length_map, List.length_range, encodeU64_length, ESFS_DIRECTORY_ENTRY_SIGNATURE, ESFS_FILE_ENTRY_SIGNATURE]; omega))) only [writeBytes_lt, writeBytes_ge, writeBytes_in]
      simp
    rw [CreateNode.patched_directory name random high hn] at hf
    rw [hf]
    simp only [Nat.zero_add]
    rw [show 14 + name.length + 160 = 174 + name.length by omega]
    simp only [readU16]
    simp (disch := (first | omega | (simp only [List.length_cons, List.length_nil, List.length_map, List.length_range, encodeU64_length, ESFS_DIRECTORY_ENTRY_SIGNATURE, ESFS_FILE_ENTRY_SIGNATURE]; omega))) only [writeBytes_lt, writeBytes_ge, writeBytes_in]
    simp [ESFS_ATTRIBUTE_LIST_END]
  · have hf : readU16 (CreateNode.patched name ESFS_FILE_TYPE_DIRECTORY random high) (0 + 16 + name.length) = 160 := by
      rw [CreateNode.patched_directory name random high hn]
      simp only [Nat.zero_add, readU16]
      simp (disch := (first | omega | (simp only [List.length_cons, List.length_nil, List.length_map, List.length_range, encodeU64_length, ESFS_DIRECTORY_ENTRY_SIGNATURE, ESFS_FILE_ENTRY_SIGNATURE]; omega))) only [writeBytes_lt, writeBytes_ge, writeBytes_in]
      simp
    rw [CreateNode.patched_directory name random high hn] at hf
    rw [hf]
    simp only [Nat.zero_add]
    rw [show 14 + name.length + 160 + 2 = 176 + name.length by omega]
    simp only [readU16]
    simp (disch := (first | omega | (simp only [List.length_cons, List.length_nil, List.length_map, List.length_range, encodeU64_length, ESFS_DIRECTORY_ENTRY_SIGNATURE, ESFS_FILE_ENTRY_SIGNATURE]; omega))) only [writeBytes_lt, writeBytes_ge, writeBytes_in]
    simp [sizeofAttributeHeader]
  · have hf : readU16 (CreateNode.patched name ESFS_FILE_TYPE_DIRECTORY random high) (0 + 16 + name.length) = 160 := by
      rw [CreateNode.patched_directory name random high hn]
      simp only [Nat.zero_add, readU16]
      simp (disch := (first | omega | (simp only [List.length_cons, List.length_nil, List.length_map, List.length_range, encodeU64_length, ESFS_DIRECTORY_ENTRY_SIGNATURE, ESFS_FILE_ENTRY_SIGNATURE]; omega))) only [writeBytes_lt, writeBytes_ge, writeBytes_in]
      simp
    rw [CreateNode.patched_directory name random high hn] at hf
    rw [hf]
    omega

/-- The entry buffer of a directory is zero behind the entry. -/
theorem CreateNode.patched_directory_zero (name : List Nat) (random : Nat → Nat) (high : Nat)
    (hn : name.length < 256) (a : Nat) (ha : 178 + name.length ≤ a) :
    CreateNode.patched name ESFS_FILE_TYPE_DIRECTORY random high a = 0 := by
  rw [CreateNode.patched_directory name random high hn]
  simp (disch := (first | omega | (simp only [List.length_cons, List.length_nil, List.length_map, List.length_range, encodeU64_length, ESFS_DIRECTORY_ENTRY_SIGNATURE, ESFS_FILE_ENTRY_SIGNATURE]; omega))) only [writeBytes_lt, writeBytes_ge, writeBytes_in]

/-- The length of the file attribute in the entry buffer of a directory. -/
theorem CreateNode.patched_directory_length (name : List Nat) (random : Nat → Nat) (high : Nat)
    (hn : name.length < 256) :
    readU16 (CreateNode.patched name ESFS_FILE_TYPE_DIRECTORY random high) (16 + name.length) = 160 := by
  rw [CreateNode.patched_directory name random high hn]
  simp only [readU16]
  simp (disch := (first | omega | (simp only [List.length_cons, List.length_nil, List.length_map, List.length_range, encodeU64_length, ESFS_DIRECTORY_ENTRY_SIGNATURE, ESFS_FILE_ENTRY_SIGNATURE]; omega))) only [writeBytes_lt, writeBytes_ge, writeBytes_in]
  simp

/-- The file entry in the entry buffer of a directory. -/
theorem CreateNode.patched_directory_fileEntry (name : List Nat) (random : Nat → Nat) (high : Nat)
    (hn : name.length < 256) :
    FileEntryAt (CreateNode.patched name ESFS_FILE_TYPE_DIRECTORY random high) (18 + name.length) ESFS_FILE_TYPE_DIRECTORY
      ((List.range 8).map (fun i => random i % 256)) high := by
  rw [CreateNode.patched_directory name random high hn]
  refine ⟨?_, ?_, ?_, ?_, ?_, ?_, ?_, ?_, ?_, ?_⟩
  all_goals try simp only [show 18 + name.length + 8 = 26 + name.length by omega, show 18 + name.length + 24 = 42 + name.length by omega, show 18 + name.length + 48 = 66 + name.length by omega, show 18 + name.length + 50 = 68 + name.length by omega, show 18 + name.length + 53 = 71 + name.length by omega, show 18 + name.length + 128 = 146 + name.length by omega, show 18 + name.length + 130 = 148 + name.length by omega, show 18 + name.length + 152 = 170 + name.length by omega]
  · simp only [readBytes, List.range_succ, List.range_zero, List.map_append, List.map_cons, List.map_nil, List.nil_append, List.cons_append]
    simp (disch := (first | omega | (simp only [List.length_cons, List.length_nil, List.length_map, List.length_range, encodeU64_length, ESFS_DIRECTORY_ENTRY_SIGNATURE, ESFS_FILE_ENTRY_SIGNATURE]; omega))) only [writeBytes_lt, writeBytes_ge, writeBytes_in]
    simp [ESFS_FILE_ENTRY_SIGNATURE]
  · simp only [readBytes, List.range_succ, List.range_zero, List.map_append, List.map_cons, List.map_nil, List.nil_append, List.cons_append]
    simp (disch := (first | omega | (simp only [List.length_cons, List.length_nil, List.length_map, List.length_range, encodeU64_length, ESFS_DIRECTORY_ENTRY_SIGNATURE, ESFS_FILE_ENTRY_SIGNATURE]; omega))) only [writeBytes_lt, writeBytes_ge, writeBytes_in]
    simp
  · apply List.ext_getElem
    · simp [readBytes, encodeU64_length]
    · intro k h1 h2
      simp only [readBytes, List.getElem_map, List.getElem_range]
      rw [encodeU64_length] at h2
      simp (disch := (first | omega | (simp only [List.length_cons, List.length_nil, List.length_map, List.length_range, encodeU64_length, ESFS_DIRECTORY_ENTRY_SIGNATURE, ESFS_FILE_ENTRY_SIGNATURE]; omega))) only [writeBytes_lt, writeBytes_ge, writeBytes_in]
      have e : 18 + name.length + 16 + k - (34 + name.length) = k := by omega
      rw [e, List.getD_eq_getElem?_getD, List.getElem?_eq_getElem (by rw [encodeU64_length]; exact h2)]
      rfl
  · simp (disch := (first | omega | (simp only [List.length_cons, List.length_nil, List.length_map, List.length_range, encodeU64_length, ESFS_DIRECTORY_ENTRY_SIGNATURE, ESFS_FILE_ENTRY_SIGNATURE]; omega))) only [writeBytes_lt, writeBytes_ge, writeBytes_in]
    simp [ESFS_FILE_TYPE_DIRECTORY]
  · simp only [readU16]
    simp (disch := (first | omega | (simp only [List.length_cons, List.length_nil, List.length_map, List.length_range, encodeU64_length, ESFS_DIRECTORY_ENTRY_SIGNATURE, ESFS_FILE_ENTRY_SIGNATURE]; omega))) only [writeBytes_lt, writeBytes_ge, writeBytes_in]
    simp [ESFS_ATTRIBUTE_FILE_DATA]
  · simp only [readU16]
    simp (disch := (first | omega | (simp only [List.length_cons, List.length_nil, List.length_map, List.length_range, encodeU64_length, ESFS_DIRECTORY_ENTRY_SIGNATURE, ESFS_FILE_ENTRY_SIGNATURE]; omega))) only [writeBytes_lt, writeBytes_ge, writeBytes_in]
    simp [sizeofAttributeFileData]
  · simp (disch := (first | omega | (simp only [List.length_cons, List.length_nil, List.length_map, List.length_range, encodeU64_length, ESFS_DIRECTORY_ENTRY_SIGNATURE, ESFS_FILE_ENTRY_SIGNATURE]; omega))) only [writeBytes_lt, writeBytes_ge, writeBytes_in]
    simp [ESFS_DATA_DIRECT]
  · apply readU64_zero
    intro i hi
    simp (disch := (first | omega | (simp only [List.length_cons, List.length_nil, List.length_map, List.length_range, encodeU64_length, ESFS_DIRECTORY_ENTRY_SIGNATURE, ESFS_FILE_ENTRY_SIGNATURE]; omega))) only [writeBytes_lt, writeBytes_ge, writeBytes_in]
  · intro h
    exact absurd h (by decide)
  · intro _
    refine ⟨?_, ?_, ?_, ?_⟩
    · simp only [readU16]
      simp (disch := (first | omega | (simp only [List.length_cons, List.length_nil, List.length_map, List.length_range, encodeU64_length, ESFS_DIRECTORY_ENTRY_SIGNATURE, ESFS_FILE_ENTRY_SIGNATURE]; omega))) only [writeBytes_lt, writeBytes_ge, writeBytes_in]
      simp [ESFS_ATTRIBUTE_FILE_DIRECTORY]
    · simp only [readU16]
      simp (disch := (first | omega | (simp only [List.length_cons, List.length_nil, List.length_map, List.length_range, encodeU64_length, ESFS_DIRECTORY_ENTRY_SIGNATURE, ESFS_FILE_ENTRY_SIGNATURE]; omega))) only [writeBytes_lt, writeBytes_ge, writeBytes_in]
      simp [sizeofAttributeFileDirectory]
    · apply readU64_zero
      intro i hi
      simp (disch := (first | omega | (simp only [List.length_cons, List.length_nil, List.length_map, List.length_range, encodeU64_length, ESFS_DIRECTORY_ENTRY_SIGNATURE, ESFS_FILE_ENTRY_SIGNATURE]; omega))) only [writeBytes_lt, writeBytes_ge, writeBytes_in]
      have e : 18 + name.length + 136 + i - (154 + name.length) = i := by omega
      rw [e]
      interval_cases i <;> rfl
    · simp only [readU16]
      simp (disch := (first | omega | (simp only [List.length_cons, List.length_nil, List.length_map, List.length_range, encodeU64_length, ESFS_DIRECTORY_ENTRY_SIGNATURE, ESFS_FILE_ENTRY_SIGNATURE]; omega))) only [writeBytes_lt, writeBytes_ge, writeBytes_in]
      simp [ESFS_ATTRIBUTE_LIST_END]

/-- The entry that `CreateNode` makes, copied to offset `p` of a block: a
directory entry with the name, which holds a file entry of the type. -/
theorem CreateNode.patched_at (name : List Nat) (type : Nat) (random : Nat → Nat) (high : Nat)
    (hn : name.length < 256)
    (htype : type = ESFS_FILE_TYPE_FILE ∨ type = ESFS_FILE_TYPE_DIRECTORY)
    (m : Memory) (p : Nat)
    (hm : ∀ a, a < newEntrySize name.length type →
      m (p + a) = CreateNode.patched name type random high a) :
    EntryAt m p (newEntrySize name.length type) name
      ∧ FileEntryAt m (p + 18 + name.length) type ((List.range 8).map (fun i => random i % 256))
          high
      ∧ readU16 m (p + 16 + name.length) + 18 + name.length = newEntrySize name.length type := by
  have hm0 : ∀ a, a < newEntrySize name.length type →
      m (p + a) = CreateNode.patched name type random high (0 + a) := by
    intro a ha; rw [Nat.zero_add]; exact hm a ha
  have hmq : ∀ a, a < newEntrySize name.length type - (18 + name.length) →
      m (p + 18 + name.length + a)
        = CreateNode.patched name type random high (18 + name.length + a) := by
    intro a ha
    rw [← hm (18 + name.length + a) (by omega)]
    congr 1
    omega
  rcases htype with rfl | rfl
  · have hs : newEntrySize name.length ESFS_FILE_TYPE_FILE = 154 + name.length := by
      unfold newEntrySize; rw [if_neg (by decide)]
    rw [hs] at hm hm0 hmq ⊢
    refine ⟨(CreateNode.patched_file_entry name random high hn).shift m p hm0,
      (CreateNode.patched_file_fileEntry name random high hn).shift_file m _ _ (fun h => absurd h (by decide))
        (by omega) hmq, ?_⟩
    have := readU16_shift m _ p 0 _ hm0 (16 + name.length) (by omega)
    simp only [← Nat.add_assoc, Nat.zero_add] at this
    rw [this, CreateNode.patched_file_length name random high hn]
  · have hs : newEntrySize name.length ESFS_FILE_TYPE_DIRECTORY = 178 + name.length := by
      unfold newEntrySize; rw [if_pos rfl]
    rw [hs] at hm hm0 hmq ⊢
    refine ⟨(CreateNode.patched_directory_entry name random high hn).shift m p hm0,
      (CreateNode.patched_directory_fileEntry name random high hn).shift_file m _ _ (fun _ => by omega)
        (by omega) hmq, ?_⟩
    have := readU16_shift m _ p 0 _ hm0 (16 + name.length) (by omega)
    simp only [← Nat.add_assoc, Nat.zero_add] at this
    rw [this, CreateNode.patched_directory_length name random high hn]

/-- The entry buffer is zero behind the entry. -/
theorem CreateNode.patched_zero (name : List Nat) (type : Nat) (random : Nat → Nat) (high : Nat)
    (hn : name.length < 256)
    (htype : type = ESFS_FILE_TYPE_FILE ∨ type = ESFS_FILE_TYPE_DIRECTORY)
    (a : Nat) (ha : newEntrySize name.length type ≤ a) :
    CreateNode.patched name type random high a = 0 := by
  rcases htype with rfl | rfl
  · have hs : newEntrySize name.length ESFS_FILE_TYPE_FILE = 154 + name.length := by
      unfold newEntrySize; rw [if_neg (by decide)]
    exact CreateNode.patched_file_zero name random high hn a (by omega)
  · have hs : newEntrySize name.length ESFS_FILE_TYPE_DIRECTORY = 178 + name.length := by
      unfold newEntrySize; rw [if_pos rfl]
    exact CreateNode.patched_directory_zero name random high hn a (by omega)

theorem readBytes_add (m : Memory) (a j k : Nat) :
    readBytes m a (j + k) = readBytes m a j ++ readBytes m (a + j) k := by
  unfold readBytes
  rw [List.range_add, List.map_append, List.map_map]
  congr 1
  apply List.map_congr_left
  intro i _
  simp [Nat.add_assoc]

/-- `FindAttribute` on the attributes of a file entry that `CreateNode` made. -/
theorem FileEntryAt.find_attributes {m : Memory} {q type : Nat} {low : List Nat} {high : Nat}
    (h : FileEntryAt m q type low high) (limit : Nat) (hlim : q + 132 ≤ limit)
    (fuel : Nat) (hfuel : 3 ≤ fuel) :
    FindAttribute ESFS_ATTRIBUTE_FILE_DATA m limit fuel (q + sizeofFileEntry) = .ok (some (q + 48))
      ∧ (type = ESFS_FILE_TYPE_FILE →
          FindAttribute ESFS_ATTRIBUTE_FILE_DIRECTORY m limit fuel (q + sizeofFileEntry) = .ok none)
      ∧ (type = ESFS_FILE_TYPE_DIRECTORY →
          FindAttribute ESFS_ATTRIBUTE_FILE_DIRECTORY m limit fuel (q + sizeofFileEntry)
            = .ok (some (q + 128))) := by
  obtain ⟨f, rfl⟩ : ∃ f, fuel = f + 3 := ⟨fuel - 3, by omega⟩
  have a1 : q + 48 + 2 = q + 50 := by omega
  have a2 : q + 48 + sizeofAttributeFileData = q + 128 := by
    unfold sizeofAttributeFileData; omega
  unfold sizeofFileEntry
  refine ⟨?_, ?_, ?_⟩
  · exact FindAttribute.hit _ m limit _ _ (by omega) h.dataType (by decide)
  · intro ht
    rw [FindAttribute.skip _ m limit _ _ _ (by omega) h.dataType (by decide) (by decide), a1,
      h.dataSize, a2, FindAttribute.stop _ m limit _ _ (by omega) (h.fileEnd ht),
      if_neg (by decide)]
  · intro ht
    rw [FindAttribute.skip _ m limit _ _ _ (by omega) h.dataType (by decide) (by decide), a1,
      h.dataSize, a2]
    exact FindAttribute.hit _ m limit _ _ (by omega) (h.directoryType ht).1 (by decide)

/-- The end of `SearchDirectory` on a file entry that `CreateNode` made and
that no open node stands for: a new node of the type of the entry, with file
size or entry count 0, which records the block that was read and the offsets
of the file entry and of the directory entry. -/
theorem SearchDirectory.node_new (B : Nat) (c : DirectoryCursor) (rv fel : Nat)
    (openNodes : List EsFSFile) (type : Nat) (low : List Nat) (high : Nat)
    (h : FileEntryAt (bufferMemory c.directoryBuffer) rv type low high)
    (htype : type = ESFS_FILE_TYPE_FILE ∨ type = ESFS_FILE_TYPE_DIRECTORY)
    (hfel : 132 ≤ fel) (hdir : type = ESFS_FILE_TYPE_DIRECTORY → 156 ≤ fel)
    (hB : rv + fel ≤ B)
    (hopen : FindOpenNode openNodes (low ++ encodeU64 high) = none) :
    SearchDirectory.node B c rv fel openNodes
      = .ok (some ⟨if type = ESFS_FILE_TYPE_FILE then .file else .directory, 0,
            low ++ encodeU64 high, c.lastAccessedActualBlock, rv, c.blockPosition, fel,
            readBytes (bufferMemory c.directoryBuffer) rv fel⟩,
          openNodes ++ [⟨if type = ESFS_FILE_TYPE_FILE then .file else .directory, 0,
            low ++ encodeU64 high, c.lastAccessedActualBlock, rv, c.blockPosition, fel,
            readBytes (bufferMemory c.directoryBuffer) rv fel⟩]) := by
  obtain ⟨f1, f2, f3⟩ := h.find_attributes B (by omega) B (by omega)
  have hid : readBytes (bufferMemory c.directoryBuffer) (rv + 8) 16 = low ++ encodeU64 high := by
    rw [show 16 = 8 + 8 by rfl, readBytes_add, h.identifierLow,
      show rv + 8 + 8 = rv + 16 by omega, h.identifierHigh]
  unfold SearchDirectory.node
  simp only
  rw [f1]
  rcases htype with ht | ht
  · rw [f2 ht]
    simp only
    rw [h.fileType, hid, hopen, ht]
    have e : rv + 48 + 8 = rv + 56 := by omega
    simp only [e, h.size]
    rw [if_neg (by decide), if_neg (by decide), if_neg (by omega)]
    simp only [if_true]
    rw [if_neg (by omega)]
  · rw [f3 ht]
    have := hdir ht
    have hd := (h.directoryType ht).2.2.1
    simp only
    rw [h.fileType, hid, hopen, ht]
    have e : rv + 128 + 8 = rv + 136 := by omega
    simp only [e, hd]
    rw [if_neg (by simp), if_neg (by decide), if_neg (by omega)]
    rw [if_neg (by decide)]
    rw [if_neg (by omega), if_neg (by decide)]

/-! ### The last block of a directory -/

theorem AccessGeometry.blockSize_pos {v : EsFSVolume} (h : AccessGeometry v) :
    0 < v.superblock.blockSize := by
  obtain ⟨e, _, he⟩ := h.blockSizePow
  rw [he]; exact Nat.pos_pow_of_pos _ (by decide)

/-- The entries behind the first ones of a block are packed. -/
theorem Packed.drop {m : Memory} {B : Nat} (rest : List (Nat × List Nat)) :
    ∀ (pre : List (Nat × List Nat)) (p : Nat), Packed m B p (pre ++ rest) →
      Packed m B (p + entriesSize pre) rest := by
  intro pre
  induction pre with
  | nil =>
    intro p h
    simpa [entriesSize] using h
  | cons e pre ih =>
    intro p h
    simp only [List.cons_append, Packed] at h
    rw [entriesSize_cons, ← Nat.add_assoc]
    exact ih _ h.2

/-- An entry among the packed entries of a block lies behind the ones before
it and inside the block. -/
theorem Packed.split {m : Memory} {B : Nat} (pre : List (Nat × List Nat)) (e : Nat × List Nat)
    (post : List (Nat × List Nat)) (p : Nat) (h : Packed m B p (pre ++ e :: post)) :
    EntryAt m (p + entriesSize pre) e.1 e.2 ∧ p + entriesSize pre + e.1 ≤ B := by
  have h1 := Packed.drop (e :: post) pre p h
  simp only [Packed] at h1
  have := (Packed.tail post _ h1.2).1
  exact ⟨h1.1, by omega⟩

/-- On a directory that is laid out, `SearchDirectory` finds an entry that
`CreateNode` made if no entry before it has its name and no open node has its
identifier: it returns a new node for the entry. -/
theorem SearchDirectory_finds (v : EsFSVolume) (data : EsFSAttributeFileData)
    (blocks : List (List (Nat × List Nat))) (hl : DirectoryLaidOut v data blocks)
    (cb items : Nat) (name : List Nat) (type : Nat) (random : Nat → Nat)
    (openNodes : List EsFSFile)
    (before : List (List (Nat × List Nat))) (pre post : List (Nat × List Nat))
    (after : List (List (Nat × List Nat)))
    (hblocks : blocks = before ++ (pre ++ (newEntrySize name.length type, name) :: post) :: after)
    (hother : ∀ b, b ∈ before → ∀ e, e ∈ b → e.2 ≠ name)
    (hpre : ∀ e, e ∈ pre → e.2 ≠ name)
    (hitems : entryCount before + pre.length < items)
    (htype : type = ESFS_FILE_TYPE_FILE ∨ type = ESFS_FILE_TYPE_DIRECTORY)
    (hfile : FileEntryAt (directoryBlock v data before.length)
      (entriesSize pre + 18 + name.length) type ((List.range 8).map (fun i => random i % 256))
      (streamBlock v data before.length))
    (hopen : FindOpenNode openNodes
      ((List.range 8).map (fun i => random i % 256) ++ encodeU64 (streamBlock v data before.length))
        = none) :
    SearchDirectory v name ⟨cb, some data, some items⟩ openNodes
      = .ok (some (newNode name type random (streamBlock v data before.length) (entriesSize pre)
            (directoryBlock v data before.length)),
          openNodes ++ [newNode name type random (streamBlock v data before.length)
            (entriesSize pre) (directoryBlock v data before.length)]) := by
  have hB := hl.geometry.blockSize_pos
  have hlen : blocks.length = before.length + 1 + after.length := by
    rw [hblocks]; simp; omega
  have hget : ∀ i, i < before.length → blocks.getD i [] = before.getD i [] := by
    intro i hi
    rw [hblocks, List.getD_append _ _ _ _ hi]
  have htarget : blocks.getD before.length []
      = pre ++ (newEntrySize name.length type, name) :: post := by
    rw [hblocks, List.getD_append_right _ _ _ _ (Nat.le_refl _)]
    simp
  have hsize : data.size ≠ 0 := by
    rw [hl.size, hlen]
    exact Nat.ne_of_gt (Nat.mul_pos (by omega) hB)
  have h64 : (0 + before.length + 1) * v.superblock.blockSize < 18446744073709551616 := by
    have : (0 + before.length + 1) * v.superblock.blockSize
        ≤ blocks.length * v.superblock.blockSize := Nat.mul_le_mul_right _ (by omega)
    have := hl.fits
    omega
  have hpk := hl.packed before.length (by omega)
  rw [htarget] at hpk
  have hloop := SearchDirectory.loop_blocks v hl.geometry data hl.mode name pre
    (newEntrySize name.length type) post before 0 items h64
    (fun i hi => by rw [Nat.zero_add]; exact hl.found i (by omega))
    (fun i hi => by
      rw [Nat.zero_add, ← hget i hi]; exact hl.packed i (by omega))
    (by rw [Nat.zero_add]; exact hpk)
    (fun i _ hi => by
      rw [← hget i hi]; exact hl.filled i (by omega))
    hother hpre hitems
  rw [Nat.zero_add] at hloop
  have hread := readDirectoryBlock_block v hl.geometry data hl.mode 0 (by omega)
    (hl.found 0 (by omega)) 0
  rw [Nat.zero_mul] at hread
  -- the target entry in the buffer
  obtain ⟨hent, hin⟩ := Packed.split pre _ post 0 hpk
  simp only [Nat.zero_add] at hent hin
  have hge := hent.length_ge
  have hlen' := hent.length
  have hns : 154 + name.length ≤ newEntrySize name.length type := by
    unfold newEntrySize; split <;> omega
  have hnd : type = ESFS_FILE_TYPE_DIRECTORY → 178 + name.length ≤ newEntrySize name.length type := by
    intro ht; unfold newEntrySize; rw [if_pos ht]
  have hbuf : ∀ a, a < v.superblock.blockSize →
      bufferMemory (cursorAt v data before.length (entriesSize pre)).directoryBuffer a
        = directoryBlock v data before.length a :=
    fun a ha => bufferMemory_block v hl.geometry.sectors data before.length a ha
  have hfsz : readU16 (bufferMemory (cursorAt v data before.length 0).directoryBuffer)
      (entriesSize pre + 16 + name.length)
        = readU16 (directoryBlock v data before.length) (entriesSize pre + 16 + name.length) :=
    readU16_congr _ _ _ (hbuf _ (by omega)) (hbuf _ (by omega))
  have hfel : sub64 (readU16 (directoryBlock v data before.length)
      (entriesSize pre + 16 + name.length)) sizeofAttributeDirectoryFile
        = newEntrySize name.length type - 22 - name.length := by
    have := readU16_lt (directoryBlock v data before.length) (entriesSize pre + 16 + name.length)
    unfold sizeofAttributeDirectoryFile
    rw [sub64_eq_sub (by omega) (by omega)]
    omega
  rw [hfsz, hfel] at hloop
  have hfile' : FileEntryAt
      (bufferMemory (cursorAt v data before.length (entriesSize pre)).directoryBuffer)
      (entriesSize pre + 18 + name.length) type ((List.range 8).map (fun i => random i % 256))
      (streamBlock v data before.length) :=
    hfile.shift_file _ _ (newEntrySize name.length type - 22 - name.length)
      (fun ht => by have := hnd ht; omega) (by omega)
      (fun a ha => hbuf _ (by omega))
  have hnode := SearchDirectory.node_new v.superblock.blockSize
    (cursorAt v data before.length (entriesSize pre)) (entriesSize pre + 18 + name.length)
    (newEntrySize name.length type - 22 - name.length) openNodes type _ _ hfile' htype
    (by omega) (fun ht => by have := hnd ht; omega) (by omega) hopen
  have hbytes : readBytes
      (bufferMemory (cursorAt v data before.length (entriesSize pre)).directoryBuffer)
      (entriesSize pre + 18 + name.length) (newEntrySize name.length type - 22 - name.length)
        = readBytes (directoryBlock v data before.length)
            (entriesSize pre + 18 + name.length)
            (newEntrySize name.length type - 22 - name.length) := by
    unfold readBytes
    apply List.map_congr_left
    intro i hi
    rw [List.mem_range] at hi
    exact hbuf _ (by omega)
  rw [hbytes] at hnode
  unfold SearchDirectory
  simp only
  rw [if_neg (by
    intro hc
    rcases hc with hc | hc
    · exact hsize hc
    · omega), hread]
  simp only
  rw [hloop]
  simp only
  rw [hnode]
  rfl

/-- Two blocks that share a byte are the same block. -/
theorem block_eq_of_byte (B b c a : Nat) (h1 : b * B ≤ a) (h2 : a < b * B + B)
    (h3 : c * B ≤ a) (h4 : a < c * B + B) : b = c := by
  rw [← div_eq_of_group B b a h1 h2, ← div_eq_of_group B c a h3 h4]

/-- The write of the last block by `CreateNode`: the stream keeps its blocks,
the blocks before the last one keep their bytes, and the last block holds the
bytes written. -/
theorem Landing.write_last {v : EsFSVolume} {data : EsFSAttributeFileData}
    {before : List (List (Nat × List Nat))} (h : Landing v data before) (M : Memory)
    (es : List (Nat × List Nat)) (hM : Packed M v.superblock.blockSize 0 es) :
    DirectoryLaidOut
        (AccessBlockWrite v (streamBlock v data before.length) v.superblock.blockSize
          (readBytes M 0 v.superblock.blockSize) 0) data (before ++ [es])
      ∧ streamBlock (AccessBlockWrite v (streamBlock v data before.length) v.superblock.blockSize
          (readBytes M 0 v.superblock.blockSize) 0) data before.length
          = streamBlock v data before.length
      ∧ ∀ a, a < v.superblock.blockSize →
          directoryBlock (AccessBlockWrite v (streamBlock v data before.length)
            v.superblock.blockSize (readBytes M 0 v.superblock.blockSize) 0) data before.length a
            = M a := by
  have hsec := h.geometry.sectors
  have hdisk := AccessBlockWrite_disk v hsec (streamBlock v data before.length) M 0
  generalize hv' : AccessBlockWrite v (streamBlock v data before.length) v.superblock.blockSize
      (readBytes M 0 v.superblock.blockSize) 0 = v' at hdisk
  have hsb : v'.superblock = v.superblock := by rw [← hv']; rfl
  have hspb : v'.sectorsPerBlock = v.sectorsPerBlock := by rw [← hv']; rfl
  have hss : v'.sectorSize = v.sectorSize := by rw [← hv']; rfl
  have hmax : v'.maxAccessSectorCount = v.maxAccessSectorCount := by rw [← hv']; rfl
  have hgeo : AccessGeometry v' :=
    ⟨by rw [hsb]; exact h.geometry.blockSizePow, by rw [hsb, hspb, hss]; exact hsec,
      by rw [hsb, hmax, hss]; exact h.geometry.transfer⟩
  have hext : extentList v' data = extentList v data := by
    apply extentList_frame2 v v' data hsec (by rw [hsb]) hspb hss
    intro hm s hs hne a ha1 ha2
    rw [hdisk a, if_neg]
    rintro ⟨hc1, hc2⟩
    exact h.listBlocks hm s hs hne (block_eq_of_byte _ _ _ a ha1 ha2 hc1 hc2)
  have hblock : ∀ j, streamBlock v' data j = streamBlock v data j := by
    intro j
    unfold streamBlock
    rw [hext]
  have hother : ∀ j, j < before.length → ∀ a, a < v.superblock.blockSize →
      directoryBlock v' data j a = directoryBlock v data j a := by
    intro j hj a ha
    unfold directoryBlock
    rw [hblock j, hsb, hdisk, if_neg]
    rintro ⟨hc1, hc2⟩
    exact h.distinct j hj (block_eq_of_byte v.superblock.blockSize _ _ _ (Nat.le_add_right _ _)
      (by omega) hc1 hc2)
  have hlast : ∀ a, a < v.superblock.blockSize →
      directoryBlock v' data before.length a = M a := by
    intro a ha
    unfold directoryBlock
    rw [hblock, hsb, hdisk, if_pos ⟨Nat.le_add_right _ _, by omega⟩, Nat.add_sub_cancel_left,
      Nat.zero_add]
  refine ⟨⟨hgeo, h.mode, ?_, ?_, ?_, ?_, ?_⟩, hblock _, hlast⟩
  · rw [hsb, h.size]; simp
  · rw [hsb]; simpa using h.fits
  · intro k hk
    rw [hblock]
    exact h.found k (by simp at hk; omega)
  · intro k hk
    rw [hsb]
    by_cases hkb : k < before.length
    · rw [List.getD_append _ _ _ _ hkb]
      exact Packed.of_bytes _ 0 (h.packed k hkb) (fun a _ ha => hother k hkb a ha)
    · have hk' : k = before.length := by simp at hk; omega
      subst hk'
      rw [List.getD_append_right _ _ _ _ (Nat.le_refl _)]
      simp only [Nat.sub_self, List.getD_cons_zero]
      exact Packed.of_bytes _ 0 hM (fun a _ ha => hlast a ha)
  · intro k hk
    have hkb : k < before.length := by simp at hk; omega
    rw [List.getD_append _ _ _ _ hkb]
    exact h.filled k hkb

theorem BlocksNeededToStore_mul (sb : EsFSSuperblock) (hB : 0 < sb.blockSize) (k : Nat) :
    BlocksNeededToStore sb (k * sb.blockSize) = k := by
  unfold BlocksNeededToStore
  rw [Nat.mul_mod_left, if_neg (by simp), Nat.mul_div_cancel _ hB]

/-- A block of a stream that is laid out is none of the blocks that hold the
extent list. -/
theorem StreamLaidOut.block_ne_list {v : EsFSVolume} {data : EsFSAttributeFileData}
    (h : StreamLaidOut v data) (hfit : extentsFit (extentList v data) data.extentCount)
    (b : Nat) (hb : b < BlocksNeededToStore v.superblock data.size)
    (hm : data.indirection = ESFS_DATA_INDIRECT_2) (s : Nat) (hs : s < ESFS_INDIRECT_2_BLOCKS)
    (hne : data.indirect2 s ≠ 0) : data.indirect2 s ≠ streamBlock v data b := by
  obtain ⟨j, hj, h1, h2⟩ := findBlock_mem (extentList v data) data.extentCount hfit b
    (Nat.lt_of_lt_of_le hb h.covers)
  have := h.listBlocks hm s hs hne j hj
  unfold streamBlock
  omega

/-- A stream that is laid out, whose size is a whole number of blocks and
whose blocks before the last one hold packed entries, is ready for
`CreateNode` to store an entry in its last block. -/
theorem StreamLaidOut.to_landing {v : EsFSVolume} {data : EsFSAttributeFileData}
    (h : StreamLaidOut v data) (hfit : extentsFit (extentList v data) data.extentCount)
    (hgeo : AccessGeometry v)
    (before : List (List (Nat × List Nat)))
    (hsize : data.size = (before.length + 1) * v.superblock.blockSize)
    (hfits : (before.length + 1) * v.superblock.blockSize < 18446744073709551616)
    (hpacked : ∀ j, j < before.length →
      Packed (directoryBlock v data j) v.superblock.blockSize 0 (before.getD j []))
    (hfilled : ∀ j, j < before.length → before.getD j [] ≠ []) :
    Landing v data before := by
  have hB := hgeo.blockSize_pos
  have hn : BlocksNeededToStore v.superblock data.size = before.length + 1 := by
    rw [hsize]; exact BlocksNeededToStore_mul _ hB _
  exact ⟨hgeo, h.mode, hsize, hfits,
    fun j hj => h.block_ne_zero hfit j (by omega),
    fun j hj => h.block_injective hfit j _ (by omega) (by omega) (by omega),
    fun hm s hs hne => h.block_ne_list hfit _ (by omega) hm s hs hne, hpacked, hfilled⟩

/-- The bytes that `CreateNode` writes when the entry does not fit into the
last block hold the new entry alone. -/
theorem CreateNode.patched_packed (name : List Nat) (type : Nat) (random : Nat → Nat)
    (high : Nat) (hn : name.length < 256)
    (htype : type = ESFS_FILE_TYPE_FILE ∨ type = ESFS_FILE_TYPE_DIRECTORY)
    (B : Nat) (hB : newEntrySize name.length type ≤ B) :
    Packed (CreateNode.patched name type random high) B 0
        [(newEntrySize name.length type, name)]
      ∧ FileEntryAt (CreateNode.patched name type random high) (0 + 18 + name.length) type
          ((List.range 8).map (fun i => random i % 256)) high := by
  obtain ⟨h1, h2, _⟩ := CreateNode.patched_at name type random high hn htype
    (CreateNode.patched name type random high) 0 (fun a _ => by rw [Nat.zero_add])
  refine ⟨?_, h2⟩
  simp only [Packed]
  exact ⟨h1, by omega, fun a ha _ =>
    CreateNode.patched_zero name type random high hn htype a (by omega)⟩

/-- The bytes that `CreateNode` writes when the entry fits into the last
block hold the entries of the block and then the new entry. -/
theorem CreateNode.patched_append (name : List Nat) (type : Nat) (random : Nat → Nat)
    (high : Nat) (hn : name.length < 256)
    (htype : type = ESFS_FILE_TYPE_FILE ∨ type = ESFS_FILE_TYPE_DIRECTORY)
    (B : Nat) (blockBuffer : Memory) (es : List (Nat × List Nat))
    (hes : Packed blockBuffer B 0 es)
    (hB : entriesSize es + newEntrySize name.length type ≤ B) :
    Packed (writeBytes blockBuffer (entriesSize es)
          (readBytes (CreateNode.patched name type random high) 0
            (newEntrySize name.length type))) B 0
        (es ++ [(newEntrySize name.length type, name)])
      ∧ FileEntryAt (writeBytes blockBuffer (entriesSize es)
          (readBytes (CreateNode.patched name type random high) 0
            (newEntrySize name.length type))) (entriesSize es + 18 + name.length) type
          ((List.range 8).map (fun i => random i % 256)) high := by
  have hm : ∀ a, a < newEntrySize name.length type →
      writeBytes blockBuffer (entriesSize es)
          (readBytes (CreateNode.patched name type random high) 0
            (newEntrySize name.length type)) (entriesSize es + a)
        = CreateNode.patched name type random high a := by
    intro a ha
    rw [writeBytes_in _ _ _ _ (by omega) (by rw [readBytes_length]; omega),
      Nat.add_sub_cancel_left, getD_readBytes _ _ _ _ ha, Nat.zero_add]
  obtain ⟨h1, h2, _⟩ := CreateNode.patched_at name type random high hn htype _ _ hm
  refine ⟨?_, h2⟩
  have ht := Packed.tail es 0 hes
  simp only [Nat.zero_add] at ht
  apply Packed.append _ _ es 0 hes
  · intro a _ ha
    rw [Nat.zero_add] at ha
    exact writeBytes_lt _ _ _ _ ha
  · rw [Nat.zero_add]; exact h1
  · rw [Nat.zero_add]; exact hB
  · intro a ha1 ha2
    rw [Nat.zero_add] at ha1
    rw [writeBytes_ge _ _ _ _ (by rw [readBytes_length]; exact ha1)]
    exact ht.2.2 a (by omega) ha2

theorem Landing.last_offset {v : EsFSVolume} {data : EsFSAttributeFileData}
    {before : List (List (Nat × List Nat))} (h : Landing v data before) :
    sub64 data.size v.superblock.blockSize = before.length * v.superblock.blockSize := by
  have := h.fits
  rw [h.size, sub64_eq_sub (by rw [Nat.add_mul]; omega) h.fits, Nat.add_mul, Nat.one_mul,
    Nat.add_sub_cancel]

/-- Step 4 of `CreateNode` when the entry fits into the last block. -/
theorem CreateNode.store_fits (v : EsFSVolume) (directory : DirectoryNode) (items : Nat)
    (data : EsFSAttributeFileData) (entryBuffer : Memory) (entryBufferPosition identifier : Nat)
    (blockBuffer : Memory) (position : Nat) (uninit : Nat → Nat)
    (before : List (List (Nat × List Nat))) (hland : Landing v data before)
    (hfit : entryBufferPosition ≤ v.superblock.blockSize - position) :
    CreateNode.store v directory items data entryBuffer entryBufferPosition identifier
        blockBuffer position uninit
      = .ok (true,
          { directory with
            data := some data
            itemsInDirectory := some ((items + 1) % 18446744073709551616) },
          AccessBlockWrite v (streamBlock v data before.length) v.superblock.blockSize
            (readBytes (writeBytes blockBuffer position
              (readBytes (writeBytes entryBuffer (identifier + 8)
                (encodeU64 (streamBlock v data before.length))) 0 entryBufferPosition))
              0 v.superblock.blockSize) 0) := by
  have hB := hland.geometry.blockSize_pos
  have hsize : data.size ≠ 0 := by
    rw [hland.size]; exact Nat.ne_of_gt (Nat.mul_pos (by omega) hB)
  have hk : before.length * v.superblock.blockSize < 18446744073709551616 := by
    have := hland.fits
    rw [Nat.add_mul] at this
    omega
  unfold CreateNode.store
  simp only
  rw [if_pos hsize, if_neg (by omega)]
  simp only
  rw [hland.last_offset, GetBlockFromStream_block v hland.geometry data hland.mode _ hk]
  simp only
  rw [if_pos (by show entryBufferPosition ≤ _; exact hfit),
    AccessStream_block_write v hland.geometry data hland.mode _ hk
      (hland.found _ (Nat.le_refl _))]

/-- Step 4 of `CreateNode` when the entry does not fit into the last block and
the stream, after the call of `ResizeDataStream`, has its last block. -/
theorem CreateNode.store_resized (v : EsFSVolume) (directory : DirectoryNode) (items : Nat)
    (data : EsFSAttributeFileData) (entryBuffer : Memory) (entryBufferPosition identifier : Nat)
    (blockBuffer : Memory) (position : Nat) (uninit : Nat → Nat)
    (hfit : (if data.size ≠ 0 then v.superblock.blockSize - position else 0)
      < entryBufferPosition)
    (b : Bool) (data1 : EsFSAttributeFileData) (v1 : EsFSVolume)
    (hres : ResizeDataStream v data (data.size + v.superblock.blockSize) true
      directory.containerBlock uninit = .ok (b, data1, v1))
    (hB1 : v1.superblock.blockSize = v.superblock.blockSize)
    (before : List (List (Nat × List Nat))) (hland : Landing v1 data1 before) :
    CreateNode.store v directory items data entryBuffer entryBufferPosition identifier
        blockBuffer position uninit
      = .ok (true,
          { directory with
            data := some data1
            itemsInDirectory := some ((items + 1) % 18446744073709551616) },
          AccessBlockWrite v1 (streamBlock v1 data1 before.length) v1.superblock.blockSize
            (readBytes (writeBytes entryBuffer (identifier + 8)
                (encodeU64 (streamBlock v1 data1 before.length)))
              0 v1.superblock.blockSize) 0) := by
  have hk : before.length * v1.superblock.blockSize < 18446744073709551616 := by
    have := hland.fits
    rw [Nat.add_mul] at this
    omega
  have hoff := hland.last_offset
  unfold CreateNode.store
  simp only
  rw [if_pos hfit, hres]
  simp only
  rw [← hB1, hoff, GetBlockFromStream_block v1 hland.geometry data1 hland.mode _ hk]
  simp only
  rw [if_neg (by
      show ¬ entryBufferPosition ≤ _
      rw [hB1]; omega),
    AccessStream_block_write v1 hland.geometry data1 hland.mode _ hk
      (hland.found _ (Nat.le_refl _))]

/-- Step 3 of `CreateNode` on a stream whose last block holds packed entries:
the block is read and the position found is the end of the entries. -/
theorem CreateNode.lastBlock_packed (v : EsFSVolume) (data : EsFSAttributeFileData)
    (before : List (List (Nat × List Nat))) (hland : Landing v data before)
    (es : List (Nat × List Nat))
    (hes : Packed (directoryBlock v data before.length) v.superblock.blockSize 0 es) :
    CreateNode.lastBlock v data
      = .ok (bufferMemory (AccessBlockRead v (streamBlock v data before.length)
          v.superblock.blockSize 0), entriesSize es) := by
  have hB := hland.geometry.blockSize_pos
  have hsize : data.size ≠ 0 := by
    rw [hland.size]; exact Nat.ne_of_gt (Nat.mul_pos (by omega) hB)
  have hk : before.length * v.superblock.blockSize < 18446744073709551616 := by
    have := hland.fits
    rw [Nat.add_mul] at this
    omega
  have hbuf := Packed.buffer v hland.geometry.sectors data before.length es 0 hes
  have ht := Packed.tail es 0 hbuf
  unfold CreateNode.lastBlock
  simp only
  rw [if_pos hsize, hland.last_offset,
    (AccessStream_block_read v hland.geometry data hland.mode _ hk
      (hland.found _ (Nat.le_refl _)) [] 0).1]
  simp only
  rw [CreateNode.findSpace_packed _ _ es 0 _ hbuf (by omega), Nat.zero_add]

/-- Step 3 of `CreateNode` on a stream of size 0. -/
theorem CreateNode.lastBlock_empty (v : EsFSVolume) (data : EsFSAttributeFileData)
    (hsize : data.size = 0) : CreateNode.lastBlock v data = .ok (fun _ => 0, 0) := by
  unfold CreateNode.lastBlock
  simp only
  rw [if_neg (by simp [hsize])]

/-! ### The resize in CreateNode -/

/-- A successful `GrowDataStream` of a stream that satisfies the stream
invariants gives a stream that satisfies them. -/
theorem GrowDataStream_wf_stream (v : EsFSVolume) (hvol : VolumeWF v)
    (data : EsFSAttributeFileData) (newSize cb : Nat) (clear : Bool) (uninit : Nat → Nat)
    (hs : StreamWF v data) (hgrow : data.size < newSize)
    (hnew64 : newSize < 18446744073709551616)
    (hlg : cb / v.superblock.blocksPerGroup < v.superblock.groupCount)
    (data' : EsFSAttributeFileData) (v' : EsFSVolume)
    (h : GrowDataStream v data newSize clear cb uninit = .ok (true, data', v')) :
    VolumeWF v' ∧ v'.superblock.blockSize = v.superblock.blockSize
      ∧ StreamWF v' data' ∧ data'.size = newSize := by
  obtain ⟨k, hk, hBk⟩ := hvol.geometry.blockSizePow
  have hB : 0 < v.superblock.blockSize := by rw [hBk]; exact Nat.two_pow_pos k
  have hnb : BlocksNeededToStore v.superblock newSize < 18446744073709551616 :=
    Nat.lt_of_le_of_lt (BlocksNeededToStore_le _ hB _) hnew64
  have hnd : data.indirection ≠ ESFS_DATA_DIRECT := by
    rcases hs.laidOut.mode with hm | hm
    · exact fun hd => absurd (hm.symm.trans hd) (by decide)
    · exact fun hd => absurd (hm.symm.trans hd) (by decide)
  rw [GrowDataStream_indirect_eq v data newSize cb clear uninit hnd] at h
  have hmono := BlocksNeededToStore_mono v.superblock hB data.size newSize (by omega)
  rw [sub64_eq_sub hmono hnb] at h
  have hcov := hs.laidOut.covers
  obtain ⟨a, b, c, d, e⟩ := GrowDataStream.extend_wf v hvol _ _ _ newSize
    (GrowInv2.of_streamWF v hvol.allocator data hs _) (by omega) (by omega) hnew64 false
    data.size _ (fun hf => absurd hf (by decide)) clear cb hlg uninit data' v' h
  refine ⟨hvol.of_geometry a b c, ?_, d, e⟩
  obtain ⟨n, hn⟩ := b
  rw [hn]

/-- A successful `GrowDataStream` to more than the direct bytes gives a stream
that satisfies the stream invariants. -/
theorem GrowDataStream_wf_big (v : EsFSVolume) (hvol : VolumeWF v) (data : EsFSAttributeFileData)
    (newSize cb : Nat) (clear : Bool) (uninit : Nat → Nat)
    (hdata : (data.indirection = ESFS_DATA_DIRECT ∧ data.extentCount = 0) ∨ StreamWF v data)
    (hgrow : data.size < newSize) (hbig : ESFS_DIRECT_BYTES < newSize)
    (hnew64 : newSize < 18446744073709551616)
    (hlg : cb / v.superblock.blocksPerGroup < v.superblock.groupCount)
    (data' : EsFSAttributeFileData) (v' : EsFSVolume)
    (h : GrowDataStream v data newSize clear cb uninit = .ok (true, data', v')) :
    VolumeWF v' ∧ v'.superblock.blockSize = v.superblock.blockSize
      ∧ StreamWF v' data' ∧ data'.size = newSize := by
  obtain ⟨k, hk, hBk⟩ := hvol.geometry.blockSizePow
  have hB : 0 < v.superblock.blockSize := by rw [hBk]; exact Nat.two_pow_pos k
  have hnb : BlocksNeededToStore v.superblock newSize < 18446744073709551616 :=
    Nat.lt_of_le_of_lt (BlocksNeededToStore_le _ hB _) hnew64
  have key : AllocatorWF v' ∧ (∃ n, v'.superblock = { v.superblock with blocksUsed := n })
      ∧ (v'.sectorsPerBlock = v.sectorsPerBlock ∧ v'.sectorSize = v.sectorSize
        ∧ v'.maxAccessSectorCount = v.maxAccessSectorCount)
      ∧ StreamWF v' data' ∧ data'.size = newSize := by
    rcases hdata with ⟨hd, hec⟩ | hs
    · by_cases hold : ESFS_DIRECT_BYTES < data.size
      · rw [GrowDataStream_direct_big v data newSize cb clear uninit hd hbig hold] at h
        cases h
      · rw [GrowDataStream_direct_eq v data newSize cb clear uninit hd (by omega) hbig
          hnew64 hB] at h
        exact GrowDataStream.extend_wf v hvol _ _ _ newSize
          (GrowInv2.of_direct v hvol.allocator data hec _) hnb (Nat.le_refl _) hnew64 true
          data.size _ (fun _ _ => ⟨readBytes_length _ _ _, by omega⟩) clear cb hlg uninit data' v' h
    · have hnd : data.indirection ≠ ESFS_DATA_DIRECT := by
        rcases hs.laidOut.mode with hm | hm
        · exact fun hd => absurd (hm.symm.trans hd) (by decide)
        · exact fun hd => absurd (hm.symm.trans hd) (by decide)
      rw [GrowDataStream_indirect_eq v data newSize cb clear uninit hnd] at h
      have hmono := BlocksNeededToStore_mono v.superblock hB data.size newSize (by omega)
      rw [sub64_eq_sub hmono hnb] at h
      have hcov := hs.laidOut.covers
      exact GrowDataStream.extend_wf v hvol _ _ _ newSize
        (GrowInv2.of_streamWF v hvol.allocator data hs _) (by omega) (by omega) hnew64 false
        data.size _ (fun hf => absurd hf (by decide)) clear cb hlg uninit data' v' h
  obtain ⟨a, b, c, d, e⟩ := key
  refine ⟨hvol.of_geometry a b c, ?_, d, e⟩
  obtain ⟨n, hn⟩ := b
  rw [hn]

/-- After a successful `GrowDataStream` of a stream that satisfies the stream
invariants, the blocks the stream had are found where they were and hold the
bytes they held. -/
theorem GrowDataStream_keeps_blocks (v : EsFSVolume) (hvol : VolumeWF v)
    (data : EsFSAttributeFileData) (newSize cb : Nat) (clear : Bool) (uninit : Nat → Nat)
    (hs : StreamWF v data) (hgrow : data.size < newSize)
    (hnew64 : newSize < 18446744073709551616)
    (hlg : cb / v.superblock.blocksPerGroup < v.superblock.groupCount)
    (data' : EsFSAttributeFileData) (v' : EsFSVolume)
    (h : GrowDataStream v data newSize clear cb uninit = .ok (true, data', v'))
    (j : Nat) (hj : j < BlocksNeededToStore v.superblock data.size) :
    streamBlock v' data' j = streamBlock v data j
      ∧ ∀ a, a < v.superblock.blockSize → directoryBlock v' data' j a = directoryBlock v data j a := by
  obtain ⟨hc, hext, hdisk⟩ := GrowDataStream_frame v hvol data newSize cb clear uninit hs hgrow
    hnew64 hlg data' v' h
  have hcov := hs.laidOut.covers
  have hfit := hs.fit hvol.allocator.blockCount
  have hblock : streamBlock v' data' j = streamBlock v data j := by
    unfold streamBlock
    exact findBlock_prefix (extentList v data) (extentList v' data') j data.extentCount
      data'.extentCount 0 0 hc (fun i _ hi => hext i (by omega)) (Nat.zero_le _) (by omega)
      (by have := hfit.1; omega)
  refine ⟨hblock, ?_⟩
  intro a ha
  obtain ⟨i, hi, h1, h2⟩ := findBlock_mem (extentList v data) data.extentCount hfit j (by omega)
  have hused := hs.used i hi (streamBlock v data j) h1 h2
  have hB' : v'.superblock.blockSize = v.superblock.blockSize :=
    (GrowDataStream_wf_stream v hvol data newSize cb clear uninit hs hgrow hnew64 hlg data' v' h).2.1
  unfold directoryBlock
  rw [hblock, hB']
  exact hdisk _ hused (fun hm s hs' hc' => by
    have := hs.laidOut.block_ne_list hfit j hj hm s hs'
    by_cases h0 : data.indirect2 s = 0
    · rw [h0] at hc'
      exact hs.laidOut.block_ne_zero hfit j hj hc'.symm
    · exact this h0 hc') _ (Nat.le_add_right _ _) (by omega)

/-- After `ResizeDataStream` has made the stream of a directory one block
longer, the blocks of the directory lie before a new last block. -/
theorem ResizeDataStream_landing (v : EsFSVolume) (hvol : VolumeWF v)
    (directory : DirectoryNode) (data : EsFSAttributeFileData)
    (blocks : List (List (Nat × List Nat))) (hd : DirectoryWF v directory data blocks)
    (hfull : ∀ j, j < blocks.length → blocks.getD j [] ≠ [])
    (hB : ESFS_DIRECT_BYTES < v.superblock.blockSize) (uninit : Nat → Nat)
    (data1 : EsFSAttributeFileData) (v1 : EsFSVolume)
    (h : ResizeDataStream v data (data.size + v.superblock.blockSize) true
      directory.containerBlock uninit = .ok (true, data1, v1)) :
    Landing v1 data1 blocks ∧ v1.superblock.blockSize = v.superblock.blockSize
      ∧ VolumeWF v1 ∧ StreamWF v1 data1 := by
  have hB0 := hvol.geometry.blockSize_pos
  have hgrow : data.size < data.size + v.superblock.blockSize := by omega
  unfold ResizeDataStream at h
  rw [if_pos hgrow] at h
  have hdata : (data.indirection = ESFS_DATA_DIRECT ∧ data.extentCount = 0) ∨ StreamWF v data := by
    rcases hd.stream with ⟨h1, h2, _⟩ | ⟨h1, _⟩
    · exact Or.inl ⟨h1, h2⟩
    · exact Or.inr h1
  obtain ⟨hvol1, hB1, hs1, hsize1⟩ := GrowDataStream_wf_big v hvol data _ _ true uninit hdata hgrow
    (by omega) hd.sizeFits hd.group data1 v1 h
  have hsz : data1.size = (blocks.length + 1) * v1.superblock.blockSize := by
    rw [hsize1, hd.size, hB1, Nat.add_mul, Nat.one_mul]
  refine ⟨hs1.laidOut.to_landing (hs1.fit hvol1.allocator.blockCount) hvol1.geometry blocks hsz
    ?_ ?_ hfull, hB1, hvol1, hs1⟩
  · rw [← hsz, hsize1]; exact hd.sizeFits
  · intro j hj
    rcases hd.stream with ⟨_, _, hnil⟩ | ⟨hs, _⟩
    · rw [hnil] at hj; exact absurd hj (Nat.not_lt_zero _)
    · have hn : BlocksNeededToStore v.superblock data.size = blocks.length := by
        rw [hd.size]; exact BlocksNeededToStore_mul _ hB0 _
      obtain ⟨_, hbytes⟩ := GrowDataStream_keeps_blocks v hvol data _ _ true uninit hs hgrow
        hd.sizeFits hd.group data1 v1 h j (by omega)
      rw [hB1]
      exact Packed.of_bytes _ 0 (hd.packed j hj) (fun a _ ha => hbytes a ha)

/-- `CreateNode` on a well-formed directory, for a name of fewer than 256
bytes: steps 3 and 4 on the entry made in steps 1 and 2. -/
theorem CreateNode_eq (v : EsFSVolume) (directory : DirectoryNode)
    (data : EsFSAttributeFileData) (blocks : List (List (Nat × List Nat)))
    (hd : DirectoryWF v directory data blocks) (name : List Nat) (type : Nat)
    (random : Nat → Nat) (uninit : Nat → Nat) (hn : name.length < 256) :
    CreateNode v directory name type random uninit
      = if newEntrySize name.length type > v.superblock.blockSize then .error .entryTooLarge
        else
          match CreateNode.lastBlock v data with
          | .error f => .error f
          | .ok (blockBuffer, position) =>
            CreateNode.store v directory (entryCount blocks) data
              (CreateNode.entry name type random).1 (newEntrySize name.length type)
              (26 + name.length) blockBuffer position uninit := by
  obtain ⟨h1, h2⟩ := CreateNode.entry_size name type random hn
  unfold CreateNode
  rw [if_neg (by omega), hd.items, hd.node]
  simp only
  rw [h1, h2]

/-- The place at which `CreateNode` stores the entry in a well-formed
directory, for a name of fewer than 256 bytes. -/
theorem CreateNode.place_eq (v : EsFSVolume) (directory : DirectoryNode)
    (data : EsFSAttributeFileData) (blocks : List (List (Nat × List Nat)))
    (hd : DirectoryWF v directory data blocks) (name : List Nat) (type : Nat)
    (random : Nat → Nat) (uninit : Nat → Nat) (hn : name.length < 256) :
    CreateNode.place v directory name type random uninit
      = match CreateNode.lastBlock v data with
        | .error f => .error f
        | .ok (_, position) =>
          match
            (if (if data.size ≠ 0 then v.superblock.blockSize - position else 0)
                < newEntrySize name.length type then
              match ResizeDataStream v data (data.size + v.superblock.blockSize) true
                  directory.containerBlock uninit with
              | .error f => .error f
              | .ok (_, data, v) => .ok (data, v)
            else (.ok (data, v) : Except Fault (EsFSAttributeFileData × EsFSVolume))) with
          | .error f => .error (.stream f)
          | .ok (data1, v1) =>
            match GetBlockFromStream v1 data1 (sub64 data1.size v.superblock.blockSize) with
            | .error f => .error (.stream f)
            | .ok high =>
              .ok (high,
                if (if data.size ≠ 0 then v.superblock.blockSize - position else 0)
                    ≥ newEntrySize name.length type then position else 0) := by
  obtain ⟨h1, h2⟩ := CreateNode.entry_size name type random hn
  unfold CreateNode.place
  rw [hd.node]
  simp only
  rw [h1]

/-- The place of the entry when it fits into the last block. -/
theorem CreateNode.place_fits (v : EsFSVolume) (directory : DirectoryNode)
    (data : EsFSAttributeFileData) (blocks : List (List (Nat × List Nat)))
    (hd : DirectoryWF v directory data blocks) (name : List Nat) (type : Nat)
    (random : Nat → Nat) (uninit : Nat → Nat) (hn : name.length < 256)
    (before : List (List (Nat × List Nat))) (hland : Landing v data before)
    (blockBuffer : Memory) (position : Nat)
    (hlast : CreateNode.lastBlock v data = .ok (blockBuffer, position))
    (hfit : newEntrySize name.length type ≤ v.superblock.blockSize - position) :
    CreateNode.place v directory name type random uninit
      = .ok (streamBlock v data before.length, position) := by
  have hB := hland.geometry.blockSize_pos
  have hsize : data.size ≠ 0 := by
    rw [hland.size]; exact Nat.ne_of_gt (Nat.mul_pos (by omega) hB)
  have hk : before.length * v.superblock.blockSize < 18446744073709551616 := by
    have := hland.fits
    rw [Nat.add_mul] at this
    omega
  rw [CreateNode.place_eq v directory data blocks hd name type random uninit hn, hlast]
  simp only
  rw [if_pos hsize, if_neg (by omega)]
  simp only
  rw [hland.last_offset, GetBlockFromStream_block v hland.geometry data hland.mode _ hk]
  simp only
  rw [if_pos (by show newEntrySize name.length type ≤ _; exact hfit)]

/-- The place of the entry when it does not fit into the last block and the
stream, after the call of `ResizeDataStream`, has its last block. -/
theorem CreateNode.place_resized (v : EsFSVolume) (directory : DirectoryNode)
    (data : EsFSAttributeFileData) (blocks : List (List (Nat × List Nat)))
    (hd : DirectoryWF v directory data blocks) (name : List Nat) (type : Nat)
    (random : Nat → Nat) (uninit : Nat → Nat) (hn : name.length < 256)
    (blockBuffer : Memory) (position : Nat)
    (hlast : CreateNode.lastBlock v data = .ok (blockBuffer, position))
    (hfit : (if data.size ≠ 0 then v.superblock.blockSize - position else 0)
      < newEntrySize name.length type)
    (b : Bool) (data1 : EsFSAttributeFileData) (v1 : EsFSVolume)
    (hres : ResizeDataStream v data (data.size + v.superblock.blockSize) true
      directory.containerBlock uninit = .ok (b, data1, v1))
    (hB1 : v1.superblock.blockSize = v.superblock.blockSize)
    (before : List (List (Nat × List Nat))) (hland : Landing v1 data1 before) :
    CreateNode.place v directory name type random uninit
      = .ok (streamBlock v1 data1 before.length, 0) := by
  have hk : before.length * v1.superblock.blockSize < 18446744073709551616 := by
    have := hland.fits
    rw [Nat.add_mul] at this
    omega
  have hoff := hland.last_offset
  rw [CreateNode.place_eq v directory data blocks hd name type random uninit hn, hlast]
  simp only
  rw [if_pos hfit, hres]
  simp only
  rw [← hB1, hoff, GetBlockFromStream_block v1 hland.geometry data1 hland.mode _ hk]
  simp only
  rw [if_neg (by
      show ¬ newEntrySize name.length type ≤ _
      rw [hB1]; omega)]

/-- The write of the last block by `CreateNode` leaves the new entry stored. -/
theorem Landing.stored {v1 : EsFSVolume} {data1 : EsFSAttributeFileData}
    {before : List (List (Nat × List Nat))} (hland : Landing v1 data1 before)
    (v : EsFSVolume) (directory : DirectoryNode) (blocks : List (List (Nat × List Nat)))
    (name : List Nat) (type : Nat) (random : Nat → Nat) (uninit : Nat → Nat)
    (hB1 : v1.superblock.blockSize = v.superblock.blockSize)
    (hitems : entryCount blocks + 1 < 18446744073709551616)
    (M : Memory) (pre : List (Nat × List Nat))
    (hM : Packed M v1.superblock.blockSize 0 (pre ++ [(newEntrySize name.length type, name)]))
    (hfile : FileEntryAt M (entriesSize pre + 18 + name.length) type
      ((List.range 8).map (fun i => random i % 256)) (streamBlock v1 data1 before.length))
    (hbefore : ∀ b, b ∈ before → b ∈ blocks) (hpre : pre = [] ∨ pre ∈ blocks)
    (hcount : entryCount before + pre.length ≤ entryCount blocks)
    (hplace : CreateNode.place v directory name type random uninit
      = .ok (streamBlock v1 data1 before.length, entriesSize pre)) :
    CreateNode.Stored v directory blocks name type random uninit
      { directory with
        data := some data1
        itemsInDirectory := some ((entryCount blocks + 1) % 18446744073709551616) }
      (AccessBlockWrite v1 (streamBlock v1 data1 before.length) v1.superblock.blockSize
        (readBytes M 0 v1.superblock.blockSize) 0) := by
  obtain ⟨hl, hblock, hbytes⟩ := hland.write_last M _ hM
  have hent := Packed.split pre (newEntrySize name.length type, name) [] 0 hM
  simp only [Nat.zero_add] at hent
  have hns : 154 + name.length ≤ newEntrySize name.length type := by
    unfold newEntrySize; split <;> omega
  refine ⟨data1, before, pre, ?_, hl, hbefore, hpre, hcount, ?_, ?_, ?_⟩
  · rw [Nat.mod_eq_of_lt hitems]
  · rw [hblock]
    exact hfile.shift_file _ _ (newEntrySize name.length type - 18 - name.length)
      (fun ht => by unfold newEntrySize; rw [if_pos ht]; omega) (by omega)
      (fun a ha => hbytes _ (by omega))
  · rw [hblock]; exact hplace
  · exact hB1

/-- The inner loop of `AccessStream` finds no block when no block of the
stream is found. -/
theorem AccessStream.gather_lost (lookup : Nat → Nat) (hl : ∀ k, lookup k = 0) (max : Nat) :
    ∀ (n bis found : Nat), (AccessStream.gather lookup max n bis 0 found).1 = 0 := by
  intro n
  induction n with
  | zero => intro bis found; rfl
  | succ n ih =>
    intro bis found
    simp only [AccessStream.gather]
    by_cases h : found < max
    · rw [if_pos h, if_pos trivial, hl]
      exact ih _ _
    · rw [if_neg h]

/-- A write of at least one byte to a stream none of whose blocks is found
ends in the panic "Could not find block". -/
theorem AccessStream_lost (v : EsFSVolume) (data : EsFSAttributeFileData)
    (h : StreamLost v data) (offset size : Nat) (hsize : 0 < size) (buffer : List Nat)
    (write : Bool) :
    AccessStream v data offset size buffer write = .error .couldNotFindBlock := by
  have hB := h.geometry.blockSize_pos
  have hnd : data.indirection ≠ ESFS_DATA_DIRECT := by
    rcases h.mode with hm | hm
    · exact fun hd => absurd (hm.symm.trans hd) (by decide)
    · exact fun hd => absurd (hm.symm.trans hd) (by decide)
  have hlook : ∀ k, streamBlock v data k = 0 := h.lost
  unfold AccessStream
  rw [if_neg (by omega), if_neg hnd]
  unfold AccessStream.plan
  simp only
  rw [if_pos h.mode]
  have hpos := BlocksNeededToStore_pos v.superblock hB
    (size + (offset - alignToBlock v.superblock offset)) (by omega)
  obtain ⟨n, hn⟩ : ∃ n, BlocksNeededToStore v.superblock
      (size + (offset - alignToBlock v.superblock offset)) = n + 1 :=
    ⟨BlocksNeededToStore v.superblock
      (size + (offset - alignToBlock v.superblock offset)) - 1, by omega⟩
  rw [hn]
  simp only [AccessStream.accesses]
  have hg := AccessStream.gather_lost (streamBlock v data) hlook
    (v.maxAccessSectorCount * v.sectorSize / v.superblock.blockSize) (n + 1)
    (alignToBlock v.superblock offset / v.superblock.blockSize) 0
  rcases hgr : AccessStream.gather (streamBlock v data)
      (v.maxAccessSectorCount * v.sectorSize / v.superblock.blockSize) (n + 1)
      (alignToBlock v.superblock offset / v.superblock.blockSize) 0 0 with ⟨g, f, bi, sbl⟩
  rw [hgr] at hg
  simp only at hg
  simp only [hg, if_true]

/-- Step 4 of `CreateNode` ends in a panic when, after the call of
`ResizeDataStream`, no block of the stream is found. -/
theorem CreateNode.store_lost (v : EsFSVolume) (directory : DirectoryNode) (items : Nat)
    (data : EsFSAttributeFileData) (entryBuffer : Memory) (entryBufferPosition identifier : Nat)
    (blockBuffer : Memory) (position : Nat) (uninit : Nat → Nat)
    (hfit : (if data.size ≠ 0 then v.superblock.blockSize - position else 0)
      < entryBufferPosition)
    (b : Bool) (data1 : EsFSAttributeFileData) (v1 : EsFSVolume)
    (hres : ResizeDataStream v data (data.size + v.superblock.blockSize) true
      directory.containerBlock uninit = .ok (b, data1, v1))
    (hB1 : v1.superblock.blockSize = v.superblock.blockSize)
    (hlost : StreamLost v1 data1) :
    CreateNode.store v directory items data entryBuffer entryBufferPosition identifier
        blockBuffer position uninit = .error (.stream .couldNotFindBlock) := by
  have hB := hlost.geometry.blockSize_pos
  have hnd : data1.indirection ≠ ESFS_DATA_DIRECT := by
    rcases hlost.mode with hm | hm
    · exact fun hd => absurd (hm.symm.trans hd) (by decide)
    · exact fun hd => absurd (hm.symm.trans hd) (by decide)
  unfold CreateNode.store
  simp only
  rw [if_pos hfit, hres]
  simp only
  have hget : ∀ off, GetBlockFromStream v1 data1 off = .ok 0 := by
    intro off
    unfold GetBlockFromStream
    rw [if_neg hnd]
    simp only
    rw [if_pos hlost.mode, hlost.lost]
  rw [hget]
  simp only
  rw [AccessStream_lost v1 data1 hlost _ _ (by rw [← hB1]; exact hB)]

theorem getD_dropLast_length {α : Type} (l : List α) (hne : l ≠ []) (d : α) :
    l.getD l.dropLast.length d = l.getLast hne := by
  have h := List.dropLast_append_getLast hne
  generalize l.getLast hne = x at h ⊢
  generalize l.dropLast = bs at h ⊢
  subst h
  rw [List.getD_append_right _ _ _ _ (Nat.le_refl _)]
  simp

theorem getD_dropLast {α : Type} (l : List α) (d : α) (j : Nat) (hj : j < l.dropLast.length) :
    l.getD j d = l.dropLast.getD j d := by
  by_cases hne : l = []
  · subst hne; simp
  · have h := List.dropLast_append_getLast hne
    generalize l.getLast hne = x at h
    generalize l.dropLast = bs at h hj ⊢
    subst h
    rw [List.getD_append _ _ _ _ hj]

/-- A directory that holds blocks is ready for `CreateNode` to store an entry
in its last block. -/
theorem DirectoryWF.landing {v : EsFSVolume} {directory : DirectoryNode}
    {data : EsFSAttributeFileData} {blocks : List (List (Nat × List Nat))}
    (hd : DirectoryWF v directory data blocks) (hvol : VolumeWF v) (hs : StreamWF v data)
    (hne : blocks ≠ []) :
    Landing v data blocks.dropLast
      ∧ Packed (directoryBlock v data blocks.dropLast.length) v.superblock.blockSize 0
          (blocks.getLast hne)
      ∧ entryCount blocks = entryCount blocks.dropLast + (blocks.getLast hne).length := by
  have hsplit := List.dropLast_append_getLast hne
  have hlen : blocks.length = blocks.dropLast.length + 1 := by
    rw [List.length_dropLast]
    have := List.length_pos.2 hne
    omega
  have hget : ∀ j, j < blocks.dropLast.length → blocks.getD j [] = blocks.dropLast.getD j [] :=
    fun j hj => getD_dropLast blocks [] j hj
  have hlast : blocks.getD blocks.dropLast.length [] = blocks.getLast hne :=
    getD_dropLast_length blocks hne []
  refine ⟨hs.laidOut.to_landing (hs.fit hvol.allocator.blockCount) hvol.geometry _
    (by rw [hd.size, hlen]) ?_ ?_ ?_, ?_, ?_⟩
  · have := hd.sizeFits
    rw [hd.size, hlen] at this
    omega
  · intro j hj
    rw [← hget j hj]
    exact hd.packed j (by omega)
  · intro j hj
    rw [← hget j hj]
    exact hd.filled j (by omega)
  · rw [← hlast]
    exact hd.packed _ (by omega)
  · conv_lhs => rw [← hsplit]
    rw [entryCount_append]
    simp [entryCount]

/-! ### A resize that fails -/

/-- The group loop of `AllocateExtent`, for a request of at least one block on
tables whose extents have at least one block each: a zero-count result is the
extent `(0, 0)`, and the volume is unchanged. -/
theorem AllocateExtent.search_zero_unchanged (v : EsFSVolume) (d u : Nat) (hd : 1 ≤ d)
    (hpos : ∀ g, g < v.superblock.groupCount →
      ∀ e, e ∈ AllocateExtent.loadedTable v g → 1 ≤ e.count) :
    ∀ (remaining g : Nat), g < v.superblock.groupCount →
      ∀ E v', AllocateExtent.search v d u remaining g = .ok (E, v') → E.count = 0 →
        v' = v ∧ E = ⟨0, 0⟩ := by
  intro remaining
  induction remaining with
  | zero =>
    intro g _ E v' h _
    simp only [AllocateExtent.search, Except.ok.injEq, Prod.mk.injEq] at h
    exact ⟨h.2.symm, h.1.symm⟩
  | succ remaining ih =>
    intro g hg E v' h h0
    have hnext : (g + 1) % v.superblock.groupCount < v.superblock.groupCount :=
      Nat.mod_lt _ (by omega)
    simp only [AllocateExtent.search] at h
    split at h
    · exact ih _ hnext E v' h h0
    · split at h
      · cases h
      · have hlen := AllocateExtent.loadedTable_length v g
        have hp := hpos g hg
        generalize AllocateExtent.loadedTable v g = T at h hlen hp
        rcases hs : AllocateExtent.scan T d u T 0 0 with ⟨r, l⟩
        rw [hs] at h
        cases r with
        | some r =>
          obtain ⟨e, T', n⟩ := r
          have hc := AllocateExtent.scan_some_count T d u T 0 0 (e, T', n) (by rw [hs])
          simp only [Except.ok.injEq] at h
          have hE1 : _ = E := congrArg Prod.fst h
          simp only [AllocateExtent.finish_fst] at hE1
          rw [← hE1] at h0
          simp only at hc h0
          omega
        | none =>
          simp only at h
          by_cases hT : (AllocateExtent.loadDescriptor v g).extentCount = 0
          · rw [if_pos hT] at h
            exact ih _ hnext E v' h h0
          · rw [if_neg hT] at h
            have hl := (AllocateExtent.scan_none T d u T 0 0 (by rw [hs])).2
            rw [hs] at hl
            simp only [Nat.zero_add] at hl
            have hl' : l < T.length := by
              rcases hl with h1 | h1
              · omega
              · exact h1.2
            obtain ⟨pre, x, post, hTx, hpl, hxl⟩ := list_split_at T l hl'
            have hx := hp x (by rw [hTx]; simp)
            simp only [Except.ok.injEq] at h
            have hE1 : _ = E := congrArg Prod.fst h
            simp only [AllocateExtent.finish_fst] at hE1
            rw [← hE1, ← hxl] at h0
            simp only at h0
            omega

/-- On an allocator state that is well formed, a call of `AllocateExtent` for
at least one block that returns a zero-count extent leaves the volume
unchanged. -/
theorem AllocateExtent_zero (v : EsFSVolume) (hwf : AllocatorWF v) (localGroup d u : Nat)
    (hd : 1 ≤ d) (hlg : localGroup < v.superblock.groupCount) (E : EsFSGlobalExtent)
    (v' : EsFSVolume) (h : AllocateExtent v localGroup d u = .ok (E, v')) (h0 : E.count = 0) :
    v' = v ∧ E = ⟨0, 0⟩ :=
  AllocateExtent.search_zero_unchanged v d u hd
    (fun g hg e he => ((hwf.tables g hg).inGroup e he).1) _ _ hlg E v' h h0

/-- A run of the loop of `GrowDataStream` that stores the extent list and ends
with `false` is a shorter run that ends with `true`, followed by a call of
`AllocateExtent` for a list block that is not set, which returns a zero-count
extent. -/
theorem GrowDataStream.saveList_failed (cb : Nat) (list : Memory) :
    ∀ (n i : Nat) (uninit : Nat → Nat) (data : EsFSAttributeFileData) (v : EsFSVolume)
      (data' : EsFSAttributeFileData) (v' : EsFSVolume) (u' : Nat → Nat),
      GrowDataStream.saveList cb list n i uninit data v = .ok (false, data', v', u') →
      ∃ (m : Nat) (dataP : EsFSAttributeFileData) (vP : EsFSVolume) (uP : Nat → Nat)
          (E : EsFSGlobalExtent),
        m < n
          ∧ GrowDataStream.saveList cb list m i uninit data v = .ok (true, dataP, vP, uP)
          ∧ dataP.indirect2 (i + m) = 0
          ∧ AllocateExtent vP (cb / vP.superblock.blocksPerGroup) 1 (uP 0) = .ok (E, v')
          ∧ E.count = 0
          ∧ data' = dataP.setIndirect2 (i + m) E.offset := by
  intro n
  induction n with
  | zero =>
    intro i uninit data v data' v' u' h
    simp [GrowDataStream.saveList] at h
  | succ n ih =>
    intro i uninit data v data' v' u' h
    simp only [GrowDataStream.saveList] at h
    by_cases h0 : data.indirect2 i = 0
    · rw [if_pos h0] at h
      rcases ha : AllocateExtent v (cb / v.superblock.blocksPerGroup) 1 (uninit 0)
        with f | ⟨E, va⟩
      · rw [ha] at h; cases h
      · rw [ha] at h
        simp only at h
        by_cases hc : E.count = 0
        · rw [if_pos hc] at h
          simp only [Except.ok.injEq, Prod.mk.injEq, true_and] at h
          refine ⟨0, data, v, uninit, E, Nat.succ_pos _, rfl, by simpa using h0, ?_, hc, ?_⟩
          · rw [ha, h.2.1]
          · rw [Nat.add_zero]; exact h.1.symm
        · rw [if_neg hc] at h
          obtain ⟨m, dataP, vP, uP, E', hm, hrun, hz, hal, hc', hd'⟩ := ih _ _ _ _ _ _ _ h
          refine ⟨m + 1, dataP, vP, uP, E', by omega, ?_, ?_, hal, hc', ?_⟩
          · simp only [GrowDataStream.saveList]
            rw [if_pos h0, ha]
            simp only
            rw [if_neg hc]
            exact hrun
          · rw [← Nat.add_assoc, Nat.add_right_comm]; exact hz
          · rw [← Nat.add_assoc, Nat.add_right_comm]; exact hd'
    · rw [if_neg h0] at h
      obtain ⟨m, dataP, vP, uP, E', hm, hrun, hz, hal, hc', hd'⟩ := ih _ _ _ _ _ _ _ h
      refine ⟨m + 1, dataP, vP, uP, E', by omega, ?_, ?_, hal, hc', ?_⟩
      · simp only [GrowDataStream.saveList]
        rw [if_neg h0]
        exact hrun
      · rw [← Nat.add_assoc, Nat.add_right_comm]; exact hz
      · rw [← Nat.add_assoc, Nat.add_right_comm]; exact hd'

/-- The `switch` of the allocation loop of `GrowDataStream` returns `false`
only for a stream that holds its extent list in list blocks; the volume and the
bytes of the attribute stay as they were. -/
theorem GrowDataStream.append_false (st : GrowState) (E : EsFSGlobalExtent) (st' : GrowState)
    (h : GrowDataStream.append st E = (false, st')) :
    st.data.indirection = ESFS_DATA_INDIRECT_2 ∧ st'.v = st.v
      ∧ st'.data = { st.data with extentCount := u16 (st.data.extentCount + 1) } := by
  unfold GrowDataStream.append at h
  simp only at h
  split at h
  · split at h
    · simp at h
    · simp at h
  · split at h
    · rename_i h2
      simp only [Prod.mk.injEq] at h
      obtain ⟨_, h3⟩ := h
      rw [← h3]
      exact ⟨h2, rfl, rfl⟩
    · simp at h

/-- The `switch` of the allocation loop of `GrowDataStream` keeps the list
blocks of a stream that holds its extent list in list blocks. -/
theorem GrowDataStream.append_indirect2 (st : GrowState) (E : EsFSGlobalExtent)
    (b : Bool) (st' : GrowState) (hm : st.data.indirection = ESFS_DATA_INDIRECT_2)
    (h : GrowDataStream.append st E = (b, st')) :
    st'.data.unionBytes = st.data.unionBytes ∧ st'.data.indirection = ESFS_DATA_INDIRECT_2 := by
  unfold GrowDataStream.append at h
  simp only at h
  rw [if_neg (by rw [hm]; decide), if_pos hm] at h
  simp only [Prod.mk.injEq] at h
  obtain ⟨_, h3⟩ := h
  rw [← h3]
  exact ⟨rfl, hm⟩

/-- One pass of the allocation loop of `GrowDataStream` for one block. -/
theorem GrowDataStream.allocate_one (cb : Nat) (uninit : Nat → Nat)
    (st : GrowState) (b : Bool) (st' : GrowState) (u' : Nat → Nat)
    (h : GrowDataStream.allocate true cb 1 uninit 1 st = .ok (b, st', u')) :
    ∃ E v1, AllocateExtent st.v (cb / st.v.superblock.blocksPerGroup) 1 (uninit 0) = .ok (E, v1)
      ∧ ((E.count = 0 ∧ b = false ∧ st' = { st with v := v1 })
        ∨ (E.count ≠ 0 ∧ ∃ b2 st2,
            GrowDataStream.append
                { st with
                  v := AccessBlockWrite v1 E.offset (st.v.superblock.blockSize * E.count)
                    (List.replicate (st.v.superblock.blockSize * E.count) 0) 0 } E = (b2, st2)
              ∧ ((b2 = false ∧ b = false ∧ st' = st2)
                ∨ (b2 = true ∧ GrowDataStream.allocate true cb 0 (fun k => uninit (k + 1))
                    (sub64 1 E.count) st2 = .ok (b, st', u'))))) := by
  simp only [GrowDataStream.allocate, if_true] at h
  rcases ha : AllocateExtent st.v (cb / st.v.superblock.blocksPerGroup) 1 (uninit 0)
    with f | ⟨E, v1⟩
  · rw [ha] at h; cases h
  · rw [ha] at h
    simp only at h
    refine ⟨E, v1, rfl, ?_⟩
    by_cases hc : E.count = 0
    · rw [if_pos hc] at h
      simp only [Except.ok.injEq, Prod.mk.injEq] at h
      exact Or.inl ⟨hc, h.1.symm, h.2.1.symm⟩
    · rw [if_neg hc] at h
      right
      refine ⟨hc, ?_⟩
      rcases hap : GrowDataStream.append
          { st with
            v := AccessBlockWrite v1 E.offset (st.v.superblock.blockSize * E.count)
              (List.replicate (st.v.superblock.blockSize * E.count) 0) 0 } E with ⟨b2, st2⟩
      rw [hap] at h
      refine ⟨b2, st2, rfl, ?_⟩
      cases b2 with
      | false =>
        simp only [Except.ok.injEq, Prod.mk.injEq] at h
        exact Or.inl ⟨rfl, h.1.symm, h.2.1.symm⟩
      | true =>
        exact Or.inr ⟨rfl, h⟩

/-- The first list block that the `switch` of the allocation loop marks as
modified, for a stream that holds its extent list in list blocks. -/
theorem GrowDataStream.append_first (st : GrowState) (E : EsFSGlobalExtent) (b : Bool)
    (st' : GrowState) (hm : st.data.indirection = ESFS_DATA_INDIRECT_2)
    (hn : st.newExtentList = none) (h : GrowDataStream.append st E = (b, st')) :
    st'.firstModifiedExtentListBlock
      = sub64 (BlocksNeededToStore st.v.superblock (st.data.extentCount * sizeofGlobalExtent)) 1 := by
  unfold GrowDataStream.append at h
  simp only at h
  rw [if_neg (by rw [hm]; decide), if_pos hm, hn] at h
  simp only [Prod.mk.injEq] at h
  obtain ⟨_, h3⟩ := h
  rw [← h3]

theorem BlocksNeededToStore_le_one (sb : EsFSSuperblock) (hB : 0 < sb.blockSize) (n : Nat)
    (h : n ≤ sb.blockSize) : BlocksNeededToStore sb n ≤ 1 := by
  have h2 := (BlocksNeededToStore_bounds sb hB n).2
  by_contra hc
  have : 2 * sb.blockSize ≤ BlocksNeededToStore sb n * sb.blockSize :=
    Nat.mul_le_mul_right _ (by omega)
  omega

/-- The extents in list blocks other than block `i` do not depend on
`indirect2[i]`. -/
theorem extentList_setIndirect2_other (v : EsFSVolume) (data : EsFSAttributeFileData)
    (hmode : data.indirection = ESFS_DATA_INDIRECT_2)
    (hsec : v.sectorsPerBlock * v.sectorSize = v.superblock.blockSize)
    (hepb : extentsPerBlock v.superblock * sizeofGlobalExtent = v.superblock.blockSize)
    (hB : 0 < v.superblock.blockSize) (i b j : Nat)
    (hs : j / extentsPerBlock v.superblock < ESFS_INDIRECT_2_BLOCKS)
    (hne : data.indirect2 (j / extentsPerBlock v.superblock) ≠ 0)
    (hji : j / extentsPerBlock v.superblock ≠ i) :
    extentList v (data.setIndirect2 i b) j = extentList v data j := by
  have hother := indirect2_setIndirect2_other data i (j / extentsPerBlock v.superblock) b hji
  rw [extentList_indirect2 v _ (by exact hmode) hsec hepb hB j hs (by rw [hother]; exact hne),
    extentList_indirect2 v data hmode hsec hepb hB j hs hne, hother]

/-- What a call of the body of `GrowDataStream` for one more block leaves
behind when it returns `false`, on a volume whose blocks hold at least five
extents: the attribute and the volume are unchanged (no block was free), or
the stream, which holds its extent list in list blocks, keeps its extents
(the extent list is full, or a list block could not be allocated), or the
extents that were held in the attribute are dropped (the first list block
could not be allocated). -/
theorem GrowDataStream.extend_failed (v0 : EsFSVolume) (hvol : VolumeWF v0)
    (data0 : EsFSAttributeFileData) (target : Nat)
    (hinv0 : GrowInv2 v0 target 1 ⟨v0, data0, none, 0⟩)
    (hB80 : 5 * sizeofGlobalExtent ≤ v0.superblock.blockSize)
    (wasDirect : Bool) (oldSize : Nat) (temp : List Nat) (newSize cb : Nat)
    (hlg : cb / v0.superblock.blocksPerGroup < v0.superblock.groupCount)
    (uninit : Nat → Nat) (data1 : EsFSAttributeFileData) (v1 : EsFSVolume)
    (h : GrowDataStream.extend v0 data0 wasDirect oldSize temp 1 newSize true cb uninit
      = .ok (false, data1, v1)) :
    (data1 = data0 ∧ v1 = v0)
      ∨ (data0.indirection = ESFS_DATA_INDIRECT_2 ∧ StreamKept v0 data0 v1 data1)
      ∨ (data0.indirection = ESFS_DATA_INDIRECT ∧ StreamDropped v0 v1 data1) := by
  obtain ⟨k, hk, hBk⟩ := hvol.geometry.blockSizePow
  have hB0 : 0 < v0.superblock.blockSize := by rw [hBk]; exact Nat.two_pow_pos k
  have hmul := extentsPerBlock_mul v0.superblock k hBk hvol.extentSize
  have he : 0 < extentsPerBlock v0.superblock := by
    unfold sizeofGlobalExtent at hmul; omega
  have he5 : 5 ≤ extentsPerBlock v0.superblock := by
    unfold sizeofGlobalExtent at hmul hB80
    by_contra hc
    have : extentsPerBlock v0.superblock * 16 ≤ 4 * 16 := Nat.mul_le_mul_right _ (by omega)
    omega
  have hfits := hvol.listFits
  -- one pass of the allocation loop
  have pass : ∀ (b : Bool) (st : GrowState) (u : Nat → Nat),
      GrowDataStream.allocate true cb 1 uninit 1 ⟨v0, data0, none, 0⟩ = .ok (b, st, u) →
      (b = false ∧ st.data = data0 ∧ st.v = v0)
        ∨ ∃ (E : EsFSGlobalExtent) (v2 : EsFSVolume),
            GrowInv2 v0 target 1 ⟨v2, data0, none, 0⟩ ∧ GrowFrame v0 data0 ⟨v2, data0, none, 0⟩
              ∧ GrowDataStream.append ⟨v2, data0, none, 0⟩ E = (b, st) := by
    intro b st u hall
    obtain ⟨E, va, hal, hcase⟩ := GrowDataStream.allocate_one cb uninit _ b st u hall
    rcases hcase with ⟨hc, hb, hst⟩ | ⟨hc, b2, st2, hap, hcase2⟩
    · left
      obtain ⟨hva, _⟩ := AllocateExtent_zero v0 hinv0.wf _ 1 _ (Nat.le_refl _) hlg E va hal hc
      rw [hst, hva]
      exact ⟨hb, rfl, rfl⟩
    · right
      obtain ⟨hinva, hEd, _⟩ := GrowInv2.allocated v0 hvol target 1 _ hinv0 _ 1 _ hlg E va hal hc
        true (AccessBlockWrite va E.offset (v0.superblock.blockSize * E.count)
          (List.replicate (v0.superblock.blockSize * E.count) 0) 0) rfl
      have hfra := GrowFrame.after_allocate v0 hvol data0 target 1 _ hinv0 (GrowFrame.start v0 data0)
        _ 1 _ hlg E va hal hc true (AccessBlockWrite va E.offset (v0.superblock.blockSize * E.count)
          (List.replicate (v0.superblock.blockSize * E.count) 0) 0) rfl
      refine ⟨E, _, hinva, hfra, ?_⟩
      rcases hcase2 with ⟨hb2, hb, hst⟩ | ⟨hb2, hrest⟩
      · subst hb2 hb hst; exact hap
      · subst hb2
        have hE1 : E.count = 1 := by omega
        rw [hE1] at hrest
        have hs0 : sub64 1 1 = 0 := by decide
        rw [hs0] at hrest
        simp only [GrowDataStream.allocate, Except.ok.injEq, Prod.mk.injEq] at hrest
        obtain ⟨hr1, hr2, _⟩ := hrest
        subst hr1 hr2
        exact hap
  unfold GrowDataStream.extend at h
  dsimp only at h
  split at h
  · cases h
  · -- the allocation loop returns false
    rename_i st u hall
    simp only [Except.ok.injEq, Prod.mk.injEq, true_and] at h
    obtain ⟨hd1, hv1⟩ := h
    rcases pass false st u hall with ⟨_, h1, h2⟩ | ⟨E, v2, hinva, hfra, hap⟩
    · left
      rw [← hd1, ← hv1]
      exact ⟨h1, h2⟩
    · right; left
      obtain ⟨hm, hsv, hsd⟩ := GrowDataStream.append_false _ E st hap
      replace hm : data0.indirection = ESFS_DATA_INDIRECT_2 := hm
      replace hsv : st.v = v2 := hsv
      replace hsd : st.data = { data0 with extentCount := u16 (data0.extentCount + 1) } := hsd
      obtain ⟨_, hb2⟩ := hinv0.big hm
      replace hb2 : data0.extentCount < ESFS_INDIRECT_2_BLOCKS * extentsPerBlock v0.superblock :=
        hb2
      refine ⟨hm, ?_⟩
      rw [← hd1, ← hv1, hsv, hsd]
      refine ⟨hinva.superblock, hinva.drive, hm, rfl, ?_, ?_, ?_, fun s _ _ => Or.inl rfl⟩
      · show data0.extentCount ≤ u16 (data0.extentCount + 1)
        rw [u16_of_lt (by omega)]
        omega
      · intro j hj
        have := hfra.extents j hj
        rw [GrowState.extent_none _ rfl] at this
        exact this
      · intro x hx _
        exact hfra.disk x hx
  · -- the allocation loop returns true
    rename_i st u hall
    obtain ⟨hinv, hsize⟩ := GrowInv2.loop v0 hvol target cb hlg true _ _ _ _ hinv0 (by decide)
      st u hall
    have hfr := GrowFrame.after_loop v0 hvol data0 target cb hlg true _ _ _ _ hinv0
      (GrowFrame.start v0 data0) (by decide) st u hall
    replace hsize : st.data.size = data0.size := hsize
    split at h
    · cases h
    · rename_i D1 V1 u2 hst
      simp only [Except.ok.injEq, Prod.mk.injEq, true_and] at h
      obtain ⟨hd1, hv1⟩ := h
      cases hl : st.newExtentList with
      | none =>
        rw [hl] at hst
        simp at hst
      | some list =>
        rw [hl] at hst
        dsimp only at hst
        obtain ⟨hm, hfirst⟩ := hinv.first list hl
        obtain ⟨hb1, hb2⟩ := hinv.big hm
        obtain ⟨hn1, hn2⟩ := listBlocks_bounds v0.superblock hmul hB0 st.data.extentCount
        generalize hnd : BlocksNeededToStore v0.superblock
          (st.data.extentCount * sizeofGlobalExtent) = nd at hst hn1 hn2
        have h8 : nd ≤ ESFS_INDIRECT_2_BLOCKS := by
          by_contra hc
          have := Nat.mul_le_mul_right (extentsPerBlock v0.superblock)
            (show ESFS_INDIRECT_2_BLOCKS + 1 ≤ nd by omega)
          rw [Nat.add_mul, Nat.one_mul] at this
          omega
        obtain ⟨m, dataP, vP, uP, E, hmlt, hrun, hz, hal, hc, hd'⟩ :=
          GrowDataStream.saveList_failed cb list _ _ _ _ _ _ _ _ hst
        have hsv0 := GrowInv2.toSave v0 hvol target st hinv list hl
        have hsf0 : SaveFrame v0 data0 st.data st.v :=
          ⟨hfr.free, fun x hx _ => hfr.disk x hx,
            fun s hs hne => Or.inl (hfr.listBlocks hm s hs hne)⟩
        obtain ⟨hsave, hec, hsz⟩ := SaveInv.saveList v0 hvol st.extent list
          st.firstModifiedExtentListBlock cb hlg _ _ u st.data st.v hsv0 (by omega) dataP vP uP
          hrun
        have hsf := SaveFrame.after_saveList v0 hvol data0 st.extent list
          st.firstModifiedExtentListBlock cb hlg _ _ u st.data st.v hsv0 hsf0 (by omega)
          dataP vP uP hrun
        obtain ⟨nP, hsbP⟩ := hsave.superblock
        have hBP : vP.superblock.blockSize = v0.superblock.blockSize := by rw [hsbP]
        have hepbP : extentsPerBlock vP.superblock = extentsPerBlock v0.superblock := by
          unfold extentsPerBlock; rw [hBP]
        have hsecP : vP.sectorsPerBlock * vP.sectorSize = vP.superblock.blockSize := by
          rw [hsave.drive.1, hsave.drive.2.1, hBP]; exact hvol.geometry.sectors
        obtain ⟨hV1, hE0⟩ := AllocateExtent_zero vP hsave.wf _ 1 _ (Nat.le_refl _)
          (by rw [hsbP]; exact hlg) E V1 hal hc
        have hD1 : data1 = dataP.setIndirect2 (st.firstModifiedExtentListBlock + m) 0 := by
          rw [← hd1, hd', hE0]
        have hv1' : v1 = vP := by rw [← hv1, hV1]
        have hslot : data1.indirect2 (st.firstModifiedExtentListBlock + m) = 0 := by
          rw [hD1]; exact indirect2_setIndirect2_same _ _ 0 (by decide)
        have hslots : ∀ s, s ≠ st.firstModifiedExtentListBlock + m →
            data1.indirect2 s = dataP.indirect2 s := by
          intro s hs
          rw [hD1]; exact indirect2_setIndirect2_other _ _ _ _ hs
        have hmode1 : data1.indirection = ESFS_DATA_INDIRECT_2 := by
          rw [hD1]; exact hsave.mode
        -- the pass of the allocation loop that was made
        rcases pass true st u hall with ⟨hf, _⟩ | ⟨E0, v2, hinva, hfra, hap⟩
        · cases hf
        obtain ⟨_, hcount, _⟩ := GrowDataStream.append_hold v0 hvol target 1 _ hinva E0 st hap
        replace hcount : st.data.extentCount = data0.extentCount + 1 := hcount
        obtain ⟨nA, hsbA⟩ := hinva.superblock
        replace hsbA : v2.superblock = { v0.superblock with blocksUsed := nA } := hsbA
        right
        rcases hinv0.mode with hm0 | hm0
        · -- the extents were held in the attribute
          right
          replace hm0 : data0.indirection = ESFS_DATA_INDIRECT := hm0
          refine ⟨hm0, ?_⟩
          have hc4 : data0.extentCount ≤ ESFS_INDIRECT_EXTENTS := (hinv0.small hm0).1
          unfold ESFS_INDIRECT_EXTENTS at hc4
          have hnd1 : nd ≤ 1 := by
            rw [← hnd]
            apply BlocksNeededToStore_le_one _ hB0
            rw [hcount]
            unfold sizeofGlobalExtent at hB80 ⊢
            omega
          have hm0' : m = 0 := by omega
          subst hm0'
          simp only [GrowDataStream.saveList, Except.ok.injEq, Prod.mk.injEq, true_and] at hrun
          obtain ⟨hdP, hvP, _⟩ := hrun
          have hzero : ∀ s, s < ESFS_INDIRECT_2_BLOCKS → st.data.indirect2 s = 0 := by
            intro s hs
            by_contra hne
            have := (hfr.listBlocks hm s hs hne).1
            rw [hm0] at this
            exact absurd this (by decide)
          rw [hv1']
          refine ⟨hsave.superblock, hsave.drive, hmode1, ?_⟩
          intro s hs
          by_cases hsi : s = st.firstModifiedExtentListBlock + 0
          · rw [hsi]; exact hslot
          · rw [hslots s hsi, ← hdP]; exact hzero s hs
        · -- the extent list is held in list blocks
          left
          replace hm0 : data0.indirection = ESFS_DATA_INDIRECT_2 := hm0
          refine ⟨hm0, ?_⟩
          obtain ⟨hu, _⟩ := GrowDataStream.append_indirect2 _ E0 true st hm0 hap
          replace hu : st.data.unionBytes = data0.unionBytes := hu
          have hfm := GrowDataStream.append_first _ E0 true st hm0 rfl hap
          replace hfm : st.firstModifiedExtentListBlock
              = sub64 (BlocksNeededToStore v2.superblock (data0.extentCount * sizeofGlobalExtent)) 1 :=
            hfm
          have hbn : BlocksNeededToStore v2.superblock (data0.extentCount * sizeofGlobalExtent)
              = BlocksNeededToStore v0.superblock (data0.extentCount * sizeofGlobalExtent) := by
            unfold BlocksNeededToStore; rw [hsbA]
          rw [hbn] at hfm
          obtain ⟨hl1, hl2⟩ := listBlocks_bounds v0.superblock hmul hB0 data0.extentCount
          obtain ⟨hc04, hc0max⟩ := hinv0.big hm0
          replace hc04 : ESFS_INDIRECT_EXTENTS < data0.extentCount := hc04
          unfold ESFS_INDIRECT_EXTENTS at hc04
          have hbn1 : 1 ≤ BlocksNeededToStore v0.superblock
              (data0.extentCount * sizeofGlobalExtent) := by
            by_contra hc'
            have h0 : BlocksNeededToStore v0.superblock
                (data0.extentCount * sizeofGlobalExtent) = 0 := by omega
            rw [h0] at hl1
            omega
          have hbn8 : BlocksNeededToStore v0.superblock
              (data0.extentCount * sizeofGlobalExtent) ≤ nd := by
            rw [← hnd, hcount]
            apply BlocksNeededToStore_mono _ hB0
            exact Nat.mul_le_mul_right _ (by omega)
          rw [sub64_eq_sub hbn1 (by unfold ESFS_INDIRECT_2_BLOCKS at h8; omega)] at hfm
          have hpres : data0.indirect2 st.firstModifiedExtentListBlock ≠ 0 := by
            apply hinv0.present hm0
            show st.firstModifiedExtentListBlock
              < BlocksNeededToStore v0.superblock (data0.extentCount * sizeofGlobalExtent)
            omega
          have hslot0 : st.data.indirect2 st.firstModifiedExtentListBlock ≠ 0 := by
            unfold EsFSAttributeFileData.indirect2 at hpres ⊢
            rw [hu]; exact hpres
          have hmpos : 1 ≤ m := by
            by_contra hc'
            have hm0' : m = 0 := by omega
            subst hm0'
            simp only [GrowDataStream.saveList, Except.ok.injEq, Prod.mk.injEq, true_and] at hrun
            rw [← hrun.1, Nat.add_zero] at hz
            exact hslot0 hz
          rw [hv1']
          refine ⟨hsave.superblock, hsave.drive, hmode1, ?_, ?_, ?_, ?_, ?_⟩
          · rw [hD1]
            show dataP.size = data0.size
            rw [hsz, hsize]
          · rw [hD1]
            show data0.extentCount ≤ dataP.extentCount
            rw [hec]; exact hfr.count
          · intro j hj
            have hjb : j / extentsPerBlock v0.superblock
                < st.firstModifiedExtentListBlock + 1 := by
              rw [Nat.div_lt_iff_lt_mul he]
              have : (st.firstModifiedExtentListBlock + 1) = BlocksNeededToStore v0.superblock
                  (data0.extentCount * sizeofGlobalExtent) := by omega
              rw [this]
              omega
            have hjP : j < dataP.extentCount := by rw [hec]; have := hfr.count; omega
            rw [hD1, extentList_setIndirect2_other vP dataP hsave.mode hsecP
              (by rw [hepbP, hBP]; exact hmul) (by rw [hBP]; exact hB0) _ 0 j
              (by rw [hepbP]; unfold ESFS_INDIRECT_2_BLOCKS at h8 ⊢; omega)
              (by rw [hepbP]; exact hsave.present _ (by omega))
              (by rw [hepbP]; omega),
              hsave.saved j hjP (by omega)]
            exact hfr.extents j hj
          · intro x hx hnl
            exact hsf.disk x hx (fun _ => hnl)
          · intro s hs hne
            have hsi : s ≠ st.firstModifiedExtentListBlock + m := by
              intro hc'; rw [hc'] at hne; exact hne hslot
            rw [hslots s hsi] at hne ⊢
            rcases hsf.listBlocks s hs hne with ⟨_, h2⟩ | h2
            · exact Or.inl h2
            · exact Or.inr h2
    · split at h <;> simp at h

theorem findBlock_zero (e : Nat → EsFSGlobalExtent) (he : ∀ i, e i = ⟨0, 0⟩) (b : Nat) :
    ∀ (fuel i p : Nat), p ≤ b → findBlock e b fuel i p = 0 := by
  intro fuel
  induction fuel with
  | zero => intro i p _; rfl
  | succ fuel ih =>
    intro i p hp
    simp only [findBlock]
    rw [he i]
    simp only [Nat.add_zero]
    have hle : p % 18446744073709551616 ≤ p := Nat.mod_le _ _
    rw [if_neg (by omega)]
    exact ih _ _ (by omega)

/-- A stream none of whose list blocks is set has lost its blocks. -/
theorem StreamDropped.lost {v0 v1 : EsFSVolume} {data1 : EsFSAttributeFileData}
    (h : StreamDropped v0 v1 data1) (hgeo : AccessGeometry v0) : StreamLost v1 data1 := by
  refine ⟨AccessGeometry.of_same hgeo h.superblock h.drive, Or.inr h.mode, ?_⟩
  intro k
  have hload : loadExtentList v1 data1 = fun _ => 0 := by
    unfold loadExtentList
    have : ∀ (l : List Nat) (m : Memory), (∀ i, i ∈ l → i < ESFS_INDIRECT_2_BLOCKS) →
        l.foldl (fun buffer i =>
          if data1.indirect2 i ≠ 0 then
            writeBytes buffer (i * extentsPerBlock v1.superblock * sizeofGlobalExtent)
              (AccessBlockRead v1 (data1.indirect2 i) v1.superblock.blockSize 0)
          else buffer) m = m := by
      intro l
      induction l with
      | nil => intro m _; rfl
      | cons i l ih =>
        intro m hl
        simp only [List.foldl_cons]
        rw [if_neg (by simp [h.none i (hl i (List.mem_cons_self _ _))])]
        exact ih m (fun j hj => hl j (List.mem_cons_of_mem _ hj))
    exact this _ _ (fun i hi => List.mem_range.1 hi)
  have hext : ∀ i, extentList v1 data1 i = ⟨0, 0⟩ := by
    intro i
    unfold extentList
    rw [if_pos h.mode, hload]
    unfold readExtent
    rw [readU64_zero _ _ (fun _ _ => rfl), readU64_zero _ _ (fun _ _ => rfl)]
  unfold streamBlock
  exact findBlock_zero _ hext k _ 0 0 (Nat.zero_le _)

/-- A stream that keeps its extents keeps the blocks of a directory where they
were, so that `CreateNode` can store an entry in the last of them. -/
theorem StreamKept.keeps_landing {v : EsFSVolume} {data : EsFSAttributeFileData} {v1 : EsFSVolume}
    {data1 : EsFSAttributeFileData} (h : StreamKept v data v1 data1) (hvol : VolumeWF v)
    (directory : DirectoryNode) (blocks : List (List (Nat × List Nat)))
    (hd : DirectoryWF v directory data blocks) (hs : StreamWF v data) (hne : blocks ≠ [])
    (hm : data.indirection = ESFS_DATA_INDIRECT_2) :
    Landing v1 data1 blocks.dropLast := by
  obtain ⟨hland, _, _⟩ := hd.landing hvol hs hne
  have hB0 := hvol.geometry.blockSize_pos
  obtain ⟨n, hsb⟩ := h.superblock
  have hB1 : v1.superblock.blockSize = v.superblock.blockSize := by rw [hsb]
  have hlen : blocks.length = blocks.dropLast.length + 1 := by
    rw [List.length_dropLast]
    have := List.length_pos.2 hne
    omega
  have hn : BlocksNeededToStore v.superblock data.size = blocks.length := by
    rw [hd.size]; exact BlocksNeededToStore_mul _ hB0 _
  have hcov := hs.laidOut.covers
  have hfit := hs.fit hvol.allocator.blockCount
  have hblock : ∀ j, j < blocks.length → streamBlock v1 data1 j = streamBlock v data j := by
    intro j hj
    unfold streamBlock
    exact findBlock_prefix (extentList v data) (extentList v1 data1) j data.extentCount
      data1.extentCount 0 0 h.count (fun i _ hi => h.extents i (by omega)) (Nat.zero_le _)
      (by omega) (by have := hfit.1; omega)
  have hused : ∀ j, j < blocks.length → usedBlock v (streamBlock v data j) := by
    intro j hj
    obtain ⟨i, hi, h1, h2⟩ := findBlock_mem (extentList v data) data.extentCount hfit j
      (by omega)
    exact hs.used i hi _ h1 h2
  have hnl : ∀ j, j < blocks.length → ∀ s, s < ESFS_INDIRECT_2_BLOCKS →
      data.indirect2 s ≠ streamBlock v data j := by
    intro j hj s hs'
    by_cases h0 : data.indirect2 s = 0
    · rw [h0]; exact (hs.laidOut.block_ne_zero hfit j (by omega)).symm
    · exact hs.laidOut.block_ne_list hfit j (by omega) hm s hs' h0
  have hbytes : ∀ j, j < blocks.length → ∀ a, a < v.superblock.blockSize →
      directoryBlock v1 data1 j a = directoryBlock v data j a := by
    intro j hj a ha
    unfold directoryBlock
    rw [hblock j hj, hB1]
    exact h.disk _ (hused j hj) (hnl j hj) _ (Nat.le_add_right _ _) (by omega)
  refine ⟨AccessGeometry.of_same hvol.geometry h.superblock h.drive, Or.inr h.mode, ?_, ?_, ?_,
    ?_, ?_, ?_, hland.filled⟩
  · rw [h.size, hB1]; exact hland.size
  · rw [hB1]; exact hland.fits
  · intro j hj
    rw [hblock j (by omega)]
    exact hland.found j hj
  · intro j hj
    rw [hblock j (by omega), hblock _ (by omega)]
    exact hland.distinct j hj
  · intro _ s hs' hne'
    rw [hblock _ (by omega)]
    rcases h.listBlocks s hs' hne' with h1 | h1
    · rw [h1]; exact hnl _ (by omega) s hs'
    · intro hc
      rw [hc] at h1
      exact h1 (hused _ (by omega))
  · intro j hj
    rw [hB1]
    exact Packed.of_bytes _ 0 (hland.packed j hj) (fun a _ ha => hbytes j (by omega) a ha)

/-- What `ResizeDataStream` leaves behind when it fails to make the stream of
a directory one block longer, on a volume whose blocks hold at least 80 bytes:
the blocks of the directory are still where they were, or no block of the
stream is found any more. -/
theorem ResizeDataStream_failed (v : EsFSVolume) (hvol : VolumeWF v)
    (directory : DirectoryNode) (data : EsFSAttributeFileData)
    (blocks : List (List (Nat × List Nat))) (hd : DirectoryWF v directory data blocks)
    (hB80 : 80 ≤ v.superblock.blockSize) (uninit : Nat → Nat)
    (data1 : EsFSAttributeFileData) (v1 : EsFSVolume)
    (h : ResizeDataStream v data (data.size + v.superblock.blockSize) true
      directory.containerBlock uninit = .ok (false, data1, v1)) :
    v1.superblock.blockSize = v.superblock.blockSize
      ∧ ((blocks ≠ [] ∧ Landing v1 data1 blocks.dropLast) ∨ StreamLost v1 data1) := by
  have hB0 := hvol.geometry.blockSize_pos
  have hgrow : data.size < data.size + v.superblock.blockSize := by omega
  unfold ResizeDataStream at h
  rw [if_pos hgrow] at h
  have hn : BlocksNeededToStore v.superblock data.size = blocks.length := by
    rw [hd.size]; exact BlocksNeededToStore_mul _ hB0 _
  have hn1 : BlocksNeededToStore v.superblock (data.size + v.superblock.blockSize)
      = blocks.length + 1 := by
    have : data.size + v.superblock.blockSize = (blocks.length + 1) * v.superblock.blockSize := by
      rw [hd.size, Nat.add_mul, Nat.one_mul]
    rw [this]; exact BlocksNeededToStore_mul _ hB0 _
  have hbs : ∀ w : EsFSVolume, (∃ n, w.superblock = { v.superblock with blocksUsed := n }) →
      w.superblock.blockSize = v.superblock.blockSize := by
    rintro w ⟨n, hw⟩; rw [hw]
  rcases hd.stream with ⟨hdirect, hec, hnil⟩ | ⟨hs, hne⟩
  · have hsize : data.size = 0 := by rw [hd.size, hnil]; simp
    rw [GrowDataStream_direct_eq v data _ _ true uninit hdirect (by rw [hsize]; decide)
      (by unfold ESFS_DIRECT_BYTES; omega) hd.sizeFits hB0, hn1, hnil] at h
    rcases GrowDataStream.extend_failed v hvol _ _ (GrowInv2.of_direct v hvol.allocator data hec 1)
      (by unfold sizeofGlobalExtent; omega) true _ _ _ _ hd.group uninit data1 v1 h
      with ⟨h1, h2⟩ | ⟨h1, _⟩ | ⟨_, h2⟩
    · rw [h2]
      refine ⟨rfl, Or.inr ⟨hvol.geometry, Or.inl (by rw [h1]), ?_⟩⟩
      intro k
      unfold streamBlock
      rw [h1]
      show findBlock _ k data.extentCount 0 0 = 0
      rw [hec]
      rfl
    · exact absurd (show ESFS_DATA_INDIRECT = ESFS_DATA_INDIRECT_2 from h1) (by decide)
    · exact ⟨hbs v1 h2.superblock, Or.inr (h2.lost hvol.geometry)⟩
  · have hnd : data.indirection ≠ ESFS_DATA_DIRECT := by
      rcases hs.laidOut.mode with hm | hm
      · exact fun hd => absurd (hm.symm.trans hd) (by decide)
      · exact fun hd => absurd (hm.symm.trans hd) (by decide)
    rw [GrowDataStream_indirect_eq v data _ _ true uninit hnd, hn1, hn,
      sub64_eq_sub (by omega) (by
        have := hd.sizeFits
        have := BlocksNeededToStore_le v.superblock hB0 (data.size + v.superblock.blockSize)
        omega),
      Nat.add_sub_cancel_left] at h
    rcases GrowDataStream.extend_failed v hvol _ _
      (GrowInv2.of_streamWF v hvol.allocator data hs 1)
      (by unfold sizeofGlobalExtent; omega) false _ _ _ _ hd.group uninit data1 v1 h
      with ⟨h1, h2⟩ | ⟨h1, h2⟩ | ⟨_, h2⟩
    · rw [h1, h2]
      exact ⟨rfl, Or.inl ⟨hne, (hd.landing hvol hs hne).1⟩⟩
    · exact ⟨hbs v1 h2.superblock, Or.inl ⟨hne, h2.keeps_landing hvol directory blocks hd hs hne h1⟩⟩
    · exact ⟨hbs v1 h2.superblock, Or.inr (h2.lost hvol.geometry)⟩

/-! ### CreateNode followed by SearchDirectory -/

/-- `CreateNode` on a well-formed directory, for a name of fewer than 256
bytes and a type that is file or directory: if it returns `true`, the new
entry is stored in the last block of the stream. -/
theorem CreateNode_stored (v : EsFSVolume) (hvol : VolumeWF v) (directory : DirectoryNode)
    (data : EsFSAttributeFileData) (blocks : List (List (Nat × List Nat)))
    (hd : DirectoryWF v directory data blocks) (name : List Nat) (type : Nat)
    (random : Nat → Nat) (uninit : Nat → Nat) (hn : name.length < 256)
    (htype : type = ESFS_FILE_TYPE_FILE ∨ type = ESFS_FILE_TYPE_DIRECTORY)
    (directory' : DirectoryNode) (v' : EsFSVolume)
    (h : CreateNode v directory name type random uninit = .ok (true, directory', v')) :
    CreateNode.Stored v directory blocks name type random uninit directory' v' := by
  have hB0 := hvol.geometry.blockSize_pos
  have hns : 154 + name.length ≤ newEntrySize name.length type := by
    unfold newEntrySize; split <;> omega
  rw [CreateNode_eq v directory data blocks hd name type random uninit hn] at h
  by_cases hbig : newEntrySize name.length type > v.superblock.blockSize
  · rw [if_pos hbig] at h; cases h
  rw [if_neg hbig] at h
  have hB64 : ESFS_DIRECT_BYTES < v.superblock.blockSize := by
    unfold ESFS_DIRECT_BYTES; omega
  -- the call of `ResizeDataStream` and what follows it
  have resized : ∀ (blockBuffer : Memory) (position : Nat),
      CreateNode.lastBlock v data = .ok (blockBuffer, position) →
      (if data.size ≠ 0 then v.superblock.blockSize - position else 0)
        < newEntrySize name.length type →
      (∀ j, j < blocks.length → blocks.getD j [] ≠ []) →
      CreateNode.store v directory (entryCount blocks) data
        (CreateNode.entry name type random).1 (newEntrySize name.length type)
        (26 + name.length) blockBuffer position uninit = .ok (true, directory', v') →
      CreateNode.Stored v directory blocks name type random uninit directory' v' := by
    intro blockBuffer position hlast hfit hfull hst
    have key : ∀ (b : Bool) (data1 : EsFSAttributeFileData) (v1 : EsFSVolume),
        ResizeDataStream v data (data.size + v.superblock.blockSize) true
          directory.containerBlock uninit = .ok (b, data1, v1) →
        v1.superblock.blockSize = v.superblock.blockSize →
        ∀ before : List (List (Nat × List Nat)), Landing v1 data1 before →
        (∀ b, b ∈ before → b ∈ blocks) → entryCount before ≤ entryCount blocks →
        CreateNode.Stored v directory blocks name type random uninit directory' v' := by
      intro b data1 v1 hres hB1 before hland hbefore hcount
      rw [CreateNode.store_resized v directory _ data _ _ _ blockBuffer position uninit hfit b
        data1 v1 hres hB1 before hland] at hst
      simp only [Except.ok.injEq, Prod.mk.injEq, true_and] at hst
      obtain ⟨hdir, hv⟩ := hst
      rw [← hdir, ← hv]
      obtain ⟨hp1, hp2⟩ := CreateNode.patched_packed name type random
        (streamBlock v1 data1 before.length) hn htype v1.superblock.blockSize
        (by rw [hB1]; omega)
      have hid : (CreateNode.entry name type random).2.2 = 26 + name.length :=
        (CreateNode.entry_size name type random hn).2
      have hpat : writeBytes (CreateNode.entry name type random).1 (26 + name.length + 8)
          (encodeU64 (streamBlock v1 data1 before.length))
          = CreateNode.patched name type random (streamBlock v1 data1 before.length) := by
        unfold CreateNode.patched
        rw [hid]
      rw [hpat]
      exact hland.stored v directory blocks name type random uninit hB1 hd.itemsFit _ []
        (by simpa using hp1) (by simpa [entriesSize] using hp2) hbefore (Or.inl rfl)
        (by simpa using hcount)
        (by
          rw [CreateNode.place_resized v directory data blocks hd name type random uninit hn
            blockBuffer position hlast hfit b data1 v1 hres hB1 before hland]
          simp [entriesSize])
    rcases hres : ResizeDataStream v data (data.size + v.superblock.blockSize) true
        directory.containerBlock uninit with f | ⟨b, data1, v1⟩
    · unfold CreateNode.store at hst
      simp only at hst
      rw [if_pos hfit, hres] at hst
      cases hst
    · cases b with
      | true =>
        obtain ⟨hland, hB1, _, _⟩ := ResizeDataStream_landing v hvol directory data blocks hd
          hfull hB64 uninit data1 v1 hres
        exact key true data1 v1 hres hB1 blocks hland (fun _ hb => hb) (Nat.le_refl _)
      | false =>
        obtain ⟨hB1, hcase⟩ := ResizeDataStream_failed v hvol directory data blocks hd
          (by omega) uninit data1 v1 hres
        rcases hcase with ⟨hne, hland⟩ | hlost
        · refine key false data1 v1 hres hB1 _ hland
            (fun b hb => List.mem_of_mem_dropLast hb) ?_
          conv_rhs => rw [← List.dropLast_append_getLast hne]
          rw [entryCount_append]
          omega
        · rw [CreateNode.store_lost v directory _ data _ _ _ blockBuffer position uninit hfit
            false data1 v1 hres hB1 hlost] at hst
          cases hst
  rcases hd.stream with ⟨hdirect, hec, hnil⟩ | ⟨hs, hne⟩
  · -- the directory holds no block
    have hsize : data.size = 0 := by rw [hd.size, hnil]; simp
    rw [CreateNode.lastBlock_empty v data hsize] at h
    simp only at h
    exact resized _ _ (CreateNode.lastBlock_empty v data hsize)
      (by rw [if_neg (by simp [hsize])]; omega)
      (fun j hj => by rw [hnil] at hj; exact absurd hj (Nat.not_lt_zero _)) h
  · -- the directory holds blocks
    obtain ⟨hland, hpk, hcount⟩ := hd.landing hvol hs hne
    have hlast := CreateNode.lastBlock_packed v data _ hland _ hpk
    rw [hlast] at h
    simp only at h
    have hsize : data.size ≠ 0 := by
      rw [hland.size]; exact Nat.ne_of_gt (Nat.mul_pos (by omega) hB0)
    by_cases hfit : newEntrySize name.length type
        ≤ v.superblock.blockSize - entriesSize (blocks.getLast hne)
    · -- the entry fits into the last block
      rw [CreateNode.store_fits v directory _ data _ _ _ _ _ uninit _ hland hfit] at h
      simp only [Except.ok.injEq, Prod.mk.injEq, true_and] at h
      obtain ⟨hdir, hv⟩ := h
      rw [← hdir, ← hv]
      have hbuf := Packed.buffer v hland.geometry.sectors data _ _ 0 hpk
      have ht := (Packed.tail _ 0 hbuf).1
      obtain ⟨hp1, hp2⟩ := CreateNode.patched_append name type random
        (streamBlock v data blocks.dropLast.length) hn htype v.superblock.blockSize _ _ hbuf
        (by omega)
      have hid : (CreateNode.entry name type random).2.2 = 26 + name.length :=
        (CreateNode.entry_size name type random hn).2
      have hpat : writeBytes (CreateNode.entry name type random).1 (26 + name.length + 8)
          (encodeU64 (streamBlock v data blocks.dropLast.length))
          = CreateNode.patched name type random (streamBlock v data blocks.dropLast.length) := by
        unfold CreateNode.patched
        rw [hid]
      rw [hpat]
      exact hland.stored v directory blocks name type random uninit rfl hd.itemsFit _
        (blocks.getLast hne) hp1 hp2 (fun b hb => List.mem_of_mem_dropLast hb)
        (Or.inr (List.getLast_mem hne)) (by omega)
        (CreateNode.place_fits v directory data blocks hd name type random uninit hn _ hland
          _ _ hlast hfit)
    · -- the entry does not fit: the last block is not empty
      have hfull : ∀ j, j < blocks.length → blocks.getD j [] ≠ [] := by
        intro j hj
        by_cases hj' : j + 1 < blocks.length
        · exact hd.filled j hj'
        · have hlen : blocks.length = blocks.dropLast.length + 1 := by
            rw [List.length_dropLast]; omega
          have hjl : j = blocks.dropLast.length := by omega
          have hgl : blocks.getD j [] = blocks.getLast hne := by
            rw [hjl]; exact getD_dropLast_length blocks hne []
          rw [hgl]
          intro hempty
          rw [hempty] at hfit
          simp only [entriesSize, List.map_nil, List.sum_nil, Nat.sub_zero] at hfit
          omega
      exact resized _ _ hlast (by rw [if_pos hsize]; omega) hfull h

theorem bufferMemory_readBytes (m : Memory) (q n a : Nat) (ha : a < n) :
    bufferMemory (readBytes m q n) a = m (q + a) := by
  unfold bufferMemory
  exact getD_readBytes m q n a ha

theorem FindOpenNode_none (openNodes : List EsFSFile) (identifier : List Nat)
    (h : ∀ node, node ∈ openNodes → node.identifier ≠ identifier) :
    FindOpenNode openNodes identifier = none := by
  unfold FindOpenNode
  rw [List.find?_eq_none]
  intro node hnode
  simpa using h node hnode

/-- The node that `SearchDirectory` makes for an entry that `CreateNode`
stored: its type, its size or entry count, and the attributes of the copy of
the file entry that it holds. -/
theorem newNode_spec (name : List Nat) (type : Nat) (random : Nat → Nat) (block position : Nat)
    (bytes : Memory)
    (h : FileEntryAt bytes (position + 18 + name.length) type
      ((List.range 8).map (fun i => random i % 256)) block) :
    (newNode name type random block position bytes).type
        = (if type = ESFS_FILE_TYPE_FILE then .file else .directory)
      ∧ (newNode name type random block position bytes).information = 0
      ∧ (newNode name type random block position bytes).containerBlock = block
      ∧ (newNode name type random block position bytes).offsetIntoBlock2 = position
      ∧ readBytes (bufferMemory (newNode name type random block position bytes).fileEntry) 0 8
          = ESFS_FILE_ENTRY_SIGNATURE
      ∧ FindAttribute ESFS_ATTRIBUTE_FILE_DATA
          (bufferMemory (newNode name type random block position bytes).fileEntry)
          (newNode name type random block position bytes).fileEntryLength
          (newNode name type random block position bytes).fileEntryLength sizeofFileEntry
          = .ok (some 48)
      ∧ bufferMemory (newNode name type random block position bytes).fileEntry (48 + 5)
          = ESFS_DATA_DIRECT
      ∧ readU64 (bufferMemory (newNode name type random block position bytes).fileEntry) (48 + 8)
          = 0
      ∧ (type = ESFS_FILE_TYPE_DIRECTORY →
          FindAttribute ESFS_ATTRIBUTE_FILE_DIRECTORY
              (bufferMemory (newNode name type random block position bytes).fileEntry)
              (newNode name type random block position bytes).fileEntryLength
              (newNode name type random block position bytes).fileEntryLength sizeofFileEntry
              = .ok (some 128)
            ∧ readU64 (bufferMemory (newNode name type random block position bytes).fileEntry)
                (128 + 8) = 0) := by
  have hns : 154 + name.length ≤ newEntrySize name.length type := by
    unfold newEntrySize; split <;> omega
  have hnd : type = ESFS_FILE_TYPE_DIRECTORY → newEntrySize name.length type = 178 + name.length := by
    intro ht; unfold newEntrySize; rw [if_pos ht]
  have hfe : FileEntryAt
      (bufferMemory (newNode name type random block position bytes).fileEntry) 0 type
      ((List.range 8).map (fun i => random i % 256)) block :=
    h.shift_file _ 0 (newEntrySize name.length type - 22 - name.length)
      (fun ht => by rw [hnd ht]; omega) (by omega)
      (fun a ha => by
        rw [Nat.zero_add]
        exact bufferMemory_readBytes _ _ _ _ ha)
  obtain ⟨f1, _, f3⟩ := hfe.find_attributes (newEntrySize name.length type - 22 - name.length) (by omega)
    (newEntrySize name.length type - 22 - name.length) (by omega)
  simp only [Nat.zero_add] at f1 f3
  refine ⟨rfl, rfl, rfl, rfl, hfe.signature, f1, ?_, ?_, ?_⟩
  · have := hfe.indirection
    simpa using this
  · have := hfe.size
    simpa using this
  · intro ht
    refine ⟨f3 ht, ?_⟩
    have := (hfe.directoryType ht).2.2.1
    simpa using this

/-- After a `CreateNode` on a well-formed directory that does not hold the
name, `SearchDirectory` for the name returns a new node for the entry that was
stored. -/
theorem SearchDirectory_after_CreateNode (v : EsFSVolume) (hvol : VolumeWF v)
    (directory : DirectoryNode) (data : EsFSAttributeFileData)
    (blocks : List (List (Nat × List Nat))) (hd : DirectoryWF v directory data blocks)
    (name : List Nat) (type : Nat) (random : Nat → Nat) (uninit : Nat → Nat)
    (hn : name.length < 256)
    (htype : type = ESFS_FILE_TYPE_FILE ∨ type = ESFS_FILE_TYPE_DIRECTORY)
    (hnew : ∀ b, b ∈ blocks → ∀ e, e ∈ b → e.2 ≠ name)
    (openNodes : List EsFSFile)
    (hopen : ∀ block position,
      CreateNode.place v directory name type random uninit = .ok (block, position) →
      FindOpenNode openNodes ((List.range 8).map (fun i => random i % 256) ++ encodeU64 block)
        = none)
    (directory' : DirectoryNode) (v' : EsFSVolume)
    (h : CreateNode v directory name type random uninit = .ok (true, directory', v')) :
    ∃ block position bytes,
      SearchDirectory v' name directory' openNodes
          = .ok (some (newNode name type random block position bytes),
              openNodes ++ [newNode name type random block position bytes])
        ∧ FileEntryAt bytes (position + 18 + name.length) type
            ((List.range 8).map (fun i => random i % 256)) block
        ∧ CreateNode.place v directory name type random uninit = .ok (block, position)
        ∧ readBytes v'.disk (block * v'.superblock.blockSize + position) 8
            = ESFS_DIRECTORY_ENTRY_SIGNATURE := by
  obtain ⟨data', before, pre, hdir, hl, hbefore, hpre, hcount, hfile, hplace, hB⟩ :=
    CreateNode_stored v hvol directory data blocks hd name type random uninit hn htype
      directory' v' h
  have hopen' := hopen _ _ hplace
  have hfind := SearchDirectory_finds v' data' _ hl directory.containerBlock
    (entryCount blocks + 1) name type random openNodes before pre [] [] (by simp)
    (fun b hb => hnew b (hbefore b hb))
    (by
      rcases hpre with hp | hp
      · rw [hp]; intro e he; cases he
      · exact hnew pre hp)
    (by omega) htype hfile hopen'
  refine ⟨streamBlock v' data' before.length, entriesSize pre,
    directoryBlock v' data' before.length, ?_, hfile, hplace, ?_⟩
  · rw [hdir]; exact hfind
  · have hpk := hl.packed before.length (by simp)
    rw [List.getD_append_right _ _ _ _ (Nat.le_refl _)] at hpk
    simp only [Nat.sub_self, List.getD_cons_zero] at hpk
    obtain ⟨hent, _⟩ := Packed.split pre _ [] 0 hpk
    rw [Nat.zero_add] at hent
    rw [← hent.signature]
    unfold readBytes directoryBlock
    apply List.map_congr_left
    intro i _
    rw [Nat.add_assoc]

/-- C19: on a well-formed volume, for every well-formed directory (its stream
direct and empty or laid out in whole blocks, each block holding its entries
packed from offset 0 with zero bytes behind them, only the last block possibly
without an entry, `itemsInDirectory` the number of entries) that holds no
entry called `name`, for every `name` of at most 255 bytes (those of 1 to 255
bytes among them) and every type that is file or directory: after a
`CreateNode(dir, name, type)` that returns `true`, `SearchDirectory(dir, name)`,
with an open-node table in which no node has the identifier of the new entry
(its eight random bytes followed by the global block in which `CreateNode`
stored it), returns a new node of that type, which it adds to the table; the
size or entry count of the node is 0, its copy of the file entry starts with
the signature "FileEsFS", holds a FILE_DATA attribute with indirection DIRECT
and size 0 and, for a directory, a FILE_DIRECTORY attribute with
`itemsInDirectory` 0; the `containerBlock` and `offsetIntoBlock2` of the node
are the global block and the offset in it at which `CreateNode` stored the
entry, and the signature "DirEntry" stands there on the drive. -/
theorem CreateNode_then_SearchDirectory (v : EsFSVolume) (hvol : VolumeWF v)
    (directory : DirectoryNode) (data : EsFSAttributeFileData)
    (blocks : List (List (Nat × List Nat))) (hd : DirectoryWF v directory data blocks)
    (name : List Nat) (type : Nat) (random : Nat → Nat) (uninit : Nat → Nat)
    (hn : name.length ≤ 255)
    (htype : type = ESFS_FILE_TYPE_FILE ∨ type = ESFS_FILE_TYPE_DIRECTORY)
    (hnew : ∀ b, b ∈ blocks → ∀ e, e ∈ b → e.2 ≠ name)
    (openNodes : List EsFSFile)
    (hopen : ∀ block position,
      CreateNode.place v directory name type random uninit = .ok (block, position) →
      FindOpenNode openNodes ((List.range 8).map (fun i => random i % 256) ++ encodeU64 block)
        = none)
    (directory' : DirectoryNode) (v' : EsFSVolume)
    (h : CreateNode v directory name type random uninit = .ok (true, directory', v')) :
    ∃ node : EsFSFile,
      SearchDirectory v' name directory' openNodes = .ok (some node, openNodes ++ [node])
        ∧ node.type = (if type = ESFS_FILE_TYPE_FILE then .file else .directory)
        ∧ node.information = 0
        ∧ readBytes (bufferMemory node.fileEntry) 0 8 = ESFS_FILE_ENTRY_SIGNATURE
        ∧ FindAttribute ESFS_ATTRIBUTE_FILE_DATA (bufferMemory node.fileEntry)
            node.fileEntryLength node.fileEntryLength sizeofFileEntry = .ok (some 48)
        ∧ bufferMemory node.fileEntry (48 + 5) = ESFS_DATA_DIRECT
        ∧ readU64 (bufferMemory node.fileEntry) (48 + 8) = 0
        ∧ (type = ESFS_FILE_TYPE_DIRECTORY →
            FindAttribute ESFS_ATTRIBUTE_FILE_DIRECTORY (bufferMemory node.fileEntry)
                node.fileEntryLength node.fileEntryLength sizeofFileEntry = .ok (some 128)
              ∧ readU64 (bufferMemory node.fileEntry) (128 + 8) = 0)
        ∧ CreateNode.place v directory name type random uninit
            = .ok (node.containerBlock, node.offsetIntoBlock2)
        ∧ readBytes v'.disk (node.containerBlock * v'.superblock.blockSize
            + node.offsetIntoBlock2) 8 = ESFS_DIRECTORY_ENTRY_SIGNATURE := by
  obtain ⟨block, position, bytes, hsearch, hfile, hplace, hsig⟩ :=
    SearchDirectory_after_CreateNode v hvol directory data blocks hd name type random uninit
      (by omega) htype hnew openNodes hopen directory' v' h
  obtain ⟨n1, n2, n3, n4, n5, n6, n7, n8, n9⟩ :=
    newNode_spec name type random block position bytes hfile
  refine ⟨newNode name type random block position bytes, hsearch, n1, n2, n5, n6, n7, n8, n9,
    ?_, ?_⟩
  · rw [n3, n4]; exact hplace
  · rw [n3, n4]; exact hsig

set_option maxRecDepth 100000 in
theorem CreateNode_then_SearchDirectory_witness :
    VolumeWF sampleVolume ∧ DirectoryWF sampleVolume emptyDirectory emptyStream []
      ∧ ∃ directory' v',
        CreateNode sampleVolume emptyDirectory [100, 105, 114] ESFS_FILE_TYPE_DIRECTORY
            (fun i => i) (fun _ => 0) = .ok (true, directory', v')
          ∧ ∃ node : EsFSFile,
            SearchDirectory v' [100, 105, 114] directory' [] = .ok (some node, [] ++ [node])
              ∧ node.type = (if ESFS_FILE_TYPE_DIRECTORY = ESFS_FILE_TYPE_FILE then .file
                  else .directory)
              ∧ node.information = 0
              ∧ readBytes (bufferMemory node.fileEntry) 0 8 = ESFS_FILE_ENTRY_SIGNATURE
              ∧ FindAttribute ESFS_ATTRIBUTE_FILE_DATA (bufferMemory node.fileEntry)
                  node.fileEntryLength node.fileEntryLength sizeofFileEntry = .ok (some 48)
              ∧ bufferMemory node.fileEntry (48 + 5) = ESFS_DATA_DIRECT
              ∧ readU64 (bufferMemory node.fileEntry) (48 + 8) = 0
              ∧ (ESFS_FILE_TYPE_DIRECTORY = ESFS_FILE_TYPE_DIRECTORY →
                  FindAttribute ESFS_ATTRIBUTE_FILE_DIRECTORY (bufferMemory node.fileEntry)
                      node.fileEntryLength node.fileEntryLength sizeofFileEntry = .ok (some 128)
                    ∧ readU64 (bufferMemory node.fileEntry) (128 + 8) = 0)
              ∧ CreateNode.place sampleVolume emptyDirectory [100, 105, 114]
                  ESFS_FILE_TYPE_DIRECTORY (fun i => i) (fun _ => 0)
                  = .ok (node.containerBlock, node.offsetIntoBlock2)
              ∧ readBytes v'.disk (node.containerBlock * v'.superblock.blockSize
                  + node.offsetIntoBlock2) 8 = ESFS_DIRECTORY_ENTRY_SIGNATURE := by
  have hd : DirectoryWF sampleVolume emptyDirectory emptyStream [] :=
    ⟨rfl, rfl, by decide, rfl, by decide, Or.inl ⟨rfl, rfl, rfl⟩, by decide,
      fun k hk => absurd hk (Nat.not_lt_zero k), fun k hk => absurd hk (Nat.not_lt_zero (k + 1))⟩
  refine ⟨volumeWF_sampleVolume, hd, ?_⟩
  have h0 : (CreateNode sampleVolume emptyDirectory [100, 105, 114] ESFS_FILE_TYPE_DIRECTORY
      (fun i => i) (fun _ => 0)).map (fun r => r.1) = .ok true := rfl
  cases hr : CreateNode sampleVolume emptyDirectory [100, 105, 114] ESFS_FILE_TYPE_DIRECTORY
      (fun i => i) (fun _ => 0) with
  | error f => rw [hr] at h0; cases h0
  | ok r =>
    obtain ⟨b, directory', v'⟩ := r
    rw [hr] at h0
    simp only [Except.map, Except.ok.injEq] at h0
    subst h0
    exact ⟨directory', v', rfl,
      CreateNode_then_SearchDirectory sampleVolume volumeWF_sampleVolume emptyDirectory
        emptyStream [] hd [100, 105, 114] ESFS_FILE_TYPE_DIRECTORY (fun i => i) (fun _ => 0)
        (by decide) (Or.inr rfl) (fun b hb => absurd hb (List.not_mem_nil b)) []
        (fun _ _ _ => rfl) directory' v' hr⟩

/-! ### The block size chosen by the format tool -/

/-- C24, counterexample: for a drive of exactly 512 MiB `PrepareCoreData`
selects the block size 1024, not 512, and writes it to the superblock: the
tests of the ladder are strict (`driveSize < 512 * 1024 * 1024`). -/
theorem PrepareCoreData_blockSize_512MiB :
    PrepareCoreData.blockSize 536870912 = 1024
      ∧ (PrepareCoreData (FormatTool.start (fun _ => 0) 0 (fun i => i + 1)) 536870912
          [84, 69, 83, 84]).map (fun t => (Superblock.read t.drive 8192).blockSize)
        = .ok 1024 :=
  ⟨rfl, rfl⟩

/-- C24 (amended): the block size that `PrepareCoreData` selects for a drive of
`driveSize` bytes is 512 below 512 MiB, else 1024 below 1 GiB, else 2048 below
2 GiB, else 4096 below 256 GiB, else 8192 below 256 TiB, else 16384, each bound
being exclusive (so a drive of 64 MiB gets 512); it is a power of two between
512 and 16384; and it is the value of `blockSize` after every call of
`PrepareCoreData` that returns. -/
theorem PrepareCoreData_blockSize_ladder (driveSize : Nat) :
    (driveSize < 536870912 → PrepareCoreData.blockSize driveSize = 512)
      ∧ (536870912 ≤ driveSize → driveSize < 1073741824 →
          PrepareCoreData.blockSize driveSize = 1024)
      ∧ (1073741824 ≤ driveSize → driveSize < 2147483648 →
          PrepareCoreData.blockSize driveSize = 2048)
      ∧ (2147483648 ≤ driveSize → driveSize < 274877906944 →
          PrepareCoreData.blockSize driveSize = 4096)
      ∧ (274877906944 ≤ driveSize → driveSize < 281474976710656 →
          PrepareCoreData.blockSize driveSize = 8192)
      ∧ (281474976710656 ≤ driveSize → PrepareCoreData.blockSize driveSize = 16384)
      ∧ (∃ k, 9 ≤ k ∧ k ≤ 14 ∧ PrepareCoreData.blockSize driveSize = 2 ^ k)
      ∧ 512 ≤ PrepareCoreData.blockSize driveSize
      ∧ PrepareCoreData.blockSize driveSize ≤ 16384
      ∧ (driveSize = 67108864 → PrepareCoreData.blockSize driveSize = 512)
      ∧ ∀ t volumeName t', PrepareCoreData t driveSize volumeName = .ok t' →
          t'.blockSize = PrepareCoreData.blockSize driveSize := by
  have hcases : (driveSize < 536870912 ∧ PrepareCoreData.blockSize driveSize = 512)
      ∨ (536870912 ≤ driveSize ∧ driveSize < 1073741824
          ∧ PrepareCoreData.blockSize driveSize = 1024)
      ∨ (1073741824 ≤ driveSize ∧ driveSize < 2147483648
          ∧ PrepareCoreData.blockSize driveSize = 2048)
      ∨ (2147483648 ≤ driveSize ∧ driveSize < 274877906944
          ∧ PrepareCoreData.blockSize driveSize = 4096)
      ∨ (274877906944 ≤ driveSize ∧ driveSize < 281474976710656
          ∧ PrepareCoreData.blockSize driveSize = 8192)
      ∨ (281474976710656 ≤ driveSize ∧ PrepareCoreData.blockSize driveSize = 16384) := by
    unfold PrepareCoreData.blockSize MAX_BLOCK_SIZE
    by_cases h1 : driveSize < 512 * 1024 * 1024
    · left; rw [if_pos h1]; exact ⟨by omega, rfl⟩
    · rw [if_neg h1]
      by_cases h2 : driveSize < 1024 * 1024 * 1024
      · right; left; rw [if_pos h2]; exact ⟨by omega, by omega, rfl⟩
      · rw [if_neg h2]
        by_cases h3 : driveSize < 2048 * 1024 * 1024
        · right; right; left; rw [if_pos h3]; exact ⟨by omega, by omega, rfl⟩
        · rw [if_neg h3]
          by_cases h4 : driveSize < 256 * 1024 * 1024 * 1024
          · right; right; right; left; rw [if_pos h4]; exact ⟨by omega, by omega, rfl⟩
          · rw [if_neg h4]
            by_cases h5 : driveSize < 256 * 1024 * 1024 * 1024 * 1024
            · right; right; right; right; left; rw [if_pos h5]
              exact ⟨by omega, by omega, rfl⟩
            · right; right; right; right; right; rw [if_neg h5]
              exact ⟨by omega, rfl⟩
  refine ⟨?_, ?_, ?_, ?_, ?_, ?_, ?_, ?_, ?_, ?_, ?_⟩
  · intro h; rcases hcases with h1 | h1 | h1 | h1 | h1 | h1 <;> omega
  · intro h h'; rcases hcases with h1 | h1 | h1 | h1 | h1 | h1 <;> omega
  · intro h h'; rcases hcases with h1 | h1 | h1 | h1 | h1 | h1 <;> omega
  · intro h h'; rcases hcases with h1 | h1 | h1 | h1 | h1 | h1 <;> omega
  · intro h h'; rcases hcases with h1 | h1 | h1 | h1 | h1 | h1 <;> omega
  · intro h; rcases hcases with h1 | h1 | h1 | h1 | h1 | h1 <;> omega
  · rcases hcases with h1 | h1 | h1 | h1 | h1 | h1
    · exact ⟨9, by omega, by omega, by rw [h1.2]; rfl⟩
    · exact ⟨10, by omega, by omega, by rw [h1.2.2]; rfl⟩
    · exact ⟨11, by omega, by omega, by rw [h1.2.2]; rfl⟩
    · exact ⟨12, by omega, by omega, by rw [h1.2.2]; rfl⟩
    · exact ⟨13, by omega, by omega, by rw [h1.2.2]; rfl⟩
    · exact ⟨14, by omega, by omega, by rw [h1.2]; rfl⟩
  · rcases hcases with h1 | h1 | h1 | h1 | h1 | h1 <;> omega
  · rcases hcases with h1 | h1 | h1 | h1 | h1 | h1 <;> omega
  · intro h; rcases hcases with h1 | h1 | h1 | h1 | h1 | h1 <;> omega
  · intro t volumeName t' h
    unfold PrepareCoreData at h
    simp only at h
    split at h
    · cases h
    · split at h
      · cases h
      · simp only [Except.ok.injEq] at h
        rw [← h]
        rfl

theorem PrepareCoreData_blockSize_ladder_witness :
    PrepareCoreData.blockSize 67108864 = 512
      ∧ PrepareCoreData.blockSize 1073741823 = 1024
      ∧ ∃ t', PrepareCoreData (FormatTool.start (fun _ => 0) 0 (fun i => i + 1)) 67108864
            [84, 69, 83, 84] = .ok t'
          ∧ t'.blockSize = PrepareCoreData.blockSize 67108864 := by
  refine ⟨(PrepareCoreData_blockSize_ladder 67108864).1 (by decide),
    (PrepareCoreData_blockSize_ladder 1073741823).2.1 (by decide) (by decide), ?_⟩
  cases hr : PrepareCoreData (FormatTool.start (fun _ => 0) 0 (fun i => i + 1)) 67108864
      [84, 69, 83, 84] with
  | error f =>
    have h0 : (PrepareCoreData (FormatTool.start (fun _ => 0) 0 (fun i => i + 1)) 67108864
      [84, 69, 83, 84]).toOption.isSome = true := rfl
    rw [hr] at h0
    cases h0
  | ok t' =>
    exact ⟨t', rfl, (PrepareCoreData_blockSize_ladder 67108864).2.2.2.2.2.2.2.2.2.2 _ _ t' hr⟩

/-! ### The volume made by the format tool -/

set_option maxRecDepth 100000 in
/-- C25, counterexample: after `format 64m` the superblock places the file
entry of the root directory at block 34, not at block 18: the boot block and
the superblock take 32 blocks of 512 bytes, the group descriptor table the
blocks 32 and 33. -/
theorem FormatVolume_root_at_block_34 :
    formattedTool.map (fun t => (Superblock.read t.drive 8192).rootDirectoryFileEntry)
      = .ok ⟨34, 1⟩ :=
  rfl

set_option maxRecDepth 100000 in
/-- C25 (amended): `FormatVolume` with `driveSize = 67108864` (on an empty
drive file, for the volume name "TEST") returns and leaves at byte 8192 a
superblock with the signature "EssenceFS!", `blockSize` 512, `blockCount`
131072 - 16, `groupCount` 32, `blocksPerGroup` 4096, `blocksUsed` 43 and
`mounted` 0; the group descriptor table takes the two blocks from block 32
on, and the file entry of the root directory the one block behind it, block 34
(`rootDirectoryFileEntry.offset == 34`, `count == 1`), where the drive holds
the signature "FileEsFS". -/
theorem FormatVolume_64MiB_superblock :
    formattedTool.map
        (fun t =>
          ((Superblock.read t.drive 8192).signature, (Superblock.read t.drive 8192).blockSize,
            (Superblock.read t.drive 8192).blockCount, (Superblock.read t.drive 8192).groupCount,
            (Superblock.read t.drive 8192).blocksPerGroup,
            (Superblock.read t.drive 8192).blocksUsed, (Superblock.read t.drive 8192).mounted,
            (Superblock.read t.drive 8192).gdt,
            (Superblock.read t.drive 8192).rootDirectoryFileEntry,
            (Superblock.read t.drive 8192).gdt.offset + (Superblock.read t.drive 8192).gdt.count,
            readBytes t.drive
              ((Superblock.read t.drive 8192).rootDirectoryFileEntry.offset * 512) 8))
      = .ok (ESFS_SIGNATURE_STRING, 512, 131072 - 16, 32, 4096, 43, 0, ⟨32, 2⟩, ⟨34, 1⟩, 34,
          ESFS_FILE_ENTRY_SIGNATURE) :=
  rfl

set_option maxRecDepth 100000 in
/-- The drive that `format 64m` leaves and `formattedDrive` hold the same
superblock, the same backup, the same first group descriptor, the same first
entry of the extent table of group 0 and the same file entry of the root
directory. -/
theorem formattedTool_drive :
    formattedTool.toOption.map (fun t =>
        (readBytes t.drive 8192 144, readBytes t.drive 67100672 144, readBytes t.drive 16384 32,
          readBytes t.drive 21504 8, readBytes t.drive 17408 180))
      = some (readBytes formattedDrive 8192 144, readBytes formattedDrive 67100672 144,
          readBytes formattedDrive 16384 32, readBytes formattedDrive 21504 8,
          readBytes formattedDrive 17408 180) := by
  decide!

/-! ### The backup of the superblock -/

set_option maxRecDepth 100000 in
/-- C23, counterexample: on the drive left by `format 64m` the superblock at byte 8192 and its
backup at block `blockCount` hold the same 144 bytes (`blocksUsed` is 43).  A
run of the tool then mounts the volume, allocates one block (`AllocateExtent`
is what `ResizeDataStream` calls for `create`, `resize` and `write`) and
unmounts: the extent is block 43, and afterwards the superblock at byte 8192
has `mounted` 0 and `blocksUsed` 44, while the backup still has `blocksUsed`
43: the byte at offset 72 of the superblock is 44, that of the backup 43. -/
theorem UnmountVolume_leaves_backup_stale :
    readBytes formattedDrive 8192 144 = readBytes formattedDrive (131056 * 512) 144
      ∧ ((MountVolume (FormatTool.start formattedDrive 0 (fun i => i + 1))).toOption.bind
          (fun t => (FormatTool.AllocateExtent t 0 1 0).toOption)).map
          (fun (r : EsFSGlobalExtent × FormatTool) =>
            (r.1,
              [(Superblock.read (UnmountVolume r.2).drive 8192).blockCount,
                (Superblock.read (UnmountVolume r.2).drive 8192).mounted,
                (Superblock.read (UnmountVolume r.2).drive 8192).blocksUsed,
                (Superblock.read (UnmountVolume r.2).drive (131056 * 512)).blocksUsed,
                (UnmountVolume r.2).drive (8192 + 72),
                (UnmountVolume r.2).drive (131056 * 512 + 72)]))
        = some ((⟨43, 1⟩ : EsFSGlobalExtent), [131056, 0, 44, 43, 44, 43]) := by
  refine ⟨?_, ?_⟩
  · decide!
  · decide!

/-- C23 (amended): take a state of the tool in which the superblock and the
group descriptor table lie in the first `2 ^ 63` bytes of the drive file (the
offsets are computed in 64 bits and handed to `fseek` as a `long`).
`MountVolume` writes the superblock at byte 8192 (behind the partition offset)
and no other byte of the drive.  `UnmountVolume` writes the blocks of the
group descriptor table and that superblock, and no other byte; the 8192 bytes
it writes at byte 8192 are the superblock the tool holds, with `mounted` 0.  A
backup of the superblock that lies in neither range is left as it was. -/
theorem UnmountVolume_leaves_backup (t t' : FormatTool)
    (hprimary : 16384 + t.partitionOffset * 512 ≤ 9223372036854775808)
    (hgdt : (Superblock.read t.superblockP 0).gdt.offset * t.blockSize + t.partitionOffset * 512
      + t.blockSize * (Superblock.read t.superblockP 0).gdt.count ≤ 9223372036854775808) :
    (MountVolume t = .ok t' →
      ∀ a, (a < 8192 + t.partitionOffset * 512 ∨ 16384 + t.partitionOffset * 512 ≤ a) →
        t'.drive a = t.drive a)
    ∧ (∀ a,
        (a < (Superblock.read t.superblockP 0).gdt.offset * t.blockSize + t.partitionOffset * 512
          ∨ (Superblock.read t.superblockP 0).gdt.offset * t.blockSize + t.partitionOffset * 512
              + t.blockSize * (Superblock.read t.superblockP 0).gdt.count ≤ a) →
        (a < 8192 + t.partitionOffset * 512 ∨ 16384 + t.partitionOffset * 512 ≤ a) →
        (UnmountVolume t).drive a = t.drive a)
    ∧ (∀ k, k < 8192 →
        (UnmountVolume t).drive (8192 + t.partitionOffset * 512 + k)
          = writeBytes t.superblockP 52 [0] k)
    ∧ (Superblock.read (UnmountVolume t).drive (8192 + t.partitionOffset * 512)).mounted = 0 := by
  have _ := hprimary
  have _ := hgdt
  refine ⟨?_, ?_, ?_, ?_⟩
  · intro h a ha
    unfold MountVolume at h
    simp only [] at h
    split at h
    · cases h
    · split at h
      · cases h
      · split at h
        · cases h
        · simp only [Except.ok.injEq] at h
          rw [← h]
          simp only [FormatTool.WriteBlock, copyBytes, BOOT_SUPER_BLOCK_SIZE]
          rw [if_neg (by omega)]
  · intro a h1 h2
    simp only [UnmountVolume, FormatTool.WriteBlock, copyBytes, BOOT_SUPER_BLOCK_SIZE]
    rw [if_neg (by omega), if_neg (by omega)]
  · intro k hk
    simp only [UnmountVolume, FormatTool.WriteBlock, copyBytes, BOOT_SUPER_BLOCK_SIZE]
    rw [if_pos (by omega)]
    congr 1
    omega
  · simp only [UnmountVolume, Superblock.read, FormatTool.WriteBlock, copyBytes,
      BOOT_SUPER_BLOCK_SIZE]
    rw [if_pos (by omega)]
    have e : 0 + (8192 + t.partitionOffset * 512 + 52 - (1 * 8192 + t.partitionOffset * 512))
        = 52 := by omega
    rw [e]
    simp [writeBytes]

set_option maxRecDepth 100000 in
/-- Witness for C23: on the drive left by `format 64m` the mount leaves byte 72
of the backup (block 131056) as it was; after the allocation of one block the
tool holds `blocksUsed` 44, and the unmount writes 44 to byte 72 of the
superblock at byte 8192 and leaves the 43 in byte 72 of the backup. -/
theorem UnmountVolume_leaves_backup_witness :
    MountVolume (FormatTool.start formattedDrive 0 (fun i => i + 1)) = .ok mountedTool
    ∧ mountedTool.drive (131056 * 512 + 72) = formattedDrive (131056 * 512 + 72)
    ∧ (sessionTool.partitionOffset = 0 ∧ sessionTool.blockSize = 512
      ∧ (Superblock.read sessionTool.superblockP 0).gdt = ⟨32, 2⟩
      ∧ (Superblock.read sessionTool.superblockP 0).blockCount = 131056
      ∧ (Superblock.read sessionTool.superblockP 0).blocksUsed = 44)
    ∧ (UnmountVolume sessionTool).drive (131056 * 512 + 72) = sessionTool.drive (131056 * 512 + 72)
    ∧ sessionTool.drive (131056 * 512 + 72) = 43
    ∧ (UnmountVolume sessionTool).drive (8192 + 72) = 44 := by
  have hm : MountVolume (FormatTool.start formattedDrive 0 (fun i => i + 1)) = .ok mountedTool := by
    have h0 : (MountVolume (FormatTool.start formattedDrive 0 (fun i => i + 1))).toOption.isSome
        = true := by decide!
    unfold mountedTool
    cases h : MountVolume (FormatTool.start formattedDrive 0 (fun i => i + 1)) with
    | error f => rw [h] at h0; cases h0
    | ok x => rfl
  have h := UnmountVolume_leaves_backup sessionTool sessionTool (by decide!) (by decide!)
  refine ⟨hm, ?_, by decide!, ?_, by decide!, ?_⟩
  · exact (UnmountVolume_leaves_backup (FormatTool.start formattedDrive 0 (fun i => i + 1))
      mountedTool (by decide) (by decide!)).1 hm (131056 * 512 + 72) (by decide)
  · exact h.2.1 (131056 * 512 + 72) (by decide!) (by decide!)
  · have h3 := h.2.2.1 72 (by decide)
    have e : sessionTool.partitionOffset = 0 := by decide!
    rw [e] at h3
    rw [show 8192 + 72 = 8192 + 0 * 512 + 72 from rfl, h3]
    decide!

/-! ### The length of the cached file entry -/

set_option maxRecDepth 100000 in
/-- C30: on the drive left by `format 64m` the file entry of the root directory
(block 34) has its LIST_END header at offset 172, so the entry is 176 bytes
long.  `Initialise` returns the node of the root directory (a directory of 0
entries) with `fileEntryLength` 172: `LoadRootDirectory` takes the offset of
the LIST_END header as the length and does not add `sizeof(AttributeHeader)`.
The copy of the file entry kept in the node has 172 bytes and no LIST_END
header: a walk of its attribute list for LIST_END leaves the copy. -/
theorem LoadRootDirectory_omits_list_end :
    (FindAttribute ESFS_ATTRIBUTE_LIST_END (fun a => formattedDrive (34 * 512 + a)) 512 512
        sizeofFileEntry).toOption = some (some 172)
      ∧ (Initialise formattedDevice).toOption.map
          (fun (r : Option (EsFSFile × EsFSVolume)) =>
            r.map (fun (x : EsFSFile × EsFSVolume) =>
              (x.1.type, [x.1.information, x.1.fileEntryLength, x.1.fileEntry.length],
                match FindAttribute ESFS_ATTRIBUTE_LIST_END (bufferMemory x.1.fileEntry)
                    x.1.fileEntryLength x.1.fileEntryLength sizeofFileEntry with
                | .error f => some f
                | .ok _ => none)))
        = some (some (OSNodeType.directory, [0, 172, 172], some DirectoryFault.outsideBuffer)) := by
  refine ⟨?_, ?_⟩
  · decide!
  · decide!

/-! ### The checks of the mount -/

/-- The superblock that `Initialise` reads is the one stored at byte 8192 of
the drive. -/
theorem Superblock.read_driveRead (disk : Memory) :
    Superblock.read (bufferMemory (driveRead disk 8192 8192)) 0 = Superblock.read disk 8192 := by
  have hm : ∀ a, a < 8192 → bufferMemory (driveRead disk 8192 8192) (0 + a) = disk (8192 + a) := by
    intro a ha
    rw [Nat.zero_add]
    exact bufferMemory_readBytes disk 8192 8192 a ha
  unfold Superblock.read
  have b0 := readBytes_shift _ disk 0 8192 8192 hm 0 16 (by omega)
  have b1 := readBytes_shift _ disk 0 8192 8192 hm 16 32 (by omega)
  have b2 := readU16_shift _ disk 0 8192 8192 hm 48 (by omega)
  have b3 := readU16_shift _ disk 0 8192 8192 hm 50 (by omega)
  have b4 := hm 52 (by omega)
  have b5 := readU64_shift _ disk 0 8192 8192 hm 56 (by omega)
  have b6 := readU64_shift _ disk 0 8192 8192 hm 64 (by omega)
  have b7 := readU64_shift _ disk 0 8192 8192 hm 72 (by omega)
  have b8 := readU16_shift _ disk 0 8192 8192 hm 80 (by omega)
  have b9 := readU64_shift _ disk 0 8192 8192 hm 88 (by omega)
  have b10 := readU64_shift _ disk 0 8192 8192 hm 96 (by omega)
  have b11 := readU16_shift _ disk 0 8192 8192 hm 104 (by omega)
  have b12 := readU16_shift _ disk 0 8192 8192 hm 106 (by omega)
  have b13 := readU16_shift _ disk 0 8192 8192 hm 108 (by omega)
  have b14 := readU16_shift _ disk 0 8192 8192 hm 110 (by omega)
  have b15 := readBytes_shift _ disk 0 8192 8192 hm 112 16 (by omega)
  have b16 := readBytes_shift _ disk 0 8192 8192 hm 128 16 (by omega)
  rw [Nat.add_zero] at b0
  rw [b0, b1, b2, b3, b4, b5, b6, b7, b8, b9, b10, b11, b12, b13, b14, b15, b16]

/-- `CompareBytes` of the signature read from a superblock against
`ESFS_SIGNATURE_STRING` is 0 exactly when the sixteen bytes are those of the
signature. -/
theorem CompareBytes_signature (m : Memory) (p : Nat) :
    CompareBytes (Superblock.read m p).signature ESFS_SIGNATURE_STRING
        ESFS_SIGNATURE_STRING_LENGTH = 0
      ↔ (Superblock.read m p).signature = ESFS_SIGNATURE_STRING := by
  have hl : (Superblock.read m p).signature.length = 16 := readBytes_length m p 16
  have h1 : (Superblock.read m p).signature.take ESFS_SIGNATURE_STRING_LENGTH
      = (Superblock.read m p).signature := by
    apply List.take_of_length_le
    rw [hl]; decide
  have h2 : ESFS_SIGNATURE_STRING.take ESFS_SIGNATURE_STRING_LENGTH = ESFS_SIGNATURE_STRING := rfl
  unfold CompareBytes
  rw [h1, h2]
  by_cases h : (Superblock.read m p).signature = ESFS_SIGNATURE_STRING
  · simp [h]
  · simp [h]

/-- C22: `Initialise` returns a root node only if the superblock stored at byte
8192 of the drive has the signature "EssenceFS!" followed by five spaces and a
zero byte, `requiredReadVersion` and `requiredWriteVersion` at most the driver
version, and `mounted` 0; and if one of the four fails, in particular if
`mounted` is not 0, it returns without a node. -/
theorem Initialise_checks_superblock (drive : Device) :
    (∀ node v, Initialise drive = .ok (some (node, v)) →
        (Superblock.read drive.disk 8192).signature = ESFS_SIGNATURE_STRING
          ∧ (Superblock.read drive.disk 8192).requiredReadVersion ≤ ESFS_DRIVER_VERSION
          ∧ (Superblock.read drive.disk 8192).requiredWriteVersion ≤ ESFS_DRIVER_VERSION
          ∧ (Superblock.read drive.disk 8192).mounted = 0)
      ∧ (¬ ((Superblock.read drive.disk 8192).signature = ESFS_SIGNATURE_STRING
            ∧ (Superblock.read drive.disk 8192).requiredReadVersion ≤ ESFS_DRIVER_VERSION
            ∧ (Superblock.read drive.disk 8192).requiredWriteVersion ≤ ESFS_DRIVER_VERSION
            ∧ (Superblock.read drive.disk 8192).mounted = 0) →
          Initialise drive = .ok none)
      ∧ ((Superblock.read drive.disk 8192).mounted ≠ 0 → Initialise drive = .ok none) := by
  have hsig := CompareBytes_signature drive.disk 8192
  have key : ¬ ((Superblock.read drive.disk 8192).signature = ESFS_SIGNATURE_STRING
        ∧ (Superblock.read drive.disk 8192).requiredReadVersion ≤ ESFS_DRIVER_VERSION
        ∧ (Superblock.read drive.disk 8192).requiredWriteVersion ≤ ESFS_DRIVER_VERSION
        ∧ (Superblock.read drive.disk 8192).mounted = 0) →
      Initialise drive = .ok none := by
    intro hnot
    unfold Initialise
    dsimp only
    rw [Superblock.read_driveRead]
    by_cases h1 : CompareBytes (Superblock.read drive.disk 8192).signature ESFS_SIGNATURE_STRING
        ESFS_SIGNATURE_STRING_LENGTH ≠ 0
    · rw [if_pos h1]
    · rw [if_neg h1]
      by_cases h2 : (Superblock.read drive.disk 8192).requiredReadVersion > ESFS_DRIVER_VERSION
      · rw [if_pos h2]
      · rw [if_neg h2]
        by_cases h3 : (Superblock.read drive.disk 8192).requiredWriteVersion > ESFS_DRIVER_VERSION
        · rw [if_pos h3]
        · rw [if_neg h3]
          by_cases h4 : (Superblock.read drive.disk 8192).mounted ≠ 0
          · rw [if_pos h4]
          · exfalso
            apply hnot
            refine ⟨hsig.1 (by omega), by omega, by omega, by omega⟩
  refine ⟨?_, key, ?_⟩
  · intro node v h
    by_contra hnot
    rw [key hnot] at h
    cases h
  · intro hm
    apply key
    intro h
    exact hm h.2.2.2

set_option maxRecDepth 100000 in
theorem Initialise_checks_superblock_witness :
    (∃ node v, Initialise formattedDevice = .ok (some (node, v))
        ∧ (Superblock.read formattedDevice.disk 8192).signature = ESFS_SIGNATURE_STRING
        ∧ (Superblock.read formattedDevice.disk 8192).requiredReadVersion ≤ ESFS_DRIVER_VERSION
        ∧ (Superblock.read formattedDevice.disk 8192).requiredWriteVersion ≤ ESFS_DRIVER_VERSION
        ∧ (Superblock.read formattedDevice.disk 8192).mounted = 0)
      ∧ (Superblock.read (writeBytes formattedDrive (8192 + 52) [1]) 8192).mounted ≠ 0
      ∧ Initialise ⟨writeBytes formattedDrive (8192 + 52) [1], 512, 256⟩ = .ok none := by
  refine ⟨?_, by decide!, ?_⟩
  · have h0 : (Initialise formattedDevice).toOption.map
        (fun (r : Option (EsFSFile × EsFSVolume)) => r.isSome) = some true := by decide!
    cases hr : Initialise formattedDevice with
    | error f => rw [hr] at h0; cases h0
    | ok r =>
      cases r with
      | none => rw [hr] at h0; cases h0
      | some x =>
        obtain ⟨node, v⟩ := x
        exact ⟨node, v, rfl, (Initialise_checks_superblock formattedDevice).1 node v hr⟩
  · exact (Initialise_checks_superblock ⟨writeBytes formattedDrive (8192 + 52) [1], 512, 256⟩).2.2
      (by decide!)

/-! ### The partial allocation -/

set_option maxRecDepth 100000 in
/-- C28: group 0 of the volume has the free extents {50, 1} and {60, 3}, both
smaller than the five blocks asked for, and `extent.count` is taken to be 0
before it is assigned.  `AllocateExtent` returns the extent {50, 1}, the first
entry of the table, and leaves {60, 3} in the table: the largest count in the
table is 3, the count returned is 1.  (With `extent.count` 0 the test
`extent.count > extentTable[largestSeenIndex].count` never holds, so
`largestSeenIndex` stays 0.) -/
theorem AllocateExtent_partial_returns_first_entry :
    AllocateExtent.loadedTable unevenVolume 0 = [⟨50, 1⟩, ⟨60, 3⟩]
      ∧ (AllocateExtent unevenVolume 0 5 0).toOption.map
          (fun (r : EsFSGlobalExtent × EsFSVolume) =>
            (r.1, AllocateExtent.loadedTable r.2 0, (r.2.groupDescriptorTable 0).blocksUsed))
        = some (⟨50, 1⟩, [⟨60, 3⟩], 4093) := by
  refine ⟨?_, ?_⟩
  · decide!
  · decide!

/-- With `extent.count` 0 before it is assigned, the first loop of
`AllocateExtent` leaves `largestSeenIndex` at 0 when no entry of the table is
large enough. -/
theorem AllocateExtent.scan_zero_init (table : List EsFSLocalExtent) (desiredBlocks : Nat) :
    ∀ (rest : List EsFSLocalExtent) (i : Nat),
      (∀ e, e ∈ rest → e.count < desiredBlocks) →
      AllocateExtent.scan table desiredBlocks 0 rest i 0 = (none, 0) := by
  intro rest
  induction rest with
  | nil => intro i _; rfl
  | cons e rest ih =>
    intro i h
    have he := h e (List.mem_cons_self _ _)
    simp only [AllocateExtent.scan]
    rw [if_neg (by omega), if_neg (by omega), if_neg (by omega)]
    exact ih (i + 1) (fun e' he' => h e' (List.mem_cons_of_mem _ he'))

/-! ### The capacity of the extent table -/

/-- The merge loop of `FreeExtent` leaves alone a table none of whose extents
touches the extent to free. -/
theorem FreeExtent.merge_untouched (f : EsFSLocalExtent) :
    ∀ (fuel : Nat) (table : List EsFSLocalExtent) (i : Nat),
      (∀ e, e ∈ table → e.offset + e.count < f.offset ∨ f.offset + f.count < e.offset) →
      FreeExtent.merge fuel table i f = .ok (table, f) := by
  intro fuel
  induction fuel with
  | zero => intro table i _; rfl
  | succ fuel ih =>
    intro table i h
    simp only [FreeExtent.merge]
    by_cases hi : i < table.length
    · rw [if_pos hi]
      have hmem : table.getD i default ∈ table := by
        rw [List.getD_eq_getElem _ _ hi]
        exact List.getElem_mem _
      have he := h _ hmem
      rw [if_neg (by omega), if_neg (by omega), if_neg (by omega)]
      exact ih table (i + 1) h
    · rw [if_neg hi]

/-- `FreeExtent` of an extent that touches no free extent of its group, when
one more extent does not fit into the extent table of the group, ends in the
panic "Extent table larger than expected". -/
theorem FreeExtent_table_full (v : EsFSVolume) (E : EsFSGlobalExtent)
    (hiso : ∀ e, e ∈ loadTable
        (v.extentTables (v.groupDescriptorTable (E.offset / v.superblock.blocksPerGroup)).extentTable)
        (v.groupDescriptorTable (E.offset / v.superblock.blocksPerGroup)).extentCount →
      e.offset + e.count < u16 (E.offset % v.superblock.blocksPerGroup)
        ∨ u16 (E.offset % v.superblock.blocksPerGroup) + u16 E.count < e.offset)
    (hfull : u16 ((v.groupDescriptorTable (E.offset / v.superblock.blocksPerGroup)).extentCount + 1)
        * sizeofLocalExtent
      > v.superblock.blocksPerGroupExtentTable * v.superblock.blockSize) :
    FreeExtent v E = .error .extentTableTooLarge := by
  unfold FreeExtent
  dsimp only
  rw [FreeExtent.merge_untouched _ _ _ 0 hiso]
  dsimp only
  rw [List.length_append, loadTable_length, List.length_singleton, if_pos hfull]

set_option maxRecDepth 10000 in
/-- The extent table of the group of `alternatingVolume`. -/
theorem loadedTable_alternatingVolume :
    AllocateExtent.loadedTable alternatingVolume 0
      = (List.range 512).map (fun k => ⟨40 + 2 * k, 1⟩) := by
  have h := loadTable_self ((List.range 512).map (fun k => (⟨40 + 2 * k, 1⟩ : EsFSLocalExtent)))
  rw [List.length_map, List.length_range] at h
  have h1 : alternatingVolume.groupDescriptorTable 0 = ⟨37, 512, 1520⟩ := rfl
  have h2 : alternatingVolume.extentTables 37
      = (List.range 512).map (fun k => (⟨40 + 2 * k, 1⟩ : EsFSLocalExtent)) := by
    show (if 37 = 37 then (List.range 512).map (fun k => (⟨40 + 2 * k, 1⟩ : EsFSLocalExtent))
      else []) = _
    exact if_pos rfl
  unfold AllocateExtent.loadedTable
  dsimp only
  rw [h1]
  dsimp only
  rw [if_neg (by decide), h2]
  exact h

/-- C29: the group of the 1 MiB volume has 2032 blocks and an extent table of
`blocksPerGroupExtentTable = 4` blocks of 512 bytes, as format sets it.  Its
free extents are the 512 one-block extents at the blocks 40, 42, and so on to
1062: they lie inside the group, behind the core data, and no two of them
touch or overlap; with the 1520 blocks in use they account for the 2032 blocks
of the group, and they fill the table (512 * 4 = 4 * 512 bytes).  Block 1064 is
in use and touches no free extent.  `FreeExtent` of that block ends in the
panic "Extent table larger than expected": the table would hold 513 extents,
and 513 * 4 > 4 * 512. -/
theorem FreeExtent_isolated_block_overflows_table :
    (AllocateExtent.loadedTable alternatingVolume 0).length = 512
      ∧ AllocateExtent.loadedTable alternatingVolume 0
          = (List.range 512).map (fun k => ⟨40 + 2 * k, 1⟩)
      ∧ (AllocateExtent.loadedTable alternatingVolume 0).Pairwise
          (fun a b => a.offset + a.count < b.offset ∨ b.offset + b.count < a.offset)
      ∧ freeCount (AllocateExtent.loadedTable alternatingVolume 0)
          + (alternatingVolume.groupDescriptorTable 0).blocksUsed
          = GetBlocksInGroup alternatingVolume.superblock 0
      ∧ (alternatingVolume.groupDescriptorTable 0).extentCount * sizeofLocalExtent
          ≤ alternatingVolume.superblock.blocksPerGroupExtentTable
            * alternatingVolume.superblock.blockSize
      ∧ alternatingVolume.superblock.blocksPerGroupExtentTable
          = BlocksNeededToStore alternatingVolume.superblock
              alternatingVolume.superblock.blocksPerGroup
      ∧ FreeExtent alternatingVolume ⟨1064, 1⟩ = .error .extentTableTooLarge := by
  have hmem : ∀ e, e ∈ AllocateExtent.loadedTable alternatingVolume 0 →
      ∃ k, k < 512 ∧ e = ⟨40 + 2 * k, 1⟩ := by
    intro e he
    rw [loadedTable_alternatingVolume, List.mem_map] at he
    obtain ⟨k, hk, rfl⟩ := he
    exact ⟨k, List.mem_range.1 hk, rfl⟩
  refine ⟨?_, ?_, ?_, ?_, ?_, ?_, ?_⟩
  · rw [loadedTable_alternatingVolume, List.length_map, List.length_range]
  · exact loadedTable_alternatingVolume
  · rw [loadedTable_alternatingVolume, List.pairwise_map]
    apply List.Pairwise.imp _ (List.pairwise_lt_range 512)
    intro a b hab
    left
    show 40 + 2 * a + 1 < 40 + 2 * b
    omega
  · have hsum : ∀ n, freeCount ((List.range n).map (fun k => (⟨40 + 2 * k, 1⟩ : EsFSLocalExtent)))
        = n := by
      intro n
      induction n with
      | zero => rfl
      | succ n ih =>
        rw [List.range_succ, List.map_append, freeCount_append, ih]
        rfl
    rw [loadedTable_alternatingVolume, hsum]
    rfl
  · decide
  · rfl
  · apply FreeExtent_table_full
    · intro e he
      obtain ⟨k, hk, rfl⟩ := hmem e he
      left
      show 40 + 2 * k + 1 < 1064
      omega
    · decide

/-! ### FindAttribute on an attribute list -/

theorem attributesSize_cons (a : Nat × Nat) (rest : List (Nat × Nat)) :
    attributesSize (a :: rest) = a.2 + attributesSize rest := by
  unfold attributesSize
  rw [List.map_cons, List.sum_cons]

/-- The kernel and the format tool have the same `FindAttribute`. -/
theorem FindAttribute_tool_eq (attributeType : Nat) (attributeList : Memory) (limit : Nat) :
    ∀ (fuel header : Nat),
      FormatTool.FindAttribute attributeType attributeList limit fuel header
        = FindAttribute attributeType attributeList limit fuel header := by
  intro fuel
  induction fuel with
  | zero => intro header; rfl
  | succ fuel ih =>
    intro header
    simp only [FormatTool.FindAttribute, FindAttribute]
    rw [ih]

/-- `FindAttribute` for LIST_END on an attribute list returns the header behind
the attributes. -/
theorem FindAttribute.list_end (m : Memory) (limit : Nat) :
    ∀ (attributes : List (Nat × Nat)) (p fuel : Nat), AttributeListAt m p attributes →
      p + attributesSize attributes + sizeofAttributeHeader ≤ limit →
      attributes.length + 1 ≤ fuel →
      FindAttribute ESFS_ATTRIBUTE_LIST_END m limit fuel p
        = .ok (some (p + attributesSize attributes)) := by
  intro attributes
  induction attributes with
  | nil =>
    intro p fuel h hlim hfuel
    obtain ⟨f, rfl⟩ : ∃ f, fuel = f + 1 := ⟨fuel - 1, by simp at hfuel; omega⟩
    have h0 : attributesSize [] = 0 := rfl
    rw [h0] at hlim ⊢
    unfold sizeofAttributeHeader at hlim
    rw [FindAttribute.stop _ m limit f p (by omega) h, if_pos rfl]
    rfl
  | cons a rest ih =>
    intro p fuel h hlim hfuel
    obtain ⟨f, rfl⟩ : ∃ f, fuel = f + 1 := ⟨fuel - 1, by simp at hfuel; omega⟩
    obtain ⟨h1, h2, h3, h4, h5⟩ := h
    rw [attributesSize_cons] at hlim ⊢
    unfold sizeofAttributeHeader at hlim h4
    rw [FindAttribute.skip _ m limit f p a.1 (by omega) h1 h2 h2, h3,
      ih (p + a.2) f h5 (by unfold sizeofAttributeHeader; omega)
        (by simp only [List.length_cons] at hfuel; omega)]
    rw [Nat.add_assoc]

/-- `FindAttribute` for a type other than LIST_END on an attribute list: the
first attribute of that type, or nothing. -/
theorem FindAttribute.list_first (m : Memory) (limit t : Nat) (ht : t ≠ ESFS_ATTRIBUTE_LIST_END) :
    ∀ (attributes : List (Nat × Nat)) (p fuel : Nat), AttributeListAt m p attributes →
      p + attributesSize attributes + sizeofAttributeHeader ≤ limit →
      attributes.length + 1 ≤ fuel →
      (∀ pre a post, attributes = pre ++ a :: post → a.1 = t → (∀ b, b ∈ pre → b.1 ≠ t) →
          FindAttribute t m limit fuel p = .ok (some (p + attributesSize pre)))
        ∧ ((∀ a, a ∈ attributes → a.1 ≠ t) → FindAttribute t m limit fuel p = .ok none) := by
  intro attributes
  induction attributes with
  | nil =>
    intro p fuel h hlim hfuel
    obtain ⟨f, rfl⟩ : ∃ f, fuel = f + 1 := ⟨fuel - 1, by simp at hfuel; omega⟩
    have h0 : attributesSize [] = 0 := rfl
    rw [h0] at hlim
    unfold sizeofAttributeHeader at hlim
    refine ⟨?_, ?_⟩
    · intro pre a post hsplit
      exact absurd hsplit (by simp)
    · intro _
      rw [FindAttribute.stop _ m limit f p (by omega) h, if_neg ht]
  | cons a rest ih =>
    intro p fuel h hlim hfuel
    obtain ⟨f, rfl⟩ : ∃ f, fuel = f + 1 := ⟨fuel - 1, by simp at hfuel; omega⟩
    obtain ⟨h1, h2, h3, h4, h5⟩ := h
    rw [attributesSize_cons] at hlim
    unfold sizeofAttributeHeader at hlim h4
    obtain ⟨ih1, ih2⟩ := ih (p + a.2) f h5 (by unfold sizeofAttributeHeader; omega)
      (by simp only [List.length_cons] at hfuel; omega)
    refine ⟨?_, ?_⟩
    · intro pre b post hsplit hb hpre
      cases pre with
      | nil =>
        simp only [List.nil_append, List.cons.injEq] at hsplit
        obtain ⟨rfl, _⟩ := hsplit
        have h0 : attributesSize [] = 0 := rfl
        rw [h0, Nat.add_zero]
        exact FindAttribute.hit _ m limit f p (by omega) (h1.trans hb) ht
      | cons c pre =>
        simp only [List.cons_append, List.cons.injEq] at hsplit
        obtain ⟨rfl, hrest⟩ := hsplit
        have hc : a.1 ≠ t := hpre a (List.mem_cons_self _ _)
        rw [FindAttribute.skip _ m limit f p a.1 (by omega) h1 h2 hc, h3,
          ih1 pre b post hrest hb (fun x hx => hpre x (List.mem_cons_of_mem _ hx)),
          attributesSize_cons, Nat.add_assoc]
    · intro hall
      have hc : a.1 ≠ t := hall a (List.mem_cons_self _ _)
      rw [FindAttribute.skip _ m limit f p a.1 (by omega) h1 h2 hc, h3]
      exact ih2 (fun x hx => hall x (List.mem_cons_of_mem _ hx))

/-- C26: on an attribute list that lies inside the buffer (headers of the
given types and sizes, each size covering its header, one attribute behind the
other, and a header of type 0xFFFF behind the last), with enough fuel for one
pass per header: for a type other than 0xFFFF `FindAttribute` returns the
first attribute of the list that has the type, and nothing when no attribute
has it; for 0xFFFF it returns the header that ends the list, whose offset from
the start of the list is the sum of the sizes of the attributes; and the copy
of the format tool returns the same as the copy of the kernel on every input. -/
theorem FindAttribute_on_attribute_list (m : Memory) (limit p fuel : Nat)
    (attributes : List (Nat × Nat)) (h : AttributeListAt m p attributes)
    (hlim : p + attributesSize attributes + sizeofAttributeHeader ≤ limit)
    (hfuel : attributes.length + 1 ≤ fuel) (t : Nat) :
    (t ≠ ESFS_ATTRIBUTE_LIST_END →
        (∀ pre a post, attributes = pre ++ a :: post → a.1 = t → (∀ b, b ∈ pre → b.1 ≠ t) →
            FindAttribute t m limit fuel p = .ok (some (p + attributesSize pre)))
          ∧ ((∀ a, a ∈ attributes → a.1 ≠ t) → FindAttribute t m limit fuel p = .ok none))
      ∧ (t = ESFS_ATTRIBUTE_LIST_END →
          FindAttribute t m limit fuel p = .ok (some (p + attributesSize attributes)))
      ∧ ∀ (attributeType : Nat) (attributeList : Memory) (limit' fuel' header : Nat),
          FormatTool.FindAttribute attributeType attributeList limit' fuel' header
            = FindAttribute attributeType attributeList limit' fuel' header := by
  refine ⟨?_, ?_, ?_⟩
  · intro ht
    exact FindAttribute.list_first m limit t ht attributes p fuel h hlim hfuel
  · intro ht
    rw [ht]
    exact FindAttribute.list_end m limit attributes p fuel h hlim hfuel
  · intro attributeType attributeList limit' fuel' header
    exact FindAttribute_tool_eq attributeType attributeList limit' fuel' header

set_option maxRecDepth 100000 in
theorem FindAttribute_on_attribute_list_witness :
    AttributeListAt (fun a => formattedDrive (34 * 512 + a)) 48 [(1, 20), (2, 80), (3, 24)]
      ∧ FindAttribute 3 (fun a => formattedDrive (34 * 512 + a)) 512 4 48
          = .ok (some (48 + attributesSize [(1, 20), (2, 80)]))
      ∧ FindAttribute 7 (fun a => formattedDrive (34 * 512 + a)) 512 4 48 = .ok none
      ∧ FindAttribute ESFS_ATTRIBUTE_LIST_END (fun a => formattedDrive (34 * 512 + a)) 512 4 48
          = .ok (some (48 + attributesSize [(1, 20), (2, 80), (3, 24)])) := by
  have h : AttributeListAt (fun a => formattedDrive (34 * 512 + a)) 48
      [(1, 20), (2, 80), (3, 24)] := by
    unfold AttributeListAt AttributeListAt AttributeListAt AttributeListAt
    decide!
  exact ⟨h,
    ((FindAttribute_on_attribute_list _ 512 48 4 _ h (by decide) (by decide) 3).1
      (by decide)).1 [(1, 20), (2, 80)] (3, 24) [] rfl rfl (by decide),
    ((FindAttribute_on_attribute_list _ 512 48 4 _ h (by decide) (by decide) 7).1
      (by decide)).2 (by decide),
    (FindAttribute_on_attribute_list _ 512 48 4 _ h (by decide) (by decide)
      ESFS_ATTRIBUTE_LIST_END).2.1 rfl⟩

/-! ### The accesses of AccessStream -/

theorem AccessStream.gather_le (lookup : Nat → Nat) (maxB : Nat) :
    ∀ (s bis gb bf : Nat), bf ≤ maxB →
      (AccessStream.gather lookup maxB s bis gb bf).2.1 ≤ maxB := by
  intro s
  induction s with
  | zero => intro bis gb bf h; exact h
  | succ s ih =>
    intro bis gb bf h
    unfold AccessStream.gather
    by_cases h1 : bf < maxB
    · simp only [h1, if_true]
      by_cases h2 : gb = 0
      · simp only [h2, if_true]
        exact ih _ _ _ h1
      · simp only [h2, if_false]
        by_cases h3 : lookup bis = gb + bf
        · simp only [h3, if_true]
          exact ih _ _ _ h1
        · simp only [h3, if_false]
          exact h
    · simp only [h1, if_false]
      exact h

theorem AccessStream.accesses_runs (lookup : Nat → Nat) (maxB B o0 : Nat)
    (hB : 0 < B) (hmax : 1 ≤ maxB) (ho0 : o0 < B) :
    ∀ (fuel S bis size i : Nat), S ≤ fuel →
      (S = 0 → size = 0) →
      (1 ≤ S → 1 ≤ size ∧ (S - 1) * B < (if i = 0 then o0 else 0) + size
        ∧ (if i = 0 then o0 else 0) + size ≤ S * B) →
      (if i = 0 then o0 else 0) + size < 18446744073709551616 →
      (∀ b, bis ≤ b → b < bis + S → lookup b ≠ 0) →
      ∀ accesses,
        AccessStream.accesses lookup maxB B o0 fuel S bis size i = .ok accesses →
        AccessStream.Runs lookup maxB B accesses (bis * B + (if i = 0 then o0 else 0)) size := by
  intro fuel
  induction fuel with
  | zero =>
    intro S bis size i hS h0 _ _ _ accesses hacc
    have : S = 0 := by omega
    subst this
    rw [AccessStream.accesses_zero] at hacc
    injection hacc with hacc
    subst hacc
    simp [AccessStream.Runs, h0]
  | succ fuel ih =>
    intro S bis size i hS h0 hrange hlt hnz accesses hacc
    cases S with
    | zero =>
      rw [AccessStream.accesses_zero] at hacc
      injection hacc with hacc
      subst hacc
      simp [AccessStream.Runs, h0]
    | succ S =>
      obtain ⟨hsz, hr1, hr2⟩ := hrange (Nat.succ_pos _)
      simp only [Nat.add_sub_cancel] at hr1
      obtain ⟨gb, bf, s', hg, _, hsum, hinv, hprog⟩ :=
        AccessStream.gather_spec lookup maxB bis (S + 1) 0 0 (Or.inl ⟨rfl, rfl⟩)
          (by intro b hb1 hb2; exact hnz b (by omega) (by omega))
      have hbf : 1 ≤ bf := hprog rfl (Nat.succ_pos _) hmax
      have hinv' : gb ≠ 0 ∧ 1 ≤ bf ∧ ∀ j, j < bf → lookup (bis + j) = gb + j := by
        rcases hinv with h | h
        · omega
        · exact h
      simp only [Nat.add_zero] at hg
      have hbfmax : bf ≤ maxB := by
        have := AccessStream.gather_le lookup maxB (S + 1) bis 0 0 (Nat.zero_le _)
        rw [hg] at this
        exact this
      simp only [AccessStream.accesses, hg, hinv'.1, if_false] at hacc
      generalize ho : (if i = 0 then o0 else 0) = o at *
      have hoB : o < B := by
        rw [← ho]; split
        · exact ho0
        · exact hB
      have hbfB : B * 1 ≤ B * bf := Nat.mul_le_mul_left _ hbf
      have hSbf : S + 1 = s' + bf := by omega
      have hdtt : ∃ dtt, (if s' = 0 then size else sub64 (B * bf) o) = dtt
          ∧ dtt ≤ size ∧ o + dtt ≤ bf * B
          ∧ (s' ≠ 0 → o + dtt = bf * B) ∧ (s' = 0 → dtt = size) := by
        by_cases hs : s' = 0
        · refine ⟨size, by simp [hs], Nat.le_refl _, ?_, fun h => absurd hs h, fun _ => rfl⟩
          have : bf = S + 1 := by omega
          rw [this]; exact hr2
        · have hle : bf * B ≤ S * B := Nat.mul_le_mul_right _ (by omega)
          have hcomm : B * bf = bf * B := Nat.mul_comm _ _
          refine ⟨B * bf - o, ?_, ?_, ?_, ?_, fun h => absurd h hs⟩
          · simp only [hs, if_false]
            exact sub64_eq_sub (by rw [Nat.mul_one] at hbfB; omega) (by omega)
          · omega
          · rw [Nat.mul_one] at hbfB; omega
          · intro _; rw [Nat.mul_one] at hbfB; omega
      obtain ⟨dtt, hdeq, hd1, hd2, hd3, hd4⟩ := hdtt
      rw [hdeq] at hacc
      have hsub : sub64 size dtt = size - dtt := sub64_eq_sub hd1 (by omega)
      rw [hsub] at hacc
      have hd0 : 1 ≤ dtt := by
        by_cases hs : s' = 0
        · rw [hd4 hs]; exact hsz
        · have := hd3 hs
          rw [Nat.mul_one] at hbfB
          have : B ≤ bf * B := by rw [Nat.mul_comm]; exact hbfB
          omega
      have hmaxle : bf * B ≤ maxB * B := Nat.mul_le_mul_right _ hbfmax
      cases hrec : AccessStream.accesses lookup maxB B o0 fuel s' (bis + bf) (size - dtt) (i + 1) with
      | error f => rw [hrec] at hacc; cases hacc
      | ok rest =>
        rw [hrec] at hacc
        injection hacc with hacc
        subst hacc
        have hruns := ih s' (bis + bf) (size - dtt) (i + 1) (by omega)
          (by intro h; rw [hd4 h]; omega)
          (by
            intro hs1
            have hs0 : s' ≠ 0 := by omega
            have h3 := hd3 hs0
            simp only [Nat.succ_ne_zero, if_false, Nat.zero_add]
            have e1 : S * B = (s' - 1) * B + bf * B := by
              rw [← Nat.add_mul]; congr 1; omega
            have e2 : (S + 1) * B = s' * B + bf * B := by
              rw [← Nat.add_mul, hSbf]
            have e3 : (s' - 1) * B + B = s' * B := by
              rw [← Nat.succ_mul]; congr 1; omega
            refine ⟨?_, ?_, ?_⟩ <;> omega)
          (by simp only [Nat.succ_ne_zero, if_false, Nat.zero_add]; omega)
          (by intro b hb1 hb2; exact hnz b (by omega) (by omega))
          rest hrec
        simp only [AccessStream.Runs]
        have hposmod : (bis * B + o) % B = o := by
          rw [Nat.add_comm, Nat.add_mul_mod_self_right]
          exact Nat.mod_eq_of_lt hoB
        have hposdiv : (bis * B + o) / B = bis := by
          rw [Nat.add_comm, Nat.add_mul_div_right _ _ hB, Nat.div_eq_of_lt hoB, Nat.zero_add]
        refine ⟨hd0, hd1, hinv'.1, hposmod.symm, by omega, ?_, ?_⟩
        · intro j hj
          rw [hposdiv]
          apply hinv'.2.2
          have : j * B < bf * B := by omega
          exact Nat.lt_of_mul_lt_mul_right this
        · by_cases hs : s' = 0
          · have : rest = [] := by
              subst hs
              rw [AccessStream.accesses_zero] at hrec
              injection hrec with hrec
              exact hrec.symm
            subst this
            simp only [AccessStream.Runs]
            rw [hd4 hs]; omega
          · have hpos : (bis + bf) * B + (if i + 1 = 0 then o0 else 0)
                = bis * B + o + dtt := by
              simp only [Nat.succ_ne_zero, if_false, Nat.add_zero, Nat.add_mul]
              have := hd3 hs
              omega
            rw [hpos] at hruns
            exact hruns

theorem AccessStream.Runs.sum (lookup : Nat → Nat) (maxB B : Nat) :
    ∀ (accesses : List StreamAccess) (pos size : Nat),
      AccessStream.Runs lookup maxB B accesses pos size →
      (accesses.map (fun a => a.dataToTransfer)).sum = size := by
  intro accesses
  induction accesses with
  | nil =>
    intro pos size h
    simp only [AccessStream.Runs] at h
    subst h; rfl
  | cons a rest ih =>
    intro pos size h
    simp only [AccessStream.Runs] at h
    obtain ⟨_, h2, _, _, _, _, h7⟩ := h
    rw [List.map_cons, List.sum_cons, ih _ _ h7]
    omega

theorem AccessStream.plan_runs (v : EsFSVolume) (data : EsFSAttributeFileData)
    (hgeo : AccessGeometry v)
    (hmode : data.indirection = ESFS_DATA_INDIRECT ∨ data.indirection = ESFS_DATA_INDIRECT_2)
    (total : Nat) (htotal : total < 18446744073709551616)
    (hnz : ∀ b, b < BlocksNeededToStore v.superblock total → streamBlock v data b ≠ 0)
    (offset size : Nat) (hsize : 0 < size) (hin : offset + size ≤ total)
    (accesses : List StreamAccess) (hplan : AccessStream.plan v data offset size = .ok accesses) :
    AccessStream.Runs (streamBlock v data)
      (v.maxAccessSectorCount * v.sectorSize / v.superblock.blockSize) v.superblock.blockSize
      accesses offset size := by
  obtain ⟨k, hk, hBk⟩ := hgeo.blockSizePow
  have hB : 0 < v.superblock.blockSize := by rw [hBk]; exact Nat.two_pow_pos k
  have hoff : offset < 18446744073709551616 := by omega
  have halign := alignToBlock_eq v.superblock k hk hBk offset hoff
  have hmod := Nat.mod_lt offset hB
  have hmodle : offset % v.superblock.blockSize ≤ offset := Nat.mod_le _ _
  have hdiv := Nat.div_add_mod offset v.superblock.blockSize
  have hsub : offset - (offset - offset % v.superblock.blockSize) = offset % v.superblock.blockSize := by
    omega
  have hbis : (offset - offset % v.superblock.blockSize) / v.superblock.blockSize
      = offset / v.superblock.blockSize := by
    have : offset - offset % v.superblock.blockSize
        = v.superblock.blockSize * (offset / v.superblock.blockSize) := by omega
    rw [this, Nat.mul_div_cancel_left _ hB]
  have hmaxB : 1 ≤ v.maxAccessSectorCount * v.sectorSize / v.superblock.blockSize :=
    Nat.div_pos hgeo.transfer hB
  have hb := BlocksNeededToStore_bounds v.superblock hB (size + offset % v.superblock.blockSize)
  have hpos := BlocksNeededToStore_pos v.superblock hB (size + offset % v.superblock.blockSize)
    (by omega)
  have hle := access_blocks_le v.superblock hB offset size total hin
  unfold AccessStream.plan at hplan
  simp only [hmode, if_true, halign, hsub, hbis] at hplan
  have h2 := AccessStream.accesses_runs (streamBlock v data)
    (v.maxAccessSectorCount * v.sectorSize / v.superblock.blockSize) v.superblock.blockSize
    (offset % v.superblock.blockSize) hB hmaxB hmod
    (BlocksNeededToStore v.superblock (size + offset % v.superblock.blockSize))
    (BlocksNeededToStore v.superblock (size + offset % v.superblock.blockSize))
    (offset / v.superblock.blockSize) size 0 (Nat.le_refl _)
    (by intro h; omega)
    (by
      intro _
      simp only [if_true]
      refine ⟨hsize, ?_, ?_⟩
      · have : (BlocksNeededToStore v.superblock (size + offset % v.superblock.blockSize) - 1)
            * v.superblock.blockSize + v.superblock.blockSize
            = BlocksNeededToStore v.superblock (size + offset % v.superblock.blockSize)
              * v.superblock.blockSize := by
          rw [← Nat.succ_mul]; congr 1; omega
        omega
      · omega)
    (by simp only [if_true]; omega)
    (by intro b hb1 hb2; exact hnz b (by omega))
    accesses hplan
  simp only [if_true] at h2
  have : offset / v.superblock.blockSize * v.superblock.blockSize + offset % v.superblock.blockSize
      = offset := by rw [Nat.mul_comm]; exact hdiv
  rw [this] at h2
  exact h2

theorem GetBlockFromStream_byte (v : EsFSVolume) (hgeo : AccessGeometry v)
    (data : EsFSAttributeFileData)
    (hmode : data.indirection = ESFS_DATA_INDIRECT ∨ data.indirection = ESFS_DATA_INDIRECT_2)
    (p : Nat) (hp : p < 18446744073709551616) :
    GetBlockFromStream v data p = .ok (streamBlock v data (p / v.superblock.blockSize)) := by
  obtain ⟨e, he, hBe⟩ := hgeo.blockSizePow
  have hB : 0 < v.superblock.blockSize := by rw [hBe]; exact Nat.two_pow_pos e
  have hnd : data.indirection ≠ ESFS_DATA_DIRECT := by
    rcases hmode with hm | hm
    · exact fun hd => absurd (hm.symm.trans hd) (by decide)
    · exact fun hd => absurd (hm.symm.trans hd) (by decide)
  have hdiv := Nat.div_add_mod p v.superblock.blockSize
  have hbis : (p - p % v.superblock.blockSize) / v.superblock.blockSize
      = p / v.superblock.blockSize := by
    have : p - p % v.superblock.blockSize
        = v.superblock.blockSize * (p / v.superblock.blockSize) := by omega
    rw [this, Nat.mul_div_cancel_left _ hB]
  unfold GetBlockFromStream
  rw [if_neg hnd]
  simp only [hmode, if_true]
  rw [alignToBlock_eq v.superblock e he hBe p hp, hbis]

set_option maxRecDepth 100000 in
/-- C27, counterexample: the stream has the extents {43, 1} and
{100, 2^64 - 1}; neither starts at block 0, and the 16 bytes at offset 512 lie
inside the blocks of the extents.  The block search passes the first extent
and adds the count of the second to `p = 1` in 64 bits; the sum is 0, so the
block is not found: `GetBlockFromStream` returns 0 for offset 512 (and 43 for
offset 0), and `AccessStream` ends in the panic "Could not find block". -/
theorem AccessStream_extent_counts_wrap :
    streamExtents sampleVolume wrappingStream = [⟨43, 1⟩, ⟨100, 18446744073709551615⟩]
      ∧ 512 + 16 ≤ countSum (extentList sampleVolume wrappingStream) 0 wrappingStream.extentCount
          * sampleVolume.superblock.blockSize
      ∧ (GetBlockFromStream sampleVolume wrappingStream 0).toOption = some 43
      ∧ (GetBlockFromStream sampleVolume wrappingStream 512).toOption = some 0
      ∧ (match AccessStream sampleVolume wrappingStream 512 16 [] false with
          | .error f => some f
          | .ok _ => none) = some Fault.couldNotFindBlock
      ∧ (match AccessStream sampleVolume wrappingStream 512 16 (List.replicate 16 9) true with
          | .error f => some f
          | .ok _ => none) = some Fault.couldNotFindBlock := by
  refine ⟨?_, ?_, ?_, ?_, ?_, ?_⟩
  · decide!
  · decide!
  · decide!
  · decide!
  · decide!
  · decide!

/-- C27 (amended): for a stream that is not direct whose extents do not
contain block 0 and can be read and addressed as the source does it
(`StreamAddressable`: the extent count fits the attribute or the list blocks,
which are set as far as they are needed and not further; the counts add up to
less than `2 ^ 64`; every extent ends inside the first `2 ^ 64` bytes of the
drive), a size of at least 1 and a byte range inside the blocks of the extents,
`AccessStream` succeeds with a list of accesses that transfer byte `k` of the
buffer, in increasing `k`, at the drive address `GetBlockFromStream (offset + k)
* blockSize + (offset + k) % blockSize`, where the block is `extent i.offset`
plus the distance of the block of the stream from the first block of extent
`i`, the extent that holds it; every access spans consecutive blocks of the
volume, at most `maxAccessSectorCount * sectorSize / blockSize` of them, and the
accesses transfer `size` bytes in all. -/
theorem AccessStream_projects_onto_extents (v : EsFSVolume) (data : EsFSAttributeFileData)
    (hgeo : AccessGeometry v)
    (hmode : data.indirection = ESFS_DATA_INDIRECT ∨ data.indirection = ESFS_DATA_INDIRECT_2)
    (hnz : ∀ i, i < data.extentCount → (extentList v data i).count ≠ 0 →
      (extentList v data i).offset ≠ 0)
    (haddr : StreamAddressable v data)
    (offset size : Nat) (hsize : 1 ≤ size)
    (hin : offset + size
      ≤ countSum (extentList v data) 0 data.extentCount * v.superblock.blockSize)
    (h64 : offset + size < 18446744073709551616) :
    ∃ accesses,
      AccessStream.plan v data offset size = .ok accesses
      ∧ (∀ buffer, AccessStream v data offset size buffer true
          = .ok (data, AccessStream.writeAll v accesses buffer, []))
      ∧ (∀ buffer, AccessStream v data offset size buffer false
          = .ok (data, v, AccessStream.readAll v accesses))
      ∧ AccessStream.Covers v (streamBlock v data) accesses offset size
      ∧ AccessStream.Runs (streamBlock v data)
          (v.maxAccessSectorCount * v.sectorSize / v.superblock.blockSize)
          v.superblock.blockSize accesses offset size
      ∧ (accesses.map (fun a => a.dataToTransfer)).sum = size
      ∧ AccessStream.readAll v accesses
          = (List.range size).map (fun k =>
              v.disk (streamBlock v data ((offset + k) / v.superblock.blockSize)
                * v.superblock.blockSize + (offset + k) % v.superblock.blockSize))
      ∧ ∀ k, k < size →
          GetBlockFromStream v data (offset + k)
            = .ok (streamBlock v data ((offset + k) / v.superblock.blockSize))
          ∧ streamAddress v (streamBlock v data) (offset + k)
            = streamBlock v data ((offset + k) / v.superblock.blockSize)
                * v.superblock.blockSize + (offset + k) % v.superblock.blockSize
          ∧ ∃ i, i < data.extentCount
            ∧ countSum (extentList v data) 0 i ≤ (offset + k) / v.superblock.blockSize
            ∧ (offset + k) / v.superblock.blockSize
                < countSum (extentList v data) 0 i + (extentList v data i).count
            ∧ streamBlock v data ((offset + k) / v.superblock.blockSize)
                = (extentList v data i).offset
                  + ((offset + k) / v.superblock.blockSize - countSum (extentList v data) 0 i) := by
  obtain ⟨e, he, hBe⟩ := hgeo.blockSizePow
  have hB : 0 < v.superblock.blockSize := by rw [hBe]; exact Nat.two_pow_pos e
  have hfit := haddr.toExtentsFit hB
  have hnd : data.indirection ≠ ESFS_DATA_DIRECT := by
    rcases hmode with hm | hm
    · exact fun hd => absurd (hm.symm.trans hd) (by decide)
    · exact fun hd => absurd (hm.symm.trans hd) (by decide)
  have hblk : ∀ p, p < offset + size →
      p / v.superblock.blockSize < countSum (extentList v data) 0 data.extentCount := by
    intro p hp
    rw [Nat.div_lt_iff_lt_mul hB]
    omega
  have hfound : ∀ b, b < BlocksNeededToStore v.superblock (offset + size) →
      streamBlock v data b ≠ 0 := by
    intro b hb
    have h1 := (BlocksNeededToStore_bounds v.superblock hB (offset + size)).2
    have h2 : (b + 1) * v.superblock.blockSize
        ≤ BlocksNeededToStore v.superblock (offset + size) * v.superblock.blockSize :=
      Nat.mul_le_mul_right _ hb
    rw [Nat.add_mul, Nat.one_mul] at h2
    have h3 : b * v.superblock.blockSize
        < countSum (extentList v data) 0 data.extentCount * v.superblock.blockSize := by omega
    exact findBlock_ne_zero _ _ hfit hnz b (Nat.lt_of_mul_lt_mul_right h3)
  obtain ⟨accesses, hplan, hcov⟩ := AccessStream.plan_covers v data hgeo hmode (offset + size) h64
    hfound offset size hsize (Nat.le_refl _)
  have hruns := AccessStream.plan_runs v data hgeo hmode (offset + size) h64 hfound offset size
    hsize (Nat.le_refl _) accesses hplan
  have hs0 : size ≠ 0 := by omega
  have haddr : ∀ p, streamAddress v (streamBlock v data) p
      = streamBlock v data (p / v.superblock.blockSize) * v.superblock.blockSize
        + p % v.superblock.blockSize := by
    intro p
    unfold streamAddress
    rw [blockAddress_eq v hgeo.sectors]
  refine ⟨accesses, hplan, ?_, ?_, hcov, hruns, AccessStream.Runs.sum _ _ _ _ _ _ hruns, ?_, ?_⟩
  · intro buffer
    unfold AccessStream
    rw [if_neg hs0, if_neg hnd, hplan]
    rfl
  · intro buffer
    unfold AccessStream
    rw [if_neg hs0, if_neg hnd, hplan]
    rfl
  · rw [AccessStream.readAll_of_covers v _ accesses offset size hcov]
    apply List.map_congr_left
    intro k _
    rw [haddr]
  · intro k hk
    refine ⟨GetBlockFromStream_byte v hgeo data hmode (offset + k) (by omega), haddr _, ?_⟩
    obtain ⟨j, hj, h1, h2, h3⟩ := hfit.spec ((offset + k) / v.superblock.blockSize)
      (hblk _ (by omega))
    simp only [Nat.zero_add] at h1 h2 h3
    exact ⟨j, hj, h1, h2, h3⟩

theorem AccessStream_projects_onto_extents_witness :
    AccessGeometry sampleVolume
      ∧ StreamAddressable sampleVolume (singleExtentStream ⟨43, 1⟩ 100)
      ∧ 10 + 3 ≤ countSum (extentList sampleVolume (singleExtentStream ⟨43, 1⟩ 100)) 0
          (singleExtentStream ⟨43, 1⟩ 100).extentCount * sampleVolume.superblock.blockSize
      ∧ ∃ accesses,
        AccessStream.plan sampleVolume (singleExtentStream ⟨43, 1⟩ 100) 10 3 = .ok accesses
        ∧ (accesses.map (fun a => a.dataToTransfer)).sum = 3
        ∧ AccessStream.readAll sampleVolume accesses
          = (List.range 3).map (fun k =>
              sampleVolume.disk
                (streamBlock sampleVolume (singleExtentStream ⟨43, 1⟩ 100)
                    ((10 + k) / sampleVolume.superblock.blockSize)
                  * sampleVolume.superblock.blockSize
                  + (10 + k) % sampleVolume.superblock.blockSize)) := by
  obtain ⟨accesses, h1, _, _, _, _, h6, h7, _⟩ :=
    AccessStream_projects_onto_extents sampleVolume (singleExtentStream ⟨43, 1⟩ 100)
      accessGeometry_sampleVolume (Or.inl rfl) streamLaidOut_singleExtent.nonzero
      streamAddressable_singleExtent 10 3 (by decide) (by decide) (by decide)
  exact ⟨accessGeometry_sampleVolume, streamAddressable_singleExtent, by decide, accesses, h1,
    h6, h7⟩

/-! ### The removal of a directory entry -/

theorem bufferMemory_AccessBlockRead (v : EsFSVolume)
    (hsec : v.sectorsPerBlock * v.sectorSize = v.superblock.blockSize)
    (block a : Nat) (ha : a < v.superblock.blockSize) :
    bufferMemory (AccessBlockRead v block v.superblock.blockSize 0) a
      = v.disk (block * v.superblock.blockSize + a) := by
  unfold bufferMemory AccessBlockRead driveRead blockAddress
  rw [getD_readBytes _ _ _ _ ha, Nat.mul_assoc, hsec, Nat.add_zero]

/-- Entries that are moved down by `L` bytes, with zero bytes behind them, are
packed at their new place. -/
theorem Packed.moved {m m' : Memory} {B L : Nat} :
    ∀ (es : List (Nat × List Nat)) (q : Nat), Packed m B (q + L) es →
      (∀ a, q ≤ a → a + L < B → m' a = m (a + L)) →
      (∀ a, B ≤ a + L → a < B → m' a = 0) →
      Packed m' B q es := by
  intro es
  induction es with
  | nil =>
    intro q h h1 h2
    simp only [Packed] at h ⊢
    refine ⟨by omega, ?_⟩
    intro a ha1 ha2
    by_cases hc : a + L < B
    · rw [h1 a ha1 hc]
      exact h.2 _ (by omega) hc
    · exact h2 a (by omega) ha2
  | cons e rest ih =>
    intro q h h1 h2
    simp only [Packed] at h ⊢
    have ht := Packed.tail rest _ h.2
    refine ⟨?_, ?_⟩
    · apply EntryAt.shift h.1 m' q
      intro a ha
      rw [h1 (q + a) (by omega) (by omega)]
      congr 1
      omega
    · apply ih (q + e.1) _ (fun a ha hb => h1 a (by omega) hb) h2
      have : q + e.1 + L = q + L + e.1 := by omega
      rw [this]; exact h.2

/-- The loop over the moved entries ends when every one of them holds the
identifier of its file entry. -/
theorem RemoveNodeFromParent.update_packed (m : Memory) (B L : Nat) :
    ∀ (es : List (Nat × List Nat)) (fuel q : Nat) (openNodes : List EsFSFile),
      Packed m B q es → (∀ x, x ∈ es → x.2.length + 42 ≤ x.1) → es.length < fuel →
      ∃ openNodes', RemoveNodeFromParent.update m B L fuel q openNodes = .ok openNodes'
        ∧ openNodes'.length = openNodes.length := by
  intro es
  induction es with
  | nil =>
    intro fuel q openNodes h _ hfuel
    simp only [Packed] at h
    obtain ⟨fuel, rfl⟩ : ∃ f, fuel = f + 1 := ⟨fuel - 1, by simp at hfuel; omega⟩
    unfold RemoveNodeFromParent.update
    by_cases hq : q = B
    · rw [if_pos hq]; exact ⟨_, rfl, rfl⟩
    · rw [if_neg hq, if_neg (by omega), if_pos (h.2 q (Nat.le_refl _) (by omega))]
      exact ⟨_, rfl, rfl⟩
  | cons e rest ih =>
    intro fuel q openNodes h hfile hfuel
    simp only [Packed] at h
    obtain ⟨he, hrest⟩ := h
    have ht := Packed.tail rest _ hrest
    have hlen := he.length_ge
    have hfe := hfile e (List.mem_cons_self _ _)
    obtain ⟨fuel, rfl⟩ : ∃ f, fuel = f + 1 := ⟨fuel - 1, by simp at hfuel; omega⟩
    have hfit : q + e.1 ≤ B := by omega
    obtain ⟨_, hfind, _⟩ := he.find B hfit B (by omega)
    obtain ⟨openNodes', h1, h2⟩ := ih fuel (q + e.1)
      (openNodes.map (fun node =>
        if node.identifier = readBytes m (q + 14 + e.2.length + sizeofAttributeDirectoryFile + 8) 16
        then
          { node with
            offsetIntoBlock := (node.offsetIntoBlock + 4294967296
              - L % 4294967296) % 4294967296
            offsetIntoBlock2 := (node.offsetIntoBlock2 + 4294967296
              - L % 4294967296) % 4294967296 }
        else node))
      hrest (fun x hx => hfile x (List.mem_cons_of_mem _ hx))
      (by simp only [List.length_cons] at hfuel; omega)
    refine ⟨openNodes', ?_, by rw [h2, List.length_map]⟩
    unfold RemoveNodeFromParent.update
    rw [if_neg (by omega), if_neg (by omega), if_neg he.first_ne_zero,
      if_neg (by unfold sizeofDirectoryEntry; omega), if_neg (by rw [he.signature]; exact fun h => h rfl)]
    rw [he.size B hfit, hfind]
    simp only
    rw [if_neg (by unfold sizeofAttributeDirectoryFile; omega)]
    exact h1

/-- Entries that keep their bytes stay packed in front of packed entries. -/
theorem Packed.prepend {m m' : Memory} {B : Nat} (post rest : List (Nat × List Nat)) :
    ∀ (pre : List (Nat × List Nat)) (q : Nat), Packed m B q (pre ++ rest) →
      (∀ a, q ≤ a → a < q + entriesSize pre → m' a = m a) →
      Packed m' B (q + entriesSize pre) post →
      Packed m' B q (pre ++ post) := by
  intro pre
  induction pre with
  | nil =>
    intro q _ _ h
    simpa [entriesSize] using h
  | cons x pre ih =>
    intro q h heq hpost
    simp only [List.cons_append, Packed] at h ⊢
    rw [entriesSize_cons] at heq hpost
    refine ⟨h.1.congr (fun a ha1 ha2 => heq a ha1 (by omega)), ?_⟩
    apply ih (q + x.1) h.2 (fun a ha1 ha2 => heq a (by omega) (by omega))
    rw [Nat.add_assoc]; exact hpost

theorem MoveMemory.down_moved (m : Memory) (p B L : Nat) (a : Nat) (h1 : p ≤ a)
    (h2 : a + L < B) : MoveMemory.down m (p + L) B L a = m (a + L) := by
  unfold MoveMemory.down
  rw [if_pos ⟨by omega, by omega⟩]

theorem MoveMemory.down_zero (m : Memory) (p B L : Nat) (a : Nat) (h0 : p ≤ a) (h1 : B ≤ a + L)
    (h2 : a < B) : MoveMemory.down m (p + L) B L a = 0 := by
  unfold MoveMemory.down
  rw [if_neg (by omega), if_pos ⟨by omega, h2⟩]

theorem MoveMemory.down_below (m : Memory) (p B L : Nat) (hfit : p + L ≤ B) (a : Nat)
    (h : a < p) : MoveMemory.down m (p + L) B L a = m a := by
  unfold MoveMemory.down
  rw [if_neg (by omega), if_neg (by omega)]

theorem readBytes_split3 (d : Memory) (base p r L B : Nat) (hB : B = p + (r + L)) :
    readBytes d base B
      = readBytes d base p ++ readBytes d (base + p) r ++ readBytes d (base + p + r) L := by
  subst hB
  rw [readBytes_add, readBytes_add, List.append_assoc]

theorem readBytes_ext (d d' : Memory) (a a' n : Nat) (h : ∀ k, k < n → d (a + k) = d' (a' + k)) :
    readBytes d a n = readBytes d' a' n := by
  unfold readBytes
  apply List.map_congr_left
  intro k hk
  rw [List.mem_range] at hk
  exact h k hk

theorem readBytes_zero (d : Memory) (a n : Nat) (h : ∀ k, k < n → d (a + k) = 0) :
    readBytes d a n = List.replicate n 0 := by
  rw [List.eq_replicate_iff]
  refine ⟨readBytes_length _ _ _, ?_⟩
  intro b hb
  unfold readBytes at hb
  rw [List.mem_map] at hb
  obtain ⟨k, hk, rfl⟩ := hb
  rw [List.mem_range] at hk
  exact h k hk

/-- C21: a block holds the entries `pre`, then the entry `e` of `e.1` bytes (up
to the end of its LIST_END header), then the entries `post`, packed from offset
0 and followed by zero bytes, and every entry of `post` holds the identifier
of its file entry.  `RemoveNodeFromParent` for the node whose entry is `e`
returns `true`; the block it has stored is the old block up to the entry, then
the old bytes behind the entry, then as many zero bytes as the entry had, so
that the block holds `pre` and `post` packed in this order; no other byte of
the drive has changed; and `itemsInDirectory` of the parent is one less. -/
theorem RemoveNodeFromParent_compacts (v : EsFSVolume)
    (hsec : v.sectorsPerBlock * v.sectorSize = v.superblock.blockSize)
    (parent : DirectoryNode) (node : EsFSFile) (openNodes : List EsFSFile)
    (pre post : List (Nat × List Nat)) (e : Nat × List Nat)
    (hpacked : Packed (fun a => v.disk (node.containerBlock * v.superblock.blockSize + a))
      v.superblock.blockSize 0 (pre ++ e :: post))
    (hoff : node.offsetIntoBlock2 = entriesSize pre)
    (hfile : ∀ x, x ∈ post → x.2.length + 42 ≤ x.1)
    (items : Nat) (hitems : parent.itemsInDirectory = some items) (hone : 1 ≤ items)
    (h64 : items < 18446744073709551616) :
    ∃ v' openNodes',
      RemoveNodeFromParent v parent node openNodes
        = .ok (true, { parent with itemsInDirectory := some (items - 1) }, v', openNodes')
      ∧ readBytes v'.disk (node.containerBlock * v.superblock.blockSize) v.superblock.blockSize
        = readBytes v.disk (node.containerBlock * v.superblock.blockSize) (entriesSize pre)
          ++ readBytes v.disk
              (node.containerBlock * v.superblock.blockSize + (entriesSize pre + e.1))
              (v.superblock.blockSize - (entriesSize pre + e.1))
          ++ List.replicate e.1 0
      ∧ (∀ a, a < node.containerBlock * v.superblock.blockSize
            ∨ node.containerBlock * v.superblock.blockSize + v.superblock.blockSize ≤ a →
          v'.disk a = v.disk a)
      ∧ Packed (fun a => v'.disk (node.containerBlock * v.superblock.blockSize + a))
          v.superblock.blockSize 0 (pre ++ post) := by
  have hm : Packed (bufferMemory (AccessBlockRead v node.containerBlock v.superblock.blockSize 0))
      v.superblock.blockSize 0 (pre ++ e :: post) :=
    Packed.of_bytes _ 0 hpacked
      (fun a _ ha => bufferMemory_AccessBlockRead v hsec node.containerBlock a ha)
  generalize hmdef : bufferMemory (AccessBlockRead v node.containerBlock v.superblock.blockSize 0)
    = m at hm
  have hmdisk : ∀ a, a < v.superblock.blockSize →
      m a = v.disk (node.containerBlock * v.superblock.blockSize + a) := by
    intro a ha
    rw [← hmdef]
    exact bufferMemory_AccessBlockRead v hsec node.containerBlock a ha
  obtain ⟨he, hfit⟩ := Packed.split pre e post 0 hm
  rw [Nat.zero_add] at he hfit
  have hpost : Packed m v.superblock.blockSize (entriesSize pre + e.1) post := by
    have h := Packed.drop post (pre ++ [e]) 0
      (by rw [List.append_assoc]; exact hm)
    rw [Nat.zero_add, entriesSize_append, entriesSize_cons] at h
    simpa [entriesSize] using h
  have htail := Packed.tail post _ hpost
  have hmoved : Packed (MoveMemory.down m (entriesSize pre + e.1) v.superblock.blockSize e.1)
      v.superblock.blockSize (entriesSize pre) post :=
    Packed.moved post (entriesSize pre) hpost
      (fun a h1 h2 => MoveMemory.down_moved m _ _ _ a h1 h2)
      (fun a h1 h2 => by
        by_cases hc : entriesSize pre ≤ a
        · exact MoveMemory.down_zero m _ _ _ a hc h1 h2
        · omega)
  have hall : Packed (MoveMemory.down m (entriesSize pre + e.1) v.superblock.blockSize e.1)
      v.superblock.blockSize 0 (pre ++ post) :=
    Packed.prepend post (e :: post) pre 0 hm
      (fun a _ ha => MoveMemory.down_below m _ _ _ hfit a (by omega))
      (by rw [Nat.zero_add]; exact hmoved)
  obtain ⟨openNodes', hupdate, _⟩ := RemoveNodeFromParent.update_packed
    (MoveMemory.down m (entriesSize pre + e.1) v.superblock.blockSize e.1)
    v.superblock.blockSize e.1 post (v.superblock.blockSize + 1) (entriesSize pre) openNodes
    hmoved hfile (by omega)
  have hdisk : ∀ a, a < v.superblock.blockSize →
      (AccessBlockWrite v node.containerBlock v.superblock.blockSize
        (readBytes (MoveMemory.down m (entriesSize pre + e.1) v.superblock.blockSize e.1) 0
          v.superblock.blockSize) 0).disk (node.containerBlock * v.superblock.blockSize + a)
        = MoveMemory.down m (entriesSize pre + e.1) v.superblock.blockSize e.1 a := by
    intro a ha
    rw [AccessBlockWrite_disk v hsec, if_pos ⟨by omega, by omega⟩, Nat.add_sub_cancel_left,
      Nat.zero_add]
  refine ⟨AccessBlockWrite v node.containerBlock v.superblock.blockSize
      (readBytes (MoveMemory.down m (entriesSize pre + e.1) v.superblock.blockSize e.1) 0
        v.superblock.blockSize) 0, openNodes', ?_, ?_, ?_, ?_⟩
  · unfold RemoveNodeFromParent
    dsimp only
    rw [hmdef, hoff, he.size _ hfit]
    dsimp only
    rw [hitems]
    dsimp only
    rw [hupdate, sub64_eq_sub hone h64]
  · rw [readBytes_split3 _ _ (entriesSize pre)
      (v.superblock.blockSize - (entriesSize pre + e.1)) e.1 v.superblock.blockSize (by omega)]
    congr 1
    · congr 1
      · apply readBytes_congr
        intro a ha1 ha2
        obtain ⟨k, rfl⟩ := Nat.exists_eq_add_of_le ha1
        rw [hdisk k (by omega), MoveMemory.down_below m _ _ _ hfit k (by omega),
          hmdisk k (by omega)]
      · apply readBytes_ext
        intro k hk
        rw [Nat.add_assoc, hdisk _ (by omega),
          MoveMemory.down_moved m _ _ _ _ (by omega) (by omega), hmdisk _ (by omega)]
        congr 1
        omega
    · apply readBytes_zero
      intro k hk
      rw [Nat.add_assoc, Nat.add_assoc, hdisk _ (by omega)]
      exact MoveMemory.down_zero m _ _ _ _ (by omega) (by omega) (by omega)
  · intro a ha
    rw [AccessBlockWrite_disk v hsec, if_neg (by omega)]
  · exact Packed.of_bytes _ 0 hall (fun a _ ha => hdisk a ha)

theorem removalBlock_packed : Packed removalBlock 512 0 [(155, [97]), (155, [98])] := by
  have h0 : Packed (fun _ => 0) 512 0 [] := by simp [Packed]
  have h1 := (CreateNode.patched_append [97] ESFS_FILE_TYPE_FILE (fun i => i) 43 (by decide)
    (Or.inl rfl) 512 (fun _ => 0) [] h0 (by decide)).1
  have h2 := (CreateNode.patched_append [98] ESFS_FILE_TYPE_FILE (fun i => i + 16) 43 (by decide)
    (Or.inl rfl) 512 _ _ h1 (by decide)).1
  exact h2

theorem RemoveNodeFromParent_compacts_witness :
    Packed (fun a => removalVolume.disk
        (removalNode.containerBlock * removalVolume.superblock.blockSize + a))
        removalVolume.superblock.blockSize 0 ([] ++ (155, [97]) :: [(155, [98])])
      ∧ removalNode.offsetIntoBlock2 = entriesSize []
      ∧ ∃ v' openNodes',
        RemoveNodeFromParent removalVolume ⟨18, none, some 2⟩ removalNode []
          = .ok (true, ⟨18, none, some 1⟩, v', openNodes')
        ∧ readBytes v'.disk (43 * 512) 512
          = readBytes removalVolume.disk (43 * 512 + 155) 357 ++ List.replicate 155 0
        ∧ Packed (fun a => v'.disk (43 * 512 + a)) 512 0 [(155, [98])] := by
  have hp : Packed (fun a => removalVolume.disk
      (removalNode.containerBlock * removalVolume.superblock.blockSize + a))
      removalVolume.superblock.blockSize 0 ([] ++ (155, [97]) :: [(155, [98])]) := by
    apply Packed.of_bytes _ 0 removalBlock_packed
    intro a _ ha
    show (if 43 * 512 ≤ 43 * 512 + a ∧ 43 * 512 + a < 44 * 512
      then removalBlock (43 * 512 + a - 43 * 512) else 0) = removalBlock a
    have ha' : a < 512 := ha
    rw [if_pos ⟨by omega, by omega⟩, Nat.add_sub_cancel_left]
  obtain ⟨v', openNodes', h1, h2, _, h4⟩ :=
    RemoveNodeFromParent_compacts removalVolume rfl ⟨18, none, some 2⟩ removalNode []
      [] [(155, [98])] (155, [97]) hp rfl
      (by intro x hx; rw [List.mem_singleton] at hx; subst hx; decide)
      2 rfl (by decide) (by decide)
  exact ⟨hp, rfl, v', openNodes', h1, h2, h4⟩

/-! ### The root node, the last block of an access, and the volume after format -/

set_option maxRecDepth 100000 in
/-- C35: on the drive left by `format 64m` the superblock places the file entry
of the root directory at block 34.  The node of the root directory that
`Initialise` returns through `LoadRootDirectory` has `containerBlock` 0 and
`offsetIntoBlock` 0: `LoadRootDirectory` assigns `fileEntryLength` and the copy
of the file entry, and no position.  `EsFSSync` of that node writes the 172
bytes of the copy to byte 0 of the drive: the boot block, which held zero
bytes, starts with "FileEsFS" afterwards. -/
theorem LoadRootDirectory_leaves_containerBlock_zero :
    (Superblock.read formattedDrive 8192).rootDirectoryFileEntry = ⟨34, 1⟩
      ∧ (Initialise formattedDevice).toOption.map
          (fun (r : Option (EsFSFile × EsFSVolume)) =>
            r.map (fun (x : EsFSFile × EsFSVolume) =>
              ([x.1.containerBlock, x.1.offsetIntoBlock, x.1.fileEntryLength],
                readBytes x.2.disk 0 8, readBytes (EsFSSync x.2 x.1).disk 0 8,
                decide (readBytes (EsFSSync x.2 x.1).disk 0 172 = x.1.fileEntry))))
        = some (some ([0, 0, 172], [0, 0, 0, 0, 0, 0, 0, 0], ESFS_FILE_ENTRY_SIGNATURE, true)) := by
  refine ⟨?_, ?_⟩
  · decide!
  · decide!

set_option maxRecDepth 100000 in
/-- C32: the stream has one extent of two blocks, the blocks 43 and 44.  An
access of 1024 bytes at offset 0 is served by one run of two blocks that
starts at block 43, and `lastAccessedActualBlock` is 43, the first block of
the run; the last block touched is block 44, the block that
`GetBlockFromStream` returns for byte `offset + size - 1`.  The loop of the
format tool, which takes one block per pass, leaves 44. -/
theorem AccessStream_lastBlock_is_start_of_run :
    (AccessStream.plan sampleVolume twoBlockStream 0 1024).toOption = some [⟨43, 1024, 0⟩]
      ∧ AccessStream.lastAccessed sampleVolume twoBlockStream 0 1024 0 = 43
      ∧ (GetBlockFromStream sampleVolume twoBlockStream (0 + 1024 - 1)).toOption = some 44
      ∧ (FormatTool.AccessStream (FormatTool.onVolume sampleVolume) twoBlockStream 0 1024 []
          false 0).toOption.map
          (fun (r : EsFSAttributeFileData × FormatTool × List Nat × Nat) => r.2.2.2)
        = some 44 := by
  refine ⟨?_, ?_, ?_, ?_⟩
  · decide!
  · decide!
  · decide!
  · decide!

set_option maxRecDepth 100000 in
/-- C34: `PrepareCoreData` for a drive of 1 MiB returns: the block size is 512,
the volume has one group of 2048 blocks and 2048 - 16 = 2032 blocks in all,
and 38 blocks are in use in the superblock and in the descriptor of group 0.
The free extent of group 0 is {38, 2010}: it ends at block 2048, behind
`blockCount`, and so holds the 16 blocks of the backup of the superblock; and
`GetBlocksInGroup(0)` is `blockCount % blocksPerGroup` = 2032, so that
`GetBlocksInGroup(0)` less the count of the free extent is 22, not the 38 of
`blocksUsed`. -/
theorem PrepareCoreData_single_group_accounting :
    (PrepareCoreData (FormatTool.start (fun _ => 0) 0 (fun i => i + 1)) 1048576
        [84, 69, 83, 84]).toOption.map
        (fun (t : FormatTool) =>
          ([(Superblock.read t.drive 8192).blockSize, (Superblock.read t.drive 8192).blockCount,
              (Superblock.read t.drive 8192).blocksUsed,
              (Superblock.read t.drive 8192).blocksPerGroup,
              (Superblock.read t.drive 8192).groupCount,
              GetBlocksInGroup (Superblock.read t.drive 8192).fields 0],
            readGroupDescriptor
              (fun a => t.drive ((Superblock.read t.drive 8192).gdt.offset * 512 + a)) 0,
            readLocalExtents t.drive (37 * 512) 1))
        = some ([512, 2032, 38, 2048, 1, 2032], ⟨37, 1, 38⟩, [⟨38, 2010⟩])
      ∧ 2032 < 38 + 2010 ∧ 2032 - 2010 = 22 := by
  refine ⟨?_, by decide, by decide⟩
  decide!

set_option maxRecDepth 100000 in
/-- C37: `PrepareCoreData` for a drive of 64 MiB returns with
`blocksPerGroupExtentTable` 8, 43 blocks in use, the extent table of group 0 at
block 42 (`initialBlockUsage - 1`) and the free extent {43, 4053} in it.  The
eight blocks from the start of the table on are the blocks 42 to 49: all but
the first lie in the free extent, whose first block is 43. -/
theorem PrepareCoreData_table_blocks_are_free :
    (PrepareCoreData (FormatTool.start (fun _ => 0) 0 (fun i => i + 1)) 67108864
        [84, 69, 83, 84]).toOption.map
        (fun (t : FormatTool) =>
          ([(Superblock.read t.drive 8192).blocksPerGroupExtentTable,
              (Superblock.read t.drive 8192).blocksUsed,
              (Superblock.read t.drive 8192).blocksPerGroup],
            readGroupDescriptor
              (fun a => t.drive ((Superblock.read t.drive 8192).gdt.offset * 512 + a)) 0,
            readLocalExtents t.drive (42 * 512) 1))
        = some ([8, 43, 4096], ⟨42, 1, 43⟩, [⟨43, 4053⟩])
      ∧ 43 < 42 + 8 ∧ 42 + 8 ≤ 43 + 4053 := by
  refine ⟨?_, by decide, by decide⟩
  decide!

/-! ### A failed grow in CreateNode, and the stream access of the format tool -/

set_option maxRecDepth 100000 in
/-- C36: the small volume has one free block, block 100.  An entry "a..aA" is
created in an empty directory: the stream of the directory gets block 100, and
`SearchDirectory` finds the entry at offset 0 of that block.  A second entry
"a..aB" does not fit behind it and the stream cannot grow, because
`AllocateExtent` returns an extent of no blocks.  `CreateNode` returns `true`
and counts two entries; the stream still has its one block, whose first 257
bytes are no longer those of the first entry (the last byte of the name is now
"B") and are followed by zero bytes.  The first entry is not found any more:
the search ends in the panic "Could not find block" when it steps to a second
block; the second entry is found at offset 0 of block 100. -/
theorem CreateNode_failed_grow_loses_entry :
    ((do
      let r1 ← CreateNode smallVolume emptyDirectory (longName 65) ESFS_FILE_TYPE_FILE
        (fun i => i + 1) (fun _ => 0)
      let found ← SearchDirectory r1.2.2 (longName 65) r1.2.1 []
      let r2 ← CreateNode r1.2.2 r1.2.1 (longName 66) ESFS_FILE_TYPE_FILE
        (fun i => i + 2) (fun _ => 0)
      pure (r1.1, r1.2.1.itemsInDirectory, r1.2.1.data.map (fun data => data.size),
        found.1.map (fun node => (node.containerBlock, node.offsetIntoBlock2)),
        (AccessBlockRead r1.2.2 100 512 0).getD 116 0,
        r2.1, r2.2.1.itemsInDirectory, r2.2.1.data.map (fun data => data.size),
        (AccessBlockRead r2.2.2 100 512 0).getD 116 0,
        decide (AccessBlockRead r2.2.2 100 257 0 = AccessBlockRead r1.2.2 100 257 0),
        (AccessBlockRead r2.2.2 100 512 0).drop 257 |>.all (fun b => b = 0),
        (SearchDirectory r2.2.2 (longName 65) r2.2.1 []).map
          (fun r => r.1.map (fun node => (node.containerBlock, node.offsetIntoBlock2))),
        (SearchDirectory r2.2.2 (longName 66) r2.2.1 []).map
          (fun r => r.1.map (fun node => (node.containerBlock, node.offsetIntoBlock2)))))
        : Except DirectoryFault _)
      = .ok (true, some 1, some 512, some (100, 0), 65,
          true, some 2, some 512, 66, false, true,
          .error (.stream .couldNotFindBlock), .ok (some (100, 0))) :=
  rfl

set_option maxRecDepth 100000 in
/-- C39: the stream has one extent of two blocks, the blocks 43 and 44, and the
range of 100 bytes at offset 500 lies in both.  `AccessStream` of the kernel
writes the 100 bytes of the buffer to the bytes 500 to 599 of the extent, and
reads the 100 bytes that lie there.  `AccessStream` of the format tool does
not return: in its first pass `offsetIntoBlock` is 500 and `dataToTransfer` is
the block size, and the `memcpy` of 512 bytes at `blockBuffer + 500` leaves the
array of 512 bytes. -/
theorem FormatTool_AccessStream_unaligned_range :
    (AccessStream sampleVolume twoBlockStream 500 100 (List.replicate 100 9) true).toOption.map
        (fun (r : EsFSAttributeFileData × EsFSVolume × List Nat) =>
          (readBytes r.2.1.disk (43 * 512 + 498) 3, readBytes r.2.1.disk (43 * 512 + 598) 3))
        = some ([7, 7, 9], [9, 9, 0])
      ∧ (AccessStream sampleVolume twoBlockStream 500 100 [] false).toOption.map
          (fun (r : EsFSAttributeFileData × EsFSVolume × List Nat) => r.2.2)
        = some (readBytes sampleVolume.disk (43 * 512 + 500) 100)
      ∧ (match FormatTool.AccessStream (FormatTool.onVolume sampleVolume) twoBlockStream 500 100
            (List.replicate 100 9) true 0 with
          | .error f => some f
          | .ok _ => none) = some ToolStreamFault.outsideBlockBuffer
      ∧ (match FormatTool.AccessStream (FormatTool.onVolume sampleVolume) twoBlockStream 500 100
            [] false 0 with
          | .error f => some f
          | .ok _ => none) = some ToolStreamFault.outsideBlockBuffer := by
  refine ⟨?_, ?_, ?_, ?_⟩
  · decide!
  · decide!
  · decide!
  · decide!

/-! ### The limit of the extent list, and the walk of FindAttribute -/

set_option maxRecDepth 100000 in
/-- C33: with blocks of 512 bytes `extentListMaxSize` is 8 * (512 / 16) = 256.
The file on `listedVolume` holds one-block extents, {51, 1} first and {305, 1}
as its 255th.  When the file has 254 extents, a grow by one block succeeds and
leaves 255 extents.  When it has 255 extents, a grow by one block allocates the
block (`blocksUsed` goes from 306 to 307), records it as the 256th extent and
returns `false`: the test `extentListMaxSize <= data->extentCount` holds for a
count of exactly 256, and the size of the stream stays at 255 blocks. -/
theorem GrowDataStream_rejects_full_extent_list :
    ESFS_INDIRECT_2_BLOCKS * extentsPerBlock listedVolume.superblock = 8 * 512 / 16
      ∧ (extentList listedVolume (listedStream 255) 0,
          extentList listedVolume (listedStream 255) 254) = (⟨51, 1⟩, ⟨305, 1⟩)
      ∧ (GrowDataStream listedVolume (listedStream 254) (255 * 512) false 34
          (fun _ => 0)).toOption.map
          (fun (r : Bool × EsFSAttributeFileData × EsFSVolume) =>
            (r.1, r.2.1.extentCount, r.2.1.size, r.2.2.superblock.blocksUsed))
        = some (true, 255, 255 * 512, 307)
      ∧ (GrowDataStream listedVolume (listedStream 255) (256 * 512) false 34
          (fun _ => 0)).toOption.map
          (fun (r : Bool × EsFSAttributeFileData × EsFSVolume) =>
            (r.1, r.2.1.extentCount, r.2.1.size, r.2.2.superblock.blocksUsed))
        = some (false, 256, 255 * 512, 307) := by
  refine ⟨?_, ?_, ?_, ?_⟩
  · decide!
  · decide!
  · decide!
  · decide!

theorem FindAttribute.Walk.le {m : Memory} :
    ∀ (n p t : Nat), FindAttribute.Walk m p n t → p + n ≤ t := by
  intro n
  induction n with
  | zero =>
    intro p t h
    simp only [FindAttribute.Walk] at h
    omega
  | succ n ih =>
    intro p t h
    simp only [FindAttribute.Walk] at h
    have := ih _ _ h.2.2
    omega

theorem FindAttribute.walk_returns (attributeType : Nat) (m : Memory) :
    ∀ (n p t limit fuel : Nat), FindAttribute.Walk m p n t → t + sizeofAttributeHeader ≤ limit →
      n + 1 ≤ fuel →
      ∃ r, FindAttribute attributeType m limit fuel p = .ok r
        ∧ ∀ q, r = some q → p ≤ q ∧ q ≤ t := by
  intro n
  induction n with
  | zero =>
    intro p t limit fuel h hlim hfuel
    simp only [FindAttribute.Walk] at h
    obtain ⟨rfl, hend⟩ := h
    obtain ⟨fuel, rfl⟩ : ∃ f, fuel = f + 1 := ⟨fuel - 1, by omega⟩
    unfold sizeofAttributeHeader at hlim
    rw [FindAttribute.stop attributeType m limit fuel p hlim hend]
    by_cases ht : attributeType = ESFS_ATTRIBUTE_LIST_END
    · rw [if_pos ht]
      exact ⟨_, rfl, fun q hq => by injection hq with hq; omega⟩
    · rw [if_neg ht]
      exact ⟨_, rfl, fun q hq => by cases hq⟩
  | succ n ih =>
    intro p t limit fuel h hlim hfuel
    have hle := FindAttribute.Walk.le _ _ _ h
    simp only [FindAttribute.Walk] at h
    obtain ⟨hne, hsize, hrest⟩ := h
    obtain ⟨fuel, rfl⟩ : ∃ f, fuel = f + 1 := ⟨fuel - 1, by omega⟩
    unfold sizeofAttributeHeader at hlim
    by_cases ht : readU16 m p = attributeType
    · rw [FindAttribute.hit attributeType m limit fuel p (by omega) ht (by rw [← ht]; exact hne)]
      exact ⟨_, rfl, fun q hq => by injection hq with hq; omega⟩
    · rw [FindAttribute.skip attributeType m limit fuel p _ (by omega) rfl hne ht]
      obtain ⟨r, hr, hq⟩ := ih _ t limit fuel hrest (by unfold sizeofAttributeHeader; omega)
        (by omega)
      exact ⟨r, hr, fun q hq' => by have := hq q hq'; omega⟩

theorem FindAttribute.stuck (attributeType : Nat) (m : Memory) (limit p : Nat)
    (hlim : p + sizeofAttributeHeader ≤ limit)
    (hne : readU16 m p ≠ ESFS_ATTRIBUTE_LIST_END) (ht : readU16 m p ≠ attributeType)
    (hsize : readU16 m (p + 2) = 0) :
    ∀ fuel, FindAttribute attributeType m limit fuel p = .error .outOfFuel := by
  intro fuel
  induction fuel with
  | zero => rfl
  | succ fuel ih =>
    unfold sizeofAttributeHeader at hlim
    rw [FindAttribute.skip attributeType m limit fuel p _ hlim rfl hne ht, hsize, Nat.add_zero]
    exact ih

theorem FindAttribute.walk_eq (attributeType : Nat) (m : Memory) :
    ∀ (n p t limit fuel : Nat), FindAttribute.Walk m p n t → t + sizeofAttributeHeader ≤ limit →
      n + 1 ≤ fuel →
      FindAttribute attributeType m limit fuel p
        = FindAttribute attributeType m (t + sizeofAttributeHeader) (n + 1) p := by
  intro n
  induction n with
  | zero =>
    intro p t limit fuel h hlim hfuel
    simp only [FindAttribute.Walk] at h
    obtain ⟨rfl, hend⟩ := h
    obtain ⟨fuel, rfl⟩ : ∃ f, fuel = f + 1 := ⟨fuel - 1, by omega⟩
    unfold sizeofAttributeHeader at hlim ⊢
    rw [FindAttribute.stop attributeType m limit fuel p hlim hend,
      FindAttribute.stop attributeType m (p + 4) 0 p (Nat.le_refl _) hend]
  | succ n ih =>
    intro p t limit fuel h hlim hfuel
    have hle := FindAttribute.Walk.le _ _ _ h
    simp only [FindAttribute.Walk] at h
    obtain ⟨hne, hsize, hrest⟩ := h
    obtain ⟨fuel, rfl⟩ : ∃ f, fuel = f + 1 := ⟨fuel - 1, by omega⟩
    unfold sizeofAttributeHeader at hlim
    by_cases ht : readU16 m p = attributeType
    · rw [FindAttribute.hit attributeType m limit fuel p (by omega) ht (by rw [← ht]; exact hne),
        FindAttribute.hit attributeType m _ (n + 1) p (by unfold sizeofAttributeHeader; omega) ht
          (by rw [← ht]; exact hne)]
    · rw [FindAttribute.skip attributeType m limit fuel p _ (by omega) rfl hne ht,
        FindAttribute.skip attributeType m _ (n + 1) p _ (by unfold sizeofAttributeHeader; omega)
          rfl hne ht]
      exact ih _ t limit fuel hrest (by unfold sizeofAttributeHeader; omega) (by omega)

/-- C40: when `n` headers, none of type 0xFFFF and each with a size of at least
1, lead by their sizes from `p` to a header of type 0xFFFF at `t`,
`FindAttribute` returns after at most `n + 1` passes, one per header, and
reads no byte behind the end `t + 4` of that header; the header it returns, if
any, lies between `p` and `t`; the result is the same with more passes and a
longer buffer, and the copy of the format tool returns it too.  A header of
size 0 whose type is neither 0xFFFF nor the type looked for is never left: the
walk that reaches it does not end, however many passes it is given. -/
theorem FindAttribute_terminates (attributeType : Nat) (m : Memory) (p n t : Nat)
    (h : FindAttribute.Walk m p n t) :
    (∃ r, FindAttribute attributeType m (t + sizeofAttributeHeader) (n + 1) p = .ok r
        ∧ FormatTool.FindAttribute attributeType m (t + sizeofAttributeHeader) (n + 1) p = .ok r
        ∧ (∀ q, r = some q → p ≤ q ∧ q ≤ t)
        ∧ ∀ limit fuel, t + sizeofAttributeHeader ≤ limit → n + 1 ≤ fuel →
            FindAttribute attributeType m limit fuel p = .ok r)
      ∧ ∀ limit q, q + sizeofAttributeHeader ≤ limit →
          readU16 m q ≠ ESFS_ATTRIBUTE_LIST_END → readU16 m q ≠ attributeType →
          readU16 m (q + 2) = 0 →
          ∀ fuel, FindAttribute attributeType m limit fuel q = .error .outOfFuel := by
  refine ⟨?_, ?_⟩
  · obtain ⟨r, hr, hq⟩ := FindAttribute.walk_returns attributeType m n p t
      (t + sizeofAttributeHeader) (n + 1) h (Nat.le_refl _) (Nat.le_refl _)
    refine ⟨r, hr, ?_, hq, ?_⟩
    · rw [FindAttribute_tool_eq]; exact hr
    · intro limit fuel hlim hfuel
      rw [FindAttribute.walk_eq attributeType m n p t limit fuel h hlim hfuel]
      exact hr
  · intro limit q hlim hne ht hsize
    exact FindAttribute.stuck attributeType m limit q hlim hne ht hsize

set_option maxRecDepth 100000 in
theorem FindAttribute_terminates_witness :
    FindAttribute.Walk (fun a => formattedDrive (34 * 512 + a)) 48 3 172
      ∧ (∃ r, FindAttribute ESFS_ATTRIBUTE_FILE_DIRECTORY (fun a => formattedDrive (34 * 512 + a))
            (172 + sizeofAttributeHeader) (3 + 1) 48 = .ok r
          ∧ ∀ q, r = some q → 48 ≤ q ∧ q ≤ 172)
      ∧ readU16 (fun a => formattedDrive (34 * 512 + a)) (300 + 2) = 0
      ∧ ∀ fuel, FindAttribute ESFS_ATTRIBUTE_FILE_DATA (fun a => formattedDrive (34 * 512 + a))
          512 fuel 300 = .error .outOfFuel := by
  have h : FindAttribute.Walk (fun a => formattedDrive (34 * 512 + a)) 48 3 172 := by
    unfold FindAttribute.Walk FindAttribute.Walk FindAttribute.Walk FindAttribute.Walk
    decide!
  obtain ⟨⟨r, hr, _, hq, _⟩, hstuck⟩ := FindAttribute_terminates ESFS_ATTRIBUTE_FILE_DIRECTORY
    (fun a => formattedDrive (34 * 512 + a)) 48 3 172 h
  refine ⟨h, ⟨r, hr, hq⟩, by decide!, ?_⟩
  exact (FindAttribute_terminates ESFS_ATTRIBUTE_FILE_DATA
    (fun a => formattedDrive (34 * 512 + a)) 48 3 172 h).2 512 300 (by decide) (by decide!)
    (by decide!) (by decide!)

/-! ### An allocation followed by its release -/

/-- The merge loop of `FreeExtent` steps over entries that do not touch the
extent to free. -/
theorem FreeExtent.merge_skip (f : EsFSLocalExtent) (table : List EsFSLocalExtent) :
    ∀ (k fuel i : Nat), i + k ≤ table.length →
      (∀ j, j < k →
        (table.getD (i + j) default).offset + (table.getD (i + j) default).count < f.offset
          ∨ f.offset + f.count < (table.getD (i + j) default).offset) →
      FreeExtent.merge (fuel + k) table i f = FreeExtent.merge fuel table (i + k) f := by
  intro k
  induction k with
  | zero => intro fuel i _ _; rfl
  | succ k ih =>
    intro fuel i hlen h
    have h0 := h 0 (Nat.succ_pos _)
    rw [Nat.add_zero] at h0
    rw [show fuel + (k + 1) = (fuel + k) + 1 by omega]
    simp only [FreeExtent.merge]
    rw [if_pos (by omega), if_neg (by omega), if_neg (by omega), if_neg (by omega)]
    rw [ih fuel (i + 1) (by omega) (fun j hj => by
      have := h (j + 1) (by omega)
      rw [show i + (j + 1) = i + 1 + j by omega] at this
      exact this)]
    rw [show i + 1 + k = i + (k + 1) by omega]

theorem localDisjoint_of_split {bpg : Nat} {pre post : List EsFSLocalExtent} {x : EsFSLocalExtent}
    (hgood : TableGood bpg (pre ++ x :: post)) (a : EsFSLocalExtent) (ha : a ∈ pre ++ post) :
    localDisjoint a x ∧ 1 ≤ a.count ∧ 1 ≤ x.count := by
  have hd := hgood.disjoint
  rw [List.pairwise_append] at hd
  obtain ⟨_, hxpost, hcross⟩ := hd
  rw [List.pairwise_cons] at hxpost
  have hxc := (hgood.inGroup x (by simp)).1
  rcases List.mem_append.1 ha with h | h
  · exact ⟨hcross a h x (List.mem_cons_self _ _), (hgood.inGroup a (by simp [h])).1, hxc⟩
  · exact ⟨localDisjoint_symm (hxpost.1 a h), (hgood.inGroup a (by simp [h])).1, hxc⟩

/-- After an extent has been taken out of a good table in which no extent ends
where another begins, the merge loop of `FreeExtent` for that extent returns,
and the table it leaves, with the merged extent at its end, holds the extents
of the table before the allocation. -/
theorem FreeExtent.merge_roundtrip (bpg : Nat) (hbpg : bpg < 65536)
    (T T' : List EsFSLocalExtent) (e : EsFSLocalExtent) (hgood : TableGood bpg T)
    (hmerged : ∀ a b, a ∈ T → b ∈ T → a.offset + a.count ≠ b.offset)
    (ht : TakeOut T e T') (he : 1 ≤ e.count) :
    ∃ T'' f, FreeExtent.merge T'.length T' 0 e = .ok (T'', f) ∧ (T'' ++ [f]).Perm T := by
  obtain ⟨pre, x, post, rfl, hcase⟩ := ht
  have hxmem : x ∈ pre ++ x :: post := by simp
  have hmemT : ∀ a, a ∈ pre ++ post → a ∈ pre ++ x :: post := by
    intro a ha
    rcases List.mem_append.1 ha with h | h
    · simp [h]
    · simp [h]
  -- an entry other than `x` neither touches nor meets `x`
  have hfar : ∀ a, a ∈ pre ++ post →
      a.offset + a.count < x.offset ∨ x.offset + x.count < a.offset := by
    intro a ha
    obtain ⟨hd, hac, hxc⟩ := localDisjoint_of_split hgood a ha
    have h1 := hmerged a x (hmemT a ha) hxmem
    have h2 := hmerged x a hxmem (hmemT a ha)
    unfold localDisjoint at hd
    omega
  have hperm : (pre ++ post ++ [x]).Perm (pre ++ x :: post) := by
    rw [List.append_assoc]
    exact List.Perm.append_left pre (List.perm_append_comm.trans (by simp))
  rcases hcase with ⟨h1, h2, h3⟩ | ⟨h1, h2⟩
  · -- a strict prefix of `x` was taken
    subst h3
    have hxin := hgood.inGroup x hxmem
    have hlen : (pre ++ (⟨x.offset + e.count, x.count - e.count⟩ : EsFSLocalExtent) :: post).length
        = (post.length + 1) + pre.length := by
      simp only [List.length_append, List.length_cons]; omega
    have hget : ∀ j, j < pre.length →
        (pre ++ (⟨x.offset + e.count, x.count - e.count⟩ : EsFSLocalExtent) :: post).getD (0 + j)
          default ∈ pre := by
      intro j hj
      rw [Nat.zero_add, List.getD_eq_getElem _ _ (by rw [hlen]; omega),
        List.getElem_append_left hj]
      exact List.getElem_mem _
    rw [hlen, FreeExtent.merge_skip e _ pre.length (post.length + 1) 0
      (by rw [hlen]; omega)
      (fun j hj => by
        have hm := hget j hj
        have := hfar _ (List.mem_append_left _ hm)
        obtain ⟨hd, hac, _⟩ := localDisjoint_of_split hgood _ (List.mem_append_left _ hm)
        unfold localDisjoint at hd
        omega)]
    rw [Nat.zero_add]
    simp only [FreeExtent.merge]
    have hrem : (pre ++ (⟨x.offset + e.count, x.count - e.count⟩ : EsFSLocalExtent) :: post).getD
        pre.length default = ⟨x.offset + e.count, x.count - e.count⟩ := by
      rw [List.getD_eq_getElem _ _ (by rw [hlen]; omega), List.getElem_append_right (Nat.le_refl _)]
      simp
    rw [if_pos (by rw [hlen]; omega), hrem]
    dsimp only
    rw [if_neg (by omega), if_neg (by omega), if_pos (by omega)]
    have hx : (⟨e.offset, u16 (e.count + (x.count - e.count))⟩ : EsFSLocalExtent) = x := by
      rw [show e.count + (x.count - e.count) = x.count by omega, u16_of_lt (by omega), h1]
    rw [hx]
    have hp := swapRemove_perm pre (⟨x.offset + e.count, x.count - e.count⟩ : EsFSLocalExtent) post
    rw [FreeExtent.merge_untouched x post.length _ pre.length
      (fun a ha => hfar a (hp.mem_iff.1 ha))]
    exact ⟨_, _, rfl, (List.Perm.append_right [x] hp).trans hperm⟩
  · -- the whole entry `x` was taken
    subst h1
    rw [FreeExtent.merge_untouched e T'.length T' 0 (fun a ha => hfar a (h2.mem_iff.1 ha))]
    exact ⟨_, _, rfl, (List.Perm.append_right [e] h2).trans hperm⟩

/-- `FreeExtent` of an extent that lies in group `g`, on a volume given by its
parts, when the merge loop returns and the merged table fits. -/
theorem FreeExtent_of_merge (v : EsFSVolume) (E : EsFSGlobalExtent) (g : Nat)
    (D : EsFSGroupDescriptor) (T T'' : List EsFSLocalExtent) (e f : EsFSLocalExtent)
    (hgrp : E.offset / v.superblock.blocksPerGroup = g)
    (hD : v.groupDescriptorTable g = D)
    (hT : loadTable (v.extentTables D.extentTable) D.extentCount = T)
    (hfree : (⟨u16 (E.offset % v.superblock.blocksPerGroup), u16 E.count⟩ : EsFSLocalExtent) = e)
    (hmerge : FreeExtent.merge T.length T 0 e = .ok (T'', f))
    (hfits : ¬ u16 (T'' ++ [f]).length * sizeofLocalExtent
      > v.superblock.blocksPerGroupExtentTable * v.superblock.blockSize) :
    FreeExtent v E = .ok { v with
      superblock := { v.superblock with blocksUsed := sub64 v.superblock.blocksUsed E.count }
      groupDescriptorTable := Function.update v.groupDescriptorTable g
        ⟨D.extentTable, u16 (T'' ++ [f]).length, sub16 D.blocksUsed E.count⟩
      extentTables := Function.update v.extentTables D.extentTable (T'' ++ [f]) } := by
  unfold FreeExtent
  dsimp only
  rw [hgrp, hD, hT, hfree, hmerge]
  dsimp only
  rw [if_neg hfits]

/-- C38: on a well-formed allocator state, let `AllocateExtent` return an
extent `E` of at least one block from a group that has its extent table, whose
table fits the blocks reserved for it and whose free extents are fully merged
(none ends where another begins); the counters `blocksUsed` hold values of
their fields, of 16 and of 64 bits.  Then `FreeExtent` of `E` returns, and
afterwards the free blocks, the group descriptors (with `blocksUsed` of the
group) and the superblock (with `blocksUsed`) are those before the
allocation; the table of every group holds the extents it held, the order of
the entries apart. -/
theorem AllocateExtent_then_FreeExtent (v : EsFSVolume) (hwf : AllocatorWF v)
    (localGroup d u : Nat) (hlg : localGroup < v.superblock.groupCount)
    (E : EsFSGlobalExtent) (v' : EsFSVolume)
    (h : AllocateExtent v localGroup d u = .ok (E, v')) (hE : E.count ≠ 0)
    (hready : (v.groupDescriptorTable (E.offset / v.superblock.blocksPerGroup)).extentTable ≠ 0)
    (hmerged : ∀ a b, a ∈ AllocateExtent.loadedTable v (E.offset / v.superblock.blocksPerGroup) →
      b ∈ AllocateExtent.loadedTable v (E.offset / v.superblock.blocksPerGroup) →
      a.offset + a.count ≠ b.offset)
    (hfits : tableFits v (E.offset / v.superblock.blocksPerGroup))
    (h16 : (v.groupDescriptorTable (E.offset / v.superblock.blocksPerGroup)).blocksUsed < 65536)
    (h64 : v.superblock.blocksUsed < 18446744073709551616) :
    ∃ v'', FreeExtent v' E = .ok v''
      ∧ (∀ x, freeBlock v'' x ↔ freeBlock v x)
      ∧ v''.groupDescriptorTable = v.groupDescriptorTable
      ∧ v''.superblock = v.superblock
      ∧ ∀ g, g < v.superblock.groupCount →
          (AllocateExtent.loadedTable v'' g).Perm (AllocateExtent.loadedTable v g) := by
  obtain ⟨g, e, T', hg, htake, hEeq, _, hv'⟩ := AllocateExtent.search_outcome v d u hwf
    v.superblock.groupCount localGroup hlg E v' h hE
  have hbpg := hwf.groupSize
  have hgood := hwf.tables g hg
  have hec : 1 ≤ e.count := by
    rw [hEeq] at hE
    exact Nat.pos_of_ne_zero hE
  obtain ⟨_, hein, _, _, _, _⟩ := hgood.takeOut htake hec
  have hEo : E.offset = e.offset + g * v.superblock.blocksPerGroup := by rw [hEeq]
  have hEc : E.count = e.count := by rw [hEeq]
  have hgrp : E.offset / v.superblock.blocksPerGroup = g :=
    div_eq_of_group _ g _ (by omega) (by omega)
  rw [hgrp] at hready hmerged hfits h16
  have hDesc := AllocateExtent.loadDescriptor_of_ready v g hready
  have hTab : AllocateExtent.loadedTable v g
      = loadTable (v.extentTables (v.groupDescriptorTable g).extentTable)
          (v.groupDescriptorTable g).extentCount := by
    unfold AllocateExtent.loadedTable
    simp only [hready, if_false]
  have hTlen : (AllocateExtent.loadedTable v g).length = (v.groupDescriptorTable g).extentCount := by
    rw [hTab, loadTable_length]
  obtain ⟨T'', f, hmerge, hperm⟩ := FreeExtent.merge_roundtrip v.superblock.blocksPerGroup hbpg.2
    _ T' e hgood hmerged htake hec
  have hlen : (T'' ++ [f]).length = (v.groupDescriptorTable g).extentCount := by
    rw [hperm.length_eq, hTlen]
  have hlen16 : (v.groupDescriptorTable g).extentCount < 65536 := by
    have := hgood.length_le
    omega
  rw [hDesc] at hv'
  have hec16 : e.count < 65536 := by omega
  -- the volume after the allocation
  have hfree : (⟨u16 (E.offset % v'.superblock.blocksPerGroup), u16 E.count⟩ : EsFSLocalExtent)
      = e := by
    have hb : v'.superblock.blocksPerGroup = v.superblock.blocksPerGroup := by rw [hv']; rfl
    rw [hb, hEo, hEc, Nat.add_mul_mod_self_right, Nat.mod_eq_of_lt (by omega),
      u16_of_lt (by omega), u16_of_lt (by omega)]
  have hF := FreeExtent_of_merge v' E g
    ⟨(v.groupDescriptorTable g).extentTable, T'.length,
      u16 ((v.groupDescriptorTable g).blocksUsed + e.count)⟩ T' T'' e f
    (by
      have hb : v'.superblock.blocksPerGroup = v.superblock.blocksPerGroup := by rw [hv']; rfl
      rw [hb]; exact hgrp)
    (by
      rw [hv']
      show Function.update v.groupDescriptorTable g _ g = _
      rw [Function.update_same])
    (by
      rw [hv']
      show loadTable (Function.update v.extentTables _ T' _) T'.length = T'
      rw [Function.update_same]
      exact loadTable_self T')
    hfree hmerge
    (by
      have hb : v'.superblock.blocksPerGroupExtentTable * v'.superblock.blockSize
          = v.superblock.blocksPerGroupExtentTable * v.superblock.blockSize := by rw [hv']; rfl
      rw [hb, hlen, u16_of_lt hlen16]
      unfold tableFits at hfits
      omega)
  refine ⟨_, hF, ?_⟩
  -- the volume after the release, in terms of the volume before the allocation
  have hshape : ({ v' with
      superblock := { v'.superblock with blocksUsed := sub64 v'.superblock.blocksUsed E.count }
      groupDescriptorTable := Function.update v'.groupDescriptorTable g
        ⟨(v.groupDescriptorTable g).extentTable, u16 (T'' ++ [f]).length,
          sub16 (u16 ((v.groupDescriptorTable g).blocksUsed + e.count)) E.count⟩
      extentTables := Function.update v'.extentTables (v.groupDescriptorTable g).extentTable
        (T'' ++ [f]) } : EsFSVolume)
      = { v with
          superblock := { v.superblock with blocksUsed := v.superblock.blocksUsed }
          groupDescriptorTable := Function.update v.groupDescriptorTable g
            ⟨(v.groupDescriptorTable g).extentTable, (T'' ++ [f]).length,
              (v.groupDescriptorTable g).blocksUsed⟩
          extentTables := Function.update v.extentTables (v.groupDescriptorTable g).extentTable
            (T'' ++ [f]) } := by
    have hs : sub64 ((v.superblock.blocksUsed + e.count) % 18446744073709551616) E.count
        = v.superblock.blocksUsed := by
      rw [hEc]
      unfold sub64
      omega
    have hd : sub16 (u16 ((v.groupDescriptorTable g).blocksUsed + e.count)) E.count
        = (v.groupDescriptorTable g).blocksUsed := by
      rw [hEc]
      unfold sub16 u16
      omega
    rw [hd, hlen, u16_of_lt hlen16, hv']
    show EsFSVolume.mk _ _ _ _ _ _ _ = EsFSVolume.mk _ _ _ _ _ _ _
    congr 1
    · show EsFSSuperblock.mk _ _ _ _ _ _ = EsFSSuperblock.mk _ _ _ _ _ _
      congr 1
    · exact Function.update_idem _ _ _
    · exact Function.update_idem _ _ _
  rw [hshape]
  have htables : ∀ g', g' < v.superblock.groupCount →
      AllocateExtent.loadedTable
        { v with
          superblock := { v.superblock with blocksUsed := v.superblock.blocksUsed }
          groupDescriptorTable := Function.update v.groupDescriptorTable g
            ⟨(v.groupDescriptorTable g).extentTable, (T'' ++ [f]).length,
              (v.groupDescriptorTable g).blocksUsed⟩
          extentTables := Function.update v.extentTables (v.groupDescriptorTable g).extentTable
            (T'' ++ [f]) } g'
        = if g' = g then T'' ++ [f] else AllocateExtent.loadedTable v g' :=
    fun g' hg' => FreeExtent.loadedTable_store v hwf g hg hready (T'' ++ [f]) _ _ _ rfl g' hg'
  have hpermAll : ∀ g', g' < v.superblock.groupCount →
      (AllocateExtent.loadedTable
        { v with
          superblock := { v.superblock with blocksUsed := v.superblock.blocksUsed }
          groupDescriptorTable := Function.update v.groupDescriptorTable g
            ⟨(v.groupDescriptorTable g).extentTable, (T'' ++ [f]).length,
              (v.groupDescriptorTable g).blocksUsed⟩
          extentTables := Function.update v.extentTables (v.groupDescriptorTable g).extentTable
            (T'' ++ [f]) } g').Perm (AllocateExtent.loadedTable v g') := by
    intro g' hg'
    rw [htables g' hg']
    by_cases hgg : g' = g
    · rw [if_pos hgg, hgg]; exact hperm
    · rw [if_neg hgg]
  refine ⟨?_, ?_, rfl, hpermAll⟩
  · intro x
    unfold freeBlock
    constructor
    · rintro ⟨g', hg', a, ha, hx⟩
      exact ⟨g', hg', a, (hpermAll g' hg').mem_iff.1 ha, hx⟩
    · rintro ⟨g', hg', a, ha, hx⟩
      exact ⟨g', hg', a, (hpermAll g' hg').mem_iff.2 ha, hx⟩
  · show Function.update v.groupDescriptorTable g _ = v.groupDescriptorTable
    rw [hlen]
    exact Function.update_eq_self g v.groupDescriptorTable

theorem AllocateExtent_then_FreeExtent_witness :
    AllocatorWF sampleVolume ∧ tableFits sampleVolume 0
      ∧ ∃ v' v'', AllocateExtent sampleVolume 0 5 0 = .ok (⟨43, 5⟩, v')
        ∧ FreeExtent v' ⟨43, 5⟩ = .ok v''
        ∧ (∀ x, freeBlock v'' x ↔ freeBlock sampleVolume x)
        ∧ v''.groupDescriptorTable = sampleVolume.groupDescriptorTable
        ∧ v''.superblock = sampleVolume.superblock := by
  refine ⟨allocatorWF_sampleVolume, tableFits_sampleVolume 0, ?_⟩
  have h0 : (AllocateExtent sampleVolume 0 5 0).map (fun r => r.1) = .ok ⟨43, 5⟩ := rfl
  cases hr : AllocateExtent sampleVolume 0 5 0 with
  | error f => rw [hr] at h0; cases h0
  | ok r =>
    obtain ⟨E, v'⟩ := r
    rw [hr] at h0
    simp only [Except.map, Except.ok.injEq] at h0
    subst h0
    obtain ⟨v'', h1, h2, h3, h4, _⟩ := AllocateExtent_then_FreeExtent sampleVolume
      allocatorWF_sampleVolume 0 5 0 (by decide) ⟨43, 5⟩ v' hr (by decide) (by decide)
      (by
        intro a b ha hb
        have h : AllocateExtent.loadedTable sampleVolume (43 / 4096) = [⟨43, 4053⟩] := rfl
        rw [show (⟨43, 5⟩ : EsFSGlobalExtent).offset / sampleVolume.superblock.blocksPerGroup
          = 43 / 4096 from rfl, h, List.mem_singleton] at ha hb
        subst ha; subst hb
        decide)
      (tableFits_sampleVolume 0) (by decide) (by decide)
    exact ⟨v', v'', rfl, h1, h2, h3, h4⟩

/-! ### The layout of a directory block after CreateNode -/

set_option maxRecDepth 100000 in
/-- C31: the small volume has one free block, block 100.  After a first entry
has been created, the stream of the directory has one block of 512 bytes, block
100, which holds that entry packed at offset 0 ("DirEntry", 257 bytes) and
zero bytes behind it; the free space of the block starts at offset 257.  A
second entry of 257 bytes does not fit there, and the stream cannot grow.
`CreateNode` returns `true` (as it did for the first entry); the stream still
has the one block 100, no block was added, and the new entry (the last byte of
its name is "B") lies at offset 0 of that block, where the first entry was,
not behind the last entry of the block.  The block is laid out as before: one
entry at offset 0, zero bytes from offset 257 on. -/
theorem CreateNode_failed_grow_places_entry_at_start :
    ((do
      let r1 ← CreateNode smallVolume emptyDirectory (longName 65) ESFS_FILE_TYPE_FILE
        (fun i => i + 1) (fun _ => 0)
      let data1 ← (match r1.2.1.data with
        | some data => .ok data
        | none => .error .noDataAttribute : Except DirectoryFault EsFSAttributeFileData)
      let last ← CreateNode.lastBlock r1.2.2 data1
      let place ← CreateNode.place r1.2.2 r1.2.1 (longName 66) ESFS_FILE_TYPE_FILE
        (fun i => i + 2) (fun _ => 0)
      let r2 ← CreateNode r1.2.2 r1.2.1 (longName 66) ESFS_FILE_TYPE_FILE
        (fun i => i + 2) (fun _ => 0)
      pure ([r1.1, r2.1,
          (readBytes r1.2.2.disk (100 * 512 + 257) 255).all (fun b => b = 0),
          (readBytes r2.2.2.disk (100 * 512 + 257) 255).all (fun b => b = 0)],
        [data1.size, streamBlock r1.2.2 data1 0, last.2,
          (CreateNode.entry (longName 66) ESFS_FILE_TYPE_FILE (fun i => i + 2)).2.1,
          place.1, place.2, (AccessBlockRead r2.2.2 100 512 0).getD 116 0],
        [readBytes r1.2.2.disk (100 * 512) 8, readBytes r2.2.2.disk (100 * 512) 8],
        r2.2.1.data.map (fun data => [data.size, streamBlock r2.2.2 data 0])))
        : Except DirectoryFault _).toOption
      = some ([true, true, true, true], [512, 100, 257, 257, 100, 0, 66],
          [ESFS_DIRECTORY_ENTRY_SIGNATURE, ESFS_DIRECTORY_ENTRY_SIGNATURE],
          some [512, 100]) := by
  decide!

/-- On a well-formed directory every `CreateNode` that returns `true` leaves
each block of the stream with its entries packed from offset 0 and zero bytes
behind them. -/
theorem CreateNode_keeps_blocks_packed (v : EsFSVolume) (hvol : VolumeWF v)
    (directory : DirectoryNode) (data : EsFSAttributeFileData)
    (blocks : List (List (Nat × List Nat))) (hd : DirectoryWF v directory data blocks)
    (name : List Nat) (type : Nat) (random : Nat → Nat) (uninit : Nat → Nat)
    (hn : name.length < 256)
    (htype : type = ESFS_FILE_TYPE_FILE ∨ type = ESFS_FILE_TYPE_DIRECTORY)
    (directory' : DirectoryNode) (v' : EsFSVolume)
    (h : CreateNode v directory name type random uninit = .ok (true, directory', v')) :
    ∃ (data' : EsFSAttributeFileData) (blocks' : List (List (Nat × List Nat))),
      directory'.data = some data'
      ∧ data'.size = blocks'.length * v'.superblock.blockSize
      ∧ ∀ k, k < blocks'.length →
          Packed (directoryBlock v' data' k) v'.superblock.blockSize 0 (blocks'.getD k []) := by
  obtain ⟨data', before, pre, hdir, hl, _⟩ :=
    CreateNode_stored v hvol directory data blocks hd name type random uninit hn htype
      directory' v' h
  exact ⟨data', _, by rw [hdir], hl.size, hl.packed⟩

end EsFS
